import Mathlib

/-!
# Regular-expression engine of Nirvana-Qt (`src/regex/Regex.cpp`)

A shallow embedding of the compiler (`Regex::Regex`, `chunk`, `alternative`,
`piece`, `atom` and the emit helpers), of the matcher (`ExecRE`, `attempt`,
`match`, `greedy`) and of `SubstituteRE`.

Conventions of the embedding:

* a `prog_type` / `char` value is a `Nat` below 256; C strings are `List Nat`
  without their terminating NUL, a read at or after the end gives 0;
* a pointer into the compiled program is a `Ptr`; a pointer into the subject
  text is a `Nat` index, a nullable one is an `Option Nat`;
* loops and recursion of the C code are driven by an explicit fuel argument and
  are structurally recursive on it; running out of fuel is reported as an error
  (compiler) or as `none` (matcher).
-/

namespace Nirvana

/-! ## Constants of the source file -/

/-- Flag `WORST`: no assumption can be made. -/
@[simp] abbrev WORST : Nat := 0
/-- Flag `HAS_WIDTH`: known never to match the null string. -/
@[simp] abbrev HAS_WIDTH : Nat := 1
/-- Flag `SIMPLE`: simple enough to be a STAR/PLUS operand. -/
@[simp] abbrev SIMPLE : Nat := 2

@[simp] abbrev NO_PAREN : Nat := 0
@[simp] abbrev PAREN : Nat := 1
@[simp] abbrev NO_CAPTURE : Nat := 2
@[simp] abbrev INSENSITIVE : Nat := 3
@[simp] abbrev SENSITIVE : Nat := 4
@[simp] abbrev NEWLINE : Nat := 5
@[simp] abbrev NO_NEWLINE : Nat := 6

@[simp] abbrev REG_INFINITY : Nat := 0
@[simp] abbrev REG_ZERO : Nat := 0
@[simp] abbrev REG_ONE : Nat := 1

@[simp] abbrev MaxBackRefs : Nat := 10
@[simp] abbrev LengthSize : Nat := 4
@[simp] abbrev IndexSize : Nat := 1
@[simp] abbrev OpcodeSize : Nat := 1
@[simp] abbrev NextPtrSize : Nat := 2
@[simp] abbrev NodeSize : Nat := NextPtrSize + OpcodeSize

/-- Modelled from the spec: `NSUBEXP` is declared in `Regex.h`, which is not among the
sources; the spec gives the fixed maximum as "historically 50". -/
@[simp] abbrev NSUBEXP : Nat := 50

/-- The magic number `0234` (octal) that starts every program. -/
@[simp] abbrev MAGIC : Nat := 156

@[simp] abbrev END : Nat := 1
@[simp] abbrev BOL : Nat := 2
@[simp] abbrev EOL : Nat := 3
@[simp] abbrev BOWORD : Nat := 4
@[simp] abbrev EOWORD : Nat := 5
@[simp] abbrev NOT_BOUNDARY : Nat := 6
@[simp] abbrev EXACTLY : Nat := 7
@[simp] abbrev SIMILAR : Nat := 8
@[simp] abbrev ANY_OF : Nat := 9
@[simp] abbrev ANY_BUT : Nat := 10
@[simp] abbrev ANY : Nat := 11
@[simp] abbrev EVERY : Nat := 12
@[simp] abbrev DIGIT : Nat := 13
@[simp] abbrev NOT_DIGIT : Nat := 14
@[simp] abbrev LETTER : Nat := 15
@[simp] abbrev NOT_LETTER : Nat := 16
@[simp] abbrev SPACE : Nat := 17
@[simp] abbrev SPACE_NL : Nat := 18
@[simp] abbrev NOT_SPACE : Nat := 19
@[simp] abbrev NOT_SPACE_NL : Nat := 20
@[simp] abbrev WORD_CHAR : Nat := 21
@[simp] abbrev NOT_WORD_CHAR : Nat := 22
@[simp] abbrev IS_DELIM : Nat := 23
@[simp] abbrev NOT_DELIM : Nat := 24
@[simp] abbrev STAR : Nat := 25
@[simp] abbrev LAZY_STAR : Nat := 26
@[simp] abbrev QUESTION : Nat := 27
@[simp] abbrev LAZY_QUESTION : Nat := 28
@[simp] abbrev PLUS : Nat := 29
@[simp] abbrev LAZY_PLUS : Nat := 30
@[simp] abbrev BRACE : Nat := 31
@[simp] abbrev LAZY_BRACE : Nat := 32
@[simp] abbrev NOTHING : Nat := 33
@[simp] abbrev BRANCH : Nat := 34
@[simp] abbrev BACK : Nat := 35
@[simp] abbrev INIT_COUNT : Nat := 36
@[simp] abbrev INC_COUNT : Nat := 37
@[simp] abbrev TEST_COUNT : Nat := 38
@[simp] abbrev BACK_REF : Nat := 39
@[simp] abbrev BACK_REF_CI : Nat := 40
@[simp] abbrev X_REGEX_BR : Nat := 41
@[simp] abbrev X_REGEX_BR_CI : Nat := 42
@[simp] abbrev POS_AHEAD_OPEN : Nat := 43
@[simp] abbrev NEG_AHEAD_OPEN : Nat := 44
@[simp] abbrev LOOK_AHEAD_CLOSE : Nat := 45
@[simp] abbrev POS_BEHIND_OPEN : Nat := 46
@[simp] abbrev NEG_BEHIND_OPEN : Nat := 47
@[simp] abbrev LOOK_BEHIND_CLOSE : Nat := 48
@[simp] abbrev OPEN : Nat := 49
@[simp] abbrev CLOSE : Nat := OPEN + NSUBEXP
@[simp] abbrev LAST_PAREN : Nat := CLOSE + NSUBEXP

/-- The string `Default_Meta_Char`, that is `{.*+?[(|)^<>$`. -/
def Default_Meta_Char : List Nat := [123, 46, 42, 43, 63, 91, 40, 124, 41, 94, 60, 62, 36]
/-- The string `ASCII_Digits`. -/
def ASCII_Digits : List Nat := [48, 49, 50, 51, 52, 53, 54, 55, 56, 57]

@[simp] abbrev REGEX_START_OFFSET : Nat := 3
@[simp] abbrev MAX_COMPILED_SIZE : Nat := 32767
@[simp] abbrev REGEX_RECURSION_LIMIT : Nat := 10000
/-- The flag bit `REDFLT_CASE_INSENSITIVE` of `defaultFlags`. -/
@[simp] abbrev REDFLT_CASE_INSENSITIVE : Nat := 1

@[simp] abbrev CHECK_ESCAPE : Nat := 0
@[simp] abbrev CHECK_CLASS_ESCAPE : Nat := 1
@[simp] abbrev EMIT_CLASS_BYTES : Nat := 2
@[simp] abbrev EMIT_NODE : Nat := 3

/-! ## The C library, "C" locale, on byte values -/

/-- Bytes of a string literal. -/
def bytes (s : String) : List Nat := s.toList.map Char.toNat

/-- The character of a C string at an index; the terminator and beyond read as 0. -/
def charAt (s : List Nat) (i : Nat) : Nat := s.getD i 0

/-- The value, as an `int`, of a `char` that holds the byte `c`: the type `char` is signed,
so that the bytes above 127 are the negative values. -/
def schar (c : Nat) : Int := if c < 128 then (c : Int) else ((c % 256 : Nat) : Int) - 256

def isdigit (c : Nat) : Bool := decide (48 ≤ c) && decide (c ≤ 57)
def isupper (c : Nat) : Bool := decide (65 ≤ c) && decide (c ≤ 90)
def islower (c : Nat) : Bool := decide (97 ≤ c) && decide (c ≤ 122)
def isalpha (c : Nat) : Bool := isupper c || islower c
def isalnum (c : Nat) : Bool := isalpha c || isdigit c
def isspace (c : Nat) : Bool := decide (c = 32) || (decide (9 ≤ c) && decide (c ≤ 13))
def tolower (c : Nat) : Nat := if isupper c then c + 32 else c
def toupper (c : Nat) : Nat := if islower c then c - 32 else c

/-- The function `strchr`: index of the first occurrence of `c` in `s`; the terminating NUL
counts as part of the string, so `c = 0` is found at `s.length`. -/
def strchr : List Nat → Nat → Option Nat
  | [], c => if c = 0 then some 0 else none
  | x :: xs, c => if x = c then some 0 else (strchr xs c).map (fun i => i + 1)

/-! ## Pointers into the program -/

/-- A `prog_type *` value: `nullptr`, the address of the flag variable `Compute_Size`
(also standing for the addresses computed from it, which the code never inspects nor
dereferences), the value `reinterpret_cast<prog_type *>(1)`, or `program_ + off`. -/
inductive Ptr where
  | null : Ptr
  | Compute_Size : Ptr
  | one : Ptr
  | prog (off : Nat) : Ptr
  deriving DecidableEq, Repr

/-- Pointer arithmetic `p + k`. -/
def Ptr.add : Ptr → Int → Ptr
  | .prog off, k => .prog ((off : Int) + k).toNat
  | p, _ => p

/-- Pointer difference `p - q` of two pointers into the program. -/
def Ptr.diff : Ptr → Ptr → Int
  | .prog a, .prog b => (a : Int) - (b : Int)
  | _, _ => 0

/-- Read `p[i]`. -/
def peek (program : List Nat) (p : Ptr) (i : Nat) : Nat :=
  match p with
  | .prog off => program.getD (off + i) 0
  | _ => 0

/-- Write `p[0] = v`, the value cut to 8 bits. -/
def poke (program : List Nat) (p : Ptr) (v : Nat) : List Nat :=
  match p with
  | .prog off => program.set off (v % 256)
  | _ => program

def getOpcode (program : List Nat) (p : Ptr) : Nat := peek program p 0

def OPERAND (p : Ptr) : Ptr := p.add NodeSize

def getOffset (program : List Nat) (p : Ptr) : Nat :=
  (peek program p 1 % 256) * 256 + (peek program p 2 % 256)

def putOffsetL (v : Int) : Nat := ((v / 256) % 256).toNat

def putOffsetR (v : Int) : Nat := (v % 256).toNat

def getLower (program : List Nat) (p : Ptr) : Nat :=
  (peek program p NodeSize % 256) * 256 + (peek program p (NodeSize + 1) % 256)

def getUpper (program : List Nat) (p : Ptr) : Nat :=
  (peek program p (NodeSize + 2) % 256) * 256 + (peek program p (NodeSize + 3) % 256)

/-- The function `next_ptr`: address of the node a node's NEXT pointer refers to. -/
def next_ptr (program : List Nat) (ptr : Ptr) : Ptr :=
  if ptr = Ptr.Compute_Size then Ptr.null
  else
    let offset := getOffset program ptr
    if offset = 0 then Ptr.null
    else if getOpcode program ptr = BACK then ptr.add (-(offset : Int))
    else ptr.add (offset : Int)

/-! ## Errors of the compiler -/

/-- The `RegexException`s thrown by the compiler, one constructor per message. -/
inductive CompileError where
  | internal_error_1
  | too_many_parens
  | missing_right_paren
  | missing_left_paren
  | junk_on_end
  | look_behind_unbounded
  | look_behind_too_large
  | min_operand_too_big
  | max_operand_too_big
  | range_zero
  | range_zero_zero
  | range_max_zero
  | missing_right_brace
  | range_backward
  | too_many_braces
  | operand_could_be_empty
  | internal_error_2
  | nested_quantifiers
  | invalid_look_behind
  | invalid_grouping
  | internal_error_3
  | follows_nothing
  | brace_follows_nothing
  | not_allowed_as_range_operand
  | invalid_class_escape
  | invalid_class_range
  | missing_right_bracket
  | invalid_escape
  | internal_error_4
  | internal_error_shortcut
  | illegal_back_reference
  | invalid_octal_escape
  | invalid_hex_escape
  | regexp_too_big
  | internal_error
  | does_not_terminate
  | out_of_fuel
  deriving DecidableEq, Repr

instance instDecidableEqExcept {ε α : Type} [DecidableEq ε] [DecidableEq α] :
    DecidableEq (Except ε α)
  | .ok a, .ok b =>
    if h : a = b then isTrue (by rw [h]) else isFalse (by intro h2; cases h2; exact h rfl)
  | .error a, .error b =>
    if h : a = b then isTrue (by rw [h]) else isFalse (by intro h2; cases h2; exact h rfl)
  | .ok _, .error _ => isFalse (by intro h; cases h)
  | .error _, .ok _ => isFalse (by intro h; cases h)

/-- The struct `len_range` (declared in `Regex.h`): two `long` bounds, -1 for "not bounded". -/
structure len_range where
  lower : Int
  upper : Int
  deriving DecidableEq, Repr

/-- The value, as a `long` of 64 bits, of a result computed in `unsigned long`: the result
modulo 2^64, the values from 2^63 on being the negative ones. -/
def wrap64 (x : Int) : Int := (x + 2 ^ 63) % 2 ^ 64 - 2 ^ 63

/-! ## Compile state and the emit helpers -/

/-- The struct `CompileState`, together with the members of `Regex` that the compiler
updates (`program_`, `Total_Paren`, `Num_Braces`).  `Brace_Char` and `Meta_Char` are the
constants chosen under `ENABLE_COUNTING_QUANTIFIER`.  The flag `hang` is set when a walk
along NEXT pointers does not reach the end of the chain within the length of the buffer,
a case in which the C loop does not terminate. -/
structure CompileState where
  Reg_Parse : Nat
  Closed_Parens : List Bool
  Paren_Has_Width : List Bool
  Code_Emit_Ptr : Ptr
  Reg_Size : Nat
  Is_Case_Insensitive : Bool
  Match_Newline : Bool
  program_ : List Nat
  Total_Paren : Nat
  Num_Braces : Nat
  hang : Bool
  deriving DecidableEq, Repr

@[simp] abbrev Brace_Char : Nat := 123

/-- The method `CompileState::isQuantifier`. -/
def isQuantifier (c : Nat) : Bool :=
  decide (c = 42) || decide (c = 43) || decide (c = 63) || decide (c = Brace_Char)

/-- The function `literal_escape`: value of an escaped literal character, 0 if none. -/
def literal_escape (c : Nat) : Nat :=
  if c = 97 then 7 else if c = 98 then 8 else if c = 101 then 27 else if c = 102 then 12
  else if c = 110 then 10 else if c = 114 then 13 else if c = 116 then 9 else if c = 118 then 11
  else if c = 40 ∨ c = 41 ∨ c = 45 ∨ c = 91 ∨ c = 93 ∨ c = 60 ∨ c = 62 ∨ c = 123 ∨ c = 125
    ∨ c = 46 ∨ c = 92 ∨ c = 124 ∨ c = 94 ∨ c = 36 ∨ c = 42 ∨ c = 43 ∨ c = 63 ∨ c = 38 then c
  else 0

/-- The table `digits` of `numeric_escape`, that is `fedcbaFEDCBA9876543210`. -/
def numeric_digits : List Nat :=
  [102, 101, 100, 99, 98, 97, 70, 69, 68, 67, 66, 65, 57, 56, 55, 54, 53, 52, 51, 50, 49, 48]

/-- The table `digit_val` of `numeric_escape`. -/
def digit_val : List Nat :=
  [15, 14, 13, 12, 11, 10, 15, 14, 13, 12, 11, 10, 9, 8, 7, 6, 5, 4, 3, 2, 1, 0]

/-- The digit loop of `numeric_escape`: `i` counts the iterations left (`width - i` in the
source), `scan` is the index of the character under test.  When the character is the
terminator of the string, `strchr` finds the terminator of `digits` and `digit_val` is read
past its last entry, which is undefined; the value read is taken to be above 255, so that the
loop backs the digit out and ends at the terminator, as it ends at any character that is not
a digit. -/
def numeric_escape_loop (s digit_str : List Nat) (radix pos_delta : Nat) :
    Nat → Nat → Nat → Nat × Nat
  | 0, value, scan => (value, scan)
  | i + 1, value, scan =>
    match strchr digit_str (charAt s scan) with
    | none => (value, scan)
    | some idx =>
      let pos := idx + pos_delta
      if digit_val.length ≤ pos then (value, scan)
      else
        let value1 := value * radix + digit_val.getD pos 0
        if value1 > 255 then ((value1 - digit_val.getD pos 0) / radix, scan)
        else numeric_escape_loop s digit_str radix pos_delta i value1 (scan + 1)

/-- The function `numeric_escape`: `c` is the character at index `parse` of `s`.  Returns the
value (0 when `c` does not start a numeric escape) and the new value of `*parse`. -/
def numeric_escape (s : List Nat) (c : Nat) (parse : Nat) : Except CompileError (Nat × Nat) :=
  if c = 48 then
    let r := numeric_escape_loop s (numeric_digits.drop 14) 8 14 3 0 (parse + 1)
    if r.1 = 0 then .error .invalid_octal_escape else .ok (r.1 % 256, r.2 - 1)
  else if c = 120 ∨ c = 88 then
    let r := numeric_escape_loop s numeric_digits 16 0 2 0 (parse + 1)
    if r.1 = 0 then .error .invalid_hex_escape else .ok (r.1 % 256, r.2 - 1)
  else .ok (0, parse)

/-- The loop of `init_ansi_classes`, for `i` from 1 to `UCHAR_MAX - 1`; the `char` values
above 127 are negative and belong to no class in the "C" locale. -/
def init_ansi_classes (p : Nat → Bool) : List Nat :=
  ((List.range 255).drop 1).filter (fun i => decide (i < 128) && p i)

def WordChar : List Nat := init_ansi_classes (fun c => isalnum c || decide (c = 95))
def LetterChar : List Nat := init_ansi_classes isalpha
def WhiteSpace : List Nat := init_ansi_classes (fun c => isspace c && !decide (c = 10))

/-- The function `emit_byte`. -/
def emit_byte (c : Nat) (cState : CompileState) : CompileState :=
  if cState.Code_Emit_Ptr = Ptr.Compute_Size then
    { cState with Reg_Size := cState.Reg_Size + 1 }
  else
    { cState with program_ := poke cState.program_ cState.Code_Emit_Ptr c,
                  Code_Emit_Ptr := cState.Code_Emit_Ptr.add 1 }

/-- The function `emit_class_byte`. -/
def emit_class_byte (c : Nat) (cState : CompileState) : CompileState :=
  if cState.Code_Emit_Ptr = Ptr.Compute_Size then
    if cState.Is_Case_Insensitive && isalpha c then
      { cState with Reg_Size := cState.Reg_Size + 1 + 1 }
    else { cState with Reg_Size := cState.Reg_Size + 1 }
  else if cState.Is_Case_Insensitive && isalpha c then
    { cState with
        program_ := poke (poke cState.program_ cState.Code_Emit_Ptr (tolower c))
                      (cState.Code_Emit_Ptr.add 1) (toupper c),
        Code_Emit_Ptr := cState.Code_Emit_Ptr.add 2 }
  else
    { cState with program_ := poke cState.program_ cState.Code_Emit_Ptr c,
                  Code_Emit_Ptr := cState.Code_Emit_Ptr.add 1 }

/-- The function `emit_node`: returns the address of the start of the node. -/
def emit_node (op_code : Nat) (cState : CompileState) : Ptr × CompileState :=
  let ret_val := cState.Code_Emit_Ptr
  if ret_val = Ptr.Compute_Size then
    (ret_val, { cState with Reg_Size := cState.Reg_Size + NodeSize })
  else
    (ret_val,
      { cState with
          program_ := poke (poke (poke cState.program_ ret_val op_code) (ret_val.add 1) 0)
                        (ret_val.add 2) 0,
          Code_Emit_Ptr := ret_val.add 3 })

/-- The function `emit_special`. -/
def emit_special (op_code : Nat) (test_val : Nat) (index : Nat) (cState : CompileState) :
    Ptr × CompileState :=
  if cState.Code_Emit_Ptr = Ptr.Compute_Size then
    if op_code = POS_BEHIND_OPEN ∨ op_code = NEG_BEHIND_OPEN then
      (Ptr.Compute_Size, { cState with Reg_Size := cState.Reg_Size + LengthSize + NodeSize })
    else if op_code = TEST_COUNT then
      (Ptr.Compute_Size,
        { cState with Reg_Size := cState.Reg_Size + NextPtrSize + IndexSize + NodeSize })
    else if op_code = INC_COUNT then
      (Ptr.Compute_Size, { cState with Reg_Size := cState.Reg_Size + IndexSize + NodeSize })
    else (Ptr.Compute_Size, { cState with Reg_Size := cState.Reg_Size + NodeSize })
  else
    let r := emit_node op_code cState
    let ptr := r.2.Code_Emit_Ptr
    if op_code = INC_COUNT then
      (r.1, { r.2 with program_ := poke r.2.program_ ptr index, Code_Emit_Ptr := ptr.add 1 })
    else if op_code = TEST_COUNT then
      (r.1, { r.2 with
                program_ := poke (poke (poke r.2.program_ ptr index) (ptr.add 1)
                              (putOffsetL test_val)) (ptr.add 2) (putOffsetR test_val),
                Code_Emit_Ptr := ptr.add 3 })
    else if op_code = POS_BEHIND_OPEN ∨ op_code = NEG_BEHIND_OPEN then
      (r.1, { r.2 with
                program_ := poke (poke (poke (poke r.2.program_ ptr (putOffsetL test_val))
                              (ptr.add 1) (putOffsetR test_val)) (ptr.add 2)
                              (putOffsetL test_val)) (ptr.add 3) (putOffsetR test_val),
                Code_Emit_Ptr := ptr.add 4 })
    else r

/-- The relocation loop of `insert`, `while (src > insert_pos) *--dst = *--src;`, with
`n = src - insert_pos` bytes left to move up by `size`. -/
def insert_move (insert_pos : Ptr) (size : Nat) : Nat → List Nat → List Nat
  | 0, program => program
  | n + 1, program =>
    insert_move insert_pos size n
      (poke program (insert_pos.add ((n + size : Nat) : Int)) (peek program insert_pos n))

/-- The function `insert`: returns the address of the start of the code moved. -/
def insert (op : Nat) (insert_pos : Ptr) (min max : Nat) (index : Nat) (cState : CompileState) :
    Ptr × CompileState :=
  let insert_size :=
    if op = BRACE ∨ op = LAZY_BRACE then NodeSize + 2 * NextPtrSize
    else if op = INIT_COUNT then NodeSize + IndexSize
    else NodeSize
  if cState.Code_Emit_Ptr = Ptr.Compute_Size then
    (Ptr.Compute_Size, { cState with Reg_Size := cState.Reg_Size + insert_size })
  else
    let src := cState.Code_Emit_Ptr
    let moved :=
      insert_move insert_pos insert_size (src.diff insert_pos).toNat cState.program_
    let p3 := poke (poke (poke moved insert_pos op) (insert_pos.add 1) 0) (insert_pos.add 2) 0
    if op = BRACE ∨ op = LAZY_BRACE then
      (insert_pos.add 7,
        { cState with
            program_ := poke (poke (poke (poke p3 (insert_pos.add 3) (putOffsetL min))
                          (insert_pos.add 4) (putOffsetR min)) (insert_pos.add 5)
                          (putOffsetL max)) (insert_pos.add 6) (putOffsetR max),
            Code_Emit_Ptr := src.add insert_size })
    else if op = INIT_COUNT then
      (insert_pos.add 4,
        { cState with program_ := poke p3 (insert_pos.add 3) index,
                      Code_Emit_Ptr := src.add insert_size })
    else
      (insert_pos.add 3, { cState with program_ := p3, Code_Emit_Ptr := src.add insert_size })

/-- The walk of `tail`: the last node of the chain that starts at `scan`. -/
def last_in_chain (program : List Nat) : Nat → Ptr → Option Ptr
  | 0, _ => none
  | fuel + 1, scan =>
    if next_ptr program scan = Ptr.null then some scan
    else last_in_chain program fuel (next_ptr program scan)

/-- The function `tail`: set the NEXT pointer at the end of a node chain. -/
def tail (search_from point_to : Ptr) (cState : CompileState) : CompileState :=
  if search_from = Ptr.Compute_Size then cState
  else
    match last_in_chain cState.program_ (cState.program_.length + 1) search_from with
    | none => { cState with hang := true }
    | some scan =>
      let offset : Int :=
        if getOpcode cState.program_ scan = BACK then scan.diff point_to
        else point_to.diff scan
      { cState with
          program_ := poke (poke cState.program_ (scan.add 1) (putOffsetL offset))
                        (scan.add 2) (putOffsetR offset) }

/-- The function `offset_tail`. -/
def offset_tail (ptr : Ptr) (offset : Int) (val : Ptr) (cState : CompileState) : CompileState :=
  if ptr = Ptr.Compute_Size ∨ ptr = Ptr.null then cState
  else tail (ptr.add offset) val cState

/-- The function `branch_tail`. -/
def branch_tail (ptr : Ptr) (offset : Int) (val : Ptr) (cState : CompileState) : CompileState :=
  if ptr = Ptr.Compute_Size ∨ ptr = Ptr.null ∨ getOpcode cState.program_ ptr ≠ BRANCH then cState
  else tail (ptr.add offset) val cState

/-! ## The grammar: escapes -/

/-- Result of a grammar function: the returned node address, the values stored through
`flag_param` and `range_param`, and the compile state. -/
structure Res where
  ret_val : Ptr
  flag : Nat
  range : len_range
  cState : CompileState
  deriving DecidableEq, Repr

/-- The string `codes` of `shortcut_escape`, that is `ByYdDlLsSwW`. -/
def shortcut_codes : List Nat := [66, 121, 89, 100, 68, 108, 76, 115, 83, 119, 87]

/-- Emit the bytes of a class string, `while (*characterClass != 0) emit_byte(...)`. -/
def emit_bytes : List Nat → CompileState → CompileState
  | [], cState => cState
  | c :: cs, cState => emit_bytes cs (emit_byte c cState)

/-- The function `shortcut_escape`; `flag` is the value behind `flag_param` (unused when the
source passes `nullptr`).  Returns the node address (null: not a shortcut escape), the new
flag value and the state. -/
def shortcut_escape (c : Nat) (flag : Nat) (emitType : Nat) (cState : CompileState) :
    Except CompileError (Ptr × Nat × CompileState) :=
  let valid_codes :=
    if emitType = EMIT_CLASS_BYTES ∨ emitType = CHECK_CLASS_ESCAPE then shortcut_codes.drop 3
    else shortcut_codes
  if (strchr valid_codes c).isNone then .ok (Ptr.null, flag, cState)
  else if emitType = CHECK_ESCAPE ∨ emitType = CHECK_CLASS_ESCAPE then .ok (Ptr.one, flag, cState)
  else if c = 100 ∨ c = 68 then
    if emitType = EMIT_CLASS_BYTES then .ok (Ptr.one, flag, emit_bytes ASCII_Digits cState)
    else if emitType = EMIT_NODE then
      let r := if islower c then emit_node DIGIT cState else emit_node NOT_DIGIT cState
      .ok (r.1, flag ||| (HAS_WIDTH ||| SIMPLE), r.2)
    else .ok (Ptr.one, flag, cState)
  else if c = 108 ∨ c = 76 then
    if emitType = EMIT_CLASS_BYTES then .ok (Ptr.one, flag, emit_bytes LetterChar cState)
    else if emitType = EMIT_NODE then
      let r := if islower c then emit_node LETTER cState else emit_node NOT_LETTER cState
      .ok (r.1, flag ||| (HAS_WIDTH ||| SIMPLE), r.2)
    else .ok (Ptr.one, flag, cState)
  else if c = 115 ∨ c = 83 then
    if emitType = EMIT_CLASS_BYTES then
      let cs1 := if cState.Match_Newline then emit_byte 10 cState else cState
      .ok (Ptr.one, flag, emit_bytes WhiteSpace cs1)
    else if emitType = EMIT_NODE then
      let r :=
        if cState.Match_Newline then
          (if islower c then emit_node SPACE_NL cState else emit_node NOT_SPACE_NL cState)
        else (if islower c then emit_node SPACE cState else emit_node NOT_SPACE cState)
      .ok (r.1, flag ||| (HAS_WIDTH ||| SIMPLE), r.2)
    else .ok (Ptr.one, flag, cState)
  else if c = 119 ∨ c = 87 then
    if emitType = EMIT_CLASS_BYTES then .ok (Ptr.one, flag, emit_bytes WordChar cState)
    else if emitType = EMIT_NODE then
      let r := if islower c then emit_node WORD_CHAR cState else emit_node NOT_WORD_CHAR cState
      .ok (r.1, flag ||| (HAS_WIDTH ||| SIMPLE), r.2)
    else .ok (Ptr.one, flag, cState)
  else if c = 121 then
    if emitType = EMIT_NODE then
      let r := emit_node IS_DELIM cState
      .ok (r.1, flag ||| (HAS_WIDTH ||| SIMPLE), r.2)
    else .error .internal_error_shortcut
  else if c = 89 then
    if emitType = EMIT_NODE then
      let r := emit_node NOT_DELIM cState
      .ok (r.1, flag ||| (HAS_WIDTH ||| SIMPLE), r.2)
    else .error .internal_error_shortcut
  else if c = 66 then
    if emitType = EMIT_NODE then
      let r := emit_node NOT_BOUNDARY cState
      .ok (r.1, flag, r.2)
    else .error .internal_error_shortcut
  else .error .internal_error_shortcut

/-- The function `back_ref`; `c` is the character the source reaches through its pointer
argument.  Returns the node address (null: not a back reference), the new flag value and
the state. -/
def back_ref (c : Nat) (flag : Nat) (emitType : Nat) (cState : CompileState) :
    Except CompileError (Ptr × Nat × CompileState) :=
  let paren_no := c - 48
  if !isdigit c ∨ paren_no = 0 then .ok (Ptr.null, flag, cState)
  else if !cState.Closed_Parens.getD paren_no false then .error .illegal_back_reference
  else if emitType = EMIT_NODE then
    let r :=
      if cState.Is_Case_Insensitive then emit_node BACK_REF_CI cState
      else emit_node BACK_REF cState
    let cs1 := emit_byte paren_no r.2
    .ok (r.1, if cState.Paren_Has_Width.getD paren_no false then flag ||| HAS_WIDTH else flag, cs1)
  else if emitType = CHECK_ESCAPE then .ok (Ptr.one, flag, cState)
  else .ok (Ptr.null, flag, cState)

/-! ## The grammar: `atom` -/

/-- The comment loop at the head of `atom`, on the parse index alone.  Returns the index
after the comments and whether the end of the (parenthesized) regex was hit, in which case
`atom` emits a NOTHING node and returns. -/
def skip_comments (exp : List Nat) : Nat → Nat → Except CompileError (Nat × Bool)
  | 0, _ => .error .out_of_fuel
  | fuel + 1, rp =>
    if charAt exp rp = 40 ∧ charAt exp (rp + 1) = 63 ∧ charAt exp (rp + 2) = 35 then
      let body := (exp.drop (rp + 3)).takeWhile (fun c => decide (c ≠ 41) && decide (c ≠ 0))
      let rp1 := rp + 3 + body.length
      let rp2 := if charAt exp rp1 = 41 then rp1 + 1 else rp1
      if charAt exp rp2 = 41 ∨ charAt exp rp2 = 124 ∨ charAt exp rp2 = 0 then .ok (rp2, true)
      else skip_comments exp fuel rp2
    else .ok (rp, false)

/-- The range loop of a character class, `for (; second_value <= last_value; second_value++)
emit_class_byte(second_value)`, with `n` values left to emit. -/
def emit_class_range : Nat → Nat → CompileState → CompileState
  | 0, _, cState => cState
  | n + 1, second_value, cState =>
    emit_class_range n (second_value + 1) (emit_class_byte second_value cState)

/-- The loop over the members of a character class in `atom`, from the state after the
characters that can only start a class up to the closing bracket or the end of the regex. -/
def atom_class (exp : List Nat) : Nat → Nat → CompileState → Except CompileError CompileState
  | 0, _, _ => .error .out_of_fuel
  | fuel + 1, last_emit, cState =>
    let c := charAt exp cState.Reg_Parse
    if c = 0 ∨ c = 93 then .ok cState
    else if c = 45 then
      let rp := cState.Reg_Parse + 1
      if charAt exp rp = 93 ∨ charAt exp rp = 0 then
        atom_class exp fuel 45 (emit_byte 45 { cState with Reg_Parse := rp })
      else
        let second_value := (last_emit + 1) % 256
        let last : Except CompileError (Nat × Nat) :=
          if charAt exp rp = 92 then
            match numeric_escape exp (charAt exp (rp + 1)) (rp + 1) with
            | .error e => .error e
            | .ok (test, rp1) =>
              if test ≠ 0 then .ok (test, rp1)
              else if literal_escape (charAt exp (rp + 1)) ≠ 0 then
                .ok (literal_escape (charAt exp (rp + 1)), rp + 1)
              else
                match shortcut_escape (charAt exp (rp + 1)) 0 CHECK_CLASS_ESCAPE cState with
                | .error e => .error e
                | .ok r =>
                  if r.1 ≠ Ptr.null then .error .not_allowed_as_range_operand
                  else .error .invalid_class_escape
          else .ok (charAt exp rp, rp)
        match last with
        | .error e => .error e
        | .ok (last_value0, rp1) =>
          let second_value1 := if cState.Is_Case_Insensitive then tolower second_value % 256
                               else second_value
          let last_value := if cState.Is_Case_Insensitive then tolower last_value0 % 256
                            else last_value0
          if (second_value1 : Int) - 1 > (last_value : Int) then .error .invalid_class_range
          else if last_value ≥ 255 then .error .does_not_terminate
          else
            atom_class exp fuel last_value
              { emit_class_range (last_value + 1 - second_value1) second_value1
                  { cState with Reg_Parse := rp1 } with Reg_Parse := rp1 + 1 }
    else if c = 92 then
      let rp := cState.Reg_Parse + 1
      match numeric_escape exp (charAt exp rp) rp with
      | .error e => .error e
      | .ok (test, rp1) =>
        if test ≠ 0 then
          atom_class exp fuel test
            { emit_class_byte test { cState with Reg_Parse := rp1 } with Reg_Parse := rp1 + 1 }
        else if literal_escape (charAt exp rp) ≠ 0 then
          atom_class exp fuel (literal_escape (charAt exp rp))
            { emit_byte (literal_escape (charAt exp rp)) { cState with Reg_Parse := rp }
              with Reg_Parse := rp + 1 }
        else
          match shortcut_escape (charAt exp rp) 0 CHECK_CLASS_ESCAPE
              { cState with Reg_Parse := rp } with
          | .error e => .error e
          | .ok r =>
            if r.1 ≠ Ptr.null then
              if charAt exp (rp + 1) = 45 then .error .not_allowed_as_range_operand
              else
                match shortcut_escape (charAt exp rp) 0 EMIT_CLASS_BYTES
                    { cState with Reg_Parse := rp } with
                | .error e => .error e
                | .ok r2 => atom_class exp fuel last_emit { r2.2.2 with Reg_Parse := rp + 1 }
            else .error .invalid_class_escape
    else
      atom_class exp fuel c
        { emit_class_byte c cState with Reg_Parse := cState.Reg_Parse + 1 }

/-- One pass of the body of the literal loop of `atom` up to the quantifier test: emit the
character at the parse index.  The result `none` is the `break` that leaves a back reference
or a shortcut escape for the next call of `atom`. -/
def atom_literal_step (exp : List Nat) (cState : CompileState) :
    Except CompileError (Option CompileState) :=
  let c := charAt exp cState.Reg_Parse
  if c = 92 then
    let rp := cState.Reg_Parse + 1
    match numeric_escape exp (charAt exp rp) rp with
    | .error e => .error e
    | .ok (test, rp1) =>
      if test ≠ 0 then
        .ok (some { emit_byte (if cState.Is_Case_Insensitive then tolower test else test) cState
                    with Reg_Parse := rp1 + 1 })
      else if literal_escape (charAt exp rp) ≠ 0 then
        .ok (some { emit_byte (literal_escape (charAt exp rp)) cState with Reg_Parse := rp + 1 })
      else
        match back_ref (charAt exp rp) 0 CHECK_ESCAPE cState with
        | .error e => .error e
        | .ok r =>
          if r.1 ≠ Ptr.null then .ok none
          else
            match shortcut_escape (charAt exp rp) 0 CHECK_ESCAPE cState with
            | .error e => .error e
            | .ok r2 => if r2.1 ≠ Ptr.null then .ok none else .error .invalid_escape
  else
    .ok (some { emit_byte (if cState.Is_Case_Insensitive then tolower c else c) cState
                with Reg_Parse := cState.Reg_Parse + 1 })

/-- The literal loop of `atom` (the `default` case): returns `len` and the state at the exit
of the loop. -/
def atom_literal (exp : List Nat) : Nat → Nat → CompileState →
    Except CompileError (Nat × CompileState)
  | 0, _, _ => .error .out_of_fuel
  | fuel + 1, len, cState =>
    let c := charAt exp cState.Reg_Parse
    if c = 0 ∨ (strchr Default_Meta_Char c).isSome then .ok (len, cState)
    else
      match atom_literal_step exp cState with
      | .error e => .error e
      | .ok none => .ok (len, cState)
      | .ok (some cs1) =>
        if isQuantifier (charAt exp cs1.Reg_Parse) && decide (len > 0) then
          if cs1.Code_Emit_Ptr = Ptr.Compute_Size then
            .ok (len, { cs1 with Reg_Parse := cState.Reg_Parse, Reg_Size := cs1.Reg_Size - 1 })
          else
            .ok (len, { cs1 with Reg_Parse := cState.Reg_Parse,
                                 Code_Emit_Ptr := cs1.Code_Emit_Ptr.add (-1) })
        else atom_literal exp fuel (len + 1) cs1

/-- The `default` case of `atom`: a run of ordinary characters; the parse index is at the
first character of the run. -/
def atom_default (exp : List Nat) (flag : Nat) (cState : CompileState) :
    Except CompileError Res :=
  let r := if cState.Is_Case_Insensitive then emit_node SIMILAR cState
           else emit_node EXACTLY cState
  match atom_literal exp (exp.length + 1) 0 r.2 with
  | .error e => .error e
  | .ok (len, cs1) =>
    if len = 0 then .error .internal_error_4
    else
      .ok { ret_val := r.1,
            flag := if len = 1 then (flag ||| HAS_WIDTH) ||| SIMPLE else flag ||| HAS_WIDTH,
            range := { lower := len, upper := len },
            cState := emit_byte 0 cs1 }

/-- The case `[` of `atom`: a character class; the parse index is after the bracket. -/
def atom_bracket (exp : List Nat) (flag : Nat) (cState : CompileState) :
    Except CompileError Res :=
  let r : Ptr × CompileState :=
    if charAt exp cState.Reg_Parse = 94 then
      let e := emit_node ANY_BUT cState
      let cs1 := { e.2 with Reg_Parse := e.2.Reg_Parse + 1 }
      (e.1, if !cs1.Match_Newline then emit_byte 10 cs1 else cs1)
    else emit_node ANY_OF cState
  let c := charAt exp r.2.Reg_Parse
  let start : Nat × CompileState :=
    if c = 93 ∨ c = 45 then (c, { emit_byte c r.2 with Reg_Parse := r.2.Reg_Parse + 1 })
    else (0, r.2)
  match atom_class exp (exp.length + 1) start.1 start.2 with
  | .error e => .error e
  | .ok cs2 =>
    if charAt exp cs2.Reg_Parse ≠ 93 then .error .missing_right_bracket
    else
      .ok { ret_val := r.1,
            flag := flag ||| (HAS_WIDTH ||| SIMPLE),
            range := { lower := 1, upper := 1 },
            cState := { emit_byte 0 cs2 with Reg_Parse := cs2.Reg_Parse + 1 } }

/-- The kind of a special parenthetical expression `(?x`, with the number of characters of
its introducer after the `(`; the parse index `rp` is after the `(`. -/
def atom_paren_kind (exp : List Nat) (rp : Nat) : Except CompileError (Nat × Nat) :=
  if charAt exp rp = 63 then
    let c := charAt exp (rp + 1)
    if c = 58 then .ok (NO_CAPTURE, 2)
    else if c = 61 then .ok (POS_AHEAD_OPEN, 2)
    else if c = 33 then .ok (NEG_AHEAD_OPEN, 2)
    else if c = 105 then .ok (INSENSITIVE, 2)
    else if c = 73 then .ok (SENSITIVE, 2)
    else if c = 110 then .ok (NEWLINE, 2)
    else if c = 78 then .ok (NO_NEWLINE, 2)
    else if c = 60 then
      if charAt exp (rp + 2) = 61 then .ok (POS_BEHIND_OPEN, 3)
      else if charAt exp (rp + 2) = 33 then .ok (NEG_BEHIND_OPEN, 3)
      else .error .invalid_look_behind
    else .error .invalid_grouping
  else .ok (PAREN, 0)

/-! ## The grammar: `piece` -/

/-- The digit loop of `piece` for the bound number `i` of a brace quantifier: returns the
value, the count `digit_present[i]` and the parse index after the digits. -/
def brace_digits (exp : List Nat) (i : Nat) : Nat → Nat → Nat → Nat →
    Except CompileError (Nat × Nat × Nat)
  | 0, _, _, _ => .error .out_of_fuel
  | fuel + 1, value, digit_present, rp =>
    let c := charAt exp rp
    if isdigit c then
      if (value = 6553 ∧ c - 48 ≤ 5) ∨ value ≤ 6552 then
        brace_digits exp i fuel (value * 10 + (c - 48)) (digit_present + 1) (rp + 1)
      else if i = 0 then .error .min_operand_too_big
      else .error .max_operand_too_big
    else .ok (value, digit_present, rp)

/-- The parse of `{m,n}` in `piece`, the parse index `rp` being after the brace: returns
`min_max[0]`, `min_max[1]` and the index of the character that must be the closing brace. -/
def parse_brace (exp : List Nat) (rp : Nat) : Except CompileError (Nat × Nat × Nat) :=
  match brace_digits exp 0 (exp.length + 1) REG_ZERO 0 rp with
  | .error e => .error e
  | .ok (min0, dp0, rp1) =>
    let comma0 := decide (charAt exp rp1 = 44)
    let rp2 := if comma0 then rp1 + 1 else rp1
    match brace_digits exp 1 (exp.length + 1) REG_INFINITY 0 rp2 with
    | .error e => .error e
    | .ok (max0, dp1, rp3) =>
      let comma1 := !comma0 && decide (charAt exp rp3 = 44)
      let comma_present := comma0 || comma1
      let rp4 := if comma1 then rp3 + 1 else rp3
      if dp0 ≠ 0 ∧ min0 = REG_ZERO ∧ !comma_present then .error .range_zero
      else if dp0 ≠ 0 ∧ min0 = REG_ZERO ∧ dp1 ≠ 0 ∧ max0 = REG_ZERO then .error .range_zero_zero
      else if dp1 ≠ 0 ∧ max0 = REG_ZERO then .error .range_max_zero
      else
        let max1 := if !comma_present then min0 else max0
        if charAt exp rp4 ≠ 125 then .error .missing_right_brace
        else if max1 ≠ REG_INFINITY ∧ min0 > max1 then .error .range_backward
        else .ok (min0, max1, rp4)

/-- The node structures of `piece` for a quantifier on an operand that is not SIMPLE and is
neither a brace construct: `(x)*?`, `(x)+?`, `(x)*`, `(x)+`, `(x)??`, `(x)?`. -/
def piece_emit_loop (op_code : Nat) (lazy : Bool) (ret_val : Ptr) (cState : CompileState) :
    CompileState :=
  if (op_code = 42 ∨ op_code = 43) ∧ lazy then
    let e1 := emit_node BACK cState
    let cs := tail ret_val e1.1 e1.2
    let cs := (insert BRANCH ret_val 0 0 0 cs).2
    let cs := (insert NOTHING ret_val 0 0 0 cs).2
    let e2 := emit_node NOTHING cs
    let cs := offset_tail ret_val NodeSize e2.1 e2.2
    let cs := tail ret_val e2.1 cs
    let cs := (insert BRANCH ret_val 0 0 0 cs).2
    let cs := tail ret_val (ret_val.add (2 * NodeSize)) cs
    let cs := offset_tail ret_val (3 * NodeSize) ret_val cs
    if op_code = 43 then
      let cs := (insert NOTHING ret_val 0 0 0 cs).2
      tail ret_val (ret_val.add (4 * NodeSize)) cs
    else cs
  else if op_code = 42 then
    let cs := (insert BRANCH ret_val 0 0 0 cState).2
    let e1 := emit_node BACK cs
    let cs := offset_tail ret_val NodeSize e1.1 e1.2
    let cs := offset_tail ret_val NodeSize ret_val cs
    let e2 := emit_node BRANCH cs
    let cs := tail ret_val e2.1 e2.2
    let e3 := emit_node NOTHING cs
    tail ret_val e3.1 e3.2
  else if op_code = 43 then
    let e1 := emit_node BRANCH cState
    let cs := tail ret_val e1.1 e1.2
    let e2 := emit_node BACK cs
    let cs := tail e2.1 ret_val e2.2
    let e3 := emit_node BRANCH cs
    let cs := tail e1.1 e3.1 e3.2
    let e4 := emit_node NOTHING cs
    tail ret_val e4.1 e4.2
  else if lazy then
    let cs := (insert BRANCH ret_val 0 0 0 cState).2
    let cs := (insert NOTHING ret_val 0 0 0 cs).2
    let e1 := emit_node NOTHING cs
    let cs := offset_tail ret_val (2 * NodeSize) e1.1 e1.2
    let cs := offset_tail ret_val NodeSize e1.1 cs
    let cs := tail ret_val e1.1 cs
    let cs := (insert BRANCH ret_val 0 0 0 cs).2
    tail ret_val (ret_val.add (2 * NodeSize)) cs
  else
    let cs := (insert BRANCH ret_val 0 0 0 cState).2
    let e1 := emit_node BRANCH cs
    let cs := tail ret_val e1.1 e1.2
    let e2 := emit_node NOTHING cs
    let cs := tail ret_val e2.1 e2.2
    offset_tail ret_val NodeSize e2.1 cs

/-- The node structures of `piece` for a brace quantifier on an operand that is not SIMPLE:
`(x){m,m}`, and the lazy and greedy forms of `(x){0,n}`, `(x){m,}` and `(x){m,n}`.  Ends
with `Num_Braces++`. -/
def piece_emit_brace (lazy : Bool) (min max : Nat) (ret_val : Ptr) (cState : CompileState) :
    CompileState :=
  let nb := cState.Num_Braces
  let cs :=
  if min = max then
    let e1 := emit_special INC_COUNT 0 nb cState
    let cs := tail ret_val e1.1 e1.2
    let e2 := emit_special TEST_COUNT min nb cs
    let cs := tail ret_val e2.1 e2.2
    let e3 := emit_node BACK cs
    let cs := tail e3.1 ret_val e3.2
    let e4 := emit_node NOTHING cs
    let cs := tail ret_val e4.1 e4.2
    let i5 := insert INIT_COUNT ret_val 0 0 nb cs
    tail ret_val i5.1 i5.2
  else if lazy then
    if min = REG_ZERO ∧ max ≠ REG_INFINITY then
      let e1 := emit_special INC_COUNT 0 nb cState
      let cs := tail ret_val e1.1 e1.2
      let e2 := emit_special TEST_COUNT min nb cs
      let cs := tail ret_val e2.1 e2.2
      let cs := (insert BRANCH ret_val 0 0 nb cs).2
      let cs := (insert NOTHING ret_val 0 0 nb cs).2
      let cs := (insert BRANCH ret_val 0 0 nb cs).2
      let e3 := emit_node BACK cs
      let cs := tail e3.1 ret_val e3.2
      let cs := tail ret_val (ret_val.add (2 * NodeSize)) cs
      let e4 := emit_node NOTHING cs
      let cs := offset_tail ret_val NodeSize e4.1 e4.2
      let cs := offset_tail ret_val (2 * NodeSize) e4.1 cs
      let cs := offset_tail ret_val (3 * NodeSize) e4.1 cs
      let i5 := insert INIT_COUNT ret_val 0 0 nb cs
      tail ret_val i5.1 i5.2
    else if min > REG_ZERO ∧ max = REG_INFINITY then
      let e1 := emit_special INC_COUNT 0 nb cState
      let cs := tail ret_val e1.1 e1.2
      let e2 := emit_special TEST_COUNT min nb cs
      let cs := tail ret_val e2.1 e2.2
      let e3 := emit_node BACK cs
      let cs := tail e3.1 ret_val e3.2
      let e4 := emit_node BACK cs
      let cs := tail ret_val e4.1 e4.2
      let cs := (insert BRANCH ret_val 0 0 0 cs).2
      let cs := (insert NOTHING ret_val 0 0 0 cs).2
      let e5 := emit_node NOTHING cs
      let cs := offset_tail ret_val NodeSize e5.1 e5.2
      let cs := tail ret_val e5.1 cs
      let cs := (insert BRANCH ret_val 0 0 0 cs).2
      let cs := tail ret_val (ret_val.add (2 * NodeSize)) cs
      let cs := offset_tail ret_val (3 * NodeSize) ret_val cs
      let cs := (insert INIT_COUNT ret_val 0 0 nb cs).2
      tail ret_val (ret_val.add (IndexSize + 4 * NodeSize)) cs
    else
      let e1 := emit_special INC_COUNT 0 nb cState
      let cs := tail ret_val e1.1 e1.2
      let e2 := emit_special TEST_COUNT max nb cs
      let cs := tail ret_val e2.1 e2.2
      let e3 := emit_special TEST_COUNT min nb cs
      let e4 := emit_node BACK e3.2
      let cs := tail e4.1 ret_val e4.2
      let e5 := emit_node BACK cs
      let cs := tail e3.1 e5.1 e5.2
      let cs := (insert BRANCH ret_val 0 0 0 cs).2
      let cs := (insert NOTHING ret_val 0 0 0 cs).2
      let cs := (insert BRANCH ret_val 0 0 0 cs).2
      let e6 := emit_node NOTHING cs
      let cs := offset_tail ret_val NodeSize e6.1 e6.2
      let cs := offset_tail ret_val (2 * NodeSize) e6.1 cs
      let cs := offset_tail ret_val (3 * NodeSize) e6.1 cs
      let cs := tail ret_val (ret_val.add (2 * NodeSize)) cs
      let cs := offset_tail e6.1 (-(NodeSize : Int)) ret_val cs
      let cs := (insert INIT_COUNT ret_val 0 0 nb cs).2
      tail ret_val (ret_val.add (IndexSize + 4 * NodeSize)) cs
  else
    if min = REG_ZERO ∧ max ≠ REG_INFINITY then
      let e1 := emit_special INC_COUNT 0 nb cState
      let cs := tail ret_val e1.1 e1.2
      let e2 := emit_special TEST_COUNT max nb cs
      let cs := tail ret_val e2.1 e2.2
      let cs := (insert BRANCH ret_val 0 0 0 cs).2
      let e3 := emit_node BACK cs
      let cs := tail e3.1 ret_val e3.2
      let e4 := emit_node BRANCH cs
      let cs := tail ret_val e4.1 e4.2
      let e5 := emit_node NOTHING cs
      let cs := tail e4.1 e5.1 e5.2
      let cs := offset_tail ret_val NodeSize e4.1 cs
      let i6 := insert INIT_COUNT ret_val 0 0 nb cs
      tail ret_val i6.1 i6.2
    else if min > REG_ZERO ∧ max = REG_INFINITY then
      let e1 := emit_special INC_COUNT 0 nb cState
      let cs := tail ret_val e1.1 e1.2
      let e2 := emit_special TEST_COUNT min nb cs
      let cs := tail ret_val e2.1 e2.2
      let e3 := emit_node BACK cs
      let cs := tail e3.1 ret_val e3.2
      let cs := (insert BRANCH ret_val 0 0 0 cs).2
      let e4 := emit_node BACK cs
      let cs := tail e4.1 ret_val e4.2
      let cs := offset_tail ret_val NodeSize e4.1 cs
      let e5 := emit_node BRANCH cs
      let cs := tail ret_val e5.1 e5.2
      let e6 := emit_node NOTHING cs
      let cs := tail ret_val e6.1 e6.2
      let cs := (insert INIT_COUNT ret_val 0 0 nb cs).2
      tail ret_val (ret_val.add (IndexSize + 2 * NodeSize)) cs
    else
      let e1 := emit_special INC_COUNT 0 nb cState
      let cs := tail ret_val e1.1 e1.2
      let e2 := emit_special TEST_COUNT max nb cs
      let cs := tail ret_val e2.1 e2.2
      let e3 := emit_special TEST_COUNT min nb cs
      let e4 := emit_node BACK e3.2
      let cs := tail e4.1 ret_val e4.2
      let e5 := emit_node BACK cs
      let cs := tail e3.1 e5.1 e5.2
      let cs := (insert BRANCH ret_val 0 0 0 cs).2
      let e6 := emit_node BRANCH cs
      let cs := tail ret_val e6.1 e6.2
      let cs := offset_tail e6.1 (-(NodeSize : Int)) ret_val cs
      let e7 := emit_node NOTHING cs
      let cs := offset_tail ret_val NodeSize e7.1 e7.2
      let cs := offset_tail e7.1 (-(NodeSize : Int)) e7.1 cs
      let cs := (insert INIT_COUNT ret_val 0 0 nb cs).2
      tail ret_val (ret_val.add (IndexSize + 2 * NodeSize)) cs
  { cs with Num_Braces := cs.Num_Braces + 1 }

/-- The code generation of `piece`, after the checks on the quantifier. -/
def piece_emit (op_code : Nat) (lazy : Bool) (flags_local : Nat) (min max : Nat) (ret_val : Ptr)
    (cState : CompileState) : Except CompileError CompileState :=
  if op_code = 42 ∧ flags_local &&& SIMPLE ≠ 0 then
    .ok (insert (if lazy then LAZY_STAR else STAR) ret_val 0 0 0 cState).2
  else if op_code = 43 ∧ flags_local &&& SIMPLE ≠ 0 then
    .ok (insert (if lazy then LAZY_PLUS else PLUS) ret_val 0 0 0 cState).2
  else if op_code = 63 ∧ flags_local &&& SIMPLE ≠ 0 then
    .ok (insert (if lazy then LAZY_QUESTION else QUESTION) ret_val 0 0 0 cState).2
  else if op_code = 123 ∧ flags_local &&& SIMPLE ≠ 0 then
    .ok (insert (if lazy then LAZY_BRACE else BRACE) ret_val min max 0 cState).2
  else if op_code = 42 ∨ op_code = 43 ∨ op_code = 63 then
    .ok (piece_emit_loop op_code lazy ret_val cState)
  else if op_code = 123 then .ok (piece_emit_brace lazy min max ret_val cState)
  else .error .internal_error_2

/-- The function `piece` after its call of `atom`, whose result is `a`.  The products
`range_local.lower * min_max[0]` and `range_local.upper * min_max[1]` of a `long` and an
`unsigned long` are computed in `unsigned long`, modulo 2^64. -/
def piece_rest (exp : List Nat) (a : Res) : Except CompileError Res :=
  let op_code := charAt exp a.cState.Reg_Parse
  if !isQuantifier op_code then .ok a
  else
    let parsed : Except CompileError (Nat × Nat × Nat) :=
      if op_code = 123 then parse_brace exp (a.cState.Reg_Parse + 1)
      else .ok (REG_ZERO, REG_INFINITY, a.cState.Reg_Parse)
    match parsed with
    | .error e => .error e
    | .ok (min0, max0, rp0) =>
      let rp1 := rp0 + 1
      let lazy := decide (charAt exp rp1 = 63)
      let rp2 := if lazy then rp1 + 1 else rp1
      let cs := { a.cState with Reg_Parse := rp2 }
      let op1 : Nat :=
        if op_code = 123 then
          if min0 = REG_ZERO ∧ max0 = REG_INFINITY then 42
          else if min0 = REG_ONE ∧ max0 = REG_INFINITY then 43
          else if min0 = REG_ZERO ∧ max0 = REG_ONE then 63
          else 123
        else op_code
      if op_code = 123 ∧ op1 = 123 ∧ min0 = REG_ONE ∧ max0 = REG_ONE then
        .ok { a with cState := cs }
      else if op_code = 123 ∧ op1 = 123 ∧ cs.Num_Braces > 255 then .error .too_many_braces
      else
        let min1 := if op1 = 43 then REG_ONE else min0
        let max1 := if op1 = 63 then REG_ONE else max0
        if a.flag &&& HAS_WIDTH = 0 then .error .operand_could_be_empty
        else
          let flag := if min1 > REG_ZERO then WORST ||| HAS_WIDTH else WORST
          let range : len_range :=
            if a.range.lower ≥ 0 then
              if max1 ≠ REG_INFINITY then
                { lower := wrap64 (a.range.lower * min1),
                  upper := wrap64 (a.range.upper * max1) }
              else { lower := -1, upper := -1 }
            else { lower := -1, upper := -1 }
          match piece_emit op1 lazy a.flag min1 max1 a.ret_val cs with
          | .error e => .error e
          | .ok cs1 =>
            if isQuantifier (charAt exp cs1.Reg_Parse) then .error .nested_quantifiers
            else .ok { ret_val := a.ret_val, flag := flag, range := range, cState := cs1 }

/-! ## The grammar: `chunk` and `alternative` -/

/-- The head of `chunk`: make an OPEN node, if parenthesized, or switch a mode.  Returns
`ret_val`, `this_paren`, the tentative flag, `look_only`, `emit_look_behind_bounds` and
the state. -/
def chunk_open (paren : Nat) (cState : CompileState) :
    Except CompileError (Ptr × Nat × Nat × Bool × Ptr × CompileState) :=
  if paren = PAREN then
    if cState.Total_Paren ≥ NSUBEXP then .error .too_many_parens
    else
      let this_paren := cState.Total_Paren
      let e := emit_node (OPEN + this_paren) { cState with Total_Paren := cState.Total_Paren + 1 }
      .ok (e.1, this_paren, HAS_WIDTH, false, Ptr.null, e.2)
  else if paren = POS_AHEAD_OPEN ∨ paren = NEG_AHEAD_OPEN then
    let e := emit_node paren cState
    .ok (e.1, 0, WORST, true, Ptr.null, e.2)
  else if paren = POS_BEHIND_OPEN ∨ paren = NEG_BEHIND_OPEN then
    let e := emit_special paren 0 0 cState
    .ok (e.1, 0, WORST, true, e.1.add NodeSize, e.2)
  else if paren = INSENSITIVE then
    .ok (Ptr.null, 0, HAS_WIDTH, false, Ptr.null, { cState with Is_Case_Insensitive := true })
  else if paren = SENSITIVE then
    .ok (Ptr.null, 0, HAS_WIDTH, false, Ptr.null, { cState with Is_Case_Insensitive := false })
  else if paren = NEWLINE then
    .ok (Ptr.null, 0, HAS_WIDTH, false, Ptr.null, { cState with Match_Newline := true })
  else if paren = NO_NEWLINE then
    .ok (Ptr.null, 0, HAS_WIDTH, false, Ptr.null, { cState with Match_Newline := false })
  else .ok (Ptr.null, 0, HAS_WIDTH, false, Ptr.null, cState)

/-- The last loop of `chunk`: hook the tails of the branch alternatives to the closing
node, `for (this_branch = ret_val; this_branch != nullptr;)`. -/
def chunk_hook (ender : Ptr) : Nat → Ptr → CompileState → CompileState
  | 0, this_branch, cState =>
    if this_branch = Ptr.null then cState else { cState with hang := true }
  | fuel + 1, this_branch, cState =>
    if this_branch = Ptr.null then cState
    else
      let cs := branch_tail this_branch NodeSize ender cState
      chunk_hook ender fuel (next_ptr cs.program_ this_branch) cs

/-- The test of `chunk` on the quantifier that follows a closed capturing group: can the
group be repeated zero times? -/
def chunk_zero_width (exp : List Nat) (rp : Nat) : Bool :=
  if charAt exp rp = 63 ∨ charAt exp rp = 42 then true
  else if charAt exp rp = 123 ∧ Brace_Char = 123 then
    if charAt exp (rp + 1) = 44 ∨ charAt exp (rp + 1) = 125 then true
    else if charAt exp (rp + 1) = 48 then
      let i := 2 + ((exp.drop (rp + 2)).takeWhile (fun c => decide (c = 48))).length
      decide (charAt exp (rp + i) = 44)
    else false
  else false

/-- The tail of `chunk`, after the loop over the alternatives: make the closing node, hook
it on the end, check the termination and record what is known of the group. -/
def chunk_close (exp : List Nat) (paren : Nat) (this_paren : Nat) (look_only : Bool)
    (emit_look_behind_bounds : Ptr) (old_sensitive old_newline : Bool)
    (ret_val : Ptr) (flag : Nat) (range : len_range) (cState : CompileState) :
    Except CompileError Res :=
  let e :=
    if paren = PAREN then emit_node (CLOSE + this_paren) cState
    else if paren = NO_PAREN then emit_node END cState
    else if paren = POS_AHEAD_OPEN ∨ paren = NEG_AHEAD_OPEN then emit_node LOOK_AHEAD_CLOSE cState
    else if paren = POS_BEHIND_OPEN ∨ paren = NEG_BEHIND_OPEN then
      emit_node LOOK_BEHIND_CLOSE cState
    else emit_node NOTHING cState
  let cs := tail ret_val e.1 e.2
  let cs := chunk_hook e.1 (cs.program_.length + 1) ret_val cs
  if paren ≠ NO_PAREN ∧ charAt exp cs.Reg_Parse ≠ 41 then .error .missing_right_paren
  else if paren = NO_PAREN ∧ charAt exp cs.Reg_Parse ≠ 0 then
    if charAt exp cs.Reg_Parse = 41 then .error .missing_left_paren else .error .junk_on_end
  else
    let cs := if paren ≠ NO_PAREN then { cs with Reg_Parse := cs.Reg_Parse + 1 } else cs
    if emit_look_behind_bounds ≠ Ptr.null ∧ range.lower < 0 then .error .look_behind_unbounded
    else if emit_look_behind_bounds ≠ Ptr.null ∧ range.upper > 65535 then
      .error .look_behind_too_large
    else
      let cs :=
        if emit_look_behind_bounds ≠ Ptr.null ∧ cs.Code_Emit_Ptr ≠ Ptr.Compute_Size then
          { cs with
              program_ :=
                poke (poke (poke (poke cs.program_ emit_look_behind_bounds
                  (putOffsetL range.lower)) (emit_look_behind_bounds.add 1)
                  (putOffsetR range.lower)) (emit_look_behind_bounds.add 2)
                  (putOffsetL range.upper)) (emit_look_behind_bounds.add 3)
                  (putOffsetR range.upper) }
        else cs
      let range1 : len_range := if look_only then { lower := 0, upper := 0 } else range
      let closed := decide (paren = PAREN) && decide (this_paren ≤ 32)
      let zero_width := closed && chunk_zero_width exp cs.Reg_Parse
      let cs :=
        if closed then { cs with Closed_Parens := cs.Closed_Parens.set this_paren true } else cs
      let cs :=
        if flag &&& HAS_WIDTH ≠ 0 ∧ paren = PAREN ∧ !zero_width ∧ this_paren ≤ 32 then
          { cs with Paren_Has_Width := cs.Paren_Has_Width.set this_paren true }
        else cs
      .ok { ret_val := ret_val, flag := flag, range := range1,
            cState := { cs with Is_Case_Insensitive := old_sensitive,
                                Match_Newline := old_newline } }

mutual

/-- The function `chunk`: main body of the regex or a parenthesized thing. -/
def chunk (exp : List Nat) : Nat → Nat → CompileState → Except CompileError Res
  | 0, _, _ => .error .out_of_fuel
  | fuel + 1, paren, cState =>
    match chunk_open paren cState with
    | .error e => .error e
    | .ok (ret_val, this_paren, flag, look_only, emit_look_behind_bounds, cs) =>
      match chunk_loop exp fuel true ret_val flag { lower := 0, upper := 0 } cs with
      | .error e => .error e
      | .ok r =>
        chunk_close exp paren this_paren look_only emit_look_behind_bounds
          cState.Is_Case_Insensitive cState.Match_Newline r.ret_val r.flag r.range r.cState

/-- The loop of `chunk` that picks up the branches, linking them together; `first` is the
variable of the source, `flag` and `range` are the values behind `flag_param` and
`range_param`. -/
def chunk_loop (exp : List Nat) : Nat → Bool → Ptr → Nat → len_range → CompileState →
    Except CompileError Res
  | 0, _, _, _, _, _ => .error .out_of_fuel
  | fuel + 1, first, ret_val, flag, range, cState =>
    match alternative exp fuel cState with
    | .error e => .error e
    | .ok b =>
      if b.ret_val = Ptr.null then .error .internal_error
      else
        let ret_val1 := if first ∧ ret_val = Ptr.null then b.ret_val else ret_val
        let range1 : len_range :=
          if first then b.range
          else if range.lower ≥ 0 then
            if b.range.lower ≥ 0 then
              { lower := if b.range.lower < range.lower then b.range.lower else range.lower,
                upper := if b.range.upper > range.upper then b.range.upper else range.upper }
            else { lower := -1, upper := -1 }
          else range
        let cs := tail ret_val1 b.ret_val b.cState
        let flag1 := if b.flag &&& HAS_WIDTH = 0 then flag &&& 0xFFFFFFFE else flag
        if charAt exp cs.Reg_Parse ≠ 124 then
          .ok { ret_val := ret_val1, flag := flag1, range := range1, cState := cs }
        else
          chunk_loop exp fuel false ret_val1 flag1 range1
            { cs with Reg_Parse := cs.Reg_Parse + 1 }

/-- The function `alternative`: one alternative of an `|` operator. -/
def alternative (exp : List Nat) : Nat → CompileState → Except CompileError Res
  | 0, _ => .error .out_of_fuel
  | fuel + 1, cState =>
    let e := emit_node BRANCH cState
    match alternative_loop exp fuel Ptr.null WORST { lower := 0, upper := 0 } e.2 with
    | .error er => .error er
    | .ok r =>
      if r.ret_val = Ptr.null then
        .ok { ret_val := e.1, flag := r.flag, range := r.range,
              cState := (emit_node NOTHING r.cState).2 }
      else .ok { ret_val := e.1, flag := r.flag, range := r.range, cState := r.cState }

/-- The loop of `alternative` over the pieces; the `ret_val` of the result is the variable
`chain` at the exit of the loop. -/
def alternative_loop (exp : List Nat) : Nat → Ptr → Nat → len_range → CompileState →
    Except CompileError Res
  | 0, _, _, _, _ => .error .out_of_fuel
  | fuel + 1, chain, flag, range, cState =>
    let c := charAt exp cState.Reg_Parse
    if c = 124 ∨ c = 41 ∨ c = 0 then
      .ok { ret_val := chain, flag := flag, range := range, cState := cState }
    else
      match piece exp fuel cState with
      | .error e => .error e
      | .ok l =>
        if l.ret_val = Ptr.null then .error .internal_error
        else
          let flag1 := flag ||| (l.flag &&& HAS_WIDTH)
          let range1 : len_range :=
            if l.range.lower < 0 then { lower := -1, upper := -1 }
            else if range.lower ≥ 0 then
              { lower := range.lower + l.range.lower, upper := range.upper + l.range.upper }
            else range
          let cs := if chain ≠ Ptr.null then tail chain l.ret_val l.cState else l.cState
          alternative_loop exp fuel l.ret_val flag1 range1 cs

/-- The function `piece`: something followed by a possible quantifier. -/
def piece (exp : List Nat) : Nat → CompileState → Except CompileError Res
  | 0, _ => .error .out_of_fuel
  | fuel + 1, cState =>
    match atom exp fuel cState with
    | .error e => .error e
    | .ok a => if a.ret_val = Ptr.null then .error .internal_error else piece_rest exp a

/-- The function `atom`: one regex item at the lowest level. -/
def atom (exp : List Nat) : Nat → CompileState → Except CompileError Res
  | 0, _ => .error .out_of_fuel
  | fuel + 1, cState =>
    match skip_comments exp (exp.length + 1) cState.Reg_Parse with
    | .error e => .error e
    | .ok (rp, true) =>
      let e := emit_node NOTHING { cState with Reg_Parse := rp }
      .ok { ret_val := e.1, flag := WORST, range := { lower := 0, upper := 0 }, cState := e.2 }
    | .ok (rp, false) =>
      let c := charAt exp rp
      let cs := { cState with Reg_Parse := rp + 1 }
      let zero : len_range := { lower := 0, upper := 0 }
      let unit : len_range := { lower := 1, upper := 1 }
      if c = 94 then
        let e := emit_node BOL cs
        .ok { ret_val := e.1, flag := WORST, range := zero, cState := e.2 }
      else if c = 36 then
        let e := emit_node EOL cs
        .ok { ret_val := e.1, flag := WORST, range := zero, cState := e.2 }
      else if c = 60 then
        let e := emit_node BOWORD cs
        .ok { ret_val := e.1, flag := WORST, range := zero, cState := e.2 }
      else if c = 62 then
        let e := emit_node EOWORD cs
        .ok { ret_val := e.1, flag := WORST, range := zero, cState := e.2 }
      else if c = 46 then
        let e := if cs.Match_Newline then emit_node EVERY cs else emit_node ANY cs
        .ok { ret_val := e.1, flag := WORST ||| (HAS_WIDTH ||| SIMPLE), range := unit,
              cState := e.2 }
      else if c = 40 then
        match atom_paren_kind exp (rp + 1) with
        | .error e => .error e
        | .ok (kind, skip) =>
          match chunk exp fuel kind { cs with Reg_Parse := rp + 1 + skip } with
          | .error e => .error e
          | .ok r =>
            if r.ret_val = Ptr.null then .error .internal_error
            else
              .ok { ret_val := r.ret_val, flag := WORST ||| (r.flag &&& HAS_WIDTH),
                    range := r.range, cState := r.cState }
      else if c = 0 ∨ c = 124 ∨ c = 41 then .error .internal_error_3
      else if c = 63 ∨ c = 43 ∨ c = 42 then .error .follows_nothing
      else if c = 123 then .error .brace_follows_nothing
      else if c = 91 then atom_bracket exp WORST cs
      else if c = 92 then
        match shortcut_escape (charAt exp (rp + 1)) WORST EMIT_NODE cs with
        | .error e => .error e
        | .ok s1 =>
          if s1.1 ≠ Ptr.null then
            .ok { ret_val := s1.1, flag := s1.2.1, range := unit,
                  cState := { s1.2.2 with Reg_Parse := rp + 2 } }
          else
            match back_ref (charAt exp (rp + 1)) WORST EMIT_NODE cs with
            | .error e => .error e
            | .ok b1 =>
              if b1.1 ≠ Ptr.null then
                .ok { ret_val := b1.1, flag := b1.2.1, range := { lower := -1, upper := -1 },
                      cState := { b1.2.2 with Reg_Parse := rp + 2 } }
              else atom_default exp WORST { cs with Reg_Parse := rp }
      else atom_default exp WORST { cs with Reg_Parse := rp }

end

/-! ## The constructor `Regex::Regex` -/

/-- The members of `Regex` that the constructor leaves behind. -/
structure Regex where
  program_ : List Nat
  match_start_ : Nat
  anchor_ : Nat
  Total_Paren : Nat
  Num_Braces : Nat
  deriving DecidableEq, Repr

/-- The compile state at the head of one pass of the constructor. -/
def pass_init (defaultFlags : Nat) (Code_Emit_Ptr : Ptr) (Reg_Size : Nat) (program : List Nat) :
    CompileState :=
  { Reg_Parse := 0,
    Closed_Parens := List.replicate 32 false,
    Paren_Has_Width := List.replicate 32 false,
    Code_Emit_Ptr := Code_Emit_Ptr,
    Reg_Size := Reg_Size,
    Is_Case_Insensitive := decide (defaultFlags &&& REDFLT_CASE_INSENSITIVE ≠ 0),
    Match_Newline := false,
    program_ := program,
    Total_Paren := 1,
    Num_Braces := 0,
    hang := false }

/-- One pass of the loop of the constructor: the three header bytes, then `chunk`. -/
def compile_pass (exp : List Nat) (fuel : Nat) (cState : CompileState) :
    Except CompileError Res :=
  match chunk exp fuel NO_PAREN (emit_byte 37 (emit_byte 37 (emit_byte MAGIC cState))) with
  | .error e => .error e
  | .ok r => if r.ret_val = Ptr.null then .error .internal_error else .ok r

/-- The optimization information dug out of a program: `match_start_` and `anchor_`. -/
def dig_out (program : List Nat) : Nat × Nat :=
  let scan := Ptr.prog REGEX_START_OFFSET
  if getOpcode program (next_ptr program scan) = END then
    let scan1 := OPERAND scan
    if getOpcode program scan1 = EXACTLY then (peek program (OPERAND scan1) 0, 0)
    else if PLUS ≤ getOpcode program scan1 ∧ getOpcode program scan1 ≤ LAZY_PLUS then
      if getOpcode program (scan1.add NodeSize) = EXACTLY then
        (peek program (OPERAND (scan1.add NodeSize)) 0, 0)
      else (0, 0)
    else if getOpcode program scan1 = BOL then (0, 1)
    else (0, 0)
  else (0, 0)

/-- The fuel given to the grammar functions for a regex: every call of a grammar function
or turn of one of their loops uses one unit. -/
def compile_fuel (exp : List Nat) : Nat := 8 * exp.length + 16

/-- The constructor `Regex::Regex(exp, defaultFlags)`.  The storage that `new` returns for
`program_` is taken as zero-filled. -/
def CompileRE (exp : List Nat) (defaultFlags : Nat) : Except CompileError Regex :=
  match compile_pass exp (compile_fuel exp) (pass_init defaultFlags Ptr.Compute_Size 0 []) with
  | .error e => .error e
  | .ok r1 =>
    if r1.cState.Reg_Size ≥ MAX_COMPILED_SIZE then .error .regexp_too_big
    else
      match compile_pass exp (compile_fuel exp)
          (pass_init defaultFlags (Ptr.prog 0) r1.cState.Reg_Size
            (List.replicate (r1.cState.Reg_Size + 1) 0)) with
      | .error e => .error e
      | .ok r2 =>
        if r2.cState.hang then .error .does_not_terminate
        else
          let program :=
            (r2.cState.program_.set 1 ((r2.cState.Total_Paren - 1) % 256)).set 2
              (r2.cState.Num_Braces % 256)
          .ok { program_ := program,
                match_start_ := (dig_out program).1,
                anchor_ := (dig_out program).2,
                Total_Paren := r2.cState.Total_Paren,
                Num_Braces := r2.cState.Num_Braces }

/-! ## Execution: state and the greedy scanner -/

@[simp] abbrev ULONG_MAX : Nat := 2 ^ 64 - 1

/-- The struct `ExecState`, together with the members of `Regex` that a search updates
(`startp_`, `endp_`, `extentpBW_`, `extentpFW_`, `top_branch_`, `Recursion_Count`,
`Recursion_Limit_Exceeded`) and the local `branch_index` of `attempt`, which `match` writes
through `branch_index_param`.  Positions in the text are indexes; `none` is `nullptr`. -/
structure ExecState where
  input : Nat
  startOfString : Nat
  endOfString : Option Nat
  lookBehindTo : Nat
  Extent_Ptr_FW : Option Nat
  Extent_Ptr_BW : Option Nat
  Back_Ref_Start : List (Option Nat)
  Back_Ref_End : List (Option Nat)
  prevIsBOL : Bool
  succIsEOL : Bool
  prevIsDelim : Bool
  succIsDelim : Bool
  BraceCounts : List Nat
  startp_ : List (Option Nat)
  endp_ : List (Option Nat)
  extentpBW_ : Option Nat
  extentpFW_ : Option Nat
  top_branch_ : Nat
  Recursion_Count : Nat
  Recursion_Limit_Exceeded : Bool
  branch_index : Nat
  deriving DecidableEq, Repr

/-- The test `endOfString != nullptr && p >= endOfString`. -/
def reachedEnd (endOfString : Option Nat) (p : Nat) : Bool :=
  match endOfString with
  | none => false
  | some e => decide (p ≥ e)

/-- The test `endOfString != nullptr && p > endOfString`. -/
def pastEnd (endOfString : Option Nat) (p : Nat) : Bool :=
  match endOfString with
  | none => false
  | some e => decide (p > e)

/-- The method `ExecState::atEndOfString`. -/
def atEndOfString (text : List Nat) (endOfString : Option Nat) (p : Nat) : Bool :=
  decide (charAt text p = 0) || reachedEnd endOfString p

/-- A look-up `Current_Delimiters[c]`, the character taken as an unsigned byte. -/
def isDelim (delimiters : List Bool) (c : Nat) : Bool := delimiters.getD c false

/-- The function `find_character` as a test: is `c` in the NUL-terminated string at `p`? -/
def find_character (program : List Nat) (p : Ptr) (c : Nat) : Bool :=
  match p with
  | .prog off => ((program.drop off).takeWhile (fun x => decide (x ≠ 0))).contains c
  | _ => false

/-- The function `string_length` on the NUL-terminated string at `p`. -/
def string_length (program : List Nat) (p : Ptr) : Nat :=
  match p with
  | .prog off => ((program.drop off).takeWhile (fun x => decide (x ≠ 0))).length
  | _ => 0

/-- The function `string_compare`, on the two strings given from their first character:
`s1` is a string of `prog_type`, which is unsigned, and `s2` a string of `char`, so that the
difference `*s1 - *s2` of a byte above 127 and of the same byte is 256. -/
def string_compare : List Nat → List Nat → Nat → Int
  | _, _, 0 => 0
  | s1, s2, n + 1 =>
    if s1.headD 0 = 0 ∧ s2.headD 0 = 0 then 0
    else if (s1.headD 0 : Int) ≠ schar (s2.headD 0) then (s1.headD 0 : Int) - schar (s2.headD 0)
    else string_compare s1.tail s2.tail n

/-- The test that one step of a `greedy` loop makes on the character `c`, for the node at
`p`: the loop conditions of the source without `count < max_cmp` and without the test for the
end of the string.  For EXACTLY and SIMILAR the operand, of the unsigned type `prog_type`, is
compared with a `char`, so that no byte above 127 passes the test. -/
def greedy_test (program : List Nat) (delimiters : List Bool) (p : Ptr) (c : Nat) : Bool :=
  let op := getOpcode program p
  if op = ANY then decide (c ≠ 10)
  else if op = EVERY then true
  else if op = EXACTLY then decide ((peek program (OPERAND p) 0 : Int) = schar c)
  else if op = SIMILAR then decide ((peek program (OPERAND p) 0 : Int) = schar (tolower c))
  else if op = ANY_OF then find_character program (OPERAND p) c
  else if op = ANY_BUT then !find_character program (OPERAND p) c
  else if op = IS_DELIM then isDelim delimiters c
  else if op = NOT_DELIM then !isDelim delimiters c
  else if op = WORD_CHAR then isalnum c || decide (c = 95)
  else if op = NOT_WORD_CHAR then !isalnum c && decide (c ≠ 95) && decide (c ≠ 10)
  else if op = DIGIT then isdigit c
  else if op = NOT_DIGIT then !isdigit c && decide (c ≠ 10)
  else if op = SPACE then isspace c && decide (c ≠ 10)
  else if op = SPACE_NL then isspace c
  else if op = NOT_SPACE then !isspace c
  else if op = NOT_SPACE_NL then !isspace c || decide (c = 10)
  else if op = LETTER then isalpha c
  else if op = NOT_LETTER then !isalpha c && decide (c ≠ 10)
  else false

/-- The `while` loop of `greedy`, on the text from `input_str` on: returns `count` and
`input_str` at the exit. -/
def greedy_loop (test : Nat → Bool) (endOfString : Option Nat) (max_cmp : Nat) :
    List Nat → Nat → Nat → Nat × Nat
  | [], input_str, count => (count, input_str)
  | c :: rest, input_str, count =>
    if count < max_cmp ∧ test c ∧ ¬ (c = 0 ∨ reachedEnd endOfString input_str) then
      greedy_loop test endOfString max_cmp rest (input_str + 1) (count + 1)
    else (count, input_str)

/-- The function `greedy`: repeatedly match something simple up to `max` times; `max` is the
`unsigned long` that the caller passes, read as a `long`.  Returns the count and the state
with the new input position. -/
def greedy (program text : List Nat) (delimiters : List Bool) (p : Ptr) (max : Nat)
    (state : ExecState) : Nat × ExecState :=
  let max_cmp := if 0 < max ∧ max < 2 ^ 63 then max else ULONG_MAX
  let r := greedy_loop (greedy_test program delimiters p) state.endOfString max_cmp
    (text.drop state.input) state.input 0
  (r.1, { state with input := r.2 })

/-- The macro `NEXT_PTR`. -/
def NEXT_PTR (program : List Nat) (in_ptr : Ptr) : Ptr :=
  if getOffset program in_ptr = 0 then Ptr.null
  else if getOpcode program in_ptr = BACK then in_ptr.add (-(getOffset program in_ptr : Int))
  else in_ptr.add (getOffset program in_ptr : Int)

/-- The macro `MATCH_RETURN`. -/
def MATCH_RETURN (x : Bool) (state : ExecState) : Option (Bool × ExecState) :=
  some (x, { state with Recursion_Count := state.Recursion_Count - 1 })

/-- The loop `while (getOpcode(next) == BRANCH) next = next_ptr(next);` that skips the chain
of branches inside a look-ahead or a look-behind. -/
def skip_branches (program : List Nat) : Nat → Ptr → Option Ptr
  | 0, _ => none
  | fuel + 1, next =>
    if getOpcode program next = BRANCH then skip_branches program fuel (next_ptr program next)
    else some next

/-- The nodes of `match` that consume no character or one character and need no recursion:
the anchors and the one-character classes.  Returns `none` when the node does not match,
else the new input position. -/
def match_simple (program text : List Nat) (delimiters : List Bool) (scan : Ptr)
    (state : ExecState) : Option Nat :=
  let op := getOpcode program scan
  let c := charAt text state.input
  let atEnd := atEndOfString text state.endOfString state.input
  let adv (ok : Bool) : Option Nat := if ok then some (state.input + 1) else none
  let stay (ok : Bool) : Option Nat := if ok then some state.input else none
  let prev_is_delim :=
    if state.input = state.startOfString then state.prevIsDelim
    else isDelim delimiters (charAt text (state.input - 1))
  let current_is_delim := if atEnd then state.succIsDelim else isDelim delimiters c
  if op = BOL then
    stay (if state.input = state.startOfString then state.prevIsBOL
          else decide (charAt text (state.input - 1) = 10))
  else if op = EOL then stay (decide (c = 10) || (atEnd && state.succIsEOL))
  else if op = BOWORD then stay (prev_is_delim && !current_is_delim)
  else if op = EOWORD then stay (!prev_is_delim && current_is_delim)
  else if op = NOT_BOUNDARY then
    -- the source indexes the table with `*state.input - 1`; index -1 is read as false
    let prev :=
      if state.input = state.startOfString then state.prevIsDelim
      else if c = 0 then false else isDelim delimiters (c - 1)
    stay (!(xor prev current_is_delim))
  else if op = IS_DELIM then adv (isDelim delimiters c && !atEnd)
  else if op = NOT_DELIM then adv (!isDelim delimiters c && !atEnd)
  else if op = WORD_CHAR then adv ((isalnum c || decide (c = 95)) && !atEnd)
  else if op = NOT_WORD_CHAR then adv (!(isalnum c || decide (c = 95) || decide (c = 10) || atEnd))
  else if op = ANY then adv (!(atEnd || decide (c = 10)))
  else if op = EVERY then adv (!atEnd)
  else if op = DIGIT then adv (!(!isdigit c || atEnd))
  else if op = NOT_DIGIT then adv (!(isdigit c || decide (c = 10) || atEnd))
  else if op = LETTER then adv (!(!isalpha c || atEnd))
  else if op = NOT_LETTER then adv (!(isalpha c || decide (c = 10) || atEnd))
  else if op = SPACE then adv (!(!isspace c || decide (c = 10) || atEnd))
  else if op = SPACE_NL then adv (!(!isspace c || atEnd))
  else if op = NOT_SPACE then adv (!(isspace c || atEnd))
  else if op = NOT_SPACE_NL then adv (!((isspace c && decide (c ≠ 10)) || atEnd))
  else if op = ANY_OF then adv (!atEnd && find_character program (OPERAND scan) c)
  else if op = ANY_BUT then adv (!atEnd && !find_character program (OPERAND scan) c)
  else if op = NOTHING ∨ op = BACK then stay true
  else none

/-- The case `EXACTLY` of `match`: the new input position, `none` when no match.  The test
`*opnd != *state.input` compares a `prog_type`, which is unsigned, with a `char`. -/
def match_exactly (program text : List Nat) (scan : Ptr) (state : ExecState) : Option Nat :=
  let opnd := OPERAND scan
  if (peek program opnd 0 : Int) ≠ schar (charAt text state.input) then none
  else
    let len := string_length program opnd
    if pastEnd state.endOfString (state.input + len) then none
    else if len > 1 ∧
        string_compare (program.drop (match opnd with
                                      | .prog off => off
                                      | _ => 0)) (text.drop state.input) len ≠ 0 then none
    else some (state.input + len)

/-- The case `SIMILAR` of `match`, on the operand from its first character on: whether it
matches, and the input position at the exit.  The test `tolower(*state.input++) != test`
compares the `char` of the subject with a `prog_type`, which is unsigned. -/
def match_similar (text : List Nat) (endOfString : Option Nat) : List Nat → Nat → Bool × Nat
  | [], input => (true, input)
  | test :: opnd, input =>
    if test = 0 then (true, input)
    else if atEndOfString text endOfString input then (false, input)
    else if schar (tolower (charAt text input)) ≠ (test : Int) then (false, input + 1)
    else match_similar text endOfString opnd (input + 1)

/-- The comparison loop of the case `BACK_REF` of `match`, with `n = finish - captured`
characters left to compare: whether it matches, and the input position at the exit. -/
def match_back_ref (text : List Nat) (endOfString : Option Nat) (ci : Bool) :
    Nat → Nat → Nat → Bool × Nat
  | 0, _, input => (true, input)
  | n + 1, captured, input =>
    if atEndOfString text endOfString input then (false, input)
    else if ci ∧ tolower (charAt text captured) ≠ tolower (charAt text input) then
      (false, input + 1)
    else if ¬ ci ∧ charAt text captured ≠ charAt text input then (false, input + 1)
    else match_back_ref text endOfString ci n (captured + 1) (input + 1)

/-- What the handling of one node in the loop of `match` ends with: `MATCH_RETURN(x)`, or
`break` out of the `switch` with the node to go on with. -/
inductive Step where
  | done (x : Bool) (state : ExecState) : Step
  | next (scan : Ptr) (state : ExecState) : Step
  deriving DecidableEq, Repr

/-- The update of `Extent_Ptr_FW` at the end of a match or of a look-ahead. -/
def update_extent_FW (state : ExecState) : ExecState :=
  match state.Extent_Ptr_FW with
  | none => { state with Extent_Ptr_FW := some state.input }
  | some e => if state.input > e then { state with Extent_Ptr_FW := some state.input } else state

/-- The nodes of `match` that need no recursion. -/
def match_plain (program text : List Nat) (delimiters : List Bool) (scan next : Ptr)
    (state : ExecState) : Step :=
  let op := getOpcode program scan
  if op = EXACTLY then
    match match_exactly program text scan state with
    | none => Step.done false state
    | some i => Step.next next { state with input := i }
  else if op = SIMILAR then
    let r := match_similar text state.endOfString
      (program.drop (match OPERAND scan with
                     | .prog off => off
                     | _ => 0)) state.input
    if r.1 then Step.next next { state with input := r.2 }
    else Step.done false { state with input := r.2 }
  else if (BOL ≤ op ∧ op ≤ NOT_BOUNDARY) ∨ (ANY_OF ≤ op ∧ op ≤ NOT_DELIM) ∨ op = NOTHING
      ∨ op = BACK then
    match match_simple program text delimiters scan state with
    | none => Step.done false state
    | some i => Step.next next { state with input := i }
  else if op = END then Step.done true (update_extent_FW state)
  else if op = INIT_COUNT then
    Step.next next
      { state with BraceCounts := state.BraceCounts.set (peek program (OPERAND scan) 0) REG_ZERO }
  else if op = INC_COUNT then
    Step.next next
      { state with
          BraceCounts := state.BraceCounts.set (peek program (OPERAND scan) 0)
            ((state.BraceCounts.getD (peek program (OPERAND scan) 0) 0 + 1) % 2 ^ 32) }
  else if op = TEST_COUNT then
    if state.BraceCounts.getD (peek program (OPERAND scan) 0) 0 <
        getOffset program (scan.add (NextPtrSize + IndexSize)) then
      Step.next (scan.add (NodeSize + IndexSize + NextPtrSize)) state
    else Step.next next state
  else if op = BACK_REF ∨ op = BACK_REF_CI then
    let paren_no := peek program (OPERAND scan) 0
    match state.Back_Ref_Start.getD paren_no none, state.Back_Ref_End.getD paren_no none with
    | some captured, some finish =>
      if captured > finish then Step.done false state
      else
        let r := match_back_ref text state.endOfString (decide (op = BACK_REF_CI))
          (finish - captured) captured state.input
        if r.1 then Step.next next { state with input := r.2 }
        else Step.done false { state with input := r.2 }
    | _, _ => Step.done false state
  else if op = LOOK_AHEAD_CLOSE ∨ op = LOOK_BEHIND_CLOSE then Step.done true state
  else Step.done false state

/-- The bounds and the operand of a repetition node: `min`, `max`, `lazy`, `next_op`. -/
def repeat_bounds (program : List Nat) (scan : Ptr) : Nat × Nat × Bool × Ptr :=
  let op := getOpcode program scan
  if op = LAZY_STAR then (REG_ZERO, ULONG_MAX, true, OPERAND scan)
  else if op = STAR then (REG_ZERO, ULONG_MAX, false, OPERAND scan)
  else if op = LAZY_PLUS then (REG_ONE, ULONG_MAX, true, OPERAND scan)
  else if op = PLUS then (REG_ONE, ULONG_MAX, false, OPERAND scan)
  else if op = LAZY_QUESTION then (REG_ZERO, REG_ONE, true, OPERAND scan)
  else if op = QUESTION then (REG_ZERO, REG_ONE, false, OPERAND scan)
  else
    let max := getOffset program (scan.add (2 * NextPtrSize))
    (getOffset program (scan.add NextPtrSize),
      if max ≤ REG_INFINITY then ULONG_MAX else max,
      decide (op = LAZY_BRACE),
      OPERAND (scan.add (2 * NextPtrSize)))

mutual

/-- The function `match`: the entry, which counts the recursion depth. -/
def match_ (program text : List Nat) (delimiters : List Bool) :
    Nat → Ptr → Bool → ExecState → Option (Bool × ExecState)
  | 0, _, _, _ => none
  | fuel + 1, prog, branch_index_param, state =>
    if state.Recursion_Count + 1 > REGEX_RECURSION_LIMIT then
      MATCH_RETURN false
        { state with Recursion_Count := state.Recursion_Count + 1,
                     Recursion_Limit_Exceeded := true }
    else
      match_loop program text delimiters fuel prog branch_index_param
        { state with Recursion_Count := state.Recursion_Count + 1 }

/-- The loop `while (scan != nullptr)` of `match`. -/
def match_loop (program text : List Nat) (delimiters : List Bool) :
    Nat → Ptr → Bool → ExecState → Option (Bool × ExecState)
  | 0, _, _, _ => none
  | fuel + 1, scan, branch_index_param, state =>
    if scan = Ptr.null then MATCH_RETURN false state
    else
      match match_node program text delimiters fuel scan branch_index_param state with
      | none => none
      | some (Step.done x st) => MATCH_RETURN x st
      | some (Step.next scan1 st) =>
        match_loop program text delimiters fuel scan1 branch_index_param st

/-- The `switch` of `match` on the node at `scan`. -/
def match_node (program text : List Nat) (delimiters : List Bool) :
    Nat → Ptr → Bool → ExecState → Option Step
  | 0, _, _, _ => none
  | fuel + 1, scan, branch_index_param, state =>
    let next := NEXT_PTR program scan
    let op := getOpcode program scan
    if op = BRANCH then
      if getOpcode program next ≠ BRANCH then some (Step.next (OPERAND scan) state)
      else match_branch program text delimiters fuel scan 0 branch_index_param state
    else if STAR ≤ op ∧ op ≤ LAZY_BRACE then
      let next_char :=
        if getOpcode program next = EXACTLY then peek program (OPERAND next) 0 else 0
      let b := repeat_bounds program scan
      let g : Nat × ExecState :=
        if b.2.2.1 then
          (if b.1 > REG_ZERO then greedy program text delimiters b.2.2.2 b.1 state
           else (REG_ZERO, state))
        else greedy program text delimiters b.2.2.2 b.2.1 state
      match_repeat program text delimiters fuel next b.2.2.2 next_char b.1 b.2.1 b.2.2.1
        state.input g.1 g.2
    else if op = POS_AHEAD_OPEN ∨ op = NEG_AHEAD_OPEN then
      match match_ program text delimiters fuel next false
          { state with endOfString := none } with
      | none => none
      | some (answer, st) =>
        if st.Recursion_Limit_Exceeded then some (Step.done false st)
        else if (if op = POS_AHEAD_OPEN then answer else !answer) then
          let st1 := { update_extent_FW st with input := state.input,
                                                 endOfString := state.endOfString }
          match skip_branches program (program.length + 1)
              (next_ptr program (OPERAND scan)) with
          | none => none
          | some close => some (Step.next (next_ptr program close) st1)
        else
          some (Step.done false { st with input := state.input,
                                          endOfString := state.endOfString })
    else if op = POS_BEHIND_OPEN ∨ op = NEG_BEHIND_OPEN then
      match match_behind program text delimiters fuel next state.input
          (getLower program scan) (getUpper program scan)
          { state with endOfString := some state.input } with
      | none => none
      | some (none, st) => some (Step.done false st)
      | some (some found, st) =>
        let st1 := { st with input := state.input, endOfString := state.endOfString }
        if (if op = POS_BEHIND_OPEN then found else !found) then
          match skip_branches program (program.length + 1)
              (next_ptr program ((OPERAND scan).add LengthSize)) with
          | none => none
          | some close => some (Step.next (next_ptr program close) st1)
        else some (Step.done false st1)
    else if OPEN < op ∧ op < OPEN + NSUBEXP then
      let no := op - OPEN
      let st0 :=
        if no < 10 then
          { state with Back_Ref_Start := state.Back_Ref_Start.set no (some state.input),
                       Back_Ref_End := state.Back_Ref_End.set no none }
        else state
      match match_ program text delimiters fuel next false st0 with
      | none => none
      | some (true, st) =>
        if st.startp_.getD no none = none then
          some (Step.done true { st with startp_ := st.startp_.set no (some state.input) })
        else some (Step.done true st)
      | some (false, st) => some (Step.done false st)
    else if CLOSE < op ∧ op < CLOSE + NSUBEXP then
      let no := op - CLOSE
      let st0 :=
        if no < 10 then
          { state with Back_Ref_End := state.Back_Ref_End.set no (some state.input) }
        else state
      match match_ program text delimiters fuel next false st0 with
      | none => none
      | some (true, st) =>
        if st.endp_.getD no none = none then
          some (Step.done true { st with endp_ := st.endp_.set no (some state.input) })
        else some (Step.done true st)
      | some (false, st) => some (Step.done false st)
    else some (match_plain program text delimiters scan next state)

/-- The `do ... while` of the case `BRANCH` of `match`. -/
def match_branch (program text : List Nat) (delimiters : List Bool) :
    Nat → Ptr → Nat → Bool → ExecState → Option Step
  | 0, _, _, _, _ => none
  | fuel + 1, scan, branch_index_local, branch_index_param, state =>
    match match_ program text delimiters fuel (OPERAND scan) false state with
    | none => none
    | some (true, st) =>
      some (Step.done true
        (if branch_index_param then { st with branch_index := branch_index_local } else st))
    | some (false, st) =>
      if st.Recursion_Limit_Exceeded then some (Step.done false st)
      else
        let st1 := { st with input := state.input }
        let scan1 := NEXT_PTR program scan
        if scan1 ≠ Ptr.null ∧ getOpcode program scan1 = BRANCH then
          match_branch program text delimiters fuel scan1 (branch_index_local + 1)
            branch_index_param st1
        else some (Step.done false st1)

/-- The loop `while (min <= num_matched && num_matched <= max)` of the repetition nodes of
`match`. -/
def match_repeat (program text : List Nat) (delimiters : List Bool) :
    Nat → Ptr → Ptr → Nat → Nat → Nat → Bool → Nat → Nat → ExecState → Option Step
  | 0, _, _, _, _, _, _, _, _, _ => none
  | fuel + 1, next, next_op, next_char, min, max, lazy, save, num_matched, state =>
    if ¬ (min ≤ num_matched ∧ num_matched ≤ max) then some (Step.done false state)
    else
      let go := decide (next_char = 0)
        || decide ((next_char : Int) = schar (charAt text state.input))
      match (if go then match_ program text delimiters fuel next false state
             else some (false, state)) with
      | none => none
      | some (true, st) => some (Step.done true st)
      | some (false, st) =>
        if go ∧ st.Recursion_Limit_Exceeded then some (Step.done false st)
        else if lazy then
          let g := greedy program text delimiters next_op 1 st
          if g.1 = 0 then some (Step.done false g.2)
          else
            match_repeat program text delimiters fuel next next_op next_char min max lazy save
              (num_matched + 1) { g.2 with input := save + (num_matched + 1) }
        else if num_matched > REG_ZERO then
          match_repeat program text delimiters fuel next next_op next_char min max lazy save
            (num_matched - 1) { st with input := save + (num_matched - 1) }
        else if min = REG_ZERO ∧ num_matched = REG_ZERO then some (Step.done false st)
        else
          match_repeat program text delimiters fuel next next_op next_char min max lazy save
            num_matched { st with input := save + num_matched }

/-- The loop `for (offset = lower; offset <= upper; ++offset)` of the look-behind nodes of
`match`.  The result `none` for `found` is the return of `CHECK_RECURSION_LIMIT`. -/
def match_behind (program text : List Nat) (delimiters : List Bool) :
    Nat → Ptr → Nat → Nat → Nat → ExecState → Option (Option Bool × ExecState)
  | 0, _, _, _, _, _ => none
  | fuel + 1, next, save, offset, upper, state =>
    if offset > upper then some (some false, state)
    else if save < state.lookBehindTo + offset then
      some (some false, { state with input := save - offset })
    else
      match match_ program text delimiters fuel next false
          { state with input := save - offset } with
      | none => none
      | some (answer, st) =>
        if st.Recursion_Limit_Exceeded then some (none, st)
        else if answer ∧ st.input = save then
          some (some true,
            match st.Extent_Ptr_BW with
            | none => { st with Extent_Ptr_BW := some (save - offset) }
            | some e =>
              if e > save - offset then { st with Extent_Ptr_BW := some (save - offset) }
              else st)
        else match_behind program text delimiters fuel next save (offset + 1) upper st

end

/-! ## Execution: `attempt` and `ExecRE` -/

/-- The loop of `attempt` that resets the first `n` capture slots to `nullptr`. -/
def clear_slots (n : Nat) (slots : List (Option Nat)) : List (Option Nat) :=
  (List.replicate (min n slots.length) none) ++ slots.drop n

/-- The function `attempt`: try a match at the position `string`. -/
def attempt (regex : Regex) (text : List Nat) (delimiters : List Bool) (fuel : Nat)
    (string : Nat) (state : ExecState) : Option (Bool × ExecState) :=
  let Total_Paren := regex.program_.getD 1 0
  let st : ExecState :=
    { state with input := string,
                 Recursion_Count := 0,
                 Extent_Ptr_BW := some string,
                 Extent_Ptr_FW := none,
                 startp_ := clear_slots (Total_Paren + 1) state.startp_,
                 endp_ := clear_slots (Total_Paren + 1) state.endp_,
                 branch_index := 0 }
  match match_ regex.program_ text delimiters fuel (Ptr.prog REGEX_START_OFFSET) true st with
  | none => none
  | some (true, st1) =>
    some (true,
      { st1 with startp_ := st1.startp_.set 0 (some string),
                 endp_ := st1.endp_.set 0 (some st1.input),
                 extentpBW_ := st1.Extent_Ptr_BW,
                 extentpFW_ := st1.Extent_Ptr_FW,
                 top_branch_ := st1.branch_index })
  | some (false, st1) => some (false, st1)

/-- The function `makeDelimiterTable` on the table of the caller:
`std::fill_n(table, 256, false)`, then the loop over the characters of `delimiters` up to its
NUL, then the four characters that are always delimiters.  The loop writes
`table[static_cast<int>(*c)]` with `*c` a `char`: for a byte above 127 the index is negative,
the write falls before the table and no entry of the table changes. -/
def makeDelimiterTable (delimiters : List Nat) (table : List Bool) : List Bool :=
  let cleared := List.replicate 256 false ++ table.drop 256
  (((((delimiters.takeWhile (fun c => decide (c ≠ 0))).foldl
    (fun t c => if c < 128 then t.set c true else t) cleared).set 0 true).set 9 true).set 10
      true).set 32 true

/-- The initial value of the global table `DefaultDelimiters`. -/
def DefaultDelimiters : List Bool := List.replicate 256 false

/-- The local array `tempDelimitTable` of `ExecRE` at the call of `makeDelimiterTable`: its
contents are indeterminate and are read as `false`. -/
def tempDelimitTable : List Bool := List.replicate 256 false

/-- The function `SetDefaultWordDelimiters`: the new value of the global table, from its
value `DefaultDelimiters` before the call. -/
def SetDefaultWordDelimiters (delimiters : List Nat) (DefaultDelimiters : List Bool) :
    List Bool :=
  makeDelimiterTable delimiters DefaultDelimiters

/-- The enum `Direction`. -/
inductive Direction where
  | Forward : Direction
  | Backward : Direction
  deriving DecidableEq, Repr

/-- The three forward loops of `ExecRE` over the start positions `str`, with `n` positions
left up to the end of the text: `kind` 0 is the search anchored at BOL (the loop after the
first attempt), 1 the search with a known first character, 2 the general case.  Returns
`ret_val`, `str` at the exit and the state. -/
def exec_forward (regex : Regex) (text : List Nat) (delimiters : List Bool) (fuel : Nat)
    (kind : Nat) (end_ : Option Nat) : Nat → Nat → ExecState → Option (Bool × Nat × ExecState)
  | 0, _, _ => none
  | n + 1, str, state =>
    if atEndOfString text state.endOfString str ∨ end_ = some str
        ∨ state.Recursion_Limit_Exceeded then some (false, str, state)
    else if kind = 0 ∧ charAt text str ≠ 10 then
      exec_forward regex text delimiters fuel kind end_ n (str + 1) state
    else if kind = 1 ∧ charAt text str ≠ regex.match_start_ then
      exec_forward regex text delimiters fuel kind end_ n (str + 1) state
    else
      match attempt regex text delimiters fuel (if kind = 0 then str + 1 else str) state with
      | none => none
      | some (true, st) => some (true, str, st)
      | some (false, st) => exec_forward regex text delimiters fuel kind end_ n (str + 1) st

/-- The three backward loops of `ExecRE`, from `str = string + n - 1` down to `string`, with
the kinds of `exec_forward`. -/
def exec_backward (regex : Regex) (text : List Nat) (delimiters : List Bool) (fuel : Nat)
    (kind : Nat) (string : Nat) : Nat → ExecState → Option (Bool × ExecState)
  | 0, state => some (false, state)
  | n + 1, state =>
    let str := string + n
    if state.Recursion_Limit_Exceeded then some (false, state)
    else if kind = 0 ∧ charAt text str ≠ 10 then
      exec_backward regex text delimiters fuel kind string n state
    else if kind = 1 ∧ charAt text str ≠ regex.match_start_ then
      exec_backward regex text delimiters fuel kind string n state
    else
      match attempt regex text delimiters fuel (if kind = 0 then str + 1 else str) state with
      | none => none
      | some (true, st) => some (true, st)
      | some (false, st) => exec_backward regex text delimiters fuel kind string n st

/-- The search part of `ExecRE`, from the state that the head of the function has set up. -/
def exec_search (regex : Regex) (text : List Nat) (delimiters : List Bool) (fuel : Nat)
    (string : Nat) (end_ : Option Nat) (direction : Direction) (state : ExecState) :
    Option (Bool × ExecState) :=
  match direction with
  | Direction.Forward =>
    if regex.anchor_ ≠ 0 then
      match attempt regex text delimiters fuel string state with
      | none => none
      | some (true, st) => some (true, st)
      | some (false, st) =>
        (exec_forward regex text delimiters fuel 0 end_ (text.length + 1 - string) string
          st).map (fun r => (r.1, r.2.2))
    else if regex.match_start_ ≠ 0 then
      (exec_forward regex text delimiters fuel 1 end_ (text.length + 1 - string) string
        state).map (fun r => (r.1, r.2.2))
    else
      match exec_forward regex text delimiters fuel 2 end_ (text.length + 1 - string) string
          state with
      | none => none
      | some (true, _, st) => some (true, st)
      | some (false, str, st) =>
        if !st.Recursion_Limit_Exceeded ∧ atEndOfString text st.endOfString str
            ∧ end_ ≠ some str then
          attempt regex text delimiters fuel str st
        else some (false, st)
  | Direction.Backward =>
    let end0 := end_.getD string
    let end1 :=
      match state.endOfString with
      | none => end0
      | some e => if end0 > e then e else end0
    if regex.anchor_ ≠ 0 then
      match exec_backward regex text delimiters fuel 0 string (end1 - string) state with
      | none => none
      | some (true, st) => some (true, st)
      | some (false, st) =>
        if !st.Recursion_Limit_Exceeded then attempt regex text delimiters fuel string st
        else some (false, st)
    else if regex.match_start_ ≠ 0 then
      exec_backward regex text delimiters fuel 1 string (end1 + 1 - string) state
    else exec_backward regex text delimiters fuel 2 string (end1 + 1 - string) state

/-- The position of the first character at the end of the string, from `p` on: the loop
`for (end = string; !state.atEndOfString(end); end++)` of `ExecRE`. -/
def find_end (text : List Nat) (endOfString : Option Nat) : Nat → Nat → Nat
  | 0, p => p
  | n + 1, p => if atEndOfString text endOfString p then p else find_end text endOfString n (p + 1)

/-- The function `ExecRE`.  `text` is the buffer that holds the subject, `string` the index
of its first character; `DefaultDelimiters` is the value of the global table; `mem` gives
the members of the `Regex` object before the call and the indeterminate initial contents of
the local `ExecState` and of the storage of `BraceCounts`.  Returns `ret_val` and the state
at the exit. -/
def ExecRE (regex : Regex) (fuel : Nat) (text : List Nat) (string : Nat) (end_ : Option Nat)
    (direction : Direction) (prev_char succ_char : Nat) (delimiters : Option (List Nat))
    (look_behind_to match_to : Option Nat) (DefaultDelimiters : List Bool) (mem : ExecState) :
    Option (Bool × ExecState) :=
  if regex.program_.getD 0 0 ≠ MAGIC then some (false, mem)
  else
    let Current_Delimiters :=
      match delimiters with
      | none => DefaultDelimiters
      | some d => makeDelimiterTable d tempDelimitTable
    let end1 : Option Nat :=
      if end_ = none ∧ direction = Direction.Backward then
        some (find_end text match_to (text.length + 1 - string) string)
      else end_
    let succ_char1 := if end_ = none then 10 else succ_char
    let state : ExecState :=
      { mem with endOfString := match_to,
                 startOfString := string,
                 lookBehindTo := look_behind_to.getD string,
                 prevIsBOL := decide (prev_char = 10) || decide (prev_char = 0),
                 succIsEOL := decide (succ_char1 = 10) || decide (succ_char1 = 0),
                 prevIsDelim := isDelim Current_Delimiters prev_char,
                 succIsDelim := isDelim Current_Delimiters succ_char1,
                 Recursion_Limit_Exceeded := false,
                 BraceCounts := mem.BraceCounts.take (regex.program_.getD 2 0),
                 startp_ := (List.replicate 9 (some string)) ++ mem.startp_.drop 9,
                 endp_ := (List.replicate 9 (some string)) ++ mem.endp_.drop 9 }
    match exec_search regex text Current_Delimiters fuel string end1 direction state with
    | none => none
    | some (ret_val, st) =>
      if st.Recursion_Limit_Exceeded then some (false, st) else some (ret_val, st)

/-- A freshly constructed `Regex` object, with all indeterminate storage read as zero. -/
def fresh_mem : ExecState :=
  { input := 0, startOfString := 0, endOfString := none, lookBehindTo := 0,
    Extent_Ptr_FW := none, Extent_Ptr_BW := none,
    Back_Ref_Start := List.replicate 10 none, Back_Ref_End := List.replicate 10 none,
    prevIsBOL := false, succIsEOL := false, prevIsDelim := false, succIsDelim := false,
    BraceCounts := List.replicate 256 0,
    startp_ := List.replicate NSUBEXP none, endp_ := List.replicate NSUBEXP none,
    extentpBW_ := none, extentpFW_ := none, top_branch_ := 0,
    Recursion_Count := 0, Recursion_Limit_Exceeded := false, branch_index := 0 }

/-- The six-argument overload of `ExecRE`, called on a whole NUL-terminated subject with no
end pointer, no delimiters, no look-behind limit and no logical end. -/
def Execute (regex : Regex) (fuel : Nat) (subject : List Nat) : Option (Bool × ExecState) :=
  ExecRE regex fuel subject 0 none Direction.Forward 0 0 none none none DefaultDelimiters
    fresh_mem

/-! ## Substitution -/

/-- The function `adjustcase` on the `len` characters just copied, as a new string. -/
def adjustcase (str : List Nat) (chgcase : Nat) : List Nat :=
  let len := if islower chgcase ∧ str.length > 0 then 1 else str.length
  if chgcase = 117 ∨ chgcase = 85 then (str.take len).map toupper ++ str.drop len
  else if chgcase = 108 ∨ chgcase = 76 then (str.take len).map tolower ++ str.drop len
  else str

/-- The function `strncpy(dst, src, len)`, as the `len` characters written: the characters
of the string at `src` up to its NUL, then NULs. -/
def strncpy (text : List Nat) (src : Nat) (len : Nat) : List Nat :=
  let body := ((text.drop src).takeWhile (fun c => decide (c ≠ 0))).take len
  body ++ List.replicate (len - body.length) 0

/-- The part of the loop of `SubstituteRE` that reads one token of the template: `c` is the
character just read and `src` the index after it.  Returns `none` for the `break` after a
case token at the end of the template, else `c`, `paren_no` (-1 when none), `chgcase` and the
new `src`. -/
def subst_token (source : List Nat) (c : Nat) (src : Nat) :
    Except CompileError (Option (Nat × Int × Nat × Nat)) :=
  let cased := decide (c = 92) &&
    (decide (charAt source src = 117) || decide (charAt source src = 85)
      || decide (charAt source src = 108) || decide (charAt source src = 76))
  let chgcase := if cased then charAt source src else 0
  let c1 := if cased then charAt source (src + 1) else c
  let src1 := if cased then src + 2 else src
  if cased ∧ c1 = 0 then .ok none
  else if c1 = 38 then .ok (some (c1, 0, chgcase, src1))
  else if c1 = 92 then
    let d := charAt source src1
    if 49 ≤ d ∧ d ≤ 57 then .ok (some (c1, ((d - 48 : Nat) : Int), chgcase, src1 + 1))
    else if literal_escape d ≠ 0 then .ok (some (literal_escape d, -1, chgcase, src1 + 1))
    else
      match numeric_escape source d src1 with
      | .error e => .error e
      | .ok (test, src_alias) =>
        if test ≠ 0 then .ok (some (test, -1, chgcase, src_alias + 1))
        else if d = 0 then .ok (some (92, -1, chgcase, src1))
        else .ok (some (d, -1, chgcase, src1 + 1))
  else .ok (some (c1, -1, chgcase, src1))

/-- The loop of `SubstituteRE` over the template, with the characters written to `dest` so
far.  Returns `!anyWarnings` and the string in `dest`, without its final NUL.  The slots of a
group after a match have the end not before the start, and the loop is the one of the C code
on them.  For slots with the end before the start the length is taken as the value of the
`size_t`, which is above every `max`: the copy is truncated here, where the C code adds the
length to the pointer `dst` and calls `strncpy` with it, a behaviour that is not defined. -/
def subst_loop (text : List Nat) (startp_ endp_ : List (Option Nat)) (source : List Nat)
    (max : Int) : Nat → Nat → List Nat → Bool → Except CompileError (Bool × List Nat)
  | 0, _, _, _ => .error .out_of_fuel
  | fuel + 1, src, dest, anyWarnings =>
    let c := charAt source src
    if c = 0 then .ok (!anyWarnings, dest)
    else
      match subst_token source c (src + 1) with
      | .error e => .error e
      | .ok none => .ok (!anyWarnings, dest)
      | .ok (some (c1, paren_no, chgcase, src1)) =>
        if paren_no < 0 then
          if (dest.length : Int) ≥ max - 1 then .ok (false, dest)
          else subst_loop text startp_ endp_ source max fuel src1 (dest ++ [c1 % 256]) anyWarnings
        else
          match startp_.getD paren_no.toNat none, endp_.getD paren_no.toNat none with
          | some st, some en =>
            let len0 : Int := if en ≥ st then ((en - st : Nat) : Int) else 2 ^ 64 - ((st - en : Nat) : Int)
            let over := decide ((dest.length : Int) + len0 ≥ max - 1)
            let len : Nat := if over then (max - (dest.length : Int) - 1).toNat else len0.toNat
            let copied := strncpy text st len
            let copied1 := if chgcase ≠ 0 then adjustcase copied chgcase else copied
            let damaged := decide (len ≠ 0) && decide (copied1.getLastD 1 = 0)
            subst_loop text startp_ endp_ source max fuel src1 (dest ++ copied1)
              (anyWarnings || over || damaged)
          | _, _ => subst_loop text startp_ endp_ source max fuel src1 dest anyWarnings

/-- The function `SubstituteRE`: `text` is the buffer that the capture slots point into.
Returns the boolean result and the string left in `dest`, without its final NUL. -/
def SubstituteRE (program_ : List Nat) (text : List Nat) (startp_ endp_ : List (Option Nat))
    (source : List Nat) (max : Int) : Except CompileError (Bool × List Nat) :=
  if program_.getD 0 0 ≠ MAGIC then .ok (false, [])
  else subst_loop text startp_ endp_ source max (source.length + 1) 0 [] false

/-! ## Compile, then execute -/

/-- Compile a pattern with the default flags and run the compiled program on a subject, as
`Regex(exp).ExecRE(subject, nullptr, Direction::Forward)` does. -/
def compile_and_execute (exp : List Nat) (fuel : Nat) (subject : List Nat) :
    Except CompileError (Option (Bool × ExecState)) :=
  (CompileRE exp 0).map (fun re => Execute re fuel subject)

/-- The span recorded for the capture group `n`: the slots `startp_[n]` and `endp_[n]`. -/
def group (state : ExecState) (n : Nat) : List (Option Nat) :=
  [state.startp_.getD n none, state.endp_.getD n none]

/-- The outcome of a search that the caller looks at: the matched flag and the slots of the
groups 0 and 1. -/
def outcome (r : Except CompileError (Option (Bool × ExecState))) :
    Except CompileError (Option (Bool × List (Option Nat))) :=
  r.map (Option.map (fun x => (x.1, group x.2 0 ++ group x.2 1)))

/-- The matched flag alone. -/
def matched (r : Except CompileError (Option (Bool × ExecState))) :
    Except CompileError (Option Bool) :=
  r.map (Option.map (fun x => x.1))

/-! ## The patterns `a{m,n}` -/

/-- The decimal numeral of `n` as characters, most significant digit first (empty for 0). -/
def decimal (n : Nat) : List Nat := ((Nat.digits 10 n).reverse).map (fun d => d + 48)

/-- The value of a run of digits read from the left, from the value `v` read so far. -/
def digits_value (v : Nat) (ds : List Nat) : Nat := ds.foldl (fun a d => a * 10 + d) v

/-- The pattern `a{m,n}`, the bounds written in decimal. -/
def brace_pattern (m n : Nat) : List Nat :=
  97 :: 123 :: (decimal m ++ 44 :: (decimal n ++ [125]))

/-- A state of the first pass on a pattern without groups. -/
def pass1_state (rp size : Nat) : CompileState :=
  { pass_init 0 Ptr.Compute_Size size [] with Reg_Parse := rp }

/-- A state of the second pass on a pattern without groups. -/
def pass2_state (rp ptr : Nat) (program : List Nat) : CompileState :=
  { pass_init 0 (Ptr.prog ptr) 21 program with Reg_Parse := rp }

/-- The program compiled from `a{m,n}`. -/
def brace_program (m n : Nat) : List Nat :=
  [156, 0, 0, 34, 0, 15, 31, 0, 12, m / 256, m % 256, n / 256, n % 256, 7, 0, 0, 97, 0, 1, 0, 0, 0]

/-- The `Regex` object compiled from `a{m,n}`. -/
def brace_regex (m n : Nat) : Regex :=
  { program_ := brace_program m n, match_start_ := 0, anchor_ := 0, Total_Paren := 1,
    Num_Braces := 0 }

/-- The state that `ExecRE`, called through `Execute`, hands to the search. -/
def execute_state : ExecState :=
  { fresh_mem with prevIsBOL := true, succIsEOL := true, BraceCounts := [],
                   startp_ := List.replicate 9 (some 0) ++ List.replicate 41 none,
                   endp_ := List.replicate 9 (some 0) ++ List.replicate 41 none }

/-! ## The two passes of the compiler -/

/-- The pointer that the first pass holds where the second pass holds `p`: every address
in the program is the address of `Compute_Size`. -/
def ptrP1 : Ptr → Ptr
  | .prog _ => .Compute_Size
  | p => p

/-- The number of units counted so far: the size counter in the first pass, the offset of
the emit pointer in the second. -/
def emitted (s : CompileState) : Nat :=
  match s.Code_Emit_Ptr with
  | .prog o => o
  | _ => s.Reg_Size

/-- The state of the first pass that goes with a state of the second pass: no program, the
emit pointer at `Compute_Size`, the size counter at the number of bytes emitted. -/
def toP1 (s : CompileState) : CompileState :=
  { s with Code_Emit_Ptr := ptrP1 s.Code_Emit_Ptr, Reg_Size := emitted s, program_ := [],
           hang := false }

/-- The result of a grammar function in the first pass that goes with one of the second. -/
def resP1 (r : Res) : Res :=
  { r with ret_val := ptrP1 r.ret_val, cState := toP1 r.cState }

/-- The result of an escape function in the first pass that goes with one of the second. -/
def escP1 (r : Ptr × Nat × CompileState) : Ptr × Nat × CompileState :=
  (ptrP1 r.1, r.2.1, toP1 r.2.2)

/-- The result of the literal loop in the first pass that goes with one of the second. -/
def litP1 (r : Nat × CompileState) : Nat × CompileState := (r.1, toP1 r.2)

/-- The result of the head of `chunk` in the first pass that goes with one of the second. -/
def openP1 (r : Ptr × Nat × Nat × Bool × Ptr × CompileState) :
    Ptr × Nat × Nat × Bool × Ptr × CompileState :=
  (ptrP1 r.1, r.2.1, r.2.2.1, r.2.2.2.1, ptrP1 r.2.2.2.2.1, toP1 r.2.2.2.2.2)

/-- The closing node that `chunk_close` emits for a construct of the kind `paren`. -/
def close_node (paren this_paren : Nat) (cState : CompileState) : Ptr × CompileState :=
  if paren = PAREN then emit_node (CLOSE + this_paren) cState
  else if paren = NO_PAREN then emit_node END cState
  else if paren = POS_AHEAD_OPEN ∨ paren = NEG_AHEAD_OPEN then emit_node LOOK_AHEAD_CLOSE cState
  else if paren = POS_BEHIND_OPEN ∨ paren = NEG_BEHIND_OPEN then
    emit_node LOOK_BEHIND_CLOSE cState
  else emit_node NOTHING cState

/-- The step of `chunk_close` over the closing parenthesis. -/
def close_advance (paren : Nat) (cs : CompileState) : CompileState :=
  if paren ≠ NO_PAREN then { cs with Reg_Parse := cs.Reg_Parse + 1 } else cs

/-- The write of the look-behind bounds in `chunk_close`. -/
def close_bounds (elbb : Ptr) (range : len_range) (cs : CompileState) : CompileState :=
  if elbb ≠ Ptr.null ∧ cs.Code_Emit_Ptr ≠ Ptr.Compute_Size then
    { cs with
        program_ :=
          poke (poke (poke (poke cs.program_ elbb
            (putOffsetL range.lower)) (elbb.add 1)
            (putOffsetR range.lower)) (elbb.add 2)
            (putOffsetL range.upper)) (elbb.add 3)
            (putOffsetR range.upper) }
  else cs

/-- The record that `chunk_close` keeps of a closed capturing group. -/
def close_record (exp : List Nat) (paren this_paren flag : Nat) (cs : CompileState) :
    CompileState :=
  let closed := decide (paren = PAREN) && decide (this_paren ≤ 32)
  let zero_width := closed && chunk_zero_width exp cs.Reg_Parse
  let cs1 :=
    if closed then { cs with Closed_Parens := cs.Closed_Parens.set this_paren true } else cs
  if flag &&& HAS_WIDTH ≠ 0 ∧ paren = PAREN ∧ !zero_width ∧ this_paren ≤ 32 then
    { cs1 with Paren_Has_Width := cs1.Paren_Has_Width.set this_paren true }
  else cs1

/-- The function `chunk_close` from the state `cs` in which the tails are hooked. -/
def chunk_close_rest (exp : List Nat) (paren this_paren : Nat) (look_only : Bool)
    (elbb : Ptr) (os onl : Bool) (rv : Ptr) (flag : Nat) (range : len_range)
    (cs : CompileState) : Except CompileError Res :=
  if paren ≠ NO_PAREN ∧ charAt exp cs.Reg_Parse ≠ 41 then .error .missing_right_paren
  else if paren = NO_PAREN ∧ charAt exp cs.Reg_Parse ≠ 0 then
    if charAt exp cs.Reg_Parse = 41 then .error .missing_left_paren else .error .junk_on_end
  else if elbb ≠ Ptr.null ∧ range.lower < 0 then .error .look_behind_unbounded
  else if elbb ≠ Ptr.null ∧ range.upper > 65535 then .error .look_behind_too_large
  else
    .ok { ret_val := rv, flag := flag,
          range := if look_only then { lower := 0, upper := 0 } else range,
          cState :=
            { close_record exp paren this_paren flag
                (close_bounds elbb range (close_advance paren cs)) with
              Is_Case_Insensitive := os, Match_Newline := onl } }

/-- Is the pointer an address in the program buffer? -/
def isProg : Ptr → Bool
  | .prog _ => true
  | _ => false

/-- What the emit functions leave alone in a compile state: the kind of the emit pointer, the
length of the program buffer and the count of parentheses. -/
def sig (s : CompileState) : Bool × Nat × Nat :=
  (isProg s.Code_Emit_Ptr, s.program_.length, s.Total_Paren)

/-- The state `t` comes after `s` in a pass: the emit pointer is of the same kind, the buffer
of the same length and the count of parentheses has stayed within `NSUBEXP`. -/
def Keeps (s t : CompileState) : Prop :=
  (sig t).1 = (sig s).1 ∧ (sig t).2.1 = (sig s).2.1 ∧ ((sig s).2.2 ≤ NSUBEXP → (sig t).2.2 ≤ NSUBEXP)

/-- Every result that a computation can return satisfies `P`. -/
def OkAll {α : Type} (P : α → Prop) (x : Except CompileError α) : Prop :=
  ∀ a, x = .ok a → P a

/-! ## Searches and passes of the constructor -/

/-- A local `ExecState` whose storage holds the back-reference 1 of an earlier search. -/
def stale_mem : ExecState :=
  { fresh_mem with Back_Ref_Start := (List.replicate 10 none).set 1 (some 0),
                   Back_Ref_End := (List.replicate 10 none).set 1 (some 0) }

/-- The search of `Execute` run on the local state `mem`. -/
def execute_on (mem : ExecState) (exp : List Nat) (fuel : Nat) (subject : List Nat) :
    Except CompileError (Option (Bool × ExecState)) :=
  (CompileRE exp 0).map (fun re =>
    ExecRE re fuel subject 0 none Direction.Forward 0 0 none none none DefaultDelimiters mem)

/-- The first pass of the constructor on a regex. -/
def first_pass (exp : List Nat) (defaultFlags : Nat) : Except CompileError Res :=
  compile_pass exp (compile_fuel exp) (pass_init defaultFlags Ptr.Compute_Size 0 [])

/-- The second pass of the constructor on a regex, on the buffer allocated for the size
`size` that the first pass has computed: `new prog_type[size + 1]`. -/
def second_pass (exp : List Nat) (defaultFlags size : Nat) : Except CompileError Res :=
  compile_pass exp (compile_fuel exp)
    (pass_init defaultFlags (Ptr.prog 0) size (List.replicate (size + 1) 0))

/-! ## A run of capturing groups -/

/-- The regex `(a)` followed by `k` times `\1{2}`: `k` brace constructs on an operand that is
not SIMPLE. -/
def brace_run (k : Nat) : List Nat :=
  bytes "(a)" ++ (List.replicate k (bytes "\\1\x7b2\x7d")).flatten

/-- The state of the first pass on `brace_run 256` after `(a)` and `j` of the constructs. -/
def brace_run_state (j : Nat) : CompileState :=
  { pass_init 0 Ptr.Compute_Size (20 + 24 * j) [] with
      Reg_Parse := 3 + 5 * j, Num_Braces := j, Total_Paren := 2,
      Closed_Parens := (List.replicate 32 false).set 1 true,
      Paren_Has_Width := (List.replicate 32 false).set 1 true }

/-! ## The first piece of a regex -/

/-- The state of the first pass of the constructor when `alternative` calls `piece` for the
first time, at the head of the regex. -/
def first_piece_state (defaultFlags : Nat) : CompileState :=
  (emit_node BRANCH (emit_byte 37 (emit_byte 37 (emit_byte MAGIC
    (pass_init defaultFlags Ptr.Compute_Size 0 []))))).2

/-! ## The written bounds of a brace quantifier -/

/-- The regex text `pre{m,n}post`, the bounds written with the decimal digits `dm` and `dn`
(digit values, most significant first). -/
def brace_text (pre dm dn post : List Nat) : List Nat :=
  pre ++ 123 :: (dm.map (fun d => d + 48) ++ 44 :: (dn.map (fun d => d + 48) ++ 125 :: post))

/-- The regex text `pre{m}post` with one written bound. -/
def brace_text_one (pre dm post : List Nat) : List Nat :=
  pre ++ 123 :: (dm.map (fun d => d + 48) ++ 125 :: post)

/-- The regex text `pre{,n}post` without a written minimum. -/
def brace_text_max (pre dn post : List Nat) : List Nat :=
  pre ++ 123 :: 44 :: (dn.map (fun d => d + 48) ++ 125 :: post)

/-! ## Capture slots within a match -/

/-- The state that a step of `match` ends with. -/
def Step.state : Step → ExecState
  | .done _ st => st
  | .next _ st => st

/-- The capture slots `startp_` and `endp_` of a state. -/
def slots (s : ExecState) : List (Option Nat) × List (Option Nat) := (s.startp_, s.endp_)

/-- Every capture slot that is set in the state `s` holds the same position in the state
`t`. -/
def SlotsKept (s t : ExecState) : Prop :=
  (∀ i v, (slots s).1.getD i none = some v → (slots t).1.getD i none = some v)
    ∧ (∀ i v, (slots s).2.getD i none = some v → (slots t).2.getD i none = some v)

/-- Every value that an optional result may hold has the property `P`. -/
def SomeAll {α : Type} (P : α → Prop) (x : Option α) : Prop := ∀ a, x = some a → P a

/-! ## The recursion flag within a match -/

/-- A step of `match` that follows the recursion flag: a return with the flag set returns 0,
and the loop goes on only with the flag clear. -/
def Step.aborts : Step → Prop
  | .done x t => t.Recursion_Limit_Exceeded = true → x = false
  | .next _ t => t.Recursion_Limit_Exceeded = false

/-! ## The positions of a forward search -/

/-- The recursion flag and the logical end of the string in the state `t`, against the state
`s`: the flag stays set once it is set, and the logical end is the same as long as the flag
is clear. -/
def Steady (s t : ExecState) : Prop :=
  (s.Recursion_Limit_Exceeded = true → t.Recursion_Limit_Exceeded = true)
    ∧ (t.Recursion_Limit_Exceeded = false → t.endOfString = s.endOfString)

/-- The attempts of a forward search at the positions `ps` in turn, up to the first attempt
that succeeds; the search stops when the recursion flag is set. -/
def search_positions (regex : Regex) (text : List Nat) (delimiters : List Bool) (fuel : Nat) :
    List Nat → ExecState → Option (Bool × ExecState)
  | [], st => some (false, st)
  | p :: ps, st =>
    if st.Recursion_Limit_Exceeded then some (false, st)
    else
      match attempt regex text delimiters fuel p st with
      | none => none
      | some (true, st1) => some (true, st1)
      | some (false, st1) => search_positions regex text delimiters fuel ps st1

/-! ## The default table of word delimiters -/

/-- An item of a substitution template, in the words of the specification: an ordinary
character, `&`, a group reference `\N`, or an escaped character `\c`. -/
inductive TemplateItem where
  | char (c : Nat) : TemplateItem
  | whole : TemplateItem
  | group (N : Nat) : TemplateItem
  | escaped (c : Nat) : TemplateItem
  deriving DecidableEq, Repr

/-- The characters `c` for which the specification of the template takes backslash-`c` as
`c` itself, as far as the code does so: every character but NUL, the digits 1 to 9, the
case tokens `u U l L`, the letters `a b e f n r t v` of the control characters, and the
characters `0 x X` that start a numeric escape. -/
def escapes_to_itself (c : Nat) : Bool :=
  decide (c ≠ 0) && !(decide (49 ≤ c) && decide (c ≤ 57)) && !([117, 85, 108, 76].contains c)
    && !([97, 98, 101, 102, 110, 114, 116, 118].contains c) && !([48, 120, 88].contains c)

/-- The well-formed items: an ordinary character is a byte other than NUL, `&` and the
backslash; a group reference names a group from 1 to 9; an escaped character is a byte that
stands for itself. -/
def TemplateItem.wf : TemplateItem → Bool
  | .char c => decide (c ≠ 0) && decide (c ≠ 38) && decide (c ≠ 92) && decide (c < 256)
  | .whole => true
  | .group N => decide (1 ≤ N) && decide (N ≤ 9)
  | .escaped c => escapes_to_itself c && decide (c < 256)

/-- The characters of an item in the template. -/
def TemplateItem.chars : TemplateItem → List Nat
  | .char c => [c]
  | .whole => [38]
  | .group N => [92, 48 + N]
  | .escaped c => [92, c]

/-- The text of the capture group `N`: the characters from `startp_[N]` up to `endp_[N]`,
nothing when one of the two is not set. -/
def captured (text : List Nat) (startp_ endp_ : List (Option Nat)) (N : Nat) : List Nat :=
  match startp_.getD N none, endp_.getD N none with
  | some st, some en => (text.drop st).take (en - st)
  | _, _ => []

/-- What an item stands for in the output, in the words of the specification. -/
def TemplateItem.value (text : List Nat) (startp_ endp_ : List (Option Nat)) :
    TemplateItem → List Nat
  | .char c => [c]
  | .whole => captured text startp_ endp_ 0
  | .group N => captured text startp_ endp_ N
  | .escaped c => [c]

/-- The template made of the items. -/
def template (items : List TemplateItem) : List Nat := (items.map TemplateItem.chars).flatten

/-- The expansion of the items: what each item stands for, in order. -/
def expansion (text : List Nat) (startp_ endp_ : List (Option Nat))
    (items : List TemplateItem) : List Nat :=
  (items.map (TemplateItem.value text startp_ endp_)).flatten

/-- A capture state that a match can leave for the groups 0 to 9: each group that is set
spans characters of the text, none of them NUL, with its start not after its end. -/
def CapturesIn (text : List Nat) (startp_ endp_ : List (Option Nat)) : Prop :=
  ∀ N st en, N ≤ 9 → startp_.getD N none = some st → endp_.getD N none = some en →
    st ≤ en ∧ en ≤ text.length ∧ ∀ i, st ≤ i → i < en → charAt text i ≠ 0

/-! ## The candidates of a look-behind -/

/-- The candidates of a look-behind in the words of the specification: the lengths
`offsets` are tried in turn, each from the position `save - offset`, none from before the
look-behind floor, and the first whose match ends at `save` is accepted.  The result `none`
for `found` is the return on the recursion limit. -/
def behind_tries (program text : List Nat) (delimiters : List Bool) (next : Ptr) (save : Nat) :
    Nat → List Nat → ExecState → Option (Option Bool × ExecState)
  | _, [], state => some (some false, state)
  | 0, _ :: _, _ => none
  | fuel + 1, offset :: rest, state =>
    if save < state.lookBehindTo + offset then
      some (some false, { state with input := save - offset })
    else
      match match_ program text delimiters fuel next false
          { state with input := save - offset } with
      | none => none
      | some (answer, st) =>
        if st.Recursion_Limit_Exceeded then some (none, st)
        else if answer ∧ st.input = save then
          some (some true,
            match st.Extent_Ptr_BW with
            | none => { st with Extent_Ptr_BW := some (save - offset) }
            | some e =>
              if e > save - offset then { st with Extent_Ptr_BW := some (save - offset) }
              else st)
        else behind_tries program text delimiters next save fuel rest st

/-! ## Ordinary characters of a regex -/

/-- An ordinary character of a regex: a byte other than NUL, the backslash and the
characters of `Default_Meta_Char`. -/
def ordinary (c : Nat) : Bool :=
  decide (c ≠ 0) && decide (c ≠ 92) && (strchr Default_Meta_Char c).isNone

/-- The character that the literal loop of `atom` emits for the character `a` of the regex. -/
def literal_byte (ci : Bool) (a : Nat) : Nat := if ci then tolower a else a

/-! ## A regex of one piece -/

/-- The state of a pass of the constructor when `alternative` calls `piece` for the first
time, at the head of the regex; `P` is the state at the head of the pass. -/
def head_state (P : CompileState) : CompileState :=
  (emit_node BRANCH (emit_byte 37 (emit_byte 37 (emit_byte MAGIC P)))).2

/-- What a pass of the constructor returns on a regex that is one piece, where `l` is what
`piece` has returned: the BRANCH node of the only alternative is tied to itself by `tail`,
the END node is emitted and the tails are hooked on it. -/
def pass_of_piece (P : CompileState) (l : Res) : Res :=
  let b := (emit_node BRANCH (emit_byte 37 (emit_byte 37 (emit_byte MAGIC P)))).1
  let cs := tail b b l.cState
  let e := emit_node END cs
  { ret_val := b,
    flag := if (WORST ||| (l.flag &&& HAS_WIDTH)) &&& HAS_WIDTH = 0 then HAS_WIDTH &&& 0xFFFFFFFE
            else HAS_WIDTH,
    range := if l.range.lower < 0 then { lower := -1, upper := -1 }
             else { lower := 0 + l.range.lower, upper := 0 + l.range.upper },
    cState :=
      { chunk_hook e.1 ((tail b e.1 e.2).program_.length + 1) b (tail b e.1 e.2) with
        Is_Case_Insensitive := P.Is_Case_Insensitive, Match_Newline := P.Match_Newline } }

/-! ## The alternatives of a branch chain -/

/-- The BRANCH nodes that the `do ... while` of the case `BRANCH` of `match` walks from the
node `scan`, at most `n` of them. -/
def branch_chain (program : List Nat) : Nat → Ptr → List Ptr
  | 0, _ => []
  | n + 1, scan =>
    scan :: (if NEXT_PTR program scan ≠ Ptr.null ∧ getOpcode program (NEXT_PTR program scan) = BRANCH
             then branch_chain program n (NEXT_PTR program scan) else [])

/-- An alternation in the words of the specification, an ordered choice with backtracking:
the branches are tried in turn, each from the cursor `save`, together with what follows the
alternation; the first one that matches is taken and its index is reported to a caller that
asks for it; when none matches the alternation fails, the cursor back at `save`.  The
recursion limit ends the choice. -/
def branch_tries (program text : List Nat) (delimiters : List Bool) (save : Nat)
    (branch_index_param : Bool) : Nat → List Ptr → Nat → ExecState → Option Step
  | _, [], _, state => some (Step.done false { state with input := save })
  | 0, _ :: _, _, _ => none
  | fuel + 1, b :: rest, index, state =>
    match match_ program text delimiters fuel (OPERAND b) false { state with input := save } with
    | none => none
    | some (true, st) =>
      some (Step.done true (if branch_index_param then { st with branch_index := index } else st))
    | some (false, st) =>
      if st.Recursion_Limit_Exceeded then some (Step.done false st)
      else
        branch_tries program text delimiters save branch_index_param fuel rest (index + 1)
          { st with input := save }

/-! ## The frame of a search -/

/-- The members of the state that `match` only reads: the start of the string, the
look-behind floor and the four boundary flags. -/
def frame (s : ExecState) : Nat × Nat × Bool × Bool × Bool × Bool :=
  (s.startOfString, s.lookBehindTo, s.prevIsBOL, s.succIsEOL, s.prevIsDelim, s.succIsDelim)

/-! ## The state that an attempt starts from -/

/-- The state that `attempt` hands to `match` for a try at the position `string`. -/
def attempt_state (regex : Regex) (string : Nat) (state : ExecState) : ExecState :=
  { state with input := string,
               Recursion_Count := 0,
               Extent_Ptr_BW := some string,
               Extent_Ptr_FW := none,
               startp_ := clear_slots (regex.program_.getD 1 0 + 1) state.startp_,
               endp_ := clear_slots (regex.program_.getD 1 0 + 1) state.endp_,
               branch_index := 0 }

/-- Two states that differ at most in what `attempt` sets anew before it calls `match`: the
cursor, the recursion counter, the extent pointers, the capture slots of the regex and the
branch index. -/
def SameReset (regex : Regex) (s t : ExecState) : Prop :=
  attempt_state regex 0 s = attempt_state regex 0 t

/-- The outcomes of two searches agree: both run out of fuel, or both match and leave the
same state, or both fail and leave states that differ at most in what `attempt` sets
anew. -/
def SameOutcome (regex : Regex) : Option (Bool × ExecState) → Option (Bool × ExecState) → Prop
  | none, none => True
  | some (true, s), some (true, t) => s = t
  | some (false, s), some (false, t) => SameReset regex s t
  | _, _ => False

/-! ## The repetition loop without the test of the next character -/

/-- The loop of the repetition nodes of `match` in the words of the specification, without
the test on the next character: what follows the repetition is tried after every count of
the operand. -/
def match_repeat_plain (program text : List Nat) (delimiters : List Bool) :
    Nat → Ptr → Ptr → Nat → Nat → Bool → Nat → Nat → ExecState → Option Step
  | 0, _, _, _, _, _, _, _, _ => none
  | fuel + 1, next, next_op, min, max, lazy, save, num_matched, state =>
    if ¬ (min ≤ num_matched ∧ num_matched ≤ max) then some (Step.done false state)
    else
      match match_ program text delimiters fuel next false state with
      | none => none
      | some (true, st) => some (Step.done true st)
      | some (false, st) =>
        if st.Recursion_Limit_Exceeded then some (Step.done false st)
        else if lazy then
          let g := greedy program text delimiters next_op 1 st
          if g.1 = 0 then some (Step.done false g.2)
          else
            match_repeat_plain program text delimiters fuel next next_op min max lazy save
              (num_matched + 1) { g.2 with input := save + (num_matched + 1) }
        else if num_matched > REG_ZERO then
          match_repeat_plain program text delimiters fuel next next_op min max lazy save
            (num_matched - 1) { st with input := save + (num_matched - 1) }
        else if min = REG_ZERO ∧ num_matched = REG_ZERO then some (Step.done false st)
        else
          match_repeat_plain program text delimiters fuel next next_op min max lazy save
            num_matched { st with input := save + num_matched }

/-! ## The span of group 0 -/

/-- The arrays of capture slots of the state `t` have the lengths that they have in `s`. -/
def SameSlots (s t : ExecState) : Prop :=
  t.startp_.length = s.startp_.length ∧ t.endp_.length = s.endp_.length

/-- The cursor after a step of `match` is not before the position `i`, when the step is not
a return of 0. -/
def Step.ahead (i : Nat) : Step → Prop
  | .done true st => i ≤ st.input
  | .done false _ => True
  | .next _ st => i ≤ st.input

/-- The state `st` is the state after a successful attempt at a position `p` not before
`string`, and the slots of group 0 hold `p` and a position `q` not before `p`. -/
def SpanOfAttempt (regex : Regex) (text : List Nat) (delimiters : List Bool) (fuel : Nat)
    (string : Nat) (st : ExecState) : Prop :=
  ∃ (p q : Nat) (u : ExecState), string ≤ p ∧ p ≤ q
    ∧ attempt regex text delimiters fuel p u = some (true, st)
    ∧ group st 0 = [some p, some q]

/-! ## An atom in front of a brace quantifier -/

/-- The regex text `e` is the text `x` followed by a brace quantifier whose first bound
starts with the digit 1. -/
def Cut (x e : List Nat) : Prop := ∃ t, e = x ++ 123 :: 49 :: t

/-- The literal loop of `atom`, called at the index `p`, takes the character there, or the
escape that starts there, and comes to the index `q`. -/
def steps_to (e : List Nat) (p q : Nat) : Prop :=
  ¬ (charAt e p = 0 ∨ (strchr Default_Meta_Char (charAt e p)).isSome = true)
    ∧ ∃ s cs1 : CompileState, s.Reg_Parse = p ∧ atom_literal_step e s = .ok (some cs1)
        ∧ cs1.Reg_Parse = q

/-- Is the text `x` one atom of the regex `e` that starts with it?  The function `atom`,
called at the head of `e` in the first pass, returns a node and leaves the parse index after
the last character of `x`. -/
def one_atom (x e : List Nat) (d : Nat) : Bool :=
  match atom e (compile_fuel e - 5) (first_piece_state d) with
  | .ok a => decide (a.ret_val ≠ Ptr.null) && decide (a.cState.Reg_Parse = x.length)
  | .error _ => false

/-! ## Theorems -/

/-! ### Values of `char` and of `long` -/

theorem wrap64_small (x : Int) (h0 : -2 ^ 63 ≤ x) (h1 : x < 2 ^ 63) : wrap64 x = x := by
  unfold wrap64
  norm_num at h0 h1 ⊢
  omega

theorem wrap64_bounds (x : Int) : -2 ^ 63 ≤ wrap64 x ∧ wrap64 x < 2 ^ 63 := by
  unfold wrap64
  norm_num
  omega

theorem wrap64_nat (n : Nat) (h : n < 2 ^ 63) : wrap64 (n : Int) = (n : Int) := by
  apply wrap64_small
  · norm_num; omega
  · norm_num at h ⊢; omega

theorem schar_small (c : Nat) (h : c < 128) : schar c = (c : Int) := by
  unfold schar
  rw [if_pos h]

/-- An unsigned byte of the program equals a `char` of the subject exactly when the two hold
the same byte and this byte is below 128. -/
theorem schar_eq_iff (p c : Nat) : (p : Int) = schar c ↔ p = c ∧ c < 128 := by
  unfold schar
  split <;> omega

theorem schar_ne_of_ne (p c : Nat) (h : p ≠ c) : (p : Int) ≠ schar c := by
  unfold schar
  split <;> omega

theorem schar_ne_comm (p c : Nat) (h : c ≠ p) : schar c ≠ (p : Int) := by
  unfold schar
  split <;> omega

/-- C1: the program compiled from `(foo|bar)baz`, executed forward on `bazbarbaz`, reports a
match; group 0 is the span [3,9) and group 1 the span [3,6), the text `bar`. -/
theorem C1_alternation_in_group :
    outcome (compile_and_execute (bytes "(foo|bar)baz") 200 (bytes "bazbarbaz"))
        = .ok (some (true, [some 3, some 9, some 3, some 6]))
      ∧ ((bytes "bazbarbaz").drop 3).take (6 - 3) = bytes "bar" := by
  constructor <;> decide!

/-- C2: the program compiled from `(\w+)\s+\1` matches the whole of `hello hello`, the
span [0,11), and reports no match on `hello world`. -/
theorem C2_back_reference :
    outcome (compile_and_execute (bytes "(\\w+)\\s+\\1") 400 (bytes "hello hello"))
        = .ok (some (true, [some 0, some 11, some 0, some 5]))
      ∧ (bytes "hello hello").length = 11
      ∧ matched (compile_and_execute (bytes "(\\w+)\\s+\\1") 400 (bytes "hello world"))
        = .ok (some false) := by
  refine ⟨?_, ?_, ?_⟩ <;> decide!

/-- C5: the program compiled from `a+`, executed forward on `aaab`, reports a match with
group 0 the span [0,3). -/
theorem C5_plus_on_run :
    (compile_and_execute (bytes "a+") 100 (bytes "aaab")).map
        (Option.map (fun x => (x.1, group x.2 0)))
      = .ok (some (true, [some 0, some 3])) := by
  decide!

/-- A look-ahead node after which `match` goes on leaves the input position and the logical
end of the string as they were before the node. -/
theorem look_ahead_restores (program text : List Nat) (delimiters : List Bool) (fuel : Nat)
    (scan : Ptr) (bip : Bool) (state : ExecState) (next : Ptr) (st' : ExecState)
    (hop : getOpcode program scan = POS_AHEAD_OPEN ∨ getOpcode program scan = NEG_AHEAD_OPEN)
    (h : match_node program text delimiters fuel scan bip state = some (Step.next next st')) :
    st'.input = state.input ∧ st'.endOfString = state.endOfString := by
  cases fuel with
  | zero => simp [match_node] at h
  | succ f =>
    rw [match_node] at h
    rcases hop with hop | hop <;> simp only [hop] at h <;> simp at h <;>
      (split at h <;> try simp at h) <;>
      (split at h <;> try simp at h) <;>
      (split at h <;> try simp at h) <;>
      (split at h <;> try simp at h) <;>
      (obtain ⟨_, rfl⟩ := h; simp)

/-- The program compiled from `foo(?=bar)`. -/
def look_ahead_program : List Nat :=
  [156, 0, 0, 34, 0, 26, 7, 0, 7, 102, 111, 111, 0, 43, 0, 3, 34, 0, 10, 7, 0, 7, 98, 97, 114,
    0, 45, 0, 3, 1, 0, 0, 0]

/-- The state of `match` on `foobar` when it reaches the look-ahead node of
`look_ahead_program`, after `foo`. -/
def look_ahead_state : ExecState :=
  { fresh_mem with input := 3, Recursion_Count := 1 }

/-- C3: the program compiled from `foo(?=bar)` matches `foobar` with group 0 the span [0,3)
and does not match `foobaz`; and for every program, text and state, a positive or negative
look-ahead node after which `match` goes on (a successful look-ahead) leaves the input
position and the logical end of the string as they were before the node. -/
theorem C3_look_ahead :
    (compile_and_execute (bytes "foo(?=bar)") 200 (bytes "foobar")).map
        (Option.map (fun x => (x.1, group x.2 0)))
        = .ok (some (true, [some 0, some 3]))
      ∧ matched (compile_and_execute (bytes "foo(?=bar)") 200 (bytes "foobaz"))
        = .ok (some false)
      ∧ ∀ (program text : List Nat) (delimiters : List Bool) (fuel : Nat) (scan : Ptr)
          (bip : Bool) (state : ExecState) (next : Ptr) (st' : ExecState),
          (getOpcode program scan = POS_AHEAD_OPEN ∨ getOpcode program scan = NEG_AHEAD_OPEN) →
          match_node program text delimiters fuel scan bip state = some (Step.next next st') →
          st'.input = state.input ∧ st'.endOfString = state.endOfString := by
  refine ⟨by decide!, by decide!, ?_⟩
  intro program text delimiters fuel scan bip state next st' hop h
  exact look_ahead_restores program text delimiters fuel scan bip state next st' hop h

/-- C3, at the look-ahead node of `foo(?=bar)` on `foobar`: the look-ahead succeeds, `match`
goes on at the END node, and the input position is still 3. -/
theorem C3_look_ahead_witness :
    (CompileRE (bytes "foo(?=bar)") 0).map (fun re => re.program_) = .ok look_ahead_program
      ∧ getOpcode look_ahead_program (Ptr.prog 13) = POS_AHEAD_OPEN
      ∧ match_node look_ahead_program (bytes "foobar") DefaultDelimiters 50 (Ptr.prog 13) false
          look_ahead_state
        = some (Step.next (Ptr.prog 29) { look_ahead_state with Extent_Ptr_FW := some 6 })
      ∧ ({ look_ahead_state with Extent_Ptr_FW := some 6 } : ExecState).input
          = look_ahead_state.input
      ∧ ({ look_ahead_state with Extent_Ptr_FW := some 6 } : ExecState).endOfString
          = look_ahead_state.endOfString :=
  ⟨by decide!, by decide!, by decide!,
    C3_look_ahead.2.2 look_ahead_program (bytes "foobar") DefaultDelimiters 50 (Ptr.prog 13)
      false look_ahead_state (Ptr.prog 29) { look_ahead_state with Extent_Ptr_FW := some 6 }
      (Or.inl (by decide!)) (by decide!)⟩

/-- Cutting a list at its first NUL does not change its first `n` characters when none of
them is NUL. -/
theorem takeWhile_take_nonzero (n : Nat) : ∀ (l : List Nat),
    (∀ i, i < n → l.getD i 0 ≠ 0) → n ≤ l.length →
    ((l.takeWhile (fun c => decide (c ≠ 0))).take n) = l.take n := by
  induction n with
  | zero => intro l _ _; simp
  | succ k ih =>
    intro l h hn
    cases l with
    | nil => simp at hn
    | cons x xs =>
      have hx : x ≠ 0 := by simpa using h 0 (by omega)
      have hrec := ih xs (fun i hi => by simpa using h (i + 1) (by omega))
        (by simpa using hn)
      simpa [List.takeWhile, hx] using hrec

/-- On a source without NUL in its first `len` characters `strncpy` copies them as they are. -/
theorem strncpy_eq (text : List Nat) (s len : Nat)
    (h : ∀ i, s ≤ i → i < s + len → charAt text i ≠ 0) (hlen : s + len ≤ text.length) :
    strncpy text s len = (text.drop s).take len := by
  have h1 := takeWhile_take_nonzero len (text.drop s)
    (fun i hi => by
      have := h (s + i) (by omega) (by omega)
      simpa [charAt, List.getD_eq_getElem?_getD, List.getElem?_drop] using this)
    (by simp; omega)
  unfold strncpy
  simp only [h1]
  have : ((text.drop s).take len).length = len := by simp; omega
  simp [this]

theorem toupper_ne_zero (c : Nat) (h : c ≠ 0) : toupper c ≠ 0 := by
  unfold toupper islower
  split
  · rename_i h1; simp at h1; omega
  · exact h

theorem tolower_ne_zero (c : Nat) (h : c ≠ 0) : tolower c ≠ 0 := by
  unfold tolower
  split
  · omega
  · exact h

theorem getLastD_ne_zero : ∀ (l : List Nat) (d : Nat), d ≠ 0 → (∀ x ∈ l, x ≠ 0) →
    l.getLastD d ≠ 0 := by
  intro l
  induction l with
  | nil => intro d hd _; simpa using hd
  | cons a as ih =>
    intro d _ hl
    rw [List.getLastD_cons]
    exact ih a (hl a (by simp)) (fun x hx => hl x (by simp [hx]))

theorem adjustcase_ne_zero (l : List Nat) (tok : Nat) (hl : ∀ x ∈ l, x ≠ 0) :
    ∀ x ∈ adjustcase l tok, x ≠ 0 := by
  intro x hx
  unfold adjustcase at hx
  simp only at hx
  split at hx
  · simp only [List.mem_append, List.mem_map] at hx
    rcases hx with ⟨y, hy, rfl⟩ | hx
    · exact toupper_ne_zero y (hl y (List.mem_of_mem_take hy))
    · exact hl x (List.mem_of_mem_drop hx)
  · split at hx
    · simp only [List.mem_append, List.mem_map] at hx
      rcases hx with ⟨y, hy, rfl⟩ | hx
      · exact tolower_ne_zero y (hl y (List.mem_of_mem_take hy))
      · exact hl x (List.mem_of_mem_drop hx)
    · exact hl x hx

theorem span_ne_zero (text : List Nat) (s e : Nat)
    (hnz : ∀ i, s ≤ i → i < e → charAt text i ≠ 0) :
    ∀ x ∈ (text.drop s).take (e - s), x ≠ 0 := by
  intro x hx
  obtain ⟨i, hi, rfl⟩ := List.getElem_of_mem hx
  simp only [List.length_take, List.length_drop] at hi
  have := hnz (s + i) (by omega) (by omega)
  simp only [List.getElem_take, List.getElem_drop]
  simpa [charAt, List.getD_eq_getElem?_getD, List.getElem?_eq_getElem (show s + i < text.length by omega)] using this

/-- The expansion of the template backslash, case token, `&` when group 0 is a non-empty
span without NUL that fits in the destination. -/
theorem subst_case_token (program_ text : List Nat) (startp_ endp_ : List (Option Nat))
    (s e : Nat) (max : Int) (tok : Nat)
    (htok : tok = 117 ∨ tok = 85 ∨ tok = 108 ∨ tok = 76)
    (hmagic : program_.getD 0 0 = MAGIC)
    (hs : startp_.getD 0 none = some s) (he : endp_.getD 0 none = some e)
    (hne : s < e) (hin : e ≤ text.length)
    (hnz : ∀ i, s ≤ i → i < e → charAt text i ≠ 0)
    (hmax : ((e - s : Nat) : Int) < max - 1) :
    SubstituteRE program_ text startp_ endp_ [92, tok, 38] max
      = .ok (true, adjustcase ((text.drop s).take (e - s)) tok) := by
  have hcp := strncpy_eq text s (e - s) (fun i h1 h2 => hnz i h1 (by omega)) (by omega)
  have hle : s ≤ e := by omega
  have htk : subst_token [92, tok, 38] 92 1 = .ok (some (38, 0, tok, 3)) := by
    rcases htok with h | h | h | h <;> subst h <;> decide
  unfold SubstituteRE
  simp only [hmagic]
  show subst_loop text startp_ endp_ [92, tok, 38] max 4 0 [] false = _
  rw [subst_loop]
  have hc0 : charAt [92, tok, 38] 0 = 92 := by simp [charAt]
  simp only [hc0, htk]
  have h0 : (0 : Int).toNat = 0 := rfl
  have hlen : ¬ (((e - s : Nat) : Int) ≥ max - 1) := by omega
  have hge : e ≥ s := hle
  simp only [h0, hs, he, hge, if_true, List.length_nil, Nat.cast_zero, zero_add, hlen,
    decide_False, Bool.false_eq_true, if_false, Int.toNat_ofNat, hcp, List.nil_append,
    Bool.false_or, Bool.or_false]
  have htok0 : tok ≠ 0 := by rcases htok with h | h | h | h <;> omega
  have hlast : (adjustcase (List.take (e - s) (List.drop s text)) tok).getLastD 1 ≠ 0 :=
    getLastD_ne_zero _ 1 (by decide) (adjustcase_ne_zero _ tok (span_ne_zero text s e hnz))
  have hc3 : charAt [92, tok, 38] 3 = 0 := by simp [charAt]
  simp only [htok0, hlast, ne_eq, not_false_eq_true, if_true, decide_False, Bool.and_false]
  show subst_loop text startp_ endp_ [92, tok, 38] max (2 + 1) 3 _ false = _
  rw [subst_loop]
  simp only [hc3, if_true]
  rfl

/-- C6: for every non-empty whole match (group 0 = [s,e), no NUL in it) and a destination
large enough (`e - s < max - 1`), `SubstituteRE` returns true and writes, for the template
`\\u&`, the whole match with only its first character upper-cased; for `\\U&`, the whole
match with every character upper-cased; for `\\l&` and `\\L&`, the same with lower-casing. -/
theorem C6_case_tokens (program_ text : List Nat) (startp_ endp_ : List (Option Nat))
    (s e : Nat) (max : Int)
    (hmagic : program_.getD 0 0 = MAGIC)
    (hs : startp_.getD 0 none = some s) (he : endp_.getD 0 none = some e)
    (hne : s < e) (hin : e ≤ text.length)
    (hnz : ∀ i, s ≤ i → i < e → charAt text i ≠ 0)
    (hmax : ((e - s : Nat) : Int) < max - 1) :
    SubstituteRE program_ text startp_ endp_ (bytes "\\u&") max
        = .ok (true, (((text.drop s).take (e - s)).take 1).map toupper
                      ++ ((text.drop s).take (e - s)).drop 1)
      ∧ SubstituteRE program_ text startp_ endp_ (bytes "\\U&") max
        = .ok (true, ((text.drop s).take (e - s)).map toupper)
      ∧ SubstituteRE program_ text startp_ endp_ (bytes "\\l&") max
        = .ok (true, (((text.drop s).take (e - s)).take 1).map tolower
                      ++ ((text.drop s).take (e - s)).drop 1)
      ∧ SubstituteRE program_ text startp_ endp_ (bytes "\\L&") max
        = .ok (true, ((text.drop s).take (e - s)).map tolower) := by
  have hlen : ((text.drop s).take (e - s)).length > 0 := by
    simp only [List.length_take, List.length_drop]; omega
  have hu : bytes "\\u&" = [92, 117, 38] := by decide
  have hU : bytes "\\U&" = [92, 85, 38] := by decide
  have hl : bytes "\\l&" = [92, 108, 38] := by decide
  have hL : bytes "\\L&" = [92, 76, 38] := by decide
  have h1 := subst_case_token program_ text startp_ endp_ s e max 117 (by simp) hmagic hs he
    hne hin hnz hmax
  have h2 := subst_case_token program_ text startp_ endp_ s e max 85 (by simp) hmagic hs he
    hne hin hnz hmax
  have h3 := subst_case_token program_ text startp_ endp_ s e max 108 (by simp) hmagic hs he
    hne hin hnz hmax
  have h4 := subst_case_token program_ text startp_ endp_ s e max 76 (by simp) hmagic hs he
    hne hin hnz hmax
  rw [hu, hU, hl, hL, h1, h2, h3, h4]
  generalize (text.drop s).take (e - s) = w at hlen
  have i1 : islower 117 = true := by decide
  have i2 : islower 85 = false := by decide
  have i3 : islower 108 = true := by decide
  have i4 : islower 76 = false := by decide
  refine ⟨?_, ?_, ?_, ?_⟩
  · simp [adjustcase, i1, hlen]
  · simp [adjustcase, i2]
  · simp [adjustcase, i3, hlen]
  · simp [adjustcase, i4]

/-- C6, on the whole match `cat` with the template `\\u&`: the output is `Cat`. -/
theorem C6_case_tokens_witness :
    SubstituteRE [MAGIC] (bytes "cat") [some 0] [some 3] (bytes "\\u&") 10
        = .ok (true, (((bytes "cat").drop 0).take (3 - 0)).take 1 |>.map toupper
                      |>.append ((((bytes "cat").drop 0).take (3 - 0)).drop 1))
      ∧ ((((bytes "cat").drop 0).take (3 - 0)).take 1 |>.map toupper
          |>.append ((((bytes "cat").drop 0).take (3 - 0)).drop 1)) = bytes "Cat" :=
  ⟨(C6_case_tokens [MAGIC] (bytes "cat") [some 0] [some 3] 0 3 10 (by decide) (by decide)
      (by decide) (by decide) (by decide)
      (fun i _ h => by interval_cases i <;> decide) (by decide)).1,
    by decide⟩

/-! ### Bounded repetition of a character -/

theorem digits_value_ge (ds : List Nat) : ∀ v, v ≤ digits_value v ds := by
  induction ds with
  | nil => intro v; simp [digits_value]
  | cons d ds ih =>
    intro v
    have := ih (v * 10 + d)
    simp only [digits_value, List.foldl_cons] at this ⊢
    omega

theorem digits_value_digits (n : Nat) : digits_value 0 (Nat.digits 10 n).reverse = n := by
  have h := Nat.ofDigits_digits 10 n
  rw [Nat.ofDigits_eq_foldr] at h
  unfold digits_value
  rw [List.foldl_reverse]
  simpa [Nat.mul_comm, Nat.add_comm] using h

/-- The digit loop of `piece` on a run of digits `ds` written at `rp`, followed by a character
that is not a digit: it returns the value of the run when that value is at most 65535. -/
theorem brace_digits_run (exp : List Nat) (i : Nat) (ds : List Nat) :
    ∀ (fuel v dp rp : Nat), ds.length < fuel → (∀ d ∈ ds, d < 10) →
      (∀ j, j < ds.length → charAt exp (rp + j) = ds.getD j 0 + 48) →
      isdigit (charAt exp (rp + ds.length)) = false →
      digits_value v ds ≤ 65535 →
      brace_digits exp i fuel v dp rp = .ok (digits_value v ds, dp + ds.length, rp + ds.length) := by
  induction ds with
  | nil =>
    intro fuel v dp rp hf _ _ hend _
    cases fuel with
    | zero => omega
    | succ f =>
      rw [brace_digits]
      simp at hend
      simp [hend, digits_value]
  | cons d ds ih =>
    intro fuel v dp rp hf hd hch hend hval
    cases fuel with
    | zero => omega
    | succ f =>
      have hd10 : d < 10 := hd d (by simp)
      have h0 : charAt exp rp = d + 48 := by simpa using hch 0 (by simp)
      have hge := digits_value_ge ds (v * 10 + d)
      have hval' : digits_value (v * 10 + d) ds ≤ 65535 := by
        simpa [digits_value] using hval
      have hrec := ih f (v * 10 + d) (dp + 1) (rp + 1) (by simp at hf; omega)
        (fun x hx => hd x (by simp [hx]))
        (fun j hj => by
          have := hch (j + 1) (by simp; omega)
          simpa [Nat.add_assoc, Nat.add_comm 1 j] using this)
        (by simpa [Nat.add_assoc, Nat.add_comm 1] using hend) hval'
      rw [brace_digits]
      have hdig : isdigit (d + 48) = true := by simp [isdigit]; omega
      have hguard : (v = 6553 ∧ d ≤ 5) ∨ v ≤ 6552 := by omega
      simp only [h0, hdig, if_true, Nat.add_sub_cancel, hguard]
      simp only [hrec, digits_value, List.foldl_cons, List.length_cons]
      have e1 : dp + 1 + ds.length = dp + (ds.length + 1) := by omega
      have e2 : rp + 1 + ds.length = rp + (ds.length + 1) := by omega
      rw [e1, e2]

/-- The characters of a decimal numeral are digits. -/
theorem decimal_digits (n : Nat) : ∀ d ∈ (Nat.digits 10 n).reverse, d < 10 := by
  intro d hd
  exact Nat.digits_lt_base (by norm_num) (List.mem_reverse.mp hd)

theorem charAt_cons_zero (a : Nat) (l : List Nat) : charAt (a :: l) 0 = a := rfl

theorem charAt_cons_succ (a : Nat) (l : List Nat) (k : Nat) :
    charAt (a :: l) (k + 1) = charAt l k := rfl

theorem charAt_append_left (l1 l2 : List Nat) (k : Nat) (h : k < l1.length) :
    charAt (l1 ++ l2) k = charAt l1 k := by
  simp [charAt, List.getD_eq_getElem?_getD, List.getElem?_append_left h]

theorem charAt_append_right (l1 l2 : List Nat) (k : Nat) :
    charAt (l1 ++ l2) (l1.length + k) = charAt l2 k := by
  simp [charAt, List.getD_eq_getElem?_getD, List.getElem?_append_right]

theorem charAt_nil (k : Nat) : charAt [] k = 0 := by simp [charAt]

theorem charAt_append_length (l1 l2 : List Nat) :
    charAt (l1 ++ l2) l1.length = charAt l2 0 := by
  simpa using charAt_append_right l1 l2 0

theorem charAt_decimal (n j : Nat) (h : j < (decimal n).length) :
    charAt (decimal n) j = (Nat.digits 10 n).reverse.getD j 0 + 48 := by
  unfold decimal at h ⊢
  generalize (Nat.digits 10 n).reverse = ds at h ⊢
  simp only [List.length_map] at h
  simp [charAt, List.getD_eq_getElem?_getD, List.getElem?_map, h]

theorem brace_pattern_length (m n : Nat) :
    (brace_pattern m n).length = (decimal m).length + (decimal n).length + 4 := by
  simp [brace_pattern]; omega

theorem brace_pattern_min (m n j : Nat) (hj : j < (decimal m).length) :
    charAt (brace_pattern m n) (2 + j) = (Nat.digits 10 m).reverse.getD j 0 + 48 := by
  have : 2 + j = j + 1 + 1 := by omega
  rw [brace_pattern, this, charAt_cons_succ, charAt_cons_succ, charAt_append_left _ _ _ hj,
    charAt_decimal _ _ hj]

theorem brace_pattern_comma (m n : Nat) :
    charAt (brace_pattern m n) (2 + (decimal m).length) = 44 := by
  have : 2 + (decimal m).length = (decimal m).length + 1 + 1 := by omega
  rw [brace_pattern, this, charAt_cons_succ, charAt_cons_succ, charAt_append_length]
  rfl

theorem brace_pattern_max (m n j : Nat) (hj : j < (decimal n).length) :
    charAt (brace_pattern m n) (2 + (decimal m).length + 1 + j)
      = (Nat.digits 10 n).reverse.getD j 0 + 48 := by
  have : 2 + (decimal m).length + 1 + j = ((decimal m).length + (j + 1)) + 1 + 1 := by omega
  rw [brace_pattern, this, charAt_cons_succ, charAt_cons_succ, charAt_append_right,
    charAt_cons_succ, charAt_append_left _ _ _ hj, charAt_decimal _ _ hj]

theorem brace_pattern_close (m n : Nat) :
    charAt (brace_pattern m n) (2 + (decimal m).length + 1 + (decimal n).length) = 125 := by
  have : 2 + (decimal m).length + 1 + (decimal n).length
      = ((decimal m).length + ((decimal n).length + 1)) + 1 + 1 := by omega
  rw [brace_pattern, this, charAt_cons_succ, charAt_cons_succ, charAt_append_right,
    charAt_cons_succ, charAt_append_length]
  rfl

theorem brace_pattern_end (m n : Nat) :
    charAt (brace_pattern m n) (2 + (decimal m).length + 1 + (decimal n).length + 1) = 0 := by
  have : 2 + (decimal m).length + 1 + (decimal n).length + 1
      = ((decimal m).length + (((decimal n).length + 1) + 1)) + 1 + 1 := by omega
  rw [brace_pattern, this, charAt_cons_succ, charAt_cons_succ, charAt_append_right,
    charAt_cons_succ, charAt_append_right]
  rfl

/-- The parse of the bounds of `a{m,n}`. -/
theorem parse_brace_pattern (m n : Nat) (hm : 0 < m) (hmn : m ≤ n) (hn : n ≤ 65535) :
    parse_brace (brace_pattern m n) 2
      = .ok (m, n, 2 + (decimal m).length + 1 + (decimal n).length) := by
  have hlm : (Nat.digits 10 m).reverse.length = (decimal m).length := by simp [decimal]
  have hln : (Nat.digits 10 n).reverse.length = (decimal n).length := by simp [decimal]
  have h1 := brace_digits_run (brace_pattern m n) 0 (Nat.digits 10 m).reverse
    ((brace_pattern m n).length + 1) 0 0 2
    (by rw [brace_pattern_length, hlm]; omega) (decimal_digits m)
    (fun j hj => brace_pattern_min m n j (by rw [← hlm]; exact hj))
    (by rw [hlm, brace_pattern_comma]; decide)
    (by rw [digits_value_digits]; omega)
  have h2 := brace_digits_run (brace_pattern m n) 1 (Nat.digits 10 n).reverse
    ((brace_pattern m n).length + 1) 0 0 (2 + (decimal m).length + 1)
    (by rw [brace_pattern_length, hln]; omega) (decimal_digits n)
    (fun j hj => brace_pattern_max m n j (by rw [← hln]; exact hj))
    (by rw [hln, brace_pattern_close]; decide)
    (by rw [digits_value_digits]; omega)
  rw [digits_value_digits, hlm] at h1
  rw [digits_value_digits, hln] at h2
  unfold parse_brace
  simp only [REG_ZERO, REG_INFINITY, h1, Nat.zero_add, brace_pattern_comma, decide_True, if_true, h2,
    brace_pattern_close]
  have hm0 : m ≠ 0 := by omega
  have hn0 : n ≠ 0 := by omega
  simp [hm0, hn0, Nat.not_lt.mpr hmn, brace_pattern_close]
theorem brace_char0 (m n : Nat) : charAt (brace_pattern m n) 0 = 97 := rfl
theorem brace_char1 (m n : Nat) : charAt (brace_pattern m n) 1 = 123 := rfl

theorem atom_brace_pass1 (m n F : Nat) :
    atom (brace_pattern m n) (F + 1) (pass1_state 0 6)
    = .ok { ret_val := Ptr.Compute_Size, flag := 3, range := { lower := 1, upper := 1 },
            cState := pass1_state 1 11 } := by
  rw [atom]
  have hs : skip_comments (brace_pattern m n) ((brace_pattern m n).length + 1) 0 = .ok (0, false) := by
    rw [skip_comments]; simp [brace_char0]
  simp only [pass1_state, pass_init, hs, brace_char0]
  simp [atom_default, emit_node]
  have hl : (brace_pattern m n).length + 1 = ((decimal m).length + (decimal n).length + 3) + 1 + 1 := by
    rw [brace_pattern_length]
  rw [hl, atom_literal]
  simp [brace_char0, strchr, Default_Meta_Char, atom_literal_step, emit_byte, brace_char1, isQuantifier]
  rw [atom_literal]
  simp [brace_char1, strchr, Default_Meta_Char, emit_byte]

theorem piece_brace_pass1 (m n F : Nat) (hm : 0 < m) (hmn : m ≤ n) (hn : n ≤ 65535)
    (h11 : ¬ (m = 1 ∧ n = 1)) :
    piece (brace_pattern m n) (F + 2) (pass1_state 0 6)
    = .ok { ret_val := Ptr.Compute_Size, flag := 1,
            range := { lower := 1 * (m : Int), upper := 1 * (n : Int) },
            cState := pass1_state ((brace_pattern m n).length) 18 } := by
  rw [piece, atom_brace_pass1]
  have hp := parse_brace_pattern m n hm hmn hn
  have hm0 : m ≠ 0 := by omega
  have hn0 : n ≠ 0 := by omega
  have hlen : 2 + (decimal m).length + 1 + (decimal n).length + 1 = (brace_pattern m n).length := by
    rw [brace_pattern_length]; omega
  have hend := brace_pattern_end m n
  rw [hlen] at hend
  have hwm : wrap64 (m : Int) = (m : Int) := wrap64_nat m (by omega)
  have hwn : wrap64 (n : Int) = (n : Int) := wrap64_nat n (by omega)
  simp only [piece_rest, pass1_state, pass_init, brace_char1]
  simp [isQuantifier, hp, hlen, hend, hm0, hn0, h11, piece_emit, insert, hm, hwm, hwn]

theorem brace_char_len (m n : Nat) :
    charAt (brace_pattern m n) (brace_pattern m n).length = 0 := by
  simp [charAt]

theorem compile_pass1_brace (m n F : Nat) (hm : 0 < m) (hmn : m ≤ n) (hn : n ≤ 65535)
    (h11 : ¬ (m = 1 ∧ n = 1)) :
    compile_pass (brace_pattern m n) (F + 7) (pass_init 0 Ptr.Compute_Size 0 [])
    = .ok { ret_val := Ptr.Compute_Size, flag := 1,
            range := { lower := 1 * (m : Int), upper := 1 * (n : Int) },
            cState := pass1_state ((brace_pattern m n).length) 21 } := by
  have hpiece := piece_brace_pass1 m n (F + 1) hm hmn hn h11
  have hst : emit_byte 37 (emit_byte 37 (emit_byte MAGIC (pass_init 0 Ptr.Compute_Size 0 [])))
      = pass1_state 0 3 := by
    simp [emit_byte, pass_init, pass1_state]
  have halt : alternative (brace_pattern m n) (F + 5) (pass1_state 0 3)
      = .ok { ret_val := Ptr.Compute_Size, flag := 1,
              range := { lower := 1 * (m : Int), upper := 1 * (n : Int) },
              cState := pass1_state ((brace_pattern m n).length) 18 } := by
    rw [alternative]
    have he : emit_node BRANCH (pass1_state 0 3) = (Ptr.Compute_Size, pass1_state 0 6) := by
      simp [emit_node, pass1_state, pass_init]
    simp only [he]
    rw [alternative_loop]
    have hc0 : charAt (brace_pattern m n) (pass1_state 0 6).Reg_Parse = 97 := rfl
    simp only [hc0]
    simp only [hpiece]
    rw [alternative_loop]
    have hcl : charAt (brace_pattern m n) (pass1_state (brace_pattern m n).length 18).Reg_Parse = 0 :=
      brace_char_len m n
    simp [hcl]
  rw [compile_pass, hst, chunk]
  simp only [chunk_open]
  simp only [NO_PAREN, PAREN, POS_AHEAD_OPEN, NEG_AHEAD_OPEN, POS_BEHIND_OPEN, NEG_BEHIND_OPEN,
    INSENSITIVE, SENSITIVE, NEWLINE, NO_NEWLINE]
  simp only [Nat.zero_ne_one, Nat.reduceEqDiff, or_self, if_false]
  rw [chunk_loop, halt]
  have hcl : charAt (brace_pattern m n) (brace_pattern m n).length = 0 := brace_char_len m n
  simp [tail, pass1_state, pass_init, hcl, chunk_close, emit_node, chunk_hook, branch_tail, next_ptr]

theorem atom_brace_pass2 (m n F : Nat) :
    atom (brace_pattern m n) (F + 1)
      (pass2_state 0 6 [156, 37, 37, 34, 0, 0, 0, 0, 0, 0, 0, 0, 0, 0, 0, 0, 0, 0, 0, 0, 0, 0])
    = .ok { ret_val := Ptr.prog 6, flag := 3, range := { lower := 1, upper := 1 },
            cState := pass2_state 1 11
              [156, 37, 37, 34, 0, 0, 7, 0, 0, 97, 0, 0, 0, 0, 0, 0, 0, 0, 0, 0, 0, 0] } := by
  rw [atom]
  have hs : skip_comments (brace_pattern m n) ((brace_pattern m n).length + 1) 0 = .ok (0, false) := by
    rw [skip_comments]; simp [brace_char0]
  simp only [pass2_state, pass_init, hs, brace_char0]
  simp [atom_default, emit_node, poke, Ptr.add]
  have hl : (brace_pattern m n).length + 1 = ((decimal m).length + (decimal n).length + 3) + 1 + 1 := by
    rw [brace_pattern_length]
  rw [hl, atom_literal]
  simp [brace_char0, strchr, Default_Meta_Char, atom_literal_step, emit_byte, brace_char1, isQuantifier, poke, Ptr.add]
  rw [atom_literal]
  simp [brace_char1, strchr, Default_Meta_Char, emit_byte, poke, Ptr.add]

theorem piece_brace_pass2 (m n F : Nat) (hm : 0 < m) (hmn : m ≤ n) (hn : n ≤ 65535)
    (h11 : ¬ (m = 1 ∧ n = 1)) :
    piece (brace_pattern m n) (F + 2)
      (pass2_state 0 6 [156, 37, 37, 34, 0, 0, 0, 0, 0, 0, 0, 0, 0, 0, 0, 0, 0, 0, 0, 0, 0, 0])
    = .ok { ret_val := Ptr.prog 6, flag := 1,
            range := { lower := 1 * (m : Int), upper := 1 * (n : Int) },
            cState := pass2_state ((brace_pattern m n).length) 18
              [156, 37, 37, 34, 0, 0, 31, 0, 0, m / 256, m % 256, n / 256, n % 256,
                7, 0, 0, 97, 0, 0, 0, 0, 0] } := by
  rw [piece, atom_brace_pass2]
  have hp := parse_brace_pattern m n hm hmn hn
  have hm0 : m ≠ 0 := by omega
  have hn0 : n ≠ 0 := by omega
  have hlen : 2 + (decimal m).length + 1 + (decimal n).length + 1 = (brace_pattern m n).length := by
    rw [brace_pattern_length]; omega
  have hend := brace_pattern_end m n
  rw [hlen] at hend
  have hwm : wrap64 (m : Int) = (m : Int) := wrap64_nat m (by omega)
  have hwn : wrap64 (n : Int) = (n : Int) := wrap64_nat n (by omega)
  simp only [piece_rest, pass2_state, pass_init, brace_char1]
  simp [isQuantifier, hp, hlen, hend, hm0, hn0, h11, piece_emit, insert, hm, poke, Ptr.add,
    Ptr.diff, insert_move, peek, putOffsetL, putOffsetR, hwm, hwn]
  refine ⟨?_, ?_, ?_, ?_⟩ <;> omega

theorem last_in_chain_stop (program : List Nat) (f : Nat) (scan : Ptr)
    (h : next_ptr program scan = Ptr.null) : last_in_chain program (f + 1) scan = some scan := by
  rw [last_in_chain]; simp [h]

theorem last_in_chain_step (program : List Nat) (f : Nat) (scan : Ptr)
    (h : next_ptr program scan ≠ Ptr.null) :
    last_in_chain program (f + 1) scan = last_in_chain program f (next_ptr program scan) := by
  rw [last_in_chain]; simp [h]

set_option maxRecDepth 4000 in
theorem tail_brace_1 (a b c d L : Nat) :
    tail (Ptr.prog 3) (Ptr.prog 3)
      (pass2_state L 18 [156, 37, 37, 34, 0, 0, 31, 0, 0, a, b, c, d, 7, 0, 0, 97, 0, 0, 0, 0, 0])
    = pass2_state L 18 [156, 37, 37, 34, 0, 0, 31, 0, 0, a, b, c, d, 7, 0, 0, 97, 0, 0, 0, 0, 0] := by
  have h := last_in_chain_stop
    [156, 37, 37, 34, 0, 0, 31, 0, 0, a, b, c, d, 7, 0, 0, 97, 0, 0, 0, 0, 0] 22 (Ptr.prog 3)
    (by rfl)
  simp only [tail, pass2_state, pass_init]
  rw [show ∀ (x : List Nat), x.length = 22 → x.length + 1 = 22 + 1 from fun x hx => by rw [hx]]
  · rw [h]
    simp [getOpcode, peek, poke, Ptr.add, Ptr.diff, putOffsetL, putOffsetR]
  · rfl

set_option maxRecDepth 4000 in
theorem tail_brace_2 (a b c d L : Nat) :
    tail (Ptr.prog 3) (Ptr.prog 18)
      (pass2_state L 21 [156, 37, 37, 34, 0, 0, 31, 0, 0, a, b, c, d, 7, 0, 0, 97, 0, 1, 0, 0, 0])
    = pass2_state L 21 [156, 37, 37, 34, 0, 15, 31, 0, 0, a, b, c, d, 7, 0, 0, 97, 0, 1, 0, 0, 0] := by
  have h := last_in_chain_stop
    [156, 37, 37, 34, 0, 0, 31, 0, 0, a, b, c, d, 7, 0, 0, 97, 0, 1, 0, 0, 0] 22 (Ptr.prog 3)
    (by rfl)
  simp only [tail, pass2_state, pass_init]
  rw [show ∀ (x : List Nat), x.length = 22 → x.length + 1 = 22 + 1 from fun x hx => by rw [hx]]
  · rw [h]
    simp [getOpcode, peek, poke, Ptr.add, Ptr.diff, putOffsetL, putOffsetR]
  · rfl

set_option maxRecDepth 4000 in
theorem tail_brace_3 (a b c d L : Nat) :
    tail (Ptr.prog 6) (Ptr.prog 18)
      (pass2_state L 21 [156, 37, 37, 34, 0, 15, 31, 0, 0, a, b, c, d, 7, 0, 0, 97, 0, 1, 0, 0, 0])
    = pass2_state L 21 [156, 37, 37, 34, 0, 15, 31, 0, 12, a, b, c, d, 7, 0, 0, 97, 0, 1, 0, 0, 0] := by
  have h := last_in_chain_stop
    [156, 37, 37, 34, 0, 15, 31, 0, 0, a, b, c, d, 7, 0, 0, 97, 0, 1, 0, 0, 0] 22 (Ptr.prog 6)
    (by rfl)
  simp only [tail, pass2_state, pass_init]
  rw [show ∀ (x : List Nat), x.length = 22 → x.length + 1 = 22 + 1 from fun x hx => by rw [hx]]
  · rw [h]
    simp [getOpcode, peek, poke, Ptr.add, Ptr.diff, putOffsetL, putOffsetR]
  · rfl

set_option maxRecDepth 4000 in
theorem chunk_hook_brace (a b c d L : Nat) :
    chunk_hook (Ptr.prog 18) 23 (Ptr.prog 3)
      (pass2_state L 21 [156, 37, 37, 34, 0, 15, 31, 0, 0, a, b, c, d, 7, 0, 0, 97, 0, 1, 0, 0, 0])
    = pass2_state L 21 [156, 37, 37, 34, 0, 15, 31, 0, 12, a, b, c, d, 7, 0, 0, 97, 0, 1, 0, 0, 0] := by
  have hb : branch_tail (Ptr.prog 3) NodeSize (Ptr.prog 18)
      (pass2_state L 21 [156, 37, 37, 34, 0, 15, 31, 0, 0, a, b, c, d, 7, 0, 0, 97, 0, 1, 0, 0, 0])
      = pass2_state L 21 [156, 37, 37, 34, 0, 15, 31, 0, 12, a, b, c, d, 7, 0, 0, 97, 0, 1, 0, 0, 0] := by
    rw [← tail_brace_3]
    simp [branch_tail, getOpcode, peek, pass2_state, pass_init, Ptr.add]
  have hb2 : branch_tail (Ptr.prog 18) NodeSize (Ptr.prog 18)
      (pass2_state L 21 [156, 37, 37, 34, 0, 15, 31, 0, 12, a, b, c, d, 7, 0, 0, 97, 0, 1, 0, 0, 0])
      = pass2_state L 21 [156, 37, 37, 34, 0, 15, 31, 0, 12, a, b, c, d, 7, 0, 0, 97, 0, 1, 0, 0, 0] := by
    simp [branch_tail, getOpcode, peek, pass2_state, pass_init]
  have hn1 : next_ptr (pass2_state L 21
      [156, 37, 37, 34, 0, 15, 31, 0, 12, a, b, c, d, 7, 0, 0, 97, 0, 1, 0, 0, 0]).program_ (Ptr.prog 3)
      = Ptr.prog 18 := by
    rfl
  have hn2 : next_ptr (pass2_state L 21
      [156, 37, 37, 34, 0, 15, 31, 0, 12, a, b, c, d, 7, 0, 0, 97, 0, 1, 0, 0, 0]).program_ (Ptr.prog 18)
      = Ptr.null := by
    rfl
  rw [chunk_hook]
  simp only [hb, hn1, if_neg (show Ptr.prog 3 ≠ Ptr.null by decide)]
  rw [chunk_hook]
  simp only [hb2, hn2, if_neg (show Ptr.prog 18 ≠ Ptr.null by decide)]
  rw [chunk_hook]
  simp

set_option maxRecDepth 8192 in
theorem compile_pass2_brace (m n F : Nat) (hm : 0 < m) (hmn : m ≤ n) (hn : n ≤ 65535)
    (h11 : ¬ (m = 1 ∧ n = 1)) :
    compile_pass (brace_pattern m n) (F + 7)
      (pass_init 0 (Ptr.prog 0) 21 (List.replicate 22 0))
    = .ok { ret_val := Ptr.prog 3, flag := 1,
            range := { lower := 1 * (m : Int), upper := 1 * (n : Int) },
            cState := pass2_state ((brace_pattern m n).length) 21
              [156, 37, 37, 34, 0, 15, 31, 0, 12, m / 256, m % 256, n / 256, n % 256,
                7, 0, 0, 97, 0, 1, 0, 0, 0] } := by
  have hpiece := piece_brace_pass2 m n (F + 1) hm hmn hn h11
  have hst : emit_byte 37 (emit_byte 37 (emit_byte MAGIC
        (pass_init 0 (Ptr.prog 0) 21 (List.replicate 22 0))))
      = pass2_state 0 3 [156, 37, 37, 0, 0, 0, 0, 0, 0, 0, 0, 0, 0, 0, 0, 0, 0, 0, 0, 0, 0, 0] := by
    simp [emit_byte, pass_init, pass2_state, poke, Ptr.add, List.replicate]
  have halt : alternative (brace_pattern m n) (F + 5)
        (pass2_state 0 3 [156, 37, 37, 0, 0, 0, 0, 0, 0, 0, 0, 0, 0, 0, 0, 0, 0, 0, 0, 0, 0, 0])
      = .ok { ret_val := Ptr.prog 3, flag := 1,
              range := { lower := 1 * (m : Int), upper := 1 * (n : Int) },
              cState := pass2_state ((brace_pattern m n).length) 18
                [156, 37, 37, 34, 0, 0, 31, 0, 0, m / 256, m % 256, n / 256, n % 256,
                  7, 0, 0, 97, 0, 0, 0, 0, 0] } := by
    rw [alternative]
    have he : emit_node BRANCH
          (pass2_state 0 3 [156, 37, 37, 0, 0, 0, 0, 0, 0, 0, 0, 0, 0, 0, 0, 0, 0, 0, 0, 0, 0, 0])
        = (Ptr.prog 3,
            pass2_state 0 6 [156, 37, 37, 34, 0, 0, 0, 0, 0, 0, 0, 0, 0, 0, 0, 0, 0, 0, 0, 0, 0, 0]) := by
      simp [emit_node, pass2_state, pass_init, poke, Ptr.add]
    simp only [he]
    rw [alternative_loop]
    have hc0 : charAt (brace_pattern m n) (pass2_state 0 6
        [156, 37, 37, 34, 0, 0, 0, 0, 0, 0, 0, 0, 0, 0, 0, 0, 0, 0, 0, 0, 0, 0]).Reg_Parse = 97 := rfl
    simp only [hc0]
    simp only [hpiece]
    rw [alternative_loop]
    have hcl : charAt (brace_pattern m n) (pass2_state (brace_pattern m n).length 18
        [156, 37, 37, 34, 0, 0, 31, 0, 0, m / 256, m % 256, n / 256, n % 256,
                  7, 0, 0, 97, 0, 0, 0, 0, 0]).Reg_Parse = 0 :=
      brace_char_len m n
    simp [hcl]
  have hl23 : ∀ (a b c d e f : Nat), (pass2_state (brace_pattern m n).length 21
      [156, 37, 37, 34, 0, e, 31, 0, 0, a, b, c, d, 7, 0, 0, 97, 0, f, 0, 0, 0]).program_.length + 1
      = 23 := fun _ _ _ _ _ _ => rfl
  have hend : emit_node END (pass2_state (brace_pattern m n).length 18
      [156, 37, 37, 34, 0, 0, 31, 0, 0, m / 256, m % 256, n / 256, n % 256,
        7, 0, 0, 97, 0, 0, 0, 0, 0])
      = (Ptr.prog 18, pass2_state (brace_pattern m n).length 21
      [156, 37, 37, 34, 0, 0, 31, 0, 0, m / 256, m % 256, n / 256, n % 256,
        7, 0, 0, 97, 0, 1, 0, 0, 0]) := by
    simp [emit_node, pass2_state, pass_init, poke, Ptr.add]
  have hcl : charAt (brace_pattern m n) (brace_pattern m n).length = 0 := brace_char_len m n
  have prp : ∀ (rp ptr : Nat) (p : List Nat), (pass2_state rp ptr p).Reg_Parse = rp :=
    fun _ _ _ => rfl
  have pci : ∀ (rp ptr : Nat) (p : List Nat), (pass2_state rp ptr p).Is_Case_Insensitive = false :=
    fun _ _ _ => rfl
  have pmn : ∀ (rp ptr : Nat) (p : List Nat), (pass2_state rp ptr p).Match_Newline = false :=
    fun _ _ _ => rfl
  have pce : ∀ (rp ptr : Nat) (p : List Nat), (pass2_state rp ptr p).Code_Emit_Ptr = Ptr.prog ptr :=
    fun _ _ _ => rfl
  have pst : ∀ (rp ptr : Nat) (p : List Nat),
      ({ pass2_state rp ptr p with Is_Case_Insensitive := false, Match_Newline := false }
        : CompileState) = pass2_state rp ptr p := fun _ _ _ => rfl
  rw [compile_pass, hst, chunk]
  simp only [chunk_open]
  simp only [NO_PAREN, PAREN, POS_AHEAD_OPEN, NEG_AHEAD_OPEN, POS_BEHIND_OPEN, NEG_BEHIND_OPEN,
    INSENSITIVE, SENSITIVE, NEWLINE, NO_NEWLINE]
  simp only [Nat.zero_ne_one, Nat.reduceEqDiff, or_self, if_false]
  rw [chunk_loop, halt]
  simp [tail_brace_1, prp, pci, pmn, pce, hcl, chunk_close, hend, tail_brace_2, hl23,
    chunk_hook_brace, pst]
  rfl

/-- The compilation of `a{m,n}` for 0 < m ≤ n ≤ 65535, other than m = n = 1. -/
theorem CompileRE_brace (m n : Nat) (hm : 0 < m) (hmn : m ≤ n) (hn : n ≤ 65535)
    (h11 : ¬ (m = 1 ∧ n = 1)) :
    CompileRE (brace_pattern m n) 0 = .ok (brace_regex m n) := by
  have hf : compile_fuel (brace_pattern m n) = (8 * (brace_pattern m n).length + 9) + 7 := by
    simp [compile_fuel]
  have h1 := compile_pass1_brace m n (8 * (brace_pattern m n).length + 9) hm hmn hn h11
  have h2 := compile_pass2_brace m n (8 * (brace_pattern m n).length + 9) hm hmn hn h11
  unfold CompileRE
  rw [hf, h1]
  have hsz : (pass1_state (brace_pattern m n).length 21).Reg_Size = 21 := rfl
  simp only [hsz]
  rw [h2]
  have hh : (pass2_state (brace_pattern m n).length 21
      [156, 37, 37, 34, 0, 15, 31, 0, 12, m / 256, m % 256, n / 256, n % 256,
        7, 0, 0, 97, 0, 1, 0, 0, 0]).hang = false := rfl
  simp [hh, pass2_state, pass_init, brace_program, brace_regex, dig_out, getOpcode, next_ptr, getOffset,
    peek, OPERAND, Ptr.add]
theorem greedy_loop_run (test : Nat → Bool) (max : Nat) (rest : List Nat)
    (h97 : test 97 = true) (hrest : test (rest.headD 0) = false ∨ rest = []) :
    ∀ (k pos cnt : Nat),
      greedy_loop test none max (List.replicate k 97 ++ rest) pos cnt
        = (cnt + min k (max - cnt), pos + min k (max - cnt)) := by
  intro k
  induction k with
  | zero =>
    intro pos cnt
    cases rest with
    | nil => simp [greedy_loop]
    | cons c cs =>
      have hc : test c = false := by
        rcases hrest with h | h
        · simpa using h
        · simp at h
      simp [greedy_loop, hc]
  | succ k ih =>
    intro pos cnt
    rw [List.replicate_succ, List.cons_append, greedy_loop]
    by_cases hlt : cnt < max
    · simp only [hlt, h97, reachedEnd, true_and]
      simp only [show ¬ ((97 : Nat) = 0 ∨ false = true) by simp, not_false_eq_true, if_true, ih]
      have e : min (k + 1) (max - cnt) = 1 + min k (max - (cnt + 1)) := by omega
      rw [e]
      congr 1 <;> omega
    · simp only [hlt, false_and, if_false]
      have e : max - cnt = 0 := by omega
      simp [e]

theorem Execute_brace_setup (m n fuel : Nat) (text : List Nat) :
    Execute (brace_regex m n) fuel text
    = match exec_search (brace_regex m n) text DefaultDelimiters fuel 0 none
              Direction.Forward execute_state with
      | none => none
      | some (ret_val, st) =>
        if st.Recursion_Limit_Exceeded then some (false, st) else some (ret_val, st) := by
  unfold Execute ExecRE
  have h1 : (brace_regex m n).program_.getD 0 0 = MAGIC := rfl
  have h2 : (brace_regex m n).program_.getD 2 0 = 0 := rfl
  simp only [h1, h2, ne_eq, not_true_eq_false, if_false]
  rfl

theorem brace_repeat_bounds (m n : Nat) (hm : 0 < m) (hmn : m ≤ n) (hn : n ≤ 65535) :
    repeat_bounds (brace_program m n) (Ptr.prog 6) = (m, n, false, Ptr.prog 13) := by
  have h1 : getOpcode (brace_program m n) (Ptr.prog 6) = 31 := rfl
  have h2 : getOffset (brace_program m n) ((Ptr.prog 6).add (2 * NextPtrSize))
      = (n / 256 % 256) * 256 + (n % 256 % 256) := rfl
  have h3 : getOffset (brace_program m n) ((Ptr.prog 6).add NextPtrSize)
      = (m / 256 % 256) * 256 + (m % 256 % 256) := rfl
  have h4 : OPERAND ((Ptr.prog 6).add (2 * NextPtrSize)) = Ptr.prog 13 := rfl
  unfold repeat_bounds
  simp only [h1, h2, h3, h4]
  have e1 : (n / 256 % 256) * 256 + (n % 256 % 256) = n := by omega
  have e2 : (m / 256 % 256) * 256 + (m % 256 % 256) = m := by omega
  have hn0 : ¬ n ≤ 0 := by omega
  simp only [e1, e2, REG_INFINITY, hn0, if_false, LAZY_STAR, STAR, LAZY_PLUS, PLUS, LAZY_QUESTION,
    QUESTION, LAZY_BRACE]
  simp

theorem brace_greedy_test (m n : Nat) (delimiters : List Bool) (c : Nat) :
    greedy_test (brace_program m n) delimiters (Ptr.prog 13) c = decide (97 = c) := by
  have h : greedy_test (brace_program m n) delimiters (Ptr.prog 13) c
      = decide (((97 : Nat) : Int) = schar c) := rfl
  rw [h]
  have hiff := schar_eq_iff 97 c
  by_cases hc : 97 = c
  · rw [decide_eq_true (hiff.2 ⟨hc, by omega⟩), decide_eq_true hc]
  · rw [decide_eq_false (fun h2 => hc (hiff.1 h2).1), decide_eq_false hc]

/-- The node END: `match` succeeds and leaves the input position and the capture slots. -/
theorem match_at_end (program text : List Nat) (delimiters : List Bool) (f : Nat) (p : Ptr)
    (bip : Bool) (S : ExecState) (hp : p ≠ Ptr.null) (hO : getOpcode program p = END)
    (hrc : S.Recursion_Count < 10000) :
    ∃ st', match_ program text delimiters (f + 3) p bip S = some (true, st')
      ∧ st'.input = S.input ∧ st'.startp_ = S.startp_ ∧ st'.endp_ = S.endp_
      ∧ st'.Recursion_Limit_Exceeded = S.Recursion_Limit_Exceeded := by
  rw [match_]
  have h1 : ¬ (S.Recursion_Count + 1 > REGEX_RECURSION_LIMIT) := by
    simp only [REGEX_RECURSION_LIMIT]; omega
  simp only [h1, if_false]
  rw [match_loop]
  simp only [hp, if_false]
  rw [match_node]
  simp only [hO, match_plain]
  simp only [END, BRANCH, STAR, LAZY_BRACE, POS_AHEAD_OPEN, NEG_AHEAD_OPEN, POS_BEHIND_OPEN,
    NEG_BEHIND_OPEN, OPEN, CLOSE, NSUBEXP, EXACTLY, SIMILAR, BOL, NOT_BOUNDARY, ANY_OF, NOT_DELIM,
    NOTHING, BACK]
  simp only [show ¬ ((1 : Nat) = 34) by decide, show ¬ ((25 : Nat) ≤ 1 ∧ 1 ≤ 32) by decide,
    show ¬ ((1 : Nat) = 43 ∨ 1 = 44) by decide, show ¬ ((1 : Nat) = 46 ∨ 1 = 47) by decide,
    show ¬ ((49 : Nat) < 1 ∧ 1 < 49 + 50) by decide,
    show ¬ ((49 + 50 : Nat) < 1 ∧ 1 < 49 + 50 + 50) by decide,
    show ¬ ((1 : Nat) = 7) by decide, show ¬ ((1 : Nat) = 8) by decide,
    show ¬ (((2 : Nat) ≤ 1 ∧ 1 ≤ 6) ∨ ((9 : Nat) ≤ 1 ∧ 1 ≤ 24) ∨ (1 : Nat) = 33 ∨ (1 : Nat) = 35)
      by decide, if_false, if_true]
  refine ⟨_, rfl, ?_, ?_, ?_, ?_⟩
  · simp only [MATCH_RETURN, update_extent_FW]
    split <;> (try split) <;> rfl
  · simp only [MATCH_RETURN, update_extent_FW]
    split <;> (try split) <;> rfl
  · simp only [MATCH_RETURN, update_extent_FW]
    split <;> (try split) <;> rfl
  · simp only [MATCH_RETURN, update_extent_FW]
    split <;> (try split) <;> rfl

theorem brace_greedy (m n k : Nat) (rest : List Nat) (delimiters : List Bool) (S : ExecState)
    (hm : 0 < m) (hmn : m ≤ n) (hn : n ≤ 65535) (hrest : rest.headD 0 ≠ 97)
    (hin : S.input = 0) (hend : S.endOfString = none) :
    greedy (brace_program m n) (List.replicate k 97 ++ rest) delimiters (Ptr.prog 13) n S
      = (min k n, { S with input := min k n }) := by
  have hg := greedy_loop_run (greedy_test (brace_program m n) delimiters (Ptr.prog 13)) n rest
    (by rw [brace_greedy_test]; rfl)
    (Or.inl (by
      rw [brace_greedy_test]
      exact decide_eq_false (fun h => hrest h.symm))) k 0 0
  have hn63 : 0 < n ∧ n < 2 ^ 63 := by constructor <;> omega
  simp only [greedy, hend, hin, hn63, and_self, if_true, List.drop_zero, hg, Nat.zero_add,
    Nat.sub_zero]

set_option maxRecDepth 4000 in
theorem match_brace (m n k F : Nat) (rest : List Nat) (delimiters : List Bool)
    (S : ExecState) (hm : 0 < m) (hmn : m ≤ n) (hn : n ≤ 65535) (hk : m ≤ k)
    (hrest : rest.headD 0 ≠ 97) (hin : S.input = 0) (hend : S.endOfString = none)
    (hrc : S.Recursion_Count + 2 < 10000) :
    ∃ st', match_ (brace_program m n) (List.replicate k 97 ++ rest) delimiters (F + 8)
          (Ptr.prog 3) true S = some (true, st')
      ∧ st'.input = min k n ∧ st'.startp_ = S.startp_ ∧ st'.endp_ = S.endp_
      ∧ st'.Recursion_Limit_Exceeded = S.Recursion_Limit_Exceeded := by
  have hO3 : getOpcode (brace_program m n) (Ptr.prog 3) = 34 := rfl
  have hN3 : NEXT_PTR (brace_program m n) (Ptr.prog 3) = Ptr.prog 18 := rfl
  have hO18 : getOpcode (brace_program m n) (Ptr.prog 18) = 1 := rfl
  have hO6 : getOpcode (brace_program m n) (Ptr.prog 6) = 31 := rfl
  have hN6 : NEXT_PTR (brace_program m n) (Ptr.prog 6) = Ptr.prog 18 := rfl
  have hOp3 : OPERAND (Ptr.prog 3) = Ptr.prog 6 := rfl
  have hb := brace_repeat_bounds m n hm hmn hn
  have hgr := brace_greedy m n k rest delimiters
    { S with Recursion_Count := S.Recursion_Count + 1 } hm hmn hn hrest hin hend
  obtain ⟨st', e1, e2, e3, e4, e5⟩ := match_at_end (brace_program m n) (List.replicate k 97 ++ rest)
    delimiters F (Ptr.prog 18) false
    { S with Recursion_Count := S.Recursion_Count + 1, input := min k n }
    (by decide) hO18 (by simp only; omega)
  have hcond : m ≤ min k n ∧ min k n ≤ n := by constructor <;> omega
  have h1 : ¬ (S.Recursion_Count + 1 > REGEX_RECURSION_LIMIT) := by
    simp only [REGEX_RECURSION_LIMIT]; omega
  rw [match_]
  simp only [h1, if_false]
  rw [match_loop]
  simp only [show Ptr.prog 3 ≠ Ptr.null by decide, if_false]
  rw [match_node]
  simp only [hO3, hN3, hO18, BRANCH, END, if_true, ne_eq, show ¬ ((1 : Nat) = 34) by decide,
    not_false_eq_true, hOp3]
  rw [match_loop]
  simp only [show Ptr.prog 6 ≠ Ptr.null by decide, if_false]
  rw [match_node]
  simp only [hO6, hN6, hO18]
  simp only [BRANCH, STAR, LAZY_BRACE, EXACTLY, show ¬ ((31 : Nat) = 34) by decide, if_false,
    show (25 ≤ 31 ∧ 31 ≤ 32) by decide, if_true, show ¬ ((1 : Nat) = 7) by decide, hb,
    Bool.false_eq_true, hgr]
  rw [match_repeat]
  simp only [hcond, and_self, not_true_eq_false, if_false, decide_True, Bool.true_or, if_true, e1]
  refine ⟨_, rfl, ?_, ?_, ?_, ?_⟩
  · simpa [MATCH_RETURN] using e2
  · simpa [MATCH_RETURN] using e3
  · simpa [MATCH_RETURN] using e4
  · simpa [MATCH_RETURN] using e5

theorem attempt_brace (m n k F : Nat) (rest : List Nat) (delimiters : List Bool)
    (S : ExecState) (hm : 0 < m) (hmn : m ≤ n) (hn : n ≤ 65535) (hk : m ≤ k)
    (hrest : rest.headD 0 ≠ 97) (hend : S.endOfString = none)
    (hls : 0 < S.startp_.length) (hle : 0 < S.endp_.length) :
    ∃ st, attempt (brace_regex m n) (List.replicate k 97 ++ rest) delimiters (F + 8) 0 S
          = some (true, st)
      ∧ group st 0 = [some 0, some (min k n)]
      ∧ st.Recursion_Limit_Exceeded = S.Recursion_Limit_Exceeded := by
  have hT : (brace_program m n).getD 1 0 = 0 := rfl
  have hP : (brace_regex m n).program_ = brace_program m n := rfl
  obtain ⟨st', e1, e2, e3, e4, e5⟩ := match_brace m n k F rest delimiters
    { S with input := 0, Recursion_Count := 0, Extent_Ptr_BW := some 0, Extent_Ptr_FW := none,
             startp_ := clear_slots (0 + 1) S.startp_, endp_ := clear_slots (0 + 1) S.endp_,
             branch_index := 0 }
    hm hmn hn hk hrest rfl hend (by show 0 + 2 < 10000; omega)
  unfold attempt
  simp only [hT, hP, REGEX_START_OFFSET, e1]
  refine ⟨_, rfl, ?_, e5⟩
  have h1 : 0 < st'.startp_.length := by
    rw [e3]; simp [clear_slots]; omega
  have h2 : 0 < st'.endp_.length := by
    rw [e4]; simp [clear_slots]; omega
  simp [group, e2, h1, h2]

theorem Execute_brace (m n k F : Nat) (rest : List Nat)
    (hm : 0 < m) (hmn : m ≤ n) (hn : n ≤ 65535) (hk : m ≤ k) (hrest : rest.headD 0 ≠ 97) :
    ∃ st, Execute (brace_regex m n) (F + 8) (List.replicate k 97 ++ rest) = some (true, st)
      ∧ group st 0 = [some 0, some (min k n)] := by
  obtain ⟨st, e1, e2, e3⟩ := attempt_brace m n k F rest DefaultDelimiters execute_state
    hm hmn hn hk hrest rfl (by decide) (by decide)
  have hk0 : k = (k - 1) + 1 := by omega
  have hc : charAt (List.replicate k 97 ++ rest) 0 = 97 := by
    rw [hk0, List.replicate_succ]; rfl
  have hlen : (List.replicate k 97 ++ rest).length + 1 - 0
      = (List.replicate k 97 ++ rest).length + 1 := rfl
  have hA : (brace_regex m n).anchor_ = 0 := rfl
  have hM : (brace_regex m n).match_start_ = 0 := rfl
  have hR : execute_state.Recursion_Limit_Exceeded = false := rfl
  have hE : execute_state.endOfString = none := rfl
  rw [Execute_brace_setup]
  unfold exec_search
  simp only [hA, hM, ne_eq, not_true_eq_false, if_false, hlen]
  rw [exec_forward]
  simp only [atEndOfString, hc, hE, reachedEnd, hR, e1]
  simp only [show ¬ ((97 : Nat) = 0) by decide, decide_False, Bool.or_self, Bool.false_eq_true,
    false_or, or_self, if_false, show ¬ ((2 : Nat) = 0) by decide, show ¬ ((2 : Nat) = 1) by decide,
    false_and, e1, e3, hR, reduceCtorEq]
  exact ⟨st, rfl, e2⟩

/-- C4: for every pair 0 < m ≤ n ≤ 65535 other than m = n = 1 and every subject that begins
with exactly k ≥ m characters `a` (the rest does not start with `a`), compiling `a{m,n}` and
executing it on the subject reports a match whose group 0 is the span [0, min k n), with any
fuel of at least 8 for the matcher. -/
theorem C4_brace_greedy (m n k fuel : Nat) (rest : List Nat)
    (hm : 0 < m) (hmn : m ≤ n) (hn : n ≤ 65535) (h11 : ¬ (m = 1 ∧ n = 1)) (hk : m ≤ k)
    (hrest : rest.headD 0 ≠ 97) (hfuel : 8 ≤ fuel) :
    ∃ st, compile_and_execute (brace_pattern m n) fuel (List.replicate k 97 ++ rest)
          = .ok (some (true, st))
      ∧ group st 0 = [some 0, some (min k n)] := by
  obtain ⟨F, rfl⟩ : ∃ F, fuel = F + 8 := ⟨fuel - 8, by omega⟩
  obtain ⟨st, e1, e2⟩ := Execute_brace m n k F rest hm hmn hn hk hrest
  refine ⟨st, ?_, e2⟩
  unfold compile_and_execute
  rw [CompileRE_brace m n hm hmn hn h11]
  simp only [Except.map, e1]

/-- C4 at the pattern `a{2,4}` and the subject `aaaaa`: the match is [0,4), the text `aaaa`. -/
theorem C4_brace_greedy_witness :
    (0 < 2 ∧ 2 ≤ 4 ∧ 4 ≤ 65535 ∧ ¬ (2 = 1 ∧ 4 = 1) ∧ 2 ≤ 5 ∧ ([] : List Nat).headD 0 ≠ 97
        ∧ 8 ≤ 8)
      ∧ brace_pattern 2 4 = bytes "a\x7b2,4\x7d"
      ∧ List.replicate 5 97 ++ [] = bytes "aaaaa"
      ∧ (∃ st, compile_and_execute (brace_pattern 2 4) 8 (List.replicate 5 97 ++ [])
            = .ok (some (true, st))
          ∧ group st 0 = [some 0, some (min 5 4)])
      ∧ ((bytes "aaaaa").drop 0).take (min 5 4 - 0) = bytes "aaaa" :=
  ⟨by decide, by simp [brace_pattern, decimal]; decide, by decide,
    C4_brace_greedy 2 4 5 8 [] (by decide) (by decide) (by decide) (by decide) (by decide)
      (by decide) (by decide), by decide⟩

/-! ### The second pass emits what the first pass counts -/

theorem ptrP1_add (p : Ptr) (k : Int) : ptrP1 (p.add k) = (ptrP1 p).add k := by
  cases p <;> rfl

theorem ptrP1_eq_null (p : Ptr) : (ptrP1 p = Ptr.null) = (p = Ptr.null) := by
  cases p <;> simp [ptrP1]

theorem poke_nil (p : Ptr) (v : Nat) : poke [] p v = [] := by
  cases p <;> simp [poke]

theorem toP1_emit_byte (c : Nat) (s : CompileState) :
    toP1 (emit_byte c s) = emit_byte c (toP1 s) := by
  rcases s with ⟨rp, cp, pw, ptr, sz, ci, mn, pr, tp, nb, hg⟩
  cases ptr <;> simp [toP1, emit_byte, ptrP1, emitted, poke_nil, Ptr.add]

theorem toP1_emit_class_byte (c : Nat) (s : CompileState) :
    toP1 (emit_class_byte c s) = emit_class_byte c (toP1 s) := by
  rcases s with ⟨rp, cp, pw, ptr, sz, ci, mn, pr, tp, nb, hg⟩
  cases ptr <;> simp [toP1, emit_class_byte, ptrP1, emitted, poke_nil, Ptr.add]
  all_goals split
  all_goals simp
  all_goals omega

theorem toNat_add (o k : Nat) : ((o : Int) + (k : Int)).toNat = o + k := by omega

theorem toP1_emit_node (op : Nat) (s : CompileState) :
    toP1 (emit_node op s).2 = (emit_node op (toP1 s)).2 := by
  rcases s with ⟨rp, cp, pw, ptr, sz, ci, mn, pr, tp, nb, hg⟩
  cases ptr <;> simp [toP1, emit_node, ptrP1, emitted, poke_nil, Ptr.add]
  omega

theorem ptrP1_emit_node (op : Nat) (s : CompileState) :
    ptrP1 (emit_node op s).1 = (emit_node op (toP1 s)).1 := by
  rcases s with ⟨rp, cp, pw, ptr, sz, ci, mn, pr, tp, nb, hg⟩
  cases ptr <;> simp [toP1, emit_node, ptrP1]

theorem toP1_emit_special (op test_val index : Nat) (s : CompileState) :
    toP1 (emit_special op test_val index s).2 = (emit_special op 0 0 (toP1 s)).2 := by
  rcases s with ⟨rp, cp, pw, ptr, sz, ci, mn, pr, tp, nb, hg⟩
  by_cases h1 : op = INC_COUNT
  · subst h1
    cases ptr <;> simp [emit_special, toP1, ptrP1, emitted, emit_node, poke_nil, Ptr.add]
    omega
  by_cases h2 : op = TEST_COUNT
  · subst h2
    cases ptr <;> simp [emit_special, toP1, ptrP1, emitted, emit_node, poke_nil, Ptr.add]
    omega
  by_cases h3 : op = POS_BEHIND_OPEN ∨ op = NEG_BEHIND_OPEN
  · rcases h3 with h3 | h3 <;> subst h3 <;>
      cases ptr <;> simp [emit_special, toP1, ptrP1, emitted, emit_node, poke_nil, Ptr.add] <;>
      omega
  · simp only [INC_COUNT, TEST_COUNT, POS_BEHIND_OPEN, NEG_BEHIND_OPEN] at h1 h2 h3
    cases ptr <;>
      simp [emit_special, toP1, ptrP1, emitted, emit_node, poke_nil, Ptr.add, h1, h2, h3]
    omega

theorem ptrP1_emit_special (op test_val index : Nat) (s : CompileState) :
    ptrP1 (emit_special op test_val index s).1 = (emit_special op 0 0 (toP1 s)).1 := by
  rcases s with ⟨rp, cp, pw, ptr, sz, ci, mn, pr, tp, nb, hg⟩
  cases ptr <;> simp only [emit_special, toP1, ptrP1, emitted, emit_node] <;>
    split_ifs <;> simp [ptrP1]

theorem insert_move_nil (pos : Ptr) (size n : Nat) : insert_move pos size n [] = [] := by
  induction n with
  | zero => rfl
  | succ n ih => simp [insert_move, poke_nil, ih]

theorem toP1_insert (op : Nat) (pos : Ptr) (min max index : Nat) (s : CompileState) :
    toP1 (insert op pos min max index s).2 = (insert op Ptr.null 0 0 0 (toP1 s)).2 := by
  rcases s with ⟨rp, cp, pw, ptr, sz, ci, mn, pr, tp, nb, hg⟩
  by_cases h1 : op = BRACE ∨ op = LAZY_BRACE
  · cases ptr <;>
      simp [insert, toP1, ptrP1, emitted, poke_nil, Ptr.add, insert_move_nil, h1]
    omega
  by_cases h2 : op = INIT_COUNT
  · subst h2
    cases ptr <;>
      simp [insert, toP1, ptrP1, emitted, poke_nil, Ptr.add, insert_move_nil]
    omega
  · simp only [BRACE, LAZY_BRACE, INIT_COUNT] at h1 h2
    cases ptr <;>
      simp [insert, toP1, ptrP1, emitted, poke_nil, Ptr.add, insert_move_nil, h1, h2]
    omega

theorem toP1_program (s : CompileState) (program : List Nat) :
    toP1 { s with program_ := program } = toP1 s := rfl

theorem toP1_hang (s : CompileState) (h : Bool) : toP1 { s with hang := h } = toP1 s := rfl

theorem toP1_tail (a b : Ptr) (s : CompileState) : toP1 (tail a b s) = toP1 s := by
  unfold tail
  split
  · rfl
  · split <;> rfl

theorem next_ptr_nil (p : Ptr) : next_ptr [] p = Ptr.null := by
  cases p <;> simp [next_ptr, getOffset, peek]

theorem tail_toP1 (a b : Ptr) (s : CompileState) : tail a b (toP1 s) = toP1 s := by
  unfold tail
  split
  · rfl
  · simp [toP1, last_in_chain, next_ptr_nil, poke_nil]

theorem toP1_offset_tail (p : Ptr) (k : Int) (v : Ptr) (s : CompileState) :
    toP1 (offset_tail p k v s) = toP1 s := by
  unfold offset_tail
  split
  · rfl
  · exact toP1_tail _ _ _

theorem offset_tail_toP1 (p : Ptr) (k : Int) (v : Ptr) (s : CompileState) :
    offset_tail p k v (toP1 s) = toP1 s := by
  unfold offset_tail
  split
  · rfl
  · exact tail_toP1 _ _ _

theorem toP1_branch_tail (p : Ptr) (k : Int) (v : Ptr) (s : CompileState) :
    toP1 (branch_tail p k v s) = toP1 s := by
  unfold branch_tail
  split
  · rfl
  · exact toP1_tail _ _ _

theorem branch_tail_toP1 (p : Ptr) (k : Int) (v : Ptr) (s : CompileState) :
    branch_tail p k v (toP1 s) = toP1 s := by
  unfold branch_tail
  split
  · rfl
  · exact tail_toP1 _ _ _

theorem toP1_chunk_hook (ender : Ptr) (fuel : Nat) :
    ∀ (p : Ptr) (s : CompileState), toP1 (chunk_hook ender fuel p s) = toP1 s := by
  induction fuel with
  | zero =>
    intro p s
    unfold chunk_hook
    split <;> rfl
  | succ n ih =>
    intro p s
    unfold chunk_hook
    split
    · rfl
    · simp only [ih, toP1_branch_tail]

theorem chunk_hook_toP1 (ender : Ptr) (fuel : Nat) (p : Ptr) (s : CompileState) :
    chunk_hook ender (fuel + 1) p (toP1 s) = toP1 s := by
  unfold chunk_hook
  split
  · rfl
  · simp only [branch_tail_toP1]
    have h : (toP1 s).program_ = [] := rfl
    rw [h, next_ptr_nil]
    cases fuel <;> simp [chunk_hook]

theorem toP1_emit_bytes (cs : List Nat) :
    ∀ s : CompileState, toP1 (emit_bytes cs s) = emit_bytes cs (toP1 s) := by
  induction cs with
  | nil => intro s; rfl
  | cons c cs ih => intro s; simp only [emit_bytes, ih, toP1_emit_byte]

theorem toP1_emit_class_range (n : Nat) :
    ∀ (v : Nat) (s : CompileState),
      toP1 (emit_class_range n v s) = emit_class_range n v (toP1 s) := by
  induction n with
  | zero => intro v s; rfl
  | succ n ih => intro v s; simp only [emit_class_range, ih, toP1_emit_class_byte]

theorem toP1_Reg_Parse (s : CompileState) (rp : Nat) :
    toP1 { s with Reg_Parse := rp } = { toP1 s with Reg_Parse := rp } := rfl

theorem toP1_Total_Paren (s : CompileState) (n : Nat) :
    toP1 { s with Total_Paren := n } = { toP1 s with Total_Paren := n } := rfl

theorem toP1_Num_Braces (s : CompileState) (n : Nat) :
    toP1 { s with Num_Braces := n } = { toP1 s with Num_Braces := n } := rfl

theorem toP1_Closed_Parens (s : CompileState) (l : List Bool) :
    toP1 { s with Closed_Parens := l } = { toP1 s with Closed_Parens := l } := rfl

theorem toP1_Paren_Has_Width (s : CompileState) (l : List Bool) :
    toP1 { s with Paren_Has_Width := l } = { toP1 s with Paren_Has_Width := l } := rfl

theorem toP1_Is_Case_Insensitive (s : CompileState) (b : Bool) :
    toP1 { s with Is_Case_Insensitive := b } = { toP1 s with Is_Case_Insensitive := b } := rfl

theorem toP1_Match_Newline (s : CompileState) (b : Bool) :
    toP1 { s with Match_Newline := b } = { toP1 s with Match_Newline := b } := rfl

theorem toP1_modes (s : CompileState) (a b : Bool) :
    toP1 { s with Is_Case_Insensitive := a, Match_Newline := b }
      = { toP1 s with Is_Case_Insensitive := a, Match_Newline := b } := rfl

theorem Reg_Parse_toP1 (s : CompileState) : (toP1 s).Reg_Parse = s.Reg_Parse := rfl
theorem Closed_Parens_toP1 (s : CompileState) : (toP1 s).Closed_Parens = s.Closed_Parens := rfl
theorem Paren_Has_Width_toP1 (s : CompileState) :
    (toP1 s).Paren_Has_Width = s.Paren_Has_Width := rfl
theorem Is_Case_Insensitive_toP1 (s : CompileState) :
    (toP1 s).Is_Case_Insensitive = s.Is_Case_Insensitive := rfl
theorem Match_Newline_toP1 (s : CompileState) : (toP1 s).Match_Newline = s.Match_Newline := rfl
theorem Total_Paren_toP1 (s : CompileState) : (toP1 s).Total_Paren = s.Total_Paren := rfl
theorem Num_Braces_toP1 (s : CompileState) : (toP1 s).Num_Braces = s.Num_Braces := rfl
theorem program_toP1 (s : CompileState) : (toP1 s).program_ = [] := rfl

theorem emit_node_toP1 (op : Nat) (s : CompileState) :
    (emit_node op (toP1 s)).2 = toP1 (emit_node op s).2 := (toP1_emit_node op s).symm

theorem emit_special_toP1 (op test_val index : Nat) (s : CompileState) :
    (emit_special op test_val index (toP1 s)).2 = toP1 (emit_special op 0 0 s).2 := by
  rw [toP1_emit_special]
  rcases s with ⟨rp, cp, pw, ptr, sz, ci, mn, pr, tp, nb, hg⟩
  cases ptr <;> simp only [emit_special, toP1, ptrP1, emitted, emit_node] <;>
    split_ifs <;> simp [poke_nil, Ptr.add]

theorem insert_toP1 (op : Nat) (pos : Ptr) (min max index : Nat) (s : CompileState) :
    (insert op pos min max index (toP1 s)).2 = toP1 (insert op Ptr.null 0 0 0 s).2 := by
  rw [toP1_insert]
  rcases s with ⟨rp, cp, pw, ptr, sz, ci, mn, pr, tp, nb, hg⟩
  cases ptr <;> simp only [insert, toP1, ptrP1, emitted] <;>
    split_ifs <;> simp [poke_nil, Ptr.add, insert_move_nil]

theorem toP1_piece_emit_loop (op : Nat) (lazy : Bool) (rv rv1 : Ptr) (s : CompileState) :
    toP1 (piece_emit_loop op lazy rv s) = piece_emit_loop op lazy rv1 (toP1 s) := by
  unfold piece_emit_loop
  split_ifs <;>
    simp only [toP1_tail, toP1_offset_tail, toP1_emit_node, toP1_insert] <;>
    simp only [tail_toP1, offset_tail_toP1, emit_node_toP1, insert_toP1]

theorem bump_braces_congr (X Y : CompileState) (h : toP1 X = Y) :
    toP1 { X with Num_Braces := X.Num_Braces + 1 } = { Y with Num_Braces := Y.Num_Braces + 1 } := by
  subst h; rfl

theorem toP1_piece_emit_brace (lazy : Bool) (min max : Nat) (rv rv1 : Ptr) (s : CompileState) :
    toP1 (piece_emit_brace lazy min max rv s) = piece_emit_brace lazy min max rv1 (toP1 s) := by
  unfold piece_emit_brace
  refine bump_braces_congr _ _ ?_
  split_ifs <;>
    simp only [toP1_tail, toP1_offset_tail, toP1_emit_node, toP1_insert, toP1_emit_special] <;>
    simp only [tail_toP1, offset_tail_toP1, emit_node_toP1, insert_toP1, emit_special_toP1]

theorem toP1_piece_emit (op : Nat) (lazy : Bool) (fl min max : Nat) (rv rv1 : Ptr)
    (s : CompileState) :
    (piece_emit op lazy fl min max rv s).map toP1
      = piece_emit op lazy fl min max rv1 (toP1 s) := by
  unfold piece_emit
  split_ifs <;>
    simp only [Except.map, toP1_insert, toP1_piece_emit_loop op lazy rv rv1,
      toP1_piece_emit_brace lazy min max rv rv1] <;>
    simp only [insert_toP1]

theorem resP1_ret_val (r : Res) : (resP1 r).ret_val = ptrP1 r.ret_val := rfl
theorem resP1_flag (r : Res) : (resP1 r).flag = r.flag := rfl
theorem resP1_range (r : Res) : (resP1 r).range = r.range := rfl
theorem resP1_cState (r : Res) : (resP1 r).cState = toP1 r.cState := rfl

theorem resP1_piece_rest (exp : List Nat) (a : Res) :
    (piece_rest exp a).map resP1 = piece_rest exp (resP1 a) := by
  unfold piece_rest
  rw [resP1_cState, resP1_flag, resP1_range, resP1_ret_val, Reg_Parse_toP1]
  generalize charAt exp a.cState.Reg_Parse = op_code
  by_cases h1 : (!isQuantifier op_code) = true
  · rw [if_pos h1, if_pos h1]; rfl
  · rw [if_neg h1, if_neg h1]
    generalize (if op_code = 123 then parse_brace exp (a.cState.Reg_Parse + 1)
          else Except.ok (REG_ZERO, REG_INFINITY, a.cState.Reg_Parse)) = parsed
    rcases parsed with e | ⟨min0, max0, rp0⟩
    · rfl
    · simp only []
      generalize (if op_code = 123 then
                    if min0 = REG_ZERO ∧ max0 = REG_INFINITY then 42
                    else
                      if min0 = REG_ONE ∧ max0 = REG_INFINITY then 43
                      else if min0 = REG_ZERO ∧ max0 = REG_ONE then 63 else 123
                  else op_code) = op1
      generalize (if op1 = 43 then REG_ONE else min0) = min1
      generalize (if op1 = 63 then REG_ONE else max0) = max1
      generalize decide (charAt exp (rp0 + 1) = 63) = lazy
      generalize (if lazy = true then rp0 + 1 + 1 else rp0 + 1) = rp2
      have key : Except.map toP1 (piece_emit op1 lazy a.flag min1 max1 a.ret_val
            { a.cState with Reg_Parse := rp2 })
          = piece_emit op1 lazy a.flag min1 max1 (ptrP1 a.ret_val)
            { toP1 a.cState with Reg_Parse := rp2 } :=
        toP1_piece_emit op1 lazy a.flag min1 max1 a.ret_val (ptrP1 a.ret_val) _
      simp only [] at key
      rw [← key]
      by_cases h2 : op_code = 123 ∧ op1 = 123 ∧ min0 = REG_ONE ∧ max0 = REG_ONE
      · rw [if_pos h2, if_pos h2]; rfl
      rw [if_neg h2, if_neg h2, Num_Braces_toP1]
      by_cases h3 : op_code = 123 ∧ op1 = 123 ∧ a.cState.Num_Braces > 255
      · rw [if_pos h3, if_pos h3]; rfl
      rw [if_neg h3, if_neg h3]
      by_cases h4 : a.flag &&& HAS_WIDTH = 0
      · rw [if_pos h4, if_pos h4]; rfl
      rw [if_neg h4, if_neg h4]
      cases piece_emit op1 lazy a.flag min1 max1 a.ret_val
          { a.cState with Reg_Parse := rp2 } with
      | error e => rfl
      | ok cs1 =>
        by_cases h5 : isQuantifier (charAt exp cs1.Reg_Parse) = true
        · simp only [Except.map, Reg_Parse_toP1, h5, if_true]
        · simp only [Except.map, Reg_Parse_toP1, h5, if_false]
          rfl

theorem fold_Reg_Parse (s : CompileState) (v0 : Nat) :
    ({ Reg_Parse := v0, Closed_Parens := s.Closed_Parens, Paren_Has_Width := s.Paren_Has_Width,
       Code_Emit_Ptr := (toP1 s).Code_Emit_Ptr, Reg_Size := (toP1 s).Reg_Size,
       Is_Case_Insensitive := s.Is_Case_Insensitive, Match_Newline := s.Match_Newline,
       program_ := (toP1 s).program_, Total_Paren := s.Total_Paren, Num_Braces := s.Num_Braces,
       hang := (toP1 s).hang } : CompileState)
      = toP1 { s with Reg_Parse := v0 } := rfl

theorem fold_Closed_Parens (s : CompileState) (v0 : List Bool) :
    ({ Reg_Parse := s.Reg_Parse, Closed_Parens := v0, Paren_Has_Width := s.Paren_Has_Width,
       Code_Emit_Ptr := (toP1 s).Code_Emit_Ptr, Reg_Size := (toP1 s).Reg_Size,
       Is_Case_Insensitive := s.Is_Case_Insensitive, Match_Newline := s.Match_Newline,
       program_ := (toP1 s).program_, Total_Paren := s.Total_Paren, Num_Braces := s.Num_Braces,
       hang := (toP1 s).hang } : CompileState)
      = toP1 { s with Closed_Parens := v0 } := rfl

theorem fold_Paren_Has_Width (s : CompileState) (v0 : List Bool) :
    ({ Reg_Parse := s.Reg_Parse, Closed_Parens := s.Closed_Parens, Paren_Has_Width := v0,
       Code_Emit_Ptr := (toP1 s).Code_Emit_Ptr, Reg_Size := (toP1 s).Reg_Size,
       Is_Case_Insensitive := s.Is_Case_Insensitive, Match_Newline := s.Match_Newline,
       program_ := (toP1 s).program_, Total_Paren := s.Total_Paren, Num_Braces := s.Num_Braces,
       hang := (toP1 s).hang } : CompileState)
      = toP1 { s with Paren_Has_Width := v0 } := rfl

theorem fold_Is_Case_Insensitive (s : CompileState) (v0 : Bool) :
    ({ Reg_Parse := s.Reg_Parse, Closed_Parens := s.Closed_Parens,
       Paren_Has_Width := s.Paren_Has_Width, Code_Emit_Ptr := (toP1 s).Code_Emit_Ptr,
       Reg_Size := (toP1 s).Reg_Size, Is_Case_Insensitive := v0,
       Match_Newline := s.Match_Newline, program_ := (toP1 s).program_,
       Total_Paren := s.Total_Paren, Num_Braces := s.Num_Braces, hang := (toP1 s).hang } : CompileState)
      = toP1 { s with Is_Case_Insensitive := v0 } := rfl

theorem fold_Match_Newline (s : CompileState) (v0 : Bool) :
    ({ Reg_Parse := s.Reg_Parse, Closed_Parens := s.Closed_Parens,
       Paren_Has_Width := s.Paren_Has_Width, Code_Emit_Ptr := (toP1 s).Code_Emit_Ptr,
       Reg_Size := (toP1 s).Reg_Size, Is_Case_Insensitive := s.Is_Case_Insensitive,
       Match_Newline := v0, program_ := (toP1 s).program_, Total_Paren := s.Total_Paren,
       Num_Braces := s.Num_Braces, hang := (toP1 s).hang } : CompileState)
      = toP1 { s with Match_Newline := v0 } := rfl

theorem fold_Total_Paren (s : CompileState) (v0 : Nat) :
    ({ Reg_Parse := s.Reg_Parse, Closed_Parens := s.Closed_Parens,
       Paren_Has_Width := s.Paren_Has_Width, Code_Emit_Ptr := (toP1 s).Code_Emit_Ptr,
       Reg_Size := (toP1 s).Reg_Size, Is_Case_Insensitive := s.Is_Case_Insensitive,
       Match_Newline := s.Match_Newline, program_ := (toP1 s).program_, Total_Paren := v0,
       Num_Braces := s.Num_Braces, hang := (toP1 s).hang } : CompileState)
      = toP1 { s with Total_Paren := v0 } := rfl

theorem fold_Num_Braces (s : CompileState) (v0 : Nat) :
    ({ Reg_Parse := s.Reg_Parse, Closed_Parens := s.Closed_Parens,
       Paren_Has_Width := s.Paren_Has_Width, Code_Emit_Ptr := (toP1 s).Code_Emit_Ptr,
       Reg_Size := (toP1 s).Reg_Size, Is_Case_Insensitive := s.Is_Case_Insensitive,
       Match_Newline := s.Match_Newline, program_ := (toP1 s).program_,
       Total_Paren := s.Total_Paren, Num_Braces := v0, hang := (toP1 s).hang } : CompileState)
      = toP1 { s with Num_Braces := v0 } := rfl

theorem fold_Is_Case_Insensitive_Match_Newline (s : CompileState) (v0 : Bool) (v1 : Bool) :
    ({ Reg_Parse := s.Reg_Parse, Closed_Parens := s.Closed_Parens,
       Paren_Has_Width := s.Paren_Has_Width, Code_Emit_Ptr := (toP1 s).Code_Emit_Ptr,
       Reg_Size := (toP1 s).Reg_Size, Is_Case_Insensitive := v0, Match_Newline := v1,
       program_ := (toP1 s).program_, Total_Paren := s.Total_Paren, Num_Braces := s.Num_Braces,
       hang := (toP1 s).hang } : CompileState)
      = toP1 { s with Is_Case_Insensitive := v0, Match_Newline := v1 } := rfl

theorem ptrP1_one : ptrP1 Ptr.one = Ptr.one := rfl
theorem ptrP1_null : ptrP1 Ptr.null = Ptr.null := rfl
theorem escP1_mk (p : Ptr) (f : Nat) (s : CompileState) :
    escP1 (p, f, s) = (ptrP1 p, f, toP1 s) := rfl
theorem map_ok {α β : Type} (f : α → β) (x : α) :
    Except.map f (Except.ok x : Except CompileError α) = Except.ok (f x) := rfl
theorem map_error {α β : Type} (f : α → β) (e : CompileError) :
    Except.map f (Except.error e : Except CompileError α) = Except.error e := rfl

set_option maxRecDepth 20000 in
theorem escP1_shortcut_escape (c flag emitType : Nat) (s : CompileState) :
    (shortcut_escape c flag emitType s).map escP1 = shortcut_escape c flag emitType (toP1 s) := by
  unfold shortcut_escape
  rw [Match_Newline_toP1]
  generalize (if emitType = EMIT_CLASS_BYTES ∨ emitType = CHECK_CLASS_ESCAPE then
      shortcut_codes.drop 3 else shortcut_codes) = valid
  simp only [apply_ite (Except.map escP1), map_ok, map_error, escP1_mk, apply_ite Prod.fst,
    apply_ite Prod.snd, apply_ite ptrP1, apply_ite toP1, apply_ite (emit_bytes WhiteSpace),
    ptrP1_one, ptrP1_null, toP1_emit_bytes, toP1_emit_byte, toP1_emit_node, ptrP1_emit_node]

theorem escP1_back_ref (c flag emitType : Nat) (s : CompileState) :
    (back_ref c flag emitType s).map escP1 = back_ref c flag emitType (toP1 s) := by
  unfold back_ref
  rw [Closed_Parens_toP1, Paren_Has_Width_toP1, Is_Case_Insensitive_toP1]
  simp only [apply_ite (Except.map escP1), map_ok, map_error, escP1_mk, apply_ite Prod.fst,
    apply_ite Prod.snd, apply_ite ptrP1, apply_ite toP1, apply_ite (emit_byte (c - 48)),
    ptrP1_one, ptrP1_null, toP1_emit_bytes, toP1_emit_byte, toP1_emit_node, ptrP1_emit_node]

theorem emit_byte_toP1 (c : Nat) (s : CompileState) :
    emit_byte c (toP1 s) = toP1 (emit_byte c s) := (toP1_emit_byte c s).symm

theorem emit_class_byte_toP1 (c : Nat) (s : CompileState) :
    emit_class_byte c (toP1 s) = toP1 (emit_class_byte c s) := (toP1_emit_class_byte c s).symm

theorem emit_bytes_toP1 (cs : List Nat) (s : CompileState) :
    emit_bytes cs (toP1 s) = toP1 (emit_bytes cs s) := (toP1_emit_bytes cs s).symm

theorem emit_class_range_toP1 (n v : Nat) (s : CompileState) :
    emit_class_range n v (toP1 s) = toP1 (emit_class_range n v s) :=
  (toP1_emit_class_range n v s).symm

theorem shortcut_escape_toP1 (c flag emitType : Nat) (s : CompileState) :
    shortcut_escape c flag emitType (toP1 s) = (shortcut_escape c flag emitType s).map escP1 :=
  (escP1_shortcut_escape c flag emitType s).symm

theorem back_ref_toP1 (c flag emitType : Nat) (s : CompileState) :
    back_ref c flag emitType (toP1 s) = (back_ref c flag emitType s).map escP1 :=
  (escP1_back_ref c flag emitType s).symm

theorem escP1_fst (r : Ptr × Nat × CompileState) : (escP1 r).1 = ptrP1 r.1 := rfl
theorem escP1_flag (r : Ptr × Nat × CompileState) : (escP1 r).2.1 = r.2.1 := rfl
theorem escP1_state (r : Ptr × Nat × CompileState) : (escP1 r).2.2 = toP1 r.2.2 := rfl

theorem match_map_esc {β : Type} (X : Except CompileError (Ptr × Nat × CompileState))
    (F : Ptr × Nat × CompileState → Except CompileError β) :
    (match Except.map escP1 X with
      | Except.error e => Except.error e
      | Except.ok r => F r)
    = (match X with
      | Except.error e => Except.error e
      | Except.ok r => F (escP1 r)) := by
  cases X <;> rfl

theorem map_match_esc {β γ : Type} (g : β → γ)
    (X : Except CompileError (Ptr × Nat × CompileState))
    (F : Ptr × Nat × CompileState → Except CompileError β) :
    Except.map g (match X with
      | Except.error e => Except.error e
      | Except.ok r => F r)
    = (match X with
      | Except.error e => Except.error e
      | Except.ok r => Except.map g (F r)) := by
  cases X <;> rfl

theorem toP1_atom_class (exp : List Nat) (fuel : Nat) :
    ∀ (last_emit : Nat) (s : CompileState),
      (atom_class exp fuel last_emit s).map toP1 = atom_class exp fuel last_emit (toP1 s) := by
  induction fuel with
  | zero => intro _ _; rfl
  | succ n ih =>
    intro last_emit s
    rw [atom_class, atom_class]
    simp only [Reg_Parse_toP1, Is_Case_Insensitive_toP1, Closed_Parens_toP1,
      Paren_Has_Width_toP1, Match_Newline_toP1, Total_Paren_toP1, Num_Braces_toP1,
      fold_Reg_Parse, emit_byte_toP1,
      emit_class_byte_toP1, emit_class_range_toP1, emit_bytes_toP1, shortcut_escape_toP1, ← ih,
      match_map_esc, escP1_fst, escP1_flag, escP1_state, ptrP1_eq_null, ne_eq]
    simp only [apply_ite (Except.map toP1), map_ok, map_error, map_match_esc]
    repeat' split
    all_goals rfl

theorem toP1_atom_literal_step (exp : List Nat) (s : CompileState) :
    (atom_literal_step exp s).map (Option.map toP1) = atom_literal_step exp (toP1 s) := by
  rw [atom_literal_step, atom_literal_step]
  simp only [Reg_Parse_toP1, Is_Case_Insensitive_toP1, Closed_Parens_toP1,
    Paren_Has_Width_toP1, Match_Newline_toP1, Total_Paren_toP1, Num_Braces_toP1,
    fold_Reg_Parse, emit_byte_toP1, shortcut_escape_toP1, back_ref_toP1,
    match_map_esc, escP1_fst, escP1_flag, escP1_state, ptrP1_eq_null, ne_eq]
  simp only [apply_ite (Except.map (Option.map toP1)), map_ok, map_error, map_match_esc,
    Option.map]
  repeat' split
  all_goals rfl

theorem atom_literal_step_toP1 (exp : List Nat) (s : CompileState) :
    atom_literal_step exp (toP1 s) = (atom_literal_step exp s).map (Option.map toP1) :=
  (toP1_atom_literal_step exp s).symm

theorem litP1_atom_literal (exp : List Nat) (fuel : Nat) :
    ∀ (len : Nat) (s : CompileState),
      (atom_literal exp fuel len s).map litP1 = atom_literal exp fuel len (toP1 s) := by
  induction fuel with
  | zero => intro _ _; rfl
  | succ n ih =>
    intro len s
    rw [atom_literal, atom_literal, atom_literal_step_toP1]
    simp only [Reg_Parse_toP1]
    cases atom_literal_step exp s with
    | error e => 
      simp only [map_error]
      split <;> rfl
    | ok o =>
      cases o with
      | none =>
        simp only [map_ok, Option.map]
        split <;> rfl
      | some cs1 =>
        simp only [map_ok, Option.map, Reg_Parse_toP1, ← ih]
        split
        · rfl
        · split
          · rcases cs1 with ⟨rp, cp, pw, ptr, sz, ci, mn, pr, tp, nb, hg⟩
            cases ptr <;> simp [litP1, toP1, ptrP1, emitted, Ptr.add, Except.map]
            omega
          · rfl

theorem atom_literal_toP1 (exp : List Nat) (fuel len : Nat) (s : CompileState) :
    atom_literal exp fuel len (toP1 s) = (atom_literal exp fuel len s).map litP1 :=
  (litP1_atom_literal exp fuel len s).symm

theorem atom_class_toP1 (exp : List Nat) (fuel last_emit : Nat) (s : CompileState) :
    atom_class exp fuel last_emit (toP1 s) = (atom_class exp fuel last_emit s).map toP1 :=
  (toP1_atom_class exp fuel last_emit s).symm

theorem emit_node_fst_toP1 (op : Nat) (s : CompileState) :
    (emit_node op (toP1 s)).1 = ptrP1 (emit_node op s).1 := (ptrP1_emit_node op s).symm

theorem resP1_mk (p : Ptr) (f : Nat) (r : len_range) (s : CompileState) :
    resP1 { ret_val := p, flag := f, range := r, cState := s }
      = { ret_val := ptrP1 p, flag := f, range := r, cState := toP1 s } := rfl

theorem resP1_atom_default (exp : List Nat) (flag : Nat) (s : CompileState) :
    (atom_default exp flag s).map resP1 = atom_default exp flag (toP1 s) := by
  rw [atom_default, atom_default]
  simp only [Is_Case_Insensitive_toP1, apply_ite Prod.fst, apply_ite Prod.snd,
    emit_node_toP1, emit_node_fst_toP1, ← apply_ite toP1, ← apply_ite ptrP1, atom_literal_toP1]
  cases atom_literal exp (exp.length + 1) 0
      (if s.Is_Case_Insensitive = true then (emit_node SIMILAR s).2
        else (emit_node EXACTLY s).2) with
  | error e => rfl
  | ok r =>
    rcases r with ⟨len, cs1⟩
    simp only [map_ok, litP1, emit_byte_toP1]
    split <;> rfl

theorem match_map_state {β : Type} (X : Except CompileError CompileState)
    (F : CompileState → Except CompileError β) :
    (match Except.map toP1 X with
      | Except.error e => Except.error e
      | Except.ok r => F r)
    = (match X with
      | Except.error e => Except.error e
      | Except.ok r => F (toP1 r)) := by
  cases X <;> rfl

theorem map_match_state {β γ : Type} (g : β → γ) (X : Except CompileError CompileState)
    (F : CompileState → Except CompileError β) :
    Except.map g (match X with
      | Except.error e => Except.error e
      | Except.ok r => F r)
    = (match X with
      | Except.error e => Except.error e
      | Except.ok r => Except.map g (F r)) := by
  cases X <;> rfl

theorem resP1_atom_bracket (exp : List Nat) (flag : Nat) (s : CompileState) :
    (atom_bracket exp flag s).map resP1 = atom_bracket exp flag (toP1 s) := by
  rw [atom_bracket, atom_bracket]
  simp only [Reg_Parse_toP1, Is_Case_Insensitive_toP1, Closed_Parens_toP1,
    Paren_Has_Width_toP1, Match_Newline_toP1, Total_Paren_toP1, Num_Braces_toP1,
    apply_ite Prod.fst, apply_ite Prod.snd, emit_node_toP1, emit_node_fst_toP1,
    fold_Reg_Parse, emit_byte_toP1, ← apply_ite toP1, ← apply_ite ptrP1, atom_class_toP1,
    match_map_state, map_match_state, apply_ite (Except.map resP1), map_ok, map_error,
    resP1_mk]

theorem openP1_mk (p : Ptr) (a b : Nat) (c : Bool) (q : Ptr) (s : CompileState) :
    openP1 (p, a, b, c, q, s) = (ptrP1 p, a, b, c, ptrP1 q, toP1 s) := rfl

theorem emit_special_fst_toP1 (op test_val index : Nat) (s : CompileState) :
    (emit_special op test_val index (toP1 s)).1 = ptrP1 (emit_special op 0 0 s).1 := by
  rw [ptrP1_emit_special]
  rcases s with ⟨rp, cp, pw, ptr, sz, ci, mn, pr, tp, nb, hg⟩
  cases ptr <;> simp only [emit_special, toP1, ptrP1, emitted, emit_node] <;>
    split_ifs <;> rfl

theorem openP1_chunk_open (paren : Nat) (s : CompileState) :
    (chunk_open paren s).map openP1 = chunk_open paren (toP1 s) := by
  rw [chunk_open, chunk_open]
  simp only [Reg_Parse_toP1, Is_Case_Insensitive_toP1, Closed_Parens_toP1,
    Paren_Has_Width_toP1, Match_Newline_toP1, Total_Paren_toP1, Num_Braces_toP1,
    fold_Total_Paren, fold_Is_Case_Insensitive, fold_Match_Newline,
    emit_node_toP1, emit_node_fst_toP1, emit_special_toP1, emit_special_fst_toP1,
    ← ptrP1_add, apply_ite (Except.map openP1), map_ok, map_error, openP1_mk, ptrP1_null]

theorem Reg_Parse_emit_node (op : Nat) (s : CompileState) :
    (emit_node op s).2.Reg_Parse = s.Reg_Parse := by
  by_cases h : s.Code_Emit_Ptr = Ptr.Compute_Size <;> simp [emit_node, h]

theorem Closed_Parens_emit_node (op : Nat) (s : CompileState) :
    (emit_node op s).2.Closed_Parens = s.Closed_Parens := by
  by_cases h : s.Code_Emit_Ptr = Ptr.Compute_Size <;> simp [emit_node, h]

theorem Paren_Has_Width_emit_node (op : Nat) (s : CompileState) :
    (emit_node op s).2.Paren_Has_Width = s.Paren_Has_Width := by
  by_cases h : s.Code_Emit_Ptr = Ptr.Compute_Size <;> simp [emit_node, h]

theorem Reg_Parse_tail (a b : Ptr) (s : CompileState) : (tail a b s).Reg_Parse = s.Reg_Parse := by
  rw [← Reg_Parse_toP1, toP1_tail]; rfl

theorem Closed_Parens_tail (a b : Ptr) (s : CompileState) :
    (tail a b s).Closed_Parens = s.Closed_Parens := by
  rw [← Closed_Parens_toP1, toP1_tail]; rfl

theorem Paren_Has_Width_tail (a b : Ptr) (s : CompileState) :
    (tail a b s).Paren_Has_Width = s.Paren_Has_Width := by
  rw [← Paren_Has_Width_toP1, toP1_tail]; rfl

theorem Reg_Parse_chunk_hook (e : Ptr) (n : Nat) (p : Ptr) (s : CompileState) :
    (chunk_hook e n p s).Reg_Parse = s.Reg_Parse := by
  rw [← Reg_Parse_toP1, toP1_chunk_hook]; rfl

theorem Closed_Parens_chunk_hook (e : Ptr) (n : Nat) (p : Ptr) (s : CompileState) :
    (chunk_hook e n p s).Closed_Parens = s.Closed_Parens := by
  rw [← Closed_Parens_toP1, toP1_chunk_hook]; rfl

theorem Paren_Has_Width_chunk_hook (e : Ptr) (n : Nat) (p : Ptr) (s : CompileState) :
    (chunk_hook e n p s).Paren_Has_Width = s.Paren_Has_Width := by
  rw [← Paren_Has_Width_toP1, toP1_chunk_hook]; rfl

theorem fold_program_nil (s : CompileState) :
    ({ Reg_Parse := s.Reg_Parse, Closed_Parens := s.Closed_Parens,
       Paren_Has_Width := s.Paren_Has_Width, Code_Emit_Ptr := (toP1 s).Code_Emit_Ptr,
       Reg_Size := (toP1 s).Reg_Size, Is_Case_Insensitive := s.Is_Case_Insensitive,
       Match_Newline := s.Match_Newline, program_ := [], Total_Paren := s.Total_Paren,
       Num_Braces := s.Num_Braces, hang := (toP1 s).hang } : CompileState) = toP1 s := rfl

theorem chunk_close_eq (exp : List Nat) (paren this_paren : Nat) (look_only : Bool)
    (elbb : Ptr) (os onl : Bool) (rv : Ptr) (flag : Nat) (range : len_range) (s : CompileState) :
    chunk_close exp paren this_paren look_only elbb os onl rv flag range s
      = chunk_close_rest exp paren this_paren look_only elbb os onl rv flag range
          (chunk_hook (close_node paren this_paren s).1
            ((tail rv (close_node paren this_paren s).1
              (close_node paren this_paren s).2).program_.length + 1) rv
            (tail rv (close_node paren this_paren s).1 (close_node paren this_paren s).2)) := rfl

theorem toP1_close_node (paren this_paren : Nat) (s : CompileState) :
    toP1 (close_node paren this_paren s).2 = (close_node paren this_paren (toP1 s)).2 := by
  unfold close_node
  split_ifs <;> exact toP1_emit_node _ _

theorem toP1_close_advance (paren : Nat) (s : CompileState) :
    toP1 (close_advance paren s) = close_advance paren (toP1 s) := by
  unfold close_advance
  split <;> rfl

theorem toP1_close_bounds (elbb : Ptr) (range : len_range) (s : CompileState) :
    toP1 (close_bounds elbb range s) = toP1 s := by
  unfold close_bounds
  split <;> rfl

theorem close_bounds_toP1 (elbb : Ptr) (range : len_range) (s : CompileState) :
    close_bounds elbb range (toP1 s) = toP1 s := by
  unfold close_bounds
  split
  · simp only [program_toP1, poke_nil]; rfl
  · rfl

theorem toP1_close_record (exp : List Nat) (paren this_paren flag : Nat) (s : CompileState) :
    toP1 (close_record exp paren this_paren flag s)
      = close_record exp paren this_paren flag (toP1 s) := by
  unfold close_record
  simp only [Reg_Parse_toP1]
  split_ifs <;> rfl

theorem resP1_chunk_close_rest (exp : List Nat) (paren this_paren : Nat) (look_only : Bool)
    (elbb : Ptr) (os onl : Bool) (rv : Ptr) (flag : Nat) (range : len_range)
    (s : CompileState) :
    (chunk_close_rest exp paren this_paren look_only elbb os onl rv flag range s).map resP1
      = chunk_close_rest exp paren this_paren look_only (ptrP1 elbb) os onl (ptrP1 rv) flag range
          (toP1 s) := by
  unfold chunk_close_rest
  have h : toP1 { close_record exp paren this_paren flag
                (close_bounds elbb range (close_advance paren s)) with
              Is_Case_Insensitive := os, Match_Newline := onl }
      = { close_record exp paren this_paren flag
                (close_bounds (ptrP1 elbb) range (close_advance paren (toP1 s))) with
              Is_Case_Insensitive := os, Match_Newline := onl } := by
    rw [toP1_modes, toP1_close_record, toP1_close_bounds, ← toP1_close_advance,
      close_bounds_toP1]
  rw [← h]
  simp only [Reg_Parse_toP1, ptrP1_eq_null, ne_eq]
  split_ifs <;> rfl

theorem resP1_chunk_close (exp : List Nat) (paren this_paren : Nat) (look_only : Bool)
    (elbb : Ptr) (os onl : Bool) (rv : Ptr) (flag : Nat) (range : len_range) (s : CompileState) :
    (chunk_close exp paren this_paren look_only elbb os onl rv flag range s).map resP1
      = chunk_close exp paren this_paren look_only (ptrP1 elbb) os onl (ptrP1 rv) flag range
          (toP1 s) := by
  rw [chunk_close_eq, chunk_close_eq, resP1_chunk_close_rest, toP1_chunk_hook, toP1_tail,
    ← toP1_close_node, tail_toP1, chunk_hook_toP1]

theorem chunk_open_toP1 (paren : Nat) (s : CompileState) :
    chunk_open paren (toP1 s) = (chunk_open paren s).map openP1 :=
  (openP1_chunk_open paren s).symm

theorem chunk_step (exp : List Nat) (n : Nat)
    (ih : ∀ (first : Bool) (rv : Ptr) (flag : Nat) (range : len_range) (s : CompileState),
      (chunk_loop exp n first rv flag range s).map resP1
        = chunk_loop exp n first (ptrP1 rv) flag range (toP1 s))
    (paren : Nat) (s : CompileState) :
    (chunk exp (n + 1) paren s).map resP1 = chunk exp (n + 1) paren (toP1 s) := by
  rw [chunk, chunk, chunk_open_toP1]
  cases chunk_open paren s with
  | error e => rfl
  | ok o =>
    rcases o with ⟨rv, tp, fl, lo, elbb, cs⟩
    simp only [map_ok, openP1_mk, ← ih]
    cases chunk_loop exp n true rv fl { lower := 0, upper := 0 } cs with
    | error e => rfl
    | ok r =>
      simp only [map_ok]
      exact resP1_chunk_close exp paren tp lo elbb _ _ r.ret_val r.flag r.range r.cState

theorem chunk_loop_step (exp : List Nat) (n : Nat)
    (iha : ∀ (s : CompileState), (alternative exp n s).map resP1 = alternative exp n (toP1 s))
    (ih : ∀ (first : Bool) (rv : Ptr) (flag : Nat) (range : len_range) (s : CompileState),
      (chunk_loop exp n first rv flag range s).map resP1
        = chunk_loop exp n first (ptrP1 rv) flag range (toP1 s))
    (first : Bool) (rv : Ptr) (flag : Nat) (range : len_range) (s : CompileState) :
    (chunk_loop exp (n + 1) first rv flag range s).map resP1
      = chunk_loop exp (n + 1) first (ptrP1 rv) flag range (toP1 s) := by
  rw [chunk_loop, chunk_loop, ← iha]
  cases alternative exp n s with
  | error e => rfl
  | ok b =>
    simp only [map_ok, resP1_ret_val, resP1_flag, resP1_range, resP1_cState, ptrP1_eq_null,
      ← apply_ite ptrP1, tail_toP1, Reg_Parse_toP1, Reg_Parse_tail]
    generalize (if first = true ∧ rv = Ptr.null then b.ret_val else rv) = rv1
    generalize (if b.flag &&& HAS_WIDTH = 0 then flag &&& 4294967294 else flag) = flag1
    generalize (if first = true then b.range
        else if range.lower ≥ 0 then
          if b.range.lower ≥ 0 then
            ({ lower := if b.range.lower < range.lower then b.range.lower else range.lower,
               upper := if b.range.upper > range.upper then b.range.upper else range.upper }
              : len_range)
          else { lower := -1, upper := -1 }
        else range) = range1
    by_cases h1 : b.ret_val = Ptr.null
    · rw [if_pos h1, if_pos h1]; rfl
    rw [if_neg h1, if_neg h1]
    by_cases h2 : charAt exp b.cState.Reg_Parse ≠ 124
    · rw [if_pos h2, if_pos h2, map_ok, resP1_mk, toP1_tail]
    rw [if_neg h2, if_neg h2, ih]
    congr 1
    exact (toP1_Reg_Parse _ _).trans (by rw [toP1_tail])

theorem alternative_step (exp : List Nat) (n : Nat)
    (ih : ∀ (chain : Ptr) (flag : Nat) (range : len_range) (s : CompileState),
      (alternative_loop exp n chain flag range s).map resP1
        = alternative_loop exp n (ptrP1 chain) flag range (toP1 s))
    (s : CompileState) :
    (alternative exp (n + 1) s).map resP1 = alternative exp (n + 1) (toP1 s) := by
  rw [alternative, alternative]
  have h := ih Ptr.null WORST { lower := 0, upper := 0 } (emit_node BRANCH s).2
  rw [toP1_emit_node, ptrP1_null] at h
  rw [← h]
  cases alternative_loop exp n Ptr.null WORST { lower := 0, upper := 0 } (emit_node BRANCH s).2 with
  | error e => rfl
  | ok r =>
    simp only [map_ok, resP1_ret_val, resP1_flag, resP1_range, resP1_cState, ptrP1_eq_null,
      emit_node_toP1, emit_node_fst_toP1]
    split <;> rfl

theorem alternative_loop_step (exp : List Nat) (n : Nat)
    (ihp : ∀ (s : CompileState), (piece exp n s).map resP1 = piece exp n (toP1 s))
    (ih : ∀ (chain : Ptr) (flag : Nat) (range : len_range) (s : CompileState),
      (alternative_loop exp n chain flag range s).map resP1
        = alternative_loop exp n (ptrP1 chain) flag range (toP1 s))
    (chain : Ptr) (flag : Nat) (range : len_range) (s : CompileState) :
    (alternative_loop exp (n + 1) chain flag range s).map resP1
      = alternative_loop exp (n + 1) (ptrP1 chain) flag range (toP1 s) := by
  rw [alternative_loop, alternative_loop, ← ihp]
  simp only [Reg_Parse_toP1]
  by_cases h0 : charAt exp s.Reg_Parse = 124 ∨ charAt exp s.Reg_Parse = 41
      ∨ charAt exp s.Reg_Parse = 0
  · rw [if_pos h0, if_pos h0]; rfl
  rw [if_neg h0, if_neg h0]
  cases piece exp n s with
  | error e => rfl
  | ok l =>
    simp only [map_ok, resP1_ret_val, resP1_flag, resP1_range, resP1_cState, ptrP1_eq_null,
      tail_toP1, ite_self, ne_eq]
    by_cases h1 : l.ret_val = Ptr.null
    · rw [if_pos h1, if_pos h1]; rfl
    rw [if_neg h1, if_neg h1, ih]
    congr 1
    split
    · rw [toP1_tail]
    · rfl

theorem piece_step (exp : List Nat) (n : Nat)
    (iha : ∀ (s : CompileState), (atom exp n s).map resP1 = atom exp n (toP1 s))
    (s : CompileState) :
    (piece exp (n + 1) s).map resP1 = piece exp (n + 1) (toP1 s) := by
  rw [piece, piece, ← iha]
  cases atom exp n s with
  | error e => rfl
  | ok a =>
    simp only [map_ok, resP1_ret_val, ptrP1_eq_null]
    by_cases h1 : a.ret_val = Ptr.null
    · rw [if_pos h1, if_pos h1]; rfl
    rw [if_neg h1, if_neg h1]
    exact resP1_piece_rest exp a

theorem atom_default_toP1 (exp : List Nat) (flag : Nat) (s : CompileState) :
    atom_default exp flag (toP1 s) = (atom_default exp flag s).map resP1 :=
  (resP1_atom_default exp flag s).symm

theorem atom_bracket_toP1 (exp : List Nat) (flag : Nat) (s : CompileState) :
    atom_bracket exp flag (toP1 s) = (atom_bracket exp flag s).map resP1 :=
  (resP1_atom_bracket exp flag s).symm

theorem match_map_res {β : Type} (X : Except CompileError Res)
    (F : Res → Except CompileError β) :
    (match Except.map resP1 X with
      | Except.error e => Except.error e
      | Except.ok r => F r)
    = (match X with
      | Except.error e => Except.error e
      | Except.ok r => F (resP1 r)) := by
  cases X <;> rfl

theorem map_match_res {β γ : Type} (g : β → γ) (X : Except CompileError Res)
    (F : Res → Except CompileError β) :
    Except.map g (match X with
      | Except.error e => Except.error e
      | Except.ok r => F r)
    = (match X with
      | Except.error e => Except.error e
      | Except.ok r => Except.map g (F r)) := by
  cases X <;> rfl

theorem atom_step (exp : List Nat) (n : Nat)
    (ihc : ∀ (paren : Nat) (s : CompileState),
      (chunk exp n paren s).map resP1 = chunk exp n paren (toP1 s))
    (s : CompileState) :
    (atom exp (n + 1) s).map resP1 = atom exp (n + 1) (toP1 s) := by
  rw [atom, atom, Reg_Parse_toP1]
  cases skip_comments exp (exp.length + 1) s.Reg_Parse with
  | error e => rfl
  | ok o =>
    rcases o with ⟨rp, b⟩
    cases b with
    | true =>
      simp only [map_ok, resP1_mk, Reg_Parse_toP1, Is_Case_Insensitive_toP1, Closed_Parens_toP1,
        Paren_Has_Width_toP1, Match_Newline_toP1, Total_Paren_toP1, Num_Braces_toP1,
        fold_Reg_Parse, emit_node_toP1, emit_node_fst_toP1]
    | false =>
      simp only [Reg_Parse_toP1, Is_Case_Insensitive_toP1, Closed_Parens_toP1,
        Paren_Has_Width_toP1, Match_Newline_toP1, Total_Paren_toP1, Num_Braces_toP1,
        fold_Reg_Parse, emit_node_toP1, emit_node_fst_toP1, apply_ite Prod.fst,
        apply_ite Prod.snd, ← apply_ite toP1, ← apply_ite ptrP1,
        atom_bracket_toP1, atom_default_toP1, shortcut_escape_toP1, back_ref_toP1, ← ihc,
        match_map_esc, match_map_res, escP1_fst, escP1_flag, escP1_state,
        resP1_ret_val, resP1_flag, resP1_range, resP1_cState, ptrP1_eq_null, ne_eq]
      simp only [apply_ite (Except.map resP1), map_ok, map_error, map_match_esc, map_match_res,
        resP1_mk, toP1_Reg_Parse]
      by_cases h1 : charAt exp rp = 94
      · rw [if_pos h1, if_pos h1]
      rw [if_neg h1, if_neg h1]
      by_cases h2 : charAt exp rp = 36
      · rw [if_pos h2, if_pos h2]
      rw [if_neg h2, if_neg h2]
      by_cases h3 : charAt exp rp = 60
      · rw [if_pos h3, if_pos h3]
      rw [if_neg h3, if_neg h3]
      by_cases h4 : charAt exp rp = 62
      · rw [if_pos h4, if_pos h4]
      rw [if_neg h4, if_neg h4]
      by_cases h5 : charAt exp rp = 46
      · rw [if_pos h5, if_pos h5]
      rw [if_neg h5, if_neg h5]
      by_cases h6 : charAt exp rp = 40
      · rw [if_pos h6, if_pos h6]
        cases atom_paren_kind exp (rp + 1) with
        | error e => rfl
        | ok p =>
          rcases p with ⟨kind, skip⟩
          simp only [map_match_res, apply_ite (Except.map resP1), map_ok, map_error, resP1_mk]
      rw [if_neg h6, if_neg h6]

/-- The grammar functions called on a state of the second pass do, unit for unit, what they do
on the state of the first pass that goes with it. -/
theorem grammar_toP1 (exp : List Nat) (fuel : Nat) :
    (∀ (paren : Nat) (s : CompileState),
      (chunk exp fuel paren s).map resP1 = chunk exp fuel paren (toP1 s))
    ∧ (∀ (first : Bool) (rv : Ptr) (flag : Nat) (range : len_range) (s : CompileState),
      (chunk_loop exp fuel first rv flag range s).map resP1
        = chunk_loop exp fuel first (ptrP1 rv) flag range (toP1 s))
    ∧ (∀ (s : CompileState), (alternative exp fuel s).map resP1 = alternative exp fuel (toP1 s))
    ∧ (∀ (chain : Ptr) (flag : Nat) (range : len_range) (s : CompileState),
      (alternative_loop exp fuel chain flag range s).map resP1
        = alternative_loop exp fuel (ptrP1 chain) flag range (toP1 s))
    ∧ (∀ (s : CompileState), (piece exp fuel s).map resP1 = piece exp fuel (toP1 s))
    ∧ (∀ (s : CompileState), (atom exp fuel s).map resP1 = atom exp fuel (toP1 s)) := by
  induction fuel with
  | zero =>
    refine ⟨?_, ?_, ?_, ?_, ?_, ?_⟩ <;> intros <;> rfl
  | succ n ih =>
    obtain ⟨ihc, ihl, iha, ihal, ihp, ihat⟩ := ih
    exact ⟨chunk_step exp n ihl, chunk_loop_step exp n iha ihl, alternative_step exp n ihal,
      alternative_loop_step exp n ihp ihal, piece_step exp n ihat, atom_step exp n ihc⟩

theorem resP1_compile_pass (exp : List Nat) (fuel : Nat) (s : CompileState) :
    (compile_pass exp fuel s).map resP1 = compile_pass exp fuel (toP1 s) := by
  unfold compile_pass
  rw [← toP1_emit_byte, ← toP1_emit_byte, ← toP1_emit_byte, ← (grammar_toP1 exp fuel).1]
  cases chunk exp fuel NO_PAREN (emit_byte 37 (emit_byte 37 (emit_byte MAGIC s))) with
  | error e => rfl
  | ok r =>
    simp only [map_ok, resP1_ret_val, ptrP1_eq_null]
    split <;> rfl

theorem toP1_pass_init (defaultFlags size : Nat) (program : List Nat) :
    toP1 (pass_init defaultFlags (Ptr.prog 0) size program)
      = pass_init defaultFlags Ptr.Compute_Size 0 [] := rfl

/-- The size that the first pass counts is the number of bytes that the second pass emits,
whatever buffer the second pass writes to. -/
theorem pass_sizes (exp : List Nat) (defaultFlags fuel size : Nat) (program : List Nat) :
    (compile_pass exp fuel (pass_init defaultFlags (Ptr.prog 0) size program)).map resP1
      = compile_pass exp fuel (pass_init defaultFlags Ptr.Compute_Size 0 []) := by
  rw [resP1_compile_pass, toP1_pass_init]

theorem Keeps.refl (s : CompileState) : Keeps s s := ⟨rfl, rfl, fun h => h⟩

theorem Keeps.trans {s t u : CompileState} (h1 : Keeps s t) (h2 : Keeps t u) : Keeps s u :=
  ⟨h2.1.trans h1.1, h2.2.1.trans h1.2.1, fun h => h2.2.2 (h1.2.2 h)⟩

theorem Keeps.of_sig_right {s t u : CompileState} (h : sig u = sig t) (h1 : Keeps s t) : Keeps s u := by
  unfold Keeps at *
  rw [h]
  exact h1

theorem isProg_add (p : Ptr) (k : Int) : isProg (p.add k) = isProg p := by
  cases p <;> rfl

theorem length_poke (program : List Nat) (p : Ptr) (v : Nat) :
    (poke program p v).length = program.length := by
  cases p <;> simp [poke]

theorem length_insert_move (pos : Ptr) (size n : Nat) :
    ∀ program : List Nat, (insert_move pos size n program).length = program.length := by
  induction n with
  | zero => intro _; rfl
  | succ n ih => intro program; simp [insert_move, ih, length_poke]

theorem sig_emit_byte (c : Nat) (s : CompileState) : sig (emit_byte c s) = sig s := by
  unfold emit_byte sig
  split <;> simp [isProg_add, length_poke]

theorem sig_emit_class_byte (c : Nat) (s : CompileState) :
    sig (emit_class_byte c s) = sig s := by
  unfold emit_class_byte sig
  split_ifs <;> simp [isProg_add, length_poke]

theorem sig_emit_node (op : Nat) (s : CompileState) : sig (emit_node op s).2 = sig s := by
  by_cases h : s.Code_Emit_Ptr = Ptr.Compute_Size <;>
    simp [emit_node, sig, h, isProg_add, length_poke]

theorem sig_emit_special (op test_val index : Nat) (s : CompileState) :
    sig (emit_special op test_val index s).2 = sig s := by
  have h := sig_emit_node op s
  unfold sig at h
  simp only [Prod.mk.injEq] at h
  unfold emit_special
  split_ifs <;> first | rfl | exact sig_emit_node op s |
    simp only [sig, isProg_add, length_poke, h]

theorem sig_insert (op : Nat) (pos : Ptr) (min max index : Nat) (s : CompileState) :
    sig (insert op pos min max index s).2 = sig s := by
  by_cases h : s.Code_Emit_Ptr = Ptr.Compute_Size
  · simp [insert, sig, h]
  · by_cases h1 : op = BRACE ∨ op = LAZY_BRACE
    · simp [insert, sig, h, h1, isProg_add, length_poke, length_insert_move]
    · by_cases h2 : op = INIT_COUNT <;>
        simp [insert, sig, h, h1, h2, isProg_add, length_poke, length_insert_move]

theorem sig_tail (a b : Ptr) (s : CompileState) : sig (tail a b s) = sig s := by
  unfold tail
  split
  · rfl
  · split
    · rfl
    · simp [sig, length_poke]

theorem sig_offset_tail (p : Ptr) (k : Int) (v : Ptr) (s : CompileState) :
    sig (offset_tail p k v s) = sig s := by
  unfold offset_tail
  split
  · rfl
  · exact sig_tail _ _ _

theorem sig_branch_tail (p : Ptr) (k : Int) (v : Ptr) (s : CompileState) :
    sig (branch_tail p k v s) = sig s := by
  unfold branch_tail
  split
  · rfl
  · exact sig_tail _ _ _

theorem sig_chunk_hook (ender : Ptr) (fuel : Nat) :
    ∀ (p : Ptr) (s : CompileState), sig (chunk_hook ender fuel p s) = sig s := by
  induction fuel with
  | zero =>
    intro p s
    unfold chunk_hook
    split <;> rfl
  | succ n ih =>
    intro p s
    unfold chunk_hook
    split
    · rfl
    · rw [ih, sig_branch_tail]

theorem sig_emit_bytes (cs : List Nat) : ∀ s : CompileState, sig (emit_bytes cs s) = sig s := by
  induction cs with
  | nil => intro s; rfl
  | cons c cs ih => intro s; rw [emit_bytes, ih, sig_emit_byte]

theorem sig_emit_class_range (n : Nat) :
    ∀ (v : Nat) (s : CompileState), sig (emit_class_range n v s) = sig s := by
  induction n with
  | zero => intro v s; rfl
  | succ n ih => intro v s; rw [emit_class_range, ih, sig_emit_class_byte]

theorem sig_piece_emit_loop (op : Nat) (lazy : Bool) (rv : Ptr) (s : CompileState) :
    sig (piece_emit_loop op lazy rv s) = sig s := by
  unfold piece_emit_loop
  split_ifs <;>
    simp only [sig_tail, sig_offset_tail, sig_emit_node, sig_insert]

theorem sig_Num_Braces (s : CompileState) (n : Nat) :
    sig { s with Num_Braces := n } = sig s := rfl

theorem sig_Reg_Parse (s : CompileState) (n : Nat) :
    sig { s with Reg_Parse := n } = sig s := rfl

theorem sig_piece_emit_brace (lazy : Bool) (min max : Nat) (rv : Ptr) (s : CompileState) :
    sig (piece_emit_brace lazy min max rv s) = sig s := by
  unfold piece_emit_brace
  refine (sig_Num_Braces _ _).trans ?_
  split_ifs <;>
    simp only [sig_tail, sig_offset_tail, sig_emit_node, sig_insert, sig_emit_special]

theorem OkAll.ok {α : Type} {P : α → Prop} {a : α} (h : P a) :
    OkAll P (Except.ok a : Except CompileError α) := by
  intro b hb
  cases hb
  exact h

theorem OkAll.error {α : Type} {P : α → Prop} {e : CompileError} :
    OkAll P (Except.error e : Except CompileError α) := by
  intro b hb
  cases hb

theorem OkAll.ite {α : Type} {P : α → Prop} {c : Prop} [Decidable c]
    {x y : Except CompileError α} (hx : c → OkAll P x) (hy : ¬ c → OkAll P y) :
    OkAll P (if c then x else y) := by
  split
  · exact hx ‹_›
  · exact hy ‹_›

theorem sig_ite {c : Prop} [Decidable c] (a b : CompileState) (σ : Bool × Nat × Nat)
    (ha : sig a = σ) (hb : sig b = σ) : sig (if c then a else b) = σ := by
  split <;> assumption

theorem sig_shortcut_escape (c flag emitType : Nat) (s : CompileState) :
    OkAll (fun r => sig r.2.2 = sig s) (shortcut_escape c flag emitType s) := by
  unfold shortcut_escape
  generalize (if emitType = EMIT_CLASS_BYTES ∨ emitType = CHECK_CLASS_ESCAPE then
      shortcut_codes.drop 3 else shortcut_codes) = valid
  simp only []
  repeat' apply OkAll.ite <;> intro _
  all_goals first | exact OkAll.error | apply OkAll.ok
  all_goals simp only [apply_ite Prod.snd, apply_ite sig, sig_emit_bytes, sig_emit_byte,
    sig_emit_node, ite_self]

theorem sig_back_ref (c flag emitType : Nat) (s : CompileState) :
    OkAll (fun r => sig r.2.2 = sig s) (back_ref c flag emitType s) := by
  unfold back_ref
  simp only []
  repeat' apply OkAll.ite <;> intro _
  all_goals first | exact OkAll.error | apply OkAll.ok
  all_goals simp only [apply_ite Prod.snd, apply_ite sig, sig_emit_bytes, sig_emit_byte,
    sig_emit_node, ite_self]

theorem OkAll.of_sig {α : Type} {f : α → CompileState} {s t : CompileState}
    {x : Except CompileError α} (h : sig t = sig s) (hx : OkAll (fun r => sig (f r) = sig t) x) :
    OkAll (fun r => sig (f r) = sig s) x := by
  rw [h] at hx
  exact hx

set_option maxRecDepth 4000 in
theorem sig_atom_class (exp : List Nat) (fuel : Nat) :
    ∀ (last_emit : Nat) (s : CompileState),
      OkAll (fun r => sig r = sig s) (atom_class exp fuel last_emit s) := by
  induction fuel with
  | zero => intro _ _; exact OkAll.error
  | succ n ih =>
    intro last_emit s
    rw [atom_class]
    simp only []
    repeat' first
      | exact OkAll.error
      | apply OkAll.ite <;> intro _
      | split
    all_goals first
      | exact OkAll.ok rfl
      | (apply OkAll.of_sig (f := fun r => r) _ (ih _ _)
         simp only [sig_emit_byte, sig_emit_class_byte, sig_emit_class_range, sig_Reg_Parse])
    rename_i h
    have h2 := sig_shortcut_escape _ _ _ _ _ h
    exact h2

theorem sig_atom_literal_step (exp : List Nat) (s : CompileState) :
    OkAll (fun o => ∀ t, o = some t → sig t = sig s) (atom_literal_step exp s) := by
  rw [atom_literal_step]
  simp only []
  repeat' first
    | exact OkAll.error
    | apply OkAll.ite <;> intro _
    | split
  all_goals first
    | (apply OkAll.ok
       intro t ht
       cases ht <;> simp only [sig_emit_byte, sig_Reg_Parse])

theorem sig_back_out (s : CompileState) (rp : Nat) :
    sig (if s.Code_Emit_Ptr = Ptr.Compute_Size then
          { s with Reg_Parse := rp, Reg_Size := s.Reg_Size - 1 }
        else { s with Reg_Parse := rp, Code_Emit_Ptr := s.Code_Emit_Ptr.add (-1) }) = sig s := by
  split
  · rfl
  · simp only [sig, isProg_add]

theorem sig_atom_literal (exp : List Nat) (fuel : Nat) :
    ∀ (len : Nat) (s : CompileState),
      OkAll (fun r => sig r.2 = sig s) (atom_literal exp fuel len s) := by
  induction fuel with
  | zero => intro _ _; exact OkAll.error
  | succ n ih =>
    intro len s
    rw [atom_literal]
    apply OkAll.ite <;> intro _
    · exact OkAll.ok rfl
    have hstep := sig_atom_literal_step exp s
    cases hs : atom_literal_step exp s with
    | error e => exact OkAll.error
    | ok o =>
      cases o with
      | none => exact OkAll.ok rfl
      | some cs1 =>
        have h1 : sig cs1 = sig s := hstep _ hs cs1 rfl
        simp only []
        apply OkAll.ite <;> intro _
        · apply OkAll.ite <;> intro hc
          · exact OkAll.ok h1
          · apply OkAll.ok
            simp only [sig, isProg_add]
            exact h1
        · exact OkAll.of_sig (f := fun (r : Nat × CompileState) => r.2) h1 (ih _ _)

theorem sig_atom_default (exp : List Nat) (flag : Nat) (s : CompileState) :
    OkAll (fun r => sig r.cState = sig s) (atom_default exp flag s) := by
  rw [atom_default]
  have hl := sig_atom_literal exp (exp.length + 1) 0
    (if s.Is_Case_Insensitive = true then emit_node SIMILAR s else emit_node EXACTLY s).2
  have h0 : sig (if s.Is_Case_Insensitive = true then emit_node SIMILAR s
      else emit_node EXACTLY s).2 = sig s := by
    split <;> exact sig_emit_node _ _
  cases hs : atom_literal exp (exp.length + 1) 0
    (if s.Is_Case_Insensitive = true then emit_node SIMILAR s else emit_node EXACTLY s).2 with
  | error e => exact OkAll.error
  | ok r =>
    rcases r with ⟨len, cs1⟩
    have h1 : sig cs1 = sig s := (hl _ hs).trans h0
    simp only []
    apply OkAll.ite <;> intro _
    · exact OkAll.error
    · apply OkAll.ok
      simp only [sig_emit_byte]
      exact h1

theorem sig_atom_bracket (exp : List Nat) (flag : Nat) (s : CompileState) :
    OkAll (fun r => sig r.cState = sig s) (atom_bracket exp flag s) := by
  rw [atom_bracket]
  simp only []
  split
  · exact OkAll.error
  · rename_i cs2 h
    have h2 := sig_atom_class _ _ _ _ _ h
    apply OkAll.ite <;> intro _
    · exact OkAll.error
    · apply OkAll.ok
      simp only [sig_Reg_Parse, sig_emit_byte, h2, apply_ite Prod.snd, apply_ite sig,
        sig_emit_node, ite_self]

theorem sig_piece_emit (op : Nat) (lazy : Bool) (fl min max : Nat) (rv : Ptr)
    (s : CompileState) :
    OkAll (fun r => sig r = sig s) (piece_emit op lazy fl min max rv s) := by
  unfold piece_emit
  repeat' apply OkAll.ite <;> intro _
  all_goals first | exact OkAll.error | apply OkAll.ok
  all_goals simp only [sig_insert, sig_piece_emit_loop, sig_piece_emit_brace]

theorem sig_piece_rest (exp : List Nat) (a : Res) :
    OkAll (fun r => sig r.cState = sig a.cState) (piece_rest exp a) := by
  unfold piece_rest
  simp only []
  apply OkAll.ite <;> intro _
  · exact OkAll.ok rfl
  split
  · exact OkAll.error
  · apply OkAll.ite <;> intro _
    · exact OkAll.ok rfl
    apply OkAll.ite <;> intro _
    · exact OkAll.error
    apply OkAll.ite <;> intro _
    · exact OkAll.error
    split
    · exact OkAll.error
    · rename_i cs1 h
      have h2 := sig_piece_emit _ _ _ _ _ _ _ _ h
      apply OkAll.ite <;> intro _
      · exact OkAll.error
      · exact OkAll.ok h2

theorem Keeps.of_sig_eq {s t : CompileState} (h : sig t = sig s) : Keeps s t := by
  unfold Keeps
  rw [h]
  exact ⟨rfl, rfl, fun h => h⟩

theorem Keeps_chunk_open (paren : Nat) (s : CompileState) :
    OkAll (fun r => Keeps s r.2.2.2.2.2) (chunk_open paren s) := by
  unfold chunk_open
  apply OkAll.ite <;> intro _
  · apply OkAll.ite <;> intro h
    · exact OkAll.error
    · apply OkAll.ok
      have h1 := sig_emit_node (OPEN + s.Total_Paren) { s with Total_Paren := s.Total_Paren + 1 }
      unfold sig at h1
      simp only [Prod.mk.injEq] at h1
      refine ⟨h1.1, h1.2.1, fun _ => ?_⟩
      show (emit_node _ _).2.Total_Paren ≤ NSUBEXP
      rw [h1.2.2]
      simp only [NSUBEXP, ge_iff_le, not_le] at h ⊢
      omega
  repeat' apply OkAll.ite <;> intro _
  all_goals apply OkAll.ok
  all_goals apply Keeps.of_sig_eq
  all_goals first | exact sig_emit_node _ _ | exact sig_emit_special _ _ _ _ | rfl

theorem sig_close_node (paren this_paren : Nat) (s : CompileState) :
    sig (close_node paren this_paren s).2 = sig s := by
  unfold close_node
  split_ifs <;> exact sig_emit_node _ _

theorem sig_close_advance (paren : Nat) (s : CompileState) :
    sig (close_advance paren s) = sig s := by
  unfold close_advance
  split <;> rfl

theorem sig_close_bounds (elbb : Ptr) (range : len_range) (s : CompileState) :
    sig (close_bounds elbb range s) = sig s := by
  unfold close_bounds
  split
  · simp only [sig, length_poke]
  · rfl

theorem sig_close_record (exp : List Nat) (paren this_paren flag : Nat) (s : CompileState) :
    sig (close_record exp paren this_paren flag s) = sig s := by
  unfold close_record
  simp only []
  split_ifs <;> rfl

theorem sig_modes (s : CompileState) (a b : Bool) :
    sig { s with Is_Case_Insensitive := a, Match_Newline := b } = sig s := rfl

theorem sig_chunk_close (exp : List Nat) (paren this_paren : Nat) (look_only : Bool)
    (elbb : Ptr) (os onl : Bool) (rv : Ptr) (flag : Nat) (range : len_range) (s : CompileState) :
    OkAll (fun r => sig r.cState = sig s)
      (chunk_close exp paren this_paren look_only elbb os onl rv flag range s) := by
  rw [chunk_close_eq]
  unfold chunk_close_rest
  repeat' apply OkAll.ite <;> intro _
  all_goals first | exact OkAll.error | apply OkAll.ok
  exact (sig_modes _ _ _).trans (by
    rw [sig_close_record, sig_close_bounds, sig_close_advance, sig_chunk_hook, sig_tail,
      sig_close_node])

theorem Keeps.sig_left {s t u : CompileState} (h : sig t = sig s) (h1 : Keeps t u) :
    Keeps s u := by
  unfold Keeps at *
  rw [← h]
  exact h1

/-- The grammar functions keep the kind of the emit pointer, the length of the buffer and the
bound on the count of parentheses. -/
theorem grammar_Keeps (exp : List Nat) (fuel : Nat) :
    (∀ (paren : Nat) (s : CompileState),
      OkAll (fun r => Keeps s r.cState) (chunk exp fuel paren s))
    ∧ (∀ (first : Bool) (rv : Ptr) (flag : Nat) (range : len_range) (s : CompileState),
      OkAll (fun r => Keeps s r.cState) (chunk_loop exp fuel first rv flag range s))
    ∧ (∀ (s : CompileState), OkAll (fun r => Keeps s r.cState) (alternative exp fuel s))
    ∧ (∀ (chain : Ptr) (flag : Nat) (range : len_range) (s : CompileState),
      OkAll (fun r => Keeps s r.cState) (alternative_loop exp fuel chain flag range s))
    ∧ (∀ (s : CompileState), OkAll (fun r => Keeps s r.cState) (piece exp fuel s))
    ∧ (∀ (s : CompileState), OkAll (fun r => Keeps s r.cState) (atom exp fuel s)) := by
  induction fuel with
  | zero =>
    refine ⟨?_, ?_, ?_, ?_, ?_, ?_⟩ <;> intros <;> exact OkAll.error
  | succ n ih =>
    obtain ⟨ihc, ihl, iha, ihal, ihp, ihat⟩ := ih
    refine ⟨?_, ?_, ?_, ?_, ?_, ?_⟩
    · intro paren s
      rw [chunk]
      split
      · exact OkAll.error
      · rename_i rv tp fl lo elbb cs h
        have h1 : Keeps s cs := Keeps_chunk_open _ _ _ h
        split
        · exact OkAll.error
        · rename_i r h2
          have h3 : Keeps cs r.cState := ihl _ _ _ _ _ _ h2
          intro r4 h4
          exact (h1.trans h3).trans (Keeps.of_sig_eq (sig_chunk_close _ _ _ _ _ _ _ _ _ _ _ _ h4))
    · intro first rv flag range s
      rw [chunk_loop]
      split
      · exact OkAll.error
      · rename_i b h
        have h1 : Keeps s b.cState := iha _ _ h
        try simp only []
        apply OkAll.ite <;> intro _
        · exact OkAll.error
        apply OkAll.ite <;> intro _
        · apply OkAll.ok
          exact h1.trans (Keeps.of_sig_eq (sig_tail _ _ _))
        · intro r4 h4
          refine h1.trans (Keeps.sig_left ?_ (ihl _ _ _ _ _ _ h4))
          exact (sig_Reg_Parse _ _).trans (sig_tail _ _ _)
    · intro s
      rw [alternative]
      try simp only []
      split
      · exact OkAll.error
      · rename_i r h
        have h1 : Keeps s r.cState := Keeps.sig_left (sig_emit_node _ _) (ihal _ _ _ _ _ h)
        apply OkAll.ite <;> intro _
        · apply OkAll.ok
          exact h1.trans (Keeps.of_sig_eq (sig_emit_node _ _))
        · exact OkAll.ok h1
    · intro chain flag range s
      rw [alternative_loop]
      try simp only []
      apply OkAll.ite <;> intro _
      · exact OkAll.ok (Keeps.refl _)
      split
      · exact OkAll.error
      · rename_i l h
        have h1 : Keeps s l.cState := ihp _ _ h
        apply OkAll.ite <;> intro _
        · exact OkAll.error
        · intro r4 h4
          refine h1.trans (Keeps.sig_left ?_ (ihal _ _ _ _ _ h4))
          split
          · exact sig_tail _ _ _
          · rfl
    · intro s
      rw [piece]
      split
      · exact OkAll.error
      · rename_i a h
        have h1 : Keeps s a.cState := ihat _ _ h
        apply OkAll.ite <;> intro _
        · exact OkAll.error
        · intro r4 h4
          exact h1.trans (Keeps.of_sig_eq (sig_piece_rest _ _ _ h4))
    · intro s
      rw [atom]
      split
      · exact OkAll.error
      · apply OkAll.ok
        exact Keeps.of_sig_eq (sig_emit_node _ _)
      · rename_i rp h
        try simp only []
        repeat' first
          | exact OkAll.error
          | apply OkAll.ite <;> intro _
        all_goals first
          | (apply OkAll.ok
             apply Keeps.of_sig_eq
             simp only [apply_ite Prod.snd, apply_ite sig, sig_emit_node, sig_Reg_Parse, ite_self])
          | skip
        · split
          · exact OkAll.error
          · rename_i kind skip h1
            split
            · exact OkAll.error
            · rename_i r h2
              have h3' := ihc _ _ _ h2
              have h3 : Keeps s r.cState := Keeps.sig_left rfl h3'
              apply OkAll.ite <;> intro _
              · exact OkAll.error
              · exact OkAll.ok h3
        · intro r4 h4
          have h5 := sig_atom_bracket _ _ _ _ h4
          exact Keeps.of_sig_eq h5
        · split
          · exact OkAll.error
          · rename_i s1 h1
            have h2 := sig_shortcut_escape _ _ _ _ _ h1
            apply OkAll.ite <;> intro _
            · exact OkAll.ok (Keeps.of_sig_eq h2)
            split
            · exact OkAll.error
            · rename_i b1 h3
              have h4 := sig_back_ref _ _ _ _ _ h3
              apply OkAll.ite <;> intro _
              · exact OkAll.ok (Keeps.of_sig_eq h4)
              · intro r4 h5
                have h6 := sig_atom_default _ _ _ _ h5
                exact Keeps.of_sig_eq h6
        · intro r4 h4
          have h5 := sig_atom_default _ _ _ _ h4
          exact Keeps.of_sig_eq h5

theorem Keeps_compile_pass (exp : List Nat) (fuel : Nat) (s : CompileState) :
    OkAll (fun r => Keeps s r.cState) (compile_pass exp fuel s) := by
  unfold compile_pass
  split
  · exact OkAll.error
  · rename_i r h
    have h1 := (grammar_Keeps exp fuel).1 _ _ _ h
    apply OkAll.ite <;> intro _
    · exact OkAll.error
    · apply OkAll.ok
      refine Keeps.sig_left ?_ h1
      rw [sig_emit_byte, sig_emit_byte, sig_emit_byte]

/-- The two passes of the constructor on one regex: when the first pass returns, the second
pass, run from the start of any buffer, returns too, with the same flags, ranges and counts;
it has emitted as many bytes as the first pass has counted units, and the buffer has kept
its length. -/
theorem two_passes (exp : List Nat) (defaultFlags fuel size : Nat) (program : List Nat)
    (r1 : Res)
    (h1 : compile_pass exp fuel (pass_init defaultFlags Ptr.Compute_Size 0 []) = .ok r1) :
    ∃ r2, compile_pass exp fuel (pass_init defaultFlags (Ptr.prog 0) size program) = .ok r2
      ∧ resP1 r2 = r1
      ∧ r2.cState.Code_Emit_Ptr = Ptr.prog r1.cState.Reg_Size
      ∧ r2.cState.program_.length = program.length
      ∧ (r2.cState.Total_Paren ≤ NSUBEXP) := by
  have h := pass_sizes exp defaultFlags fuel size program
  rw [h1] at h
  cases h2 : compile_pass exp fuel (pass_init defaultFlags (Ptr.prog 0) size program) with
  | error e => rw [h2] at h; cases h
  | ok r2 =>
    rw [h2] at h
    have h3 : resP1 r2 = r1 := by
      simp only [map_ok] at h
      exact Except.ok.inj h
    have hk := Keeps_compile_pass exp fuel _ _ h2
    obtain ⟨k1, k2, k3⟩ := hk
    refine ⟨r2, rfl, h3, ?_, k2, k3 (by show 1 ≤ 50; omega)⟩
    have hp : isProg r2.cState.Code_Emit_Ptr = true := k1
    subst h3
    revert hp
    rcases r2 with ⟨rv, fl, rg, ⟨rp, cp, pw, ptr, sz, ci, mn, pr, tp, nb, hg⟩⟩
    cases ptr <;> simp [isProg, resP1, toP1, emitted]

/-! ### Limits of the constructor and the storage of a search -/

theorem CompileRE_passes (exp : List Nat) (defaultFlags : Nat) (re : Regex)
    (h : CompileRE exp defaultFlags = .ok re) :
    ∃ r1 r2, first_pass exp defaultFlags = .ok r1
      ∧ r1.cState.Reg_Size < MAX_COMPILED_SIZE
      ∧ second_pass exp defaultFlags r1.cState.Reg_Size = .ok r2
      ∧ re.program_.length = r2.cState.program_.length
      ∧ re.Total_Paren = r2.cState.Total_Paren
      ∧ re.Num_Braces = r2.cState.Num_Braces
      ∧ re.program_.getD 2 0 = (if 2 < r2.cState.program_.length then r2.cState.Num_Braces % 256
          else 0) := by
  unfold CompileRE at h
  unfold first_pass second_pass
  cases h1 : compile_pass exp (compile_fuel exp) (pass_init defaultFlags Ptr.Compute_Size 0 []) with
  | error e => rw [h1] at h; cases h
  | ok r1 =>
    rw [h1] at h
    simp only [] at h
    by_cases hs : r1.cState.Reg_Size ≥ MAX_COMPILED_SIZE
    · rw [if_pos hs] at h; cases h
    · rw [if_neg hs] at h
      cases h2 : compile_pass exp (compile_fuel exp)
          (pass_init defaultFlags (Ptr.prog 0) r1.cState.Reg_Size
            (List.replicate (r1.cState.Reg_Size + 1) 0)) with
      | error e => rw [h2] at h; cases h
      | ok r2 =>
        rw [h2] at h
        simp only [] at h
        by_cases hh : r2.cState.hang = true
        · rw [if_pos hh] at h; cases h
        · rw [if_neg hh] at h
          have h3 := Except.ok.inj h
          subst h3
          refine ⟨r1, r2, rfl, by omega, h2, by simp, rfl, rfl, ?_⟩
          by_cases hl : 2 < r2.cState.program_.length <;>
            simp [List.getD_eq_getElem?_getD, List.getElem?_set, hl]

/-- C8: the regex `(?:b|(a))\1` is compiled to one program, but its search of `bb` depends
on what the storage of the local `ExecState` of `ExecRE` holds, which nothing initializes:
with null back-reference pointers there is no match, and with the pointers of an earlier
search (start and end of back-reference 1 at offset 0) the search matches [0,1). -/
theorem C8_uninitialised_back_reference :
    outcome (execute_on fresh_mem (bytes "(?:b|(a))\\1") 200 (bytes "bb"))
        = .ok (some (false, [none, none, none, none]))
      ∧ outcome (execute_on stale_mem (bytes "(?:b|(a))\\1") 200 (bytes "bb"))
        = .ok (some (true, [some 0, some 1, none, none])) := by
  constructor <;> decide!

/-- C9: the regex `a`: the first pass counts 14 units, the buffer of the second pass has 15
units and the second pass emits 14 bytes, so that the last unit of the buffer is not
written. -/
theorem C9_buffer_not_filled :
    ∃ r1 r2, first_pass (bytes "a") 0 = .ok r1 ∧ r1.cState.Reg_Size = 14
      ∧ second_pass (bytes "a") 0 r1.cState.Reg_Size = .ok r2
      ∧ r2.cState.Code_Emit_Ptr = Ptr.prog 14
      ∧ r2.cState.program_.length = 15 := by
  refine ⟨_, _, (by decide! : first_pass (bytes "a") 0 = .ok
      { ret_val := Ptr.Compute_Size, flag := 1, range := { lower := 1, upper := 1 },
        cState := { pass_init 0 Ptr.Compute_Size 14 [] with Reg_Parse := 1 } }), rfl,
    (by decide! : second_pass (bytes "a") 0 14 = .ok
      { ret_val := Ptr.prog 3, flag := 1, range := { lower := 1, upper := 1 },
        cState := { pass_init 0 (Ptr.prog 14) 14 [156, 37, 37, 34, 0, 8, 7, 0, 5, 97, 0, 1, 0, 0, 0]
                    with Reg_Parse := 1 } }), rfl, rfl⟩

/-- C9 (amended): when the first pass returns with the size `n`, the second pass, run on the
buffer of `n + 1` units that the constructor allocates, returns too, with the same flag and
range; it has emitted exactly `n` bytes, one less than the buffer holds, and the buffer has
kept its length. -/
theorem C9_pass_sizes (exp : List Nat) (defaultFlags : Nat) (r1 : Res)
    (h : first_pass exp defaultFlags = .ok r1) :
    ∃ r2, second_pass exp defaultFlags r1.cState.Reg_Size = .ok r2
      ∧ r2.cState.Code_Emit_Ptr = Ptr.prog r1.cState.Reg_Size
      ∧ r2.cState.program_.length = r1.cState.Reg_Size + 1
      ∧ r2.flag = r1.flag ∧ r2.range = r1.range
      ∧ r2.cState.Reg_Parse = r1.cState.Reg_Parse := by
  obtain ⟨r2, h2, h3, h4, h5, _⟩ := two_passes exp defaultFlags (compile_fuel exp)
    r1.cState.Reg_Size (List.replicate (r1.cState.Reg_Size + 1) 0) r1 h
  refine ⟨r2, h2, h4, by rw [h5, List.length_replicate], ?_, ?_, ?_⟩ <;>
    (subst h3; rfl)

theorem C9_pass_sizes_witness :
    ∃ r2, second_pass (bytes "[a-c]x*") 1 27 = .ok r2
      ∧ r2.cState.Code_Emit_Ptr = Ptr.prog 27 ∧ r2.cState.program_.length = 28 := by
  have h : first_pass (bytes "[a-c]x*") 1 = .ok
      { ret_val := Ptr.Compute_Size, flag := 1, range := { lower := -1, upper := -1 },
        cState := { pass_init 1 Ptr.Compute_Size 27 [] with Reg_Parse := 7 } } := by
    decide!
  obtain ⟨r2, k1, k2, k3, _⟩ := C9_pass_sizes (bytes "[a-c]x*") 1 _ h
  exact ⟨r2, k1, k2, k3⟩

/-- C10: the program of a compiled regex has at most 32767 units, and the constructor fails
with the error on the size, before the second pass, for every regex whose first pass counts
32767 units or more. -/
theorem C10_size_limit (exp : List Nat) (defaultFlags : Nat) (re : Regex)
    (h : CompileRE exp defaultFlags = .ok re) :
    re.program_.length ≤ 32767
      ∧ (∀ e f r1, first_pass e f = .ok r1 → MAX_COMPILED_SIZE ≤ r1.cState.Reg_Size →
          CompileRE e f = .error .regexp_too_big) := by
  constructor
  · obtain ⟨r1, r2, h1, hs, h2, h3, _⟩ := CompileRE_passes exp defaultFlags re h
    obtain ⟨r2', h4, _, _, h5, _⟩ := two_passes exp defaultFlags (compile_fuel exp)
      r1.cState.Reg_Size (List.replicate (r1.cState.Reg_Size + 1) 0) r1 h1
    unfold second_pass at h2
    rw [h2] at h4
    cases h4
    rw [h3, h5, List.length_replicate]
    have : MAX_COMPILED_SIZE = 32767 := rfl
    omega
  · intro e f r1 h1 hs
    unfold first_pass at h1
    unfold CompileRE
    rw [h1]
    simp only []
    rw [if_pos hs]

theorem C10_size_limit_witness :
    ∃ re, CompileRE (bytes "a") 0 = .ok re ∧ re.program_.length = 15
      ∧ re.program_.length ≤ 32767 := by
  have h : CompileRE (bytes "a") 0
      = .ok { program_ := [156, 0, 0, 34, 0, 8, 7, 0, 5, 97, 0, 1, 0, 0, 0],
              match_start_ := 97, anchor_ := 0, Total_Paren := 1, Num_Braces := 0 } := by
    decide!
  exact ⟨_, h, rfl, (C10_size_limit (bytes "a") 0 _ h).1⟩

/-! ### The count of brace constructs -/

theorem skip_comments_plain (exp : List Nat) (rp : Nat) (h : charAt exp rp ≠ 40) :
    skip_comments exp (exp.length + 1) rp = .ok (rp, false) := by
  rw [skip_comments, if_neg (fun hc => h hc.1)]

theorem atom_fuel (exp : List Nat) (F : Nat) (s : CompileState)
    (h : charAt exp s.Reg_Parse ≠ 40) : atom exp (F + 1) s = atom exp 1 s := by
  rw [atom, atom, skip_comments_plain exp _ h]
  simp only []
  rw [if_neg h, if_neg h]

theorem piece_fuel (exp : List Nat) (F : Nat) (s : CompileState)
    (h : charAt exp s.Reg_Parse ≠ 40) : piece exp (F + 2) s = piece exp 2 s := by
  rw [piece, piece, atom_fuel exp F s h]

theorem replicate_flatten_length (P : List Nat) (k : Nat) :
    ((List.replicate k P).flatten).length = P.length * k := by
  induction k with
  | zero => rfl
  | succ k ih => rw [List.replicate_succ, List.flatten_cons, List.length_append, ih]; ring

theorem replicate_flatten_getD (P : List Nat) (k : Nat) : ∀ (j i : Nat), j < k → i < P.length →
    ((List.replicate k P).flatten).getD (P.length * j + i) 0 = P.getD i 0 := by
  induction k with
  | zero => intro j i hj; omega
  | succ k ih =>
    intro j i hj hi
    rw [List.replicate_succ, List.flatten_cons]
    cases j with
    | zero =>
      rw [Nat.mul_zero, Nat.zero_add, List.getD_append _ _ _ _ hi]
    | succ j =>
      have h : P.length * (j + 1) + i = P.length + (P.length * j + i) := by ring
      rw [h, List.getD_append_right _ _ _ _ (by omega), Nat.add_sub_cancel_left]
      exact ih j i (by omega) hi

theorem brace_run_length (k : Nat) : (brace_run k).length = 3 + 5 * k := by
  unfold brace_run
  rw [List.length_append, replicate_flatten_length]
  rfl

theorem brace_run_charAt (k j i : Nat) (hj : j < k) (hi : i < 5) :
    charAt (brace_run k) (3 + 5 * j + i) = (bytes "\\1\x7b2\x7d").getD i 0 := by
  unfold charAt brace_run
  have h3 : (bytes "(a)").length = 3 := rfl
  have h5 : (bytes "\\1\x7b2\x7d").length = 5 := rfl
  rw [Nat.add_assoc, List.getD_append_right _ _ _ _ (by omega), h3, Nat.add_sub_cancel_left]
  have h := replicate_flatten_getD (bytes "\\1\x7b2\x7d") k j i hj (by omega)
  rw [h5] at h
  exact h

theorem brace_run_charAt_end (k i : Nat) : charAt (brace_run k) (3 + 5 * k + i) = 0 := by
  unfold charAt
  exact List.getD_eq_default _ _ (by rw [brace_run_length]; omega)

theorem brace_run_next (k j : Nat) (hj : j < k) :
    charAt (brace_run k) (3 + 5 * j + 5) = 92 ∨ charAt (brace_run k) (3 + 5 * j + 5) = 0 := by
  by_cases h : j + 1 < k
  · left
    have := brace_run_charAt k (j + 1) 0 h (by decide)
    rw [show 3 + 5 * j + 5 = 3 + 5 * (j + 1) + 0 by ring]
    exact this
  · right
    have hk : k = j + 1 := by omega
    have := brace_run_charAt_end k 0
    rw [show 3 + 5 * j + 5 = 3 + 5 * k + 0 by omega]
    exact this

theorem shortcut_escape_digit (N flag : Nat) (s : CompileState) (h1 : 1 ≤ N) (h9 : N ≤ 9) :
    shortcut_escape (48 + N) flag EMIT_NODE s = .ok (Ptr.null, flag, s) := by
  interval_cases N <;> rfl

/-- The function `back_ref` on the digit `N`, from 1 to 9: the error on the back reference
when the bit `N` of `Closed_Parens` is clear, a node with the operand `N` when it is set. -/
theorem back_ref_digit (N flag : Nat) (s : CompileState) (h1 : 1 ≤ N) (h9 : N ≤ 9) :
    back_ref (48 + N) flag EMIT_NODE s
      = if s.Closed_Parens.getD N false = true then
          .ok ((if s.Is_Case_Insensitive then emit_node BACK_REF_CI s
                else emit_node BACK_REF s).1,
               if s.Paren_Has_Width.getD N false then flag ||| HAS_WIDTH else flag,
               emit_byte N (if s.Is_Case_Insensitive then emit_node BACK_REF_CI s
                            else emit_node BACK_REF s).2)
        else .error .illegal_back_reference := by
  unfold back_ref
  have hd : isdigit (48 + N) = true := by simp [isdigit]; omega
  have hs : 48 + N - 48 = N := by omega
  simp only [hd, hs]
  have h0 : ¬ ((!true) = true ∨ N = 0) := by simp; omega
  rw [if_neg h0]
  generalize s.Closed_Parens.getD N false = b
  cases b <;> simp

theorem piece_back_ref_brace (exp : List Nat) (s : CompileState) (L : Nat)
    (hlen : exp.length = L + 1)
    (h0 : charAt exp s.Reg_Parse = 92) (h1 : charAt exp (s.Reg_Parse + 1) = 49)
    (h2 : charAt exp (s.Reg_Parse + 2) = 123) (h3 : charAt exp (s.Reg_Parse + 3) = 50)
    (h4 : charAt exp (s.Reg_Parse + 4) = 125)
    (h5 : charAt exp (s.Reg_Parse + 5) = 92 ∨ charAt exp (s.Reg_Parse + 5) = 0)
    (hp : s.Code_Emit_Ptr = Ptr.Compute_Size) (hci : s.Is_Case_Insensitive = false)
    (hc : s.Closed_Parens.getD 1 false = true) (hw : s.Paren_Has_Width.getD 1 false = true)
    (hn : s.Num_Braces ≤ 255) :
    piece exp 2 s
      = .ok { ret_val := Ptr.Compute_Size, flag := 1, range := { lower := -1, upper := -1 },
              cState := { s with Reg_Parse := s.Reg_Parse + 5, Reg_Size := s.Reg_Size + 24,
                                 Num_Braces := s.Num_Braces + 1 } } := by
  have hc' : s.Closed_Parens[1]?.getD false = true := by simpa using hc
  have hw' : s.Paren_Has_Width[1]?.getD false = true := by simpa using hw
  have hatom : atom exp 1 s
      = .ok { ret_val := Ptr.Compute_Size, flag := 1, range := { lower := -1, upper := -1 },
              cState := { s with Reg_Parse := s.Reg_Parse + 2, Reg_Size := s.Reg_Size + 4 } } := by
    rw [atom, skip_comments_plain exp _ (by omega)]
    simp [h0, h1, shortcut_escape_digit 1 _ _ (by decide) (by decide),
      back_ref_digit 1 _ _ (by decide) (by decide), hc', hw', hci, emit_node, emit_byte, hp,
      WORST, HAS_WIDTH, NodeSize]
  have hq : isQuantifier (charAt exp (s.Reg_Parse + 5)) = false := by
    rcases h5 with h | h <;> rw [h] <;> rfl
  have hl : charAt exp (s.Reg_Parse + 5) ≠ 63 := by
    rcases h5 with h | h <;> rw [h] <;> decide
  have hparse : parse_brace exp (s.Reg_Parse + 2 + 1) = .ok (2, 2, s.Reg_Parse + 4) := by
    unfold parse_brace
    rw [hlen]
    rw [brace_digits, brace_digits]
    simp [h3, h4, isdigit, REG_ZERO, REG_INFINITY, brace_digits]
  rw [piece, hatom]
  simp only []
  rw [if_neg (by decide)]
  unfold piece_rest
  simp only []
  simp [h2, hparse, hq, hl, isQuantifier, REG_ZERO, REG_INFINITY, REG_ONE, HAS_WIDTH, WORST,
    piece_emit, SIMPLE, piece_emit_brace, emit_special, insert, emit_node, tail, hp,
    INC_COUNT, TEST_COUNT, INIT_COUNT, BACK, NOTHING, NodeSize, IndexSize, NextPtrSize,
    POS_BEHIND_OPEN, NEG_BEHIND_OPEN, BRACE, LAZY_BRACE]
  have e5 : s.Reg_Parse + 4 + 1 = s.Reg_Parse + 5 := rfl
  have hq2 : ¬ ((charAt exp (s.Reg_Parse + 5) = 42 ∨ charAt exp (s.Reg_Parse + 5) = 43)
      ∨ charAt exp (s.Reg_Parse + 5) = 123) := by
    rcases h5 with h | h <;> rw [h] <;> decide
  rw [e5, if_neg (by omega), if_neg hq2]

theorem brace_run_piece (j : Nat) (hj : j < 256) :
    piece (brace_run 256) 2 (brace_run_state j)
      = .ok { ret_val := Ptr.Compute_Size, flag := 1, range := { lower := -1, upper := -1 },
              cState := brace_run_state (j + 1) } := by
  have h := piece_back_ref_brace (brace_run 256) (brace_run_state j) 1282
    (brace_run_length 256) (brace_run_charAt 256 j 0 hj (by decide))
    (brace_run_charAt 256 j 1 hj (by decide)) (brace_run_charAt 256 j 2 hj (by decide))
    (brace_run_charAt 256 j 3 hj (by decide)) (brace_run_charAt 256 j 4 hj (by decide))
    (brace_run_next 256 j hj) rfl rfl rfl rfl (Nat.le_of_lt_succ hj)
  rw [h]
  simp [brace_run_state, pass_init]
  omega

theorem brace_run_loop (n : Nat) : ∀ (j fuel : Nat) (range : len_range), j + n = 256 →
    n + 2 ≤ fuel →
    alternative_loop (brace_run 256) fuel Ptr.Compute_Size 1 range (brace_run_state j)
      = .ok { ret_val := Ptr.Compute_Size, flag := 1,
              range := if n = 0 then range else { lower := -1, upper := -1 },
              cState := brace_run_state 256 } := by
  induction n with
  | zero =>
    intro j fuel range hj hf
    have hj' : j = 256 := by omega
    subst hj'
    obtain ⟨F, rfl⟩ : ∃ F, fuel = F + 1 := ⟨fuel - 1, by omega⟩
    rw [alternative_loop]
    have hc : charAt (brace_run 256) (brace_run_state 256).Reg_Parse = 0 :=
      brace_run_charAt_end 256 0
    simp only [hc]
    rfl
  | succ n ih =>
    intro j fuel range hj hf
    have hlt : j < 256 := by omega
    obtain ⟨F, rfl⟩ : ∃ F, fuel = F + 2 + 1 := ⟨fuel - 3, by omega⟩
    have h := ih (j + 1) (F + 2) { lower := -1, upper := -1 } (by omega) (by omega)
    rw [ite_self] at h
    rw [alternative_loop]
    have hc : charAt (brace_run 256) (brace_run_state j).Reg_Parse = 92 :=
      brace_run_charAt 256 j 0 hlt (by decide)
    have hp : piece (brace_run 256) (F + 2) (brace_run_state j)
        = .ok { ret_val := Ptr.Compute_Size, flag := 1, range := { lower := -1, upper := -1 },
                cState := brace_run_state (j + 1) } := by
      rw [piece_fuel _ _ _ (by rw [hc]; decide)]
      exact brace_run_piece j hlt
    simp only [hc, hp]
    simp [tail, HAS_WIDTH]
    exact h

theorem alternative_loop_first (exp : List Nat) (fuel flag : Nat) (range : len_range)
    (s : CompileState) (lf : Nat) (lr : len_range) (t : CompileState) (fl : Nat)
    (rg : len_range) (hc : charAt exp s.Reg_Parse = 40)
    (hp : piece exp fuel s
      = .ok { ret_val := Ptr.Compute_Size, flag := lf, range := lr, cState := t })
    (hfl : flag ||| (lf &&& HAS_WIDTH) = fl)
    (hrg : (if lr.lower < 0 then ({ lower := -1, upper := -1 } : len_range)
            else if range.lower ≥ 0 then
              { lower := range.lower + lr.lower, upper := range.upper + lr.upper }
            else range) = rg) :
    alternative_loop exp (fuel + 1) Ptr.null flag range s
      = alternative_loop exp fuel Ptr.Compute_Size fl rg t := by
  subst hfl hrg
  rw [alternative_loop]
  simp only [hc, hp]
  simp

theorem alternative_first_pass (exp : List Nat) (fuel : Nat) (s t u : CompileState) (fl : Nat)
    (rg : len_range) (he : emit_node BRANCH s = (Ptr.Compute_Size, t))
    (h : alternative_loop exp fuel Ptr.null WORST { lower := 0, upper := 0 } t
      = .ok { ret_val := Ptr.Compute_Size, flag := fl, range := rg, cState := u }) :
    alternative exp (fuel + 1) s
      = .ok { ret_val := Ptr.Compute_Size, flag := fl, range := rg, cState := u } := by
  rw [alternative, he]
  simp only []
  rw [h]
  simp

theorem chunk_loop_single (exp : List Nat) (fuel flag : Nat) (s t : CompileState) (fl : Nat)
    (rg : len_range)
    (h : alternative exp fuel s
      = .ok { ret_val := Ptr.Compute_Size, flag := fl, range := rg, cState := t })
    (hw : fl &&& HAS_WIDTH ≠ 0) (hc : charAt exp t.Reg_Parse ≠ 124) :
    chunk_loop exp (fuel + 1) true Ptr.null flag { lower := 0, upper := 0 } s
      = .ok { ret_val := Ptr.Compute_Size, flag := flag, range := rg, cState := t } := by
  rw [chunk_loop, h]
  simp [tail, hc]
  intro h0
  simp at hw
  omega

theorem chunk_top (exp : List Nat) (fuel : Nat) (s t : CompileState) (fl : Nat)
    (rg : len_range)
    (h : chunk_loop exp fuel true Ptr.null HAS_WIDTH { lower := 0, upper := 0 } s
      = .ok { ret_val := Ptr.Compute_Size, flag := fl, range := rg, cState := t }) :
    chunk exp (fuel + 1) NO_PAREN s
      = chunk_close exp NO_PAREN 0 false Ptr.null s.Is_Case_Insensitive s.Match_Newline
          Ptr.Compute_Size fl rg t := by
  have hopen : chunk_open NO_PAREN s = .ok (Ptr.null, 0, HAS_WIDTH, false, Ptr.null, s) := by
    simp [chunk_open, NO_PAREN, PAREN, POS_AHEAD_OPEN, NEG_AHEAD_OPEN, POS_BEHIND_OPEN,
      NEG_BEHIND_OPEN, INSENSITIVE, SENSITIVE, NEWLINE, NO_NEWLINE]
  rw [chunk, hopen]
  simp only []
  rw [h]

theorem compile_pass_of_chunk (exp : List Nat) (fuel : Nat) (s : CompileState) (r : Res)
    (h : chunk exp fuel NO_PAREN (emit_byte 37 (emit_byte 37 (emit_byte MAGIC s))) = .ok r)
    (hr : r.ret_val ≠ Ptr.null) : compile_pass exp fuel s = .ok r := by
  unfold compile_pass
  rw [h]
  simp [hr]

theorem brace_run_first_pass :
    first_pass (brace_run 256) 0
      = .ok { ret_val := Ptr.Compute_Size, flag := 1, range := { lower := -1, upper := -1 },
              cState := { brace_run_state 256 with Reg_Size := 20 + 24 * 256 + 3 } } := by
  have hfuel : compile_fuel (brace_run 256) = 10279 + 1 := by
    unfold compile_fuel
    rw [brace_run_length]
  have hs3 : emit_byte 37 (emit_byte 37 (emit_byte MAGIC (pass_init 0 Ptr.Compute_Size 0 [])))
      = pass_init 0 Ptr.Compute_Size 3 [] := by decide!
  have hbranch : emit_node BRANCH (pass_init 0 Ptr.Compute_Size 3 [])
      = (Ptr.Compute_Size, pass_init 0 Ptr.Compute_Size 6 []) := by
    decide!
  have hc0 : charAt (brace_run 256) (pass_init 0 Ptr.Compute_Size 6 []).Reg_Parse = 40 := by
    decide!
  have hpiece : piece (brace_run 256) 10276 (pass_init 0 Ptr.Compute_Size 6 [])
      = .ok { ret_val := Ptr.Compute_Size, flag := 1, range := { lower := 1, upper := 1 },
              cState := brace_run_state 0 } := by
    decide!
  have hloop := brace_run_loop 256 0 10276 { lower := 1, upper := 1 } rfl (by decide)
  rw [if_neg (by decide)] at hloop
  have hend : charAt (brace_run 256) (brace_run_state 256).Reg_Parse ≠ 124 := by
    have h0 : charAt (brace_run 256) (brace_run_state 256).Reg_Parse = 0 :=
      brace_run_charAt_end 256 0
    rw [h0]
    decide
  have hclose : chunk_close (brace_run 256) NO_PAREN 0 false Ptr.null
      (pass_init 0 Ptr.Compute_Size 3 []).Is_Case_Insensitive
      (pass_init 0 Ptr.Compute_Size 3 []).Match_Newline
      Ptr.Compute_Size HAS_WIDTH { lower := -1, upper := -1 } (brace_run_state 256)
      = .ok { ret_val := Ptr.Compute_Size, flag := 1, range := { lower := -1, upper := -1 },
              cState := { brace_run_state 256 with Reg_Size := 20 + 24 * 256 + 3 } } := by
    decide!
  have h1 := alternative_loop_first (brace_run 256) 10276 WORST { lower := 0, upper := 0 }
    _ _ _ _ 1 { lower := 1, upper := 1 } hc0 hpiece (by decide) (by decide)
  have h2 := alternative_first_pass (brace_run 256) (10276 + 1) _ _ _ _ _ hbranch
    (h1.trans hloop)
  have h3 := chunk_loop_single (brace_run 256) (10276 + 1 + 1) HAS_WIDTH _ _ _ _ h2
    (by decide) hend
  have h4 := (chunk_top (brace_run 256) (10276 + 1 + 1 + 1) _ _ _ _ h3).trans hclose
  unfold first_pass
  rw [hfuel]
  refine compile_pass_of_chunk _ _ _ _ ?_ (by decide)
  rw [hs3]
  exact h4

theorem second_pass_ok (exp : List Nat) (defaultFlags : Nat) (r1 : Res)
    (h : first_pass exp defaultFlags = .ok r1) :
    ∃ r2, second_pass exp defaultFlags r1.cState.Reg_Size = .ok r2
      ∧ resP1 r2 = r1
      ∧ r2.cState.program_.length = r1.cState.Reg_Size + 1 := by
  obtain ⟨r2, h2, h3, _, h5, _⟩ := two_passes exp defaultFlags (compile_fuel exp)
    r1.cState.Reg_Size (List.replicate (r1.cState.Reg_Size + 1) 0) r1 h
  exact ⟨r2, h2, h3, by rw [h5, List.length_replicate]⟩

theorem CompileRE_of_passes (exp : List Nat) (defaultFlags : Nat) (r1 r2 : Res)
    (h1 : first_pass exp defaultFlags = .ok r1)
    (hs : r1.cState.Reg_Size < MAX_COMPILED_SIZE)
    (h2 : second_pass exp defaultFlags r1.cState.Reg_Size = .ok r2) :
    CompileRE exp defaultFlags
      = if r2.cState.hang then .error .does_not_terminate
        else .ok { program_ := (r2.cState.program_.set 1 ((r2.cState.Total_Paren - 1) % 256)).set
                      2 (r2.cState.Num_Braces % 256),
                   match_start_ := (dig_out ((r2.cState.program_.set 1
                      ((r2.cState.Total_Paren - 1) % 256)).set 2
                        (r2.cState.Num_Braces % 256))).1,
                   anchor_ := (dig_out ((r2.cState.program_.set 1
                      ((r2.cState.Total_Paren - 1) % 256)).set 2
                        (r2.cState.Num_Braces % 256))).2,
                   Total_Paren := r2.cState.Total_Paren,
                   Num_Braces := r2.cState.Num_Braces } := by
  unfold CompileRE
  unfold first_pass at h1
  unfold second_pass at h2
  rw [h1]
  simp only []
  rw [if_neg (by omega), h2]

/-- C11: the regex `(a)` followed by 256 times `\1{2}` has 256 brace constructs with a counter.
The first pass of the constructor accepts it and counts 256 constructs, since `piece` tests
`Num_Braces > UCHAR_MAX` before it makes the construct number `Num_Braces`; the second pass
returns too, and the constructor, unless the walk along a chain of nodes does not end, makes
a program for 256 constructs whose header byte 2 holds 256 modulo 256, that is 0. -/
theorem C11_brace_count_overflow :
    (first_pass (brace_run 256) 0).map (fun r => r.cState.Num_Braces) = .ok 256
      ∧ (brace_run 256).length = 1283
      ∧ (CompileRE (brace_run 256) 0 = .error .does_not_terminate
          ∨ ∃ re, CompileRE (brace_run 256) 0 = .ok re ∧ re.Num_Braces = 256
              ∧ re.program_.length = 6168 ∧ re.program_.getD 2 0 = 0) := by
  have h1 := brace_run_first_pass
  refine ⟨by rw [h1]; rfl, brace_run_length 256, ?_⟩
  obtain ⟨r2, h2, h3, h4⟩ := second_pass_ok (brace_run 256) 0 _ h1
  have hn : r2.cState.Num_Braces = 256 := by
    have h5 : (resP1 r2).cState.Num_Braces = 256 := by rw [h3]; rfl
    exact h5
  have h6 : r2.cState.program_.length = 6168 := h4
  rw [CompileRE_of_passes (brace_run 256) 0 _ r2 h1 (by decide) h2]
  by_cases hh : r2.cState.hang = true
  · left; rw [if_pos hh]
  · right
    rw [if_neg hh]
    refine ⟨_, rfl, hn, ?_, ?_⟩
    · rw [List.length_set, List.length_set, h6]
    · rw [List.getD_eq_getElem?_getD, List.getElem?_set, if_pos rfl, List.length_set, h6, hn]
      rfl

/-! ### The bounds check of a brace quantifier -/

/-- The digit loop of `piece` on a run of digits whose value is above 65535: the error on
the operand. -/
theorem brace_digits_overflow (exp : List Nat) (i : Nat) (ds : List Nat) :
    ∀ (fuel v dp rp : Nat), ds.length < fuel → (∀ d ∈ ds, d < 10) →
      (∀ j, j < ds.length → charAt exp (rp + j) = ds.getD j 0 + 48) →
      v ≤ 65535 → 65535 < digits_value v ds →
      brace_digits exp i fuel v dp rp
        = .error (if i = 0 then .min_operand_too_big else .max_operand_too_big) := by
  induction ds with
  | nil =>
    intro fuel v dp rp _ _ _ hv hval
    simp [digits_value] at hval
    omega
  | cons d ds ih =>
    intro fuel v dp rp hf hd hch hv hval
    cases fuel with
    | zero => omega
    | succ f =>
      have hd10 : d < 10 := hd d (by simp)
      have h0 : charAt exp rp = d + 48 := by simpa using hch 0 (by simp)
      have hdig : isdigit (d + 48) = true := by simp [isdigit]; omega
      rw [brace_digits]
      simp only [h0, hdig, if_true, Nat.add_sub_cancel]
      by_cases hguard : (v = 6553 ∧ d ≤ 5) ∨ v ≤ 6552
      · rw [if_pos hguard]
        exact ih f (v * 10 + d) (dp + 1) (rp + 1) (by simp at hf; omega)
          (fun x hx => hd x (by simp [hx]))
          (fun j hj => by
            have := hch (j + 1) (by simp; omega)
            simpa [Nat.add_assoc, Nat.add_comm 1 j] using this)
          (by omega) (by simpa [digits_value] using hval)
      · rw [if_neg hguard]
        split <;> simp_all

theorem charAt_map_digits (ds : List Nat) (j : Nat) (h : j < ds.length) :
    charAt (ds.map (fun d => d + 48)) j = ds.getD j 0 + 48 := by
  simp [charAt, List.getD_eq_getElem?_getD, List.getElem?_map, h]

theorem isdigit_44 : isdigit 44 = false := by decide
theorem isdigit_125 : isdigit 125 = false := by decide

/-- The digit loop of `piece` on a written bound, whatever its value. -/
theorem brace_digits_bound (exp : List Nat) (i : Nat) (ds : List Nat) (dp rp : Nat)
    (hd : ∀ d ∈ ds, d < 10)
    (hch : ∀ j, j < ds.length → charAt exp (rp + j) = ds.getD j 0 + 48)
    (hend : isdigit (charAt exp (rp + ds.length)) = false) (hlen : ds.length ≤ exp.length) :
    brace_digits exp i (exp.length + 1) 0 dp rp
      = if 65535 < digits_value 0 ds then
          .error (if i = 0 then .min_operand_too_big else .max_operand_too_big)
        else .ok (digits_value 0 ds, dp + ds.length, rp + ds.length) := by
  split
  · rename_i h
    exact brace_digits_overflow exp i ds _ 0 dp rp (by omega) hd hch (by omega) h
  · rename_i h
    exact brace_digits_run exp i ds _ 0 dp rp (by omega) hd hch hend (by omega)

theorem charAt_after (pre : List Nat) (c : Nat) (rest : List Nat) (k : Nat) :
    charAt (pre ++ c :: rest) (pre.length + 1 + k) = charAt rest k := by
  rw [Nat.add_assoc, charAt_append_right, Nat.add_comm 1 k, charAt_cons_succ]

theorem charAt_at (pre : List Nat) (c : Nat) (rest : List Nat) :
    charAt (pre ++ c :: rest) pre.length = c := by
  rw [charAt_append_length, charAt_cons_zero]

theorem brace_text_length (pre dm dn post : List Nat) :
    (brace_text pre dm dn post).length
      = pre.length + dm.length + dn.length + post.length + 3 := by
  simp [brace_text]; omega

/-- The bounds check of `piece` on `{m,n}` with both bounds written: it fails exactly when
`m` or `n` is above 65535, when `n` is 0, or when `n < m`. -/
theorem parse_brace_text (pre dm dn post : List Nat) (hm : ∀ d ∈ dm, d < 10)
    (hn : ∀ d ∈ dn, d < 10) (hm0 : dm ≠ []) (hn0 : dn ≠ []) :
    parse_brace (brace_text pre dm dn post) (pre.length + 1)
      = if 65535 < digits_value 0 dm then .error .min_operand_too_big
        else if 65535 < digits_value 0 dn then .error .max_operand_too_big
        else if digits_value 0 dm = 0 ∧ digits_value 0 dn = 0 then .error .range_zero_zero
        else if digits_value 0 dn = 0 then .error .range_max_zero
        else if digits_value 0 dn < digits_value 0 dm then .error .range_backward
        else .ok (digits_value 0 dm, digits_value 0 dn,
          pre.length + 1 + dm.length + 1 + dn.length) := by
  have hlm : 0 < dm.length := List.length_pos.mpr hm0
  have hln : 0 < dn.length := List.length_pos.mpr hn0
  have hcm : ∀ j, j < dm.length →
      charAt (brace_text pre dm dn post) (pre.length + 1 + j) = dm.getD j 0 + 48 := by
    intro j hj
    rw [brace_text, charAt_after, charAt_append_left _ _ _ (by simpa using hj),
      charAt_map_digits _ _ hj]
  have hcomma : charAt (brace_text pre dm dn post) (pre.length + 1 + dm.length) = 44 := by
    rw [brace_text, charAt_after]
    have := charAt_at (dm.map (fun d => d + 48)) 44 (dn.map (fun d => d + 48) ++ 125 :: post)
    simpa using this
  have hcn : ∀ j, j < dn.length →
      charAt (brace_text pre dm dn post) (pre.length + 1 + dm.length + 1 + j)
        = dn.getD j 0 + 48 := by
    intro j hj
    rw [brace_text, show pre.length + 1 + dm.length + 1 + j
        = pre.length + 1 + ((dm.map (fun d => d + 48)).length + 1 + j) by simp; omega,
      charAt_after, charAt_after, charAt_append_left _ _ _ (by simpa using hj),
      charAt_map_digits _ _ hj]
  have hclose : charAt (brace_text pre dm dn post)
      (pre.length + 1 + dm.length + 1 + dn.length) = 125 := by
    rw [brace_text, show pre.length + 1 + dm.length + 1 + dn.length
        = pre.length + 1 + ((dm.map (fun d => d + 48)).length + 1
            + (dn.map (fun d => d + 48)).length) by simp; omega,
      charAt_after, charAt_after]
    have := charAt_at (dn.map (fun d => d + 48)) 125 post
    simpa using this
  have h1 := brace_digits_bound (brace_text pre dm dn post) 0 dm 0 (pre.length + 1) hm hcm
    (by rw [hcomma]; rfl) (by rw [brace_text_length]; omega)
  have h2 := brace_digits_bound (brace_text pre dm dn post) 1 dn 0
    (pre.length + 1 + dm.length + 1) hn hcn
    (by rw [hclose]; rfl) (by rw [brace_text_length]; omega)
  unfold parse_brace
  simp only [REG_ZERO, REG_INFINITY] at *
  rw [h1]
  by_cases hM : 65535 < digits_value 0 dm
  · simp [hM]
  · rw [if_neg hM, if_neg hM]
    simp only [hcomma, decide_True, if_true]
    rw [h2]
    by_cases hN : 65535 < digits_value 0 dn
    · simp [hN]
    · rw [if_neg hN, if_neg hN]
      simp only [Bool.not_true, Bool.false_and, Bool.true_or, Bool.false_eq_true, if_false,
        Nat.zero_add, hclose]
      have a1 : dm.length ≠ 0 := by omega
      have a2 : dn.length ≠ 0 := by omega
      simp [a1, a2]
      by_cases hz : digits_value 0 dn = 0
      · by_cases hz2 : digits_value 0 dm = 0 <;> simp [hz, hz2]
      · simp [hz]

theorem brace_digits_none (exp : List Nat) (i dp rp : Nat)
    (h : isdigit (charAt exp rp) = false) :
    brace_digits exp i (exp.length + 1) 0 dp rp = .ok (0, dp, rp) := by
  rw [brace_digits]
  simp [h]

/-- The bounds check of `piece` on `{m}`, one written bound: it fails when `m` is above
65535 and when `m` is 0. -/
theorem parse_brace_text_one (pre dm post : List Nat) (hm : ∀ d ∈ dm, d < 10) (hm0 : dm ≠ []) :
    parse_brace (brace_text_one pre dm post) (pre.length + 1)
      = if 65535 < digits_value 0 dm then .error .min_operand_too_big
        else if digits_value 0 dm = 0 then .error .range_zero
        else .ok (digits_value 0 dm, digits_value 0 dm, pre.length + 1 + dm.length) := by
  have hlm : 0 < dm.length := List.length_pos.mpr hm0
  have hcm : ∀ j, j < dm.length →
      charAt (brace_text_one pre dm post) (pre.length + 1 + j) = dm.getD j 0 + 48 := by
    intro j hj
    rw [brace_text_one, charAt_after, charAt_append_left _ _ _ (by simpa using hj),
      charAt_map_digits _ _ hj]
  have hclose : charAt (brace_text_one pre dm post) (pre.length + 1 + dm.length) = 125 := by
    rw [brace_text_one, charAt_after]
    have := charAt_at (dm.map (fun d => d + 48)) 125 post
    simpa using this
  have h1 := brace_digits_bound (brace_text_one pre dm post) 0 dm 0 (pre.length + 1) hm hcm
    (by rw [hclose]; rfl) (by simp [brace_text_one]; omega)
  have h2 := brace_digits_none (brace_text_one pre dm post) 1 0 (pre.length + 1 + dm.length)
    (by rw [hclose]; rfl)
  unfold parse_brace
  simp only [REG_ZERO, REG_INFINITY] at *
  rw [h1]
  by_cases hM : 65535 < digits_value 0 dm
  · simp [hM]
  · rw [if_neg hM, if_neg hM]
    simp only [hclose, Nat.zero_add]
    simp only [show decide ((125 : Nat) = 44) = false from rfl, Bool.false_eq_true, if_false]
    rw [h2]
    have a1 : dm.length ≠ 0 := by omega
    by_cases hz : digits_value 0 dm = 0 <;> simp [hz, a1, hclose]

/-- The bounds check of `piece` on `{,n}`, no written minimum: it fails when `n` is above
65535 and when `n` is 0. -/
theorem parse_brace_text_max (pre dn post : List Nat) (hn : ∀ d ∈ dn, d < 10) (hn0 : dn ≠ []) :
    parse_brace (brace_text_max pre dn post) (pre.length + 1)
      = if 65535 < digits_value 0 dn then .error .max_operand_too_big
        else if digits_value 0 dn = 0 then .error .range_max_zero
        else .ok (0, digits_value 0 dn, pre.length + 1 + 1 + dn.length) := by
  have hln : 0 < dn.length := List.length_pos.mpr hn0
  have hcomma : charAt (brace_text_max pre dn post) (pre.length + 1) = 44 := by
    have := charAt_after pre 123 (44 :: (dn.map (fun d => d + 48) ++ 125 :: post)) 0
    simpa [brace_text_max] using this
  have hcn : ∀ j, j < dn.length →
      charAt (brace_text_max pre dn post) (pre.length + 1 + 1 + j) = dn.getD j 0 + 48 := by
    intro j hj
    rw [brace_text_max, show pre.length + 1 + 1 + j = pre.length + 1 + (j + 1) by omega,
      charAt_after, charAt_cons_succ, charAt_append_left _ _ _ (by simpa using hj),
      charAt_map_digits _ _ hj]
  have hclose : charAt (brace_text_max pre dn post) (pre.length + 1 + 1 + dn.length) = 125 := by
    rw [brace_text_max, show pre.length + 1 + 1 + dn.length
        = pre.length + 1 + ((dn.map (fun d => d + 48)).length + 1) by simp; omega,
      charAt_after, charAt_cons_succ]
    have := charAt_at (dn.map (fun d => d + 48)) 125 post
    simpa using this
  have h1 := brace_digits_none (brace_text_max pre dn post) 0 0 (pre.length + 1)
    (by rw [hcomma]; rfl)
  have h2 := brace_digits_bound (brace_text_max pre dn post) 1 dn 0 (pre.length + 1 + 1) hn hcn
    (by rw [hclose]; rfl) (by simp [brace_text_max]; omega)
  unfold parse_brace
  simp only [REG_ZERO, REG_INFINITY] at *
  rw [h1]
  simp only [hcomma, decide_True, if_true]
  rw [h2]
  by_cases hN : 65535 < digits_value 0 dn
  · simp [hN]
  · rw [if_neg hN, if_neg hN]
    have a2 : dn.length ≠ 0 := by omega
    by_cases hz : digits_value 0 dn = 0 <;> simp [hz, a2, hclose]

theorem piece_rest_brace_error (exp : List Nat) (a : Res) (e : CompileError)
    (hc : charAt exp a.cState.Reg_Parse = 123)
    (hp : parse_brace exp (a.cState.Reg_Parse + 1) = .error e) :
    piece_rest exp a = .error e := by
  unfold piece_rest
  simp only [hc, hp]
  simp [isQuantifier]

theorem chunk_open_NO_PAREN (s : CompileState) :
    chunk_open NO_PAREN s = .ok (Ptr.null, 0, HAS_WIDTH, false, Ptr.null, s) := by
  simp [chunk_open, NO_PAREN, PAREN, POS_AHEAD_OPEN, NEG_AHEAD_OPEN, POS_BEHIND_OPEN,
    NEG_BEHIND_OPEN, INSENSITIVE, SENSITIVE, NEWLINE, NO_NEWLINE]

/-- An error of the first `piece` of a regex is the error of the constructor. -/
theorem first_piece_error (exp : List Nat) (defaultFlags : Nat) (e : CompileError)
    (hc : ¬ (charAt exp 0 = 124 ∨ charAt exp 0 = 41 ∨ charAt exp 0 = 0))
    (h : piece exp (compile_fuel exp - 4) (first_piece_state defaultFlags) = .error e) :
    CompileRE exp defaultFlags = .error e := by
  have hf : compile_fuel exp = (compile_fuel exp - 4) + 1 + 1 + 1 + 1 := by
    unfold compile_fuel; omega
  generalize compile_fuel exp - 4 = F at h hf
  unfold CompileRE compile_pass
  rw [hf, chunk, chunk_open_NO_PAREN]
  simp only []
  rw [chunk_loop, alternative]
  simp only []
  rw [alternative_loop]
  have h' : piece exp F (emit_node BRANCH (emit_byte 37 (emit_byte 37 (emit_byte MAGIC
      (pass_init defaultFlags Ptr.Compute_Size 0 []))))).2 = .error e := h
  have hp : (emit_node BRANCH (emit_byte 37 (emit_byte 37 (emit_byte MAGIC
      (pass_init defaultFlags Ptr.Compute_Size 0 []))))).2.Reg_Parse = 0 := rfl
  simp only [hp, if_neg hc, h']

/-- The function `piece` fails with the error of `piece_rest` on what `atom` returns. -/
theorem piece_error_of_rest (exp : List Nat) (F : Nat) (s : CompileState) (a : Res)
    (e : CompileError) (ha : atom exp F s = .ok a) (hn : a.ret_val ≠ Ptr.null)
    (hr : piece_rest exp a = .error e) :
    piece exp (F + 1) s = .error e := by
  rw [piece, ha]
  simp only []
  rw [if_neg hn, hr]

/-- The constructor fails with the error of the bounds check of the brace quantifier that
follows the first atom of the regex. -/
theorem first_brace_error (exp : List Nat) (defaultFlags : Nat) (a : Res) (e : CompileError)
    (hx : ¬ (charAt exp 0 = 124 ∨ charAt exp 0 = 41 ∨ charAt exp 0 = 0))
    (hatom : atom exp (compile_fuel exp - 5) (first_piece_state defaultFlags) = .ok a)
    (hret : a.ret_val ≠ Ptr.null)
    (hc : charAt exp a.cState.Reg_Parse = 123)
    (hp : parse_brace exp (a.cState.Reg_Parse + 1) = .error e) :
    CompileRE exp defaultFlags = .error e := by
  have hf : compile_fuel exp - 4 = (compile_fuel exp - 5) + 1 := by
    unfold compile_fuel; omega
  apply first_piece_error exp defaultFlags e hx
  rw [hf]
  exact piece_error_of_rest exp _ _ a e hatom hret (piece_rest_brace_error exp a e hc hp)

set_option maxRecDepth 100000 in
theorem brace_bounds_examples :
    CompileRE (bytes "a\x7b0\x7d") 0 = .error .range_zero
      ∧ CompileRE (bytes "a\x7b,0\x7d") 0 = .error .range_max_zero
      ∧ CompileRE (bytes "a\x7b0,0\x7d") 0 = .error .range_zero_zero
      ∧ CompileRE (bytes "a\x7b3,0\x7d") 0 = .error .range_max_zero
      ∧ CompileRE (bytes "a\x7b3,2\x7d") 0 = .error .range_backward
      ∧ CompileRE (bytes "a\x7b65536,70000\x7d") 0 = .error .min_operand_too_big
      ∧ CompileRE (bytes "a\x7b1,65536\x7d") 0 = .error .max_operand_too_big
      ∧ (CompileRE (bytes "a\x7b0,65535\x7d") 0).map (fun re => re.program_.length) = .ok 22 := by
  refine ⟨by decide!, by decide!, by decide!, by decide!, by decide!, by decide!, by decide!,
    by decide!⟩

/-- C12: the regex text `x{m,n}`, where `x` is the text `pre` that `atom` accepts at the head
of the regex (`atom` returns a node for it and stops at the brace) and `m`, `n` are written
with the digits `dm`, `dn`.  The constructor fails with the error of the bound `m` when
`m > 65535`, with the error of the bound `n` when `n > 65535`, with the error of `{0,0}` when
`m = n = 0`, with the error of a maximum 0 when `n = 0 < m`, and with the error of bounds in
the wrong order when `n < m`; for every other pair, `0 <= m <= n <= 65535` with `n > 0`, the
bounds check of `piece` returns the two bounds.  The forms `{m}` with `m = 0` and `{,n}` with
`n = 0` fail too, with the errors of a zero range and of a maximum 0. -/
theorem C12_brace_bounds (pre dm dn post : List Nat) (defaultFlags : Nat) (a : Res)
    (hm : ∀ d ∈ dm, d < 10) (hn : ∀ d ∈ dn, d < 10) (hm0 : dm ≠ []) (hn0 : dn ≠ [])
    (hx : ¬ (charAt (brace_text pre dm dn post) 0 = 124
      ∨ charAt (brace_text pre dm dn post) 0 = 41 ∨ charAt (brace_text pre dm dn post) 0 = 0))
    (hatom : atom (brace_text pre dm dn post) (compile_fuel (brace_text pre dm dn post) - 5)
      (first_piece_state defaultFlags) = .ok a)
    (hret : a.ret_val ≠ Ptr.null) (hrp : a.cState.Reg_Parse = pre.length) :
    (65535 < digits_value 0 dm →
        CompileRE (brace_text pre dm dn post) defaultFlags = .error .min_operand_too_big)
    ∧ (digits_value 0 dm ≤ 65535 → 65535 < digits_value 0 dn →
        CompileRE (brace_text pre dm dn post) defaultFlags = .error .max_operand_too_big)
    ∧ (digits_value 0 dm = 0 → digits_value 0 dn = 0 →
        CompileRE (brace_text pre dm dn post) defaultFlags = .error .range_zero_zero)
    ∧ (0 < digits_value 0 dm → digits_value 0 dm ≤ 65535 → digits_value 0 dn = 0 →
        CompileRE (brace_text pre dm dn post) defaultFlags = .error .range_max_zero)
    ∧ (digits_value 0 dm ≤ 65535 → 0 < digits_value 0 dn →
        digits_value 0 dn < digits_value 0 dm →
        CompileRE (brace_text pre dm dn post) defaultFlags = .error .range_backward)
    ∧ (digits_value 0 dm ≤ digits_value 0 dn → digits_value 0 dn ≤ 65535 →
        0 < digits_value 0 dn →
        parse_brace (brace_text pre dm dn post) (pre.length + 1)
          = .ok (digits_value 0 dm, digits_value 0 dn,
              pre.length + 1 + dm.length + 1 + dn.length))
    ∧ (∀ a1, atom (brace_text_one pre dm post) (compile_fuel (brace_text_one pre dm post) - 5)
          (first_piece_state defaultFlags) = .ok a1 →
        a1.ret_val ≠ Ptr.null → a1.cState.Reg_Parse = pre.length →
        digits_value 0 dm = 0 →
        CompileRE (brace_text_one pre dm post) defaultFlags = .error .range_zero)
    ∧ (∀ a2, atom (brace_text_max pre dn post) (compile_fuel (brace_text_max pre dn post) - 5)
          (first_piece_state defaultFlags) = .ok a2 →
        a2.ret_val ≠ Ptr.null → a2.cState.Reg_Parse = pre.length →
        digits_value 0 dn = 0 →
        CompileRE (brace_text_max pre dn post) defaultFlags = .error .range_max_zero)
    ∧ CompileRE (bytes "a\x7b0\x7d") 0 = .error .range_zero
    ∧ CompileRE (bytes "a\x7b,0\x7d") 0 = .error .range_max_zero
    ∧ CompileRE (bytes "a\x7b0,0\x7d") 0 = .error .range_zero_zero
    ∧ CompileRE (bytes "a\x7b3,0\x7d") 0 = .error .range_max_zero
    ∧ CompileRE (bytes "a\x7b3,2\x7d") 0 = .error .range_backward
    ∧ CompileRE (bytes "a\x7b65536,70000\x7d") 0 = .error .min_operand_too_big
    ∧ CompileRE (bytes "a\x7b1,65536\x7d") 0 = .error .max_operand_too_big
    ∧ (CompileRE (bytes "a\x7b0,65535\x7d") 0).map (fun re => re.program_.length) = .ok 22 := by
  have hp := parse_brace_text pre dm dn post hm hn hm0 hn0
  have hc : charAt (brace_text pre dm dn post) a.cState.Reg_Parse = 123 := by
    rw [hrp, brace_text, charAt_at]
  have key : ∀ e, parse_brace (brace_text pre dm dn post) (pre.length + 1) = .error e →
      CompileRE (brace_text pre dm dn post) defaultFlags = .error e := by
    intro e he
    exact first_brace_error _ defaultFlags a e hx hatom hret hc (by rw [hrp]; exact he)
  have hx1 : charAt (brace_text_one pre dm post) 0 = charAt (brace_text pre dm dn post) 0 := by
    cases pre with
    | nil => rfl
    | cons c rest => rfl
  have hx2 : charAt (brace_text_max pre dn post) 0 = charAt (brace_text pre dm dn post) 0 := by
    cases pre with
    | nil => rfl
    | cons c rest => rfl
  refine ⟨?_, ?_, ?_, ?_, ?_, ?_, ?_, ?_, brace_bounds_examples⟩
  · intro h1
    apply key
    rw [hp, if_pos h1]
  · intro h1 h2
    apply key
    rw [hp, if_neg (by omega), if_pos h2]
  · intro h1 h2
    apply key
    rw [hp, if_neg (by omega), if_neg (by omega), if_pos ⟨h1, h2⟩]
  · intro h0 h1 h2
    apply key
    rw [hp, if_neg (by omega), if_neg (by omega), if_neg (by omega), if_pos h2]
  · intro h1 h2 h3
    apply key
    rw [hp, if_neg (by omega), if_neg (by omega), if_neg (by omega), if_neg (by omega),
      if_pos h3]
  · intro h1 h2 h3
    rw [hp, if_neg (by omega), if_neg (by omega), if_neg (by omega), if_neg (by omega),
      if_neg (by omega)]
  · intro a1 ha1 hr1 hrp1 h0
    refine first_brace_error _ defaultFlags a1 _ (by rw [hx1]; exact hx) ha1 hr1 ?_ ?_
    · rw [hrp1, brace_text_one, charAt_at]
    · rw [hrp1, parse_brace_text_one pre dm post hm hm0, if_neg (by omega), if_pos h0]
  · intro a2 ha2 hr2 hrp2 h0
    refine first_brace_error _ defaultFlags a2 _ (by rw [hx2]; exact hx) ha2 hr2 ?_ ?_
    · rw [hrp2, brace_text_max, charAt_at]
    · rw [hrp2, parse_brace_text_max pre dn post hn hn0, if_neg (by omega), if_pos h0]

/-- C12 on `a{3,2}`: the atom `a` is accepted and stops at the brace, and the constructor
fails with the error of bounds in the wrong order. -/
theorem C12_brace_bounds_witness :
    brace_text [97] [3] [2] [] = bytes "a\x7b3,2\x7d"
      ∧ digits_value 0 [2] < digits_value 0 [3]
      ∧ CompileRE (brace_text [97] [3] [2] []) 0 = .error .range_backward := by
  have hatom : atom (brace_text [97] [3] [2] [])
      (compile_fuel (brace_text [97] [3] [2] []) - 5) (first_piece_state 0)
      = .ok { ret_val := Ptr.Compute_Size, flag := 3, range := { lower := 1, upper := 1 },
              cState := pass1_state 1 11 } := by decide!
  have k := (C12_brace_bounds [97] [3] [2] [] 0 _ (by decide) (by decide) (by decide)
    (by decide) (by decide) hatom (by decide) rfl).2.2.2.2.1 (by decide) (by decide) (by decide)
  exact ⟨by decide, by decide, k⟩

/-! ### A quantifier on an operand that may be empty -/

/-- C13: the regex `(a*){1,1}` applies a brace quantifier to a group that matches the empty
string, and the constructor returns a program for it: `piece` returns at `{1,1}` before its
check of the width of the operand.  The program matches the empty string at the head of `b`. -/
theorem C13_unit_brace_accepted :
    CompileRE (bytes "(a*)\x7b1,1\x7d") 0
        = .ok { program_ := [156, 1, 0, 34, 0, 20, 50, 0, 3, 34, 0, 11, 25, 0, 8, 7, 0, 0, 97,
                  0, 100, 0, 3, 1, 0, 0, 0],
                match_start_ := 0, anchor_ := 0, Total_Paren := 2, Num_Braces := 0 }
      ∧ outcome (compile_and_execute (bytes "(a*)\x7b1,1\x7d") 100 (bytes "b"))
        = .ok (some (true, [some 0, some 0, some 0, some 0])) := by
  constructor <;> decide!

/-- C13 (amended): a quantifier after an operand whose flag HAS_WIDTH is clear.  The function
`piece` fails, with the error on the empty operand when the quantifier is `*`, `+` or `?`;
the one quantifier that it accepts is a brace quantifier with both bounds 1, for which it
returns the operand as it is, the parse index moved after the quantifier.  The regexes
`(a*)*`, `(a|)+`, `(?=a)*` and `^*` make the constructor fail with that error. -/
theorem C13_empty_operand (exp : List Nat) (a : Res)
    (hq : isQuantifier (charAt exp a.cState.Reg_Parse) = true)
    (hw : a.flag &&& HAS_WIDTH = 0) :
    ((∃ e, piece_rest exp a = .error e)
        ∨ (charAt exp a.cState.Reg_Parse = 123
            ∧ (∃ rp, parse_brace exp (a.cState.Reg_Parse + 1) = .ok (REG_ONE, REG_ONE, rp))
            ∧ ∃ rp, piece_rest exp a = .ok { a with cState := { a.cState with Reg_Parse := rp } }))
      ∧ (charAt exp a.cState.Reg_Parse ≠ 123 → piece_rest exp a = .error .operand_could_be_empty)
      ∧ CompileRE (bytes "(a*)*") 0 = .error .operand_could_be_empty
      ∧ CompileRE (bytes "(a|)+") 0 = .error .operand_could_be_empty
      ∧ CompileRE (bytes "(?=a)*") 0 = .error .operand_could_be_empty
      ∧ CompileRE (bytes "^*") 0 = .error .operand_could_be_empty := by
  refine ⟨?_, ?_, by decide!, by decide!, by decide!, by decide!⟩
  · unfold piece_rest
    simp only [hq, Bool.not_true, Bool.false_eq_true, if_false]
    by_cases hb : charAt exp a.cState.Reg_Parse = 123
    · simp only [hb, if_true]
      cases hp : parse_brace exp (a.cState.Reg_Parse + 1) with
      | error e => exact Or.inl ⟨e, rfl⟩
      | ok r =>
        obtain ⟨min0, max0, rp0⟩ := r
        simp only []
        by_cases h1 : min0 = REG_ONE ∧ max0 = REG_ONE
        · right
          obtain ⟨h1a, h1b⟩ := h1
          subst h1a h1b
          refine ⟨trivial, ⟨rp0, rfl⟩, ?_⟩
          simp [REG_ONE, REG_ZERO, REG_INFINITY]
        · left
          simp only [hw, if_true, true_and]
          split_ifs with c1 c2 c3 c4 c5 c6
          all_goals first
            | exact ⟨_, rfl⟩
            | (exfalso; exact h1 (by tauto))
    · left
      simp only [hb, if_false, false_and]
      simp only [hw, if_true]
      exact ⟨_, rfl⟩
  · intro hb
    unfold piece_rest
    simp only [hq, Bool.not_true, Bool.false_eq_true, if_false]
    simp only [hb, if_false, false_and]
    simp only [hw, if_true]

theorem C13_empty_operand_witness :
    piece_rest (bytes "^*")
        { ret_val := Ptr.Compute_Size, flag := 0, range := { lower := 0, upper := 0 },
          cState := pass1_state 1 9 }
      = .error .operand_could_be_empty :=
  (C13_empty_operand (bytes "^*")
    { ret_val := Ptr.Compute_Size, flag := 0, range := { lower := 0, upper := 0 },
      cState := pass1_state 1 9 } (by decide) (by decide)).2.1 (by decide)

/-! ### A quantifier after a quantifier -/

theorem isQuantifier_cases (c : Nat) (h : isQuantifier c = true) :
    c = 42 ∨ c = 43 ∨ c = 63 ∨ c = 123 := by
  simpa [isQuantifier, or_assoc] using h

/-- The function `atom` fails at a quantifier: a brace follows nothing, or a `?`, `+` or `*`
follows nothing. -/
theorem atom_quantifier_error (exp : List Nat) (F : Nat) (s : CompileState)
    (hq : isQuantifier (charAt exp s.Reg_Parse) = true) :
    atom exp (F + 1) s
      = .error (if charAt exp s.Reg_Parse = 123 then .brace_follows_nothing
          else .follows_nothing) := by
  have hc := isQuantifier_cases _ hq
  rw [atom, skip_comments_plain exp _ (by omega)]
  simp only []
  rcases hc with hc | hc | hc | hc <;> rw [hc] <;> rfl

/-- An error in the first alternative of a regex is the error of the constructor. -/
theorem first_alternative_error (exp : List Nat) (defaultFlags : Nat) (e : CompileError)
    (h : alternative_loop exp (compile_fuel exp - 3) Ptr.null WORST { lower := 0, upper := 0 }
      (first_piece_state defaultFlags) = .error e) :
    CompileRE exp defaultFlags = .error e := by
  have hf : compile_fuel exp = (compile_fuel exp - 3) + 1 + 1 + 1 := by
    unfold compile_fuel; omega
  generalize compile_fuel exp - 3 = F at h hf
  unfold CompileRE compile_pass
  rw [hf, chunk, chunk_open_NO_PAREN]
  simp only []
  rw [chunk_loop, alternative]
  simp only []
  have h' : alternative_loop exp F Ptr.null WORST { lower := 0, upper := 0 }
      (emit_node BRANCH (emit_byte 37 (emit_byte 37 (emit_byte MAGIC
      (pass_init defaultFlags Ptr.Compute_Size 0 []))))).2 = .error e := h
  rw [h']

/-- The loop of `alternative` fails when a quantifier follows what `piece` has returned:
`atom` fails on the quantifier. -/
theorem alternative_loop_quantifier (exp : List Nat) (F : Nat) (chain : Ptr) (flag : Nat)
    (range : len_range) (s : CompileState) (l : Res)
    (hc : ¬ (charAt exp s.Reg_Parse = 124 ∨ charAt exp s.Reg_Parse = 41
      ∨ charAt exp s.Reg_Parse = 0))
    (hp : piece exp (F + 3) s = .ok l) (hn : l.ret_val ≠ Ptr.null)
    (hq : isQuantifier (charAt exp l.cState.Reg_Parse) = true) :
    alternative_loop exp (F + 4) chain flag range s
      = .error (if charAt exp l.cState.Reg_Parse = 123 then .brace_follows_nothing
          else .follows_nothing) := by
  rw [alternative_loop]
  simp only []
  rw [if_neg hc, hp]
  simp only []
  rw [if_neg hn]
  have hrp : (if chain ≠ Ptr.null then tail chain l.ret_val l.cState else l.cState).Reg_Parse
      = l.cState.Reg_Parse := by
    split
    · exact Reg_Parse_tail _ _ _
    · rfl
  generalize (if chain ≠ Ptr.null then tail chain l.ret_val l.cState else l.cState) = cs
    at hrp
  rw [← hrp] at hq ⊢
  have hcs := isQuantifier_cases _ hq
  rw [alternative_loop]
  simp only []
  rw [if_neg (by omega), piece, atom_quantifier_error exp F cs hq]

theorem Reg_Parse_insert (op : Nat) (pos : Ptr) (min max index : Nat) (s : CompileState) :
    (insert op pos min max index s).2.Reg_Parse = s.Reg_Parse := by
  by_cases h : s.Code_Emit_Ptr = Ptr.Compute_Size
  · simp [insert, h]
  · by_cases h1 : op = BRACE ∨ op = LAZY_BRACE
    · simp [insert, h, h1]
    · by_cases h2 : op = INIT_COUNT <;> simp [insert, h, h1, h2]

theorem Reg_Parse_emit_special (op test_val index : Nat) (s : CompileState) :
    (emit_special op test_val index s).2.Reg_Parse = s.Reg_Parse := by
  unfold emit_special
  split_ifs <;> first | rfl | exact Reg_Parse_emit_node op s

theorem Reg_Parse_offset_tail (p : Ptr) (k : Int) (v : Ptr) (s : CompileState) :
    (offset_tail p k v s).Reg_Parse = s.Reg_Parse := by
  unfold offset_tail
  split
  · rfl
  · exact Reg_Parse_tail _ _ _

theorem Reg_Parse_piece_emit_loop (op : Nat) (lazy : Bool) (rv : Ptr) (s : CompileState) :
    (piece_emit_loop op lazy rv s).Reg_Parse = s.Reg_Parse := by
  unfold piece_emit_loop
  split_ifs <;>
    simp only [Reg_Parse_tail, Reg_Parse_offset_tail, Reg_Parse_emit_node, Reg_Parse_insert]

theorem Reg_Parse_piece_emit_brace (lazy : Bool) (min max : Nat) (rv : Ptr) (s : CompileState) :
    (piece_emit_brace lazy min max rv s).Reg_Parse = s.Reg_Parse := by
  unfold piece_emit_brace
  show (_ : CompileState).Reg_Parse = _
  split_ifs <;>
    simp only [Reg_Parse_tail, Reg_Parse_offset_tail, Reg_Parse_emit_node, Reg_Parse_insert,
      Reg_Parse_emit_special]

/-- The code generation of `piece` for a quantifier returns, and leaves the parse index where
it was. -/
theorem piece_emit_ok (op : Nat) (lazy : Bool) (fl min max : Nat) (rv : Ptr) (s : CompileState)
    (hop : op = 42 ∨ op = 43 ∨ op = 63 ∨ op = 123) :
    ∃ cs1, piece_emit op lazy fl min max rv s = .ok cs1 ∧ cs1.Reg_Parse = s.Reg_Parse := by
  unfold piece_emit
  by_cases h1 : op = 42 ∧ fl &&& SIMPLE ≠ 0
  · rw [if_pos h1]; exact ⟨_, rfl, Reg_Parse_insert _ _ _ _ _ _⟩
  rw [if_neg h1]
  by_cases h2 : op = 43 ∧ fl &&& SIMPLE ≠ 0
  · rw [if_pos h2]; exact ⟨_, rfl, Reg_Parse_insert _ _ _ _ _ _⟩
  rw [if_neg h2]
  by_cases h3 : op = 63 ∧ fl &&& SIMPLE ≠ 0
  · rw [if_pos h3]; exact ⟨_, rfl, Reg_Parse_insert _ _ _ _ _ _⟩
  rw [if_neg h3]
  by_cases h4 : op = 123 ∧ fl &&& SIMPLE ≠ 0
  · rw [if_pos h4]; exact ⟨_, rfl, Reg_Parse_insert _ _ _ _ _ _⟩
  rw [if_neg h4]
  by_cases h5 : op = 42 ∨ op = 43 ∨ op = 63
  · rw [if_pos h5]; exact ⟨_, rfl, Reg_Parse_piece_emit_loop _ _ _ _⟩
  rw [if_neg h5]
  by_cases h6 : op = 123
  · rw [if_pos h6]; exact ⟨_, rfl, Reg_Parse_piece_emit_brace _ _ _ _ _⟩
  · rcases hop with h | h | h | h
    · exact absurd (Or.inl h) h5
    · exact absurd (Or.inr (Or.inl h)) h5
    · exact absurd (Or.inr (Or.inr h)) h5
    · exact absurd h h6

/-- The function `piece` on an atom with a quantifier that another quantifier follows: it
returns only when the first quantifier is a brace quantifier with both bounds 1, with the
parse index at the second quantifier, and fails otherwise, with the error on the second
quantifier unless there are too many brace constructs or the operand may be empty. -/
theorem piece_rest_two_quantifiers (exp : List Nat) (a : Res) (min0 max0 rp0 : Nat)
    (hq1 : isQuantifier (charAt exp a.cState.Reg_Parse) = true)
    (hparse : (if charAt exp a.cState.Reg_Parse = 123 then
          parse_brace exp (a.cState.Reg_Parse + 1)
        else .ok (REG_ZERO, REG_INFINITY, a.cState.Reg_Parse)) = .ok (min0, max0, rp0))
    (hq2 : isQuantifier (charAt exp (if charAt exp (rp0 + 1) = 63 then rp0 + 1 + 1
      else rp0 + 1)) = true) :
    piece_rest exp a
      = if charAt exp a.cState.Reg_Parse = 123 ∧ min0 = 1 ∧ max0 = 1 then
          .ok { a with cState := { a.cState with
            Reg_Parse := if charAt exp (rp0 + 1) = 63 then rp0 + 1 + 1 else rp0 + 1 } }
        else .error
          (if charAt exp a.cState.Reg_Parse = 123 ∧ ¬ (min0 = 0 ∧ max0 = 0)
              ∧ ¬ (min0 = 1 ∧ max0 = 0) ∧ ¬ (min0 = 0 ∧ max0 = 1)
              ∧ a.cState.Num_Braces > 255 then .too_many_braces
           else if a.flag &&& HAS_WIDTH = 0 then .operand_could_be_empty
           else .nested_quantifiers) := by
  have hq := isQuantifier_cases _ hq1
  unfold piece_rest
  simp only [hq1, hparse, Bool.not_true, Bool.false_eq_true, if_false, REG_ZERO, REG_ONE,
    REG_INFINITY, decide_eq_true_eq]
  generalize hop : (if charAt exp a.cState.Reg_Parse = 123 then
      if min0 = 0 ∧ max0 = 0 then 42
      else if min0 = 1 ∧ max0 = 0 then 43 else if min0 = 0 ∧ max0 = 1 then 63 else 123
    else charAt exp a.cState.Reg_Parse) = op1
  have hop1 : op1 = 42 ∨ op1 = 43 ∨ op1 = 63 ∨ op1 = 123 := by
    rw [← hop]
    by_cases hb : charAt exp a.cState.Reg_Parse = 123
    · rw [if_pos hb]
      split_ifs <;> simp
    · rw [if_neg hb]
      exact hq
  have hop2 : charAt exp a.cState.Reg_Parse = 123 →
      (op1 = 123 ↔ (¬ (min0 = 0 ∧ max0 = 0) ∧ ¬ (min0 = 1 ∧ max0 = 0)
        ∧ ¬ (min0 = 0 ∧ max0 = 1))) := by
    intro hb
    rw [← hop, if_pos hb]
    split_ifs with c1 c2 c3
    · simp [c1]
    · simp [c2]
    · simp [c3]
    · simp [c1, c2, c3]
  by_cases hu : charAt exp a.cState.Reg_Parse = 123 ∧ min0 = 1 ∧ max0 = 1
  · have h123 : op1 = 123 := (hop2 hu.1).mpr (by omega)
    rw [if_pos ⟨hu.1, h123, hu.2⟩, if_pos hu]
  · rw [if_neg (fun h => hu ⟨h.1, h.2.2⟩), if_neg hu]
    by_cases ht : charAt exp a.cState.Reg_Parse = 123 ∧ op1 = 123 ∧ a.cState.Num_Braces > 255
    · rw [if_pos ht]
      have h3 := (hop2 ht.1).mp ht.2.1
      rw [if_pos ⟨ht.1, h3.1, h3.2.1, h3.2.2, ht.2.2⟩]
    · rw [if_neg ht]
      have ht2 : ¬ (charAt exp a.cState.Reg_Parse = 123 ∧ ¬ (min0 = 0 ∧ max0 = 0)
          ∧ ¬ (min0 = 1 ∧ max0 = 0) ∧ ¬ (min0 = 0 ∧ max0 = 1)
          ∧ a.cState.Num_Braces > 255) :=
        fun h => ht ⟨h.1, (hop2 h.1).mpr ⟨h.2.1, h.2.2.1, h.2.2.2.1⟩, h.2.2.2.2⟩
      rw [if_neg ht2]
      by_cases hw : a.flag &&& HAS_WIDTH = 0
      · rw [if_pos hw, if_pos hw]
      · rw [if_neg hw, if_neg hw]
        obtain ⟨cs1, e1, e2⟩ := piece_emit_ok op1 (decide (charAt exp (rp0 + 1) = 63)) a.flag
          (if op1 = 43 then 1 else min0) (if op1 = 63 then 1 else max0) a.ret_val
          { a.cState with
            Reg_Parse := if charAt exp (rp0 + 1) = 63 then rp0 + 1 + 1 else rp0 + 1 } hop1
        rw [e1]
        simp only []
        rw [e2, if_pos hq2]

/-- The function `piece` accepts a quantifier that another quantifier follows only when
the first is a brace quantifier with both bounds 1. -/
theorem piece_rest_second_quantifier (exp : List Nat) (a : Res)
    (hq1 : isQuantifier (charAt exp a.cState.Reg_Parse) = true) :
    OkAll (fun r => isQuantifier (charAt exp r.cState.Reg_Parse) = true →
        charAt exp a.cState.Reg_Parse = 123
          ∧ ∃ rp, parse_brace exp (a.cState.Reg_Parse + 1) = .ok (REG_ONE, REG_ONE, rp))
      (piece_rest exp a) := by
  unfold piece_rest
  simp only []
  apply OkAll.ite <;> intro h0
  · rw [hq1] at h0
    cases h0
  split
  · exact OkAll.error
  · rename_i min0 max0 rp0 hparsed
    apply OkAll.ite <;> intro h1
    · apply OkAll.ok
      intro _
      refine ⟨h1.1, rp0, ?_⟩
      rw [if_pos h1.1] at hparsed
      rw [hparsed, h1.2.2.1, h1.2.2.2]
    apply OkAll.ite <;> intro _
    · exact OkAll.error
    apply OkAll.ite <;> intro _
    · exact OkAll.error
    split
    · exact OkAll.error
    · apply OkAll.ite <;> intro hn
      · exact OkAll.error
      · apply OkAll.ok
        intro hq2
        exact absurd hq2 hn

/-- C14: a regex whose first piece is an atom with a quantifier (the lazy `?` included) that
a second quantifier follows: `atom` returns a node for the atom and stops at the first
quantifier, a well-formed one, and the character after it, and after its lazy mark, is a
quantifier.  The constructor fails: when the first quantifier is a brace quantifier with both
bounds 1, `piece` returns at it and `atom` fails on the second quantifier, which follows
nothing; otherwise `piece` fails by itself, with the error of nested quantifiers unless there
are too many brace constructs or the operand may be empty.  The function `piece` accepts a
quantifier that another quantifier follows only when the first is a brace quantifier with
both bounds 1.  The regexes `a**`, `a+*`, `a?+`, `a*??`, `a{2,3}*`, `a{2,3}{4}`, `a{1,1}*`
and `a{1,1}{2}` fail, and the lazy form `a*?` does not. -/
theorem C14_nested_quantifiers (exp : List Nat) (defaultFlags : Nat) (a : Res)
    (min0 max0 rp0 : Nat)
    (hc : ¬ (charAt exp 0 = 124 ∨ charAt exp 0 = 41 ∨ charAt exp 0 = 0))
    (hatom : atom exp (compile_fuel exp - 5) (first_piece_state defaultFlags) = .ok a)
    (hret : a.ret_val ≠ Ptr.null)
    (hq1 : isQuantifier (charAt exp a.cState.Reg_Parse) = true)
    (hparse : (if charAt exp a.cState.Reg_Parse = 123 then
          parse_brace exp (a.cState.Reg_Parse + 1)
        else .ok (REG_ZERO, REG_INFINITY, a.cState.Reg_Parse)) = .ok (min0, max0, rp0))
    (hq2 : isQuantifier (charAt exp (if charAt exp (rp0 + 1) = 63 then rp0 + 1 + 1
      else rp0 + 1)) = true) :
    CompileRE exp defaultFlags
        = .error
          (if charAt exp a.cState.Reg_Parse = 123 ∧ min0 = 1 ∧ max0 = 1 then
            (if charAt exp (if charAt exp (rp0 + 1) = 63 then rp0 + 1 + 1 else rp0 + 1) = 123
              then .brace_follows_nothing else .follows_nothing)
           else if charAt exp a.cState.Reg_Parse = 123 ∧ ¬ (min0 = 0 ∧ max0 = 0)
              ∧ ¬ (min0 = 1 ∧ max0 = 0) ∧ ¬ (min0 = 0 ∧ max0 = 1)
              ∧ a.cState.Num_Braces > 255 then .too_many_braces
           else if a.flag &&& HAS_WIDTH = 0 then .operand_could_be_empty
           else .nested_quantifiers)
      ∧ (∀ a r, piece_rest exp a = .ok r →
          isQuantifier (charAt exp a.cState.Reg_Parse) = true →
          isQuantifier (charAt exp r.cState.Reg_Parse) = true →
          charAt exp a.cState.Reg_Parse = 123
            ∧ ∃ rp, parse_brace exp (a.cState.Reg_Parse + 1) = .ok (REG_ONE, REG_ONE, rp))
      ∧ CompileRE (bytes "a**") 0 = .error .nested_quantifiers
      ∧ CompileRE (bytes "a+*") 0 = .error .nested_quantifiers
      ∧ CompileRE (bytes "a?+") 0 = .error .nested_quantifiers
      ∧ CompileRE (bytes "a*??") 0 = .error .nested_quantifiers
      ∧ CompileRE (bytes "a\x7b2,3\x7d*") 0 = .error .nested_quantifiers
      ∧ CompileRE (bytes "a\x7b2,3\x7d\x7b4\x7d") 0 = .error .nested_quantifiers
      ∧ CompileRE (bytes "a\x7b1,1\x7d*") 0 = .error .follows_nothing
      ∧ CompileRE (bytes "a\x7b1,1\x7d\x7b2\x7d") 0 = .error .brace_follows_nothing
      ∧ (CompileRE (bytes "a*?") 0).map (fun re => re.program_.length) = .ok 18 := by
  refine ⟨?_, ?_, by decide!, by decide!, by decide!, by decide!, by decide!, by decide!,
    by decide!, by decide!, by decide!⟩
  · have hpr := piece_rest_two_quantifiers exp a min0 max0 rp0 hq1 hparse hq2
    have hcf : 16 ≤ compile_fuel exp := by unfold compile_fuel; omega
    have hpiece : piece exp (compile_fuel exp - 4) (first_piece_state defaultFlags)
        = piece_rest exp a := by
      rw [show compile_fuel exp - 4 = (compile_fuel exp - 5) + 1 by omega, piece, hatom]
      simp only []
      rw [if_neg hret]
    by_cases hu : charAt exp a.cState.Reg_Parse = 123 ∧ min0 = 1 ∧ max0 = 1
    · rw [if_pos hu] at hpr ⊢
      rw [hpr] at hpiece
      apply first_alternative_error
      rw [show compile_fuel exp - 3 = (compile_fuel exp - 7) + 4 by omega]
      exact alternative_loop_quantifier exp (compile_fuel exp - 7) Ptr.null WORST
        { lower := 0, upper := 0 } (first_piece_state defaultFlags)
        { a with cState := { a.cState with
            Reg_Parse := if charAt exp (rp0 + 1) = 63 then rp0 + 1 + 1 else rp0 + 1 } } hc
        (by rw [show compile_fuel exp - 7 + 3 = compile_fuel exp - 4 by omega]; exact hpiece)
        hret hq2
    · rw [if_neg hu] at hpr ⊢
      apply first_piece_error exp defaultFlags _ hc
      rw [hpiece, hpr]
  · intro a r hr hq1 hq2
    exact piece_rest_second_quantifier exp a hq1 r hr hq2

set_option maxRecDepth 100000 in
/-- C14 on `a{1,1}*`: the atom `a` stops at the brace quantifier with both bounds 1, a `*`
follows it, and the constructor fails: the `*` follows nothing. -/
theorem C14_nested_quantifiers_witness :
    CompileRE (bytes "a\x7b1,1\x7d*") 0 = .error .follows_nothing := by
  have hatom : atom (bytes "a\x7b1,1\x7d*") (compile_fuel (bytes "a\x7b1,1\x7d*") - 5)
      (first_piece_state 0)
      = .ok { ret_val := Ptr.Compute_Size, flag := 3, range := { lower := 1, upper := 1 },
              cState := pass1_state 1 11 } := by decide!
  exact (C14_nested_quantifiers (bytes "a\x7b1,1\x7d*") 0 _ 1 1 5 (by decide) hatom (by decide)
    (by decide) (by decide!) (by decide)).1

/-! ### The limit on the number of capturing groups -/

theorem Closed_Parens_close_bounds (elbb : Ptr) (range : len_range) (s : CompileState) :
    (close_bounds elbb range s).Closed_Parens = s.Closed_Parens := by
  unfold close_bounds
  split <;> rfl

theorem Closed_Parens_close_advance (paren : Nat) (s : CompileState) :
    (close_advance paren s).Closed_Parens = s.Closed_Parens := by
  unfold close_advance
  split <;> rfl

theorem Closed_Parens_close_node (paren this_paren : Nat) (s : CompileState) :
    (close_node paren this_paren s).2.Closed_Parens = s.Closed_Parens := by
  unfold close_node
  split_ifs <;> exact Closed_Parens_emit_node _ _

theorem Closed_Parens_close_record (exp : List Nat) (this_paren flag : Nat) (s : CompileState)
    (h : this_paren ≤ 32) :
    (close_record exp PAREN this_paren flag s).Closed_Parens
      = s.Closed_Parens.set this_paren true := by
  unfold close_record
  simp only [h, decide_True, Bool.and_self, if_true]
  split <;> rfl

/-- The function `chunk`, when it closes the capturing group `N`, sets the bit `N` of
`Closed_Parens`. -/
theorem chunk_close_closed (exp : List Nat) (N : Nat) (look_only : Bool) (elbb : Ptr)
    (os onl : Bool) (rv : Ptr) (flag : Nat) (range : len_range) (s : CompileState) (r : Res)
    (hN : N < s.Closed_Parens.length) (h32 : N ≤ 32)
    (h : chunk_close exp PAREN N look_only elbb os onl rv flag range s = .ok r) :
    r.cState.Closed_Parens.getD N false = true := by
  rw [chunk_close_eq] at h
  unfold chunk_close_rest at h
  split_ifs at h
  all_goals
    have h2 := Except.ok.inj h
    subst h2
    show (close_record exp PAREN N flag _).Closed_Parens.getD N false = true
    rw [Closed_Parens_close_record _ _ _ _ h32, Closed_Parens_close_bounds,
      Closed_Parens_close_advance, Closed_Parens_chunk_hook, Closed_Parens_tail,
      Closed_Parens_close_node]
    simp [List.getD_eq_getElem?_getD, List.getElem?_set, hN]

theorem emit_node_fst (op : Nat) (s : CompileState) : (emit_node op s).1 = s.Code_Emit_Ptr := by
  unfold emit_node
  simp only []
  split <;> rfl

/-- C15: a back reference `\N`, with `N` from 1 to 9, at the parse index of `atom`.  When the
bit `N` of `Closed_Parens` is clear `atom` fails with the error on the back reference, and
when it is set `atom` returns, the parse index after the two characters (in a state of the
compiler, where the emit pointer is not null).  No bit is set at
the head of a pass, and `chunk` sets the bit `N` when it closes the capturing group `N`.
The regex `(a)\1` compiles; `(a)\2`, where no group 2 exists, `\1(a)`, where group 1 is
opened later, and `(a\1)`, where group 1 is still open, fail with the error. -/
theorem C15_back_reference_closed (exp : List Nat) (F : Nat) (s : CompileState) (N : Nat)
    (h1 : 1 ≤ N) (h9 : N ≤ 9) (hb : charAt exp s.Reg_Parse = 92)
    (hd : charAt exp (s.Reg_Parse + 1) = 48 + N) (hp : s.Code_Emit_Ptr ≠ Ptr.null) :
    (s.Closed_Parens.getD N false = false →
        atom exp (F + 1) s = .error .illegal_back_reference)
      ∧ (s.Closed_Parens.getD N false = true →
          ∃ a, atom exp (F + 1) s = .ok a ∧ a.cState.Reg_Parse = s.Reg_Parse + 2
            ∧ a.range = { lower := -1, upper := -1 })
      ∧ (∀ defaultFlags ptr size program,
          (pass_init defaultFlags ptr size program).Closed_Parens.getD N false = false)
      ∧ (∀ look_only elbb os onl rv flag range cs r, N < cs.Closed_Parens.length →
          chunk_close exp PAREN N look_only elbb os onl rv flag range cs = .ok r →
          r.cState.Closed_Parens.getD N false = true)
      ∧ (CompileRE (bytes "(a)\\1") 0).map (fun re => re.program_.length) = .ok 28
      ∧ CompileRE (bytes "(a)\\2") 0 = .error .illegal_back_reference
      ∧ CompileRE (bytes "\\1(a)") 0 = .error .illegal_back_reference
      ∧ CompileRE (bytes "(a\\1)") 0 = .error .illegal_back_reference := by
  refine ⟨?_, ?_, ?_, ?_, by decide!, by decide!, by decide!, by decide!⟩
  · intro hc
    have hc' : s.Closed_Parens[N]?.getD false = false := by simpa using hc
    rw [atom, skip_comments_plain exp _ (by omega)]
    simp [hb, hd, shortcut_escape_digit N _ _ h1 h9, back_ref_digit N _ _ h1 h9, hc']
  · intro hc
    have hc' : s.Closed_Parens[N]?.getD false = true := by simpa using hc
    rw [atom, skip_comments_plain exp _ (by omega)]
    simp [hb, hd, shortcut_escape_digit N _ _ h1 h9, back_ref_digit N _ _ h1 h9, hc']
    have hne : ∀ op, (emit_node op { s with Reg_Parse := s.Reg_Parse + 1 }).1 ≠ Ptr.null := by
      intro op
      rw [emit_node_fst]
      exact hp
    have hne2 : ¬ ((if s.Is_Case_Insensitive = true then
          emit_node 40 { s with Reg_Parse := s.Reg_Parse + 1 }
        else emit_node 39 { s with Reg_Parse := s.Reg_Parse + 1 }).1 = Ptr.null) := by
      split <;> exact hne _
    rw [if_neg hne2]
    exact ⟨_, rfl, rfl, rfl⟩
  · intro defaultFlags ptr size program
    simp only [pass_init]
    interval_cases N <;> rfl
  · intro look_only elbb os onl rv flag range cs r hN h
    exact chunk_close_closed exp N look_only elbb os onl rv flag range cs r hN (by omega) h

theorem C15_back_reference_closed_witness :
    atom (bytes "\\1") 1 (pass1_state 0 6) = .error .illegal_back_reference :=
  (C15_back_reference_closed (bytes "\\1") 0 (pass1_state 0 6) 1 (by decide) (by decide)
    (by decide) (by decide) (by decide)).1 (by decide)

/-! ### A back reference after an abandoned capture -/

/-- C16: a back reference that matches with a capture of an abandoned try.  On `aba` the
regex `(?:b|(a))\1` fails at offset 0, where group 1 has captured `a`, and then matches
[1,3) at offset 1 through the branch `b`, in which group 1 takes no part: the back reference
compares with the `a` of offset 0 (on `ba`, where nothing was captured before, the same
branch fails).  On `aa` the regex `(?:(a)x|a)\1` matches [0,2): the back reference uses the
capture of the first branch, which was abandoned.  In both matches group 1 is reported as
not set. -/
theorem C16_stale_back_reference :
    outcome (compile_and_execute (bytes "(?:b|(a))\\1") 400 (bytes "aba"))
        = .ok (some (true, [some 1, some 3, none, none]))
      ∧ outcome (compile_and_execute (bytes "(?:b|(a))\\1") 400 (bytes "ba"))
        = .ok (some (false, [none, none, none, none]))
      ∧ outcome (compile_and_execute (bytes "(?:(a)x|a)\\1") 400 (bytes "aa"))
        = .ok (some (true, [some 0, some 2, none, none])) := by
  refine ⟨?_, ?_, ?_⟩ <;> decide!

/-! ### Capture slots are written once -/

theorem SomeAll.none {α : Type} {P : α → Prop} : SomeAll P (Option.none : Option α) := by
  intro a h
  cases h

theorem SomeAll.some {α : Type} {P : α → Prop} {a : α} (h : P a) :
    SomeAll P (Option.some a) := by
  intro b hb
  cases hb
  exact h

theorem SomeAll.ite_some {α : Type} {P : α → Prop} {c : Prop} [Decidable c] {x y : Option α}
    (hx : c → SomeAll P x) (hy : ¬ c → SomeAll P y) : SomeAll P (if c then x else y) := by
  split
  · exact hx ‹_›
  · exact hy ‹_›

theorem SlotsKept.kept_refl (s : ExecState) : SlotsKept s s := ⟨fun _ _ h => h, fun _ _ h => h⟩

theorem SlotsKept.kept_trans {s t u : ExecState} (h1 : SlotsKept s t) (h2 : SlotsKept t u) :
    SlotsKept s u :=
  ⟨fun i v h => h2.1 i v (h1.1 i v h), fun i v h => h2.2 i v (h1.2 i v h)⟩

theorem SlotsKept.of_slots {s t u : ExecState} (h : slots u = slots t) (h1 : SlotsKept s t) :
    SlotsKept s u := by
  unfold SlotsKept
  rw [h]
  exact h1

theorem SlotsKept.slots_left {s t u : ExecState} (h : slots t = slots s) (h1 : SlotsKept t u) :
    SlotsKept s u := by
  unfold SlotsKept
  rw [← h]
  exact h1

theorem SlotsKept.kept_of_eq {s t : ExecState} (h : slots t = slots s) : SlotsKept s t :=
  SlotsKept.of_slots h (SlotsKept.kept_refl s)

/-- A start slot written while it is not set keeps the slots that are set. -/
theorem SlotsKept.set_start (st : ExecState) (no : Nat) (v : Option Nat)
    (h : st.startp_.getD no none = none) :
    SlotsKept st { st with startp_ := st.startp_.set no v } := by
  refine ⟨fun i w hw => ?_, fun _ _ hw => hw⟩
  show (st.startp_.set no v).getD i none = some w
  have hi : no ≠ i := by
    intro e
    subst e
    have : st.startp_.getD no none = some w := hw
    rw [h] at this
    cases this
  have hw' : st.startp_.getD i none = some w := hw
  simpa [List.getD_eq_getElem?_getD, List.getElem?_set, hi] using hw'

/-- An end slot written while it is not set keeps the slots that are set. -/
theorem SlotsKept.set_end (st : ExecState) (no : Nat) (v : Option Nat)
    (h : st.endp_.getD no none = none) :
    SlotsKept st { st with endp_ := st.endp_.set no v } := by
  refine ⟨fun _ _ hw => hw, fun i w hw => ?_⟩
  show (st.endp_.set no v).getD i none = some w
  have hi : no ≠ i := by
    intro e
    subst e
    have : st.endp_.getD no none = some w := hw
    rw [h] at this
    cases this
  have hw' : st.endp_.getD i none = some w := hw
  simpa [List.getD_eq_getElem?_getD, List.getElem?_set, hi] using hw'

theorem slots_update_extent_FW (s : ExecState) : slots (update_extent_FW s) = slots s := by
  unfold update_extent_FW
  split
  · rfl
  · split <;> rfl

theorem slots_greedy (program text : List Nat) (delimiters : List Bool) (p : Ptr) (max : Nat)
    (s : ExecState) : slots (greedy program text delimiters p max s).2 = slots s := rfl

theorem ite_state {P : ExecState → Prop} {c : Prop} [Decidable c] {x y : Step}
    (hx : c → P x.state) (hy : ¬ c → P y.state) : P (if c then x else y).state := by
  split
  · exact hx ‹_›
  · exact hy ‹_›

theorem slots_match_plain (program text : List Nat) (delimiters : List Bool) (scan next : Ptr)
    (s : ExecState) : slots (match_plain program text delimiters scan next s).state = slots s := by
  unfold match_plain
  simp only []
  apply ite_state (P := fun t => slots t = slots s) <;> intro _
  · split <;> rfl
  apply ite_state (P := fun t => slots t = slots s) <;> intro _
  · apply ite_state (P := fun t => slots t = slots s) <;> intro _ <;> rfl
  apply ite_state (P := fun t => slots t = slots s) <;> intro _
  · split <;> rfl
  apply ite_state (P := fun t => slots t = slots s) <;> intro _
  · exact slots_update_extent_FW _
  apply ite_state (P := fun t => slots t = slots s) <;> intro _
  · rfl
  apply ite_state (P := fun t => slots t = slots s) <;> intro _
  · rfl
  apply ite_state (P := fun t => slots t = slots s) <;> intro _
  · apply ite_state (P := fun t => slots t = slots s) <;> intro _ <;> rfl
  apply ite_state (P := fun t => slots t = slots s) <;> intro _
  · split
    · apply ite_state (P := fun t => slots t = slots s) <;> intro _
      · rfl
      · apply ite_state (P := fun t => slots t = slots s) <;> intro _ <;> rfl
    · rfl
  apply ite_state (P := fun t => slots t = slots s) <;> intro _
  · rfl
  · rfl
theorem SlotsKept.kept_match_return {s st : ExecState} (x : Bool) (h : SlotsKept s st) :
    SomeAll (fun r => SlotsKept s r.2) (MATCH_RETURN x st) := by
  unfold MATCH_RETURN
  exact SomeAll.some (SlotsKept.of_slots rfl h)

/-- Within `match`, a capture slot that is set is never written again: every slot that is
set in the state at the entry holds the same position in the state at the exit. -/
theorem match_keeps (program text : List Nat) (delimiters : List Bool) (fuel : Nat) :
    (∀ (prog : Ptr) (bip : Bool) (s : ExecState),
      SomeAll (fun r => SlotsKept s r.2) (match_ program text delimiters fuel prog bip s))
    ∧ (∀ (scan : Ptr) (bip : Bool) (s : ExecState),
      SomeAll (fun r => SlotsKept s r.2) (match_loop program text delimiters fuel scan bip s))
    ∧ (∀ (scan : Ptr) (bip : Bool) (s : ExecState),
      SomeAll (fun r => SlotsKept s r.state)
        (match_node program text delimiters fuel scan bip s))
    ∧ (∀ (scan : Ptr) (bil : Nat) (bip : Bool) (s : ExecState),
      SomeAll (fun r => SlotsKept s r.state)
        (match_branch program text delimiters fuel scan bil bip s))
    ∧ (∀ (next next_op : Ptr) (nc min max : Nat) (lazy : Bool) (save nm : Nat) (s : ExecState),
      SomeAll (fun r => SlotsKept s r.state)
        (match_repeat program text delimiters fuel next next_op nc min max lazy save nm s))
    ∧ (∀ (next : Ptr) (save offset upper : Nat) (s : ExecState),
      SomeAll (fun r => SlotsKept s r.2)
        (match_behind program text delimiters fuel next save offset upper s)) := by
  induction fuel with
  | zero =>
    refine ⟨?_, ?_, ?_, ?_, ?_, ?_⟩
    · intro _ _ _; rw [match_]; exact SomeAll.none
    · intro _ _ _; rw [match_loop]; exact SomeAll.none
    · intro _ _ _; rw [match_node]; exact SomeAll.none
    · intro _ _ _ _; rw [match_branch]; exact SomeAll.none
    · intro _ _ _ _ _ _ _ _ _; rw [match_repeat]; exact SomeAll.none
    · intro _ _ _ _ _; rw [match_behind]; exact SomeAll.none
  | succ n ih =>
    obtain ⟨ihm, ihl, ihn, ihb, ihr, ihh⟩ := ih
    refine ⟨?_, ?_, ?_, ?_, ?_, ?_⟩
    · intro prog bip s
      rw [match_]
      apply SomeAll.ite_some <;> intro _
      · exact SlotsKept.kept_match_return _ (SlotsKept.kept_of_eq rfl)
      · intro r h
        exact (by have hh := (ihl _ _ _ r h); exact SlotsKept.slots_left rfl hh)
    · intro scan bip s
      rw [match_loop]
      apply SomeAll.ite_some <;> intro _
      · exact SlotsKept.kept_match_return _ (SlotsKept.kept_refl _)
      split
      · exact SomeAll.none
      · rename_i x st h
        exact SlotsKept.kept_match_return _ (ihn _ _ _ _ h)
      · rename_i scan1 st h
        intro r hr
        exact (ihn _ _ _ _ h).kept_trans (ihl _ _ _ r hr)
    · intro scan bip s
      rw [match_node]
      simp only []
      apply SomeAll.ite_some <;> intro _
      · apply SomeAll.ite_some <;> intro _
        · exact SomeAll.some (SlotsKept.kept_refl _)
        · exact ihb _ _ _ _
      apply SomeAll.ite_some <;> intro _
      · intro r hr
        refine SlotsKept.slots_left ?_ (ihr _ _ _ _ _ _ _ _ _ r hr)
        split
        · split
          · rfl
          · rfl
        · rfl
      apply SomeAll.ite_some <;> intro _
      · split
        · exact SomeAll.none
        · rename_i answer st h
          have h1 : SlotsKept s st := (by have hh := (ihm _ _ _ _ h); exact SlotsKept.slots_left rfl hh)
          apply SomeAll.ite_some <;> intro _
          · exact SomeAll.some h1
          apply SomeAll.ite_some <;> intro _
          · split
            · exact SomeAll.none
            · apply SomeAll.some
              exact SlotsKept.of_slots (slots_update_extent_FW st) h1
          · exact SomeAll.some h1
      apply SomeAll.ite_some <;> intro _
      · split
        · exact SomeAll.none
        · rename_i st h
          exact SomeAll.some ((by have hh := (ihh _ _ _ _ _ _ h); exact SlotsKept.slots_left rfl hh))
        · rename_i found st h
          have h1 : SlotsKept s st := (by have hh := (ihh _ _ _ _ _ _ h); exact SlotsKept.slots_left rfl hh)
          apply SomeAll.ite_some <;> intro _
          · split
            · exact SomeAll.none
            · exact SomeAll.some h1
          · exact SomeAll.some h1
      apply SomeAll.ite_some <;> intro _
      · split
        · exact SomeAll.none
        · rename_i st h
          have h1 : SlotsKept s st := by
            refine SlotsKept.slots_left ?_ (ihm _ _ _ _ h)
            split <;> rfl
          apply SomeAll.ite_some <;> intro h2
          · exact SomeAll.some (h1.kept_trans (SlotsKept.set_start st _ _ h2))
          · exact SomeAll.some h1
        · rename_i st h
          apply SomeAll.some
          refine SlotsKept.slots_left ?_ (ihm _ _ _ _ h)
          split <;> rfl
      apply SomeAll.ite_some <;> intro _
      · split
        · exact SomeAll.none
        · rename_i st h
          have h1 : SlotsKept s st := by
            refine SlotsKept.slots_left ?_ (ihm _ _ _ _ h)
            split <;> rfl
          apply SomeAll.ite_some <;> intro h2
          · exact SomeAll.some (h1.kept_trans (SlotsKept.set_end st _ _ h2))
          · exact SomeAll.some h1
        · rename_i st h
          apply SomeAll.some
          refine SlotsKept.slots_left ?_ (ihm _ _ _ _ h)
          split <;> rfl
      · exact SomeAll.some (SlotsKept.kept_of_eq (slots_match_plain _ _ _ _ _ _))
    · intro scan bil bip s
      rw [match_branch]
      split
      · exact SomeAll.none
      · rename_i st h
        apply SomeAll.some
        have h1 := ihm _ _ _ _ h
        split
        · exact h1
        · exact h1
      · rename_i st h
        have h1 : SlotsKept s st := ihm _ _ _ _ h
        apply SomeAll.ite_some <;> intro _
        · exact SomeAll.some h1
        simp only []
        apply SomeAll.ite_some <;> intro _
        · intro r hr
          exact h1.kept_trans ((by have hh := (ihb _ _ _ _ r hr); exact SlotsKept.slots_left rfl hh))
        · exact SomeAll.some h1
    · intro next next_op nc min max lazy save nm s
      rw [match_repeat]
      apply SomeAll.ite_some <;> intro _
      · exact SomeAll.some (SlotsKept.kept_refl _)
      simp only []
      split
      · exact SomeAll.none
      · rename_i st h
        apply SomeAll.some
        split at h
        · exact ihm _ _ _ _ h
        · cases h
      · rename_i st h
        have h1 : SlotsKept s st := by
          split at h
          · exact ihm _ _ _ _ h
          · cases h
            exact SlotsKept.kept_refl _
        apply SomeAll.ite_some <;> intro _
        · exact SomeAll.some h1
        apply SomeAll.ite_some <;> intro _
        · apply SomeAll.ite_some <;> intro _
          · exact SomeAll.some h1
          · intro r hr
            have hh := ihr _ _ _ _ _ _ _ _ _ r hr
            exact h1.kept_trans (SlotsKept.slots_left rfl hh)
        apply SomeAll.ite_some <;> intro _
        · intro r hr
          have hh := ihr _ _ _ _ _ _ _ _ _ r hr
          exact h1.kept_trans (SlotsKept.slots_left rfl hh)
        apply SomeAll.ite_some <;> intro _
        · exact SomeAll.some h1
        · intro r hr
          have hh := ihr _ _ _ _ _ _ _ _ _ r hr
          exact h1.kept_trans (SlotsKept.slots_left rfl hh)
    · intro next save offset upper s
      rw [match_behind]
      apply SomeAll.ite_some <;> intro _
      · exact SomeAll.some (SlotsKept.kept_refl _)
      apply SomeAll.ite_some <;> intro _
      · exact SomeAll.some (SlotsKept.kept_of_eq rfl)
      split
      · exact SomeAll.none
      · rename_i answer st h
        have h1 : SlotsKept s st := (by have hh := (ihm _ _ _ _ h); exact SlotsKept.slots_left rfl hh)
        apply SomeAll.ite_some <;> intro _
        · exact SomeAll.some h1
        apply SomeAll.ite_some <;> intro _
        · apply SomeAll.some
          refine h1.kept_trans (SlotsKept.kept_of_eq ?_)
          split
          · rfl
          · split <;> rfl
        · intro r hr
          exact h1.kept_trans (ihh _ _ _ _ _ r hr)
/-- C17: within a call of `match`, hence within one attempt, a capture slot that is set is
not written again: each start slot and each end slot that holds a position at the entry holds
the same position at the exit, an OPEN or CLOSE node writing its slot only while it is not
set.  For `(a|b)+` on `ab` the span of group 1 is [1,2), the one of the last turn of the
loop, which is written first when the recursion unwinds; likewise [2,3) for `(a)+` on
`aaa`. -/
theorem C17_slots_written_once (program text : List Nat) (delimiters : List Bool) (fuel : Nat)
    (prog : Ptr) (bip : Bool) (s : ExecState) (r : Bool × ExecState)
    (h : match_ program text delimiters fuel prog bip s = some r) :
    (∀ i v, s.startp_.getD i none = some v → r.2.startp_.getD i none = some v)
      ∧ (∀ i v, s.endp_.getD i none = some v → r.2.endp_.getD i none = some v)
      ∧ outcome (compile_and_execute (bytes "(a|b)+") 400 (bytes "ab"))
        = .ok (some (true, [some 0, some 2, some 1, some 2]))
      ∧ outcome (compile_and_execute (bytes "(a)+") 400 (bytes "aaa"))
        = .ok (some (true, [some 0, some 3, some 2, some 3])) := by
  have k := (match_keeps program text delimiters fuel).1 prog bip s r h
  exact ⟨k.1, k.2, by decide!, by decide!⟩

theorem C17_slots_written_once_witness :
    match_ [156, 1, 0, 34, 0, 17, 50, 0, 3, 34, 0, 8, 7, 0, 5, 97, 0, 100, 0, 3, 1, 0, 0, 0]
        (bytes "a") DefaultDelimiters 20 (Ptr.prog 3) true
        { fresh_mem with startp_ := [none, some 5], endp_ := [none, none] }
      = some (true,
          { fresh_mem with
              input := 1, startp_ := [none, some 5], endp_ := [none, some 1],
              Back_Ref_Start := (List.replicate 10 none).set 1 (some 0),
              Back_Ref_End := (List.replicate 10 none).set 1 (some 1),
              Extent_Ptr_FW := some 1 })
      ∧ ∀ i v, ([none, some 5] : List (Option Nat)).getD i none = some v →
          ([none, some 5] : List (Option Nat)).getD i none = some v := by
  have h : match_ [156, 1, 0, 34, 0, 17, 50, 0, 3, 34, 0, 8, 7, 0, 5, 97, 0, 100, 0, 3, 1, 0,
        0, 0]
        (bytes "a") DefaultDelimiters 20 (Ptr.prog 3) true
        { fresh_mem with startp_ := [none, some 5], endp_ := [none, none] }
      = some (true,
          { fresh_mem with
              input := 1, startp_ := [none, some 5], endp_ := [none, some 1],
              Back_Ref_Start := (List.replicate 10 none).set 1 (some 0),
              Back_Ref_End := (List.replicate 10 none).set 1 (some 1),
              Extent_Ptr_FW := some 1 }) := by decide!
  exact ⟨h, (C17_slots_written_once _ _ _ _ _ _ _ _ h).1⟩

/-! ### A program without the magic number -/

/-- C18: `ExecRE` on a program whose first byte is not MAGIC returns 0, whatever the other
arguments and with no step of the search (the fuel may be 0); the state at the exit is the
state at the entry, so that every capture slot is as it was. -/
theorem C18_corrupted_program (regex : Regex) (fuel : Nat) (text : List Nat) (string : Nat)
    (end_ : Option Nat) (direction : Direction) (prev_char succ_char : Nat)
    (delimiters : Option (List Nat)) (look_behind_to match_to : Option Nat)
    (defaultDelimiters : List Bool) (mem : ExecState)
    (h : regex.program_.getD 0 0 ≠ MAGIC) :
    ExecRE regex fuel text string end_ direction prev_char succ_char delimiters look_behind_to
        match_to defaultDelimiters mem = some (false, mem)
      ∧ ExecRE regex 0 text string end_ direction prev_char succ_char delimiters look_behind_to
        match_to defaultDelimiters mem = some (false, mem) := by
  unfold ExecRE
  rw [if_pos h, if_pos h]
  exact ⟨rfl, rfl⟩

theorem C18_corrupted_program_witness :
    ExecRE { program_ := [0, 0, 0, 34, 0, 8, 7, 0, 5, 97, 0, 1, 0, 0, 0], match_start_ := 97,
             anchor_ := 0, Total_Paren := 1, Num_Braces := 0 }
        100 (bytes "a") 0 none Direction.Forward 0 0 none none none DefaultDelimiters
        { fresh_mem with startp_ := [some 7], endp_ := [some 9] }
      = some (false, { fresh_mem with startp_ := [some 7], endp_ := [some 9] }) :=
  (C18_corrupted_program _ 100 (bytes "a") 0 none Direction.Forward 0 0 none none none
    DefaultDelimiters { fresh_mem with startp_ := [some 7], endp_ := [some 9] }
    (by decide)).1

/-! ### The recursion limit -/

theorem flag_update_extent_FW (s : ExecState) :
    (update_extent_FW s).Recursion_Limit_Exceeded = s.Recursion_Limit_Exceeded := by
  unfold update_extent_FW
  split
  · rfl
  · split <;> rfl

theorem flag_match_plain (program text : List Nat) (delimiters : List Bool) (scan next : Ptr)
    (s : ExecState) :
    (match_plain program text delimiters scan next s).state.Recursion_Limit_Exceeded
      = s.Recursion_Limit_Exceeded := by
  unfold match_plain
  simp only []
  apply ite_state (P := fun t => t.Recursion_Limit_Exceeded = s.Recursion_Limit_Exceeded)
    <;> intro _
  · split <;> rfl
  apply ite_state (P := fun t => t.Recursion_Limit_Exceeded = s.Recursion_Limit_Exceeded)
    <;> intro _
  · apply ite_state (P := fun t => t.Recursion_Limit_Exceeded = s.Recursion_Limit_Exceeded)
      <;> intro _ <;> rfl
  apply ite_state (P := fun t => t.Recursion_Limit_Exceeded = s.Recursion_Limit_Exceeded)
    <;> intro _
  · split <;> rfl
  apply ite_state (P := fun t => t.Recursion_Limit_Exceeded = s.Recursion_Limit_Exceeded)
    <;> intro _
  · exact flag_update_extent_FW _
  apply ite_state (P := fun t => t.Recursion_Limit_Exceeded = s.Recursion_Limit_Exceeded)
    <;> intro _
  · rfl
  apply ite_state (P := fun t => t.Recursion_Limit_Exceeded = s.Recursion_Limit_Exceeded)
    <;> intro _
  · rfl
  apply ite_state (P := fun t => t.Recursion_Limit_Exceeded = s.Recursion_Limit_Exceeded)
    <;> intro _
  · apply ite_state (P := fun t => t.Recursion_Limit_Exceeded = s.Recursion_Limit_Exceeded)
      <;> intro _ <;> rfl
  apply ite_state (P := fun t => t.Recursion_Limit_Exceeded = s.Recursion_Limit_Exceeded)
    <;> intro _
  · split
    · apply ite_state (P := fun t => t.Recursion_Limit_Exceeded = s.Recursion_Limit_Exceeded)
        <;> intro _
      · rfl
      · apply ite_state (P := fun t => t.Recursion_Limit_Exceeded = s.Recursion_Limit_Exceeded)
          <;> intro _ <;> rfl
    · rfl
  apply ite_state (P := fun t => t.Recursion_Limit_Exceeded = s.Recursion_Limit_Exceeded)
    <;> intro _
  · rfl
  · rfl

theorem aborts_of_clear (x : Step) (h : x.state.Recursion_Limit_Exceeded = false) :
    x.aborts := by
  cases x with
  | done b t =>
    intro ht
    have h' : t.Recursion_Limit_Exceeded = false := h
    rw [h'] at ht
    cases ht
  | next p t => exact h

theorem match_return_abort (x : Bool) (st : ExecState)
    (h : st.Recursion_Limit_Exceeded = true → x = false) :
    SomeAll (fun (r : Bool × ExecState) => r.2.Recursion_Limit_Exceeded = true → r.1 = false)
      (MATCH_RETURN x st) := by
  unfold MATCH_RETURN
  exact SomeAll.some h

/-- Within `match`, entered with the recursion flag clear, every return with the flag set
returns 0. -/
theorem match_abort (program text : List Nat) (delimiters : List Bool) (fuel : Nat) :
    (∀ (prog : Ptr) (bip : Bool) (s : ExecState), s.Recursion_Limit_Exceeded = false →
      SomeAll (fun r => r.2.Recursion_Limit_Exceeded = true → r.1 = false)
        (match_ program text delimiters fuel prog bip s))
    ∧ (∀ (scan : Ptr) (bip : Bool) (s : ExecState), s.Recursion_Limit_Exceeded = false →
      SomeAll (fun r => r.2.Recursion_Limit_Exceeded = true → r.1 = false)
        (match_loop program text delimiters fuel scan bip s))
    ∧ (∀ (scan : Ptr) (bip : Bool) (s : ExecState), s.Recursion_Limit_Exceeded = false →
      SomeAll Step.aborts (match_node program text delimiters fuel scan bip s))
    ∧ (∀ (scan : Ptr) (bil : Nat) (bip : Bool) (s : ExecState),
      s.Recursion_Limit_Exceeded = false →
      SomeAll Step.aborts (match_branch program text delimiters fuel scan bil bip s))
    ∧ (∀ (next next_op : Ptr) (nc min max : Nat) (lazy : Bool) (save nm : Nat) (s : ExecState),
      s.Recursion_Limit_Exceeded = false →
      SomeAll Step.aborts
        (match_repeat program text delimiters fuel next next_op nc min max lazy save nm s))
    ∧ (∀ (next : Ptr) (save offset upper : Nat) (s : ExecState),
      s.Recursion_Limit_Exceeded = false →
      SomeAll (fun r => r.2.Recursion_Limit_Exceeded = true → r.1 = none)
        (match_behind program text delimiters fuel next save offset upper s)) := by
  induction fuel with
  | zero =>
    refine ⟨?_, ?_, ?_, ?_, ?_, ?_⟩
    · intro _ _ _ _; rw [match_]; exact SomeAll.none
    · intro _ _ _ _; rw [match_loop]; exact SomeAll.none
    · intro _ _ _ _; rw [match_node]; exact SomeAll.none
    · intro _ _ _ _ _; rw [match_branch]; exact SomeAll.none
    · intro _ _ _ _ _ _ _ _ _ _; rw [match_repeat]; exact SomeAll.none
    · intro _ _ _ _ _ _; rw [match_behind]; exact SomeAll.none
  | succ n ih =>
    obtain ⟨ihm, ihl, ihn, ihb, ihr, ihh⟩ := ih
    refine ⟨?_, ?_, ?_, ?_, ?_, ?_⟩
    · intro prog bip s hs
      rw [match_]
      apply SomeAll.ite_some <;> intro _
      · exact match_return_abort _ _ (fun _ => rfl)
      · exact ihl _ _ _ hs
    · intro scan bip s hs
      rw [match_loop]
      apply SomeAll.ite_some <;> intro _
      · exact match_return_abort _ _ (fun _ => rfl)
      split
      · exact SomeAll.none
      · rename_i x st h
        exact match_return_abort _ _ (ihn _ _ _ hs _ h)
      · rename_i scan1 st h
        exact ihl _ _ _ (ihn _ _ _ hs _ h)
    · intro scan bip s hs
      rw [match_node]
      simp only []
      apply SomeAll.ite_some <;> intro _
      · apply SomeAll.ite_some <;> intro _
        · exact SomeAll.some hs
        · exact ihb _ _ _ _ hs
      apply SomeAll.ite_some <;> intro _
      · refine ihr _ _ _ _ _ _ _ _ _ ?_
        split
        · split
          · exact hs
          · exact hs
        · exact hs
      apply SomeAll.ite_some <;> intro _
      · split
        · exact SomeAll.none
        · rename_i answer st h
          apply SomeAll.ite_some <;> intro hf
          · exact SomeAll.some (fun _ => rfl)
          have hf' : st.Recursion_Limit_Exceeded = false := by simpa using hf
          apply SomeAll.ite_some <;> intro _
          · split
            · exact SomeAll.none
            · apply SomeAll.some
              show (update_extent_FW st).Recursion_Limit_Exceeded = false
              rw [flag_update_extent_FW]
              exact hf'
          · exact SomeAll.some (fun _ => rfl)
      apply SomeAll.ite_some <;> intro _
      · split
        · exact SomeAll.none
        · exact SomeAll.some (fun _ => rfl)
        · rename_i found st h
          have h1 : st.Recursion_Limit_Exceeded = true → some found = none := by
            refine ihh _ _ _ _ _ ?_ _ h
            exact hs
          have hf' : st.Recursion_Limit_Exceeded = false := by
            cases hst : st.Recursion_Limit_Exceeded with
            | false => rfl
            | true => exact absurd (h1 hst) (by simp)
          apply SomeAll.ite_some <;> intro _
          · split
            · exact SomeAll.none
            · exact SomeAll.some hf'
          · exact SomeAll.some (fun _ => rfl)
      apply SomeAll.ite_some <;> intro _
      · split
        · exact SomeAll.none
        · rename_i st h
          have h1 : st.Recursion_Limit_Exceeded = true → true = false := by
            refine ihm _ _ _ ?_ _ h
            split
            · exact hs
            · exact hs
          have hf' : st.Recursion_Limit_Exceeded = false := by
            cases hst : st.Recursion_Limit_Exceeded with
            | false => rfl
            | true => exact absurd (h1 hst) (by simp)
          apply SomeAll.ite_some <;> intro _
          · apply SomeAll.some
            intro ht
            have ht' : st.Recursion_Limit_Exceeded = true := ht
            rw [hf'] at ht'
            cases ht'
          · apply SomeAll.some
            intro ht
            have ht' : st.Recursion_Limit_Exceeded = true := ht
            rw [hf'] at ht'
            cases ht'
        · exact SomeAll.some (fun _ => rfl)
      apply SomeAll.ite_some <;> intro _
      · split
        · exact SomeAll.none
        · rename_i st h
          have h1 : st.Recursion_Limit_Exceeded = true → true = false := by
            refine ihm _ _ _ ?_ _ h
            split
            · exact hs
            · exact hs
          have hf' : st.Recursion_Limit_Exceeded = false := by
            cases hst : st.Recursion_Limit_Exceeded with
            | false => rfl
            | true => exact absurd (h1 hst) (by simp)
          apply SomeAll.ite_some <;> intro _
          · apply SomeAll.some
            intro ht
            have ht' : st.Recursion_Limit_Exceeded = true := ht
            rw [hf'] at ht'
            cases ht'
          · apply SomeAll.some
            intro ht
            have ht' : st.Recursion_Limit_Exceeded = true := ht
            rw [hf'] at ht'
            cases ht'
        · exact SomeAll.some (fun _ => rfl)
      · apply SomeAll.some
        apply aborts_of_clear
        rw [flag_match_plain]
        exact hs
    · intro scan bil bip s hs
      rw [match_branch]
      split
      · exact SomeAll.none
      · rename_i st h
        have h1 := ihm _ _ _ hs _ h
        have hf' : st.Recursion_Limit_Exceeded = false := by
          cases hst : st.Recursion_Limit_Exceeded with
          | false => rfl
          | true => exact absurd (h1 hst) (by simp)
        apply SomeAll.some
        intro ht
        have ht' : st.Recursion_Limit_Exceeded = true := by
          revert ht
          split <;> exact id
        rw [hf'] at ht'
        cases ht'
      · rename_i st h
        apply SomeAll.ite_some <;> intro hf
        · exact SomeAll.some (fun _ => rfl)
        have hf' : st.Recursion_Limit_Exceeded = false := by simpa using hf
        simp only []
        apply SomeAll.ite_some <;> intro _
        · exact ihb _ _ _ _ hf'
        · exact SomeAll.some (fun _ => rfl)
    · intro next next_op nc min max lazy save nm s hs
      rw [match_repeat]
      apply SomeAll.ite_some <;> intro _
      · exact SomeAll.some (fun _ => rfl)
      simp only []
      split
      · exact SomeAll.none
      · rename_i st h
        apply SomeAll.some
        intro ht
        exfalso
        split at h
        · have h1 := ihm _ _ _ hs _ h
          exact absurd (h1 ht) (by simp)
        · cases h
      · rename_i st h
        apply SomeAll.ite_some <;> intro hg
        · exact SomeAll.some (fun _ => rfl)
        have hf' : st.Recursion_Limit_Exceeded = false := by
          split at h
          · rename_i hgo
            cases hst : st.Recursion_Limit_Exceeded with
            | false => rfl
            | true => exact absurd ⟨hgo, hst⟩ hg
          · cases h
            exact hs
        apply SomeAll.ite_some <;> intro _
        · apply SomeAll.ite_some <;> intro _
          · exact SomeAll.some (fun _ => rfl)
          · exact ihr _ _ _ _ _ _ _ _ _ hf'
        apply SomeAll.ite_some <;> intro _
        · exact ihr _ _ _ _ _ _ _ _ _ hf'
        apply SomeAll.ite_some <;> intro _
        · exact SomeAll.some (fun _ => rfl)
        · exact ihr _ _ _ _ _ _ _ _ _ hf'
    · intro next save offset upper s hs
      rw [match_behind]
      apply SomeAll.ite_some <;> intro _
      · apply SomeAll.some
        intro ht
        have ht' : s.Recursion_Limit_Exceeded = true := ht
        rw [hs] at ht'
        cases ht'
      apply SomeAll.ite_some <;> intro _
      · apply SomeAll.some
        intro ht
        have ht' : s.Recursion_Limit_Exceeded = true := ht
        rw [hs] at ht'
        cases ht'
      split
      · exact SomeAll.none
      · rename_i answer st h
        apply SomeAll.ite_some <;> intro hf
        · exact SomeAll.some (fun _ => rfl)
        have hf' : st.Recursion_Limit_Exceeded = false := by simpa using hf
        apply SomeAll.ite_some <;> intro _
        · apply SomeAll.some
          intro ht
          exfalso
          have ht' : (match st.Extent_Ptr_BW with
            | none => { st with Extent_Ptr_BW := some (save - offset) }
            | some e =>
              if e > save - offset then { st with Extent_Ptr_BW := some (save - offset) }
              else st).Recursion_Limit_Exceeded = true := ht
          have : (match st.Extent_Ptr_BW with
            | none => { st with Extent_Ptr_BW := some (save - offset) }
            | some e =>
              if e > save - offset then { st with Extent_Ptr_BW := some (save - offset) }
              else st).Recursion_Limit_Exceeded = st.Recursion_Limit_Exceeded := by
            split
            · rfl
            · split <;> rfl
          rw [this, hf'] at ht'
          cases ht'
        · exact ihh _ _ _ _ _ hf'
/-- C19: the recursion limit of `match`.  A call of `match` that is entered with the flag
clear and returns with the flag set returns 0, so that every pending call returns 0.  A call
at the depth 10000 sets the flag and returns 0.  With the flag set the loops of `ExecRE` over
the start positions stop without a call of `attempt`, an `attempt` that ends with the flag
set returns 0, and `ExecRE` returns 0 whenever the flag is set at its exit. -/
theorem C19_recursion_limit (program text : List Nat) (delimiters : List Bool) (fuel : Nat)
    (prog : Ptr) (bip : Bool) (s : ExecState) (r : Bool × ExecState)
    (hs : s.Recursion_Limit_Exceeded = false)
    (h : match_ program text delimiters fuel prog bip s = some r)
    (hr : r.2.Recursion_Limit_Exceeded = true) :
    r.1 = false
      ∧ (∀ (t : ExecState) (f : Nat), REGEX_RECURSION_LIMIT ≤ t.Recursion_Count →
          match_ program text delimiters (f + 1) prog bip t
            = some (false, { t with Recursion_Limit_Exceeded := true }))
      ∧ (∀ (regex : Regex) (kind : Nat) (end_ : Option Nat) (n str : Nat) (t : ExecState),
          t.Recursion_Limit_Exceeded = true →
          exec_forward regex text delimiters fuel kind end_ (n + 1) str t = some (false, str, t))
      ∧ (∀ (regex : Regex) (kind string n : Nat) (t : ExecState),
          t.Recursion_Limit_Exceeded = true →
          exec_backward regex text delimiters fuel kind string n t = some (false, t))
      ∧ (∀ (regex : Regex) (string : Nat) (t : ExecState) (b : Bool) (u : ExecState),
          t.Recursion_Limit_Exceeded = false →
          attempt regex text delimiters fuel string t = some (b, u) →
          u.Recursion_Limit_Exceeded = true → b = false)
      ∧ (∀ (regex : Regex) (string : Nat) (end_ : Option Nat) (direction : Direction)
          (prev_char succ_char : Nat) (delims : Option (List Nat))
          (look_behind_to match_to : Option Nat) (defaultDelimiters : List Bool)
          (mem : ExecState) (b : Bool) (u : ExecState),
          ExecRE regex fuel text string end_ direction prev_char succ_char delims look_behind_to
            match_to defaultDelimiters mem = some (b, u) →
          u.Recursion_Limit_Exceeded = true → b = false) := by
  refine ⟨(match_abort program text delimiters fuel).1 prog bip s hs r h hr, ?_, ?_, ?_, ?_, ?_⟩
  · intro t f ht
    rw [match_, if_pos (by simp only [REGEX_RECURSION_LIMIT] at ht ⊢; omega)]
    rfl
  · intro regex kind end_ n str t ht
    rw [exec_forward, if_pos (Or.inr (Or.inr ht))]
  · intro regex kind string n t ht
    cases n with
    | zero => rw [exec_backward]
    | succ m =>
      rw [exec_backward]
      exact if_pos ht
  · intro regex string t b u ht ha hu
    unfold attempt at ha
    simp only [] at ha
    split at ha
    · cases ha
    · rename_i st1 hm
      have := Option.some.inj ha
      rw [Prod.mk.injEq] at this
      obtain ⟨hb, hu2⟩ := this
      subst hu2
      have hk : true = false := by
        refine (match_abort regex.program_ text delimiters fuel).1 _ _ _ ?_ _ hm ?_
        · exact ht
        · exact hu
      exact absurd hk (by simp)
    · rename_i st1 hm
      have := Option.some.inj ha
      rw [Prod.mk.injEq] at this
      exact this.1.symm
  · intro regex string end_ direction prev_char succ_char delims look_behind_to match_to
      defaultDelimiters mem b u he hu
    unfold ExecRE at he
    split at he
    · have := Option.some.inj he
      rw [Prod.mk.injEq] at this
      exact this.1.symm
    · simp only [] at he
      split at he
      · cases he
      · split at he
        · have := Option.some.inj he
          rw [Prod.mk.injEq] at this
          exact this.1.symm
        · rename_i hnot
          have := Option.some.inj he
          rw [Prod.mk.injEq] at this
          obtain ⟨_, hu2⟩ := this
          subst hu2
          exact absurd hu hnot

theorem C19_recursion_limit_witness :
    match_ [156, 0, 0, 34, 0, 8, 7, 0, 5, 97, 0, 1, 0, 0, 0] (bytes "a") DefaultDelimiters 5
        (Ptr.prog 3) true { fresh_mem with Recursion_Count := 10000 }
      = some (false, { fresh_mem with Recursion_Count := 10000,
                                      Recursion_Limit_Exceeded := true })
      ∧ (false, { fresh_mem with Recursion_Count := 10000,
                                 Recursion_Limit_Exceeded := true }).1 = false := by
  have h : match_ [156, 0, 0, 34, 0, 8, 7, 0, 5, 97, 0, 1, 0, 0, 0] (bytes "a")
      DefaultDelimiters 5 (Ptr.prog 3) true { fresh_mem with Recursion_Count := 10000 }
      = some (false, { fresh_mem with Recursion_Count := 10000,
                                      Recursion_Limit_Exceeded := true }) := by decide!
  exact ⟨h, (C19_recursion_limit _ _ _ _ _ _ _ _ (by decide) h (by decide)).1⟩

/-! ### The forward search tries every position -/

theorem Steady.steady_refl (s : ExecState) : Steady s s := ⟨fun h => h, fun _ => rfl⟩

theorem Steady.steady_trans {s t u : ExecState} (h1 : Steady s t) (h2 : Steady t u) : Steady s u := by
  refine ⟨fun h => h2.1 (h1.1 h), fun h => ?_⟩
  have ht : t.Recursion_Limit_Exceeded = false := by
    cases hc : t.Recursion_Limit_Exceeded with
    | false => rfl
    | true =>
      have := h2.1 hc
      rw [h] at this
      cases this
  rw [h2.2 h, h1.2 ht]

theorem Steady.of_fields {s t u : ExecState}
    (hf : u.Recursion_Limit_Exceeded = t.Recursion_Limit_Exceeded)
    (he : u.endOfString = t.endOfString) (h1 : Steady s t) : Steady s u := by
  unfold Steady
  rw [hf, he]
  exact h1

theorem Steady.fields_left {s t u : ExecState}
    (hf : t.Recursion_Limit_Exceeded = s.Recursion_Limit_Exceeded)
    (he : t.endOfString = s.endOfString) (h1 : Steady t u) : Steady s u := by
  unfold Steady
  rw [← hf, ← he]
  exact h1

theorem Steady.steady_of_eq {s t : ExecState}
    (hf : t.Recursion_Limit_Exceeded = s.Recursion_Limit_Exceeded)
    (he : t.endOfString = s.endOfString) : Steady s t :=
  Steady.of_fields hf he (Steady.steady_refl s)

theorem Steady.of_flag {s t : ExecState} (h : t.Recursion_Limit_Exceeded = true) :
    Steady s t := by
  refine ⟨fun _ => h, fun h2 => ?_⟩
  rw [h] at h2
  cases h2

/-- A state whose logical end is put back to the one of `s`, the flag being the one of a
state `t` that is steady against a state with the flag of `s`. -/
theorem Steady.restore {s s0 t u : ExecState} (h1 : Steady s0 t)
    (hs : s0.Recursion_Limit_Exceeded = s.Recursion_Limit_Exceeded)
    (hf : u.Recursion_Limit_Exceeded = t.Recursion_Limit_Exceeded)
    (he : u.endOfString = s.endOfString) : Steady s u := by
  refine ⟨fun h => ?_, fun _ => he⟩
  rw [hf]
  exact h1.1 (by rw [hs]; exact h)

theorem eos_update_extent_FW (s : ExecState) :
    (update_extent_FW s).endOfString = s.endOfString := by
  unfold update_extent_FW
  split
  · rfl
  · split <;> rfl

theorem eos_match_plain (program text : List Nat) (delimiters : List Bool) (scan next : Ptr)
    (s : ExecState) :
    (match_plain program text delimiters scan next s).state.endOfString = s.endOfString := by
  unfold match_plain
  simp only []
  apply ite_state (P := fun t => t.endOfString = s.endOfString) <;> intro _
  · split <;> rfl
  apply ite_state (P := fun t => t.endOfString = s.endOfString) <;> intro _
  · apply ite_state (P := fun t => t.endOfString = s.endOfString) <;> intro _ <;> rfl
  apply ite_state (P := fun t => t.endOfString = s.endOfString) <;> intro _
  · split <;> rfl
  apply ite_state (P := fun t => t.endOfString = s.endOfString) <;> intro _
  · exact eos_update_extent_FW _
  apply ite_state (P := fun t => t.endOfString = s.endOfString) <;> intro _
  · rfl
  apply ite_state (P := fun t => t.endOfString = s.endOfString) <;> intro _
  · rfl
  apply ite_state (P := fun t => t.endOfString = s.endOfString) <;> intro _
  · apply ite_state (P := fun t => t.endOfString = s.endOfString) <;> intro _ <;> rfl
  apply ite_state (P := fun t => t.endOfString = s.endOfString) <;> intro _
  · split
    · apply ite_state (P := fun t => t.endOfString = s.endOfString) <;> intro _
      · rfl
      · apply ite_state (P := fun t => t.endOfString = s.endOfString) <;> intro _ <;> rfl
    · rfl
  apply ite_state (P := fun t => t.endOfString = s.endOfString) <;> intro _
  · rfl
  · rfl

theorem Steady.steady_match_return {s st : ExecState} (x : Bool) (h : Steady s st) :
    SomeAll (fun r => Steady s r.2) (MATCH_RETURN x st) := by
  unfold MATCH_RETURN
  exact SomeAll.some (Steady.of_fields rfl rfl h)

/-- Within `match` the recursion flag is never cleared, and the logical end of the string at
the exit is the one at the entry unless the flag is set. -/
theorem match_steady (program text : List Nat) (delimiters : List Bool) (fuel : Nat) :
    (∀ (prog : Ptr) (bip : Bool) (s : ExecState),
      SomeAll (fun r => Steady s r.2) (match_ program text delimiters fuel prog bip s))
    ∧ (∀ (scan : Ptr) (bip : Bool) (s : ExecState),
      SomeAll (fun r => Steady s r.2) (match_loop program text delimiters fuel scan bip s))
    ∧ (∀ (scan : Ptr) (bip : Bool) (s : ExecState),
      SomeAll (fun r => Steady s r.state)
        (match_node program text delimiters fuel scan bip s))
    ∧ (∀ (scan : Ptr) (bil : Nat) (bip : Bool) (s : ExecState),
      SomeAll (fun r => Steady s r.state)
        (match_branch program text delimiters fuel scan bil bip s))
    ∧ (∀ (next next_op : Ptr) (nc min max : Nat) (lazy : Bool) (save nm : Nat) (s : ExecState),
      SomeAll (fun r => Steady s r.state)
        (match_repeat program text delimiters fuel next next_op nc min max lazy save nm s))
    ∧ (∀ (next : Ptr) (save offset upper : Nat) (s : ExecState),
      SomeAll (fun r => Steady s r.2 ∧ (r.1 = none → r.2.Recursion_Limit_Exceeded = true))
        (match_behind program text delimiters fuel next save offset upper s)) := by
  induction fuel with
  | zero =>
    refine ⟨?_, ?_, ?_, ?_, ?_, ?_⟩
    · intro _ _ _; rw [match_]; exact SomeAll.none
    · intro _ _ _; rw [match_loop]; exact SomeAll.none
    · intro _ _ _; rw [match_node]; exact SomeAll.none
    · intro _ _ _ _; rw [match_branch]; exact SomeAll.none
    · intro _ _ _ _ _ _ _ _ _; rw [match_repeat]; exact SomeAll.none
    · intro _ _ _ _ _; rw [match_behind]; exact SomeAll.none
  | succ n ih =>
    obtain ⟨ihm, ihl, ihn, ihb, ihr, ihh⟩ := ih
    refine ⟨?_, ?_, ?_, ?_, ?_, ?_⟩
    · intro prog bip s
      rw [match_]
      apply SomeAll.ite_some <;> intro _
      · exact Steady.steady_match_return _ (Steady.of_flag rfl)
      · intro r h
        have hh := ihl _ _ _ r h
        exact Steady.fields_left rfl rfl hh
    · intro scan bip s
      rw [match_loop]
      apply SomeAll.ite_some <;> intro _
      · exact Steady.steady_match_return _ (Steady.steady_refl _)
      split
      · exact SomeAll.none
      · rename_i x st h
        exact Steady.steady_match_return _ (ihn _ _ _ _ h)
      · rename_i scan1 st h
        intro r hr
        exact (ihn _ _ _ _ h).steady_trans (ihl _ _ _ r hr)
    · intro scan bip s
      rw [match_node]
      simp only []
      apply SomeAll.ite_some <;> intro _
      · apply SomeAll.ite_some <;> intro _
        · exact SomeAll.some (Steady.steady_refl _)
        · exact ihb _ _ _ _
      apply SomeAll.ite_some <;> intro _
      · intro r hr
        have hh := ihr _ _ _ _ _ _ _ _ _ r hr
        refine Steady.fields_left ?_ ?_ hh
        · split
          · split <;> rfl
          · rfl
        · split
          · split <;> rfl
          · rfl
      apply SomeAll.ite_some <;> intro _
      · split
        · exact SomeAll.none
        · rename_i answer st h
          have h1 : Steady _ st := ihm _ _ _ _ h
          apply SomeAll.ite_some <;> intro hf
          · exact SomeAll.some (Steady.of_flag hf)
          apply SomeAll.ite_some <;> intro _
          · split
            · exact SomeAll.none
            · apply SomeAll.some
              exact Steady.restore h1 rfl (flag_update_extent_FW st) rfl
          · exact SomeAll.some (Steady.restore h1 rfl rfl rfl)
      apply SomeAll.ite_some <;> intro _
      · split
        · exact SomeAll.none
        · rename_i st h
          have h1 := (ihh _ _ _ _ _ _ h).2 rfl
          exact SomeAll.some (Steady.of_flag h1)
        · rename_i found st h
          have h1 : Steady _ st := (ihh _ _ _ _ _ _ h).1
          apply SomeAll.ite_some <;> intro _
          · split
            · exact SomeAll.none
            · exact SomeAll.some (Steady.restore h1 rfl rfl rfl)
          · exact SomeAll.some (Steady.restore h1 rfl rfl rfl)
      apply SomeAll.ite_some <;> intro _
      · split
        · exact SomeAll.none
        · rename_i st h
          have h0 := ihm _ _ _ _ h
          have h1 : Steady s st := by
            refine Steady.fields_left ?_ ?_ h0
            · split <;> rfl
            · split <;> rfl
          apply SomeAll.ite_some <;> intro h2
          · exact SomeAll.some (Steady.of_fields rfl rfl h1)
          · exact SomeAll.some h1
        · rename_i st h
          apply SomeAll.some
          have h0 := ihm _ _ _ _ h
          refine Steady.fields_left ?_ ?_ h0
          · split <;> rfl
          · split <;> rfl
      apply SomeAll.ite_some <;> intro _
      · split
        · exact SomeAll.none
        · rename_i st h
          have h0 := ihm _ _ _ _ h
          have h1 : Steady s st := by
            refine Steady.fields_left ?_ ?_ h0
            · split <;> rfl
            · split <;> rfl
          apply SomeAll.ite_some <;> intro h2
          · exact SomeAll.some (Steady.of_fields rfl rfl h1)
          · exact SomeAll.some h1
        · rename_i st h
          apply SomeAll.some
          have h0 := ihm _ _ _ _ h
          refine Steady.fields_left ?_ ?_ h0
          · split <;> rfl
          · split <;> rfl
      · exact SomeAll.some
          (Steady.steady_of_eq (flag_match_plain _ _ _ _ _ _) (eos_match_plain _ _ _ _ _ _))
    · intro scan bil bip s
      rw [match_branch]
      split
      · exact SomeAll.none
      · rename_i st h
        apply SomeAll.some
        have h1 := ihm _ _ _ _ h
        split
        · exact h1
        · exact h1
      · rename_i st h
        have h1 : Steady s st := ihm _ _ _ _ h
        apply SomeAll.ite_some <;> intro _
        · exact SomeAll.some h1
        simp only []
        apply SomeAll.ite_some <;> intro _
        · intro r hr
          have hh := ihb _ _ _ _ r hr
          exact h1.steady_trans (Steady.fields_left rfl rfl hh)
        · exact SomeAll.some h1
    · intro next next_op nc min max lazy save nm s
      rw [match_repeat]
      apply SomeAll.ite_some <;> intro _
      · exact SomeAll.some (Steady.steady_refl _)
      simp only []
      split
      · exact SomeAll.none
      · rename_i st h
        apply SomeAll.some
        split at h
        · exact ihm _ _ _ _ h
        · cases h
      · rename_i st h
        have h1 : Steady s st := by
          split at h
          · exact ihm _ _ _ _ h
          · cases h
            exact Steady.steady_refl _
        apply SomeAll.ite_some <;> intro _
        · exact SomeAll.some h1
        apply SomeAll.ite_some <;> intro _
        · apply SomeAll.ite_some <;> intro _
          · exact SomeAll.some h1
          · intro r hr
            have hh := ihr _ _ _ _ _ _ _ _ _ r hr
            exact h1.steady_trans (Steady.fields_left rfl rfl hh)
        apply SomeAll.ite_some <;> intro _
        · intro r hr
          have hh := ihr _ _ _ _ _ _ _ _ _ r hr
          exact h1.steady_trans (Steady.fields_left rfl rfl hh)
        apply SomeAll.ite_some <;> intro _
        · exact SomeAll.some h1
        · intro r hr
          have hh := ihr _ _ _ _ _ _ _ _ _ r hr
          exact h1.steady_trans (Steady.fields_left rfl rfl hh)
    · intro next save offset upper s
      rw [match_behind]
      apply SomeAll.ite_some <;> intro _
      · exact SomeAll.some ⟨Steady.steady_refl _, fun h => by cases h⟩
      apply SomeAll.ite_some <;> intro _
      · exact SomeAll.some ⟨Steady.steady_of_eq rfl rfl, fun h => by cases h⟩
      split
      · exact SomeAll.none
      · rename_i answer st h
        have h0 := ihm _ _ _ _ h
        have h1 : Steady s st := Steady.fields_left rfl rfl h0
        apply SomeAll.ite_some <;> intro hf
        · exact SomeAll.some ⟨h1, fun _ => hf⟩
        apply SomeAll.ite_some <;> intro _
        · apply SomeAll.some
          refine ⟨h1.steady_trans (Steady.steady_of_eq ?_ ?_), fun h => by cases h⟩
          · split
            · rfl
            · split <;> rfl
          · split
            · rfl
            · split <;> rfl
        · intro r hr
          have hh := ihh _ _ _ _ _ r hr
          exact ⟨h1.steady_trans hh.1, hh.2⟩
/-- The function `attempt` never clears the recursion flag, and leaves the logical end of the
string as it was unless the flag is set. -/
theorem attempt_steady (regex : Regex) (text : List Nat) (delimiters : List Bool) (fuel : Nat)
    (string : Nat) (s : ExecState) :
    SomeAll (fun r => Steady s r.2) (attempt regex text delimiters fuel string s) := by
  unfold attempt
  simp only []
  split
  · exact SomeAll.none
  · rename_i st1 h
    have h1 : Steady _ st1 := (match_steady regex.program_ text delimiters fuel).1 _ _ _ _ h
    exact SomeAll.some (Steady.of_fields rfl rfl (Steady.fields_left rfl rfl h1))
  · rename_i st1 h
    have h1 : Steady _ st1 := (match_steady regex.program_ text delimiters fuel).1 _ _ _ _ h
    exact SomeAll.some (Steady.fields_left rfl rfl h1)

/-- The general forward loop of `ExecRE`, with what `ExecRE` does after it, is the run of
attempts at the positions from `str` to the first end of the string `e`, when the end pointer
is none of these positions. -/
theorem exec_forward_general (regex : Regex) (text : List Nat) (delimiters : List Bool)
    (fuel : Nat) (eos end_ : Option Nat) (e : Nat)
    (he1 : atEndOfString text eos e = true) (k : Nat) :
    ∀ (str n : Nat) (st : ExecState), str + k = e → k < n →
      (∀ q, str ≤ q → q < e → atEndOfString text eos q = false) →
      (∀ q, str ≤ q → q ≤ e → end_ ≠ some q) →
      (st.Recursion_Limit_Exceeded = true ∨ st.endOfString = eos) →
      (match exec_forward regex text delimiters fuel 2 end_ n str st with
        | none => none
        | some (true, _, st1) => some (true, st1)
        | some (false, str1, st1) =>
          if !st1.Recursion_Limit_Exceeded ∧ atEndOfString text st1.endOfString str1
              ∧ end_ ≠ some str1 then
            attempt regex text delimiters fuel str1 st1
          else some (false, st1))
        = search_positions regex text delimiters fuel (List.range' str (k + 1)) st := by
  induction k with
  | zero =>
    intro str n st hk hn he2 hend hst
    have hstr : str = e := by omega
    subst hstr
    obtain ⟨m, rfl⟩ : ∃ m, n = m + 1 := ⟨n - 1, by omega⟩
    have hne : end_ ≠ some str := hend str (Nat.le_refl _) (Nat.le_refl _)
    rw [exec_forward]
    cases hf : st.Recursion_Limit_Exceeded with
    | true =>
      rw [if_pos (Or.inr (Or.inr rfl))]
      simp [search_positions, hf]
    | false =>
      have heos : st.endOfString = eos := by
        rcases hst with h | h
        · rw [hf] at h; cases h
        · exact h
      rw [if_pos (Or.inl (by rw [heos]; exact he1))]
      simp only [hf, heos, he1]
      simp only [List.range', search_positions, hf]
      simp [hne]
      cases attempt regex text delimiters fuel str st with
      | none => rfl
      | some r =>
        obtain ⟨b, s1⟩ := r
        cases b <;> rfl
  | succ k ih =>
    intro str n st hk hn he2 hend hst
    obtain ⟨m, rfl⟩ : ∃ m, n = m + 1 := ⟨n - 1, by omega⟩
    have hr : List.range' str (k + 1 + 1) = str :: List.range' (str + 1) (k + 1) := rfl
    rw [exec_forward, hr, search_positions]
    cases hf : st.Recursion_Limit_Exceeded with
    | true =>
      rw [if_pos (Or.inr (Or.inr rfl))]
      simp [hf]
    | false =>
      have heos : st.endOfString = eos := by
        rcases hst with h | h
        · rw [hf] at h; cases h
        · exact h
      have hne : atEndOfString text st.endOfString str = false := by
        rw [heos]
        exact he2 str (Nat.le_refl _) (by omega)
      have hcond : ¬ (atEndOfString text st.endOfString str = true ∨ end_ = some str
          ∨ false = true) := by
        intro h
        rcases h with h | h | h
        · rw [hne] at h; cases h
        · exact hend str (Nat.le_refl _) (by omega) h
        · cases h
      rw [if_neg hcond]
      rw [if_neg (fun h => absurd h.1 (by decide)), if_neg (fun h => absurd h.1 (by decide)),
        if_neg (by decide : ¬ ((2 : Nat) = 0))]
      simp only [Bool.false_eq_true, if_false]
      cases ha : attempt regex text delimiters fuel str st with
      | none => rfl
      | some r =>
        obtain ⟨b, s1⟩ := r
        cases b with
        | true => rfl
        | false =>
          simp only []
          have hs1 : Steady st s1 := attempt_steady regex text delimiters fuel str st _ ha
          refine ih (str + 1) m s1 (by omega) (by omega)
            (fun q h1 h2 => he2 q (by omega) h2) (fun q h1 h2 => hend q (by omega) h2) ?_
          cases hf1 : s1.Recursion_Limit_Exceeded with
          | true => exact Or.inl rfl
          | false => exact Or.inr ((hs1.2 hf1).trans heos)

/-- The general forward loop of `ExecRE` with an end pointer `d` that is not after the first
end of the string: the attempts are at the positions before `d`, and none is at `d`. -/
theorem exec_forward_upto (regex : Regex) (text : List Nat) (delimiters : List Bool)
    (fuel : Nat) (eos : Option Nat) (d : Nat) (k : Nat) :
    ∀ (str n : Nat) (st : ExecState), str + k = d → k < n →
      (∀ q, str ≤ q → q < d → atEndOfString text eos q = false) →
      (st.Recursion_Limit_Exceeded = true ∨ st.endOfString = eos) →
      (match exec_forward regex text delimiters fuel 2 (some d) n str st with
        | none => none
        | some (true, _, st1) => some (true, st1)
        | some (false, str1, st1) =>
          if !st1.Recursion_Limit_Exceeded ∧ atEndOfString text st1.endOfString str1
              ∧ some d ≠ some str1 then
            attempt regex text delimiters fuel str1 st1
          else some (false, st1))
        = search_positions regex text delimiters fuel (List.range' str k) st := by
  induction k with
  | zero =>
    intro str n st hk hn he2 hst
    have hstr : str = d := by omega
    subst hstr
    obtain ⟨m, rfl⟩ : ∃ m, n = m + 1 := ⟨n - 1, by omega⟩
    rw [exec_forward, if_pos (Or.inr (Or.inl rfl))]
    simp [search_positions]
  | succ k ih =>
    intro str n st hk hn he2 hst
    obtain ⟨m, rfl⟩ : ∃ m, n = m + 1 := ⟨n - 1, by omega⟩
    have hr : List.range' str (k + 1) = str :: List.range' (str + 1) k := rfl
    rw [exec_forward, hr, search_positions]
    cases hf : st.Recursion_Limit_Exceeded with
    | true =>
      rw [if_pos (Or.inr (Or.inr rfl))]
      simp [hf]
    | false =>
      have heos : st.endOfString = eos := by
        rcases hst with h | h
        · rw [hf] at h; cases h
        · exact h
      have hne : atEndOfString text st.endOfString str = false := by
        rw [heos]
        exact he2 str (Nat.le_refl _) (by omega)
      have hcond : ¬ (atEndOfString text st.endOfString str = true ∨ some d = some str
          ∨ false = true) := by
        intro h
        rcases h with h | h | h
        · rw [hne] at h; cases h
        · injection h with h; omega
        · cases h
      rw [if_neg hcond]
      rw [if_neg (fun h => absurd h.1 (by decide)), if_neg (fun h => absurd h.1 (by decide)),
        if_neg (by decide : ¬ ((2 : Nat) = 0))]
      simp only [Bool.false_eq_true, if_false]
      cases ha : attempt regex text delimiters fuel str st with
      | none => rfl
      | some r =>
        obtain ⟨b, s1⟩ := r
        cases b with
        | true => rfl
        | false =>
          simp only []
          have hs1 : Steady st s1 := attempt_steady regex text delimiters fuel str st _ ha
          refine ih (str + 1) m s1 (by omega) (by omega)
            (fun q h1 h2 => he2 q (by omega) h2) ?_
          cases hf1 : s1.Recursion_Limit_Exceeded with
          | true => exact Or.inl rfl
          | false => exact Or.inr ((hs1.2 hf1).trans heos)

set_option maxRecDepth 100000 in
/-- C20, as stated, fails: the claim puts no condition on the end pointer of the call, and
with the end pointer of `ExecRE` at the end of `abc` the position 3 is not attempted: `$`
does not match.  Without end pointer it matches [3,3). -/
theorem C20_end_pointer_stops :
    (CompileRE (bytes "$") 0).map (fun re =>
        (ExecRE re 100 (bytes "abc") 0 (some 3) Direction.Forward 0 0 none none none
          DefaultDelimiters fresh_mem).map (fun x => x.1)) = .ok (some false)
      ∧ (CompileRE (bytes "$") 0).map (fun re =>
        (ExecRE re 100 (bytes "abc") 0 none Direction.Forward 0 0 none none none
          DefaultDelimiters fresh_mem).map (fun x => (x.1, group x.2 0)))
          = .ok (some (true, [some 3, some 3])) := by
  constructor <;> decide!

/-- C20, amended: the forward search of `ExecRE` for a regex without anchor and without known
first character, from the position `string`, where `e` is the first position at the logical
end of the string.  With no end pointer, or with an end pointer that is none of the
positions from `string` to `e`, it is the run of attempts at the positions `string`,
`string + 1`, ... up to and with `e`, in this order, which stops at the first attempt that
succeeds.  With an end pointer `d` among these positions it is the run of attempts at the
positions before `d` only.  Called without end pointer, the regex `$` matches the empty span
[3,3) on `abc` and [0,0) on the empty subject. -/
theorem C20_forward_search (regex : Regex) (text : List Nat) (delimiters : List Bool)
    (fuel string e : Nat) (end_ : Option Nat) (st0 : ExecState)
    (ha : regex.anchor_ = 0) (hm : regex.match_start_ = 0)
    (hse : string ≤ e) (hlen : e ≤ text.length)
    (he1 : atEndOfString text st0.endOfString e = true)
    (he2 : ∀ q, string ≤ q → q < e → atEndOfString text st0.endOfString q = false) :
    ((∀ d, end_ = some d → d < string ∨ e < d) →
        exec_search regex text delimiters fuel string end_ Direction.Forward st0
          = search_positions regex text delimiters fuel (List.range' string (e + 1 - string))
              st0)
      ∧ (∀ d, string ≤ d → d ≤ e →
        exec_search regex text delimiters fuel string (some d) Direction.Forward st0
          = search_positions regex text delimiters fuel (List.range' string (d - string)) st0)
      ∧ (compile_and_execute (bytes "$") 100 (bytes "abc")).map
          (Option.map (fun x => (x.1, group x.2 0))) = .ok (some (true, [some 3, some 3]))
      ∧ (compile_and_execute (bytes "$") 100 (bytes "")).map
          (Option.map (fun x => (x.1, group x.2 0))) = .ok (some (true, [some 0, some 0])) := by
  refine ⟨?_, ?_, by decide!, by decide!⟩
  · intro hend
    unfold exec_search
    simp only []
    rw [if_neg (by rw [ha]; decide), if_neg (by rw [hm]; decide)]
    have h := exec_forward_general regex text delimiters fuel st0.endOfString end_ e he1
      (e - string) string (text.length + 1 - string) st0 (by omega) (by omega) he2
      (fun q h1 h2 h => by rcases hend q h with h3 | h3 <;> omega) (Or.inr rfl)
    rw [show e - string + 1 = e + 1 - string by omega] at h
    exact h
  · intro d hd1 hd2
    unfold exec_search
    simp only []
    rw [if_neg (by rw [ha]; decide), if_neg (by rw [hm]; decide)]
    exact exec_forward_upto regex text delimiters fuel st0.endOfString d (d - string)
      string (text.length + 1 - string) st0 (by omega) (by omega)
      (fun q h1 h2 => he2 q h1 (by omega)) (Or.inr rfl)

theorem C20_forward_search_witness :
    exec_search { program_ := [156, 0, 0, 34, 0, 6, 3, 0, 3, 1, 0, 0, 0], match_start_ := 0,
                  anchor_ := 0, Total_Paren := 1, Num_Braces := 0 }
        (bytes "abc") DefaultDelimiters 50 0 none Direction.Forward execute_state
      = search_positions { program_ := [156, 0, 0, 34, 0, 6, 3, 0, 3, 1, 0, 0, 0],
                           match_start_ := 0, anchor_ := 0, Total_Paren := 1, Num_Braces := 0 }
          (bytes "abc") DefaultDelimiters 50 (List.range' 0 (3 + 1 - 0)) execute_state :=
  (C20_forward_search _ (bytes "abc") DefaultDelimiters 50 0 3 none execute_state rfl rfl
    (by decide) (by decide) (by decide)
    (fun q _ h => by interval_cases q <;> decide)).1 (fun d h => by cases h)

/-! ### The table of word delimiters -/

theorem foldl_set_length (l : List Nat) : ∀ t : List Bool,
    (l.foldl (fun t c => if c < 128 then t.set c true else t) t).length = t.length := by
  induction l with
  | nil => intro t; rfl
  | cons a l ih =>
    intro t
    rw [List.foldl_cons, ih]
    split
    · rw [List.length_set]
    · rfl

theorem foldl_set_getD (l : List Nat) : ∀ (t : List Bool) (c : Nat), c < t.length →
    (l.foldl (fun t c => if c < 128 then t.set c true else t) t).getD c false
      = (t.getD c false || decide (c < 128 ∧ c ∈ l)) := by
  induction l with
  | nil => intro t c _; simp
  | cons a l ih =>
    intro t c hc
    rw [List.foldl_cons]
    by_cases ha : a < 128
    · rw [if_pos ha, ih _ c (by rw [List.length_set]; exact hc)]
      by_cases hac : a = c
      · subst hac
        simp [List.getD_eq_getElem?_getD, List.getElem?_set, hc, ha]
      · have hca : ¬ c = a := fun h => hac h.symm
        simp [List.getD_eq_getElem?_getD, List.getElem?_set, hac, hca]
    · rw [if_neg ha, ih _ c hc]
      have hca : ¬ (c < 128 ∧ c = a) := fun h => ha (h.2 ▸ h.1)
      by_cases hm : c ∈ l
      · simp [hm]
      · by_cases hc8 : c < 128
        · have : ¬ c = a := fun h => hca ⟨hc8, h⟩
          simp [hm, this]
        · simp [hc8]

theorem makeDelimiterTable_length (d : List Nat) (table : List Bool) :
    (makeDelimiterTable d table).length = 256 + (table.length - 256) := by
  unfold makeDelimiterTable
  simp only [List.length_set, foldl_set_length, List.length_append, List.length_replicate,
    List.length_drop]

theorem always_delimiters_getD (b : List Bool) (c : Nat) (hc : c < b.length) :
    ((((b.set 0 true).set 9 true).set 10 true).set 32 true).getD c false
      = (b.getD c false || decide (c = 0 ∨ c = 9 ∨ c = 10 ∨ c = 32)) := by
  simp only [List.getD_eq_getElem?_getD, List.getElem?_set, List.length_set]
  by_cases h32 : c = 32
  · subst h32; simp [hc]
  by_cases h10 : c = 10
  · subst h10; simp [hc]
  by_cases h9 : c = 9
  · subst h9; simp [hc]
  by_cases h00 : c = 0
  · subst h00; simp [hc]
  have e32 : ¬ 32 = c := fun h => h32 h.symm
  have e10 : ¬ 10 = c := fun h => h10 h.symm
  have e9 : ¬ 9 = c := fun h => h9 h.symm
  have e0 : ¬ 0 = c := fun h => h00 h.symm
  simp [e32, e10, e9, e0, h32, h10, h9, h00]

/-- The entry `c` of a table that `makeDelimiterTable` has made from `d`. -/
theorem makeDelimiterTable_getD (d : List Nat) (table : List Bool) (c : Nat) (hc : c < 256) :
    (makeDelimiterTable d table).getD c false
      = decide ((c < 128 ∧ c ∈ d.takeWhile (fun x => decide (x ≠ 0)))
          ∨ c = 0 ∨ c = 9 ∨ c = 10 ∨ c = 32) := by
  have hlen : c < (List.replicate 256 false ++ table.drop 256).length := by
    rw [List.length_append, List.length_replicate]; omega
  have hf := foldl_set_getD (d.takeWhile (fun x => decide (x ≠ 0)))
    (List.replicate 256 false ++ table.drop 256) c hlen
  have hfl := foldl_set_length (d.takeWhile (fun x => decide (x ≠ 0)))
    (List.replicate 256 false ++ table.drop 256)
  have h0 : (List.replicate 256 false ++ table.drop 256).getD c false = false := by
    rw [List.getD_append _ _ _ _ (by rw [List.length_replicate]; exact hc),
      List.getD_eq_getElem _ _ (by rw [List.length_replicate]; exact hc), List.getElem_replicate]
  rw [h0, Bool.false_or] at hf
  unfold makeDelimiterTable
  rw [always_delimiters_getD _ c (by rw [hfl]; exact hlen), hf]
  generalize d.takeWhile (fun x => decide (x ≠ 0)) = l
  by_cases hm : c < 128 ∧ c ∈ l <;> simp [hm]

set_option maxRecDepth 100000 in
theorem delimiter_table_twice :
    (makeDelimiterTable (bytes ".,") DefaultDelimiters).getD 46 false = true
      ∧ (makeDelimiterTable (bytes ".,") (makeDelimiterTable (bytes "ab") DefaultDelimiters)).getD
          97 false = false := by
  constructor <;> decide!

set_option maxRecDepth 100000 in
theorem delimiter_table_high_byte :
    (makeDelimiterTable [233] DefaultDelimiters).getD 233 false = false
      ∧ makeDelimiterTable [233] DefaultDelimiters = makeDelimiterTable [] DefaultDelimiters := by
  constructor <;> decide!

/-- C21: the first 256 entries of the table that `makeDelimiterTable` makes from the
delimiter string `d` on any table of the caller: the entry `c` is true exactly when `c` is
below 128 and occurs in `d` (before its NUL), or is NUL, tab, newline or space.  The entries
do not depend on the table before the call.  `SetDefaultWordDelimiters` makes the default
table so, and `ExecRE` the table of a call that gives delimiters.  A character of `d` above
127 is a negative `char`: the loop writes before the table for it and its entry stays false,
so that the table made from the byte 233 alone is the table made from the empty string. -/
theorem C21_delimiter_table (d : List Nat) (table : List Bool) :
    (makeDelimiterTable d table).take 256
        = (List.range 256).map (fun c =>
            decide ((c < 128 ∧ c ∈ d.takeWhile (fun x => decide (x ≠ 0)))
              ∨ c = 0 ∨ c = 9 ∨ c = 10 ∨ c = 32))
      ∧ (SetDefaultWordDelimiters d table).take 256 = (makeDelimiterTable d tempDelimitTable).take 256
      ∧ (makeDelimiterTable d tempDelimitTable).length = 256
      ∧ (makeDelimiterTable (bytes ".,") DefaultDelimiters).getD 46 false = true
      ∧ (makeDelimiterTable (bytes ".,") (makeDelimiterTable (bytes "ab") DefaultDelimiters)).getD
          97 false = false
      ∧ (makeDelimiterTable [233] DefaultDelimiters).getD 233 false = false
      ∧ makeDelimiterTable [233] DefaultDelimiters = makeDelimiterTable [] DefaultDelimiters := by
  have key : ∀ t : List Bool, (makeDelimiterTable d t).take 256
      = (List.range 256).map (fun c =>
          decide ((c < 128 ∧ c ∈ d.takeWhile (fun x => decide (x ≠ 0)))
            ∨ c = 0 ∨ c = 9 ∨ c = 10 ∨ c = 32)) := by
    intro t
    apply List.ext_getElem
    · rw [List.length_take, makeDelimiterTable_length, List.length_map, List.length_range]
      omega
    · intro c h1 h2
      have hc : c < 256 := by
        rw [List.length_map, List.length_range] at h2; exact h2
      have hl : c < (makeDelimiterTable d t).length := by
        rw [makeDelimiterTable_length]; omega
      have := makeDelimiterTable_getD d t c hc
      rw [List.getD_eq_getElem _ _ hl] at this
      rw [List.getElem_take, this, List.getElem_map, List.getElem_range]
  refine ⟨key table, ?_, ?_, delimiter_table_twice.1, delimiter_table_twice.2,
    delimiter_table_high_byte.1, delimiter_table_high_byte.2⟩
  · unfold SetDefaultWordDelimiters
    rw [key table, key tempDelimitTable]
  · rw [makeDelimiterTable_length]
    unfold tempDelimitTable
    rw [List.length_replicate]

/-! ### The default table of word delimiters -/

theorem subst_token_char (source : List Nat) (c src : Nat) (h38 : c ≠ 38) (h92 : c ≠ 92) :
    subst_token source c src = .ok (some (c, -1, 0, src)) := by
  unfold subst_token
  simp [h38, h92]

theorem subst_token_whole (source : List Nat) (src : Nat) :
    subst_token source 38 src = .ok (some (38, 0, 0, src)) := by
  unfold subst_token
  simp

theorem subst_token_group (source : List Nat) (src N : Nat) (h1 : 1 ≤ N) (h9 : N ≤ 9)
    (hd : charAt source src = 48 + N) :
    subst_token source 92 src = .ok (some (92, (N : Int), 0, src + 1)) := by
  unfold subst_token
  have e1 : ¬ (48 + N = 117) := by omega
  have e2 : ¬ (48 + N = 85) := by omega
  have e3 : ¬ (48 + N = 108) := by omega
  have e4 : ¬ (48 + N = 76) := by omega
  have e5 : 49 ≤ 48 + N ∧ 48 + N ≤ 57 := by omega
  simp [hd, e1, e2, e3, e4, e5]

theorem literal_escape_itself (c : Nat) (h : escapes_to_itself c = true) :
    literal_escape c = c ∨ literal_escape c = 0 := by
  unfold literal_escape
  split_ifs <;> simp_all [escapes_to_itself]

theorem subst_token_escaped (source : List Nat) (src c : Nat) (h : escapes_to_itself c = true)
    (hd : charAt source src = c) :
    subst_token source 92 src = .ok (some (c, -1, 0, src + 1)) := by
  have hl := literal_escape_itself c h
  have hc : c ≠ 0 ∧ ¬ (49 ≤ c ∧ c ≤ 57) ∧ c ≠ 117 ∧ c ≠ 85 ∧ c ≠ 108 ∧ c ≠ 76 ∧ c ≠ 48
      ∧ c ≠ 120 ∧ c ≠ 88 := by
    simp [escapes_to_itself] at h
    omega
  obtain ⟨c0, cd, c1, c2, c3, c4, c5, c6, c7⟩ := hc
  unfold subst_token
  rcases hl with hl | hl
  · by_cases hz : literal_escape c = 0
    · simp [hd, c1, c2, c3, c4, cd, hz, numeric_escape, c5, c6, c7, c0]
    · simp [hd, c1, c2, c3, c4, cd, hz, hl, c0]
  · simp [hd, c1, c2, c3, c4, cd, hl, numeric_escape, c5, c6, c7, c0]

theorem subst_token_last (source : List Nat) (src : Nat) (hd : charAt source src = 0) :
    subst_token source 92 src = .ok (some (92, -1, 0, src)) := by
  unfold subst_token
  simp [hd, literal_escape, numeric_escape]

theorem subst_loop_end (text : List Nat) (startp_ endp_ : List (Option Nat)) (source : List Nat)
    (max : Int) (fuel src : Nat) (dest : List Nat) (w : Bool) (hc : charAt source src = 0) :
    subst_loop text startp_ endp_ source max (fuel + 1) src dest w = .ok (!w, dest) := by
  rw [subst_loop]
  simp only [hc, if_true]

/-- One turn of the loop of `SubstituteRE` on a token that stands for one character. -/
theorem subst_loop_plain (text : List Nat) (startp_ endp_ : List (Option Nat))
    (source : List Nat) (max : Int) (fuel src : Nat) (dest : List Nat) (w : Bool)
    (c1 src1 : Nat) (h0 : charAt source src ≠ 0)
    (htok : subst_token source (charAt source src) (src + 1) = .ok (some (c1, -1, 0, src1)))
    (hroom : (dest.length : Int) < max - 1) :
    subst_loop text startp_ endp_ source max (fuel + 1) src dest w
      = subst_loop text startp_ endp_ source max fuel src1 (dest ++ [c1 % 256]) w := by
  rw [subst_loop]
  simp only [h0, if_false, htok]
  rw [if_pos (by decide), if_neg (by omega)]

/-- One turn of the loop of `SubstituteRE` on a token that names a group that is set. -/
theorem subst_loop_capture (text : List Nat) (startp_ endp_ : List (Option Nat))
    (source : List Nat) (max : Int) (fuel src : Nat) (dest : List Nat) (w : Bool)
    (c1 N src1 st en : Nat) (h0 : charAt source src ≠ 0)
    (htok : subst_token source (charAt source src) (src + 1)
      = .ok (some (c1, (N : Int), 0, src1)))
    (hs : startp_.getD N none = some st) (he : endp_.getD N none = some en) (hle : st ≤ en) :
    subst_loop text startp_ endp_ source max (fuel + 1) src dest w
      = subst_loop text startp_ endp_ source max fuel src1
          (dest ++ strncpy text st
            (if (dest.length : Int) + ((en - st : Nat) : Int) ≥ max - 1
             then (max - (dest.length : Int) - 1).toNat else en - st))
          (w || decide ((dest.length : Int) + ((en - st : Nat) : Int) ≥ max - 1)
            || (decide ((if (dest.length : Int) + ((en - st : Nat) : Int) ≥ max - 1
                  then (max - (dest.length : Int) - 1).toNat else en - st) ≠ 0)
                && decide ((strncpy text st
                    (if (dest.length : Int) + ((en - st : Nat) : Int) ≥ max - 1
                     then (max - (dest.length : Int) - 1).toNat else en - st)).getLastD 1
                    = 0))) := by
  rw [subst_loop]
  simp only [h0, if_false, htok]
  have hn : ¬ ((N : Int) < 0) := by omega
  rw [if_neg hn]
  simp only [Int.toNat_ofNat, hs, he]
  have hge : en ≥ st := hle
  simp only [hge, if_true, ne_eq, not_true_eq_false, if_false]
  by_cases hov : (dest.length : Int) + ((en - st : Nat) : Int) ≥ max - 1
  · simp only [hov, decide_True, if_true]
  · simp only [hov, decide_False, if_false, Bool.false_eq_true, Int.toNat_ofNat]

/-- One turn of the loop of `SubstituteRE` on a token that names a group that is not set. -/
theorem subst_loop_unset (text : List Nat) (startp_ endp_ : List (Option Nat))
    (source : List Nat) (max : Int) (fuel src : Nat) (dest : List Nat) (w : Bool)
    (c1 N src1 : Nat) (h0 : charAt source src ≠ 0)
    (htok : subst_token source (charAt source src) (src + 1)
      = .ok (some (c1, (N : Int), 0, src1)))
    (hu : startp_.getD N none = none ∨ endp_.getD N none = none) :
    subst_loop text startp_ endp_ source max (fuel + 1) src dest w
      = subst_loop text startp_ endp_ source max fuel src1 dest w := by
  rw [subst_loop]
  simp only [h0, if_false, htok]
  have hn : ¬ ((N : Int) < 0) := by omega
  rw [if_neg hn]
  simp only [Int.toNat_ofNat]
  rcases hu with hu | hu
  · rw [hu]
  · rw [hu]
    cases startp_.getD N none <;> rfl
theorem captured_length (text : List Nat) (startp_ endp_ : List (Option Nat)) (N st en : Nat)
    (hs : startp_.getD N none = some st) (he : endp_.getD N none = some en)
    (hin : en ≤ text.length) :
    captured text startp_ endp_ N = (text.drop st).take (en - st)
      ∧ (captured text startp_ endp_ N).length = en - st := by
  unfold captured
  rw [hs, he]
  refine ⟨rfl, ?_⟩
  simp only [List.length_take, List.length_drop]
  omega

/-- One turn of the loop of `SubstituteRE` on a token that names the group `N`, with room
for the text of the group: the text is written as it is and no warning is raised. -/
theorem subst_loop_group (text : List Nat) (startp_ endp_ : List (Option Nat))
    (source : List Nat) (max : Int) (fuel src : Nat) (dest : List Nat) (w : Bool)
    (c1 N src1 : Nat) (hcap : CapturesIn text startp_ endp_) (hN : N ≤ 9)
    (h0 : charAt source src ≠ 0)
    (htok : subst_token source (charAt source src) (src + 1)
      = .ok (some (c1, (N : Int), 0, src1)))
    (hroom : ((dest ++ captured text startp_ endp_ N).length : Int) < max - 1) :
    subst_loop text startp_ endp_ source max (fuel + 1) src dest w
      = subst_loop text startp_ endp_ source max fuel src1
          (dest ++ captured text startp_ endp_ N) w := by
  cases hs : startp_.getD N none with
  | none =>
    rw [subst_loop_unset text startp_ endp_ source max fuel src dest w c1 N src1 h0 htok
      (Or.inl hs)]
    unfold captured
    rw [hs, List.append_nil]
  | some st =>
    cases he : endp_.getD N none with
    | none =>
      rw [subst_loop_unset text startp_ endp_ source max fuel src dest w c1 N src1 h0 htok
        (Or.inr he)]
      unfold captured
      rw [hs, he, List.append_nil]
    | some en =>
      obtain ⟨hle, hin, hnz⟩ := hcap N st en hN hs he
      obtain ⟨hc, hl⟩ := captured_length text startp_ endp_ N st en hs he hin
      rw [List.length_append, hl] at hroom
      have hov : ¬ ((dest.length : Int) + ((en - st : Nat) : Int) ≥ max - 1) := by
        push_cast at hroom ⊢
        omega
      rw [subst_loop_capture text startp_ endp_ source max fuel src dest w c1 N src1 st en h0
        htok hs he hle]
      simp only [hov, if_false, decide_False, Bool.or_false]
      have hcp := strncpy_eq text st (en - st) (fun i h1 h2 => hnz i h1 (by omega)) (by omega)
      have hlast : ((text.drop st).take (en - st)).getLastD 1 ≠ 0 :=
        getLastD_ne_zero _ 1 (by decide) (span_ne_zero text st en hnz)
      rw [hcp, hc]
      simp only [hlast, decide_False, Bool.and_false, Bool.or_false]

theorem template_cons (it : TemplateItem) (items : List TemplateItem) :
    template (it :: items) = it.chars ++ template items := by
  simp [template]

theorem expansion_cons (text : List Nat) (startp_ endp_ : List (Option Nat))
    (it : TemplateItem) (items : List TemplateItem) :
    expansion text startp_ endp_ (it :: items)
      = it.value text startp_ endp_ ++ expansion text startp_ endp_ items := by
  simp [expansion]

theorem charAt_after_head (pre rest : List Nat) (i : Nat) :
    charAt (pre ++ rest) (pre.length + i) = rest.getD i 0 := by
  unfold charAt
  rw [List.getD_append_right _ _ _ _ (by omega), Nat.add_sub_cancel_left]

/-- The loop of `SubstituteRE` on a template of well-formed items, with a backslash as the
last character or not, from the item at the length of `pre` on: with room for the whole
expansion it writes the expansion and raises no warning. -/
theorem subst_loop_items (text : List Nat) (startp_ endp_ : List (Option Nat)) (max : Int)
    (hcap : CapturesIn text startp_ endp_) (last : List Nat) (hlast : last = [] ∨ last = [92]) :
    ∀ (items : List TemplateItem) (pre : List Nat) (fuel : Nat) (dest : List Nat) (w : Bool),
      (∀ it ∈ items, it.wf = true) → items.length + last.length < fuel →
      ((dest ++ expansion text startp_ endp_ items ++ last).length : Int) < max - 1 →
      subst_loop text startp_ endp_ (pre ++ (template items ++ last)) max fuel pre.length dest w
        = .ok (!w, dest ++ expansion text startp_ endp_ items ++ last) := by
  intro items
  induction items with
  | nil =>
    intro pre fuel dest w _ hf hroom
    rcases hlast with rfl | rfl
    · obtain ⟨F, rfl⟩ : ∃ F, fuel = F + 1 := ⟨fuel - 1, by simp at hf; omega⟩
      have hc : charAt (pre ++ (template [] ++ [])) pre.length = 0 := by
        have := charAt_after_head pre (template [] ++ []) 0
        rw [Nat.add_zero] at this
        rw [this]; rfl
      rw [subst_loop_end _ _ _ _ _ _ _ _ _ hc]
      simp [expansion]
    · obtain ⟨F, rfl⟩ : ∃ F, fuel = F + 1 + 1 := ⟨fuel - 2, by simp at hf; omega⟩
      have hc : charAt (pre ++ (template [] ++ [92])) pre.length = 92 := by
        have := charAt_after_head pre (template [] ++ [92]) 0
        rw [Nat.add_zero] at this
        rw [this]; rfl
      have hc1 : charAt (pre ++ (template [] ++ [92])) (pre.length + 1) = 0 := by
        rw [charAt_after_head]; rfl
      have hroom2 : (dest.length : Int) < max - 1 := by
        simp only [List.length_append] at hroom
        push_cast at hroom
        omega
      rw [subst_loop_plain _ _ _ _ _ _ _ _ _ 92 (pre.length + 1) (by rw [hc]; decide)
        (by rw [hc]; exact subst_token_last _ _ hc1) hroom2,
        subst_loop_end _ _ _ _ _ _ _ _ _ hc1]
      simp [expansion]
  | cons it rest ih =>
    intro pre fuel dest w hwf hf hroom
    obtain ⟨F, rfl⟩ : ∃ F, fuel = F + 1 := ⟨fuel - 1, by simp at hf; omega⟩
    have hrest : ∀ x ∈ rest, x.wf = true := fun x hx => hwf x (List.mem_cons_of_mem _ hx)
    have hit := hwf it (List.mem_cons_self _ _)
    have hF : rest.length + last.length < F := by simp at hf; omega
    rw [expansion_cons] at hroom ⊢
    rw [template_cons]
    have hsrc : pre ++ (it.chars ++ template rest ++ last)
        = (pre ++ it.chars) ++ (template rest ++ last) := by simp
    have hch : ∀ i, charAt (pre ++ (it.chars ++ template rest ++ last)) (pre.length + i)
        = (it.chars ++ template rest ++ last).getD i 0 := fun i => charAt_after_head _ _ i
    have hch0 := hch 0
    rw [Nat.add_zero] at hch0
    have hroom' : ((dest ++ it.value text startp_ endp_ ++ expansion text startp_ endp_ rest
        ++ last).length : Int) < max - 1 := by
      simpa [List.append_assoc] using hroom
    have hstep : ((dest ++ it.value text startp_ endp_).length : Int) < max - 1 := by
      simp only [List.length_append] at hroom' ⊢
      push_cast at hroom' ⊢
      omega
    have hnext := ih (pre ++ it.chars) F (dest ++ it.value text startp_ endp_) w hrest hF hroom'
    rw [← hsrc, List.length_append] at hnext
    cases it with
    | char c =>
      simp only [TemplateItem.wf, Bool.and_eq_true, decide_eq_true_eq] at hit
      obtain ⟨⟨⟨c0, c38⟩, c92⟩, c256⟩ := hit
      have e0 : charAt (pre ++ ((TemplateItem.char c).chars ++ template rest ++ last)) pre.length = c := hch0
      have hroom2 : (dest.length : Int) < max - 1 := by
        simp only [List.length_append] at hstep
        push_cast at hstep
        omega
      rw [subst_loop_plain _ _ _ _ _ _ _ _ _ c (pre.length + 1) (by rw [e0]; exact c0)
        (by rw [e0]; exact subst_token_char _ _ _ c38 c92) hroom2, Nat.mod_eq_of_lt c256]
      simpa [TemplateItem.chars, TemplateItem.value, List.append_assoc] using hnext
    | whole =>
      have e0 : charAt (pre ++ (TemplateItem.whole.chars ++ template rest ++ last)) pre.length = 38 := hch0
      rw [subst_loop_group _ _ _ _ _ _ _ _ _ 38 0 (pre.length + 1) hcap (by decide)
        (by rw [e0]; decide) (by rw [e0]; exact subst_token_whole _ _) hstep]
      simpa [TemplateItem.chars, TemplateItem.value, List.append_assoc] using hnext
    | group N =>
      simp only [TemplateItem.wf, Bool.and_eq_true, decide_eq_true_eq] at hit
      have e0 : charAt (pre ++ ((TemplateItem.group N).chars ++ template rest ++ last)) pre.length = 92 := hch0
      have e1 : charAt (pre ++ ((TemplateItem.group N).chars ++ template rest ++ last)) (pre.length + 1)
          = 48 + N := hch 1
      rw [subst_loop_group _ _ _ _ _ _ _ _ _ 92 N (pre.length + 1 + 1) hcap hit.2
        (by rw [e0]; decide) (by rw [e0]; exact subst_token_group _ _ N hit.1 hit.2 e1) hstep]
      simpa [TemplateItem.chars, TemplateItem.value, List.append_assoc, Nat.add_assoc]
        using hnext
    | escaped c =>
      simp only [TemplateItem.wf, Bool.and_eq_true, decide_eq_true_eq] at hit
      have e0 : charAt (pre ++ ((TemplateItem.escaped c).chars ++ template rest ++ last)) pre.length = 92 := hch0
      have e1 : charAt (pre ++ ((TemplateItem.escaped c).chars ++ template rest ++ last)) (pre.length + 1) = c := hch 1
      have hroom2 : (dest.length : Int) < max - 1 := by
        simp only [List.length_append] at hstep
        push_cast at hstep
        omega
      rw [subst_loop_plain _ _ _ _ _ _ _ _ _ c (pre.length + 1 + 1) (by rw [e0]; decide)
        (by rw [e0]; exact subst_token_escaped _ _ c hit.1 e1) hroom2, Nat.mod_eq_of_lt hit.2]
      simpa [TemplateItem.chars, TemplateItem.value, List.append_assoc, Nat.add_assoc]
        using hnext

theorem template_length_ge (items : List TemplateItem) :
    items.length ≤ (template items).length := by
  induction items with
  | nil => exact Nat.le_refl _
  | cons it rest ih =>
    rw [template_cons, List.length_append, List.length_cons]
    have : 1 ≤ it.chars.length := by cases it <;> simp [TemplateItem.chars]
    omega

theorem template_append (a b : List TemplateItem) :
    template (a ++ b) = template a ++ template b := by
  simp [template]

theorem expansion_append (text : List Nat) (startp_ endp_ : List (Option Nat))
    (a b : List TemplateItem) :
    expansion text startp_ endp_ (a ++ b)
      = expansion text startp_ endp_ a ++ expansion text startp_ endp_ b := by
  simp [expansion]

/-- The function `SubstituteRE` on a template of well-formed items, with a backslash as the
last character or not: with room for the whole expansion it returns true and leaves the
expansion in `dest`. -/
theorem SubstituteRE_items (program_ text : List Nat) (startp_ endp_ : List (Option Nat))
    (items : List TemplateItem) (last : List Nat) (max : Int)
    (hmagic : program_.getD 0 0 = MAGIC) (hcap : CapturesIn text startp_ endp_)
    (hlast : last = [] ∨ last = [92])
    (hwf : ∀ it ∈ items, it.wf = true)
    (hroom : ((expansion text startp_ endp_ items ++ last).length : Int) < max - 1) :
    SubstituteRE program_ text startp_ endp_ (template items ++ last) max
      = .ok (true, expansion text startp_ endp_ items ++ last) := by
  unfold SubstituteRE
  rw [if_neg (not_not.mpr hmagic)]
  have hf : items.length + last.length < (template items ++ last).length + 1 := by
    have := template_length_ge items
    rw [List.length_append]
    omega
  have h := subst_loop_items text startp_ endp_ max hcap last hlast items []
    ((template items ++ last).length + 1) [] false hwf hf
    (by rw [List.nil_append]; exact hroom)
  rw [List.nil_append, List.nil_append] at h
  exact h

/-- C23: a template made of ordinary characters, `&`, group references `\N` with N from 1
to 9 and escaped characters that stand for themselves, on a capture state whose groups span
text without NUL.  With a destination large enough for the expansion (its length below
`max - 1`), `SubstituteRE` returns true and leaves in `dest`, before the final NUL, the
expansion: the text of group 0 for each `&`, the text of group N for each `\N`, nothing for a
group whose start or end is not set, and the other characters of the template in order. -/
theorem C23_substitute_groups (program_ text : List Nat) (startp_ endp_ : List (Option Nat))
    (items : List TemplateItem) (max : Int)
    (hmagic : program_.getD 0 0 = MAGIC) (hcap : CapturesIn text startp_ endp_)
    (hwf : ∀ it ∈ items, it.wf = true)
    (hroom : ((expansion text startp_ endp_ items).length : Int) < max - 1) :
    SubstituteRE program_ text startp_ endp_ (template items) max
      = .ok (true, expansion text startp_ endp_ items) := by
  have h := SubstituteRE_items program_ text startp_ endp_ items [] max hmagic hcap
    (Or.inl rfl) hwf (by rw [List.append_nil]; exact hroom)
  rw [List.append_nil, List.append_nil] at h
  exact h

theorem captures_hello :
    CapturesIn (bytes "hello world") [some 0, some 0, none] [some 11, some 5, none] := by
  intro N st en hN hs he
  have h3 : N = 0 ∨ N = 1 ∨ 2 ≤ N := by omega
  rcases h3 with rfl | rfl | h2
  · cases hs; cases he
    exact ⟨by decide, by decide, fun i _ hi => by interval_cases i <;> decide⟩
  · cases hs; cases he
    exact ⟨by decide, by decide, fun i _ hi => by interval_cases i <;> decide⟩
  · exfalso
    have : ([some 0, some 0, none] : List (Option Nat)).getD N none = none := by
      obtain ⟨k, rfl⟩ : ∃ k, N = k + 2 := ⟨N - 2, by omega⟩
      cases k <;> rfl
    rw [this] at hs
    cases hs

/-- C23 on the template `<&|\1|\2>`, the whole match being `hello world`, group 1 `hello`
and group 2 not set: the output is `<hello world|hello|>`. -/
theorem C23_substitute_groups_witness :
    template [.char 60, .whole, .char 124, .group 1, .char 124, .group 2, .char 62]
        = bytes "<&|\\1|\\2>"
      ∧ SubstituteRE [MAGIC] (bytes "hello world") [some 0, some 0, none] [some 11, some 5, none]
          (template [.char 60, .whole, .char 124, .group 1, .char 124, .group 2, .char 62]) 30
        = .ok (true, expansion (bytes "hello world") [some 0, some 0, none]
            [some 11, some 5, none]
            [.char 60, .whole, .char 124, .group 1, .char 124, .group 2, .char 62])
      ∧ expansion (bytes "hello world") [some 0, some 0, none] [some 11, some 5, none]
            [.char 60, .whole, .char 124, .group 1, .char 124, .group 2, .char 62]
          = bytes "<hello world|hello|>" :=
  ⟨by decide,
    C23_substitute_groups [MAGIC] (bytes "hello world") [some 0, some 0, none]
      [some 11, some 5, none] _ 30 (by decide) captures_hello (by decide) (by decide),
    by decide⟩

/-! ### Escaped characters of a template -/

/-- C24, as stated, fails: in a template the sequence backslash-`n` produces a newline, not
the character `n`, and backslash-`x41` produces the character `A`. -/
theorem C24_escape_translated :
    SubstituteRE [MAGIC] [] [] [] (bytes "\\n") 10 = .ok (true, [10])
      ∧ bytes "\\n" = [92, 110]
      ∧ SubstituteRE [MAGIC] [] [] [] (bytes "\\x41") 10 = .ok (true, bytes "A") := by
  refine ⟨by decide, by decide, by decide⟩

/-- C24, amended: in a template, between well-formed items, the sequence backslash-`c`
produces the character `c` itself for every byte `c` other than NUL, the digits 1 to 9, the
case tokens `u U l L`, the letters `a b e f n r t v` and the characters `0 x X` of the
numeric escapes; and a backslash that is the last character of the template produces a
backslash.  The destination is taken large enough. -/
theorem C24_escaped_character (program_ text : List Nat) (startp_ endp_ : List (Option Nat))
    (before after : List TemplateItem) (c : Nat) (max : Int)
    (hmagic : program_.getD 0 0 = MAGIC) (hcap : CapturesIn text startp_ endp_)
    (hb : ∀ it ∈ before, it.wf = true) (ha : ∀ it ∈ after, it.wf = true)
    (hc : escapes_to_itself c = true) (h256 : c < 256)
    (hroom : ((expansion text startp_ endp_ before ++ [c]
      ++ expansion text startp_ endp_ after).length : Int) < max - 1) :
    SubstituteRE program_ text startp_ endp_ (template before ++ [92, c] ++ template after) max
        = .ok (true, expansion text startp_ endp_ before ++ [c]
            ++ expansion text startp_ endp_ after)
      ∧ SubstituteRE program_ text startp_ endp_ (template before ++ [92]) max
        = .ok (true, expansion text startp_ endp_ before ++ [92]) := by
  constructor
  · have hwf : ∀ it ∈ before ++ [TemplateItem.escaped c] ++ after, it.wf = true := by
      intro it hit
      simp only [List.mem_append, List.mem_singleton] at hit
      rcases hit with (h | h) | h
      · exact hb it h
      · subst h; simp [TemplateItem.wf, hc, h256]
      · exact ha it h
    have h := SubstituteRE_items program_ text startp_ endp_
      (before ++ [TemplateItem.escaped c] ++ after) [] max hmagic hcap (Or.inl rfl) hwf
    have ht : template (before ++ [TemplateItem.escaped c] ++ after)
        = template before ++ [92, c] ++ template after := by
      rw [template_append, template_append]; rfl
    have he : expansion text startp_ endp_ (before ++ [TemplateItem.escaped c] ++ after)
        = expansion text startp_ endp_ before ++ [c] ++ expansion text startp_ endp_ after := by
      rw [expansion_append, expansion_append]; rfl
    rw [ht, he, List.append_nil, List.append_nil] at h
    exact h hroom
  · refine SubstituteRE_items program_ text startp_ endp_ before [92] max hmagic hcap
      (Or.inr rfl) hb ?_
    simp only [List.length_append, List.length_singleton] at hroom ⊢
    push_cast at hroom ⊢
    omega

/-- C24 on the templates `a\qb` and `a\`: the outputs are `aqb` and `a\`. -/
theorem C24_escaped_character_witness :
    SubstituteRE [MAGIC] [] [] [] (bytes "a\\qb") 10 = .ok (true, bytes "aqb")
      ∧ SubstituteRE [MAGIC] [] [] [] (bytes "a\\") 10 = .ok (true, bytes "a\\") :=
  C24_escaped_character [MAGIC] [] [] [] [.char 97] [.char 98] 113 10 (by decide)
    (fun N st en _ hs _ => by cases hs) (by decide) (by decide) (by decide) (by decide)
    (by decide)

/-! ### The bound of the destination -/

theorem numeric_escape_loop_ge (s digit_str : List Nat) (radix pos_delta : Nat) :
    ∀ (i value scan : Nat),
      scan ≤ (numeric_escape_loop s digit_str radix pos_delta i value scan).2 := by
  intro i
  induction i with
  | zero => intro value scan; exact Nat.le_refl _
  | succ i ih =>
    intro value scan
    rw [numeric_escape_loop]
    split
    · exact Nat.le_refl _
    · simp only []
      split
      · exact Nat.le_refl _
      · split
        · exact Nat.le_refl _
        · exact Nat.le_trans (Nat.le_succ _) (ih _ _)

theorem numeric_escape_cases (s : List Nat) (c parse : Nat) :
    numeric_escape s c parse = .error .invalid_octal_escape
      ∨ numeric_escape s c parse = .error .invalid_hex_escape
      ∨ ∃ test src_alias, numeric_escape s c parse = .ok (test, src_alias)
          ∧ parse ≤ src_alias := by
  unfold numeric_escape
  by_cases h1 : c = 48
  · rw [if_pos h1]
    simp only []
    by_cases h2 : (numeric_escape_loop s (numeric_digits.drop 14) 8 14 3 0 (parse + 1)).1 = 0
    · rw [if_pos h2]; exact Or.inl rfl
    · rw [if_neg h2]
      refine Or.inr (Or.inr ⟨_, _, rfl, ?_⟩)
      have := numeric_escape_loop_ge s (numeric_digits.drop 14) 8 14 3 0 (parse + 1)
      omega
  · rw [if_neg h1]
    by_cases h3 : c = 120 ∨ c = 88
    · rw [if_pos h3]
      simp only []
      by_cases h2 : (numeric_escape_loop s numeric_digits 16 0 2 0 (parse + 1)).1 = 0
      · rw [if_pos h2]; exact Or.inr (Or.inl rfl)
      · rw [if_neg h2]
        refine Or.inr (Or.inr ⟨_, _, rfl, ?_⟩)
        have := numeric_escape_loop_ge s numeric_digits 16 0 2 0 (parse + 1)
        omega
    · rw [if_neg h3]
      exact Or.inr (Or.inr ⟨_, _, rfl, Nat.le_refl _⟩)

/-- What the reading of one token of the template ends with: an exception of
`numeric_escape`, the `break` after a case token, or a token, the index in the template not
moving back. -/
theorem subst_token_cases (source : List Nat) (c src : Nat) :
    subst_token source c src = .error .invalid_octal_escape
      ∨ subst_token source c src = .error .invalid_hex_escape
      ∨ subst_token source c src = .ok none
      ∨ ∃ c1 paren_no chgcase src1, subst_token source c src
            = .ok (some (c1, paren_no, chgcase, src1)) ∧ src ≤ src1 := by
  unfold subst_token
  simp only []
  generalize (decide (c = 92) &&
    (decide (charAt source src = 117) || decide (charAt source src = 85)
      || decide (charAt source src = 108) || decide (charAt source src = 76))) = cased
  generalize hs1 : (if cased = true then src + 2 else src) = src1
  generalize (if cased = true then charAt source (src + 1) else c) = c1
  generalize (if cased = true then charAt source src else 0) = chgcase
  have hle : src ≤ src1 := by rw [← hs1]; split <;> omega
  by_cases h1 : cased = true ∧ c1 = 0
  · rw [if_pos h1]; exact Or.inr (Or.inr (Or.inl rfl))
  rw [if_neg h1]
  by_cases h2 : c1 = 38
  · rw [if_pos h2]; exact Or.inr (Or.inr (Or.inr ⟨_, _, _, _, rfl, hle⟩))
  rw [if_neg h2]
  by_cases h3 : c1 = 92
  · rw [if_pos h3]
    by_cases h4 : 49 ≤ charAt source src1 ∧ charAt source src1 ≤ 57
    · rw [if_pos h4]; exact Or.inr (Or.inr (Or.inr ⟨_, _, _, _, rfl, by omega⟩))
    rw [if_neg h4]
    by_cases h5 : literal_escape (charAt source src1) ≠ 0
    · rw [if_pos h5]; exact Or.inr (Or.inr (Or.inr ⟨_, _, _, _, rfl, by omega⟩))
    rw [if_neg h5]
    rcases numeric_escape_cases source (charAt source src1) src1 with h | h | ⟨t, a, h, ha⟩
    · rw [h]; exact Or.inl rfl
    · rw [h]; exact Or.inr (Or.inl rfl)
    · rw [h]
      simp only []
      by_cases h6 : t ≠ 0
      · rw [if_pos h6]; exact Or.inr (Or.inr (Or.inr ⟨_, _, _, _, rfl, by omega⟩))
      rw [if_neg h6]
      by_cases h7 : charAt source src1 = 0
      · rw [if_pos h7]; exact Or.inr (Or.inr (Or.inr ⟨_, _, _, _, rfl, hle⟩))
      · rw [if_neg h7]; exact Or.inr (Or.inr (Or.inr ⟨_, _, _, _, rfl, by omega⟩))
  · rw [if_neg h3]; exact Or.inr (Or.inr (Or.inr ⟨_, _, _, _, rfl, hle⟩))
theorem strncpy_length (text : List Nat) (s len : Nat) : (strncpy text s len).length = len := by
  unfold strncpy
  simp only [List.length_append, List.length_replicate, List.length_take]
  omega

theorem adjustcase_length (str : List Nat) (tok : Nat) :
    (adjustcase str tok).length = str.length := by
  unfold adjustcase
  simp only []
  split_ifs <;> simp [List.length_append, List.length_map, List.length_take, List.length_drop]
    <;> omega

theorem charAt_ne_zero_lt (s : List Nat) (i : Nat) (h : charAt s i ≠ 0) : i < s.length := by
  by_contra hlt
  exact h (by unfold charAt; exact List.getD_eq_default _ _ (by omega))

/-- The characters that one turn of the loop of `SubstituteRE` copies for a group stay
within the bound. -/
theorem copy_bound (dest text : List Nat) (st chgcase : Nat) (len0 max : Int) (over : Bool)
    (hov : over = decide ((dest.length : Int) + len0 ≥ max - 1))
    (h : (dest.length : Int) ≤ max - 1) :
    ((dest ++ (if chgcase ≠ 0 then
        adjustcase (strncpy text st (if over = true then (max - (dest.length : Int) - 1).toNat
          else len0.toNat)) chgcase
      else strncpy text st (if over = true then (max - (dest.length : Int) - 1).toNat
          else len0.toNat))).length : Int) ≤ max - 1 := by
  have hl : ((if over = true then (max - (dest.length : Int) - 1).toNat else len0.toNat : Nat)
      : Int) + dest.length ≤ max - 1 := by
    cases over with
    | true =>
      simp only [if_true]
      rw [Int.toNat_of_nonneg (by omega)]
      omega
    | false =>
      simp only [Bool.false_eq_true, if_false]
      have : ¬ ((dest.length : Int) + len0 ≥ max - 1) := by
        intro hh
        have := decide_eq_true hh
        rw [← hov] at this
        exact Bool.false_ne_true this
      by_cases hn : 0 ≤ len0
      · rw [Int.toNat_of_nonneg hn]; omega
      · rw [Int.toNat_eq_zero.mpr (by omega)]; simpa using h
  generalize (if over = true then (max - (dest.length : Int) - 1).toNat else len0.toNat) = L
    at hl ⊢
  by_cases hcg : chgcase ≠ 0
  · rw [if_pos hcg, List.length_append, adjustcase_length, strncpy_length]
    push_cast
    omega
  · rw [if_neg hcg, List.length_append, strncpy_length]
    push_cast
    omega

/-- The loop of `SubstituteRE` ends, given a unit of fuel for each character of the
template: with an exception of `numeric_escape`, or with a string in `dest` that leaves room
for the final NUL below `max`. -/
theorem subst_loop_total (text : List Nat) (startp_ endp_ : List (Option Nat))
    (source : List Nat) (max : Int) :
    ∀ (fuel src : Nat) (dest : List Nat) (w : Bool), 1 ≤ fuel → source.length < fuel + src →
      (dest.length : Int) ≤ max - 1 →
      (∃ ok dst, subst_loop text startp_ endp_ source max fuel src dest w = .ok (ok, dst)
          ∧ (dst.length : Int) ≤ max - 1)
        ∨ subst_loop text startp_ endp_ source max fuel src dest w
            = .error .invalid_octal_escape
        ∨ subst_loop text startp_ endp_ source max fuel src dest w
            = .error .invalid_hex_escape := by
  intro fuel
  induction fuel with
  | zero => intro src dest w h; omega
  | succ F ih =>
    intro src dest w _ hlen hd
    rw [subst_loop]
    simp only []
    by_cases hc : charAt source src = 0
    · rw [if_pos hc]; exact Or.inl ⟨_, _, rfl, hd⟩
    rw [if_neg hc]
    have hsrc := charAt_ne_zero_lt source src hc
    have hF : 1 ≤ F := by omega
    rcases subst_token_cases source (charAt source src) (src + 1) with h | h | h
      | ⟨c1, p, cg, s1, h, hs1⟩
    · rw [h]; exact Or.inr (Or.inl rfl)
    · rw [h]; exact Or.inr (Or.inr rfl)
    · rw [h]; exact Or.inl ⟨_, _, rfl, hd⟩
    · rw [h]
      simp only []
      by_cases hp : p < 0
      · rw [if_pos hp]
        by_cases hr : (dest.length : Int) ≥ max - 1
        · rw [if_pos hr]; exact Or.inl ⟨_, _, rfl, hd⟩
        · rw [if_neg hr]
          refine ih s1 _ w hF (by omega) ?_
          rw [List.length_append]
          simp only [List.length_singleton]
          push_cast
          omega
      · rw [if_neg hp]
        cases startp_.getD p.toNat none with
        | none => exact ih s1 dest w hF (by omega) hd
        | some st =>
          cases endp_.getD p.toNat none with
          | none => exact ih s1 dest w hF (by omega) hd
          | some en =>
            simp only []
            refine ih s1 _ _ hF (by omega) ?_
            exact copy_bound dest text st cg _ max _ rfl hd

/-- C25: for every template, every capture state and every `max ≥ 1`, `SubstituteRE` ends.
Where it returns, the string left in `dest` has at most `max - 1` characters, so the final
NUL is written below index `max`.  It does not return on every template: on a numeric escape
without a value, as in `x\000y`, `numeric_escape` throws, and the exception leaves
`SubstituteRE` before the final NUL is written. -/
theorem C25_substitute_bound (program_ text : List Nat) (startp_ endp_ : List (Option Nat))
    (source : List Nat) (max : Int) (hmax : 1 ≤ max) :
    ((∃ ok dst, SubstituteRE program_ text startp_ endp_ source max = .ok (ok, dst)
          ∧ (dst.length : Int) ≤ max - 1)
        ∨ SubstituteRE program_ text startp_ endp_ source max = .error .invalid_octal_escape
        ∨ SubstituteRE program_ text startp_ endp_ source max = .error .invalid_hex_escape)
      ∧ SubstituteRE [MAGIC] (bytes "ab") [some 0] [some 2] (bytes "x\\000y") 10
          = .error .invalid_octal_escape := by
  refine ⟨?_, by decide⟩
  unfold SubstituteRE
  by_cases hm : program_.getD 0 0 ≠ MAGIC
  · rw [if_pos hm]
    exact Or.inl ⟨_, _, rfl, by simp only [List.length_nil]; push_cast; omega⟩
  · rw [if_neg hm]
    exact subst_loop_total text startp_ endp_ source max (source.length + 1) 0 [] false
      (by omega) (by omega) (by simp only [List.length_nil]; push_cast; omega)

/-- C25 on the template `&&&` with the whole match `ab` and `max = 4`: the output is cut to
the three characters `aba`. -/
theorem C25_substitute_bound_witness :
    (1 : Int) ≤ 4
      ∧ SubstituteRE [MAGIC] (bytes "ab") [some 0] [some 2] (bytes "&&&") 4
          = .ok (false, bytes "aba")
      ∧ ∃ ok dst, SubstituteRE [MAGIC] (bytes "ab") [some 0] [some 2] (bytes "&&&") 4
          = .ok (ok, dst) ∧ (dst.length : Int) ≤ 4 - 1 := by
  have e : SubstituteRE [MAGIC] (bytes "ab") [some 0] [some 2] (bytes "&&&") 4
      = .ok (false, bytes "aba") := by decide
  refine ⟨by decide, e, ?_⟩
  rcases (C25_substitute_bound [MAGIC] (bytes "ab") [some 0] [some 2] (bytes "&&&") 4
    (by decide)).1 with h | h | h
  · exact h
  · rw [e] at h; cases h
  · rw [e] at h; cases h

/-! ### The result of a substitution that fills the destination -/

/-- C26: the template `&` when the text of group 0 has exactly `max - 1` characters, none of
them NUL.  `SubstituteRE` leaves the whole text in `dest` and returns false: the test of the
capture branch, `(dst + len - dest) >= max - 1`, counts an expansion that just fits as too
long.  The branch of an ordinary character accepts the same length: the template `ab` with
`max = 3` returns true. -/
theorem C26_capture_fills_destination (program_ text : List Nat)
    (startp_ endp_ : List (Option Nat)) (st en : Nat) (max : Int)
    (hmagic : program_.getD 0 0 = MAGIC)
    (hs : startp_.getD 0 none = some st) (he : endp_.getD 0 none = some en)
    (hle : st ≤ en) (hin : en ≤ text.length)
    (hnz : ∀ i, st ≤ i → i < en → charAt text i ≠ 0)
    (hfit : ((en - st : Nat) : Int) = max - 1) :
    SubstituteRE program_ text startp_ endp_ (bytes "&") max
        = .ok (false, (text.drop st).take (en - st))
      ∧ SubstituteRE [MAGIC] (bytes "ab") [some 0] [some 2] (bytes "&") 3
          = .ok (false, bytes "ab")
      ∧ SubstituteRE [MAGIC] (bytes "ab") [some 0] [some 2] (bytes "ab") 3
          = .ok (true, bytes "ab")
      ∧ SubstituteRE [MAGIC] (bytes "ab") [some 0] [some 2] (bytes "&") 4
          = .ok (true, bytes "ab") := by
  refine ⟨?_, by decide, by decide, by decide⟩
  unfold SubstituteRE
  rw [if_neg (not_not.mpr hmagic)]
  have hb : bytes "&" = [38] := by decide
  rw [hb]
  show subst_loop text startp_ endp_ [38] max (0 + 1 + 1) 0 [] false = _
  have h0 : charAt [38] 0 ≠ 0 := by decide
  have htok : subst_token [38] (charAt [38] 0) (0 + 1) = .ok (some (38, ((0 : Nat) : Int), 0, 1)) :=
    subst_token_whole [38] 1
  rw [subst_loop_capture text startp_ endp_ [38] max (0 + 1) 0 [] false 38 0 1 st en h0 htok
    hs he hle]
  have hov : (([] : List Nat).length : Int) + ((en - st : Nat) : Int) ≥ max - 1 := by
    simp only [List.length_nil]; push_cast at hfit ⊢; omega
  have hlen : (max - (([] : List Nat).length : Int) - 1).toNat = en - st := by
    simp only [List.length_nil]; push_cast at hfit ⊢; omega
  simp only [hov, if_true, hlen, decide_True, Bool.or_true, Bool.true_or]
  have hcp := strncpy_eq text st (en - st) (fun i h1 h2 => hnz i h1 (by omega)) (by omega)
  rw [hcp, List.nil_append]
  exact subst_loop_end _ _ _ _ _ _ _ _ _ (by decide)

/-- C26 on the whole match `ab` with `max = 3`. -/
theorem C26_capture_fills_destination_witness :
    SubstituteRE [MAGIC] (bytes "ab") [some 0] [some 2] (bytes "&") 3
      = .ok (false, ((bytes "ab").drop 0).take (2 - 0)) :=
  (C26_capture_fills_destination [MAGIC] (bytes "ab") [some 0] [some 2] 0 2 3 (by decide)
    (by decide) (by decide) (by decide) (by decide)
    (fun i _ h => by interval_cases i <;> decide) (by decide)).1

/-! ### The bounds of a look-behind -/

/-- The range of a piece with a quantifier that has no maximum (`*`, `+`, `{m,}`): the piece
has no bounded length. -/
theorem piece_rest_unbounded (exp : List Nat) (a : Res) (min0 rp0 : Nat)
    (hq1 : isQuantifier (charAt exp a.cState.Reg_Parse) = true)
    (h63 : charAt exp a.cState.Reg_Parse ≠ 63)
    (hp : (if charAt exp a.cState.Reg_Parse = 123 then
            parse_brace exp (a.cState.Reg_Parse + 1)
           else .ok (REG_ZERO, REG_INFINITY, a.cState.Reg_Parse))
          = .ok (min0, REG_INFINITY, rp0)) :
    OkAll (fun r => r.range.lower < 0) (piece_rest exp a) := by
  unfold piece_rest
  simp only []
  apply OkAll.ite <;> intro h0
  · rw [hq1] at h0
    cases h0
  rw [hp]
  simp only []
  apply OkAll.ite <;> intro h1
  · exact absurd h1.2.2.2 (by decide)
  apply OkAll.ite <;> intro _
  · exact OkAll.error
  apply OkAll.ite <;> intro _
  · exact OkAll.error
  split
  · exact OkAll.error
  · apply OkAll.ite <;> intro hn
    · exact OkAll.error
    · apply OkAll.ok
      show (if a.range.lower ≥ 0 then _ else _ : len_range).lower < 0
      split_ifs <;> first | exact absurd rfl ‹_› | simp_all

/-- Once the range of an alternative is not bounded, it stays so to the end of the
alternative. -/
theorem alternative_loop_unbounded (exp : List Nat) (fuel : Nat) :
    ∀ (chain : Ptr) (flag : Nat) (range : len_range) (s : CompileState), range.lower < 0 →
      OkAll (fun r => r.range.lower < 0) (alternative_loop exp fuel chain flag range s) := by
  induction fuel with
  | zero => intro chain flag range s _; rw [alternative_loop]; exact OkAll.error
  | succ n ih =>
    intro chain flag range s hr
    rw [alternative_loop]
    simp only []
    apply OkAll.ite <;> intro _
    · exact OkAll.ok hr
    split
    · exact OkAll.error
    · apply OkAll.ite <;> intro _
      · exact OkAll.error
      · apply ih
        split_ifs
        · decide
        · omega
        · exact hr

/-- A piece without a bounded length leaves its alternative without a bounded length. -/
theorem alternative_loop_piece_unbounded (exp : List Nat) (fuel : Nat) (chain : Ptr)
    (flag : Nat) (range : len_range) (s : CompileState) (l : Res)
    (hp : piece exp fuel s = .ok l) (hl : l.range.lower < 0) :
    OkAll (fun r => r.range.lower < 0 ∨ charAt exp s.Reg_Parse = 124
        ∨ charAt exp s.Reg_Parse = 41 ∨ charAt exp s.Reg_Parse = 0)
      (alternative_loop exp (fuel + 1) chain flag range s) := by
  rw [alternative_loop]
  simp only []
  apply OkAll.ite <;> intro hc
  · exact OkAll.ok (Or.inr hc)
  rw [hp]
  simp only []
  apply OkAll.ite <;> intro _
  · exact OkAll.error
  · intro r hr
    refine Or.inl (alternative_loop_unbounded exp fuel _ _ _ _ ?_ r hr)
    rw [if_pos hl]
    decide

theorem alternative_unbounded (exp : List Nat) (fuel : Nat) (s : CompileState) (r0 : Res)
    (h : alternative_loop exp fuel Ptr.null WORST { lower := 0, upper := 0 }
      (emit_node BRANCH s).2 = .ok r0) :
    OkAll (fun r => r.range = r0.range) (alternative exp (fuel + 1) s) := by
  rw [alternative]
  simp only [h]
  apply OkAll.ite <;> intro _ <;> exact OkAll.ok rfl

/-- Once the range of the alternatives of a `chunk` is not bounded, it stays so, and an
alternative without a bounded length leaves the alternatives without one. -/
theorem chunk_loop_unbounded (exp : List Nat) (fuel : Nat) :
    ∀ (first : Bool) (rv : Ptr) (flag : Nat) (range : len_range) (s : CompileState),
      ((first = false ∧ range.lower < 0)
        ∨ ∃ b, alternative exp (fuel - 1) s = .ok b ∧ b.range.lower < 0) →
      OkAll (fun r => r.range.lower < 0) (chunk_loop exp fuel first rv flag range s) := by
  induction fuel with
  | zero => intro first rv flag range s _; rw [chunk_loop]; exact OkAll.error
  | succ n ih =>
    intro first rv flag range s hr
    rw [chunk_loop]
    simp only []
    split
    · exact OkAll.error
    · rename_i b hb
      have hrange : (if first = true then b.range
          else if range.lower ≥ 0 then
            if b.range.lower ≥ 0 then
              ({ lower := if b.range.lower < range.lower then b.range.lower else range.lower,
                 upper := if b.range.upper > range.upper then b.range.upper
                          else range.upper } : len_range)
            else { lower := -1, upper := -1 }
          else range).lower < 0 := by
        rcases hr with ⟨hf, hr⟩ | ⟨b2, hb2, hr⟩
        · rw [if_neg (by rw [hf]; decide), if_neg (by omega)]
          exact hr
        · rw [Nat.add_sub_cancel, hb] at hb2
          cases hb2
          split_ifs
          all_goals first | exact hr | decide | omega
      apply OkAll.ite <;> intro _
      · exact OkAll.error
      apply OkAll.ite <;> intro _
      · exact OkAll.ok hrange
      · exact ih _ _ _ _ _ (Or.inl ⟨rfl, hrange⟩)

/-- The two bytes that `putOffsetL` and `putOffsetR` make of a length hold the length modulo
65536. -/
theorem putOffset_value (v : Int) :
    ((putOffsetL v * 256 + putOffsetR v : Nat) : Int) = v % 65536 ∧ putOffsetL v < 256
      ∧ putOffsetR v < 256 := by
  unfold putOffsetL putOffsetR
  omega

/-- The function `chunk_close` rejects a look-behind without a bounded length and one whose
maximum length is above 65535. -/
theorem chunk_close_rejects (exp : List Nat) (paren this_paren : Nat) (look_only : Bool)
    (elbb : Ptr) (os onl : Bool) (rv : Ptr) (flag : Nat) (range : len_range) (s : CompileState)
    (he : elbb ≠ Ptr.null) (hp : paren ≠ NO_PAREN) :
    (range.lower < 0 →
        chunk_close exp paren this_paren look_only elbb os onl rv flag range s
            = .error .missing_right_paren
          ∨ chunk_close exp paren this_paren look_only elbb os onl rv flag range s
            = .error .look_behind_unbounded)
      ∧ (0 ≤ range.lower → range.upper > 65535 →
        chunk_close exp paren this_paren look_only elbb os onl rv flag range s
            = .error .missing_right_paren
          ∨ chunk_close exp paren this_paren look_only elbb os onl rv flag range s
            = .error .look_behind_too_large) := by
  rw [chunk_close_eq]
  unfold chunk_close_rest
  generalize chunk_hook (close_node paren this_paren s).1
            ((tail rv (close_node paren this_paren s).1
              (close_node paren this_paren s).2).program_.length + 1) rv
            (tail rv (close_node paren this_paren s).1 (close_node paren this_paren s).2) = cs
  by_cases h1 : paren ≠ NO_PAREN ∧ charAt exp cs.Reg_Parse ≠ 41
  · rw [if_pos h1]
    exact ⟨fun _ => Or.inl rfl, fun _ _ => Or.inl rfl⟩
  rw [if_neg h1, if_neg (fun h => hp h.1)]
  refine ⟨fun hl => ?_, fun hl hu => ?_⟩
  · rw [if_pos ⟨he, hl⟩]
    exact Or.inr rfl
  · rw [if_neg (fun h => absurd h.2 (by omega)), if_pos ⟨he, hu⟩]
    exact Or.inr rfl

theorem Ptr_prog_add (n k : Nat) : (Ptr.prog n).add (k : Int) = Ptr.prog (n + k) := by
  show Ptr.prog _ = _
  congr 1

/-- The bounds that `chunk_close` writes in the second pass for an accepted look-behind whose
node is at the offset `n`: the lower and the upper bound of the range, modulo 65536. -/
theorem chunk_close_bounds (exp : List Nat) (paren this_paren : Nat) (look_only : Bool)
    (n : Nat) (os onl : Bool) (rv : Ptr) (flag : Nat) (range : len_range) (s : CompileState)
    (r : Res) (hp : isProg s.Code_Emit_Ptr = true) (hlen : n + 6 < s.program_.length)
    (h : chunk_close exp paren this_paren look_only ((Ptr.prog n).add NodeSize) os onl rv flag
      range s = .ok r) :
    0 ≤ range.lower ∧ range.upper ≤ 65535
      ∧ (getLower r.cState.program_ (Ptr.prog n) : Int) = range.lower % 65536
      ∧ (getUpper r.cState.program_ (Ptr.prog n) : Int) = range.upper % 65536 := by
  rw [chunk_close_eq] at h
  unfold chunk_close_rest at h
  generalize hcs : chunk_hook (close_node paren this_paren s).1
            ((tail rv (close_node paren this_paren s).1
              (close_node paren this_paren s).2).program_.length + 1) rv
            (tail rv (close_node paren this_paren s).1 (close_node paren this_paren s).2) = cs at h
  have hsig : sig cs = sig s := by
    rw [← hcs, sig_chunk_hook, sig_tail, sig_close_node]
  have hne : (Ptr.prog n).add NodeSize ≠ Ptr.null := by simp [Ptr.add]
  by_cases h1 : paren ≠ NO_PAREN ∧ charAt exp cs.Reg_Parse ≠ 41
  · rw [if_pos h1] at h; cases h
  rw [if_neg h1] at h
  by_cases h2 : paren = NO_PAREN ∧ charAt exp cs.Reg_Parse ≠ 0
  · rw [if_pos h2] at h; split at h <;> cases h
  rw [if_neg h2] at h
  by_cases h3 : (Ptr.prog n).add NodeSize ≠ Ptr.null ∧ range.lower < 0
  · rw [if_pos h3] at h; cases h
  rw [if_neg h3] at h
  by_cases h4 : (Ptr.prog n).add NodeSize ≠ Ptr.null ∧ range.upper > 65535
  · rw [if_pos h4] at h; cases h
  rw [if_neg h4] at h
  have h4' : 0 ≤ range.lower := by
    by_contra hc
    exact h3 ⟨hne, by omega⟩
  have h5' : range.upper ≤ 65535 := by
    by_contra hc
    exact h4 ⟨hne, by omega⟩
  have h2 := Except.ok.inj h
  subst h2
  refine ⟨h4', h5', ?_⟩
  show (getLower (close_record exp paren this_paren flag
      (close_bounds ((Ptr.prog n).add NodeSize) range (close_advance paren cs))).program_ _ : Int)
        = _
    ∧ (getUpper (close_record exp paren this_paren flag
      (close_bounds ((Ptr.prog n).add NodeSize) range (close_advance paren cs))).program_ _ : Int)
        = _
  have hrec : ∀ t : CompileState, (close_record exp paren this_paren flag t).program_
      = t.program_ := by
    intro t
    unfold close_record
    simp only []
    split_ifs <;> rfl
  have hadv : sig (close_advance paren cs) = sig s := by rw [sig_close_advance, hsig]
  generalize close_advance paren cs = t at hadv
  have hpt : t.Code_Emit_Ptr ≠ Ptr.Compute_Size := by
    have h1 : isProg t.Code_Emit_Ptr = true := by
      have := congrArg Prod.fst hadv
      simp only [sig] at this
      rw [this]; exact hp
    intro hc
    rw [hc] at h1
    cases h1
  have hlt : n + 6 < t.program_.length := by
    have := congrArg (fun x => x.2.1) hadv
    simp only [sig] at this
    rw [this]; exact hlen
  rw [hrec]
  unfold close_bounds
  rw [if_pos ⟨hne, hpt⟩]
  have e3 : (Ptr.prog n).add NodeSize = Ptr.prog (n + 3) := Ptr_prog_add n 3
  have e4 : (Ptr.prog (n + 3)).add 1 = Ptr.prog (n + 3 + 1) := Ptr_prog_add (n + 3) 1
  have e5 : (Ptr.prog (n + 3)).add 2 = Ptr.prog (n + 3 + 2) := Ptr_prog_add (n + 3) 2
  have e6 : (Ptr.prog (n + 3)).add 3 = Ptr.prog (n + 3 + 3) := Ptr_prog_add (n + 3) 3
  rw [e3, e4, e5, e6]
  have vl := putOffset_value range.lower
  have vu := putOffset_value range.upper
  generalize putOffsetL range.lower = a at vl ⊢
  generalize putOffsetR range.lower = b at vl ⊢
  generalize putOffsetL range.upper = c at vu ⊢
  generalize putOffsetR range.upper = d at vu ⊢
  have g1 : n + 3 < t.program_.length := by omega
  have g2 : n + 3 + 1 < t.program_.length := by omega
  have g3 : n + 3 + 2 < t.program_.length := by omega
  have g4 : n + 3 + 3 < t.program_.length := by omega
  simp only [getLower, getUpper, peek, poke, NodeSize, List.getD_eq_getElem?_getD,
    List.getElem?_set, List.length_set]
  simp [g1, g2, g3, g4]
  omega

theorem emit_special_fst (op test_val index : Nat) (s : CompileState) :
    (emit_special op test_val index s).1 = s.Code_Emit_Ptr := by
  unfold emit_special
  by_cases h : s.Code_Emit_Ptr = Ptr.Compute_Size
  · rw [if_pos h]
    split_ifs <;> exact h.symm
  · rw [if_neg h]
    simp only []
    split_ifs <;> exact emit_node_fst _ _

/-- The function `chunk` on a look-behind: the loop over the alternatives, then
`chunk_close` with the address of the bounds in the node. -/
theorem chunk_look_behind (exp : List Nat) (fuel paren : Nat) (s : CompileState)
    (hparen : paren = POS_BEHIND_OPEN ∨ paren = NEG_BEHIND_OPEN) :
    chunk exp (fuel + 1) paren s
      = match chunk_loop exp fuel true s.Code_Emit_Ptr WORST { lower := 0, upper := 0 }
            (emit_special paren 0 0 s).2 with
        | .error e => .error e
        | .ok r =>
          chunk_close exp paren 0 true (s.Code_Emit_Ptr.add NodeSize) s.Is_Case_Insensitive
            s.Match_Newline r.ret_val r.flag r.range r.cState := by
  have hopen : chunk_open paren s
      = .ok (s.Code_Emit_Ptr, 0, WORST, true, s.Code_Emit_Ptr.add NodeSize,
          (emit_special paren 0 0 s).2) := by
    unfold chunk_open
    rcases hparen with rfl | rfl <;>
      simp [POS_BEHIND_OPEN, NEG_BEHIND_OPEN, PAREN, POS_AHEAD_OPEN, NEG_AHEAD_OPEN,
        emit_special_fst]
  rw [chunk, hopen]

theorem Ptr_add_ne_null (p : Ptr) (k : Int) (h : p ≠ Ptr.null) : p.add k ≠ Ptr.null := by
  cases p <;> simp [Ptr.add] at h ⊢

set_option maxRecDepth 100000 in
theorem look_behind_examples :
    CompileRE (bytes "(?<=a*)b") 0 = .error .look_behind_unbounded
      ∧ CompileRE (bytes "(?<=b|a+)c") 0 = .error .look_behind_unbounded
      ∧ CompileRE (bytes "(?<=a\x7b2,\x7d)c") 0 = .error .look_behind_unbounded
      ∧ CompileRE (bytes "(a)(?<=\\1)c") 0 = .error .look_behind_unbounded
      ∧ CompileRE (bytes "(?<=a\x7b65535\x7da)c") 0 = .error .look_behind_too_large
      ∧ (CompileRE (bytes "(?<=ab|c)d") 0).map (fun re =>
          (getLower re.program_ (Ptr.prog 6), getUpper re.program_ (Ptr.prog 6))) = .ok (1, 2)
      ∧ (CompileRE (bytes "(?<!a?b\x7b2,5\x7d)c") 0).map (fun re =>
          (getLower re.program_ (Ptr.prog 6), getUpper re.program_ (Ptr.prog 6))) = .ok (2, 6) := by
  refine ⟨by decide!, by decide!, by decide!, by decide!, by decide!, by decide!, by decide!⟩

set_option maxRecDepth 1000000 in
/-- The products of `piece` wrap around: the look-behind over `aa` repeated 32768, 32768,
32768, 32768 and 8 times, which matches 2^64 characters only, is accepted with the bounds 0
and 0; the one over `a` repeated from 1 to 65535 times at four levels, which matches up to
65535^4 characters, is accepted with the bounds 1 and 1; the one over `a` repeated 65535
times at four levels has a bounded length and is rejected as not bounded. -/
theorem look_behind_wraps :
    (CompileRE (bytes
        "(?<=(?:(?:(?:(?:(?:aa)\x7b32768\x7d)\x7b32768\x7d)\x7b32768\x7d)\x7b32768\x7d)\x7b8\x7d)b")
        0).map
        (fun re => (getLower re.program_ (Ptr.prog 6), getUpper re.program_ (Ptr.prog 6)))
        = .ok (0, 0)
      ∧ (CompileRE (bytes
          "(?<=(?:(?:(?:a\x7b1,65535\x7d)\x7b1,65535\x7d)\x7b1,65535\x7d)\x7b1,65535\x7d)b")
          0).map
        (fun re => (getLower re.program_ (Ptr.prog 6), getUpper re.program_ (Ptr.prog 6)))
        = .ok (1, 1)
      ∧ CompileRE (bytes
          "(?<=(?:(?:(?:a\x7b65535\x7d)\x7b65535\x7d)\x7b65535\x7d)\x7b65535\x7d)b") 0
        = .error .look_behind_unbounded := by
  refine ⟨by decide!, by decide!, by decide!⟩

/-- C27: a look-behind, positive or negative.  In both passes `chunk` fails when the range
of lengths that the loop over the alternatives has computed has a negative lower bound, which
stands for a length that is not bounded, or an upper bound above 65535; the error is the one
of the look-behind unless the parenthesis is not closed.  The range is not bounded once a
piece has a quantifier without a maximum (`*`, `+`, `{m,}`) or is a back reference, in any
alternative.  When `chunk` accepts the look-behind in the second pass, the node being at the
offset `n`, the lower bound computed is not negative, the upper bound not above 65535, and
the two 16-bit fields of the node hold the two bounds modulo 65536: the lower bound itself
when it is not above 65535, the upper bound itself when it is not negative.  The regexes
`(?<=a*)b`, `(?<=b|a+)c`, `(?<=a{2,})c` and `(a)(?<=\1)c` fail for a look-behind that is not
bounded and `(?<=a{65535}a)c` for one that is too large; the node of the look-behind of
`(?<=ab|c)d` holds the bounds 1 and 2, the one of `(?<!a?b{2,5})c` the bounds 2 and 6.  The
bounds computed are the lengths modulo 2^64, the products of `piece` being computed in
`unsigned long`: a look-behind of the length 2^64 is accepted with the bounds 0 and 0, one of
the maximum length 65535^4 with the bounds 1 and 1, and one of the fixed length 65535^4 is
rejected as not bounded. -/
theorem C27_look_behind_bounds (exp : List Nat) (fuel paren : Nat) (s : CompileState)
    (r0 : Res) (hparen : paren = POS_BEHIND_OPEN ∨ paren = NEG_BEHIND_OPEN)
    (hptr : s.Code_Emit_Ptr ≠ Ptr.null)
    (hloop : chunk_loop exp fuel true s.Code_Emit_Ptr WORST { lower := 0, upper := 0 }
      (emit_special paren 0 0 s).2 = .ok r0) :
    (r0.range.lower < 0 →
        chunk exp (fuel + 1) paren s = .error .missing_right_paren
          ∨ chunk exp (fuel + 1) paren s = .error .look_behind_unbounded)
      ∧ (0 ≤ r0.range.lower → r0.range.upper > 65535 →
        chunk exp (fuel + 1) paren s = .error .missing_right_paren
          ∨ chunk exp (fuel + 1) paren s = .error .look_behind_too_large)
      ∧ (∀ n r, s.Code_Emit_Ptr = Ptr.prog n → n + 6 < s.program_.length →
          chunk exp (fuel + 1) paren s = .ok r →
          0 ≤ r0.range.lower ∧ r0.range.upper ≤ 65535
            ∧ (getLower r.cState.program_ (Ptr.prog n) : Int) = r0.range.lower % 65536
            ∧ (getUpper r.cState.program_ (Ptr.prog n) : Int) = r0.range.upper % 65536
            ∧ (r0.range.lower ≤ 65535 →
                (getLower r.cState.program_ (Ptr.prog n) : Int) = r0.range.lower)
            ∧ (0 ≤ r0.range.upper →
                (getUpper r.cState.program_ (Ptr.prog n) : Int) = r0.range.upper))
      ∧ (∀ a min0 rp0, isQuantifier (charAt exp a.cState.Reg_Parse) = true →
          charAt exp a.cState.Reg_Parse ≠ 63 →
          (if charAt exp a.cState.Reg_Parse = 123 then
              parse_brace exp (a.cState.Reg_Parse + 1)
            else .ok (REG_ZERO, REG_INFINITY, a.cState.Reg_Parse))
            = .ok (min0, REG_INFINITY, rp0) →
          ∀ r, piece_rest exp a = .ok r → r.range.lower < 0)
      ∧ (∀ f chain flag range t l r, piece exp f t = .ok l → l.range.lower < 0 →
          alternative_loop exp (f + 1) chain flag range t = .ok r →
          r.range.lower < 0 ∨ charAt exp t.Reg_Parse = 124 ∨ charAt exp t.Reg_Parse = 41
            ∨ charAt exp t.Reg_Parse = 0)
      ∧ (∀ f first rv flag range t b r, alternative exp f t = .ok b → b.range.lower < 0 →
          chunk_loop exp (f + 1) first rv flag range t = .ok r → r.range.lower < 0)
      ∧ (∀ f first rv flag range t r, first = false → range.lower < 0 →
          chunk_loop exp f first rv flag range t = .ok r → r.range.lower < 0)
      ∧ CompileRE (bytes "(?<=a*)b") 0 = .error .look_behind_unbounded
      ∧ CompileRE (bytes "(?<=b|a+)c") 0 = .error .look_behind_unbounded
      ∧ CompileRE (bytes "(?<=a\x7b2,\x7d)c") 0 = .error .look_behind_unbounded
      ∧ CompileRE (bytes "(a)(?<=\\1)c") 0 = .error .look_behind_unbounded
      ∧ CompileRE (bytes "(?<=a\x7b65535\x7da)c") 0 = .error .look_behind_too_large
      ∧ (CompileRE (bytes "(?<=ab|c)d") 0).map (fun re =>
          (getLower re.program_ (Ptr.prog 6), getUpper re.program_ (Ptr.prog 6))) = .ok (1, 2)
      ∧ (CompileRE (bytes "(?<!a?b\x7b2,5\x7d)c") 0).map (fun re =>
          (getLower re.program_ (Ptr.prog 6), getUpper re.program_ (Ptr.prog 6))) = .ok (2, 6)
      ∧ (CompileRE (bytes
          "(?<=(?:(?:(?:(?:(?:aa)\x7b32768\x7d)\x7b32768\x7d)\x7b32768\x7d)\x7b32768\x7d)\x7b8\x7d)b")
          0).map
        (fun re => (getLower re.program_ (Ptr.prog 6), getUpper re.program_ (Ptr.prog 6)))
        = .ok (0, 0)
      ∧ (CompileRE (bytes
          "(?<=(?:(?:(?:a\x7b1,65535\x7d)\x7b1,65535\x7d)\x7b1,65535\x7d)\x7b1,65535\x7d)b")
          0).map
        (fun re => (getLower re.program_ (Ptr.prog 6), getUpper re.program_ (Ptr.prog 6)))
        = .ok (1, 1)
      ∧ CompileRE (bytes
          "(?<=(?:(?:(?:a\x7b65535\x7d)\x7b65535\x7d)\x7b65535\x7d)\x7b65535\x7d)b") 0
        = .error .look_behind_unbounded := by
  have hc := chunk_look_behind exp fuel paren s hparen
  rw [hloop] at hc
  simp only [] at hc
  have hnp : paren ≠ NO_PAREN := by
    rcases hparen with rfl | rfl <;> decide
  have hrej := chunk_close_rejects exp paren 0 true (s.Code_Emit_Ptr.add NodeSize)
    s.Is_Case_Insensitive s.Match_Newline r0.ret_val r0.flag r0.range r0.cState
    (Ptr_add_ne_null _ _ hptr) hnp
  obtain ⟨x1, x2, x3, x4, x5, x6, x7⟩ := look_behind_examples
  refine ⟨?_, ?_, ?_, ?_, ?_, ?_, ?_, x1, x2, x3, x4, x5, x6, x7, look_behind_wraps⟩
  · intro hr
    rw [hc]
    exact hrej.1 hr
  · intro hl hu
    rw [hc]
    exact hrej.2 hl hu
  · intro n r hn hlen h
    rw [hc, hn] at h
    have hk : Keeps (emit_special paren 0 0 s).2 r0.cState :=
      (grammar_Keeps exp fuel).2.1 _ _ _ _ _ _ hloop
    have h3 := sig_emit_special paren 0 0 s
    have hp : isProg r0.cState.Code_Emit_Ptr = true := by
      have h1 := hk.1
      rw [h3] at h1
      simp only [sig] at h1
      rw [h1, hn]
      rfl
    have hl : n + 6 < r0.cState.program_.length := by
      have h2 := hk.2.1
      rw [h3] at h2
      simp only [sig] at h2
      rw [h2]
      exact hlen
    obtain ⟨b1, b2, b3, b4⟩ := chunk_close_bounds exp paren 0 true n s.Is_Case_Insensitive
      s.Match_Newline r0.ret_val r0.flag r0.range r0.cState r hp hl h
    refine ⟨b1, b2, b3, b4, fun h5 => ?_, fun h6 => ?_⟩
    · rw [b3]; omega
    · rw [b4]; omega
  · intro a min0 rp0 hq h63 hp r hr
    exact piece_rest_unbounded exp a min0 rp0 hq h63 hp r hr
  · intro f chain flag range t l r hp hl hr
    exact alternative_loop_piece_unbounded exp f chain flag range t l hp hl r hr
  · intro f first rv flag range t b r hb hl hr
    exact chunk_loop_unbounded exp (f + 1) first rv flag range t
      (Or.inr ⟨b, by rw [Nat.add_sub_cancel]; exact hb, hl⟩) r hr
  · intro f first rv flag range t r hf hl hr
    exact chunk_loop_unbounded exp f first rv flag range t (Or.inl ⟨hf, hl⟩) r hr

/-- C27 on the look-behind of `(?<=a*)b` in the first pass: the loop over the alternatives
returns the range (-1,-1) and `chunk` fails, the look-behind being not bounded. -/
theorem C27_look_behind_bounds_witness :
    chunk (bytes "(?<=a*)b") (10 + 1) POS_BEHIND_OPEN (pass1_state 4 9)
        = .error .missing_right_paren
      ∨ chunk (bytes "(?<=a*)b") (10 + 1) POS_BEHIND_OPEN (pass1_state 4 9)
        = .error .look_behind_unbounded :=
  (C27_look_behind_bounds (bytes "(?<=a*)b") 10 POS_BEHIND_OPEN (pass1_state 4 9)
    { ret_val := Ptr.Compute_Size, flag := 0, range := { lower := -1, upper := -1 },
      cState := pass1_state 6 27 }
    (Or.inl rfl) (by decide) (by decide!)).1 (by decide)

/-! ### The candidates of a look-behind -/

/-- The loop of a look-behind tries the lengths from `lower` to `upper` in increasing
order. -/
theorem match_behind_tries (program text : List Nat) (delimiters : List Bool) (next : Ptr)
    (save upper : Nat) :
    ∀ (n fuel lower : Nat) (state : ExecState), upper + 1 - lower = n → n < fuel →
      match_behind program text delimiters fuel next save lower upper state
        = behind_tries program text delimiters next save fuel (List.range' lower n) state := by
  intro n
  induction n with
  | zero =>
    intro fuel lower state hn hf
    obtain ⟨F, rfl⟩ : ∃ F, fuel = F + 1 := ⟨fuel - 1, by omega⟩
    rw [match_behind, if_pos (by omega)]
    rfl
  | succ n ih =>
    intro fuel lower state hn hf
    obtain ⟨F, rfl⟩ : ∃ F, fuel = F + 1 := ⟨fuel - 1, by omega⟩
    have hr : List.range' lower (n + 1) = lower :: List.range' (lower + 1) n := rfl
    rw [match_behind, if_neg (by omega), hr, behind_tries]
    have hrec : ∀ st, match_behind program text delimiters F next save (lower + 1) upper st
        = behind_tries program text delimiters next save F (List.range' (lower + 1) n) st :=
      fun st => ih F (lower + 1) st (by omega) (by omega)
    by_cases hfl : save < state.lookBehindTo + lower
    · rw [if_pos hfl, if_pos hfl]
    · rw [if_neg hfl, if_neg hfl]
      cases hm : match_ program text delimiters F next false
          { state with input := save - lower } with
      | none => rfl
      | some p =>
        obtain ⟨answer, st⟩ := p
        simp only []
        by_cases h1 : st.Recursion_Limit_Exceeded = true
        · rw [if_pos h1, if_pos h1]
        · rw [if_neg h1, if_neg h1]
          by_cases h2 : answer = true ∧ st.input = save
          · rw [if_pos h2, if_pos h2]
          · rw [if_neg h2, if_neg h2]
            exact hrec st
/-- A candidate that the look-behind accepts starts at `save - offset`, not before the
look-behind floor, for a length `offset` of the list, and its match ends at `save`. -/
theorem behind_tries_found (program text : List Nat) (delimiters : List Bool) (next : Ptr)
    (save : Nat) :
    ∀ (offsets : List Nat) (fuel : Nat) (state st2 : ExecState),
      behind_tries program text delimiters next save fuel offsets state = some (some true, st2) →
      ∃ offset f st0 st1, offset ∈ offsets ∧ st0.lookBehindTo + offset ≤ save
        ∧ st0.input = save - offset
        ∧ match_ program text delimiters f next false st0 = some (true, st1)
        ∧ st1.input = save := by
  intro offsets
  induction offsets with
  | nil =>
    intro fuel state st2 h
    rw [behind_tries] at h
    cases h
  | cons offset rest ih =>
    intro fuel state st2 h
    cases fuel with
    | zero => rw [behind_tries] at h; cases h
    | succ F =>
      rw [behind_tries] at h
      by_cases hfl : save < state.lookBehindTo + offset
      · rw [if_pos hfl] at h; cases h
      · rw [if_neg hfl] at h
        cases hm : match_ program text delimiters F next false
            { state with input := save - offset } with
        | none => rw [hm] at h; cases h
        | some p =>
          obtain ⟨answer, st⟩ := p
          rw [hm] at h
          simp only [] at h
          by_cases h1 : st.Recursion_Limit_Exceeded = true
          · rw [if_pos h1] at h; cases h
          · rw [if_neg h1] at h
            by_cases h2 : answer = true ∧ st.input = save
            · refine ⟨offset, F, { state with input := save - offset }, st,
                List.mem_cons_self _ _, ?_, rfl, ?_, h2.2⟩
              · show state.lookBehindTo + offset ≤ save
                omega
              · rw [hm, h2.1]
            · rw [if_neg h2] at h
              obtain ⟨o, f, st0, st1, ho, r⟩ := ih F st st2 h
              exact ⟨o, f, st0, st1, List.mem_cons_of_mem _ ho, r⟩

/-- The case of a look-behind in `match`: the candidates, then the positive look-behind goes
on when a candidate was accepted and the negative one when none was. -/
theorem match_node_behind (program text : List Nat) (delimiters : List Bool) (fuel : Nat)
    (scan : Ptr) (bip : Bool) (state : ExecState)
    (hop : getOpcode program scan = POS_BEHIND_OPEN ∨ getOpcode program scan = NEG_BEHIND_OPEN)
    (hf : getUpper program scan + 1 - getLower program scan < fuel) :
    match_node program text delimiters (fuel + 1) scan bip state
      = match behind_tries program text delimiters (NEXT_PTR program scan) state.input fuel
            (List.range' (getLower program scan)
              (getUpper program scan + 1 - getLower program scan))
            { state with endOfString := some state.input } with
        | none => none
        | some (none, st) => some (Step.done false st)
        | some (some found, st) =>
          if found = decide (getOpcode program scan = POS_BEHIND_OPEN) then
            (skip_branches program (program.length + 1)
              (next_ptr program ((OPERAND scan).add LengthSize))).map (fun close =>
                Step.next (next_ptr program close)
                  { st with input := state.input, endOfString := state.endOfString })
          else
            some (Step.done false
              { st with input := state.input, endOfString := state.endOfString }) := by
  rw [match_node]
  simp only []
  have hb : ¬ getOpcode program scan = BRANCH := by rcases hop with h | h <;> rw [h] <;> decide
  have hs : ¬ (STAR ≤ getOpcode program scan ∧ getOpcode program scan ≤ LAZY_BRACE) := by
    rcases hop with h | h <;> rw [h] <;> decide
  have ha : ¬ (getOpcode program scan = POS_AHEAD_OPEN
      ∨ getOpcode program scan = NEG_AHEAD_OPEN) := by
    rcases hop with h | h <;> rw [h] <;> decide
  rw [if_neg hb, if_neg hs, if_neg ha, if_pos hop,
    match_behind_tries program text delimiters _ _ _ _ fuel _ _ rfl hf]
  cases behind_tries program text delimiters (NEXT_PTR program scan) state.input fuel
      (List.range' (getLower program scan)
        (getUpper program scan + 1 - getLower program scan))
      { state with endOfString := some state.input } with
  | none => rfl
  | some p =>
    obtain ⟨found, st⟩ := p
    cases found with
    | none => rfl
    | some found =>
      simp only []
      rcases hop with h | h
      · cases found
        · simp [h]
        · simp only [h, if_true, decide_True]
          cases skip_branches program (program.length + 1)
            (next_ptr program ((OPERAND scan).add LengthSize)) <;> rfl
      · cases found
        · simp only [h]
          have e : decide ((47 : Nat) = POS_BEHIND_OPEN) = false := by decide
          simp only [e, if_true]
          cases skip_branches program (program.length + 1)
            (next_ptr program ((OPERAND scan).add LengthSize)) <;> simp
        · simp [h]

set_option maxRecDepth 100000 in
theorem look_behind_floor :
    (CompileRE (bytes "(?<=foo)bar") 0).map (fun re =>
        (ExecRE re 50 (bytes "foobar") 0 none Direction.Forward 0 0 none none none
          DefaultDelimiters fresh_mem).map (fun x => (x.1, group x.2 0)))
        = .ok (some (true, [some 3, some 6]))
      ∧ (CompileRE (bytes "(?<=foo)bar") 0).map (fun re =>
        (ExecRE re 50 (bytes "foobar") 0 none Direction.Forward 0 0 none (some 1) none
          DefaultDelimiters fresh_mem).map (fun x => x.1)) = .ok (some false)
      ∧ (CompileRE (bytes "(?<!foo)bar") 0).map (fun re =>
        (ExecRE re 50 (bytes "foobar") 0 none Direction.Forward 0 0 none none none
          DefaultDelimiters fresh_mem).map (fun x => x.1)) = .ok (some false)
      ∧ (CompileRE (bytes "(?<!foo)bar") 0).map (fun re =>
        (ExecRE re 50 (bytes "foobar") 0 none Direction.Forward 0 0 none (some 1) none
          DefaultDelimiters fresh_mem).map (fun x => (x.1, group x.2 0)))
        = .ok (some (true, [some 3, some 6]))
      ∧ (CompileRE (bytes "(?<=a|bc)d") 0).map (fun re =>
        (ExecRE re 50 (bytes "xbcd") 0 none Direction.Forward 0 0 none none none
          DefaultDelimiters fresh_mem).map (fun x => (x.1, group x.2 0)))
        = .ok (some (true, [some 3, some 4])) := by
  refine ⟨by decide!, by decide!, by decide!, by decide!, by decide!⟩

/-- C28: the node of a look-behind in `match`, positive or negative, with fuel for its
candidates.  The lengths from the lower to the upper bound of the node are tried in
increasing order (`behind_tries` on the list of the lengths), each from the input position
less the length; a length that would start before the look-behind floor ends the tries; a
candidate is accepted only when its match ends at the input position.  The positive
look-behind goes on after its closing node when a candidate was accepted and fails
otherwise; the negative one goes on when none was accepted.  The regex `(?<=foo)bar` on
`foobar` matches [3,6) with the floor at the start of the subject and does not match with the
floor one character later; `(?<!foo)bar` does the opposite. -/
theorem C28_look_behind (program text : List Nat) (delimiters : List Bool) (fuel : Nat)
    (scan : Ptr) (bip : Bool) (state : ExecState)
    (hop : getOpcode program scan = POS_BEHIND_OPEN ∨ getOpcode program scan = NEG_BEHIND_OPEN)
    (hf : getUpper program scan + 1 - getLower program scan < fuel) :
    match_node program text delimiters (fuel + 1) scan bip state
        = (match behind_tries program text delimiters (NEXT_PTR program scan) state.input fuel
            (List.range' (getLower program scan)
              (getUpper program scan + 1 - getLower program scan))
            { state with endOfString := some state.input } with
        | none => none
        | some (none, st) => some (Step.done false st)
        | some (some found, st) =>
          if found = decide (getOpcode program scan = POS_BEHIND_OPEN) then
            (skip_branches program (program.length + 1)
              (next_ptr program ((OPERAND scan).add LengthSize))).map (fun close =>
                Step.next (next_ptr program close)
                  { st with input := state.input, endOfString := state.endOfString })
          else
            some (Step.done false
              { st with input := state.input, endOfString := state.endOfString }))
      ∧ (∀ st2, behind_tries program text delimiters (NEXT_PTR program scan) state.input fuel
            (List.range' (getLower program scan)
              (getUpper program scan + 1 - getLower program scan))
            { state with endOfString := some state.input } = some (some true, st2) →
          ∃ offset f st0 st1, getLower program scan ≤ offset ∧ offset ≤ getUpper program scan
            ∧ st0.lookBehindTo + offset ≤ state.input ∧ st0.input = state.input - offset
            ∧ match_ program text delimiters f (NEXT_PTR program scan) false st0
                = some (true, st1)
            ∧ st1.input = state.input)
      ∧ (∀ next save lower upper st, upper + 1 - lower < fuel →
          match_behind program text delimiters fuel next save lower upper st
            = behind_tries program text delimiters next save fuel
                (List.range' lower (upper + 1 - lower)) st)
      ∧ (CompileRE (bytes "(?<=foo)bar") 0).map (fun re =>
          (ExecRE re 50 (bytes "foobar") 0 none Direction.Forward 0 0 none none none
            DefaultDelimiters fresh_mem).map (fun x => (x.1, group x.2 0)))
          = .ok (some (true, [some 3, some 6]))
      ∧ (CompileRE (bytes "(?<=foo)bar") 0).map (fun re =>
          (ExecRE re 50 (bytes "foobar") 0 none Direction.Forward 0 0 none (some 1) none
            DefaultDelimiters fresh_mem).map (fun x => x.1)) = .ok (some false)
      ∧ (CompileRE (bytes "(?<!foo)bar") 0).map (fun re =>
          (ExecRE re 50 (bytes "foobar") 0 none Direction.Forward 0 0 none none none
            DefaultDelimiters fresh_mem).map (fun x => x.1)) = .ok (some false)
      ∧ (CompileRE (bytes "(?<!foo)bar") 0).map (fun re =>
          (ExecRE re 50 (bytes "foobar") 0 none Direction.Forward 0 0 none (some 1) none
            DefaultDelimiters fresh_mem).map (fun x => (x.1, group x.2 0)))
          = .ok (some (true, [some 3, some 6])) := by
  refine ⟨match_node_behind program text delimiters fuel scan bip state hop hf, ?_, ?_,
    look_behind_floor.1, look_behind_floor.2.1, look_behind_floor.2.2.1,
    look_behind_floor.2.2.2.1⟩
  · intro st2 h
    obtain ⟨o, f, st0, st1, ho, h1, h2, h3, h4⟩ := behind_tries_found program text delimiters
      _ _ _ _ _ st2 h
    rw [List.mem_range'_1] at ho
    exact ⟨o, f, st0, st1, ho.1, by omega, h1, h2, h3, h4⟩
  · intro next save lower upper st h
    exact match_behind_tries program text delimiters next save upper _ fuel lower st rfl h

set_option maxRecDepth 100000 in
theorem look_behind_node_tries :
    (match behind_tries [156, 0, 0, 34, 0, 30, 46, 0, 7, 0, 3, 0, 3, 34, 0, 10, 7, 0, 7, 102,
          111, 111, 0, 48, 0, 3, 7, 0, 7, 98, 97, 114, 0, 1, 0, 0, 0] (bytes "foobar")
          DefaultDelimiters (NEXT_PTR [156, 0, 0, 34, 0, 30, 46, 0, 7, 0, 3, 0, 3, 34, 0, 10, 7,
          0, 7, 102, 111, 111, 0, 48, 0, 3, 7, 0, 7, 98, 97, 114, 0, 1, 0, 0, 0] (Ptr.prog 6))
          3 20 [3] { execute_state with input := 3, endOfString := some 3 } with
      | none => none
      | some (none, st) => some (Step.done false st)
      | some (some found, st) =>
        if found = true then
          (skip_branches [156, 0, 0, 34, 0, 30, 46, 0, 7, 0, 3, 0, 3, 34, 0, 10, 7, 0, 7, 102,
            111, 111, 0, 48, 0, 3, 7, 0, 7, 98, 97, 114, 0, 1, 0, 0, 0] 38
            (next_ptr [156, 0, 0, 34, 0, 30, 46, 0, 7, 0, 3, 0, 3, 34, 0, 10, 7, 0, 7, 102,
              111, 111, 0, 48, 0, 3, 7, 0, 7, 98, 97, 114, 0, 1, 0, 0, 0]
              ((OPERAND (Ptr.prog 6)).add LengthSize))).map (fun close =>
              Step.next (next_ptr [156, 0, 0, 34, 0, 30, 46, 0, 7, 0, 3, 0, 3, 34, 0, 10, 7, 0,
                7, 102, 111, 111, 0, 48, 0, 3, 7, 0, 7, 98, 97, 114, 0, 1, 0, 0, 0] close)
                { st with input := 3, endOfString := execute_state.endOfString })
        else
          some (Step.done false
            { st with input := 3, endOfString := execute_state.endOfString }))
      = some (Step.next (Ptr.prog 26)
          { execute_state with input := 3, Extent_Ptr_BW := some 0, Recursion_Count := 0 }) := by
  decide!

/-- C28 on the node of the look-behind in the program of `(?<=foo)bar`, at the position 3 of
`foobar`: the only candidate has the length 3, it is accepted and the match goes on after the
closing node. -/
theorem C28_look_behind_witness :
    match_node [156, 0, 0, 34, 0, 30, 46, 0, 7, 0, 3, 0, 3, 34, 0, 10, 7, 0, 7, 102, 111, 111,
        0, 48, 0, 3, 7, 0, 7, 98, 97, 114, 0, 1, 0, 0, 0] (bytes "foobar") DefaultDelimiters
        (20 + 1) (Ptr.prog 6) false { execute_state with input := 3 }
      = some (Step.next (Ptr.prog 26)
          { execute_state with input := 3, Extent_Ptr_BW := some 0, Recursion_Count := 0 }) :=
  ((C28_look_behind [156, 0, 0, 34, 0, 30, 46, 0, 7, 0, 3, 0, 3, 34, 0, 10, 7, 0, 7,
    102, 111, 111, 0, 48, 0, 3, 7, 0, 7, 98, 97, 114, 0, 1, 0, 0, 0] (bytes "foobar")
    DefaultDelimiters 20 (Ptr.prog 6) false { execute_state with input := 3 }
    (Or.inl (by decide)) (by decide)).1).trans look_behind_node_tries

/-! ### Lazy repetition -/

/-- The loop of `greedy` from the count `cnt` at the position `inp`, on the rest `l` of the
text: it passes `j` characters, all of which pass the test before the end of the string, and
stops at the bound, at the end of the string or at a character that fails the test. -/
theorem greedy_loop_spec (test : Nat → Bool) (eos : Option Nat) (maxc : Nat) :
    ∀ (l : List Nat) (inp cnt : Nat), cnt ≤ maxc →
      ∃ j, greedy_loop test eos maxc l inp cnt = (cnt + j, inp + j)
        ∧ cnt + j ≤ maxc ∧ j ≤ l.length
        ∧ (∀ i, i < j → test (l.getD i 0) = true ∧ l.getD i 0 ≠ 0
            ∧ reachedEnd eos (inp + i) = false)
        ∧ (cnt + j < maxc →
            l.getD j 0 = 0 ∨ reachedEnd eos (inp + j) = true ∨ test (l.getD j 0) = false) := by
  intro l
  induction l with
  | nil =>
    intro inp cnt h
    exact ⟨0, rfl, h, Nat.le_refl _, fun i hi => absurd hi (Nat.not_lt_zero i),
      fun _ => Or.inl rfl⟩
  | cons c rest ih =>
    intro inp cnt h
    rw [greedy_loop]
    by_cases hgo : cnt < maxc ∧ test c = true ∧ ¬ (c = 0 ∨ reachedEnd eos inp = true)
    · rw [if_pos hgo]
      obtain ⟨j, e, hb, hl, hall, hstop⟩ := ih (inp + 1) (cnt + 1) hgo.1
      refine ⟨j + 1, ?_, by omega, by simp only [List.length_cons]; omega, ?_, ?_⟩
      · rw [e]
        exact Prod.ext (by show cnt + 1 + j = cnt + (j + 1); omega)
          (by show inp + 1 + j = inp + (j + 1); omega)
      · intro i hi
        cases i with
        | zero =>
          refine ⟨hgo.2.1, fun h0 => hgo.2.2 (Or.inl h0), ?_⟩
          cases hr : reachedEnd eos (inp + 0) with
          | false => rfl
          | true => exact absurd (Or.inr hr) hgo.2.2
        | succ i =>
          have := hall i (by omega)
          rw [show inp + 1 + i = inp + (i + 1) by omega] at this
          exact this
      · intro hlt
        have := hstop (by omega)
        rw [show inp + 1 + j = inp + (j + 1) by omega] at this
        exact this
    · rw [if_neg hgo]
      refine ⟨0, rfl, h, Nat.zero_le _, fun i hi => absurd hi (Nat.not_lt_zero i), ?_⟩
      intro hlt
      by_cases h0 : c = 0
      · exact Or.inl h0
      by_cases hr : reachedEnd eos inp = true
      · exact Or.inr (Or.inl hr)
      · refine Or.inr (Or.inr ?_)
        cases ht : test c with
        | false => exact ht
        | true => exact absurd ⟨hlt, ht, fun h => h.elim h0 hr⟩ hgo

theorem getD_drop_charAt (text : List Nat) (n i : Nat) :
    (text.drop n).getD i 0 = charAt text (n + i) := by
  simp [charAt, List.getD_eq_getElem?_getD, List.getElem?_drop]

/-- The function `greedy` with the bound `B` that it compares the count with. -/
theorem greedy_spec (program text : List Nat) (delimiters : List Bool) (p : Ptr) (max B : Nat)
    (state : ExecState) (hB : B = if 0 < max ∧ max < 2 ^ 63 then max else ULONG_MAX) :
    ∃ c, greedy program text delimiters p max state = (c, { state with input := state.input + c })
      ∧ c ≤ B ∧ c ≤ text.length - state.input
      ∧ (∀ i, i < c → greedy_test program delimiters p (charAt text (state.input + i)) = true
          ∧ atEndOfString text state.endOfString (state.input + i) = false)
      ∧ (c < B → atEndOfString text state.endOfString (state.input + c) = true
          ∨ greedy_test program delimiters p (charAt text (state.input + c)) = false) := by
  obtain ⟨j, e, hb, hl, hall, hstop⟩ := greedy_loop_spec (greedy_test program delimiters p)
    state.endOfString B (text.drop state.input) state.input 0 (Nat.zero_le _)
  rw [Nat.zero_add] at e hb hstop
  refine ⟨j, ?_, hb, ?_, ?_, ?_⟩
  · unfold greedy
    simp only []
    rw [← hB, e]
  · rw [List.length_drop] at hl
    exact hl
  · intro i hi
    obtain ⟨h1, h2, h3⟩ := hall i hi
    rw [getD_drop_charAt] at h1 h2
    refine ⟨h1, ?_⟩
    unfold atEndOfString
    rw [h3, decide_eq_false h2]
    rfl
  · intro hlt
    rw [getD_drop_charAt] at hstop
    rcases hstop hlt with h | h | h
    · left
      unfold atEndOfString
      rw [decide_eq_true h]
      rfl
    · left
      unfold atEndOfString
      rw [h, Bool.or_true]
    · exact Or.inr h

set_option maxRecDepth 100000 in
theorem not_boundary_examples :
    (CompileRE (bytes "a\\B!") 0).map (fun re =>
        (ExecRE re 50 (bytes "a!") 0 none Direction.Forward 0 0 (some []) none none
          DefaultDelimiters fresh_mem).map (fun x => x.1)) = .ok (some false)
      ∧ isDelim (makeDelimiterTable [] tempDelimitTable) 97 = false
      ∧ isDelim (makeDelimiterTable [] tempDelimitTable) 33 = false
      ∧ (CompileRE (bytes " \\Bb") 0).map (fun re =>
        (ExecRE re 50 (bytes " b") 0 none Direction.Forward 0 0 (some []) none none
          DefaultDelimiters fresh_mem).map (fun x => (x.1, group x.2 0)))
        = .ok (some (true, [some 0, some 2]))
      ∧ isDelim (makeDelimiterTable [] tempDelimitTable) 32 = true
      ∧ isDelim (makeDelimiterTable [] tempDelimitTable) 98 = false := by
  refine ⟨by decide!, by decide!, by decide!, by decide!, by decide!, by decide!⟩

/-- C31: the node `NOT_BOUNDARY` in `match`, away from the start of the subject and before
the end of the string.  It compares the class of the character at the cursor with the entry
`Current_Delimiters[*state.input - 1]` of the table, that is with the class of the character
whose code is one less than the code of the character at the cursor, and not with the class
of the character before the cursor.  With the delimiters NUL, tab, newline and space,
`a\B!` does not match `a!`, although `a` and `!` are both not delimiters, and ` \Bb` matches
the whole of ` b`, although the space is a delimiter and `b` is not. -/
theorem C31_not_boundary (program text : List Nat) (delimiters : List Bool) (scan : Ptr)
    (state : ExecState) (hop : getOpcode program scan = NOT_BOUNDARY)
    (hs : state.input ≠ state.startOfString)
    (hend : atEndOfString text state.endOfString state.input = false) :
    match_simple program text delimiters scan state
        = (if isDelim delimiters (charAt text state.input - 1)
              = isDelim delimiters (charAt text state.input) then some state.input else none)
      ∧ (CompileRE (bytes "a\\B!") 0).map (fun re =>
          (ExecRE re 50 (bytes "a!") 0 none Direction.Forward 0 0 (some []) none none
            DefaultDelimiters fresh_mem).map (fun x => x.1)) = .ok (some false)
      ∧ isDelim (makeDelimiterTable [] tempDelimitTable) 97 = false
      ∧ isDelim (makeDelimiterTable [] tempDelimitTable) 33 = false
      ∧ (CompileRE (bytes " \\Bb") 0).map (fun re =>
          (ExecRE re 50 (bytes " b") 0 none Direction.Forward 0 0 (some []) none none
            DefaultDelimiters fresh_mem).map (fun x => (x.1, group x.2 0)))
          = .ok (some (true, [some 0, some 2]))
      ∧ isDelim (makeDelimiterTable [] tempDelimitTable) 32 = true
      ∧ isDelim (makeDelimiterTable [] tempDelimitTable) 98 = false := by
  refine ⟨?_, not_boundary_examples⟩
  have hc : charAt text state.input ≠ 0 := by
    intro h0
    unfold atEndOfString at hend
    rw [h0] at hend
    simp at hend
  unfold match_simple
  simp only [hop, hend, NOT_BOUNDARY, BOL, EOL, BOWORD, EOWORD,
    show ¬ ((6 : Nat) = 2) by decide, show ¬ ((6 : Nat) = 3) by decide,
    show ¬ ((6 : Nat) = 4) by decide, show ¬ ((6 : Nat) = 5) by decide, if_false, if_true,
    if_neg hs, if_neg hc, Bool.false_eq_true]
  cases isDelim delimiters (charAt text state.input - 1) <;>
    cases isDelim delimiters (charAt text state.input) <;> rfl

set_option maxRecDepth 100000 in
theorem not_boundary_node :
    (CompileRE (bytes "a\\B!") 0).map (fun re => re.program_)
        = .ok [156, 0, 0, 34, 0, 16, 7, 0, 5, 97, 0, 6, 0, 3, 7, 0, 5, 33, 0, 1, 0, 0, 0]
      ∧ atEndOfString (bytes "a!") none 1 = false
      ∧ (if isDelim (makeDelimiterTable [] tempDelimitTable) (charAt (bytes "a!") 1 - 1)
            = isDelim (makeDelimiterTable [] tempDelimitTable) (charAt (bytes "a!") 1)
          then some 1 else none) = none := by
  refine ⟨by decide!, by decide!, by decide!⟩

/-- C31 on the node of `\B` in the program of `a\B!`, at the position 1 of `a!`: the node
fails, because the entry of the space, whose code is one less than the code of `!`, is set. -/
theorem C31_not_boundary_witness :
    (CompileRE (bytes "a\\B!") 0).map (fun re => re.program_)
        = .ok [156, 0, 0, 34, 0, 16, 7, 0, 5, 97, 0, 6, 0, 3, 7, 0, 5, 33, 0, 1, 0, 0, 0]
      ∧ match_simple [156, 0, 0, 34, 0, 16, 7, 0, 5, 97, 0, 6, 0, 3, 7, 0, 5, 33, 0, 1, 0, 0, 0]
          (bytes "a!") (makeDelimiterTable [] tempDelimitTable) (Ptr.prog 11)
          { execute_state with input := 1 } = none :=
  ⟨not_boundary_node.1,
    ((C31_not_boundary [156, 0, 0, 34, 0, 16, 7, 0, 5, 97, 0, 6, 0, 3, 7, 0, 5, 33, 0, 1, 0, 0,
      0] (bytes "a!") (makeDelimiterTable [] tempDelimitTable) (Ptr.prog 11)
      { execute_state with input := 1 } (by decide) (by decide) not_boundary_node.2.1).1).trans
      not_boundary_node.2.2⟩

/-! ### Shortcut escapes inside a character class -/

set_option maxRecDepth 1000000 in
theorem class_shortcut_lower :
    (∀ c, c < 256 → matched (compile_and_execute (bytes "[\\d]") 20 [c])
        = matched (compile_and_execute (bytes "\\d") 20 [c]))
      ∧ (∀ c, c < 256 → matched (compile_and_execute (bytes "[\\l]") 20 [c])
        = matched (compile_and_execute (bytes "\\l") 20 [c]))
      ∧ (∀ c, c < 256 → matched (compile_and_execute (bytes "[\\s]") 20 [c])
        = matched (compile_and_execute (bytes "\\s") 20 [c]))
      ∧ (∀ c, c < 256 → matched (compile_and_execute (bytes "[\\w]") 20 [c])
        = matched (compile_and_execute (bytes "\\w") 20 [c])) := by
  refine ⟨by decide!, by decide!, by decide!, by decide!⟩

set_option maxRecDepth 1000000 in
theorem class_shortcut_upper :
    CompileRE (bytes "[\\D]") 0 = CompileRE (bytes "[\\d]") 0
      ∧ CompileRE (bytes "[\\L]") 0 = CompileRE (bytes "[\\l]") 0
      ∧ CompileRE (bytes "[\\S]") 0 = CompileRE (bytes "[\\s]") 0
      ∧ CompileRE (bytes "[\\W]") 0 = CompileRE (bytes "[\\w]") 0
      ∧ (CompileRE (bytes "[\\D]") 0).map (fun re => re.program_)
        = .ok [156, 0, 0, 34, 0, 17, 9, 0, 14, 48, 49, 50, 51, 52, 53, 54, 55, 56, 57, 0, 1, 0,
            0, 0]
      ∧ matched (compile_and_execute (bytes "[\\D]") 20 (bytes "5")) = .ok (some true)
      ∧ matched (compile_and_execute (bytes "\\D") 20 (bytes "5")) = .ok (some false)
      ∧ matched (compile_and_execute (bytes "[\\D]") 20 (bytes "a")) = .ok (some false)
      ∧ matched (compile_and_execute (bytes "\\D") 20 (bytes "a")) = .ok (some true)
      ∧ matched (compile_and_execute (bytes "[\\W]") 20 (bytes "a")) = .ok (some true)
      ∧ matched (compile_and_execute (bytes "\\W") 20 (bytes "a")) = .ok (some false)
      ∧ matched (compile_and_execute (bytes "[\\S]") 20 (bytes " ")) = .ok (some true)
      ∧ matched (compile_and_execute (bytes "\\S") 20 (bytes " ")) = .ok (some false)
      ∧ matched (compile_and_execute (bytes "[\\L]") 20 (bytes "a")) = .ok (some true)
      ∧ matched (compile_and_execute (bytes "\\L") 20 (bytes "a")) = .ok (some false) := by
  refine ⟨by decide!, by decide!, by decide!, by decide!, by decide!, by decide!, by decide!,
    by decide!, by decide!, by decide!, by decide!, by decide!, by decide!, by decide!,
    by decide!⟩

/-- C32: a shortcut escape as the only member of a character class, against the shortcut
escape alone, on the subjects of one character `c` (a byte; the byte 0 is the empty
subject), with the default flags.  For the escapes `\d`, `\l`, `\s` and `\w` the class
matches `c` exactly when the escape matches `c`.  For `\D`, `\L`, `\S` and `\W` the function
`shortcut_escape` emits into the class the bytes of the escape in lower case, so that the
compiled class is the one of `[\d]`, `[\l]`, `[\s]`, `[\w]`: `[\D]` matches `5` and not `a`,
while `\D` matches `a` and not `5`. -/
theorem C32_shortcut_in_class :
    (∀ c, c < 256 → matched (compile_and_execute (bytes "[\\d]") 20 [c])
        = matched (compile_and_execute (bytes "\\d") 20 [c]))
      ∧ (∀ c, c < 256 → matched (compile_and_execute (bytes "[\\l]") 20 [c])
        = matched (compile_and_execute (bytes "\\l") 20 [c]))
      ∧ (∀ c, c < 256 → matched (compile_and_execute (bytes "[\\s]") 20 [c])
        = matched (compile_and_execute (bytes "\\s") 20 [c]))
      ∧ (∀ c, c < 256 → matched (compile_and_execute (bytes "[\\w]") 20 [c])
        = matched (compile_and_execute (bytes "\\w") 20 [c]))
      ∧ CompileRE (bytes "[\\D]") 0 = CompileRE (bytes "[\\d]") 0
      ∧ CompileRE (bytes "[\\L]") 0 = CompileRE (bytes "[\\l]") 0
      ∧ CompileRE (bytes "[\\S]") 0 = CompileRE (bytes "[\\s]") 0
      ∧ CompileRE (bytes "[\\W]") 0 = CompileRE (bytes "[\\w]") 0
      ∧ (CompileRE (bytes "[\\D]") 0).map (fun re => re.program_)
        = .ok [156, 0, 0, 34, 0, 17, 9, 0, 14, 48, 49, 50, 51, 52, 53, 54, 55, 56, 57, 0, 1, 0,
            0, 0]
      ∧ matched (compile_and_execute (bytes "[\\D]") 20 (bytes "5")) = .ok (some true)
      ∧ matched (compile_and_execute (bytes "\\D") 20 (bytes "5")) = .ok (some false)
      ∧ matched (compile_and_execute (bytes "[\\D]") 20 (bytes "a")) = .ok (some false)
      ∧ matched (compile_and_execute (bytes "\\D") 20 (bytes "a")) = .ok (some true)
      ∧ matched (compile_and_execute (bytes "[\\W]") 20 (bytes "a")) = .ok (some true)
      ∧ matched (compile_and_execute (bytes "\\W") 20 (bytes "a")) = .ok (some false)
      ∧ matched (compile_and_execute (bytes "[\\S]") 20 (bytes " ")) = .ok (some true)
      ∧ matched (compile_and_execute (bytes "\\S") 20 (bytes " ")) = .ok (some false)
      ∧ matched (compile_and_execute (bytes "[\\L]") 20 (bytes "a")) = .ok (some true)
      ∧ matched (compile_and_execute (bytes "\\L") 20 (bytes "a")) = .ok (some false) :=
  ⟨class_shortcut_lower.1, class_shortcut_lower.2.1, class_shortcut_lower.2.2.1,
    class_shortcut_lower.2.2.2, class_shortcut_upper⟩

/-! ### A run of literal characters -/

theorem emit_byte_Reg_Parse (c r : Nat) (s : CompileState) :
    emit_byte c { s with Reg_Parse := r } = { emit_byte c s with Reg_Parse := r } := by
  unfold emit_byte
  by_cases h : s.Code_Emit_Ptr = Ptr.Compute_Size
  · rw [if_pos h, if_pos h]
  · rw [if_neg h, if_neg h]

theorem emit_byte_ci (c : Nat) (s : CompileState) :
    (emit_byte c s).Is_Case_Insensitive = s.Is_Case_Insensitive := by
  unfold emit_byte
  split <;> rfl

theorem emit_bytes_Reg_Parse (l : List Nat) : ∀ (r : Nat) (s : CompileState),
    emit_bytes l { s with Reg_Parse := r } = { emit_bytes l s with Reg_Parse := r } := by
  induction l with
  | nil => intro r s; rfl
  | cons a l ih =>
    intro r s
    rw [emit_bytes, emit_bytes, emit_byte_Reg_Parse, ih]

theorem ordinary_not_quantifier (c : Nat) (h : ordinary c = true) : isQuantifier c = false := by
  unfold ordinary at h
  unfold isQuantifier
  simp only [Bool.and_eq_true, decide_eq_true_eq] at h
  obtain ⟨⟨_, _⟩, h3⟩ := h
  by_cases h42 : c = 42
  · subst h42; revert h3; decide
  by_cases h43 : c = 43
  · subst h43; revert h3; decide
  by_cases h63 : c = 63
  · subst h63; revert h3; decide
  by_cases h123 : c = 123
  · subst h123; revert h3; decide
  simp [h42, h43, h63, h123]

theorem ordinary_step (exp : List Nat) (s : CompileState)
    (h : ordinary (charAt exp s.Reg_Parse) = true) :
    atom_literal_step exp s
      = .ok (some { emit_byte (literal_byte s.Is_Case_Insensitive (charAt exp s.Reg_Parse)) s
                    with Reg_Parse := s.Reg_Parse + 1 }) := by
  unfold ordinary at h
  simp only [Bool.and_eq_true, decide_eq_true_eq] at h
  unfold atom_literal_step
  simp only []
  rw [if_neg h.1.2]
  rfl

theorem backed_out_byte (c : Nat) (s : CompileState) :
    emit_byte 0
        (if (emit_byte c s).Code_Emit_Ptr = Ptr.Compute_Size then
          { emit_byte c s with Reg_Size := (emit_byte c s).Reg_Size - 1 }
        else { emit_byte c s with Code_Emit_Ptr := (emit_byte c s).Code_Emit_Ptr.add (-1) })
      = emit_byte 0 s := by
  rcases s with ⟨rp, cp, pw, ptr, sz, ci, mn, pr, tp, nb, hg⟩
  cases ptr with
  | Compute_Size => simp [emit_byte]
  | null => simp [emit_byte, poke, Ptr.add]
  | one => simp [emit_byte, poke, Ptr.add]
  | prog n =>
    simp [emit_byte, poke, Ptr.add, List.set_set]

/-- The literal loop of `atom` on a run `w` of ordinary characters followed by an ordinary
character `c` and a quantifier `q`: with `len + |w| > 0` the loop emits the run and `c`,
then backs `c` out; after the NUL that `atom` emits next, the state is the one with the run
and the NUL emitted, the parse index being at `c`. -/
theorem literal_run_loop (exp post : List Nat) (c q : Nat) (hc : ordinary c = true)
    (hq : isQuantifier q = true) :
    ∀ (w pre : List Nat) (F len : Nat) (s : CompileState),
      exp = pre ++ w ++ c :: q :: post → (∀ a ∈ w, ordinary a = true) →
      s.Reg_Parse = pre.length → 0 < len + w.length →
      ∃ cs, atom_literal exp (F + w.length + 1) len s = .ok (len + w.length, cs)
        ∧ emit_byte 0 cs
          = { emit_byte 0 (emit_bytes (w.map (literal_byte s.Is_Case_Insensitive)) s)
              with Reg_Parse := pre.length + w.length } := by
  intro w
  induction w with
  | nil =>
    intro pre F len s hexp _ hrp hlen
    have hcc : charAt exp s.Reg_Parse = c := by
      rw [hexp, hrp, List.append_nil, charAt_at]
    have hqq : charAt exp (s.Reg_Parse + 1) = q := by
      rw [hexp, hrp, List.append_nil]
      have := charAt_after pre c (q :: post) 0
      rw [Nat.add_zero] at this
      rw [this, charAt_cons_zero]
    have hco := hc
    unfold ordinary at hco
    simp only [Bool.and_eq_true, decide_eq_true_eq, Option.isNone_iff_eq_none] at hco
    rw [atom_literal]
    simp only []
    rw [if_neg (by rw [hcc]; intro h; rcases h with h | h
                   · exact hco.1.1 h
                   · rw [hco.2] at h; cases h)]
    rw [ordinary_step exp s (by rw [hcc]; exact hc)]
    simp only [hqq, hq, Bool.true_and, decide_eq_true_eq]
    rw [if_pos (by simpa using hlen)]
    simp only [List.length_nil, Nat.add_zero, List.map_nil, emit_bytes] at hlen ⊢
    by_cases hp : s.Code_Emit_Ptr = Ptr.Compute_Size
    · refine ⟨_, by rw [if_pos (by unfold emit_byte; rw [if_pos hp]; exact hp)], ?_⟩
      rw [hrp]
      unfold emit_byte
      simp [hp]
    · have hp1 : (emit_byte (literal_byte s.Is_Case_Insensitive (charAt exp s.Reg_Parse)) s).Code_Emit_Ptr
          ≠ Ptr.Compute_Size := by
        unfold emit_byte
        rw [if_neg hp]
        rcases s with ⟨rp, cp, pw, ptr, sz, ci, mn, pr, tp, nb, hg⟩
        cases ptr <;> simp [Ptr.add] at hp ⊢
      refine ⟨_, by rw [if_neg hp1], ?_⟩
      rw [hrp]
      have hb := backed_out_byte (literal_byte s.Is_Case_Insensitive (charAt exp s.Reg_Parse)) s
      rw [if_neg hp1] at hb
      rw [emit_byte_Reg_Parse, ← hb]
      rcases s with ⟨rp, cp, pw, ptr, sz, ci, mn, pr, tp, nb, hg⟩
      cases ptr <;> simp [emit_byte, poke, Ptr.add, List.set_set] at hp ⊢
  | cons a w ih =>
    intro pre F len s hexp hw hrp _
    have ha : ordinary a = true := hw a (List.mem_cons_self _ _)
    have hcc : charAt exp s.Reg_Parse = a := by
      rw [hexp, hrp, List.append_assoc, List.cons_append, charAt_at]
    have hexp2 : exp = (pre ++ [a]) ++ w ++ c :: q :: post := by
      rw [hexp]; simp
    have hnext : ordinary (charAt exp (s.Reg_Parse + 1)) = true := by
      cases w with
      | nil =>
        rw [hexp2, hrp, List.append_nil]
        have := charAt_at (pre ++ [a]) c (q :: post)
        rw [List.length_append, List.length_singleton] at this
        rw [this]; exact hc
      | cons b w2 =>
        rw [hexp2, hrp, List.append_assoc, List.cons_append]
        have := charAt_at (pre ++ [a]) b (w2 ++ c :: q :: post)
        rw [List.length_append, List.length_singleton] at this
        rw [this]
        exact hw b (List.mem_cons_of_mem _ (List.mem_cons_self _ _))
    have hao := ha
    unfold ordinary at hao
    simp only [Bool.and_eq_true, decide_eq_true_eq, Option.isNone_iff_eq_none] at hao
    rw [show F + (a :: w).length + 1 = (F + w.length + 1) + 1 by
      simp only [List.length_cons]; omega, atom_literal]
    simp only []
    rw [if_neg (by rw [hcc]; intro h; rcases h with h | h
                   · exact hao.1.1 h
                   · rw [hao.2] at h; cases h)]
    rw [ordinary_step exp s (by rw [hcc]; exact ha)]
    simp only [ordinary_not_quantifier _ hnext, Bool.false_and, Bool.false_eq_true, if_false]
    obtain ⟨X, hX⟩ : ∃ X : CompileState, X
        = { emit_byte (literal_byte s.Is_Case_Insensitive (charAt exp s.Reg_Parse)) s
            with Reg_Parse := s.Reg_Parse + 1 } := ⟨_, rfl⟩
    have hXci : X.Is_Case_Insensitive = s.Is_Case_Insensitive := by
      rw [hX]; exact emit_byte_ci _ _
    rw [← hX]
    obtain ⟨cs, e1, e2⟩ := ih (pre ++ [a]) F (len + 1) X hexp2
      (fun b hb => hw b (List.mem_cons_of_mem _ hb))
      (by simp only [List.length_append, List.length_singleton]; rw [hX, hrp]) (by omega)
    refine ⟨cs, ?_, ?_⟩
    · rw [e1]
      simp only [List.length_cons]
      rw [show len + 1 + w.length = len + (w.length + 1) by omega]
    · have hl : (pre ++ [a]).length + w.length = pre.length + (a :: w).length := by
        simp only [List.length_append, List.length_cons, List.length_nil]; omega
      rw [hl] at e2
      rw [e2, hXci, hX, emit_bytes_Reg_Parse, emit_byte_Reg_Parse, hcc]
      rfl
theorem ordinary_cases (c : Nat) (h : ordinary c = true) :
    c ≠ 0 ∧ c ≠ 92 ∧ c ≠ 123 ∧ c ≠ 46 ∧ c ≠ 42 ∧ c ≠ 43 ∧ c ≠ 63 ∧ c ≠ 91 ∧ c ≠ 40 ∧ c ≠ 124
      ∧ c ≠ 41 ∧ c ≠ 94 ∧ c ≠ 60 ∧ c ≠ 62 ∧ c ≠ 36 := by
  refine ⟨?_, ?_, ?_, ?_, ?_, ?_, ?_, ?_, ?_, ?_, ?_, ?_, ?_, ?_, ?_⟩ <;>
    (intro e; subst e; revert h; decide)

/-- The function `atom` at an ordinary character goes to its `default` case. -/
theorem atom_ordinary (exp : List Nat) (fuel : Nat) (s : CompileState)
    (h : ordinary (charAt exp s.Reg_Parse) = true) :
    atom exp (fuel + 1) s = atom_default exp WORST s := by
  obtain ⟨h0, h92, h123, h46, h42, h43, h63, h91, h40, h124, h41, h94, h60, h62, h36⟩ :=
    ordinary_cases _ h
  rw [atom, skip_comments_plain exp _ h40]
  simp only []
  rw [if_neg h94, if_neg h36, if_neg h60, if_neg h62, if_neg h46, if_neg h40,
    if_neg (fun e => e.elim h0 (fun e => e.elim h124 h41)),
    if_neg (fun e => e.elim h63 (fun e => e.elim h43 h42)), if_neg h123, if_neg h91, if_neg h92]

theorem quantifier_is_meta (q : Nat) (h : isQuantifier q = true) :
    (strchr Default_Meta_Char q).isSome = true := by
  unfold isQuantifier at h
  simp only [Bool.or_eq_true, decide_eq_true_eq, Brace_Char] at h
  rcases h with ((h | h) | h) | h <;> subst h <;> decide

/-- The `default` case of `atom` on a run `w` of ordinary characters followed by an ordinary
character `c` and a quantifier: the node holds the run alone, and the parse index is left at
`c`. -/
theorem atom_default_run (exp pre w post : List Nat) (c q : Nat) (s : CompileState)
    (hexp : exp = pre ++ w ++ c :: q :: post) (hw : ∀ a ∈ w, ordinary a = true)
    (hc : ordinary c = true) (hq : isQuantifier q = true) (hw1 : w ≠ [])
    (hrp : s.Reg_Parse = pre.length) :
    atom_default exp WORST s
      = .ok { ret_val := s.Code_Emit_Ptr,
              flag := if w.length = 1 then (WORST ||| HAS_WIDTH) ||| SIMPLE
                      else WORST ||| HAS_WIDTH,
              range := { lower := w.length, upper := w.length },
              cState :=
                { emit_byte 0 (emit_bytes (w.map (literal_byte s.Is_Case_Insensitive))
                    (emit_node (if s.Is_Case_Insensitive then SIMILAR else EXACTLY) s).2)
                  with Reg_Parse := pre.length + w.length } } := by
  have hlen : 0 < w.length := List.length_pos.mpr hw1
  have hle : w.length ≤ exp.length := by
    rw [hexp]; simp only [List.length_append]; omega
  have hnode : (if s.Is_Case_Insensitive = true then emit_node SIMILAR s else emit_node EXACTLY s)
      = emit_node (if s.Is_Case_Insensitive then SIMILAR else EXACTLY) s := by
    cases s.Is_Case_Insensitive <;> rfl
  have hrp2 : (emit_node (if s.Is_Case_Insensitive then SIMILAR else EXACTLY) s).2.Reg_Parse
      = pre.length := by
    rw [Reg_Parse_emit_node]; exact hrp
  have hci : (emit_node (if s.Is_Case_Insensitive then SIMILAR else EXACTLY) s).2.Is_Case_Insensitive
      = s.Is_Case_Insensitive := by
    unfold emit_node
    simp only []
    split <;> rfl
  obtain ⟨cs, e1, e2⟩ := literal_run_loop exp post c q hc hq w pre (exp.length - w.length) 0
    (emit_node (if s.Is_Case_Insensitive then SIMILAR else EXACTLY) s).2 hexp hw hrp2
    (by omega)
  rw [show exp.length - w.length + w.length + 1 = exp.length + 1 by omega, Nat.zero_add] at e1
  unfold atom_default
  simp only []
  rw [hnode, e1]
  simp only []
  rw [if_neg (by omega), e2, hci, emit_node_fst]

/-- The literal loop of `atom` on one ordinary character followed by a quantifier. -/
theorem literal_single_loop (exp : List Nat) (c q F : Nat) (N : CompileState)
    (hcc : charAt exp N.Reg_Parse = c) (hqq : charAt exp (N.Reg_Parse + 1) = q)
    (hc : ordinary c = true) (hq : isQuantifier q = true) :
    atom_literal exp (F + 2) 0 N
      = .ok (1, { emit_byte (literal_byte N.Is_Case_Insensitive c) N
                  with Reg_Parse := N.Reg_Parse + 1 }) := by
  obtain ⟨h0, _, _, _, _, _, _, _, _, _, _, _, _, _, _⟩ := ordinary_cases _ hc
  have hco := hc
  unfold ordinary at hco
  simp only [Bool.and_eq_true, decide_eq_true_eq, Option.isNone_iff_eq_none] at hco
  rw [atom_literal]
  rw [if_neg (by rw [hcc]; intro h; rcases h with h | h
                 · exact h0 h
                 · rw [hco.2] at h; cases h)]
  rw [ordinary_step exp N (by rw [hcc]; exact hc)]
  simp only [show ¬ (0 > 0) by decide, decide_False, Bool.and_false, Bool.false_eq_true,
    if_false]
  rw [atom_literal]
  simp only [hqq, quantifier_is_meta q hq, or_true, if_true, hcc]

/-- The `default` case of `atom` on one ordinary character followed by a quantifier: the node
holds the character alone and is SIMPLE. -/
theorem atom_default_single (exp pre post : List Nat) (c q : Nat) (t : CompileState)
    (hexp : exp = pre ++ c :: q :: post) (hc : ordinary c = true)
    (hq : isQuantifier q = true) (hrp : t.Reg_Parse = pre.length) :
    atom_default exp WORST t
      = .ok { ret_val := t.Code_Emit_Ptr,
              flag := (WORST ||| HAS_WIDTH) ||| SIMPLE,
              range := { lower := 1, upper := 1 },
              cState :=
                { emit_byte 0 (emit_byte (literal_byte t.Is_Case_Insensitive c)
                    (emit_node (if t.Is_Case_Insensitive then SIMILAR else EXACTLY) t).2)
                  with Reg_Parse := pre.length + 1 } } := by
  have hnode : (if t.Is_Case_Insensitive = true then emit_node SIMILAR t else emit_node EXACTLY t)
      = emit_node (if t.Is_Case_Insensitive then SIMILAR else EXACTLY) t := by
    cases t.Is_Case_Insensitive <;> rfl
  have hrp2 : (emit_node (if t.Is_Case_Insensitive then SIMILAR else EXACTLY) t).2.Reg_Parse
      = pre.length := by
    rw [Reg_Parse_emit_node]; exact hrp
  have hci : (emit_node (if t.Is_Case_Insensitive then SIMILAR else EXACTLY) t).2.Is_Case_Insensitive
      = t.Is_Case_Insensitive := by
    unfold emit_node
    simp only []
    split <;> rfl
  have hcc : charAt exp (emit_node (if t.Is_Case_Insensitive then SIMILAR else EXACTLY) t).2.Reg_Parse
      = c := by
    rw [hexp, hrp2, charAt_at]
  have hqq : charAt exp
      ((emit_node (if t.Is_Case_Insensitive then SIMILAR else EXACTLY) t).2.Reg_Parse + 1) = q := by
    rw [hexp, hrp2]
    have := charAt_after pre c (q :: post) 0
    rw [Nat.add_zero] at this
    rw [this, charAt_cons_zero]
  have hlen : exp.length + 1 = (exp.length - 1) + 2 := by
    have : 2 ≤ exp.length := by
      rw [hexp]; simp only [List.length_append, List.length_cons]; omega
    omega
  unfold atom_default
  simp only []
  rw [hnode, hlen, literal_single_loop exp c q _ _ hcc hqq hc hq]
  simp only []
  rw [emit_byte_Reg_Parse, hci, emit_node_fst, hrp2]
  simp only [if_true, Nat.cast_one]
  rfl

set_option maxRecDepth 100000 in
theorem literal_run_examples :
    (CompileRE (bytes "abcd*") 0).map (fun re => re.program_)
        = .ok [156, 0, 0, 34, 0, 18, 7, 0, 7, 97, 98, 99, 0, 25, 0, 8, 7, 0, 0, 100, 0, 1, 0, 0,
            0]
      ∧ (CompileRE (bytes "abc+") 0).map (fun re => re.program_)
        = .ok [156, 0, 0, 34, 0, 17, 7, 0, 6, 97, 98, 0, 29, 0, 8, 7, 0, 0, 99, 0, 1, 0, 0, 0]
      ∧ (CompileRE (bytes "abc?") 0).map (fun re => re.program_)
        = .ok [156, 0, 0, 34, 0, 17, 7, 0, 6, 97, 98, 0, 27, 0, 8, 7, 0, 0, 99, 0, 1, 0, 0, 0]
      ∧ (CompileRE (bytes "abc*?") 0).map (fun re => re.program_)
        = .ok [156, 0, 0, 34, 0, 17, 7, 0, 6, 97, 98, 0, 26, 0, 8, 7, 0, 0, 99, 0, 1, 0, 0, 0]
      ∧ (CompileRE (bytes "abc\x7b2,3\x7d") 0).map (fun re => re.program_)
        = .ok [156, 0, 0, 34, 0, 21, 7, 0, 6, 97, 98, 0, 31, 0, 12, 0, 2, 0, 3, 7, 0, 0, 99, 0,
            1, 0, 0, 0]
      ∧ outcome (compile_and_execute (bytes "abc*") 50 (bytes "ab"))
        = .ok (some (true, [some 0, some 2, some 0, some 0]))
      ∧ outcome (compile_and_execute (bytes "abc*") 50 (bytes "abccc"))
        = .ok (some (true, [some 0, some 5, some 0, some 0]))
      ∧ outcome (compile_and_execute (bytes "abc*") 50 (bytes "abcabc"))
        = .ok (some (true, [some 0, some 3, some 0, some 0])) := by
  refine ⟨by decide!, by decide!, by decide!, by decide!, by decide!, by decide!, by decide!,
    by decide!⟩

/-- C33: a run `w` of one or more ordinary characters followed by an ordinary character `c`
and a quantifier `q`, at the parse index of `piece`, in any state of the compiler with an
emit pointer.  The piece is the literal node of the run `w` alone (EXACTLY, or SIMILAR with
the characters in lower case when the regex is case insensitive), with no quantifier, and
the parse index is left at `c`.  From there `piece` applies the quantifier to the literal
node of the one character `c`, which is SIMPLE.  The program of `abcd*` is EXACTLY `abc`,
STAR, EXACTLY `d`; `abc*` matches `ab` and `abccc` in full and [0,3) of `abcabc`. -/
theorem C33_literal_run (exp pre w post : List Nat) (c q fuel : Nat) (s : CompileState)
    (hexp : exp = pre ++ w ++ c :: q :: post) (hw : ∀ a ∈ w, ordinary a = true)
    (hc : ordinary c = true) (hq : isQuantifier q = true) (hw1 : w ≠ [])
    (hrp : s.Reg_Parse = pre.length) (hptr : s.Code_Emit_Ptr ≠ Ptr.null) :
    piece exp (fuel + 2) s
        = .ok { ret_val := s.Code_Emit_Ptr,
                flag := if w.length = 1 then (WORST ||| HAS_WIDTH) ||| SIMPLE
                        else WORST ||| HAS_WIDTH,
                range := { lower := w.length, upper := w.length },
                cState :=
                  { emit_byte 0 (emit_bytes (w.map (literal_byte s.Is_Case_Insensitive))
                      (emit_node (if s.Is_Case_Insensitive then SIMILAR else EXACTLY) s).2)
                    with Reg_Parse := pre.length + w.length } }
      ∧ (∀ t : CompileState, t.Reg_Parse = pre.length + w.length →
          t.Code_Emit_Ptr ≠ Ptr.null →
          piece exp (fuel + 2) t
            = piece_rest exp
                { ret_val := t.Code_Emit_Ptr,
                  flag := (WORST ||| HAS_WIDTH) ||| SIMPLE,
                  range := { lower := 1, upper := 1 },
                  cState :=
                    { emit_byte 0 (emit_byte (literal_byte t.Is_Case_Insensitive c)
                        (emit_node (if t.Is_Case_Insensitive then SIMILAR else EXACTLY) t).2)
                      with Reg_Parse := pre.length + w.length + 1 } })
      ∧ (CompileRE (bytes "abcd*") 0).map (fun re => re.program_)
        = .ok [156, 0, 0, 34, 0, 18, 7, 0, 7, 97, 98, 99, 0, 25, 0, 8, 7, 0, 0, 100, 0, 1, 0, 0,
            0]
      ∧ (CompileRE (bytes "abc+") 0).map (fun re => re.program_)
        = .ok [156, 0, 0, 34, 0, 17, 7, 0, 6, 97, 98, 0, 29, 0, 8, 7, 0, 0, 99, 0, 1, 0, 0, 0]
      ∧ (CompileRE (bytes "abc?") 0).map (fun re => re.program_)
        = .ok [156, 0, 0, 34, 0, 17, 7, 0, 6, 97, 98, 0, 27, 0, 8, 7, 0, 0, 99, 0, 1, 0, 0, 0]
      ∧ (CompileRE (bytes "abc*?") 0).map (fun re => re.program_)
        = .ok [156, 0, 0, 34, 0, 17, 7, 0, 6, 97, 98, 0, 26, 0, 8, 7, 0, 0, 99, 0, 1, 0, 0, 0]
      ∧ (CompileRE (bytes "abc\x7b2,3\x7d") 0).map (fun re => re.program_)
        = .ok [156, 0, 0, 34, 0, 21, 7, 0, 6, 97, 98, 0, 31, 0, 12, 0, 2, 0, 3, 7, 0, 0, 99, 0,
            1, 0, 0, 0]
      ∧ outcome (compile_and_execute (bytes "abc*") 50 (bytes "ab"))
        = .ok (some (true, [some 0, some 2, some 0, some 0]))
      ∧ outcome (compile_and_execute (bytes "abc*") 50 (bytes "abccc"))
        = .ok (some (true, [some 0, some 5, some 0, some 0]))
      ∧ outcome (compile_and_execute (bytes "abc*") 50 (bytes "abcabc"))
        = .ok (some (true, [some 0, some 3, some 0, some 0])) := by
  refine ⟨?_, ?_, literal_run_examples⟩
  · obtain ⟨a, w2, rfl⟩ : ∃ a w2, w = a :: w2 := by
      cases w with
      | nil => exact absurd rfl hw1
      | cons a w2 => exact ⟨a, w2, rfl⟩
    have hfirst : ordinary (charAt exp s.Reg_Parse) = true := by
      rw [hexp, hrp, List.append_assoc, List.cons_append, charAt_at]
      exact hw a (List.mem_cons_self _ _)
    have hnext : charAt exp (pre.length + (a :: w2).length) = c := by
      rw [hexp]
      have := charAt_at (pre ++ a :: w2) c (q :: post)
      rw [List.length_append] at this
      exact this
    rw [piece, atom_ordinary exp fuel s hfirst,
      atom_default_run exp pre (a :: w2) post c q s hexp hw hc hq hw1 hrp]
    simp only []
    rw [if_neg hptr]
    unfold piece_rest
    simp only []
    rw [hnext, ordinary_not_quantifier c hc]
    rfl
  · intro t ht hptr2
    have hexp2 : exp = (pre ++ w) ++ c :: q :: post := hexp
    have ht2 : t.Reg_Parse = (pre ++ w).length := by
      rw [ht, List.length_append]
    have hfirst : ordinary (charAt exp t.Reg_Parse) = true := by
      rw [hexp2, ht2, charAt_at]
      exact hc
    rw [piece, atom_ordinary exp fuel t hfirst,
      atom_default_single exp (pre ++ w) post c q t hexp2 hc hq ht2]
    simp only []
    rw [if_neg hptr2, List.length_append]

/-- C33 on `abcd*`, in the second pass after the header and the node of the branch: the piece
is the node EXACTLY `abc`, and the parse index is left at `d`. -/
theorem C33_literal_run_witness :
    piece (bytes "abcd*") (0 + 2) (pass2_state 0 6 (List.replicate 25 0))
      = .ok { ret_val := Ptr.prog 6, flag := 1, range := { lower := 3, upper := 3 },
              cState := pass2_state 3 13
                [0, 0, 0, 0, 0, 0, 7, 0, 0, 97, 98, 99, 0, 0, 0, 0, 0, 0, 0, 0, 0, 0, 0, 0, 0] } :=
  ((C33_literal_run (bytes "abcd*") [] (bytes "abc") [] 100 42 0
    (pass2_state 0 6 (List.replicate 25 0)) (by decide) (by decide) (by decide) (by decide)
    (by decide) (by decide) (by decide)).1).trans (by decide)

/-! ### The brace quantifier of one repetition -/

theorem emit_node_Reg_Parse (op r : Nat) (s : CompileState) :
    emit_node op { s with Reg_Parse := r }
      = ((emit_node op s).1, { (emit_node op s).2 with Reg_Parse := r }) := by
  unfold emit_node
  simp only []
  split <;> rfl

theorem tail_Reg_Parse (a b : Ptr) (r : Nat) (s : CompileState) :
    tail a b { s with Reg_Parse := r } = { tail a b s with Reg_Parse := r } := by
  unfold tail
  simp only []
  split
  · rfl
  · split <;> rfl

theorem branch_tail_Reg_Parse (p : Ptr) (k : Int) (v : Ptr) (r : Nat) (s : CompileState) :
    branch_tail p k v { s with Reg_Parse := r }
      = { branch_tail p k v s with Reg_Parse := r } := by
  unfold branch_tail
  simp only []
  split
  · rfl
  · exact tail_Reg_Parse _ _ _ _

theorem chunk_hook_Reg_Parse (ender : Ptr) (r : Nat) (fuel : Nat) :
    ∀ (p : Ptr) (s : CompileState),
      chunk_hook ender fuel p { s with Reg_Parse := r }
        = { chunk_hook ender fuel p s with Reg_Parse := r } := by
  induction fuel with
  | zero =>
    intro p s
    unfold chunk_hook
    split <;> rfl
  | succ n ih =>
    intro p s
    unfold chunk_hook
    split
    · rfl
    · simp only [branch_tail_Reg_Parse, ih]

theorem chunk_close_rest_top (exp : List Nat) (ci mn : Bool) (rv : Ptr) (flag : Nat)
    (range : len_range) (cs : CompileState) (h : charAt exp cs.Reg_Parse = 0) :
    chunk_close_rest exp NO_PAREN 0 false Ptr.null ci mn rv flag range cs
      = .ok { ret_val := rv, flag := flag, range := range,
              cState := { cs with Is_Case_Insensitive := ci, Match_Newline := mn } } := by
  unfold chunk_close_rest close_record close_bounds close_advance
  simp [NO_PAREN, PAREN, h]

/-- The state in which `chunk` leaves the top level of a regex once the only alternative is
compiled: the END node is emitted and the tails are hooked on it. -/
theorem chunk_close_top (exp : List Nat) (ci mn : Bool) (rv : Ptr) (flag : Nat)
    (range : len_range) (cs : CompileState) (h : charAt exp cs.Reg_Parse = 0) :
    chunk_close exp NO_PAREN 0 false Ptr.null ci mn rv flag range cs
      = .ok { ret_val := rv, flag := flag, range := range,
              cState :=
                { chunk_hook (emit_node END cs).1
                    ((tail rv (emit_node END cs).1 (emit_node END cs).2).program_.length + 1) rv
                    (tail rv (emit_node END cs).1 (emit_node END cs).2)
                  with Is_Case_Insensitive := ci, Match_Newline := mn } } := by
  rw [chunk_close_eq]
  have hn : close_node NO_PAREN 0 cs = emit_node END cs := by
    unfold close_node
    simp [NO_PAREN, PAREN]
  rw [hn]
  exact chunk_close_rest_top exp ci mn rv flag range _
    (by rw [Reg_Parse_chunk_hook, Reg_Parse_tail, Reg_Parse_emit_node]; exact h)

theorem Reg_Parse_emit_byte (c : Nat) (s : CompileState) :
    (emit_byte c s).Reg_Parse = s.Reg_Parse := by
  unfold emit_byte
  split <;> rfl

theorem head_state_Reg_Parse (P : CompileState) : (head_state P).Reg_Parse = P.Reg_Parse := by
  unfold head_state
  rw [Reg_Parse_emit_node, Reg_Parse_emit_byte, Reg_Parse_emit_byte, Reg_Parse_emit_byte]

theorem emit_byte_flags (c : Nat) (s : CompileState) :
    (emit_byte c s).Is_Case_Insensitive = s.Is_Case_Insensitive
      ∧ (emit_byte c s).Match_Newline = s.Match_Newline
      ∧ ((emit_byte c s).Code_Emit_Ptr = Ptr.null ↔ s.Code_Emit_Ptr = Ptr.null) := by
  unfold emit_byte
  split
  · exact ⟨rfl, rfl, Iff.rfl⟩
  · refine ⟨rfl, rfl, ?_⟩
    cases h : s.Code_Emit_Ptr <;> simp [Ptr.add]

/-- A pass of the constructor on a regex that is one piece: `piece` returns `l` at the head
of the regex, and the terminator follows. -/
theorem compile_pass_single (exp : List Nat) (F : Nat) (P : CompileState) (l : Res)
    (hstart : ¬ (charAt exp P.Reg_Parse = 124 ∨ charAt exp P.Reg_Parse = 41
      ∨ charAt exp P.Reg_Parse = 0))
    (hp : piece exp (F + 1) (head_state P) = .ok l)
    (hret : l.ret_val ≠ Ptr.null) (hend : charAt exp l.cState.Reg_Parse = 0)
    (hP : P.Code_Emit_Ptr ≠ Ptr.null) :
    compile_pass exp (F + 1 + 1 + 1 + 1 + 1) P = .ok (pass_of_piece P l) := by
  have hb : (emit_node BRANCH (emit_byte 37 (emit_byte 37 (emit_byte MAGIC P)))).1 ≠ Ptr.null := by
    rw [emit_node_fst]
    intro h
    exact hP ((emit_byte_flags _ _).2.2.1 ((emit_byte_flags _ _).2.2.1
      ((emit_byte_flags _ _).2.2.1 h)))
  have hci : (emit_byte 37 (emit_byte 37 (emit_byte MAGIC P))).Is_Case_Insensitive
      = P.Is_Case_Insensitive := by
    rw [(emit_byte_flags _ _).1, (emit_byte_flags _ _).1, (emit_byte_flags _ _).1]
  have hmn : (emit_byte 37 (emit_byte 37 (emit_byte MAGIC P))).Match_Newline
      = P.Match_Newline := by
    rw [(emit_byte_flags _ _).2.1, (emit_byte_flags _ _).2.1, (emit_byte_flags _ _).2.1]
  have hrp := head_state_Reg_Parse P
  unfold head_state at hp hrp
  unfold compile_pass
  rw [chunk, chunk_open_NO_PAREN]
  simp only []
  rw [chunk_loop, alternative]
  simp only []
  rw [alternative_loop]
  simp only [hrp, if_neg hstart, hp]
  rw [if_neg hret, alternative_loop]
  simp only [ne_eq, not_true_eq_false, if_false, hend, or_true, if_true]
  rw [if_neg hret]
  simp only []
  rw [if_neg hb]
  simp only [and_self, if_true, Reg_Parse_tail, hend]
  rw [if_pos (by decide)]
  simp only []
  rw [chunk_close_top _ _ _ _ _ _ _ (by rw [Reg_Parse_tail]; exact hend)]
  simp only []
  rw [if_neg hb, hci, hmn]
  rfl

theorem pass_of_piece_Reg_Parse (P : CompileState) (l : Res) (r : Nat) :
    pass_of_piece P { l with cState := { l.cState with Reg_Parse := r } }
      = { pass_of_piece P l with
          cState := { (pass_of_piece P l).cState with Reg_Parse := r } } := by
  unfold pass_of_piece
  simp only [tail_Reg_Parse, emit_node_Reg_Parse, chunk_hook_Reg_Parse]

theorem head_state_ptr (P : CompileState) (hP : P.Code_Emit_Ptr ≠ Ptr.null) :
    (head_state P).Code_Emit_Ptr ≠ Ptr.null := by
  have h3 : (emit_byte 37 (emit_byte 37 (emit_byte MAGIC P))).Code_Emit_Ptr ≠ Ptr.null := by
    intro h
    exact hP ((emit_byte_flags _ _).2.2.1 ((emit_byte_flags _ _).2.2.1
      ((emit_byte_flags _ _).2.2.1 h)))
  unfold head_state emit_node
  simp only []
  split
  · exact h3
  · cases h : (emit_byte 37 (emit_byte 37 (emit_byte MAGIC P))).Code_Emit_Ptr <;>
      simp_all [Ptr.add]

/-- The function `piece_rest` on a brace quantifier whose two bounds are 1: nothing is
emitted, and the result is the one of `atom` with the parse index after the quantifier. -/
theorem piece_rest_unit (exp : List Nat) (a : Res) (rp0 : Nat)
    (hbrace : charAt exp a.cState.Reg_Parse = 123)
    (hparse : parse_brace exp (a.cState.Reg_Parse + 1) = .ok (1, 1, rp0)) :
    piece_rest exp a
      = .ok { a with cState := { a.cState with
                Reg_Parse := if charAt exp (rp0 + 1) = 63 then rp0 + 1 + 1 else rp0 + 1 } } := by
  unfold piece_rest
  simp only [hbrace, hparse, isQuantifier, Brace_Char, REG_ZERO, REG_ONE, REG_INFINITY]
  simp

/-- The function `piece` on an atom followed by `{1,1}` or by `{1}`. -/
theorem piece_unit_brace (pre post : List Nat) (fuel : Nat) (s : CompileState) (a : Res) :
    (atom (brace_text pre [1] [1] post) fuel s = .ok a → a.ret_val ≠ Ptr.null →
        a.cState.Reg_Parse = pre.length →
        piece (brace_text pre [1] [1] post) (fuel + 1) s
          = .ok { a with cState := { a.cState with
                    Reg_Parse := if post.headD 0 = 63 then pre.length + 6 else pre.length + 5 } })
      ∧ (atom (brace_text_one pre [1] post) fuel s = .ok a → a.ret_val ≠ Ptr.null →
        a.cState.Reg_Parse = pre.length →
        piece (brace_text_one pre [1] post) (fuel + 1) s
          = .ok { a with cState := { a.cState with
                    Reg_Parse := if post.headD 0 = 63 then pre.length + 4 else pre.length + 3 } }) := by
  have hd : ∀ d ∈ [1], d < 10 := by decide
  have hne : ([1] : List Nat) ≠ [] := by decide
  constructor
  · intro hatom hret hrp
    have hp := parse_brace_text pre [1] [1] post hd hd hne hne
    rw [if_neg (by decide), if_neg (by decide), if_neg (by decide), if_neg (by decide),
      if_neg (by decide)] at hp
    have hb : charAt (brace_text pre [1] [1] post) a.cState.Reg_Parse = 123 := by
      rw [hrp, brace_text, charAt_at]
    have hnext : charAt (brace_text pre [1] [1] post) (pre.length + 1 + [1].length + 1
        + [1].length + 1) = post.headD 0 := by
      rw [brace_text]
      have := charAt_after pre 123 (List.map (fun d => d + 48) [1]
        ++ 44 :: (List.map (fun d => d + 48) [1] ++ 125 :: post)) 4
      rw [show pre.length + 1 + [1].length + 1 + [1].length + 1 = pre.length + 1 + 4 from rfl,
        this]
      cases post <;> rfl
    rw [piece, hatom]
    simp only []
    rw [if_neg hret, piece_rest_unit _ a _ hb (by rw [hrp]; exact hp), hnext]
    rfl
  · intro hatom hret hrp
    have hp := parse_brace_text_one pre [1] post hd hne
    rw [if_neg (by decide), if_neg (by decide)] at hp
    have hb : charAt (brace_text_one pre [1] post) a.cState.Reg_Parse = 123 := by
      rw [hrp, brace_text_one, charAt_at]
    have hnext : charAt (brace_text_one pre [1] post) (pre.length + 1 + [1].length + 1)
        = post.headD 0 := by
      rw [brace_text_one]
      have := charAt_after pre 123 (List.map (fun d => d + 48) [1] ++ 125 :: post) 2
      rw [show pre.length + 1 + [1].length + 1 = pre.length + 1 + 2 from rfl, this]
      cases post <;> rfl
    rw [piece, hatom]
    simp only []
    rw [if_neg hret, piece_rest_unit _ a _ hb (by rw [hrp]; exact hp), hnext]
    rfl

theorem literal_one_loop (exp : List Nat) (c q F : Nat) (N : CompileState)
    (hcc : charAt exp N.Reg_Parse = c) (hqq : charAt exp (N.Reg_Parse + 1) = q)
    (hc : ordinary c = true) (hq : q = 0 ∨ (strchr Default_Meta_Char q).isSome = true) :
    atom_literal exp (F + 2) 0 N
      = .ok (1, { emit_byte (literal_byte N.Is_Case_Insensitive c) N
                  with Reg_Parse := N.Reg_Parse + 1 }) := by
  obtain ⟨h0, _, _, _, _, _, _, _, _, _, _, _, _, _, _⟩ := ordinary_cases _ hc
  have hco := hc
  unfold ordinary at hco
  simp only [Bool.and_eq_true, decide_eq_true_eq, Option.isNone_iff_eq_none] at hco
  rw [atom_literal]
  rw [if_neg (by rw [hcc]; intro h; rcases h with h | h
                 · exact h0 h
                 · rw [hco.2] at h; cases h)]
  rw [ordinary_step exp N (by rw [hcc]; exact hc)]
  simp only [show ¬ (0 > 0) by decide, decide_False, Bool.and_false, Bool.false_eq_true,
    if_false]
  rw [atom_literal]
  simp only [hqq, hq, if_true, hcc]

/-- The `default` case of `atom` on one ordinary character followed by the terminator or by a
meta character: the node holds the character alone, whatever follows. -/
theorem atom_default_one (exp : List Nat) (c q : Nat) (t : CompileState)
    (hcc : charAt exp t.Reg_Parse = c) (hqq : charAt exp (t.Reg_Parse + 1) = q)
    (hc : ordinary c = true) (hq : q = 0 ∨ (strchr Default_Meta_Char q).isSome = true)
    (hlen : 1 ≤ exp.length) :
    atom_default exp WORST t
      = .ok { ret_val := t.Code_Emit_Ptr,
              flag := (WORST ||| HAS_WIDTH) ||| SIMPLE,
              range := { lower := 1, upper := 1 },
              cState :=
                { emit_byte 0 (emit_byte (literal_byte t.Is_Case_Insensitive c)
                    (emit_node (if t.Is_Case_Insensitive then SIMILAR else EXACTLY) t).2)
                  with Reg_Parse := t.Reg_Parse + 1 } } := by
  have hnode : (if t.Is_Case_Insensitive = true then emit_node SIMILAR t else emit_node EXACTLY t)
      = emit_node (if t.Is_Case_Insensitive then SIMILAR else EXACTLY) t := by
    cases t.Is_Case_Insensitive <;> rfl
  have hrp2 : (emit_node (if t.Is_Case_Insensitive then SIMILAR else EXACTLY) t).2.Reg_Parse
      = t.Reg_Parse := Reg_Parse_emit_node _ _
  have hci : (emit_node (if t.Is_Case_Insensitive then SIMILAR else EXACTLY) t).2.Is_Case_Insensitive
      = t.Is_Case_Insensitive := by
    unfold emit_node
    simp only []
    split <;> rfl
  have hlen2 : exp.length + 1 = (exp.length - 1) + 2 := by omega
  unfold atom_default
  simp only []
  rw [hnode, hlen2, literal_one_loop exp c q _ _ (by rw [hrp2]; exact hcc)
    (by rw [hrp2]; exact hqq) hc hq]
  simp only []
  rw [emit_byte_Reg_Parse, hci, emit_node_fst, hrp2]
  simp only [if_true, Nat.cast_one]
  rfl

theorem charAt_length (l : List Nat) : charAt l l.length = 0 := by
  simp [charAt]

/-- The function `piece` on an atom that no quantifier follows returns what `atom` returns. -/
theorem piece_plain (exp : List Nat) (F : Nat) (s : CompileState) (a : Res)
    (hatom : atom exp F s = .ok a) (hret : a.ret_val ≠ Ptr.null)
    (hq : isQuantifier (charAt exp a.cState.Reg_Parse) = false) :
    piece exp (F + 1) s = .ok a := by
  rw [piece, hatom]
  simp only []
  rw [if_neg hret]
  unfold piece_rest
  simp only [hq, Bool.not_false, if_true]

/-- One ordinary character is one atom: `atom` returns the same node for it whether the
terminator or a meta character follows. -/
theorem atom_one_ordinary (exp : List Nat) (c F : Nat) (s : CompileState)
    (hs : s.Reg_Parse = 0) (hc : ordinary c = true) (h0 : charAt exp 0 = c)
    (h1 : charAt exp 1 = 0 ∨ (strchr Default_Meta_Char (charAt exp 1)).isSome = true)
    (hlen : 1 ≤ exp.length) :
    atom exp (F + 1) s
      = .ok { ret_val := s.Code_Emit_Ptr,
              flag := (WORST ||| HAS_WIDTH) ||| SIMPLE,
              range := { lower := 1, upper := 1 },
              cState :=
                { emit_byte 0 (emit_byte (literal_byte s.Is_Case_Insensitive c)
                    (emit_node (if s.Is_Case_Insensitive then SIMILAR else EXACTLY) s).2)
                  with Reg_Parse := 1 } } := by
  have h := atom_default_one exp c (charAt exp 1) s (by rw [hs]; exact h0) (by rw [hs]) hc h1
    hlen
  rw [hs] at h
  rw [atom_ordinary exp F s (by rw [hs, h0]; exact hc)]
  exact h

/-- One ordinary character `c` is one atom of the regexes `c`, `c{1,1}` and `c{1}`. -/
theorem atom_unit_ordinary (c : Nat) (hc : ordinary c = true) (s : CompileState)
    (hs : s.Reg_Parse = 0) (hp : s.Code_Emit_Ptr ≠ Ptr.null) :
    ∃ a, atom [c] (compile_fuel [c] - 5) s = .ok a ∧ a.ret_val ≠ Ptr.null
      ∧ a.cState.Reg_Parse = [c].length
      ∧ atom (brace_text [c] [1] [1] []) (compile_fuel (brace_text [c] [1] [1] []) - 5) s = .ok a
      ∧ atom (brace_text_one [c] [1] []) (compile_fuel (brace_text_one [c] [1] []) - 5) s
          = .ok a := by
  have hmeta : (strchr Default_Meta_Char 123).isSome = true := by decide
  have hf0 : compile_fuel [c] - 5 = 18 + 1 := rfl
  have hf1 : compile_fuel (brace_text [c] [1] [1] []) - 5 = 58 + 1 := rfl
  have hf2 : compile_fuel (brace_text_one [c] [1] []) - 5 = 42 + 1 := rfl
  rw [hf0, hf1, hf2, atom_one_ordinary [c] c 18 s hs hc rfl (Or.inl rfl) (Nat.le_refl 1),
    atom_one_ordinary (brace_text [c] [1] [1] []) c 58 s hs hc rfl (Or.inr hmeta)
      (Nat.le_add_left 1 5),
    atom_one_ordinary (brace_text_one [c] [1] []) c 42 s hs hc rfl (Or.inr hmeta)
      (Nat.le_add_left 1 3)]
  exact ⟨_, rfl, hp, rfl, rfl, rfl⟩

set_option maxRecDepth 1000000 in
theorem unit_brace_examples :
    CompileRE (bytes "[a-z]\x7b1,1\x7d") 0 = CompileRE (bytes "[a-z]") 0
      ∧ CompileRE (bytes "[^x]\x7b1\x7d") 0 = CompileRE (bytes "[^x]") 0
      ∧ CompileRE (bytes "(ab)\x7b1,1\x7d") 0 = CompileRE (bytes "(ab)") 0
      ∧ CompileRE (bytes "(ab)\x7b1\x7d") 0 = CompileRE (bytes "(ab)") 0
      ∧ CompileRE (bytes "(a*)\x7b1,1\x7d") 0 = CompileRE (bytes "(a*)") 0
      ∧ CompileRE (bytes "(?:a|b)\x7b1,1\x7d") 0 = CompileRE (bytes "(?:a|b)") 0
      ∧ CompileRE (bytes "(?=a)\x7b1\x7d") 0 = CompileRE (bytes "(?=a)") 0
      ∧ CompileRE (bytes "\\x41\x7b1,1\x7d") 0 = CompileRE (bytes "\\x41") 0
      ∧ CompileRE (bytes "\\d\x7b1\x7d") 0 = CompileRE (bytes "\\d") 0
      ∧ CompileRE (bytes ".\x7b1,1\x7d") 0 = CompileRE (bytes ".") 0
      ∧ (CompileRE (bytes "(ab)\x7b1,1\x7d") 0).map (fun re => re.program_)
        = .ok [156, 1, 0, 34, 0, 18, 50, 0, 3, 34, 0, 9, 7, 0, 6, 97, 98, 0, 100, 0, 3, 1, 0, 0, 0]
      ∧ (CompileRE (bytes "(ab)\x7b1,1\x7d") 0).map (fun re => re.Num_Braces) = .ok 0
      ∧ (CompileRE (bytes "(ab)\x7b2,2\x7d") 0).map (fun re => re.Num_Braces) = .ok 1 := by
  refine ⟨by decide!, by decide!, by decide!, by decide!, by decide!, by decide!, by decide!,
    by decide!, by decide!, by decide!, by decide!, by decide!, by decide!⟩

set_option maxRecDepth 1000000 in
/-- A hexadecimal escape of one digit is read alike in front of the quantifier and at the
end of the regex. -/
theorem unit_brace_short_hex :
    CompileRE (bytes "\\x4\x7b1,1\x7d") 0 = CompileRE (bytes "\\x4") 0
      ∧ CompileRE (bytes "\\x4\x7b1\x7d") 0 = CompileRE (bytes "\\x4") 0
      ∧ (CompileRE (bytes "\\x4") 0).map (fun re => re.program_)
        = .ok [156, 0, 0, 34, 0, 8, 7, 0, 5, 4, 0, 1, 0, 0, 0] := by
  refine ⟨by decide!, by decide!, by decide!⟩

theorem charAt_beyond (x : List Nat) (i : Nat) (h : x.length ≤ i) : charAt x i = 0 := by
  unfold charAt
  exact List.getD_eq_default _ _ h

theorem Cut.read_before {x e : List Nat} (h : Cut x e) {i : Nat} (hi : i < x.length) :
    charAt e i = charAt x i := by
  obtain ⟨t, rfl⟩ := h
  exact charAt_append_left x _ i hi

theorem Cut.read_brace {x e : List Nat} (h : Cut x e) : charAt e x.length = 123 := by
  obtain ⟨t, rfl⟩ := h
  exact charAt_at x 123 _

theorem Cut.read_digit {x e : List Nat} (h : Cut x e) : charAt e (x.length + 1) = 49 := by
  obtain ⟨t, rfl⟩ := h
  exact charAt_after x 123 (49 :: t) 0

theorem Cut.length_lt {x e : List Nat} (h : Cut x e) : x.length + 2 ≤ e.length := by
  obtain ⟨t, rfl⟩ := h
  simp

/-- A character of `x` that is not the terminator is the character of `e` at the same
index. -/
theorem Cut.test_up {x e : List Nat} (h : Cut x e) (k c : Nat) (hc : c ≠ 0)
    (hx : charAt x k = c) : charAt e k = c := by
  by_cases hk : k < x.length
  · rw [h.read_before hk]; exact hx
  · rw [charAt_beyond x k (by omega)] at hx
    exact absurd hx.symm hc

/-- A character of `e` up to the brace that is not the brace is the character of `x` at the
same index. -/
theorem Cut.test_down {x e : List Nat} (h : Cut x e) (k c : Nat) (hk : k ≤ x.length)
    (hc : c ≠ 123) (he : charAt e k = c) : charAt x k = c := by
  by_cases hk2 : k < x.length
  · rw [← h.read_before hk2]; exact he
  · have : k = x.length := by omega
    subst this
    rw [h.read_brace] at he
    exact absurd he.symm hc

theorem Cut.test_iff {x e : List Nat} (h : Cut x e) (k c : Nat) (hk : k ≤ x.length)
    (hc0 : c ≠ 0) (hc : c ≠ 123) : (charAt e k = c) = (charAt x k = c) :=
  propext ⟨h.test_down k c hk hc, h.test_up k c hc0⟩

theorem Cut.numeric_loop {x e : List Nat} (h : Cut x e) (digit_str : List Nat)
    (radix delta : Nat) (hd : strchr digit_str 123 = none)
    (h0 : ∀ idx, strchr digit_str 0 = some idx → digit_val.length ≤ idx + delta) :
    ∀ (i value scan : Nat), scan ≤ x.length →
      numeric_escape_loop e digit_str radix delta i value scan
        = numeric_escape_loop x digit_str radix delta i value scan := by
  intro i
  induction i with
  | zero => intro value scan _; rfl
  | succ i ih =>
    intro value scan hs
    unfold numeric_escape_loop
    by_cases hlt : scan < x.length
    · rw [h.read_before hlt]
      cases hstr : strchr digit_str (charAt x scan) with
      | none => rfl
      | some idx =>
        simp only []
        split
        · rfl
        · split
          · rfl
          · exact ih _ _ (by omega)
    · have hsn : scan = x.length := by omega
      subst hsn
      rw [h.read_brace, hd, charAt_beyond x _ (Nat.le_refl _)]
      cases hstr : strchr digit_str 0 with
      | none => rfl
      | some idx =>
        simp only []
        rw [if_pos (h0 idx hstr)]

theorem Cut.numeric {x e : List Nat} (h : Cut x e) (p : Nat) (hp : p ≤ x.length) :
    numeric_escape e (charAt e p) p = numeric_escape x (charAt x p) p := by
  by_cases hlt : p < x.length
  · rw [h.read_before hlt]
    unfold numeric_escape
    rw [h.numeric_loop (numeric_digits.drop 14) 8 14 (by decide) (by decide) 3 0 (p + 1)
        (by omega),
      h.numeric_loop numeric_digits 16 0 (by decide) (by decide) 2 0 (p + 1) (by omega)]
  · have hpn : p = x.length := by omega
    subst hpn
    rw [h.read_brace, charAt_beyond x _ (Nat.le_refl _)]
    rfl

theorem brace_digits_le (e : List Nat) (i : Nat) :
    ∀ (F value dp rp v1 d1 r1 : Nat),
      brace_digits e i F value dp rp = .ok (v1, d1, r1) → rp ≤ r1 := by
  intro F
  induction F with
  | zero => intro value dp rp v1 d1 r1 h; cases h
  | succ F ih =>
    intro value dp rp v1 d1 r1 h
    unfold brace_digits at h
    simp only [] at h
    split at h
    · split at h
      · have := ih _ _ _ _ _ _ h
        omega
      · split at h <;> cases h
    · cases h
      exact Nat.le_refl _

theorem Cut.digits_stop {x e : List Nat} (h : Cut x e) (i : Nat) :
    ∀ (F value dp rp v1 d1 r1 : Nat), rp ≤ x.length →
      brace_digits e i F value dp rp = .ok (v1, d1, r1) → r1 ≤ x.length := by
  intro F
  induction F with
  | zero => intro value dp rp v1 d1 r1 _ h; cases h
  | succ F ih =>
    intro value dp rp v1 d1 r1 hrp hb
    unfold brace_digits at hb
    simp only [] at hb
    by_cases hlt : rp < x.length
    · split at hb
      · split at hb
        · exact ih _ _ _ _ _ _ (by omega) hb
        · split at hb <;> cases hb
      · cases hb
        exact hrp
    · have hpn : rp = x.length := by omega
      subst hpn
      rw [h.read_brace] at hb
      rw [if_neg (by decide)] at hb
      cases hb
      exact Nat.le_refl _

theorem Cut.digits {x e : List Nat} (h : Cut x e) (i : Nat) :
    ∀ (F1 F2 value dp rp : Nat), rp ≤ x.length → x.length + 1 - rp ≤ F1 →
      x.length + 1 - rp ≤ F2 →
      brace_digits e i F1 value dp rp = brace_digits x i F2 value dp rp := by
  intro F1
  induction F1 with
  | zero => intro F2 value dp rp hrp h1 _; omega
  | succ F1 ih =>
    intro F2 value dp rp hrp h1 h2
    cases F2 with
    | zero => omega
    | succ F2 =>
      unfold brace_digits
      simp only []
      by_cases hlt : rp < x.length
      · rw [h.read_before hlt]
        split
        · split
          · exact ih F2 _ _ _ (by omega) (by omega) (by omega)
          · rfl
        · rfl
      · have hpn : rp = x.length := by omega
        subst hpn
        rw [h.read_brace, charAt_beyond x _ (Nat.le_refl _)]
        rfl

theorem Cut.parse {x e : List Nat} (h : Cut x e) (rp : Nat) (hrp : rp ≤ x.length) :
    parse_brace e rp = parse_brace x rp := by
  have hlen := h.length_lt
  unfold parse_brace
  rw [h.digits 0 (e.length + 1) (x.length + 1) REG_ZERO 0 rp hrp (by omega) (by omega)]
  cases hd0 : brace_digits x 0 (x.length + 1) REG_ZERO 0 rp with
  | error er => rfl
  | ok r0 =>
    obtain ⟨min0, dp0, rp1⟩ := r0
    have hd0e : brace_digits e 0 (e.length + 1) REG_ZERO 0 rp = .ok (min0, dp0, rp1) := by
      rw [h.digits 0 (e.length + 1) (x.length + 1) REG_ZERO 0 rp hrp (by omega) (by omega)]
      exact hd0
    have hrp1 : rp1 ≤ x.length := h.digits_stop 0 _ _ _ _ _ _ _ hrp hd0e
    simp only []
    simp only [h.test_iff rp1 44 hrp1 (by decide) (by decide)]
    have hrp2 : (if decide (charAt x rp1 = 44) = true then rp1 + 1 else rp1) ≤ x.length := by
      by_cases hc : charAt x rp1 = 44
      · rw [if_pos (by simpa using hc)]
        by_cases hlt : rp1 < x.length
        · omega
        · rw [charAt_beyond x rp1 (by omega)] at hc
          cases hc
      · rw [if_neg (by simpa using hc)]
        exact hrp1
    rw [h.digits 1 (e.length + 1) (x.length + 1) REG_INFINITY 0 _ hrp2 (by omega) (by omega)]
    cases hd1 : brace_digits x 1 (x.length + 1) REG_INFINITY 0
        (if decide (charAt x rp1 = 44) = true then rp1 + 1 else rp1) with
    | error er => rfl
    | ok r1 =>
      obtain ⟨max0, dp1, rp3⟩ := r1
      have hd1e : brace_digits e 1 (e.length + 1) REG_INFINITY 0
          (if decide (charAt x rp1 = 44) = true then rp1 + 1 else rp1)
          = .ok (max0, dp1, rp3) := by
        rw [h.digits 1 (e.length + 1) (x.length + 1) REG_INFINITY 0 _ hrp2 (by omega)
          (by omega)]
        exact hd1
      have hrp3 : rp3 ≤ x.length := h.digits_stop 1 _ _ _ _ _ _ _ hrp2 hd1e
      simp only []
      simp only [h.test_iff rp3 44 hrp3 (by decide) (by decide)]
      have hrp4 : (if (!decide (charAt x rp1 = 44) && decide (charAt x rp3 = 44)) = true
          then rp3 + 1 else rp3) ≤ x.length := by
        by_cases hc : charAt x rp3 = 44
        · by_cases hlt : rp3 < x.length
          · split <;> omega
          · rw [charAt_beyond x rp3 (by omega)] at hc
            cases hc
        · rw [if_neg (by simp [hc])]
          exact hrp3
      simp only [ne_eq, h.test_iff _ 125 hrp4 (by decide) (by decide)]

theorem takeWhile_before (P : Nat → Bool) (b : Nat) (l : List Nat) (hb : P b = false) :
    ∀ a : List Nat, (a ++ b :: l).takeWhile P = a.takeWhile P := by
  intro a
  induction a with
  | nil => simp [List.takeWhile_cons, hb]
  | cons c a ih =>
    simp only [List.cons_append, List.takeWhile_cons]
    split
    · rw [ih]
    · rfl

theorem takeWhile_short (P : Nat → Bool) (l : List Nat) :
    ∀ a : List Nat, ((a ++ l).takeWhile P).length < a.length →
      a.takeWhile P = (a ++ l).takeWhile P := by
  intro a
  induction a with
  | nil => intro h; simp at h
  | cons c a ih =>
    intro h
    simp only [List.cons_append, List.takeWhile_cons] at h ⊢
    split
    · rename_i hc
      rw [hc] at h
      simp only [List.length_cons] at h
      rw [ih (by simp only [if_true, List.length_cons] at h; omega)]
    · rfl

theorem takeWhile_length_le (P : Nat → Bool) :
    ∀ a : List Nat, (a.takeWhile P).length ≤ a.length := by
  intro a
  induction a with
  | nil => simp
  | cons c a ih =>
    simp only [List.takeWhile_cons]
    split
    · simp only [List.length_cons]; omega
    · simp

theorem Cut.drop_eq {x e : List Nat} (h : Cut x e) (k : Nat) (hk : k ≤ x.length) :
    ∃ t, e.drop k = x.drop k ++ 123 :: 49 :: t := by
  obtain ⟨t, rfl⟩ := h
  exact ⟨t, List.drop_append_of_le_length hk⟩

theorem Cut.zero_width {x e : List Nat} (h : Cut x e) (rp : Nat) (hrp : rp ≤ x.length) :
    chunk_zero_width e rp = chunk_zero_width x rp := by
  unfold chunk_zero_width
  by_cases hlt : rp < x.length
  · rw [h.read_before hlt]
    by_cases h1 : charAt x rp = 63 ∨ charAt x rp = 42
    · rw [if_pos h1, if_pos h1]
    rw [if_neg h1, if_neg h1]
    by_cases h2 : charAt x rp = 123 ∧ Brace_Char = 123
    · rw [if_pos h2, if_pos h2]
      simp only [h.test_iff (rp + 1) 44 (by omega) (by decide) (by decide),
        h.test_iff (rp + 1) 125 (by omega) (by decide) (by decide),
        h.test_iff (rp + 1) 48 (by omega) (by decide) (by decide)]
      by_cases h3 : charAt x (rp + 1) = 44 ∨ charAt x (rp + 1) = 125
      · rw [if_pos h3, if_pos h3]
      rw [if_neg h3, if_neg h3]
      by_cases h4 : charAt x (rp + 1) = 48
      · rw [if_pos h4, if_pos h4]
        have hlt1 : rp + 1 < x.length := by
          by_contra hc
          rw [charAt_beyond x _ (by omega)] at h4
          cases h4
        obtain ⟨t, ht⟩ := h.drop_eq (rp + 2) (by omega)
        rw [ht, takeWhile_before _ 123 _ (by decide)]
        have hlen := takeWhile_length_le (fun c => decide (c = 48)) (x.drop (rp + 2))
        rw [List.length_drop] at hlen
        simp only [h.test_iff _ 44 (show rp + (2 + (List.takeWhile (fun c => decide (c = 48))
          (List.drop (rp + 2) x)).length) ≤ x.length by omega) (by decide) (by decide)]
      · rw [if_neg h4, if_neg h4]
    · rw [if_neg h2, if_neg h2]
  · have hpn : rp = x.length := by omega
    subst hpn
    rw [h.read_brace, h.read_digit, charAt_beyond x _ (Nat.le_refl _)]
    simp

theorem skip_comments_le (e : List Nat) :
    ∀ (F rp rp1 : Nat) (b : Bool), skip_comments e F rp = .ok (rp1, b) →
      rp ≤ rp1 ∧ (b = true → rp + 3 ≤ rp1) := by
  intro F
  induction F with
  | zero => intro rp rp1 b h; cases h
  | succ F ih =>
    intro rp rp1 b h
    unfold skip_comments at h
    simp only [] at h
    by_cases hc : charAt e rp = 40 ∧ charAt e (rp + 1) = 63 ∧ charAt e (rp + 2) = 35
    · rw [if_pos hc] at h
      generalize (List.takeWhile (fun c => decide (c ≠ 41) && decide (c ≠ 0))
        (List.drop (rp + 3) e)) = body at h
      generalize hrp2 : (if charAt e (rp + 3 + body.length) = 41 then rp + 3 + body.length + 1
        else rp + 3 + body.length) = rp2 at h
      have hge : rp + 3 ≤ rp2 := by
        rw [← hrp2]; split <;> omega
      by_cases hend : charAt e rp2 = 41 ∨ charAt e rp2 = 124 ∨ charAt e rp2 = 0
      · rw [if_pos hend] at h
        cases h
        exact ⟨by omega, fun _ => hge⟩
      · rw [if_neg hend] at h
        have := ih _ _ _ h
        exact ⟨by omega, fun _ => by omega⟩
    · rw [if_neg hc] at h
      cases h
      exact ⟨Nat.le_refl _, fun hb => by cases hb⟩

theorem Cut.skip {x e : List Nat} (h : Cut x e) :
    ∀ (F1 F2 rp rp1 : Nat) (b : Bool), skip_comments e F1 rp = .ok (rp1, b) →
      rp1 < x.length → x.length + 1 - rp ≤ F2 → skip_comments x F2 rp = .ok (rp1, b) := by
  intro F1
  induction F1 with
  | zero => intro F2 rp rp1 b hs _ _; cases hs
  | succ F1 ih =>
    intro F2 rp rp1 b hs hlt hF
    have hle := (skip_comments_le e _ _ _ _ hs).1
    have hrp : rp < x.length := by omega
    cases F2 with
    | zero => omega
    | succ F2 =>
      unfold skip_comments at hs ⊢
      simp only [] at hs ⊢
      by_cases hc : charAt e rp = 40 ∧ charAt e (rp + 1) = 63 ∧ charAt e (rp + 2) = 35
      · obtain ⟨c1, c2, c3⟩ := hc
        have hrp1 : rp + 1 < x.length := by
          by_contra hcon
          have : rp + 1 = x.length := by omega
          rw [this, h.read_brace] at c2
          cases c2
        have hrp2 : rp + 2 < x.length := by
          by_contra hcon
          have : rp + 2 = x.length := by omega
          rw [this, h.read_brace] at c3
          cases c3
        rw [if_pos ⟨c1, c2, c3⟩] at hs
        rw [h.read_before hrp] at c1
        rw [h.read_before hrp1] at c2
        rw [h.read_before hrp2] at c3
        rw [if_pos ⟨c1, c2, c3⟩]
        obtain ⟨t, ht⟩ := h.drop_eq (rp + 3) (by omega)
        rw [ht] at hs
        generalize hL : (List.takeWhile (fun c => decide (c ≠ 41) && decide (c ≠ 0))
          (List.drop (rp + 3) x ++ 123 :: 49 :: t)) = body at hs
        generalize hrp2 : (if charAt e (rp + 3 + body.length) = 41 then rp + 3 + body.length + 1
          else rp + 3 + body.length) = rp2 at hs
        have hrp2ge : rp + 3 + body.length ≤ rp2 := by
          rw [← hrp2]; split <;> omega
        have hrp2lt : rp2 ≤ rp1 := by
          by_cases hend : charAt e rp2 = 41 ∨ charAt e rp2 = 124 ∨ charAt e rp2 = 0
          · rw [if_pos hend] at hs
            cases hs
            exact Nat.le_refl _
          · rw [if_neg hend] at hs
            exact (skip_comments_le e _ _ _ _ hs).1
        have hbody : rp + 3 + body.length < x.length := by omega
        have hbx : List.takeWhile (fun c => decide (c ≠ 41) && decide (c ≠ 0))
            (List.drop (rp + 3) x) = body := by
          rw [← hL]
          apply takeWhile_short
          rw [hL, List.length_drop]
          omega
        rw [hbx]
        rw [h.read_before hbody] at hrp2
        rw [hrp2]
        have hlt2 : rp2 < x.length := by omega
        rw [h.read_before hlt2] at hs
        by_cases hend : charAt x rp2 = 41 ∨ charAt x rp2 = 124 ∨ charAt x rp2 = 0
        · rw [if_pos hend] at hs ⊢
          exact hs
        · rw [if_neg hend] at hs ⊢
          exact ih F2 rp2 rp1 b hs hlt (by omega)
      · rw [if_neg hc] at hs
        cases hs
        rw [if_neg]
        rintro ⟨c1, c2, c3⟩
        exact hc ⟨h.test_up _ _ (by decide) c1, h.test_up _ _ (by decide) c2,
          h.test_up _ _ (by decide) c3⟩

theorem numeric_escape_le (s : List Nat) (c p v q : Nat)
    (h : numeric_escape s c p = .ok (v, q)) : p ≤ q := by
  rcases numeric_escape_cases s c p with h1 | h1 | ⟨t, a, h1, h2⟩
  · rw [h1] at h; cases h
  · rw [h1] at h; cases h
  · rw [h1] at h; cases h; exact h2

/-- The last character of a range in a class is read at the index after the hyphen or
after it. -/
theorem class_range_last_le (e : List Nat) (s : CompileState) (rp v q : Nat)
    (h : (if charAt e rp = 92 then
            match numeric_escape e (charAt e (rp + 1)) (rp + 1) with
            | .error er => .error er
            | .ok (test, rp1) =>
              if test ≠ 0 then .ok (test, rp1)
              else if literal_escape (charAt e (rp + 1)) ≠ 0 then
                .ok (literal_escape (charAt e (rp + 1)), rp + 1)
              else
                match shortcut_escape (charAt e (rp + 1)) 0 CHECK_CLASS_ESCAPE s with
                | .error er => .error er
                | .ok r =>
                  if r.1 ≠ Ptr.null then .error .not_allowed_as_range_operand
                  else .error .invalid_class_escape
          else .ok (charAt e rp, rp) : Except CompileError (Nat × Nat)) = .ok (v, q)) :
    rp ≤ q := by
  repeat' (split at h)
  all_goals
    first
    | (cases h; done)
    | (cases h; omega)
    | (cases h
       have h2 := numeric_escape_le _ _ _ _ _ (by assumption)
       omega)

theorem atom_class_le (e : List Nat) :
    ∀ (F le : Nat) (s r : CompileState), atom_class e F le s = .ok r →
      s.Reg_Parse ≤ r.Reg_Parse := by
  intro F
  induction F with
  | zero => intro le s r h; cases h
  | succ F ih =>
    intro le s r h
    unfold atom_class at h
    simp only [] at h
    repeat' (split at h)
    all_goals
      first
      | (cases h; done)
      | (cases h; exact Nat.le_refl _)
      | (have h1 := ih _ _ _ h
         simp only [Reg_Parse_emit_byte] at h1
         first
         | omega
         | (have h2 := numeric_escape_le _ _ _ _ _ (by assumption); omega)
         | (have h2 := class_range_last_le _ _ _ _ _ (by assumption); omega))

theorem atom_literal_step_lt (e : List Nat) (s cs1 : CompileState)
    (h : atom_literal_step e s = .ok (some cs1)) : s.Reg_Parse < cs1.Reg_Parse := by
  unfold atom_literal_step at h
  simp only [] at h
  repeat' (split at h)
  all_goals
    first
    | (cases h; done)
    | (cases h; simp only []; omega)
    | (cases h
       have h2 := numeric_escape_le _ _ _ _ _ (by assumption)
       simp only []
       omega)

theorem atom_literal_le (e : List Nat) :
    ∀ (F len : Nat) (s : CompileState) (len1 : Nat) (r : CompileState),
      atom_literal e F len s = .ok (len1, r) →
      s.Reg_Parse ≤ r.Reg_Parse ∧ len ≤ len1 ∧ (len < len1 → s.Reg_Parse < r.Reg_Parse) := by
  intro F
  induction F with
  | zero => intro len s len1 r h; cases h
  | succ F ih =>
    intro len s len1 r h
    unfold atom_literal at h
    simp only [] at h
    split at h
    · cases h; exact ⟨Nat.le_refl _, Nat.le_refl _, fun hc => absurd hc (Nat.lt_irrefl _)⟩
    · split at h
      · cases h
      · cases h; exact ⟨Nat.le_refl _, Nat.le_refl _, fun hc => absurd hc (Nat.lt_irrefl _)⟩
      · rename_i cs1 hstep
        have hlt := atom_literal_step_lt e s cs1 hstep
        split at h
        · split at h
          · cases h
            exact ⟨Nat.le_refl _, Nat.le_refl _, fun hc => absurd hc (Nat.lt_irrefl _)⟩
          · cases h
            exact ⟨Nat.le_refl _, Nat.le_refl _, fun hc => absurd hc (Nat.lt_irrefl _)⟩
        · obtain ⟨a, b, c⟩ := ih _ _ _ _ h
          exact ⟨by omega, by omega, fun _ => by omega⟩

theorem piece_emit_Reg_Parse (op : Nat) (lazy : Bool) (fl min max : Nat) (rv : Ptr)
    (s cs1 : CompileState) (h : piece_emit op lazy fl min max rv s = .ok cs1) :
    cs1.Reg_Parse = s.Reg_Parse := by
  unfold piece_emit at h
  repeat' (split at h)
  all_goals
    first
    | (cases h; done)
    | (cases h; exact Reg_Parse_insert _ _ _ _ _ _)
    | (cases h; exact Reg_Parse_piece_emit_loop _ _ _ _)
    | (cases h; exact Reg_Parse_piece_emit_brace _ _ _ _ _)

theorem parse_brace_le (e : List Nat) (rp a b q : Nat)
    (h : parse_brace e rp = .ok (a, b, q)) : rp ≤ q := by
  unfold parse_brace at h
  split at h
  · cases h
  · rename_i min0 dp0 rp1 h0
    have l0 := brace_digits_le e 0 _ _ _ _ _ _ _ h0
    simp only [] at h
    split at h
    · cases h
    · rename_i max0 dp1 rp3 h1
      have l1 := brace_digits_le e 1 _ _ _ _ _ _ _ h1
      have l2 : rp1 ≤ (if decide (charAt e rp1 = 44) = true then rp1 + 1 else rp1) := by
        split <;> omega
      repeat' (split at h)
      all_goals
        first
        | (cases h; done)
        | (cases h; omega)

/-- Where `piece_rest` leaves the parse index when a quantifier follows the atom: after the
quantifier and the `?` of a lazy form. -/
theorem piece_rest_pos (e : List Nat) (a l : Res) (min0 max0 rp0 : Nat)
    (h : piece_rest e a = .ok l)
    (hq : isQuantifier (charAt e a.cState.Reg_Parse) = true)
    (hp : (if charAt e a.cState.Reg_Parse = 123 then parse_brace e (a.cState.Reg_Parse + 1)
          else .ok (REG_ZERO, REG_INFINITY, a.cState.Reg_Parse)) = .ok (min0, max0, rp0)) :
    l.cState.Reg_Parse = (if charAt e (rp0 + 1) = 63 then rp0 + 1 + 1 else rp0 + 1)
      ∧ a.cState.Reg_Parse ≤ rp0 := by
  have hrp0 : a.cState.Reg_Parse ≤ rp0 := by
    split at hp
    · have := parse_brace_le e _ _ _ _ hp
      omega
    · cases hp; exact Nat.le_refl _
  refine ⟨?_, hrp0⟩
  unfold piece_rest at h
  generalize charAt e a.cState.Reg_Parse = op_code at h hq hp
  rw [if_neg (by rw [hq]; decide)] at h
  generalize (if op_code = 123 then parse_brace e (a.cState.Reg_Parse + 1)
    else Except.ok (REG_ZERO, REG_INFINITY, a.cState.Reg_Parse)) = parsed at h hp
  subst hp
  simp only [] at h
  generalize (if op_code = 123 then
                if min0 = REG_ZERO ∧ max0 = REG_INFINITY then 42
                else
                  if min0 = REG_ONE ∧ max0 = REG_INFINITY then 43
                  else if min0 = REG_ZERO ∧ max0 = REG_ONE then 63 else 123
              else op_code) = op1 at h
  generalize (if op1 = 43 then REG_ONE else min0) = min1 at h
  generalize (if op1 = 63 then REG_ONE else max0) = max1 at h
  have hlz : (if charAt e (rp0 + 1) = 63 then rp0 + 1 + 1 else rp0 + 1)
      = (if decide (charAt e (rp0 + 1) = 63) = true then rp0 + 1 + 1 else rp0 + 1) := by
    simp only [decide_eq_true_eq]
  rw [hlz]
  generalize decide (charAt e (rp0 + 1) = 63) = lazy at h ⊢
  generalize (if lazy = true then rp0 + 1 + 1 else rp0 + 1) = rp2 at h ⊢
  split at h
  · cases h; rfl
  · split at h
    · cases h
    · split at h
      · cases h
      · split at h
        · cases h
        · rename_i cs1 he
          have hcs := piece_emit_Reg_Parse _ _ _ _ _ _ _ _ he
          simp only [] at hcs
          split at h
          · cases h
          · cases h
            exact hcs

theorem piece_rest_le (e : List Nat) (a l : Res) (h : piece_rest e a = .ok l) :
    a.cState.Reg_Parse ≤ l.cState.Reg_Parse := by
  by_cases hq : isQuantifier (charAt e a.cState.Reg_Parse) = true
  · cases hp : (if charAt e a.cState.Reg_Parse = 123 then
        parse_brace e (a.cState.Reg_Parse + 1)
      else .ok (REG_ZERO, REG_INFINITY, a.cState.Reg_Parse)) with
    | error er =>
      unfold piece_rest at h
      generalize charAt e a.cState.Reg_Parse = op_code at h hq hp
      rw [if_neg (by rw [hq]; decide)] at h
      generalize (if op_code = 123 then parse_brace e (a.cState.Reg_Parse + 1)
        else Except.ok (REG_ZERO, REG_INFINITY, a.cState.Reg_Parse)) = parsed at h hp
      subst hp
      cases h
    | ok r =>
      obtain ⟨min0, max0, rp0⟩ := r
      obtain ⟨h1, h2⟩ := piece_rest_pos e a l min0 max0 rp0 h hq hp
      rw [h1]
      split <;> omega
  · unfold piece_rest at h
    rw [if_pos (by simpa using hq)] at h
    cases h
    exact Nat.le_refl _

theorem chunk_open_Reg_Parse (paren : Nat) (s : CompileState) (a : Ptr) (b c : Nat) (d : Bool)
    (f : Ptr) (cs : CompileState) (h : chunk_open paren s = .ok (a, b, c, d, f, cs)) :
    cs.Reg_Parse = s.Reg_Parse := by
  unfold chunk_open at h
  repeat' (split at h)
  all_goals
    first
    | (cases h; done)
    | (cases h; rfl)
    | (cases h; exact Reg_Parse_emit_node _ _)
    | (cases h; exact Reg_Parse_emit_special _ _ _ _)

theorem Reg_Parse_close_node (paren this_paren : Nat) (s : CompileState) :
    (close_node paren this_paren s).2.Reg_Parse = s.Reg_Parse := by
  unfold close_node
  repeat' split
  all_goals exact Reg_Parse_emit_node _ _

theorem Reg_Parse_close_bounds (elbb : Ptr) (range : len_range) (s : CompileState) :
    (close_bounds elbb range s).Reg_Parse = s.Reg_Parse := by
  unfold close_bounds
  split <;> rfl

theorem Reg_Parse_close_record (e : List Nat) (paren this_paren flag : Nat)
    (s : CompileState) : (close_record e paren this_paren flag s).Reg_Parse = s.Reg_Parse := by
  unfold close_record
  simp only []
  repeat' split
  all_goals rfl

theorem chunk_close_Reg_Parse (e : List Nat) (paren this_paren : Nat) (look_only : Bool)
    (elbb : Ptr) (os onl : Bool) (rv : Ptr) (flag : Nat) (range : len_range)
    (s : CompileState) (r : Res)
    (h : chunk_close e paren this_paren look_only elbb os onl rv flag range s = .ok r) :
    r.cState.Reg_Parse = (if paren ≠ NO_PAREN then s.Reg_Parse + 1 else s.Reg_Parse)
      ∧ (paren ≠ NO_PAREN → charAt e s.Reg_Parse = 41) := by
  rw [chunk_close_eq] at h
  have hcs : (chunk_hook (close_node paren this_paren s).1
      ((tail rv (close_node paren this_paren s).1
        (close_node paren this_paren s).2).program_.length + 1) rv
      (tail rv (close_node paren this_paren s).1 (close_node paren this_paren s).2)).Reg_Parse
      = s.Reg_Parse := by
    rw [Reg_Parse_chunk_hook, Reg_Parse_tail, Reg_Parse_close_node]
  generalize (chunk_hook (close_node paren this_paren s).1
      ((tail rv (close_node paren this_paren s).1
        (close_node paren this_paren s).2).program_.length + 1) rv
      (tail rv (close_node paren this_paren s).1 (close_node paren this_paren s).2)) = cs
    at h hcs
  unfold chunk_close_rest at h
  rw [hcs] at h
  split at h
  · cases h
  · rename_i h1
    split at h
    · split at h <;> cases h
    · split at h
      · cases h
      · split at h
        · cases h
        · cases h
          simp only [Reg_Parse_close_record, Reg_Parse_close_bounds]
          unfold close_advance
          constructor
          · split
            · simp only [hcs]
            · exact hcs
          · intro hp
            by_contra hc
            exact h1 ⟨hp, hc⟩

theorem atom_default_lt (e : List Nat) (fl : Nat) (s : CompileState) (a : Res)
    (h : atom_default e fl s = .ok a) : s.Reg_Parse < a.cState.Reg_Parse := by
  unfold atom_default at h
  simp only [] at h
  have hr : (if s.Is_Case_Insensitive = true then emit_node SIMILAR s
      else emit_node EXACTLY s).2.Reg_Parse = s.Reg_Parse := by
    split <;> exact Reg_Parse_emit_node _ _
  split at h
  · cases h
  · rename_i len cs1 hl
    obtain ⟨h1, h2, h3⟩ := atom_literal_le e _ _ _ _ _ hl
    split at h
    · cases h
    · cases h
      simp only [Reg_Parse_emit_byte]
      rw [hr] at h3
      exact h3 (by omega)

theorem atom_bracket_lt (e : List Nat) (fl : Nat) (s : CompileState) (a : Res)
    (h : atom_bracket e fl s = .ok a) : s.Reg_Parse < a.cState.Reg_Parse := by
  unfold atom_bracket at h
  simp only [] at h
  split at h
  · cases h
  · rename_i cs2 hc
    have hle := atom_class_le e _ _ _ _ hc
    split at h
    · cases h
    · cases h
      simp only []
      have : s.Reg_Parse ≤ cs2.Reg_Parse := by
        refine Nat.le_trans ?_ hle
        repeat' split
        all_goals
          simp only [Reg_Parse_emit_byte, Reg_Parse_emit_node]
          try omega
      omega

/-- The grammar functions never move the parse index back, and `piece` and `atom` move it
on. -/
theorem grammar_le (e : List Nat) (F : Nat) :
    (∀ (paren : Nat) (s : CompileState) (r : Res), chunk e F paren s = .ok r →
        s.Reg_Parse ≤ r.cState.Reg_Parse
          ∧ (paren ≠ NO_PAREN → s.Reg_Parse < r.cState.Reg_Parse))
    ∧ (∀ (first : Bool) (rv : Ptr) (flag : Nat) (range : len_range) (s : CompileState)
        (r : Res), chunk_loop e F first rv flag range s = .ok r →
        s.Reg_Parse ≤ r.cState.Reg_Parse)
    ∧ (∀ (s : CompileState) (r : Res), alternative e F s = .ok r →
        s.Reg_Parse ≤ r.cState.Reg_Parse)
    ∧ (∀ (chain : Ptr) (flag : Nat) (range : len_range) (s : CompileState) (r : Res),
        alternative_loop e F chain flag range s = .ok r → s.Reg_Parse ≤ r.cState.Reg_Parse)
    ∧ (∀ (s : CompileState) (r : Res), piece e F s = .ok r →
        s.Reg_Parse < r.cState.Reg_Parse)
    ∧ (∀ (s : CompileState) (r : Res), atom e F s = .ok r →
        s.Reg_Parse < r.cState.Reg_Parse
          ∧ ∀ (rp : Nat) (b : Bool),
              skip_comments e (e.length + 1) s.Reg_Parse = .ok (rp, b) →
              rp ≤ r.cState.Reg_Parse ∧ (b = false → rp < r.cState.Reg_Parse)) := by
  induction F with
  | zero =>
    refine ⟨?_, ?_, ?_, ?_, ?_, ?_⟩ <;> intros <;> rename_i h <;> cases h
  | succ F ih =>
    obtain ⟨ihc, ihl, iha, ihal, ihp, ihat⟩ := ih
    refine ⟨?_, ?_, ?_, ?_, ?_, ?_⟩
    · intro paren s r h
      rw [chunk] at h
      split at h
      · cases h
      · rename_i rv tp fl lo elbb cs ho
        have h1 := chunk_open_Reg_Parse _ _ _ _ _ _ _ _ ho
        split at h
        · cases h
        · rename_i r0 hl
          have h2 := ihl _ _ _ _ _ _ hl
          obtain ⟨h3, _⟩ := chunk_close_Reg_Parse _ _ _ _ _ _ _ _ _ _ _ _ h
          rw [h3]
          constructor
          · split <;> omega
          · intro hp
            rw [if_pos hp]
            omega
    · intro first rv flag range s r h
      rw [chunk_loop] at h
      split at h
      · cases h
      · rename_i b hb
        have h1 := iha _ _ hb
        split at h
        · cases h
        · simp only [Reg_Parse_tail] at h
          split at h
          · cases h
            simp only [Reg_Parse_tail]
            exact h1
          · have h2 := ihl _ _ _ _ _ _ h
            simp only [Reg_Parse_tail] at h2
            omega
    · intro s r h
      rw [alternative] at h
      split at h
      · cases h
      · rename_i r0 hl
        have h1 := ihal _ _ _ _ _ hl
        rw [Reg_Parse_emit_node] at h1
        split at h
        · cases h
          simp only [Reg_Parse_emit_node]
          exact h1
        · cases h
          exact h1
    · intro chain flag range s r h
      rw [alternative_loop] at h
      simp only [] at h
      split at h
      · cases h
        exact Nat.le_refl _
      · split at h
        · cases h
        · rename_i l hp
          have h1 := ihp _ _ hp
          split at h
          · cases h
          · have h2 := ihal _ _ _ _ _ h
            have h3 : (if chain ≠ Ptr.null then tail chain l.ret_val l.cState
                else l.cState).Reg_Parse = l.cState.Reg_Parse := by
              split
              · exact Reg_Parse_tail _ _ _
              · rfl
            rw [h3] at h2
            omega
    · intro s r h
      rw [piece] at h
      split at h
      · cases h
      · rename_i a ha
        have h1 := (ihat _ _ ha).1
        split at h
        · cases h
        · have h2 := piece_rest_le _ _ _ h
          omega
    · intro s r h
      rw [atom] at h
      split at h
      · cases h
      · rename_i rp hs
        have h1 := skip_comments_le _ _ _ _ _ hs
        cases h
        simp only [Reg_Parse_emit_node]
        have := h1.2 rfl
        refine ⟨by omega, fun rp1 b1 hs1 => ?_⟩
        rw [hs] at hs1
        cases hs1
        exact ⟨Nat.le_refl _, fun hb => by cases hb⟩
      · rename_i rp hs
        have h1 := (skip_comments_le _ _ _ _ _ hs).1
        suffices K : rp < r.cState.Reg_Parse by
          refine ⟨by omega, fun rp1 b1 hs1 => ?_⟩
          rw [hs] at hs1
          cases hs1
          exact ⟨by omega, fun _ => K⟩
        simp only [] at h
        by_cases c1 : charAt e rp = 94
        · rw [if_pos c1] at h; cases h; simp only [Reg_Parse_emit_node]; omega
        rw [if_neg c1] at h
        by_cases c2 : charAt e rp = 36
        · rw [if_pos c2] at h; cases h; simp only [Reg_Parse_emit_node]; omega
        rw [if_neg c2] at h
        by_cases c3 : charAt e rp = 60
        · rw [if_pos c3] at h; cases h; simp only [Reg_Parse_emit_node]; omega
        rw [if_neg c3] at h
        by_cases c4 : charAt e rp = 62
        · rw [if_pos c4] at h; cases h; simp only [Reg_Parse_emit_node]; omega
        rw [if_neg c4] at h
        by_cases c5 : charAt e rp = 46
        · rw [if_pos c5] at h
          cases h
          simp only []
          split <;> (simp only [Reg_Parse_emit_node]; omega)
        rw [if_neg c5] at h
        by_cases c6 : charAt e rp = 40
        · rw [if_pos c6] at h
          split at h
          · cases h
          · rename_i kind skip hk
            split at h
            · cases h
            · rename_i r0 hc
              have h2 := (ihc _ _ _ hc).1
              simp only [] at h2
              split at h
              · cases h
              · cases h
                simp only []
                omega
        rw [if_neg c6] at h
        by_cases c7 : charAt e rp = 0 ∨ charAt e rp = 124 ∨ charAt e rp = 41
        · rw [if_pos c7] at h; cases h
        rw [if_neg c7] at h
        by_cases c8 : charAt e rp = 63 ∨ charAt e rp = 43 ∨ charAt e rp = 42
        · rw [if_pos c8] at h; cases h
        rw [if_neg c8] at h
        by_cases c9 : charAt e rp = 123
        · rw [if_pos c9] at h; cases h
        rw [if_neg c9] at h
        by_cases c10 : charAt e rp = 91
        · rw [if_pos c10] at h
          have h2 := atom_bracket_lt _ _ _ _ h
          simp only [] at h2
          omega
        rw [if_neg c10] at h
        by_cases c11 : charAt e rp = 92
        · rw [if_pos c11] at h
          split at h
          · cases h
          · split at h
            · cases h; simp only []; omega
            · split at h
              · cases h
              · split at h
                · cases h; simp only []; omega
                · have h2 := atom_default_lt _ _ _ _ h
                  simp only [] at h2
                  omega
        rw [if_neg c11] at h
        have h2 := atom_default_lt _ _ _ _ h
        simp only [] at h2
        omega

theorem ite2_transfer {α : Type} (A B : Prop) [Decidable A] [Decidable B]
    (e1 e2 : CompileError) (u v : Except CompileError α) (r : α)
    (h : (if A then .error e1 else if B then .error e2 else u) = .ok r)
    (k : u = .ok r → v = .ok r) :
    (if A then .error e1 else if B then .error e2 else v) = .ok r := by
  by_cases a : A
  · rw [if_pos a] at h; cases h
  · rw [if_neg a] at h ⊢
    by_cases b : B
    · rw [if_pos b] at h; cases h
    · rw [if_neg b] at h ⊢
      exact k h

/-- The loop over the members of a class that ends before the brace does the same on the
text cut at the brace. -/
theorem Cut.class_run {x e : List Nat} (hc : Cut x e) :
    ∀ (F1 F2 le : Nat) (s r : CompileState), atom_class e F1 le s = .ok r →
      r.Reg_Parse < x.length → x.length + 1 - s.Reg_Parse ≤ F2 →
      atom_class x F2 le s = .ok r := by
  intro F1
  induction F1 with
  | zero => intro F2 le s r h _ _; cases h
  | succ F1 ih =>
    intro F2 le s r h hlt hF
    have hle := atom_class_le e _ _ _ _ h
    have hs : s.Reg_Parse < x.length := by omega
    cases F2 with
    | zero => omega
    | succ F2 =>
      unfold atom_class at h ⊢
      simp only [] at h ⊢
      rw [hc.read_before hs] at h
      by_cases c1 : charAt x s.Reg_Parse = 0 ∨ charAt x s.Reg_Parse = 93
      · rw [if_pos c1] at h ⊢
        exact h
      rw [if_neg c1] at h ⊢
      by_cases c2 : charAt x s.Reg_Parse = 45
      · rw [if_pos c2] at h ⊢
        by_cases hn : s.Reg_Parse + 1 < x.length
        · rw [hc.read_before hn] at h
          by_cases c3 : charAt x (s.Reg_Parse + 1) = 93 ∨ charAt x (s.Reg_Parse + 1) = 0
          · rw [if_pos c3] at h ⊢
            exact ih F2 _ _ _ h hlt (by simp only [Reg_Parse_emit_byte]; omega)
          rw [if_neg c3] at h ⊢
          rw [hc.numeric (s.Reg_Parse + 1 + 1) (by omega)] at h
          by_cases c4 : charAt x (s.Reg_Parse + 1) = 92
          · rw [if_pos c4] at h ⊢
            by_cases hn2 : s.Reg_Parse + 1 + 1 < x.length
            · rw [hc.read_before hn2] at h
              split at h
              · cases h
              · rename_i lv rp1 hlast
                have hq := class_range_last_le x s (s.Reg_Parse + 1) lv rp1
                  (by rw [if_pos c4]; exact hlast)
                exact ite2_transfer _ _ _ _ _ _ _ h
                  (fun h1 => ih F2 _ _ _ h1 hlt (by simp only []; omega))
            · have hk : s.Reg_Parse + 1 + 1 = x.length := by omega
              rw [hk] at h
              rw [hc.read_brace, charAt_beyond x _ (Nat.le_refl _)] at h
              exfalso
              have hnum : numeric_escape x 0 x.length = .ok (0, x.length) := rfl
              rw [hnum] at h
              simp only [ne_eq, not_true_eq_false, if_false] at h
              rw [if_pos (by decide)] at h
              simp only [] at h
              repeat' (split at h)
              all_goals
                first
                | (have h9 := atom_class_le e _ _ _ _ h
                   simp only [] at h9
                   omega)
                | cases h
          · rw [if_neg c4] at h ⊢
            exact ite2_transfer _ _ _ _ _ _ _ h
              (fun h1 => ih F2 _ _ _ h1 hlt (by simp only []; omega))
        · have hk : s.Reg_Parse + 1 = x.length := by omega
          rw [hk, hc.read_brace] at h
          exfalso
          rw [if_neg (by decide), if_neg (by decide)] at h
          simp only [] at h
          repeat' (split at h)
          all_goals
            first
            | (have h9 := atom_class_le e _ _ _ _ h
               simp only [] at h9
               omega)
            | cases h
      rw [if_neg c2] at h ⊢
      by_cases c7 : charAt x s.Reg_Parse = 92
      · rw [if_pos c7] at h ⊢
        rw [hc.numeric (s.Reg_Parse + 1) (by omega)] at h
        split at h
        · cases h
        · rename_i test rp1 hnum
          have hq := numeric_escape_le _ _ _ _ _ hnum
          by_cases c8 : test ≠ 0
          · rw [if_pos c8] at h ⊢
            exact ih F2 _ _ _ h hlt (by simp only []; omega)
          rw [if_neg c8] at h ⊢
          by_cases hn : s.Reg_Parse + 1 < x.length
          · rw [hc.read_before hn] at h
            by_cases c9 : literal_escape (charAt x (s.Reg_Parse + 1)) ≠ 0
            · rw [if_pos c9] at h ⊢
              exact ih F2 _ _ _ h hlt (by simp only []; omega)
            rw [if_neg c9] at h ⊢
            split at h
            · cases h
            · rename_i r1 hsc
              by_cases c10 : r1.1 ≠ Ptr.null
              · rw [if_pos c10] at h ⊢
                by_cases c11 : charAt e (s.Reg_Parse + 1 + 1) = 45
                · rw [if_pos c11] at h
                  cases h
                · rw [if_neg c11] at h
                  rw [if_neg (fun hh => c11 (hc.test_up _ _ (by decide) hh))]
                  split at h
                  · cases h
                  · rename_i r2 hsc2
                    exact ih F2 _ _ _ h hlt (by simp only []; omega)
              · rw [if_neg c10] at h
                cases h
          · have hk : s.Reg_Parse + 1 = x.length := by omega
            rw [hk, hc.read_brace] at h
            exfalso
            rw [if_pos (by decide)] at h
            have h9 := atom_class_le e _ _ _ _ h
            simp only [] at h9
            omega
      rw [if_neg c7] at h ⊢
      exact ih F2 _ _ _ h hlt (by simp only []; omega)

theorem numeric_loop_stop (s digit_str : List Nat) (radix delta : Nat)
    (h0 : ∀ idx, strchr digit_str 0 = some idx → digit_val.length ≤ idx + delta) :
    ∀ (i value scan : Nat), scan ≤ s.length →
      (numeric_escape_loop s digit_str radix delta i value scan).2 ≤ s.length := by
  intro i
  induction i with
  | zero => intro value scan h; exact h
  | succ i ih =>
    intro value scan h
    unfold numeric_escape_loop
    by_cases hlt : scan < s.length
    · cases hstr : strchr digit_str (charAt s scan) with
      | none => exact h
      | some idx =>
        simp only []
        split
        · exact h
        · split
          · exact h
          · exact ih _ _ (by omega)
    · rw [charAt_beyond s scan (by omega)]
      cases hstr : strchr digit_str 0 with
      | none => exact h
      | some idx =>
        simp only []
        rw [if_pos (h0 idx hstr)]
        exact h

theorem numeric_escape_stop (s : List Nat) (c p v q : Nat) (hp : p < s.length)
    (h : numeric_escape s c p = .ok (v, q)) : q < s.length := by
  unfold numeric_escape at h
  have h8 := numeric_loop_stop s (numeric_digits.drop 14) 8 14 (by decide) 3 0 (p + 1)
    (by omega)
  have h16 := numeric_loop_stop s numeric_digits 16 0 (by decide) 2 0 (p + 1) (by omega)
  have g8 := numeric_escape_loop_ge s (numeric_digits.drop 14) 8 14 3 0 (p + 1)
  have g16 := numeric_escape_loop_ge s numeric_digits 16 0 2 0 (p + 1)
  by_cases c48 : c = 48
  · rw [if_pos c48] at h
    simp only [] at h
    split at h
    · cases h
    · cases h
      omega
  rw [if_neg c48] at h
  by_cases cx : c = 120 ∨ c = 88
  · rw [if_pos cx] at h
    simp only [] at h
    split at h
    · cases h
    · cases h
      omega
  rw [if_neg cx] at h
  cases h
  exact hp

/-- One turn of the literal loop before the brace does the same on the text cut at the
brace, unless it takes the brace as an escaped character. -/
theorem Cut.literal_step {x e : List Nat} (hc : Cut x e) (s : CompileState)
    (o : Option CompileState) (h : atom_literal_step e s = .ok o)
    (hs : s.Reg_Parse < x.length)
    (ho : ∀ cs1, o = some cs1 → cs1.Reg_Parse ≤ x.length) :
    atom_literal_step x s = .ok o := by
  unfold atom_literal_step at h ⊢
  simp only [] at h ⊢
  rw [hc.read_before hs] at h
  by_cases c : charAt x s.Reg_Parse = 92
  · rw [if_pos c] at h ⊢
    rw [hc.numeric (s.Reg_Parse + 1) (by omega)] at h
    split at h
    · cases h
    · rename_i test rp1 hnum
      by_cases c8 : test ≠ 0
      · rw [if_pos c8] at h ⊢
        exact h
      rw [if_neg c8] at h ⊢
      by_cases hn : s.Reg_Parse + 1 < x.length
      · rw [hc.read_before hn] at h
        exact h
      · have hk : s.Reg_Parse + 1 = x.length := by omega
        rw [hk, hc.read_brace] at h
        rw [if_pos (by decide)] at h
        cases h
        have := ho _ rfl
        simp only [] at this
        omega
  · rw [if_neg c] at h ⊢
    exact h

theorem Cut.literal_step_bound {x e : List Nat} (hc : Cut x e) (s cs1 : CompileState)
    (h : atom_literal_step e s = .ok (some cs1)) (hs : s.Reg_Parse < x.length) :
    cs1.Reg_Parse ≤ x.length + 1 := by
  unfold atom_literal_step at h
  simp only [] at h
  by_cases c : charAt e s.Reg_Parse = 92
  · rw [if_pos c] at h
    rw [hc.numeric (s.Reg_Parse + 1) (by omega)] at h
    split at h
    · cases h
    · rename_i test rp1 hnum
      by_cases c8 : test ≠ 0
      · rw [if_pos c8] at h
        cases h
        simp only []
        by_cases hn : s.Reg_Parse + 1 < x.length
        · have := numeric_escape_stop x _ _ _ _ hn hnum
          omega
        · have hk : s.Reg_Parse + 1 = x.length := by omega
          rw [hk, charAt_beyond x _ (Nat.le_refl _)] at hnum
          cases hnum
          exact absurd rfl c8
      rw [if_neg c8] at h
      by_cases c9 : literal_escape (charAt e (s.Reg_Parse + 1)) ≠ 0
      · rw [if_pos c9] at h
        cases h
        simp only []
        omega
      rw [if_neg c9] at h
      exfalso
      split at h
      · cases h
      · split at h
        · cases h
        · split at h
          · cases h
          · split at h <;> cases h
  · rw [if_neg c] at h
    cases h
    simp only []
    omega

/-- The index to which one turn of the literal loop comes does not depend on the compile
state. -/
theorem literal_step_pos (e : List Nat) (s t cs1 : CompileState)
    (h : atom_literal_step e s = .ok (some cs1)) (hp : t.Reg_Parse = s.Reg_Parse) :
    ∃ cs2, atom_literal_step e t = .ok (some cs2) ∧ cs2.Reg_Parse = cs1.Reg_Parse := by
  unfold atom_literal_step at h ⊢
  simp only [] at h ⊢
  rw [hp]
  by_cases c : charAt e s.Reg_Parse = 92
  · rw [if_pos c] at h ⊢
    split at h
    · cases h
    · rename_i test rp1 hnum
      by_cases c8 : test ≠ 0
      · rw [if_pos c8] at h ⊢
        cases h
        exact ⟨_, rfl, rfl⟩
      rw [if_neg c8] at h ⊢
      by_cases c9 : literal_escape (charAt e (s.Reg_Parse + 1)) ≠ 0
      · rw [if_pos c9] at h ⊢
        cases h
        exact ⟨_, rfl, rfl⟩
      rw [if_neg c9] at h
      exfalso
      split at h
      · cases h
      · split at h
        · cases h
        · split at h
          · cases h
          · split at h <;> cases h
  · rw [if_neg c] at h ⊢
    cases h
    exact ⟨_, rfl, rfl⟩

/-- The literal loop that ends at the brace or before it does the same on the text cut at
the brace, unless it has backed out of the character before the brace. -/
theorem Cut.literal_run {x e : List Nat} (hc : Cut x e) :
    ∀ (F1 F2 len : Nat) (s : CompileState) (len1 : Nat) (r : CompileState),
      atom_literal e F1 len s = .ok (len1, r) → r.Reg_Parse ≤ x.length →
      x.length + 1 - s.Reg_Parse ≤ F2 →
      atom_literal x F2 len s = .ok (len1, r)
        ∨ (r.Reg_Parse < x.length ∧ steps_to e r.Reg_Parse x.length) := by
  intro F1
  induction F1 with
  | zero => intro F2 len s len1 r h _ _; cases h
  | succ F1 ih =>
    intro F2 len s len1 r h hr hF
    have hle := (atom_literal_le e _ _ _ _ _ h).1
    cases F2 with
    | zero => omega
    | succ F2 =>
      unfold atom_literal at h ⊢
      simp only [] at h ⊢
      by_cases hs : s.Reg_Parse < x.length
      · by_cases cm : charAt e s.Reg_Parse = 0
            ∨ (strchr Default_Meta_Char (charAt e s.Reg_Parse)).isSome = true
        · rw [if_pos cm] at h
          rw [hc.read_before hs] at cm
          rw [if_pos cm]
          exact Or.inl h
        rw [if_neg cm] at h
        have cmx := cm
        rw [hc.read_before hs] at cmx
        rw [if_neg cmx]
        cases hstep : atom_literal_step e s with
        | error er => rw [hstep] at h; cases h
        | ok o =>
          rw [hstep] at h
          cases o with
          | none =>
            simp only [] at h
            rw [hc.literal_step s none hstep hs (by intro _ hh; cases hh)]
            exact Or.inl h
          | some cs1 =>
            simp only [] at h
            have hq := atom_literal_step_lt e s cs1 hstep
            have hb1 := hc.literal_step_bound s cs1 hstep hs
            by_cases hb : (isQuantifier (charAt e cs1.Reg_Parse) && decide (len > 0)) = true
            · rw [if_pos hb] at h
              have rpos : r.Reg_Parse = s.Reg_Parse := by
                split at h <;> (cases h; rfl)
              by_cases hqn : cs1.Reg_Parse < x.length
              · rw [hc.literal_step s (some cs1) hstep hs (by intro c hh; cases hh; omega)]
                simp only []
                rw [← hc.read_before hqn, if_pos hb]
                exact Or.inl h
              · by_cases hqe : cs1.Reg_Parse = x.length
                · refine Or.inr ⟨by omega, ?_⟩
                  rw [rpos]
                  exact ⟨cm, s, cs1, rfl, hstep, hqe⟩
                · have hq1 : cs1.Reg_Parse = x.length + 1 := by omega
                  rw [hq1, hc.read_digit] at hb
                  simp [isQuantifier, Brace_Char] at hb
            · rw [if_neg hb] at h
              obtain ⟨h1, _, _⟩ := atom_literal_le e _ _ _ _ _ h
              rw [hc.literal_step s (some cs1) hstep hs (by intro c hh; cases hh; omega)]
              simp only []
              have hbx : ¬ (isQuantifier (charAt x cs1.Reg_Parse) && decide (len > 0)) = true := by
                by_cases hqn : cs1.Reg_Parse < x.length
                · rw [← hc.read_before hqn]; exact hb
                · rw [charAt_beyond x _ (by omega)]
                  simp [isQuantifier, Brace_Char]
              rw [if_neg hbx]
              exact ih F2 (len + 1) cs1 len1 r h hr (by omega)
      · have hk : s.Reg_Parse = x.length := by omega
        rw [hk, hc.read_brace] at h
        rw [if_pos (Or.inr (by decide))] at h
        rw [hk, charAt_beyond x _ (Nat.le_refl _), if_pos (Or.inl rfl)]
        exact Or.inl h

theorem Cut.default_run {x e : List Nat} (hc : Cut x e) (fl : Nat) (s : CompileState)
    (a : Res) (h : atom_default e fl s = .ok a) (ha : a.cState.Reg_Parse ≤ x.length) :
    atom_default x fl s = .ok a
      ∨ (a.cState.Reg_Parse < x.length ∧ steps_to e a.cState.Reg_Parse x.length) := by
  unfold atom_default at h ⊢
  simp only [] at h ⊢
  have hr : (if s.Is_Case_Insensitive = true then emit_node SIMILAR s
      else emit_node EXACTLY s).2.Reg_Parse = s.Reg_Parse := by
    split <;> exact Reg_Parse_emit_node _ _
  split at h
  · cases h
  · rename_i len cs1 hl
    have hpos : a.cState.Reg_Parse = cs1.Reg_Parse := by
      split at h
      · cases h
      · cases h
        exact Reg_Parse_emit_byte _ _
    rcases hc.literal_run _ (x.length + 1) _ _ _ _ hl (by omega) (by omega) with h1 | h1
    · rw [h1]
      exact Or.inl h
    · right
      rw [hpos]
      exact h1

theorem Cut.bracket_run {x e : List Nat} (hc : Cut x e) (fl : Nat) (s : CompileState)
    (a : Res) (h : atom_bracket e fl s = .ok a) (ha : a.cState.Reg_Parse ≤ x.length) :
    atom_bracket x fl s = .ok a := by
  have hlt := atom_bracket_lt e fl s a h
  have hs : s.Reg_Parse < x.length := by omega
  unfold atom_bracket at h ⊢
  simp only [] at h ⊢
  rw [hc.read_before hs] at h
  generalize hrr : (if charAt x s.Reg_Parse = 94 then
      ((emit_node ANY_BUT s).1,
        if (!(emit_node ANY_BUT s).2.Match_Newline) = true then
          emit_byte 10 { (emit_node ANY_BUT s).2 with
            Reg_Parse := (emit_node ANY_BUT s).2.Reg_Parse + 1 }
        else { (emit_node ANY_BUT s).2 with
            Reg_Parse := (emit_node ANY_BUT s).2.Reg_Parse + 1 })
      else emit_node ANY_OF s) = r at h ⊢
  have hstart : (if charAt e r.2.Reg_Parse = 93 ∨ charAt e r.2.Reg_Parse = 45 then
        (charAt e r.2.Reg_Parse,
          { emit_byte (charAt e r.2.Reg_Parse) r.2 with Reg_Parse := r.2.Reg_Parse + 1 })
      else (0, r.2))
      = (if charAt x r.2.Reg_Parse = 93 ∨ charAt x r.2.Reg_Parse = 45 then
        (charAt x r.2.Reg_Parse,
          { emit_byte (charAt x r.2.Reg_Parse) r.2 with Reg_Parse := r.2.Reg_Parse + 1 })
      else (0, r.2)) := by
    have hrle : r.2.Reg_Parse ≤ x.length := by
      rw [← hrr]
      split
      · simp only []
        split
        · rw [Reg_Parse_emit_byte]; simp only [Reg_Parse_emit_node]; omega
        · simp only [Reg_Parse_emit_node]; omega
      · rw [Reg_Parse_emit_node]; omega
    by_cases hlt2 : r.2.Reg_Parse < x.length
    · rw [hc.read_before hlt2]
    · have hk : r.2.Reg_Parse = x.length := by omega
      rw [hk, hc.read_brace, charAt_beyond x _ (Nat.le_refl _)]
      rfl
  rw [hstart] at h
  generalize (if charAt x r.2.Reg_Parse = 93 ∨ charAt x r.2.Reg_Parse = 45 then
        (charAt x r.2.Reg_Parse,
          { emit_byte (charAt x r.2.Reg_Parse) r.2 with Reg_Parse := r.2.Reg_Parse + 1 })
      else (0, r.2)) = start at h ⊢
  split at h
  · cases h
  · rename_i cs2 hcl
    have hcs2 : cs2.Reg_Parse < x.length := by
      split at h
      · cases h
      · cases h
        simp only [] at ha
        omega
    have hle := atom_class_le e _ _ _ _ hcl
    rw [hc.class_run _ (x.length + 1) _ _ _ hcl hcs2 (by omega)]
    simp only []
    rw [hc.read_before hcs2] at h
    exact h

theorem Cut.paren_kind {x e : List Nat} (hc : Cut x e) (rp : Nat) (hrp : rp ≤ x.length) :
    atom_paren_kind e rp = atom_paren_kind x rp := by
  unfold atom_paren_kind
  simp only [hc.test_iff rp 63 hrp (by decide) (by decide)]
  by_cases c : charAt x rp = 63
  · have hlt : rp < x.length := by
      by_contra hcon
      rw [charAt_beyond x rp (by omega)] at c
      cases c
    rw [if_pos c, if_pos c]
    simp only [hc.test_iff (rp + 1) 58 (by omega) (by decide) (by decide),
      hc.test_iff (rp + 1) 61 (by omega) (by decide) (by decide),
      hc.test_iff (rp + 1) 33 (by omega) (by decide) (by decide),
      hc.test_iff (rp + 1) 105 (by omega) (by decide) (by decide),
      hc.test_iff (rp + 1) 73 (by omega) (by decide) (by decide),
      hc.test_iff (rp + 1) 110 (by omega) (by decide) (by decide),
      hc.test_iff (rp + 1) 78 (by omega) (by decide) (by decide),
      hc.test_iff (rp + 1) 60 (by omega) (by decide) (by decide)]
    by_cases c2 : charAt x (rp + 1) = 60
    · have hlt2 : rp + 1 < x.length := by
        by_contra hcon
        rw [charAt_beyond x (rp + 1) (by omega)] at c2
        cases c2
      simp only [hc.test_iff (rp + 2) 61 (by omega) (by decide) (by decide),
        hc.test_iff (rp + 2) 33 (by omega) (by decide) (by decide)]
    · simp only [c2, if_false]
  · rw [if_neg c, if_neg c]

/-- What `piece` does after `atom` when it ends before the brace, it does on the text cut at
the brace. -/
theorem Cut.rest {x e : List Nat} (hc : Cut x e) (a l : Res) (h : piece_rest e a = .ok l)
    (hl : l.cState.Reg_Parse < x.length) : piece_rest x a = .ok l := by
  have hle := piece_rest_le e a l h
  have ha : a.cState.Reg_Parse < x.length := by omega
  by_cases hq : isQuantifier (charAt e a.cState.Reg_Parse) = true
  · cases hp : (if charAt e a.cState.Reg_Parse = 123 then
        parse_brace e (a.cState.Reg_Parse + 1)
      else .ok (REG_ZERO, REG_INFINITY, a.cState.Reg_Parse)) with
    | error er =>
      unfold piece_rest at h
      generalize charAt e a.cState.Reg_Parse = op_code at h hq hp
      rw [if_neg (by rw [hq]; decide)] at h
      generalize (if op_code = 123 then parse_brace e (a.cState.Reg_Parse + 1)
        else Except.ok (REG_ZERO, REG_INFINITY, a.cState.Reg_Parse)) = parsed at h hp
      subst hp
      cases h
    | ok rr =>
      obtain ⟨min0, max0, rp0⟩ := rr
      obtain ⟨h1, h2⟩ := piece_rest_pos e a l min0 max0 rp0 h hq hp
      have hrp0 : rp0 + 1 < x.length := by
        have : rp0 + 1 ≤ l.cState.Reg_Parse := by
          rw [h1]; split <;> omega
        omega
      have hl1 : charAt e (rp0 + 1) = charAt x (rp0 + 1) := hc.read_before hrp0
      rw [hl1] at h1
      rw [hc.read_before ha, hc.parse _ (show a.cState.Reg_Parse + 1 ≤ x.length by omega)] at hp
      rw [hc.read_before ha] at hq
      unfold piece_rest at h ⊢
      rw [hc.read_before ha, hc.parse _ (show a.cState.Reg_Parse + 1 ≤ x.length by omega)] at h
      generalize charAt x a.cState.Reg_Parse = op_code at h hq hp ⊢
      rw [if_neg (by rw [hq]; decide)] at h ⊢
      generalize (if op_code = 123 then parse_brace x (a.cState.Reg_Parse + 1)
        else Except.ok (REG_ZERO, REG_INFINITY, a.cState.Reg_Parse)) = parsed at h hp ⊢
      subst hp
      simp only [] at h ⊢
      rw [hl1] at h
      generalize (if op_code = 123 then
                    if min0 = REG_ZERO ∧ max0 = REG_INFINITY then 42
                    else
                      if min0 = REG_ONE ∧ max0 = REG_INFINITY then 43
                      else if min0 = REG_ZERO ∧ max0 = REG_ONE then 63 else 123
                  else op_code) = op1 at h ⊢
      generalize (if op1 = 43 then REG_ONE else min0) = min1 at h ⊢
      generalize (if op1 = 63 then REG_ONE else max0) = max1 at h ⊢
      have hlz : (if charAt x (rp0 + 1) = 63 then rp0 + 1 + 1 else rp0 + 1)
          = (if decide (charAt x (rp0 + 1) = 63) = true then rp0 + 1 + 1 else rp0 + 1) := by
        simp only [decide_eq_true_eq]
      rw [hlz] at h1
      generalize decide (charAt x (rp0 + 1) = 63) = lazy at h h1 ⊢
      generalize (if lazy = true then rp0 + 1 + 1 else rp0 + 1) = rp2 at h h1 ⊢
      by_cases c1 : op_code = 123 ∧ op1 = 123 ∧ min0 = REG_ONE ∧ max0 = REG_ONE
      · rw [if_pos c1] at h ⊢
        exact h
      rw [if_neg c1] at h ⊢
      by_cases c2 : op_code = 123 ∧ op1 = 123 ∧ a.cState.Num_Braces > 255
      · rw [if_pos c2] at h
        cases h
      rw [if_neg c2] at h ⊢
      by_cases c3 : a.flag &&& HAS_WIDTH = 0
      · rw [if_pos c3] at h
        cases h
      rw [if_neg c3] at h ⊢
      split at h
      · cases h
      · rename_i cs1 he
        have hcs := piece_emit_Reg_Parse _ _ _ _ _ _ _ _ he
        simp only [] at hcs
        rw [hc.read_before (show cs1.Reg_Parse < x.length by omega)] at h
        exact h
  · unfold piece_rest at h ⊢
    rw [if_pos (by simpa using hq)] at h
    rw [hc.read_before ha] at hq
    rw [if_pos (by simpa using hq)]
    exact h

theorem Cut.record {x e : List Nat} (hc : Cut x e) (paren this_paren flag : Nat)
    (s : CompileState) (hs : s.Reg_Parse ≤ x.length) :
    close_record e paren this_paren flag s = close_record x paren this_paren flag s := by
  unfold close_record
  rw [hc.zero_width _ hs]

/-- The tail of `chunk` for a parenthesized construct that ends at the brace or before it
does the same on the text cut at the brace. -/
theorem Cut.close {x e : List Nat} (hc : Cut x e) (paren this_paren : Nat) (look_only : Bool)
    (elbb : Ptr) (os onl : Bool) (rv : Ptr) (flag : Nat) (range : len_range)
    (s : CompileState) (r : Res)
    (h : chunk_close e paren this_paren look_only elbb os onl rv flag range s = .ok r)
    (hp : paren ≠ NO_PAREN) (hr : r.cState.Reg_Parse ≤ x.length) :
    chunk_close x paren this_paren look_only elbb os onl rv flag range s = .ok r := by
  obtain ⟨h1, _⟩ := chunk_close_Reg_Parse _ _ _ _ _ _ _ _ _ _ _ _ h
  rw [if_pos hp] at h1
  have hs : s.Reg_Parse < x.length := by omega
  rw [chunk_close_eq] at h ⊢
  have hcs : (chunk_hook (close_node paren this_paren s).1
      ((tail rv (close_node paren this_paren s).1
        (close_node paren this_paren s).2).program_.length + 1) rv
      (tail rv (close_node paren this_paren s).1 (close_node paren this_paren s).2)).Reg_Parse
      = s.Reg_Parse := by
    rw [Reg_Parse_chunk_hook, Reg_Parse_tail, Reg_Parse_close_node]
  generalize (chunk_hook (close_node paren this_paren s).1
      ((tail rv (close_node paren this_paren s).1
        (close_node paren this_paren s).2).program_.length + 1) rv
      (tail rv (close_node paren this_paren s).1 (close_node paren this_paren s).2)) = cs
    at h hcs ⊢
  unfold chunk_close_rest at h ⊢
  rw [hcs] at h ⊢
  rw [hc.read_before hs] at h
  rw [hc.record _ _ _ _ (by
    rw [Reg_Parse_close_bounds]
    unfold close_advance
    rw [if_pos hp]
    simp only []
    omega)] at h
  exact h

theorem not_meta_cases (c : Nat)
    (h : ¬ (c = 0 ∨ (strchr Default_Meta_Char c).isSome = true)) :
    c ≠ 0 ∧ c ≠ 123 ∧ c ≠ 46 ∧ c ≠ 42 ∧ c ≠ 43 ∧ c ≠ 63 ∧ c ≠ 91 ∧ c ≠ 40 ∧ c ≠ 124
      ∧ c ≠ 41 ∧ c ≠ 94 ∧ c ≠ 60 ∧ c ≠ 62 ∧ c ≠ 36 := by
  refine ⟨?_, ?_, ?_, ?_, ?_, ?_, ?_, ?_, ?_, ?_, ?_, ?_, ?_, ?_⟩ <;>
    (intro hc; subst hc; exact h (by decide))

theorem numeric_escape_start (e : List Nat) (c k test q : Nat)
    (h : numeric_escape e c k = .ok (test, q)) (ht : test ≠ 0) :
    c = 48 ∨ c = 120 ∨ c = 88 := by
  unfold numeric_escape at h
  by_cases c48 : c = 48
  · exact Or.inl c48
  rw [if_neg c48] at h
  by_cases cx : c = 120 ∨ c = 88
  · exact Or.inr cx
  rw [if_neg cx] at h
  cases h
  exact absurd rfl ht

theorem literal_escape_cases (c : Nat) (h : literal_escape c ≠ 0) :
    (strchr shortcut_codes c).isNone = true ∧ isdigit c = false := by
  unfold literal_escape at h
  repeat' (split at h)
  all_goals
    first
    | exact absurd rfl h
    | (rename_i hc
       first
       | (subst hc; exact ⟨by decide, by decide⟩)
       | (rcases hc with hc | hc | hc | hc | hc | hc | hc | hc | hc | hc | hc | hc | hc | hc
            | hc | hc | hc | hc <;> (subst hc; exact ⟨by decide, by decide⟩)))

/-- A character that the literal loop takes as the start of a numeric or literal escape is
no shortcut escape and no back reference. -/
theorem escape_is_literal (c fl : Nat) (s : CompileState)
    (h : c = 48 ∨ c = 120 ∨ c = 88 ∨ literal_escape c ≠ 0) :
    shortcut_escape c fl EMIT_NODE s = .ok (Ptr.null, fl, s)
      ∧ back_ref c fl EMIT_NODE s = .ok (Ptr.null, fl, s) := by
  have key : (strchr shortcut_codes c).isNone = true ∧ (isdigit c = false ∨ c = 48) := by
    rcases h with h | h | h | h
    · subst h; exact ⟨by decide, Or.inr rfl⟩
    · subst h; exact ⟨by decide, Or.inl (by decide)⟩
    · subst h; exact ⟨by decide, Or.inl (by decide)⟩
    · exact ⟨(literal_escape_cases c h).1, Or.inl (literal_escape_cases c h).2⟩
  constructor
  · have hv : (if EMIT_NODE = EMIT_CLASS_BYTES ∨ EMIT_NODE = CHECK_CLASS_ESCAPE then
        shortcut_codes.drop 3 else shortcut_codes) = shortcut_codes := by decide
    unfold shortcut_escape
    simp only [hv]
    rw [if_pos key.1]
  · unfold back_ref
    simp only []
    rw [if_pos]
    rcases key.2 with h1 | h1
    · left; rw [h1]; rfl
    · right; rw [h1]

theorem skip_comments_end (e : List Nat) :
    ∀ (F rp rp1 : Nat), skip_comments e F rp = .ok (rp1, true) →
      charAt e rp1 = 41 ∨ charAt e rp1 = 124 ∨ charAt e rp1 = 0 := by
  intro F
  induction F with
  | zero => intro rp rp1 h; cases h
  | succ F ih =>
    intro rp rp1 h
    unfold skip_comments at h
    simp only [] at h
    by_cases hc : charAt e rp = 40 ∧ charAt e (rp + 1) = 63 ∧ charAt e (rp + 2) = 35
    · rw [if_pos hc] at h
      generalize (List.takeWhile (fun c => decide (c ≠ 41) && decide (c ≠ 0))
        (List.drop (rp + 3) e)) = body at h
      generalize (if charAt e (rp + 3 + body.length) = 41 then rp + 3 + body.length + 1
        else rp + 3 + body.length) = rp2 at h
      by_cases hend : charAt e rp2 = 41 ∨ charAt e rp2 = 124 ∨ charAt e rp2 = 0
      · rw [if_pos hend] at h
        cases h
        exact hend
      · rw [if_neg hend] at h
        exact ih _ _ h
    · rw [if_neg hc] at h
      cases h

theorem paren_kind_ne (e : List Nat) (rp kind skip : Nat)
    (h : atom_paren_kind e rp = .ok (kind, skip)) : kind ≠ NO_PAREN := by
  unfold atom_paren_kind at h
  by_cases c : charAt e rp = 63
  · rw [if_pos c] at h
    simp only [] at h
    generalize charAt e (rp + 1) = c1 at h
    generalize charAt e (rp + 2) = c2 at h
    intro hk
    subst hk
    by_cases d1 : c1 = 58
    · rw [if_pos d1] at h; cases h
    rw [if_neg d1] at h
    by_cases d2 : c1 = 61
    · rw [if_pos d2] at h; cases h
    rw [if_neg d2] at h
    by_cases d3 : c1 = 33
    · rw [if_pos d3] at h; cases h
    rw [if_neg d3] at h
    by_cases d4 : c1 = 105
    · rw [if_pos d4] at h; cases h
    rw [if_neg d4] at h
    by_cases d5 : c1 = 73
    · rw [if_pos d5] at h; cases h
    rw [if_neg d5] at h
    by_cases d6 : c1 = 110
    · rw [if_pos d6] at h; cases h
    rw [if_neg d6] at h
    by_cases d7 : c1 = 78
    · rw [if_pos d7] at h; cases h
    rw [if_neg d7] at h
    by_cases d8 : c1 = 60
    · rw [if_pos d8] at h
      by_cases d9 : c2 = 61
      · rw [if_pos d9] at h; cases h
      rw [if_neg d9] at h
      by_cases d10 : c2 = 33
      · rw [if_pos d10] at h; cases h
      rw [if_neg d10] at h
      cases h
    rw [if_neg d8] at h
    cases h
  · rw [if_neg c] at h
    intro hk
    subst hk
    cases h

theorem not_meta_not_quantifier (c : Nat)
    (h : ¬ (c = 0 ∨ (strchr Default_Meta_Char c).isSome = true)) :
    isQuantifier c = false := by
  obtain ⟨_, h123, _, h42, h43, h63, _⟩ := not_meta_cases c h
  simp [isQuantifier, Brace_Char, h123, h42, h43, h63]

/-- The `default` case of `atom` at an index from which the literal loop comes to `q` ends
at `q` or after it. -/
theorem steps_to_default (e : List Nat) (p q : Nat) (hst : steps_to e p q) (fl : Nat)
    (s : CompileState) (a : Res) (hs : s.Reg_Parse = p) (h : atom_default e fl s = .ok a) :
    q ≤ a.cState.Reg_Parse := by
  obtain ⟨cm, s0, cs1, hs0, hstep, hq⟩ := hst
  unfold atom_default at h
  simp only [] at h
  generalize hr : (if s.Is_Case_Insensitive = true then emit_node SIMILAR s
      else emit_node EXACTLY s) = r at h
  have hrp : r.2.Reg_Parse = p := by
    rw [← hr, ← hs]
    split <;> exact Reg_Parse_emit_node _ _
  split at h
  · cases h
  · rename_i len cs2 hl
    rw [atom_literal] at hl
    rw [hrp, if_neg cm] at hl
    obtain ⟨cs3, hstep3, hq3⟩ := literal_step_pos e s0 r.2 cs1 hstep (by rw [hrp, hs0])
    rw [hstep3] at hl
    simp only [] at hl
    rw [if_neg (by simp)] at hl
    have h9 := (atom_literal_le e _ _ _ _ _ hl).1
    split at h
    · cases h
    · cases h
      simp only [Reg_Parse_emit_byte]
      omega

theorem steps_to_atom (e : List Nat) (p q : Nat) (hst : steps_to e p q) (F : Nat)
    (s : CompileState) (a : Res) (hs : s.Reg_Parse = p) (h : atom e F s = .ok a) :
    q ≤ a.cState.Reg_Parse := by
  have hst0 := hst
  obtain ⟨cm, s0, cs1, hs0, hstep, hq⟩ := hst
  obtain ⟨c0, c123, c46, c42, c43, c63, c91, c40, c124, c41, c94, c60, c62, c36⟩ :=
    not_meta_cases _ cm
  cases F with
  | zero => cases h
  | succ F =>
    rw [atom] at h
    rw [hs, skip_comments_plain e p c40] at h
    simp only [] at h
    rw [if_neg c94, if_neg c36, if_neg c60, if_neg c62, if_neg c46, if_neg c40,
      if_neg (by rintro (hh | hh | hh) <;> contradiction),
      if_neg (by rintro (hh | hh | hh) <;> contradiction), if_neg c123, if_neg c91] at h
    by_cases c92 : charAt e p = 92
    · rw [if_pos c92] at h
      have hesc : charAt e (p + 1) = 48 ∨ charAt e (p + 1) = 120 ∨ charAt e (p + 1) = 88
          ∨ literal_escape (charAt e (p + 1)) ≠ 0 := by
        unfold atom_literal_step at hstep
        simp only [] at hstep
        rw [hs0, if_pos c92] at hstep
        split at hstep
        · cases hstep
        · rename_i test rp1 hnum
          by_cases c8 : test ≠ 0
          · rcases numeric_escape_start _ _ _ _ _ hnum c8 with h1 | h1 | h1
            · exact Or.inl h1
            · exact Or.inr (Or.inl h1)
            · exact Or.inr (Or.inr (Or.inl h1))
          · by_cases c9 : literal_escape (charAt e (p + 1)) ≠ 0
            · exact Or.inr (Or.inr (Or.inr c9))
            · exfalso
              rw [if_neg c8, if_neg c9] at hstep
              split at hstep
              · cases hstep
              · split at hstep
                · cases hstep
                · split at hstep
                  · cases hstep
                  · split at hstep <;> cases hstep
      obtain ⟨e1, e2⟩ := escape_is_literal (charAt e (p + 1)) WORST
        { s with Reg_Parse := p + 1 } hesc
      rw [e1] at h
      simp only [ne_eq, not_true_eq_false, if_false] at h
      rw [e2] at h
      simp only [ne_eq, not_true_eq_false, if_false] at h
      exact steps_to_default e p q hst0 WORST _ a rfl h
    · rw [if_neg c92] at h
      exact steps_to_default e p q hst0 WORST _ a rfl h

/-- The loop of `alternative` at an index from which the literal loop comes to `q` ends at
`q` or after it. -/
theorem steps_to_loop (e : List Nat) (p q : Nat) (hst : steps_to e p q) (F : Nat)
    (chain : Ptr) (fl : Nat) (rg : len_range) (s : CompileState) (r : Res)
    (hs : s.Reg_Parse = p) (h : alternative_loop e F chain fl rg s = .ok r) :
    q ≤ r.cState.Reg_Parse := by
  obtain ⟨c0, c123, c46, c42, c43, c63, c91, c40, c124, c41, c94, c60, c62, c36⟩ :=
    not_meta_cases _ hst.1
  cases F with
  | zero => cases h
  | succ F =>
    rw [alternative_loop] at h
    simp only [] at h
    rw [hs, if_neg (by rintro (hh | hh | hh) <;> contradiction)] at h
    split at h
    · cases h
    · rename_i l hp
      split at h
      · cases h
      · have h2 := (grammar_le e F).2.2.2.1 _ _ _ _ _ h
        have h3 : (if chain ≠ Ptr.null then tail chain l.ret_val l.cState
            else l.cState).Reg_Parse = l.cState.Reg_Parse := by
          split
          · exact Reg_Parse_tail _ _ _
          · rfl
        rw [h3] at h2
        cases F with
        | zero => cases hp
        | succ F =>
          rw [piece] at hp
          split at hp
          · cases hp
          · rename_i a ha
            have h4 := steps_to_atom e p q hst F _ a hs ha
            split at hp
            · cases hp
            · have h5 := piece_rest_le _ _ _ hp
              omega

theorem step_escaped_brace (e : List Nat) (s : CompileState)
    (h1 : charAt e s.Reg_Parse = 92) (h2 : charAt e (s.Reg_Parse + 1) = 123) :
    ∃ cs1, atom_literal_step e s = .ok (some cs1) ∧ cs1.Reg_Parse = s.Reg_Parse + 1 + 1 := by
  unfold atom_literal_step
  simp only []
  rw [if_pos h1, h2]
  exact ⟨_, rfl, rfl⟩

/-- The grammar functions that end at the brace or before it do the same on the text cut at
the brace, with the fuel that the cut text gives; `piece` and `atom` may instead have backed
out of the character before the brace. -/
theorem Cut.grammar {x e : List Nat} (hc : Cut x e) (F1 : Nat) :
    (∀ (F2 paren : Nat) (s : CompileState) (r : Res), chunk e F1 paren s = .ok r →
        paren ≠ NO_PAREN → r.cState.Reg_Parse ≤ x.length →
        6 * (x.length - s.Reg_Parse) + 6 ≤ F2 → chunk x F2 paren s = .ok r)
    ∧ (∀ (F2 : Nat) (first : Bool) (rv : Ptr) (flag : Nat) (range : len_range)
        (s : CompileState) (r : Res), chunk_loop e F1 first rv flag range s = .ok r →
        r.cState.Reg_Parse < x.length → 6 * (x.length - s.Reg_Parse) + 5 ≤ F2 →
        chunk_loop x F2 first rv flag range s = .ok r)
    ∧ (∀ (F2 : Nat) (s : CompileState) (r : Res), alternative e F1 s = .ok r →
        r.cState.Reg_Parse < x.length → 6 * (x.length - s.Reg_Parse) + 4 ≤ F2 →
        alternative x F2 s = .ok r)
    ∧ (∀ (F2 : Nat) (chain : Ptr) (flag : Nat) (range : len_range) (s : CompileState)
        (r : Res), alternative_loop e F1 chain flag range s = .ok r →
        r.cState.Reg_Parse < x.length → 6 * (x.length - s.Reg_Parse) + 3 ≤ F2 →
        alternative_loop x F2 chain flag range s = .ok r)
    ∧ (∀ (F2 : Nat) (s : CompileState) (r : Res), piece e F1 s = .ok r →
        r.cState.Reg_Parse < x.length → 6 * (x.length - s.Reg_Parse) + 2 ≤ F2 →
        piece x F2 s = .ok r ∨ steps_to e r.cState.Reg_Parse x.length)
    ∧ (∀ (F2 : Nat) (s : CompileState) (r : Res), atom e F1 s = .ok r →
        r.cState.Reg_Parse ≤ x.length → 6 * (x.length - s.Reg_Parse) + 1 ≤ F2 →
        atom x F2 s = .ok r
          ∨ (r.cState.Reg_Parse < x.length ∧ steps_to e r.cState.Reg_Parse x.length)) := by
  induction F1 with
  | zero =>
    refine ⟨?_, ?_, ?_, ?_, ?_, ?_⟩
    · intro _ _ _ _ h; cases h
    · intro _ _ _ _ _ _ _ h; cases h
    · intro _ _ _ h; cases h
    · intro _ _ _ _ _ _ h; cases h
    · intro _ _ _ h; cases h
    · intro _ _ _ h; cases h
  | succ F1 ih =>
    obtain ⟨ihc, ihl, iha, ihal, ihp, ihat⟩ := ih
    refine ⟨?_, ?_, ?_, ?_, ?_, ?_⟩
    · intro F2 paren s r h hp hr hF
      have hlt := ((grammar_le e (F1 + 1)).1 paren s r h).2 hp
      cases F2 with
      | zero => omega
      | succ F2 =>
        rw [chunk] at h ⊢
        split at h
        · cases h
        · rename_i rv tp fl lo elbb cs ho
          split at h
          · cases h
          · rename_i r0 hl
            obtain ⟨h3, _⟩ := chunk_close_Reg_Parse _ _ _ _ _ _ _ _ _ _ _ _ h
            rw [if_pos hp] at h3
            have h1 := chunk_open_Reg_Parse _ _ _ _ _ _ _ _ ho
            have hx := ihl F2 true rv fl _ cs r0 hl (by omega) (by rw [h1]; omega)
            rw [hx]
            exact hc.close _ _ _ _ _ _ _ _ _ _ _ h hp hr
    · intro F2 first rv flag range s r h hr hF
      cases F2 with
      | zero => omega
      | succ F2 =>
        rw [chunk_loop] at h ⊢
        split at h
        · cases h
        · rename_i b hb
          have hbr : b.cState.Reg_Parse ≤ r.cState.Reg_Parse := by
            split at h
            · cases h
            · simp only [Reg_Parse_tail] at h
              split at h
              · cases h
                simp only [Reg_Parse_tail]
                exact Nat.le_refl _
              · have h9 := (grammar_le e F1).2.1 _ _ _ _ _ _ h
                simp only [Reg_Parse_tail] at h9
                omega
          have hsb := (grammar_le e F1).2.2.1 s b hb
          have hx := iha F2 s b hb (by omega) (by omega)
          rw [hx]
          simp only []
          by_cases hn : b.ret_val = Ptr.null
          · rw [if_pos hn] at h
            cases h
          rw [if_neg hn] at h ⊢
          simp only [Reg_Parse_tail] at h ⊢
          rw [hc.read_before (show b.cState.Reg_Parse < x.length by omega)] at h
          by_cases c : charAt x b.cState.Reg_Parse ≠ 124
          · rw [if_pos c] at h ⊢
            exact h
          · rw [if_neg c] at h ⊢
            exact ihl F2 false _ _ _ _ r h hr (by simp only [Reg_Parse_tail]; omega)
    · intro F2 s r h hr hF
      cases F2 with
      | zero => omega
      | succ F2 =>
        rw [alternative] at h ⊢
        split at h
        · cases h
        · rename_i r0 hl
          have hr0 : r0.cState.Reg_Parse = r.cState.Reg_Parse := by
            split at h
            · cases h
              simp only [Reg_Parse_emit_node]
            · cases h
              rfl
          have hx := ihal F2 _ _ _ _ r0 hl (by omega)
            (by rw [Reg_Parse_emit_node]; omega)
          rw [hx]
          exact h
    · intro F2 chain flag range s r h hr hF
      have hsr := (grammar_le e (F1 + 1)).2.2.2.1 _ _ _ _ _ h
      cases F2 with
      | zero => omega
      | succ F2 =>
        rw [alternative_loop] at h ⊢
        simp only [] at h ⊢
        rw [hc.read_before (show s.Reg_Parse < x.length by omega)] at h
        by_cases cend : charAt x s.Reg_Parse = 124 ∨ charAt x s.Reg_Parse = 41
            ∨ charAt x s.Reg_Parse = 0
        · rw [if_pos cend] at h ⊢
          exact h
        rw [if_neg cend] at h ⊢
        split at h
        · cases h
        · rename_i l hp
          by_cases hn : l.ret_val = Ptr.null
          · rw [if_pos hn] at h
            cases h
          rw [if_neg hn] at h
          have h3 : (if chain ≠ Ptr.null then tail chain l.ret_val l.cState
              else l.cState).Reg_Parse = l.cState.Reg_Parse := by
            split
            · exact Reg_Parse_tail _ _ _
            · rfl
          have hlr := (grammar_le e F1).2.2.2.1 _ _ _ _ _ h
          rw [h3] at hlr
          have hsl := (grammar_le e F1).2.2.2.2.1 s l hp
          rcases ihp F2 s l hp (by omega) (by omega) with hx | hst
          · rw [hx]
            simp only []
            rw [if_neg hn]
            exact ihal F2 _ _ _ _ r h hr (by rw [h3]; omega)
          · exfalso
            have h9 := steps_to_loop e _ _ hst F1 _ _ _ _ r h3 h
            omega
    · intro F2 s r h hr hF
      cases F2 with
      | zero => omega
      | succ F2 =>
        rw [piece] at h ⊢
        split at h
        · cases h
        · rename_i a ha
          by_cases hn : a.ret_val = Ptr.null
          · rw [if_pos hn] at h
            cases h
          rw [if_neg hn] at h
          have har := piece_rest_le _ _ _ h
          rcases ihat F2 s a ha (by omega) (by omega) with hx | ⟨_, hst⟩
          · rw [hx]
            simp only []
            rw [if_neg hn]
            exact Or.inl (hc.rest a r h hr)
          · right
            have hq := not_meta_not_quantifier _ hst.1
            unfold piece_rest at h
            rw [if_pos (by rw [hq]; rfl)] at h
            cases h
            exact hst
    · intro F2 s r h hr hF
      have hmono := (grammar_le e (F1 + 1)).2.2.2.2.2 s r h
      cases F2 with
      | zero => omega
      | succ F2 =>
        rw [atom] at h ⊢
        cases hsk : skip_comments e (e.length + 1) s.Reg_Parse with
        | error er => rw [hsk] at h; cases h
        | ok sk =>
          obtain ⟨rp, b⟩ := sk
          obtain ⟨hk1, hk2⟩ := hmono.2 rp b hsk
          have hle := (skip_comments_le _ _ _ _ _ hsk).1
          rw [hsk] at h
          cases b with
          | true =>
            have hend := skip_comments_end e _ _ _ hsk
            have hrp : rp < x.length := by
              by_contra hcon
              have : rp = x.length := by omega
              rw [this, hc.read_brace] at hend
              rcases hend with h9 | h9 | h9 <;> cases h9
            rw [hc.skip _ (x.length + 1) _ _ _ hsk hrp (by omega)]
            exact Or.inl h
          | false =>
            have hrp : rp < x.length := by
              have := hk2 rfl
              omega
            rw [hc.skip _ (x.length + 1) _ _ _ hsk hrp (by omega)]
            simp only [] at h ⊢
            rw [hc.read_before hrp] at h
            by_cases c1 : charAt x rp = 94
            · rw [if_pos c1] at h ⊢; exact Or.inl h
            rw [if_neg c1] at h ⊢
            by_cases c2 : charAt x rp = 36
            · rw [if_pos c2] at h ⊢; exact Or.inl h
            rw [if_neg c2] at h ⊢
            by_cases c3 : charAt x rp = 60
            · rw [if_pos c3] at h ⊢; exact Or.inl h
            rw [if_neg c3] at h ⊢
            by_cases c4 : charAt x rp = 62
            · rw [if_pos c4] at h ⊢; exact Or.inl h
            rw [if_neg c4] at h ⊢
            by_cases c5 : charAt x rp = 46
            · rw [if_pos c5] at h ⊢; exact Or.inl h
            rw [if_neg c5] at h ⊢
            by_cases c6 : charAt x rp = 40
            · rw [if_pos c6] at h ⊢
              rw [hc.paren_kind (rp + 1) (by omega)] at h
              split at h
              · cases h
              · rename_i kind skip hk
                split at h
                · cases h
                · rename_i r0 hch
                  have hne := paren_kind_ne x _ _ _ hk
                  have hr0 : r0.cState.Reg_Parse = r.cState.Reg_Parse := by
                    split at h
                    · cases h
                    · cases h
                      rfl
                  have hx := ihc F2 kind _ r0 hch hne (by omega) (by simp only []; omega)
                  rw [hx]
                  exact Or.inl h
            rw [if_neg c6] at h ⊢
            by_cases c7 : charAt x rp = 0 ∨ charAt x rp = 124 ∨ charAt x rp = 41
            · rw [if_pos c7] at h; cases h
            rw [if_neg c7] at h ⊢
            by_cases c8 : charAt x rp = 63 ∨ charAt x rp = 43 ∨ charAt x rp = 42
            · rw [if_pos c8] at h; cases h
            rw [if_neg c8] at h ⊢
            by_cases c9 : charAt x rp = 123
            · rw [if_pos c9] at h; cases h
            rw [if_neg c9] at h ⊢
            by_cases c10 : charAt x rp = 91
            · rw [if_pos c10] at h ⊢
              exact Or.inl (hc.bracket_run _ _ _ h hr)
            rw [if_neg c10] at h ⊢
            by_cases c11 : charAt x rp = 92
            · rw [if_pos c11] at h ⊢
              by_cases hn1 : rp + 1 < x.length
              · rw [hc.read_before hn1] at h
                split at h
                · cases h
                · rename_i s1 hs1
                  by_cases d1 : s1.1 ≠ Ptr.null
                  · rw [if_pos d1] at h ⊢
                    exact Or.inl h
                  rw [if_neg d1] at h ⊢
                  split at h
                  · cases h
                  · rename_i b1 hb1
                    by_cases d2 : b1.1 ≠ Ptr.null
                    · rw [if_pos d2] at h ⊢
                      exact Or.inl h
                    rw [if_neg d2] at h ⊢
                    exact hc.default_run _ _ _ h hr
              · exfalso
                have hk : rp + 1 = x.length := by omega
                have hb : charAt e (rp + 1) = 123 := by rw [hk]; exact hc.read_brace
                rw [hb] at h
                obtain ⟨e1, e2⟩ := escape_is_literal 123 WORST
                  { s with Reg_Parse := rp + 1 } (Or.inr (Or.inr (Or.inr (by decide))))
                rw [e1] at h
                simp only [ne_eq, not_true_eq_false, if_false] at h
                rw [e2] at h
                simp only [ne_eq, not_true_eq_false, if_false] at h
                have c11e : charAt e rp = 92 := by rw [hc.read_before hrp]; exact c11
                obtain ⟨cs1, hst1, hst2⟩ := step_escaped_brace e { s with Reg_Parse := rp }
                  c11e hb
                have hst : steps_to e rp (rp + 1 + 1) :=
                  ⟨by rw [c11e]; decide, _, cs1, rfl, hst1, hst2⟩
                have h9 := steps_to_default e rp _ hst WORST _ r rfl h
                omega
            rw [if_neg c11] at h ⊢
            exact hc.default_run _ _ _ h hr

theorem toP1_head_state (P : CompileState) : toP1 (head_state P) = head_state (toP1 P) := by
  unfold head_state
  rw [toP1_emit_node, toP1_emit_byte, toP1_emit_byte, toP1_emit_byte]

/-- The function `atom` does not return on the terminator, on `|` or on `)`. -/
theorem atom_start (e : List Nat) (F : Nat) (s : CompileState) (a : Res)
    (h : atom e F s = .ok a) :
    ¬ (charAt e s.Reg_Parse = 124 ∨ charAt e s.Reg_Parse = 41 ∨ charAt e s.Reg_Parse = 0) := by
  intro hc
  cases F with
  | zero => cases h
  | succ F =>
    rw [atom] at h
    rw [skip_comments_plain e s.Reg_Parse (by rcases hc with h1 | h1 | h1 <;> rw [h1] <;> decide)]
      at h
    simp only [] at h
    rw [if_neg (by rcases hc with h1 | h1 | h1 <;> rw [h1] <;> decide),
      if_neg (by rcases hc with h1 | h1 | h1 <;> rw [h1] <;> decide),
      if_neg (by rcases hc with h1 | h1 | h1 <;> rw [h1] <;> decide),
      if_neg (by rcases hc with h1 | h1 | h1 <;> rw [h1] <;> decide),
      if_neg (by rcases hc with h1 | h1 | h1 <;> rw [h1] <;> decide),
      if_neg (by rcases hc with h1 | h1 | h1 <;> rw [h1] <;> decide),
      if_pos (by rcases hc with h1 | h1 | h1 <;> simp [h1])] at h
    cases h

/-- Two regexes that are one piece each, for which `piece` returns the same result up to the
parse index in the two passes of the constructor, give the same compiled regex, and the
grammar functions have fuel enough for them. -/
theorem CompileRE_pair (exp1 exp2 : List Nat) (d F1 F2 : Nat)
    (hf1 : compile_fuel exp1 = F1 + 1 + 1 + 1 + 1 + 1)
    (hf2 : compile_fuel exp2 = F2 + 1 + 1 + 1 + 1 + 1)
    (hs1 : ¬ (charAt exp1 0 = 124 ∨ charAt exp1 0 = 41 ∨ charAt exp1 0 = 0))
    (hs2 : ¬ (charAt exp2 0 = 124 ∨ charAt exp2 0 = 41 ∨ charAt exp2 0 = 0))
    (H : ∀ P : CompileState, toP1 P = pass_init d Ptr.Compute_Size 0 [] →
      ∃ l r, piece exp1 (F1 + 1) (head_state P) = .ok l
        ∧ piece exp2 (F2 + 1) (head_state P)
            = .ok { l with cState := { l.cState with Reg_Parse := r } }
        ∧ l.ret_val ≠ Ptr.null ∧ charAt exp1 l.cState.Reg_Parse = 0 ∧ charAt exp2 r = 0) :
    CompileRE exp1 d = CompileRE exp2 d ∧ CompileRE exp2 d ≠ .error .out_of_fuel := by
  have key : ∀ P : CompileState, toP1 P = pass_init d Ptr.Compute_Size 0 [] →
      P.Reg_Parse = 0 → P.Code_Emit_Ptr ≠ Ptr.null →
      ∃ R r, compile_pass exp1 (compile_fuel exp1) P = .ok R
        ∧ compile_pass exp2 (compile_fuel exp2) P
            = .ok { R with cState := { R.cState with Reg_Parse := r } } := by
    intro P hP hP0 hPn
    obtain ⟨l, r, h1, h2, hret, he1, he2⟩ := H P hP
    refine ⟨pass_of_piece P l, r, ?_, ?_⟩
    · rw [hf1]
      exact compile_pass_single exp1 F1 P l (by rw [hP0]; exact hs1) h1 hret he1 hPn
    · rw [hf2, ← pass_of_piece_Reg_Parse]
      exact compile_pass_single exp2 F2 P _ (by rw [hP0]; exact hs2) h2 hret he2 hPn
  obtain ⟨R1, r1, a1, b1⟩ := key (pass_init d Ptr.Compute_Size 0 []) rfl rfl
    (by simp [pass_init])
  by_cases hsize : R1.cState.Reg_Size ≥ MAX_COMPILED_SIZE
  · have e1 : CompileRE exp1 d = .error .regexp_too_big := by
      unfold CompileRE
      rw [a1]
      exact if_pos hsize
    have e2 : CompileRE exp2 d = .error .regexp_too_big := by
      unfold CompileRE
      rw [b1]
      exact if_pos hsize
    rw [e1, e2]
    exact ⟨rfl, fun h => by cases h⟩
  · obtain ⟨R2, r2, a2, b2⟩ := key (pass_init d (Ptr.prog 0) R1.cState.Reg_Size
      (List.replicate (R1.cState.Reg_Size + 1) 0)) rfl rfl (by simp [pass_init])
    have hs : R1.cState.Reg_Size < MAX_COMPILED_SIZE := by omega
    have E1 := CompileRE_of_passes exp1 d R1 R2 a1 hs a2
    have E2 := CompileRE_of_passes exp2 d { R1 with cState := { R1.cState with Reg_Parse := r1 } }
      { R2 with cState := { R2.cState with Reg_Parse := r2 } } b1 hs b2
    refine ⟨E1.trans E2.symm, ?_⟩
    rw [E2]
    split <;> exact fun h => by cases h

/-- What `atom` returns at the head of a regex in the first pass, it returns in the second
pass up to the program: the same parse index, and a node when the first pass returns one. -/
theorem atom_second_pass (e : List Nat) (F d : Nat) (P : CompileState) (a : Res)
    (hP : toP1 P = pass_init d Ptr.Compute_Size 0 [])
    (h : atom e F (first_piece_state d) = .ok a) (hret : a.ret_val ≠ Ptr.null) :
    ∃ b, atom e F (head_state P) = .ok b ∧ b.ret_val ≠ Ptr.null
      ∧ b.cState.Reg_Parse = a.cState.Reg_Parse := by
  have hm := (grammar_toP1 e F).2.2.2.2.2 (head_state P)
  rw [toP1_head_state, hP] at hm
  have hfs : head_state (pass_init d Ptr.Compute_Size 0 []) = first_piece_state d := rfl
  rw [hfs, h] at hm
  cases hb : atom e F (head_state P) with
  | error er => rw [hb] at hm; cases hm
  | ok b =>
    rw [hb] at hm
    simp only [Except.map] at hm
    have hm2 : resP1 b = a := by cases hm; rfl
    refine ⟨b, rfl, ?_, ?_⟩
    · intro hn
      apply hret
      rw [← hm2, resP1_ret_val, hn]
      rfl
    · rw [← hm2]
      rfl

/-- The text `x` followed by a brace quantifier whose first bound starts with the digit 1,
where `x` is one atom: `atom` returns at the head of `x` alone what it returns at the head of
the text with the quantifier, in the two passes of the constructor. -/
theorem atom_cut (x e : List Nat) (d : Nat) (hc : Cut x e) (h1 : one_atom x e d = true)
    (P : CompileState) (hP : toP1 P = pass_init d Ptr.Compute_Size 0 []) :
    ∃ b, atom e (compile_fuel e - 5) (head_state P) = .ok b
      ∧ atom x (compile_fuel x - 5) (head_state P) = .ok b
      ∧ b.ret_val ≠ Ptr.null ∧ b.cState.Reg_Parse = x.length := by
  unfold one_atom at h1
  cases ha : atom e (compile_fuel e - 5) (first_piece_state d) with
  | error er => rw [ha] at h1; cases h1
  | ok a =>
    rw [ha] at h1
    simp only [Bool.and_eq_true, decide_eq_true_eq] at h1
    obtain ⟨b, hb, hbn, hbp⟩ := atom_second_pass e _ d P a hP ha h1.1
    refine ⟨b, hb, ?_, hbn, hbp.trans h1.2⟩
    have hs0 : (head_state P).Reg_Parse = 0 := by
      rw [head_state_Reg_Parse]
      have : (toP1 P).Reg_Parse = 0 := by rw [hP]; rfl
      exact this
    rcases (hc.grammar (compile_fuel e - 5)).2.2.2.2.2 (compile_fuel x - 5) (head_state P) b hb
        (by rw [hbp, h1.2]) (by rw [hs0]; unfold compile_fuel; omega) with h2 | ⟨h2, _⟩
    · exact h2
    · rw [hbp, h1.2] at h2
      exact absurd h2 (Nat.lt_irrefl _)

theorem Cut.unit_pair (x : List Nat) : Cut x (brace_text x [1] [1] []) := ⟨[44, 49, 125], rfl⟩

theorem Cut.unit_one (x : List Nat) : Cut x (brace_text_one x [1] []) := ⟨[125], rfl⟩

/-- The compiled regex of `x{1,1}` and of `x{1}` is the one of `x` when `x` is one atom of
the regex, and the grammar functions have fuel enough for `x`. -/
theorem CompileRE_unit_atom (x : List Nat) (d : Nat) :
    (one_atom x (brace_text x [1] [1] []) d = true →
      CompileRE (brace_text x [1] [1] []) d = CompileRE x d
        ∧ CompileRE x d ≠ .error .out_of_fuel)
    ∧ (one_atom x (brace_text_one x [1] []) d = true →
      CompileRE (brace_text_one x [1] []) d = CompileRE x d
        ∧ CompileRE x d ≠ .error .out_of_fuel) := by
  have main : ∀ e : List Nat, Cut x e → one_atom x e d = true →
      (∀ (s : CompileState) (b : Res), atom e (compile_fuel e - 5) s = .ok b →
        b.ret_val ≠ Ptr.null → b.cState.Reg_Parse = x.length →
        piece e (compile_fuel e - 5 + 1) s
          = .ok { b with cState := { b.cState with Reg_Parse := e.length } }) →
      CompileRE e d = CompileRE x d ∧ CompileRE x d ≠ .error .out_of_fuel := by
    intro e hc h1 hpiece
    obtain ⟨b0, hb0, hx0, _, hp0⟩ := atom_cut x e d hc h1 (pass_init d Ptr.Compute_Size 0 []) rfl
    have hpos : 0 < x.length := by
      have := ((grammar_le e _).2.2.2.2.2 _ _ hb0).1
      rw [hp0] at this
      omega
    have hse : ¬ (charAt e 0 = 124 ∨ charAt e 0 = 41 ∨ charAt e 0 = 0) :=
      atom_start e _ _ _ hb0
    have hsx : ¬ (charAt x 0 = 124 ∨ charAt x 0 = 41 ∨ charAt x 0 = 0) := by
      rw [← hc.read_before hpos]
      exact hse
    refine CompileRE_pair e x d (compile_fuel e - 5) (compile_fuel x - 5)
      (by unfold compile_fuel; omega) (by unfold compile_fuel; omega) hse hsx ?_
    intro P hP
    obtain ⟨b, hb, hx, hbn, hbp⟩ := atom_cut x e d hc h1 P hP
    refine ⟨{ b with cState := { b.cState with Reg_Parse := e.length } }, x.length,
      hpiece _ b hb hbn hbp, ?_, hbn, charAt_length e, charAt_length x⟩
    have hbb : ({ ({ b with cState := { b.cState with Reg_Parse := e.length } } : Res) with
        cState := { ({ b with cState := { b.cState with Reg_Parse := e.length } } : Res).cState
          with Reg_Parse := x.length } } : Res) = b := by
      cases b with
      | mk rv fl rg cs =>
        cases cs
        simp only [] at hbp
        subst hbp
        rfl
    rw [hbb]
    exact piece_plain x _ _ b hx hbn (by rw [hbp, charAt_length]; rfl)
  constructor
  · intro h1
    refine main _ (Cut.unit_pair x) h1 ?_
    intro s b hb hbn hbp
    have := (piece_unit_brace x [] _ s b).1 hb hbn hbp
    rw [this, brace_text_length]
    rfl
  · intro h1
    refine main _ (Cut.unit_one x) h1 ?_
    intro s b hb hbn hbp
    have := (piece_unit_brace x [] _ s b).2 hb hbn hbp
    rw [this]
    have hl : (brace_text_one x [1] []).length = x.length + 3 := by
      simp [brace_text_one]
    rw [hl]
    rfl

/-- Every ordinary character is one atom of the regex made of it and a brace quantifier. -/
theorem one_atom_ordinary (c d : Nat) (hc : ordinary c = true) :
    one_atom [c] (brace_text [c] [1] [1] []) d = true
      ∧ one_atom [c] (brace_text_one [c] [1] []) d = true := by
  have hp : (first_piece_state d).Code_Emit_Ptr ≠ Ptr.null :=
    head_state_ptr (pass_init d Ptr.Compute_Size 0 []) (by simp [pass_init])
  obtain ⟨a, _, h2, h3, h4, h5⟩ := atom_unit_ordinary c hc (first_piece_state d) rfl hp
  unfold one_atom
  rw [h4, h5]
  simp only [Bool.and_eq_true, decide_eq_true_eq]
  exact ⟨⟨h2, h3⟩, ⟨h2, h3⟩⟩

set_option maxRecDepth 1000000 in
/-- The atom in front of a brace quantifier: a group, a class, an escape; of two ordinary
characters only the last, and a lone backslash takes the brace for itself. -/
theorem one_atom_examples :
    one_atom (bytes "(ab)") (bytes "(ab)\x7b1,1\x7d") 0 = true
      ∧ one_atom (bytes "[a-z]") (bytes "[a-z]\x7b1\x7d") 0 = true
      ∧ one_atom (bytes "\\x4") (bytes "\\x4\x7b1,1\x7d") 0 = true
      ∧ one_atom (bytes "\\d") (bytes "\\d\x7b1\x7d") 0 = true
      ∧ one_atom (bytes "ab") (bytes "ab\x7b1,1\x7d") 0 = false
      ∧ one_atom (bytes "\\") (bytes "\\\x7b1,1\x7d") 0 = false
      ∧ brace_text (bytes "(ab)") [1] [1] [] = bytes "(ab)\x7b1,1\x7d"
      ∧ brace_text_one (bytes "[a-z]") [1] [] = bytes "[a-z]\x7b1\x7d" := by
  refine ⟨by decide!, by decide!, by decide!, by decide!, by decide!, by decide!, by decide,
    by decide⟩

/-- C34: a text `x` is one atom of the regex `e`, which is `x{1,1}` or `x{1}`, when the
function `atom`, called at the head of `e` by the first pass of the constructor, returns a
node and leaves the parse index after the last character of `x`: `x` is what the quantifier
applies to.  Then the constructor returns for `e` what it returns for `x` alone: the same
program bytes, the same count of brace constructs, the same other members, or the same
error; and the grammar functions do not run out of fuel on `x`.  Every ordinary character
is one atom.  In any regex, `piece` on an atom followed by `{1,1}` or `{1}` returns what
`atom` has returned, the parse index after the quantifier (and after the `?` of a lazy
form): nothing is emitted.  Groups, classes and escapes are atoms; `(ab){1,1}` has no brace
construct where `(ab){2,2}` has one. -/
theorem C34_unit_brace (x e : List Nat) (d : Nat)
    (he : e = brace_text x [1] [1] [] ∨ e = brace_text_one x [1] [])
    (hx : one_atom x e d = true) :
    CompileRE e d = CompileRE x d
      ∧ (CompileRE e d).map (fun re => re.program_)
          = (CompileRE x d).map (fun re => re.program_)
      ∧ (CompileRE e d).map (fun re => re.Num_Braces)
          = (CompileRE x d).map (fun re => re.Num_Braces)
      ∧ CompileRE x d ≠ .error .out_of_fuel
      ∧ (∀ c, ordinary c = true →
          one_atom [c] (brace_text [c] [1] [1] []) d = true
            ∧ one_atom [c] (brace_text_one [c] [1] []) d = true)
      ∧ (∀ (pre post : List Nat) (fuel : Nat) (s : CompileState) (a : Res),
          (atom (brace_text pre [1] [1] post) fuel s = .ok a → a.ret_val ≠ Ptr.null →
            a.cState.Reg_Parse = pre.length →
            piece (brace_text pre [1] [1] post) (fuel + 1) s
              = .ok { a with cState := { a.cState with
                        Reg_Parse := if post.headD 0 = 63 then pre.length + 6
                                     else pre.length + 5 } })
          ∧ (atom (brace_text_one pre [1] post) fuel s = .ok a → a.ret_val ≠ Ptr.null →
            a.cState.Reg_Parse = pre.length →
            piece (brace_text_one pre [1] post) (fuel + 1) s
              = .ok { a with cState := { a.cState with
                        Reg_Parse := if post.headD 0 = 63 then pre.length + 4
                                     else pre.length + 3 } }))
      ∧ one_atom (bytes "(ab)") (bytes "(ab)\x7b1,1\x7d") 0 = true
      ∧ one_atom (bytes "[a-z]") (bytes "[a-z]\x7b1\x7d") 0 = true
      ∧ one_atom (bytes "\\x4") (bytes "\\x4\x7b1,1\x7d") 0 = true
      ∧ one_atom (bytes "\\d") (bytes "\\d\x7b1\x7d") 0 = true
      ∧ one_atom (bytes "ab") (bytes "ab\x7b1,1\x7d") 0 = false
      ∧ (CompileRE (bytes "(ab)\x7b1,1\x7d") 0).map (fun re => re.program_)
        = .ok [156, 1, 0, 34, 0, 18, 50, 0, 3, 34, 0, 9, 7, 0, 6, 97, 98, 0, 100, 0, 3, 1, 0, 0, 0]
      ∧ (CompileRE (bytes "(ab)\x7b1,1\x7d") 0).map (fun re => re.Num_Braces) = .ok 0
      ∧ (CompileRE (bytes "(ab)\x7b2,2\x7d") 0).map (fun re => re.Num_Braces) = .ok 1 := by
  have key : CompileRE e d = CompileRE x d ∧ CompileRE x d ≠ .error .out_of_fuel := by
    rcases he with he | he
    · subst he
      exact (CompileRE_unit_atom x d).1 hx
    · subst he
      exact (CompileRE_unit_atom x d).2 hx
  have ex := one_atom_examples
  have ub := unit_brace_examples
  refine ⟨key.1, by rw [key.1], by rw [key.1], key.2, fun c hc => one_atom_ordinary c d hc,
    fun pre post fuel s a => piece_unit_brace pre post fuel s a,
    ex.1, ex.2.1, ex.2.2.1, ex.2.2.2.1, ex.2.2.2.2.1, ?_, ?_, ?_⟩
  · exact ub.2.2.2.2.2.2.2.2.2.2.1
  · exact ub.2.2.2.2.2.2.2.2.2.2.2.1
  · exact ub.2.2.2.2.2.2.2.2.2.2.2.2

set_option maxRecDepth 1000000 in
/-- The regexes `(ab){1,1}` and `[a-z]{1}` are compiled as `(ab)` and `[a-z]` are. -/
theorem C34_unit_brace_witness :
    (bytes "(ab)\x7b1,1\x7d" = brace_text (bytes "(ab)") [1] [1] []
        ∨ bytes "(ab)\x7b1,1\x7d" = brace_text_one (bytes "(ab)") [1] [])
      ∧ one_atom (bytes "(ab)") (bytes "(ab)\x7b1,1\x7d") 0 = true
      ∧ CompileRE (bytes "(ab)\x7b1,1\x7d") 0 = CompileRE (bytes "(ab)") 0
      ∧ CompileRE (bytes "[a-z]\x7b1\x7d") 0 = CompileRE (bytes "[a-z]") 0 :=
  ⟨Or.inl (by decide), by decide!,
   (C34_unit_brace (bytes "(ab)") (bytes "(ab)\x7b1,1\x7d") 0 (Or.inl (by decide))
      (by decide!)).1,
   (C34_unit_brace (bytes "[a-z]") (bytes "[a-z]\x7b1\x7d") 0 (Or.inr (by decide))
      (by decide!)).1⟩

/-! ### The length range of a regex -/

set_option maxRecDepth 1000000 in
theorem range_examples :
    (first_pass (bytes "\\B") 0).map (fun r => (r.range.lower, r.range.upper)) = .ok (1, 1)
      ∧ outcome (compile_and_execute (bytes "\\B") 50 (bytes "ab"))
          = .ok (some (true, [some 0, some 0, some 0, some 0]))
      ∧ (first_pass (bytes "\\Ba") 0).map (fun r => (r.range.lower, r.range.upper)) = .ok (2, 2)
      ∧ outcome (compile_and_execute (bytes "\\Ba") 50 (bytes "xa"))
          = .ok (some (true, [some 1, some 2, some 0, some 0]))
      ∧ (CompileRE (bytes "(?<=\\Ba)b") 0).map (fun re => re.program_)
          = .ok [156, 0, 0, 34, 0, 29, 46, 0, 7, 0, 2, 0, 2, 34, 0, 11, 6, 0, 3, 7, 0, 5, 97, 0,
              48, 0, 3, 7, 0, 5, 98, 0, 1, 0, 0, 0]
      ∧ matched (compile_and_execute (bytes "(?<=\\Ba)b") 50 (bytes "xab")) = .ok (some false)
      ∧ outcome (compile_and_execute (bytes "(?<=a)b") 50 (bytes "xab"))
          = .ok (some (true, [some 2, some 3, some 0, some 0]))
      ∧ (first_pass (bytes "<a") 0).map (fun r => (r.range.lower, r.range.upper)) = .ok (1, 1)
      ∧ (first_pass (bytes "[ab]c\\d") 0).map (fun r => (r.range.lower, r.range.upper))
          = .ok (3, 3)
      ∧ (first_pass (bytes "a|bc|def") 0).map (fun r => (r.range.lower, r.range.upper))
          = .ok (1, 3)
      ∧ (first_pass (bytes "(?:ab|c)d") 0).map (fun r => (r.range.lower, r.range.upper))
          = .ok (2, 3)
      ∧ (first_pass (bytes "a\x7b2,3\x7d") 0).map (fun r => (r.range.lower, r.range.upper))
          = .ok (2, 3)
      ∧ (first_pass (bytes "a*b") 0).map (fun r => (r.range.lower, r.range.upper))
          = .ok (-1, -1)
      ∧ (first_pass (bytes "ab|c*") 0).map (fun r => (r.range.lower, r.range.upper))
          = .ok (-1, -1) := by
  refine ⟨by decide!, by decide!, by decide!, by decide!, by decide!, by decide!, by decide!,
    by decide!, by decide!, by decide!, by decide!, by decide!, by decide!, by decide!⟩

/-- The function `atom` on the escape `\B`: the node NOT_BOUNDARY gets the range (1, 1) of
the other shortcut escapes, and no HAS_WIDTH flag. -/
theorem atom_not_boundary (exp pre post : List Nat) (fuel : Nat) (s : CompileState)
    (hexp : exp = pre ++ 92 :: 66 :: post) (hrp : s.Reg_Parse = pre.length)
    (hptr : s.Code_Emit_Ptr ≠ Ptr.null) :
    atom exp (fuel + 1) s
      = .ok { ret_val := s.Code_Emit_Ptr, flag := WORST, range := { lower := 1, upper := 1 },
              cState := { (emit_node NOT_BOUNDARY { s with Reg_Parse := pre.length + 1 }).2
                          with Reg_Parse := pre.length + 2 } } := by
  have h0 : charAt exp s.Reg_Parse = 92 := by rw [hexp, hrp, charAt_at]
  have h1 : charAt exp (s.Reg_Parse + 1) = 66 := by
    rw [hexp, hrp]
    have := charAt_after pre 92 (66 :: post) 0
    rw [Nat.add_zero] at this
    rw [this, charAt_cons_zero]
  have hsc : shortcut_escape 66 WORST EMIT_NODE { s with Reg_Parse := s.Reg_Parse + 1 }
      = .ok ((emit_node NOT_BOUNDARY { s with Reg_Parse := s.Reg_Parse + 1 }).1, WORST,
          (emit_node NOT_BOUNDARY { s with Reg_Parse := s.Reg_Parse + 1 }).2) := by
    have hv : (strchr shortcut_codes 66).isNone = false := by decide
    simp [shortcut_escape, EMIT_NODE, EMIT_CLASS_BYTES, CHECK_CLASS_ESCAPE, CHECK_ESCAPE, hv]
  rw [atom, skip_comments_plain exp _ (by rw [h0]; decide)]
  simp only [h0, h1]
  rw [if_neg (by decide), if_neg (by decide), if_neg (by decide), if_neg (by decide),
    if_neg (by decide), if_neg (by decide), if_neg (by decide), if_neg (by decide),
    if_neg (by decide), if_neg (by decide), if_pos trivial, hsc]
  simp only []
  rw [emit_node_fst, if_pos hptr, hrp]

theorem not_boundary_stays (program text : List Nat) (delimiters : List Bool) (scan : Ptr)
    (state : ExecState) (hop : getOpcode program scan = NOT_BOUNDARY) (p : Nat)
    (h : match_simple program text delimiters scan state = some p) : p = state.input := by
  unfold match_simple at h
  simp only [hop, NOT_BOUNDARY, BOL, EOL, BOWORD, EOWORD,
    show ¬ ((6 : Nat) = 2) by decide, show ¬ ((6 : Nat) = 3) by decide,
    show ¬ ((6 : Nat) = 4) by decide, show ¬ ((6 : Nat) = 5) by decide, if_false, if_true] at h
  have hb : ∀ b : Bool, (if b = true then some state.input else none) = some p →
      p = state.input := by
    intro b hb
    cases b
    · cases hb
    · exact (Option.some.inj hb).symm
  exact hb _ h

set_option maxRecDepth 100000 in
theorem not_boundary_in_program :
    (CompileRE (bytes "\\Ba") 0).map (fun re => re.program_)
        = .ok [156, 0, 0, 34, 0, 11, 6, 0, 3, 7, 0, 5, 97, 0, 1, 0, 0, 0]
      ∧ match_simple [156, 0, 0, 34, 0, 11, 6, 0, 3, 7, 0, 5, 97, 0, 1, 0, 0, 0] (bytes "xa")
          DefaultDelimiters (Ptr.prog 6) { execute_state with input := 1 } = some 1 := by
  refine ⟨by decide!, by decide!⟩

/-- C35: the escape `\B` is given the range (1, 1) by `atom`, as every shortcut escape is,
although the node NOT_BOUNDARY never moves the cursor and `shortcut_escape` leaves the flag
HAS_WIDTH unset for it.  So `\B` has the range (1, 1) and matches the empty string, `\Ba` has
the range (2, 2) and matches the one character `a` of `xa`, and the look-behind `(?<=\Ba)b`
is compiled with the bounds 2 and 2 and does not match `xab`, where `(?<=a)b` matches.  The
ranges of the anchor-free examples are sums over the pieces of a sequence, minimum and
maximum over the branches of an alternation, and (-1, -1) when a piece has no bound. -/
theorem C35_range_of_not_boundary (exp pre post : List Nat) (fuel : Nat) (s : CompileState)
    (program text : List Nat) (delimiters : List Bool) (scan : Ptr) (state : ExecState)
    (hexp : exp = pre ++ 92 :: 66 :: post) (hrp : s.Reg_Parse = pre.length)
    (hptr : s.Code_Emit_Ptr ≠ Ptr.null) (hop : getOpcode program scan = NOT_BOUNDARY) :
    (atom exp (fuel + 1) s).map (fun a => (a.range, a.flag &&& HAS_WIDTH, a.cState.Reg_Parse))
        = .ok ({ lower := 1, upper := 1 }, 0, pre.length + 2)
      ∧ (∀ p, match_simple program text delimiters scan state = some p → p = state.input)
      ∧ (first_pass (bytes "\\B") 0).map (fun r => (r.range.lower, r.range.upper)) = .ok (1, 1)
      ∧ outcome (compile_and_execute (bytes "\\B") 50 (bytes "ab"))
          = .ok (some (true, [some 0, some 0, some 0, some 0]))
      ∧ (first_pass (bytes "\\Ba") 0).map (fun r => (r.range.lower, r.range.upper)) = .ok (2, 2)
      ∧ outcome (compile_and_execute (bytes "\\Ba") 50 (bytes "xa"))
          = .ok (some (true, [some 1, some 2, some 0, some 0]))
      ∧ (CompileRE (bytes "(?<=\\Ba)b") 0).map (fun re => re.program_)
          = .ok [156, 0, 0, 34, 0, 29, 46, 0, 7, 0, 2, 0, 2, 34, 0, 11, 6, 0, 3, 7, 0, 5, 97, 0,
              48, 0, 3, 7, 0, 5, 98, 0, 1, 0, 0, 0]
      ∧ matched (compile_and_execute (bytes "(?<=\\Ba)b") 50 (bytes "xab")) = .ok (some false)
      ∧ outcome (compile_and_execute (bytes "(?<=a)b") 50 (bytes "xab"))
          = .ok (some (true, [some 2, some 3, some 0, some 0]))
      ∧ (first_pass (bytes "<a") 0).map (fun r => (r.range.lower, r.range.upper)) = .ok (1, 1)
      ∧ (first_pass (bytes "[ab]c\\d") 0).map (fun r => (r.range.lower, r.range.upper))
          = .ok (3, 3)
      ∧ (first_pass (bytes "a|bc|def") 0).map (fun r => (r.range.lower, r.range.upper))
          = .ok (1, 3)
      ∧ (first_pass (bytes "(?:ab|c)d") 0).map (fun r => (r.range.lower, r.range.upper))
          = .ok (2, 3)
      ∧ (first_pass (bytes "a\x7b2,3\x7d") 0).map (fun r => (r.range.lower, r.range.upper))
          = .ok (2, 3)
      ∧ (first_pass (bytes "a*b") 0).map (fun r => (r.range.lower, r.range.upper))
          = .ok (-1, -1)
      ∧ (first_pass (bytes "ab|c*") 0).map (fun r => (r.range.lower, r.range.upper))
          = .ok (-1, -1) := by
  refine ⟨?_, fun p h => not_boundary_stays program text delimiters scan state hop p h,
    range_examples⟩
  rw [atom_not_boundary exp pre post fuel s hexp hrp hptr]
  have hw : WORST &&& HAS_WIDTH = 0 := by decide
  simp only [Except.map, hw]

theorem C35_range_of_not_boundary_witness :
    (atom (bytes "\\Ba") 1 (first_piece_state 0)).map
        (fun a => (a.range, a.flag &&& HAS_WIDTH, a.cState.Reg_Parse))
        = .ok ({ lower := 1, upper := 1 }, 0, 2)
      ∧ (∀ p, match_simple [156, 0, 0, 34, 0, 11, 6, 0, 3, 7, 0, 5, 97, 0, 1, 0, 0, 0]
          (bytes "xa") DefaultDelimiters (Ptr.prog 6) { execute_state with input := 1 } = some p →
          p = 1) :=
  ⟨(C35_range_of_not_boundary (bytes "\\Ba") [] [97] 0 (first_piece_state 0)
      [156, 0, 0, 34, 0, 11, 6, 0, 3, 7, 0, 5, 97, 0, 1, 0, 0, 0] (bytes "xa")
      DefaultDelimiters (Ptr.prog 6) { execute_state with input := 1 }
      (by decide) (by decide) (by decide) (by decide)).1,
   (C35_range_of_not_boundary (bytes "\\Ba") [] [97] 0 (first_piece_state 0)
      [156, 0, 0, 34, 0, 11, 6, 0, 3, 7, 0, 5, 97, 0, 1, 0, 0, 0] (bytes "xa")
      DefaultDelimiters (Ptr.prog 6) { execute_state with input := 1 }
      (by decide) (by decide) (by decide) (by decide)).2.1⟩

/-! ### The index of the alternative that matched -/

/-- The `do ... while` of the case `BRANCH` of `match` is the ordered choice among the
branches of the chain. -/
theorem match_branch_tries (program text : List Nat) (delimiters : List Bool) (param : Bool) :
    ∀ (n fuel : Nat) (scan : Ptr) (index : Nat) (state : ExecState),
      (branch_chain program n scan).length < n → n ≤ fuel →
      match_branch program text delimiters fuel scan index param state
        = branch_tries program text delimiters state.input param fuel
            (branch_chain program n scan) index state := by
  intro n
  induction n with
  | zero =>
    intro fuel scan index state hl
    exact absurd hl (Nat.not_lt_zero _)
  | succ n ih =>
    intro fuel scan index state hl hf
    obtain ⟨F, rfl⟩ : ∃ F, fuel = F + 1 := ⟨fuel - 1, by omega⟩
    rw [match_branch, branch_chain, branch_tries]
    have heta : ({ state with input := state.input } : ExecState) = state := rfl
    rw [heta]
    cases hm : match_ program text delimiters F (OPERAND scan) false state with
    | none => rfl
    | some r =>
      obtain ⟨x, st⟩ := r
      cases x with
      | true => rfl
      | false =>
        simp only []
        by_cases hlim : st.Recursion_Limit_Exceeded = true
        · rw [if_pos hlim, if_pos hlim]
        · rw [if_neg hlim, if_neg hlim]
          by_cases hc : NEXT_PTR program scan ≠ Ptr.null
              ∧ getOpcode program (NEXT_PTR program scan) = BRANCH
          · rw [if_pos hc, if_pos hc]
            rw [branch_chain, if_pos hc] at hl
            have hl2 : (branch_chain program n (NEXT_PTR program scan)).length < n := by
              simp only [List.length_cons] at hl
              omega
            exact ih F (NEXT_PTR program scan) (index + 1) { st with input := state.input } hl2
              (by omega)
          · rw [if_neg hc, if_neg hc]
            cases F <;> rfl

set_option maxRecDepth 1000000 in
theorem branch_examples :
    (compile_and_execute (bytes "foo|bar") 50 (bytes "bar")).map
        (Option.map (fun x => (x.1, x.2.top_branch_, group x.2 0)))
        = .ok (some (true, 1, [some 0, some 3]))
      ∧ (compile_and_execute (bytes "foo|bar") 50 (bytes "foo")).map
        (Option.map (fun x => (x.1, x.2.top_branch_, group x.2 0)))
        = .ok (some (true, 0, [some 0, some 3]))
      ∧ (compile_and_execute (bytes "a|b|c") 50 (bytes "xxc")).map
        (Option.map (fun x => (x.1, x.2.top_branch_, group x.2 0)))
        = .ok (some (true, 2, [some 2, some 3]))
      ∧ (compile_and_execute (bytes "(a|ab)c") 50 (bytes "abc")).map
        (Option.map (fun x => (x.1, x.2.top_branch_, group x.2 0 ++ group x.2 1)))
        = .ok (some (true, 0, [some 0, some 3, some 0, some 2]))
      ∧ (compile_and_execute (bytes "x(a|b)") 50 (bytes "xb")).map
        (Option.map (fun x => (x.1, x.2.top_branch_, group x.2 0)))
        = .ok (some (true, 0, [some 0, some 2]))
      ∧ (compile_and_execute (bytes "x(?:a|b)") 50 (bytes "xb")).map
        (Option.map (fun x => (x.1, x.2.top_branch_, group x.2 0)))
        = .ok (some (true, 1, [some 0, some 2]))
      ∧ (compile_and_execute (bytes "(?:a|b)") 50 (bytes "b")).map
        (Option.map (fun x => (x.1, x.2.top_branch_, group x.2 0)))
        = .ok (some (true, 1, [some 0, some 1]))
      ∧ (compile_and_execute (bytes "a|b(?:c|d|e)") 50 (bytes "be")).map
        (Option.map (fun x => (x.1, x.2.top_branch_, group x.2 0)))
        = .ok (some (true, 1, [some 0, some 2]))
      ∧ (CompileRE (bytes "x(?:a|b)") 0).map (fun re => re.program_)
        = .ok [156, 0, 0, 34, 0, 27, 7, 0, 5, 120, 0, 34, 0, 8, 7, 0, 13, 97, 0, 34, 0, 8, 7, 0, 5,
            98, 0, 33, 0, 3, 1, 0, 0, 0] := by
  refine ⟨by decide!, by decide!, by decide!, by decide!, by decide!, by decide!, by decide!,
    by decide!, by decide!⟩

set_option maxRecDepth 1000000 in
theorem branch_chain_example :
    (CompileRE (bytes "foo|bar") 0).map (fun re => re.program_)
        = .ok [156, 0, 0, 34, 0, 10, 7, 0, 17, 102, 111, 111, 0, 34, 0, 10, 7, 0, 7, 98, 97, 114,
            0, 1, 0, 0, 0]
      ∧ branch_chain [156, 0, 0, 34, 0, 10, 7, 0, 17, 102, 111, 111, 0, 34, 0, 10, 7, 0, 7, 98, 97,
          114, 0, 1, 0, 0, 0] 3 (Ptr.prog 3) = [Ptr.prog 3, Ptr.prog 13]
      ∧ branch_tries [156, 0, 0, 34, 0, 10, 7, 0, 17, 102, 111, 111, 0, 34, 0, 10, 7, 0, 7, 98, 97,
          114, 0, 1, 0, 0, 0] (bytes "bar") DefaultDelimiters 0 true 40
          [Ptr.prog 3, Ptr.prog 13] 0 execute_state
        = some (Step.done true
            { execute_state with input := 3, Extent_Ptr_FW := some 3, branch_index := 1 }) := by
  refine ⟨by decide!, by decide!, by decide!⟩

/-- C36: the `do ... while` of the case `BRANCH` of `match` is an ordered choice with
backtracking: the branches of the chain are tried from left to right, each from the cursor
at the entry, together with what follows the alternation, and the first that matches is
taken.  The index of that branch is written through `branch_index_param` when the caller has
passed one, and the top-level invocation of `match` passes one for every alternation that it
reaches without recursion: `foo|bar` on `bar` gives `top_branch_` 1 and `(a|ab)c` on `abc`
matches [0,3) with group 1 at [0,2) and `top_branch_` 0, but `x(?:a|b)` on `xb` and `(?:a|b)`
on `b`, regexes of one top-level alternative, give `top_branch_` 1, the index within the
group, and `a|b(?:c|d|e)` on `be` gives 1, the index of the top-level alternative. -/
theorem C36_ordered_choice (program text : List Nat) (delimiters : List Bool) (param : Bool)
    (n fuel : Nat) (scan : Ptr) (index : Nat) (state : ExecState)
    (hl : (branch_chain program n scan).length < n) (hf : n ≤ fuel) :
    match_branch program text delimiters fuel scan index param state
        = branch_tries program text delimiters state.input param fuel
            (branch_chain program n scan) index state
      ∧ (compile_and_execute (bytes "foo|bar") 50 (bytes "bar")).map
        (Option.map (fun x => (x.1, x.2.top_branch_, group x.2 0)))
        = .ok (some (true, 1, [some 0, some 3]))
      ∧ (compile_and_execute (bytes "foo|bar") 50 (bytes "foo")).map
        (Option.map (fun x => (x.1, x.2.top_branch_, group x.2 0)))
        = .ok (some (true, 0, [some 0, some 3]))
      ∧ (compile_and_execute (bytes "a|b|c") 50 (bytes "xxc")).map
        (Option.map (fun x => (x.1, x.2.top_branch_, group x.2 0)))
        = .ok (some (true, 2, [some 2, some 3]))
      ∧ (compile_and_execute (bytes "(a|ab)c") 50 (bytes "abc")).map
        (Option.map (fun x => (x.1, x.2.top_branch_, group x.2 0 ++ group x.2 1)))
        = .ok (some (true, 0, [some 0, some 3, some 0, some 2]))
      ∧ (compile_and_execute (bytes "x(a|b)") 50 (bytes "xb")).map
        (Option.map (fun x => (x.1, x.2.top_branch_, group x.2 0)))
        = .ok (some (true, 0, [some 0, some 2]))
      ∧ (compile_and_execute (bytes "x(?:a|b)") 50 (bytes "xb")).map
        (Option.map (fun x => (x.1, x.2.top_branch_, group x.2 0)))
        = .ok (some (true, 1, [some 0, some 2]))
      ∧ (compile_and_execute (bytes "(?:a|b)") 50 (bytes "b")).map
        (Option.map (fun x => (x.1, x.2.top_branch_, group x.2 0)))
        = .ok (some (true, 1, [some 0, some 1]))
      ∧ (compile_and_execute (bytes "a|b(?:c|d|e)") 50 (bytes "be")).map
        (Option.map (fun x => (x.1, x.2.top_branch_, group x.2 0)))
        = .ok (some (true, 1, [some 0, some 2]))
      ∧ (CompileRE (bytes "x(?:a|b)") 0).map (fun re => re.program_)
        = .ok [156, 0, 0, 34, 0, 27, 7, 0, 5, 120, 0, 34, 0, 8, 7, 0, 13, 97, 0, 34, 0, 8, 7, 0, 5,
            98, 0, 33, 0, 3, 1, 0, 0, 0] :=
  ⟨match_branch_tries program text delimiters param n fuel scan index state hl hf,
    branch_examples⟩

theorem C36_ordered_choice_witness :
    match_branch [156, 0, 0, 34, 0, 10, 7, 0, 17, 102, 111, 111, 0, 34, 0, 10, 7, 0, 7, 98, 97,
        114, 0, 1, 0, 0, 0] (bytes "bar") DefaultDelimiters 40 (Ptr.prog 3) 0 true execute_state
      = some (Step.done true
          { execute_state with input := 3, Extent_Ptr_FW := some 3, branch_index := 1 }) :=
  ((C36_ordered_choice [156, 0, 0, 34, 0, 10, 7, 0, 17, 102, 111, 111, 0, 34, 0, 10, 7, 0, 7, 98,
      97, 114, 0, 1, 0, 0, 0] (bytes "bar") DefaultDelimiters true 3 40 (Ptr.prog 3) 0
      execute_state (by decide) (by decide)).1.trans
    (congrArg (fun l => branch_tries [156, 0, 0, 34, 0, 10, 7, 0, 17, 102, 111, 111, 0, 34, 0, 10,
      7, 0, 7, 98, 97, 114, 0, 1, 0, 0, 0] (bytes "bar") DefaultDelimiters 0 true 40 l 0
      execute_state) branch_chain_example.2.1)).trans branch_chain_example.2.2

/-! ### Fuel, recursion counter and frame of a match -/

/-- More fuel does not change what `match` returns: a result with the fuel `fuel` is the
result with the fuel `fuel + 1`. -/
theorem match_mono (program text : List Nat) (delimiters : List Bool) (fuel : Nat) :
    (∀ (prog : Ptr) (bip : Bool) (s : ExecState) (r : Bool × ExecState),
      match_ program text delimiters fuel prog bip s = some r →
      match_ program text delimiters (fuel + 1) prog bip s = some r)
    ∧ (∀ (scan : Ptr) (bip : Bool) (s : ExecState) (r : Bool × ExecState),
      match_loop program text delimiters fuel scan bip s = some r →
      match_loop program text delimiters (fuel + 1) scan bip s = some r)
    ∧ (∀ (scan : Ptr) (bip : Bool) (s : ExecState) (r : Step),
      match_node program text delimiters fuel scan bip s = some r →
      match_node program text delimiters (fuel + 1) scan bip s = some r)
    ∧ (∀ (scan : Ptr) (bil : Nat) (bip : Bool) (s : ExecState) (r : Step),
      match_branch program text delimiters fuel scan bil bip s = some r →
      match_branch program text delimiters (fuel + 1) scan bil bip s = some r)
    ∧ (∀ (next next_op : Ptr) (nc min max : Nat) (lazy : Bool) (save nm : Nat) (s : ExecState)
        (r : Step),
      match_repeat program text delimiters fuel next next_op nc min max lazy save nm s = some r →
      match_repeat program text delimiters (fuel + 1) next next_op nc min max lazy save nm s
        = some r)
    ∧ (∀ (next : Ptr) (save offset upper : Nat) (s : ExecState) (r : Option Bool × ExecState),
      match_behind program text delimiters fuel next save offset upper s = some r →
      match_behind program text delimiters (fuel + 1) next save offset upper s = some r) := by
  induction fuel with
  | zero =>
    refine ⟨?_, ?_, ?_, ?_, ?_, ?_⟩
    · intro _ _ _ _ h; rw [match_] at h; cases h
    · intro _ _ _ _ h; rw [match_loop] at h; cases h
    · intro _ _ _ _ h; rw [match_node] at h; cases h
    · intro _ _ _ _ _ h; rw [match_branch] at h; cases h
    · intro _ _ _ _ _ _ _ _ _ _ h; rw [match_repeat] at h; cases h
    · intro _ _ _ _ _ _ h; rw [match_behind] at h; cases h
  | succ n ih =>
    obtain ⟨ihm, ihl, ihn, ihb, ihr, ihh⟩ := ih
    refine ⟨?_, ?_, ?_, ?_, ?_, ?_⟩
    · intro prog bip s r h
      rw [match_] at h ⊢
      by_cases hc : s.Recursion_Count + 1 > REGEX_RECURSION_LIMIT
      · rw [if_pos hc] at h ⊢
        exact h
      · rw [if_neg hc] at h ⊢
        exact ihl _ _ _ _ h
    · intro scan bip s r h
      rw [match_loop] at h ⊢
      by_cases hc : scan = Ptr.null
      · rw [if_pos hc] at h ⊢
        exact h
      · rw [if_neg hc] at h ⊢
        cases hsub : match_node program text delimiters n scan bip s with
        | none => rw [hsub] at h; cases h
        | some v =>
          rw [hsub] at h
          rw [ihn _ _ _ _ hsub]
          cases v with
          | done x st => exact h
          | next scan1 st => exact ihl _ _ _ _ h
    · intro scan bip s r h
      rw [match_node] at h ⊢
      simp only [] at h ⊢
      by_cases h1 : getOpcode program scan = BRANCH
      · rw [if_pos h1] at h ⊢
        by_cases h2 : getOpcode program (NEXT_PTR program scan) ≠ BRANCH
        · rw [if_pos h2] at h ⊢
          exact h
        · rw [if_neg h2] at h ⊢
          exact ihb _ _ _ _ _ h
      rw [if_neg h1] at h ⊢
      by_cases h2 : STAR ≤ getOpcode program scan ∧ getOpcode program scan ≤ LAZY_BRACE
      · rw [if_pos h2] at h ⊢
        exact ihr _ _ _ _ _ _ _ _ _ _ h
      rw [if_neg h2] at h ⊢
      by_cases h3 : getOpcode program scan = POS_AHEAD_OPEN
          ∨ getOpcode program scan = NEG_AHEAD_OPEN
      · rw [if_pos h3] at h ⊢
        cases hsub : match_ program text delimiters n (NEXT_PTR program scan) false
            { s with endOfString := none } with
        | none => rw [hsub] at h; cases h
        | some v =>
          rw [hsub] at h
          rw [ihm _ _ _ _ hsub]
          exact h
      rw [if_neg h3] at h ⊢
      by_cases h4 : getOpcode program scan = POS_BEHIND_OPEN
          ∨ getOpcode program scan = NEG_BEHIND_OPEN
      · rw [if_pos h4] at h ⊢
        cases hsub : match_behind program text delimiters n (NEXT_PTR program scan) s.input
            (getLower program scan) (getUpper program scan)
            { s with endOfString := some s.input } with
        | none => rw [hsub] at h; cases h
        | some v =>
          rw [hsub] at h
          rw [ihh _ _ _ _ _ _ hsub]
          exact h
      rw [if_neg h4] at h ⊢
      by_cases h5 : OPEN < getOpcode program scan ∧ getOpcode program scan < OPEN + NSUBEXP
      · rw [if_pos h5] at h ⊢
        cases hsub : match_ program text delimiters n (NEXT_PTR program scan) false
            (if getOpcode program scan - OPEN < 10 then
              { s with Back_Ref_Start := s.Back_Ref_Start.set (getOpcode program scan - OPEN)
                         (some s.input),
                       Back_Ref_End := s.Back_Ref_End.set (getOpcode program scan - OPEN) none }
             else s) with
        | none => rw [hsub] at h; cases h
        | some v =>
          rw [hsub] at h
          rw [ihm _ _ _ _ hsub]
          exact h
      rw [if_neg h5] at h ⊢
      by_cases h6 : CLOSE < getOpcode program scan ∧ getOpcode program scan < CLOSE + NSUBEXP
      · rw [if_pos h6] at h ⊢
        cases hsub : match_ program text delimiters n (NEXT_PTR program scan) false
            (if getOpcode program scan - CLOSE < 10 then
              { s with Back_Ref_End := s.Back_Ref_End.set (getOpcode program scan - CLOSE)
                         (some s.input) }
             else s) with
        | none => rw [hsub] at h; cases h
        | some v =>
          rw [hsub] at h
          rw [ihm _ _ _ _ hsub]
          exact h
      rw [if_neg h6] at h ⊢
      exact h
    · intro scan bil bip s r h
      rw [match_branch] at h ⊢
      cases hsub : match_ program text delimiters n (OPERAND scan) false s with
      | none => rw [hsub] at h; cases h
      | some v =>
        rw [hsub] at h
        rw [ihm _ _ _ _ hsub]
        obtain ⟨x, st⟩ := v
        cases x with
        | true => exact h
        | false =>
          simp only [] at h ⊢
          by_cases hlim : st.Recursion_Limit_Exceeded = true
          · rw [if_pos hlim] at h ⊢
            exact h
          · rw [if_neg hlim] at h ⊢
            by_cases hc : NEXT_PTR program scan ≠ Ptr.null
                ∧ getOpcode program (NEXT_PTR program scan) = BRANCH
            · rw [if_pos hc] at h ⊢
              exact ihb _ _ _ _ _ h
            · rw [if_neg hc] at h ⊢
              exact h
    · intro next next_op nc min max lazy save nm s r h
      rw [match_repeat] at h ⊢
      by_cases h1 : ¬ (min ≤ nm ∧ nm ≤ max)
      · rw [if_pos h1] at h ⊢
        exact h
      · rw [if_neg h1] at h ⊢
        simp only [] at h ⊢
        have key : ∀ (x : Bool) (st : ExecState) (go : Bool),
            (match (some (x, st) : Option (Bool × ExecState)) with
              | none => none
              | some (true, st) => some (Step.done true st)
              | some (false, st) =>
                if go = true ∧ st.Recursion_Limit_Exceeded = true then some (Step.done false st)
                else if lazy = true then
                  if (greedy program text delimiters next_op 1 st).1 = 0 then
                    some (Step.done false (greedy program text delimiters next_op 1 st).2)
                  else
                    match_repeat program text delimiters n next next_op nc min max lazy save
                      (nm + 1)
                      { (greedy program text delimiters next_op 1 st).2 with
                        input := save + (nm + 1) }
                else if nm > REG_ZERO then
                  match_repeat program text delimiters n next next_op nc min max lazy save
                    (nm - 1) { st with input := save + (nm - 1) }
                else if min = REG_ZERO ∧ nm = REG_ZERO then some (Step.done false st)
                else
                  match_repeat program text delimiters n next next_op nc min max lazy save
                    nm { st with input := save + nm }) = some r →
            (match (some (x, st) : Option (Bool × ExecState)) with
              | none => none
              | some (true, st) => some (Step.done true st)
              | some (false, st) =>
                if go = true ∧ st.Recursion_Limit_Exceeded = true then some (Step.done false st)
                else if lazy = true then
                  if (greedy program text delimiters next_op 1 st).1 = 0 then
                    some (Step.done false (greedy program text delimiters next_op 1 st).2)
                  else
                    match_repeat program text delimiters (n + 1) next next_op nc min max lazy
                      save (nm + 1)
                      { (greedy program text delimiters next_op 1 st).2 with
                        input := save + (nm + 1) }
                else if nm > REG_ZERO then
                  match_repeat program text delimiters (n + 1) next next_op nc min max lazy save
                    (nm - 1) { st with input := save + (nm - 1) }
                else if min = REG_ZERO ∧ nm = REG_ZERO then some (Step.done false st)
                else
                  match_repeat program text delimiters (n + 1) next next_op nc min max lazy save
                    nm { st with input := save + nm }) = some r := by
          intro x st go hk
          cases x with
          | true => exact hk
          | false =>
            simp only [] at hk ⊢
            by_cases h2 : go = true ∧ st.Recursion_Limit_Exceeded = true
            · rw [if_pos h2] at hk ⊢
              exact hk
            · rw [if_neg h2] at hk ⊢
              by_cases h3 : lazy = true
              · rw [if_pos h3] at hk ⊢
                by_cases h4 : (greedy program text delimiters next_op 1 st).1 = 0
                · rw [if_pos h4] at hk ⊢
                  exact hk
                · rw [if_neg h4] at hk ⊢
                  exact ihr _ _ _ _ _ _ _ _ _ _ hk
              · rw [if_neg h3] at hk ⊢
                by_cases h5 : nm > REG_ZERO
                · rw [if_pos h5] at hk ⊢
                  exact ihr _ _ _ _ _ _ _ _ _ _ hk
                · rw [if_neg h5] at hk ⊢
                  by_cases h6 : min = REG_ZERO ∧ nm = REG_ZERO
                  · rw [if_pos h6] at hk ⊢
                    exact hk
                  · rw [if_neg h6] at hk ⊢
                    exact ihr _ _ _ _ _ _ _ _ _ _ hk
        by_cases hgo : (decide (nc = 0) || decide ((nc : Int) = schar (charAt text s.input))) = true
        · rw [if_pos hgo] at h ⊢
          cases hsub : match_ program text delimiters n next false s with
          | none => rw [hsub] at h; cases h
          | some v =>
            rw [hsub] at h
            rw [ihm _ _ _ _ hsub]
            exact key v.1 v.2 _ h
        · rw [if_neg hgo] at h ⊢
          exact key false s _ h
    · intro next save offset upper s r h
      rw [match_behind] at h ⊢
      by_cases h1 : offset > upper
      · rw [if_pos h1] at h ⊢
        exact h
      · rw [if_neg h1] at h ⊢
        by_cases h2 : save < s.lookBehindTo + offset
        · rw [if_pos h2] at h ⊢
          exact h
        · rw [if_neg h2] at h ⊢
          cases hsub : match_ program text delimiters n next false
              { s with input := save - offset } with
          | none => rw [hsub] at h; cases h
          | some v =>
            rw [hsub] at h
            rw [ihm _ _ _ _ hsub]
            obtain ⟨answer, st⟩ := v
            simp only [] at h ⊢
            by_cases h3 : st.Recursion_Limit_Exceeded = true
            · rw [if_pos h3] at h ⊢
              exact h
            · rw [if_neg h3] at h ⊢
              by_cases h4 : answer = true ∧ st.input = save
              · rw [if_pos h4] at h ⊢
                exact h
              · rw [if_neg h4] at h ⊢
                exact ihh _ _ _ _ _ _ h

theorem count_update_extent_FW (s : ExecState) :
    (update_extent_FW s).Recursion_Count = s.Recursion_Count := by
  unfold update_extent_FW
  split
  · rfl
  · split <;> rfl

theorem count_match_plain (program text : List Nat) (delimiters : List Bool) (scan next : Ptr)
    (s : ExecState) :
    (match_plain program text delimiters scan next s).state.Recursion_Count
      = s.Recursion_Count := by
  unfold match_plain
  simp only []
  apply ite_state (P := fun t => t.Recursion_Count = s.Recursion_Count) <;> intro _
  · split <;> rfl
  apply ite_state (P := fun t => t.Recursion_Count = s.Recursion_Count) <;> intro _
  · apply ite_state (P := fun t => t.Recursion_Count = s.Recursion_Count) <;> intro _ <;> rfl
  apply ite_state (P := fun t => t.Recursion_Count = s.Recursion_Count) <;> intro _
  · split <;> rfl
  apply ite_state (P := fun t => t.Recursion_Count = s.Recursion_Count) <;> intro _
  · exact count_update_extent_FW _
  apply ite_state (P := fun t => t.Recursion_Count = s.Recursion_Count) <;> intro _
  · rfl
  apply ite_state (P := fun t => t.Recursion_Count = s.Recursion_Count) <;> intro _
  · rfl
  apply ite_state (P := fun t => t.Recursion_Count = s.Recursion_Count) <;> intro _
  · apply ite_state (P := fun t => t.Recursion_Count = s.Recursion_Count) <;> intro _ <;> rfl
  apply ite_state (P := fun t => t.Recursion_Count = s.Recursion_Count) <;> intro _
  · split
    · apply ite_state (P := fun t => t.Recursion_Count = s.Recursion_Count) <;> intro _
      · rfl
      · apply ite_state (P := fun t => t.Recursion_Count = s.Recursion_Count) <;> intro _ <;> rfl
    · rfl
  apply ite_state (P := fun t => t.Recursion_Count = s.Recursion_Count) <;> intro _
  · rfl
  · rfl

/-- The recursion counter is the same at the return of `match` as at its entry. -/
theorem match_count (program text : List Nat) (delimiters : List Bool) (fuel : Nat) :
    (∀ (prog : Ptr) (bip : Bool) (s : ExecState) (r : Bool × ExecState),
      match_ program text delimiters fuel prog bip s = some r →
      r.2.Recursion_Count = s.Recursion_Count)
    ∧ (∀ (scan : Ptr) (bip : Bool) (s : ExecState) (r : Bool × ExecState),
      match_loop program text delimiters fuel scan bip s = some r →
      r.2.Recursion_Count = s.Recursion_Count - 1)
    ∧ (∀ (scan : Ptr) (bip : Bool) (s : ExecState) (r : Step),
      match_node program text delimiters fuel scan bip s = some r →
      r.state.Recursion_Count = s.Recursion_Count)
    ∧ (∀ (scan : Ptr) (bil : Nat) (bip : Bool) (s : ExecState) (r : Step),
      match_branch program text delimiters fuel scan bil bip s = some r →
      r.state.Recursion_Count = s.Recursion_Count)
    ∧ (∀ (next next_op : Ptr) (nc min max : Nat) (lazy : Bool) (save nm : Nat) (s : ExecState)
        (r : Step),
      match_repeat program text delimiters fuel next next_op nc min max lazy save nm s = some r →
      r.state.Recursion_Count = s.Recursion_Count)
    ∧ (∀ (next : Ptr) (save offset upper : Nat) (s : ExecState) (r : Option Bool × ExecState),
      match_behind program text delimiters fuel next save offset upper s = some r →
      r.2.Recursion_Count = s.Recursion_Count) := by
  induction fuel with
  | zero =>
    refine ⟨?_, ?_, ?_, ?_, ?_, ?_⟩
    · intro _ _ _ _ h; rw [match_] at h; cases h
    · intro _ _ _ _ h; rw [match_loop] at h; cases h
    · intro _ _ _ _ h; rw [match_node] at h; cases h
    · intro _ _ _ _ _ h; rw [match_branch] at h; cases h
    · intro _ _ _ _ _ _ _ _ _ _ h; rw [match_repeat] at h; cases h
    · intro _ _ _ _ _ _ h; rw [match_behind] at h; cases h
  | succ n ih =>
    obtain ⟨ihm, ihl, ihn, ihb, ihr, ihh⟩ := ih
    refine ⟨?_, ?_, ?_, ?_, ?_, ?_⟩
    · intro prog bip s r h
      rw [match_] at h
      by_cases hc : s.Recursion_Count + 1 > REGEX_RECURSION_LIMIT
      · rw [if_pos hc] at h
        cases h
        show s.Recursion_Count + 1 - 1 = s.Recursion_Count
        exact Nat.add_sub_cancel _ _
      · rw [if_neg hc] at h
        have := ihl _ _ _ _ h
        rw [this]
        show s.Recursion_Count + 1 - 1 = s.Recursion_Count
        exact Nat.add_sub_cancel _ _
    · intro scan bip s r h
      rw [match_loop] at h
      by_cases hc : scan = Ptr.null
      · rw [if_pos hc] at h
        cases h
        rfl
      · rw [if_neg hc] at h
        cases hsub : match_node program text delimiters n scan bip s with
        | none => rw [hsub] at h; cases h
        | some v =>
          rw [hsub] at h
          have hv := ihn _ _ _ _ hsub
          cases v with
          | done x st =>
            cases h
            exact congrArg (fun k => k - 1) hv
          | next scan1 st =>
            have := ihl _ _ _ _ h
            rw [this]
            exact congrArg (fun k => k - 1) hv
    · intro scan bip s r h
      rw [match_node] at h
      simp only [] at h
      by_cases h1 : getOpcode program scan = BRANCH
      · rw [if_pos h1] at h
        by_cases h2 : getOpcode program (NEXT_PTR program scan) ≠ BRANCH
        · rw [if_pos h2] at h
          cases h
          rfl
        · rw [if_neg h2] at h
          exact ihb _ _ _ _ _ h
      rw [if_neg h1] at h
      by_cases h2 : STAR ≤ getOpcode program scan ∧ getOpcode program scan ≤ LAZY_BRACE
      · rw [if_pos h2] at h
        have hh := ihr _ _ _ _ _ _ _ _ _ _ h
        rw [hh]
        split
        · split <;> rfl
        · rfl
      rw [if_neg h2] at h
      by_cases h3 : getOpcode program scan = POS_AHEAD_OPEN
          ∨ getOpcode program scan = NEG_AHEAD_OPEN
      · rw [if_pos h3] at h
        cases hsub : match_ program text delimiters n (NEXT_PTR program scan) false
            { s with endOfString := none } with
        | none => rw [hsub] at h; cases h
        | some v =>
          rw [hsub] at h
          have hv : v.2.Recursion_Count = s.Recursion_Count :=
            ihm _ _ { s with endOfString := none } _ hsub
          obtain ⟨answer, st⟩ := v
          simp only [] at h
          by_cases h4 : st.Recursion_Limit_Exceeded = true
          · rw [if_pos h4] at h
            cases h
            exact hv
          · rw [if_neg h4] at h
            cases hsk : skip_branches program (program.length + 1)
                (next_ptr program (OPERAND scan)) with
            | none =>
              rw [hsk] at h
              simp only [] at h
              split_ifs at h <;> cases h <;> exact hv
            | some c =>
              rw [hsk] at h
              simp only [] at h
              split_ifs at h <;> cases h <;>
                first | exact hv | exact (count_update_extent_FW st).trans hv
      rw [if_neg h3] at h
      by_cases h4 : getOpcode program scan = POS_BEHIND_OPEN
          ∨ getOpcode program scan = NEG_BEHIND_OPEN
      · rw [if_pos h4] at h
        cases hsub : match_behind program text delimiters n (NEXT_PTR program scan) s.input
            (getLower program scan) (getUpper program scan)
            { s with endOfString := some s.input } with
        | none => rw [hsub] at h; cases h
        | some v =>
          rw [hsub] at h
          have hv : v.2.Recursion_Count = s.Recursion_Count :=
            ihh _ _ _ _ { s with endOfString := some s.input } _ hsub
          obtain ⟨found, st⟩ := v
          cases found with
          | none =>
            cases h
            exact hv
          | some f =>
            simp only [] at h
            cases hsk : skip_branches program (program.length + 1)
                (next_ptr program ((OPERAND scan).add LengthSize)) with
            | none =>
              rw [hsk] at h
              simp only [] at h
              split_ifs at h <;> cases h <;> exact hv
            | some c =>
              rw [hsk] at h
              simp only [] at h
              split_ifs at h <;> cases h <;> exact hv
      rw [if_neg h4] at h
      by_cases h5 : OPEN < getOpcode program scan ∧ getOpcode program scan < OPEN + NSUBEXP
      · rw [if_pos h5] at h
        cases hsub : match_ program text delimiters n (NEXT_PTR program scan) false
            (if getOpcode program scan - OPEN < 10 then
              { s with Back_Ref_Start := s.Back_Ref_Start.set (getOpcode program scan - OPEN)
                         (some s.input),
                       Back_Ref_End := s.Back_Ref_End.set (getOpcode program scan - OPEN) none }
             else s) with
        | none => rw [hsub] at h; cases h
        | some v =>
          rw [hsub] at h
          have hv : v.2.Recursion_Count = s.Recursion_Count := by
            rw [ihm _ _ _ _ hsub]
            split <;> rfl
          obtain ⟨x, st⟩ := v
          cases x with
          | true =>
            simp only [] at h
            split at h <;> cases h <;> exact hv
          | false =>
            cases h
            exact hv
      rw [if_neg h5] at h
      by_cases h6 : CLOSE < getOpcode program scan ∧ getOpcode program scan < CLOSE + NSUBEXP
      · rw [if_pos h6] at h
        cases hsub : match_ program text delimiters n (NEXT_PTR program scan) false
            (if getOpcode program scan - CLOSE < 10 then
              { s with Back_Ref_End := s.Back_Ref_End.set (getOpcode program scan - CLOSE)
                         (some s.input) }
             else s) with
        | none => rw [hsub] at h; cases h
        | some v =>
          rw [hsub] at h
          have hv : v.2.Recursion_Count = s.Recursion_Count := by
            rw [ihm _ _ _ _ hsub]
            split <;> rfl
          obtain ⟨x, st⟩ := v
          cases x with
          | true =>
            simp only [] at h
            split at h <;> cases h <;> exact hv
          | false =>
            cases h
            exact hv
      rw [if_neg h6] at h
      cases h
      exact count_match_plain _ _ _ _ _ _
    · intro scan bil bip s r h
      rw [match_branch] at h
      cases hsub : match_ program text delimiters n (OPERAND scan) false s with
      | none => rw [hsub] at h; cases h
      | some v =>
        rw [hsub] at h
        have hv : v.2.Recursion_Count = s.Recursion_Count := ihm _ _ _ _ hsub
        obtain ⟨x, st⟩ := v
        cases x with
        | true =>
          cases h
          cases bip <;> exact hv
        | false =>
          simp only [] at h
          by_cases hlim : st.Recursion_Limit_Exceeded = true
          · rw [if_pos hlim] at h
            cases h
            exact hv
          · rw [if_neg hlim] at h
            by_cases hc : NEXT_PTR program scan ≠ Ptr.null
                ∧ getOpcode program (NEXT_PTR program scan) = BRANCH
            · rw [if_pos hc] at h
              exact (ihb _ _ _ _ _ h).trans hv
            · rw [if_neg hc] at h
              cases h
              exact hv
    · intro next next_op nc min max lazy save nm s r h
      rw [match_repeat] at h
      by_cases h1 : ¬ (min ≤ nm ∧ nm ≤ max)
      · rw [if_pos h1] at h
        cases h
        rfl
      · rw [if_neg h1] at h
        simp only [] at h
        have key : ∀ (x : Bool) (st : ExecState) (go : Bool),
            st.Recursion_Count = s.Recursion_Count →
            (match (some (x, st) : Option (Bool × ExecState)) with
              | none => none
              | some (true, st) => some (Step.done true st)
              | some (false, st) =>
                if go = true ∧ st.Recursion_Limit_Exceeded = true then some (Step.done false st)
                else if lazy = true then
                  if (greedy program text delimiters next_op 1 st).1 = 0 then
                    some (Step.done false (greedy program text delimiters next_op 1 st).2)
                  else
                    match_repeat program text delimiters n next next_op nc min max lazy save
                      (nm + 1)
                      { (greedy program text delimiters next_op 1 st).2 with
                        input := save + (nm + 1) }
                else if nm > REG_ZERO then
                  match_repeat program text delimiters n next next_op nc min max lazy save
                    (nm - 1) { st with input := save + (nm - 1) }
                else if min = REG_ZERO ∧ nm = REG_ZERO then some (Step.done false st)
                else
                  match_repeat program text delimiters n next next_op nc min max lazy save
                    nm { st with input := save + nm }) = some r →
            r.state.Recursion_Count = s.Recursion_Count := by
          intro x st go hst hk
          cases x with
          | true =>
            cases hk
            exact hst
          | false =>
            simp only [] at hk
            by_cases h2 : go = true ∧ st.Recursion_Limit_Exceeded = true
            · rw [if_pos h2] at hk
              cases hk
              exact hst
            · rw [if_neg h2] at hk
              by_cases h3 : lazy = true
              · rw [if_pos h3] at hk
                by_cases h4 : (greedy program text delimiters next_op 1 st).1 = 0
                · rw [if_pos h4] at hk
                  cases hk
                  exact hst
                · rw [if_neg h4] at hk
                  exact (ihr _ _ _ _ _ _ _ _ _ _ hk).trans hst
              · rw [if_neg h3] at hk
                by_cases h5 : nm > REG_ZERO
                · rw [if_pos h5] at hk
                  exact (ihr _ _ _ _ _ _ _ _ _ _ hk).trans hst
                · rw [if_neg h5] at hk
                  by_cases h6 : min = REG_ZERO ∧ nm = REG_ZERO
                  · rw [if_pos h6] at hk
                    cases hk
                    exact hst
                  · rw [if_neg h6] at hk
                    exact (ihr _ _ _ _ _ _ _ _ _ _ hk).trans hst
        by_cases hgo : (decide (nc = 0) || decide ((nc : Int) = schar (charAt text s.input))) = true
        · rw [if_pos hgo] at h
          cases hsub : match_ program text delimiters n next false s with
          | none => rw [hsub] at h; cases h
          | some v =>
            rw [hsub] at h
            exact key v.1 v.2 _ (ihm _ _ _ _ hsub) h
        · rw [if_neg hgo] at h
          exact key false s _ rfl h
    · intro next save offset upper s r h
      rw [match_behind] at h
      by_cases h1 : offset > upper
      · rw [if_pos h1] at h
        cases h
        rfl
      · rw [if_neg h1] at h
        by_cases h2 : save < s.lookBehindTo + offset
        · rw [if_pos h2] at h
          cases h
          rfl
        · rw [if_neg h2] at h
          cases hsub : match_ program text delimiters n next false
              { s with input := save - offset } with
          | none => rw [hsub] at h; cases h
          | some v =>
            rw [hsub] at h
            have hv : v.2.Recursion_Count = s.Recursion_Count :=
              ihm _ _ { s with input := save - offset } _ hsub
            obtain ⟨answer, st⟩ := v
            simp only [] at h
            by_cases h3 : st.Recursion_Limit_Exceeded = true
            · rw [if_pos h3] at h
              cases h
              exact hv
            · rw [if_neg h3] at h
              by_cases h4 : answer = true ∧ st.input = save
              · rw [if_pos h4] at h
                cases h
                show (match st.Extent_Ptr_BW with
                  | none => { st with Extent_Ptr_BW := some (save - offset) }
                  | some e =>
                    if e > save - offset then { st with Extent_Ptr_BW := some (save - offset) }
                    else st).Recursion_Count = s.Recursion_Count
                split
                · exact hv
                · split <;> exact hv
              · rw [if_neg h4] at h
                exact (ihh _ _ _ _ _ _ h).trans hv

theorem frame_update_extent_FW (s : ExecState) :
    frame (update_extent_FW s) = frame s := by
  unfold update_extent_FW
  split
  · rfl
  · split <;> rfl

theorem frame_match_plain (program text : List Nat) (delimiters : List Bool) (scan next : Ptr)
    (s : ExecState) :
    frame (match_plain program text delimiters scan next s).state = frame s := by
  unfold match_plain
  simp only []
  apply ite_state (P := fun t => frame t = frame s) <;> intro _
  · split <;> rfl
  apply ite_state (P := fun t => frame t = frame s) <;> intro _
  · apply ite_state (P := fun t => frame t = frame s) <;> intro _ <;> rfl
  apply ite_state (P := fun t => frame t = frame s) <;> intro _
  · split <;> rfl
  apply ite_state (P := fun t => frame t = frame s) <;> intro _
  · exact frame_update_extent_FW _
  apply ite_state (P := fun t => frame t = frame s) <;> intro _
  · rfl
  apply ite_state (P := fun t => frame t = frame s) <;> intro _
  · rfl
  apply ite_state (P := fun t => frame t = frame s) <;> intro _
  · apply ite_state (P := fun t => frame t = frame s) <;> intro _ <;> rfl
  apply ite_state (P := fun t => frame t = frame s) <;> intro _
  · split
    · apply ite_state (P := fun t => frame t = frame s) <;> intro _
      · rfl
      · apply ite_state (P := fun t => frame t = frame s) <;> intro _ <;> rfl
    · rfl
  apply ite_state (P := fun t => frame t = frame s) <;> intro _
  · rfl
  · rfl

/-- The start of the string, the look-behind floor and the four boundary flags are the same at
the return of `match` as at its entry. -/
theorem match_frame (program text : List Nat) (delimiters : List Bool) (fuel : Nat) :
    (∀ (prog : Ptr) (bip : Bool) (s : ExecState) (r : Bool × ExecState),
      match_ program text delimiters fuel prog bip s = some r →
      frame r.2 = frame s)
    ∧ (∀ (scan : Ptr) (bip : Bool) (s : ExecState) (r : Bool × ExecState),
      match_loop program text delimiters fuel scan bip s = some r →
      frame r.2 = frame s)
    ∧ (∀ (scan : Ptr) (bip : Bool) (s : ExecState) (r : Step),
      match_node program text delimiters fuel scan bip s = some r →
      frame r.state = frame s)
    ∧ (∀ (scan : Ptr) (bil : Nat) (bip : Bool) (s : ExecState) (r : Step),
      match_branch program text delimiters fuel scan bil bip s = some r →
      frame r.state = frame s)
    ∧ (∀ (next next_op : Ptr) (nc min max : Nat) (lazy : Bool) (save nm : Nat) (s : ExecState)
        (r : Step),
      match_repeat program text delimiters fuel next next_op nc min max lazy save nm s = some r →
      frame r.state = frame s)
    ∧ (∀ (next : Ptr) (save offset upper : Nat) (s : ExecState) (r : Option Bool × ExecState),
      match_behind program text delimiters fuel next save offset upper s = some r →
      frame r.2 = frame s) := by
  induction fuel with
  | zero =>
    refine ⟨?_, ?_, ?_, ?_, ?_, ?_⟩
    · intro _ _ _ _ h; rw [match_] at h; cases h
    · intro _ _ _ _ h; rw [match_loop] at h; cases h
    · intro _ _ _ _ h; rw [match_node] at h; cases h
    · intro _ _ _ _ _ h; rw [match_branch] at h; cases h
    · intro _ _ _ _ _ _ _ _ _ _ h; rw [match_repeat] at h; cases h
    · intro _ _ _ _ _ _ h; rw [match_behind] at h; cases h
  | succ n ih =>
    obtain ⟨ihm, ihl, ihn, ihb, ihr, ihh⟩ := ih
    refine ⟨?_, ?_, ?_, ?_, ?_, ?_⟩
    · intro prog bip s r h
      rw [match_] at h
      by_cases hc : s.Recursion_Count + 1 > REGEX_RECURSION_LIMIT
      · rw [if_pos hc] at h
        cases h
        rfl
      · rw [if_neg hc] at h
        exact ihl _ _ { s with Recursion_Count := s.Recursion_Count + 1 } _ h
    · intro scan bip s r h
      rw [match_loop] at h
      by_cases hc : scan = Ptr.null
      · rw [if_pos hc] at h
        cases h
        rfl
      · rw [if_neg hc] at h
        cases hsub : match_node program text delimiters n scan bip s with
        | none => rw [hsub] at h; cases h
        | some v =>
          rw [hsub] at h
          have hv := ihn _ _ _ _ hsub
          cases v with
          | done x st =>
            cases h
            exact hv
          | next scan1 st =>
            exact (ihl _ _ _ _ h).trans hv
    · intro scan bip s r h
      rw [match_node] at h
      simp only [] at h
      by_cases h1 : getOpcode program scan = BRANCH
      · rw [if_pos h1] at h
        by_cases h2 : getOpcode program (NEXT_PTR program scan) ≠ BRANCH
        · rw [if_pos h2] at h
          cases h
          rfl
        · rw [if_neg h2] at h
          exact ihb _ _ _ _ _ h
      rw [if_neg h1] at h
      by_cases h2 : STAR ≤ getOpcode program scan ∧ getOpcode program scan ≤ LAZY_BRACE
      · rw [if_pos h2] at h
        have hh := ihr _ _ _ _ _ _ _ _ _ _ h
        rw [hh]
        split
        · split <;> rfl
        · rfl
      rw [if_neg h2] at h
      by_cases h3 : getOpcode program scan = POS_AHEAD_OPEN
          ∨ getOpcode program scan = NEG_AHEAD_OPEN
      · rw [if_pos h3] at h
        cases hsub : match_ program text delimiters n (NEXT_PTR program scan) false
            { s with endOfString := none } with
        | none => rw [hsub] at h; cases h
        | some v =>
          rw [hsub] at h
          have hv : frame v.2 = frame s :=
            ihm _ _ { s with endOfString := none } _ hsub
          obtain ⟨answer, st⟩ := v
          simp only [] at h
          by_cases h4 : st.Recursion_Limit_Exceeded = true
          · rw [if_pos h4] at h
            cases h
            exact hv
          · rw [if_neg h4] at h
            cases hsk : skip_branches program (program.length + 1)
                (next_ptr program (OPERAND scan)) with
            | none =>
              rw [hsk] at h
              simp only [] at h
              split_ifs at h <;> cases h <;> exact hv
            | some c =>
              rw [hsk] at h
              simp only [] at h
              split_ifs at h <;> cases h <;>
                first | exact hv | exact (frame_update_extent_FW st).trans hv
      rw [if_neg h3] at h
      by_cases h4 : getOpcode program scan = POS_BEHIND_OPEN
          ∨ getOpcode program scan = NEG_BEHIND_OPEN
      · rw [if_pos h4] at h
        cases hsub : match_behind program text delimiters n (NEXT_PTR program scan) s.input
            (getLower program scan) (getUpper program scan)
            { s with endOfString := some s.input } with
        | none => rw [hsub] at h; cases h
        | some v =>
          rw [hsub] at h
          have hv : frame v.2 = frame s :=
            ihh _ _ _ _ { s with endOfString := some s.input } _ hsub
          obtain ⟨found, st⟩ := v
          cases found with
          | none =>
            cases h
            exact hv
          | some f =>
            simp only [] at h
            cases hsk : skip_branches program (program.length + 1)
                (next_ptr program ((OPERAND scan).add LengthSize)) with
            | none =>
              rw [hsk] at h
              simp only [] at h
              split_ifs at h <;> cases h <;> exact hv
            | some c =>
              rw [hsk] at h
              simp only [] at h
              split_ifs at h <;> cases h <;> exact hv
      rw [if_neg h4] at h
      by_cases h5 : OPEN < getOpcode program scan ∧ getOpcode program scan < OPEN + NSUBEXP
      · rw [if_pos h5] at h
        cases hsub : match_ program text delimiters n (NEXT_PTR program scan) false
            (if getOpcode program scan - OPEN < 10 then
              { s with Back_Ref_Start := s.Back_Ref_Start.set (getOpcode program scan - OPEN)
                         (some s.input),
                       Back_Ref_End := s.Back_Ref_End.set (getOpcode program scan - OPEN) none }
             else s) with
        | none => rw [hsub] at h; cases h
        | some v =>
          rw [hsub] at h
          have hv : frame v.2 = frame s := by
            rw [ihm _ _ _ _ hsub]
            split <;> rfl
          obtain ⟨x, st⟩ := v
          cases x with
          | true =>
            simp only [] at h
            split at h <;> cases h <;> exact hv
          | false =>
            cases h
            exact hv
      rw [if_neg h5] at h
      by_cases h6 : CLOSE < getOpcode program scan ∧ getOpcode program scan < CLOSE + NSUBEXP
      · rw [if_pos h6] at h
        cases hsub : match_ program text delimiters n (NEXT_PTR program scan) false
            (if getOpcode program scan - CLOSE < 10 then
              { s with Back_Ref_End := s.Back_Ref_End.set (getOpcode program scan - CLOSE)
                         (some s.input) }
             else s) with
        | none => rw [hsub] at h; cases h
        | some v =>
          rw [hsub] at h
          have hv : frame v.2 = frame s := by
            rw [ihm _ _ _ _ hsub]
            split <;> rfl
          obtain ⟨x, st⟩ := v
          cases x with
          | true =>
            simp only [] at h
            split at h <;> cases h <;> exact hv
          | false =>
            cases h
            exact hv
      rw [if_neg h6] at h
      cases h
      exact frame_match_plain _ _ _ _ _ _
    · intro scan bil bip s r h
      rw [match_branch] at h
      cases hsub : match_ program text delimiters n (OPERAND scan) false s with
      | none => rw [hsub] at h; cases h
      | some v =>
        rw [hsub] at h
        have hv : frame v.2 = frame s := ihm _ _ _ _ hsub
        obtain ⟨x, st⟩ := v
        cases x with
        | true =>
          cases h
          cases bip <;> exact hv
        | false =>
          simp only [] at h
          by_cases hlim : st.Recursion_Limit_Exceeded = true
          · rw [if_pos hlim] at h
            cases h
            exact hv
          · rw [if_neg hlim] at h
            by_cases hc : NEXT_PTR program scan ≠ Ptr.null
                ∧ getOpcode program (NEXT_PTR program scan) = BRANCH
            · rw [if_pos hc] at h
              exact (ihb _ _ _ _ _ h).trans hv
            · rw [if_neg hc] at h
              cases h
              exact hv
    · intro next next_op nc min max lazy save nm s r h
      rw [match_repeat] at h
      by_cases h1 : ¬ (min ≤ nm ∧ nm ≤ max)
      · rw [if_pos h1] at h
        cases h
        rfl
      · rw [if_neg h1] at h
        simp only [] at h
        have key : ∀ (x : Bool) (st : ExecState) (go : Bool),
            frame st = frame s →
            (match (some (x, st) : Option (Bool × ExecState)) with
              | none => none
              | some (true, st) => some (Step.done true st)
              | some (false, st) =>
                if go = true ∧ st.Recursion_Limit_Exceeded = true then some (Step.done false st)
                else if lazy = true then
                  if (greedy program text delimiters next_op 1 st).1 = 0 then
                    some (Step.done false (greedy program text delimiters next_op 1 st).2)
                  else
                    match_repeat program text delimiters n next next_op nc min max lazy save
                      (nm + 1)
                      { (greedy program text delimiters next_op 1 st).2 with
                        input := save + (nm + 1) }
                else if nm > REG_ZERO then
                  match_repeat program text delimiters n next next_op nc min max lazy save
                    (nm - 1) { st with input := save + (nm - 1) }
                else if min = REG_ZERO ∧ nm = REG_ZERO then some (Step.done false st)
                else
                  match_repeat program text delimiters n next next_op nc min max lazy save
                    nm { st with input := save + nm }) = some r →
            frame r.state = frame s := by
          intro x st go hst hk
          cases x with
          | true =>
            cases hk
            exact hst
          | false =>
            simp only [] at hk
            by_cases h2 : go = true ∧ st.Recursion_Limit_Exceeded = true
            · rw [if_pos h2] at hk
              cases hk
              exact hst
            · rw [if_neg h2] at hk
              by_cases h3 : lazy = true
              · rw [if_pos h3] at hk
                by_cases h4 : (greedy program text delimiters next_op 1 st).1 = 0
                · rw [if_pos h4] at hk
                  cases hk
                  exact hst
                · rw [if_neg h4] at hk
                  exact (ihr _ _ _ _ _ _ _ _ _ _ hk).trans hst
              · rw [if_neg h3] at hk
                by_cases h5 : nm > REG_ZERO
                · rw [if_pos h5] at hk
                  exact (ihr _ _ _ _ _ _ _ _ _ _ hk).trans hst
                · rw [if_neg h5] at hk
                  by_cases h6 : min = REG_ZERO ∧ nm = REG_ZERO
                  · rw [if_pos h6] at hk
                    cases hk
                    exact hst
                  · rw [if_neg h6] at hk
                    exact (ihr _ _ _ _ _ _ _ _ _ _ hk).trans hst
        by_cases hgo : (decide (nc = 0) || decide ((nc : Int) = schar (charAt text s.input))) = true
        · rw [if_pos hgo] at h
          cases hsub : match_ program text delimiters n next false s with
          | none => rw [hsub] at h; cases h
          | some v =>
            rw [hsub] at h
            exact key v.1 v.2 _ (ihm _ _ _ _ hsub) h
        · rw [if_neg hgo] at h
          exact key false s _ rfl h
    · intro next save offset upper s r h
      rw [match_behind] at h
      by_cases h1 : offset > upper
      · rw [if_pos h1] at h
        cases h
        rfl
      · rw [if_neg h1] at h
        by_cases h2 : save < s.lookBehindTo + offset
        · rw [if_pos h2] at h
          cases h
          rfl
        · rw [if_neg h2] at h
          cases hsub : match_ program text delimiters n next false
              { s with input := save - offset } with
          | none => rw [hsub] at h; cases h
          | some v =>
            rw [hsub] at h
            have hv : frame v.2 = frame s :=
              ihm _ _ { s with input := save - offset } _ hsub
            obtain ⟨answer, st⟩ := v
            simp only [] at h
            by_cases h3 : st.Recursion_Limit_Exceeded = true
            · rw [if_pos h3] at h
              cases h
              exact hv
            · rw [if_neg h3] at h
              by_cases h4 : answer = true ∧ st.input = save
              · rw [if_pos h4] at h
                cases h
                show frame (match st.Extent_Ptr_BW with
                  | none => { st with Extent_Ptr_BW := some (save - offset) }
                  | some e =>
                    if e > save - offset then { st with Extent_Ptr_BW := some (save - offset) }
                    else st) = frame s
                split
                · exact hv
                · split <;> exact hv
              · rw [if_neg h4] at h
                exact (ihh _ _ _ _ _ _ h).trans hv

/-! ### The filters of the forward search -/

theorem attempt_of_state (regex : Regex) (text : List Nat) (delimiters : List Bool) (fuel : Nat)
    (string : Nat) (state : ExecState) :
    attempt regex text delimiters fuel string state
      = match match_ regex.program_ text delimiters fuel (Ptr.prog REGEX_START_OFFSET) true
            (attempt_state regex string state) with
        | none => none
        | some (true, st1) =>
          some (true,
            { st1 with startp_ := st1.startp_.set 0 (some string),
                       endp_ := st1.endp_.set 0 (some st1.input),
                       extentpBW_ := st1.Extent_Ptr_BW,
                       extentpFW_ := st1.Extent_Ptr_FW,
                       top_branch_ := st1.branch_index })
        | some (false, st1) => some (false, st1) := rfl

theorem attempt_state_at (regex : Regex) (p : Nat) (s : ExecState) :
    attempt_state regex p s
      = { attempt_state regex 0 s with input := p, Extent_Ptr_BW := some p } := rfl

theorem SameReset.state_eq {regex : Regex} {s t : ExecState} (h : SameReset regex s t)
    (p : Nat) : attempt_state regex p s = attempt_state regex p t := by
  rw [attempt_state_at regex p s, attempt_state_at regex p t]
  unfold SameReset at h
  rw [h]

theorem SameReset.attempt_eq {regex : Regex} {s t : ExecState} (h : SameReset regex s t)
    (text : List Nat) (delimiters : List Bool) (fuel p : Nat) :
    attempt regex text delimiters fuel p s = attempt regex text delimiters fuel p t := by
  rw [attempt_of_state, attempt_of_state, h.state_eq p]

theorem SameReset.reset_refl (regex : Regex) (s : ExecState) : SameReset regex s s := rfl

theorem SameReset.reset_trans {regex : Regex} {s t u : ExecState} (h1 : SameReset regex s t)
    (h2 : SameReset regex t u) : SameReset regex s u := by
  unfold SameReset at *
  exact h1.trans h2

theorem SameReset.flag {regex : Regex} {s t : ExecState} (h : SameReset regex s t) :
    s.Recursion_Limit_Exceeded = t.Recursion_Limit_Exceeded := by
  unfold SameReset at h
  exact congrArg (fun u => u.Recursion_Limit_Exceeded) h

theorem SameReset.eos {regex : Regex} {s t : ExecState} (h : SameReset regex s t) :
    s.endOfString = t.endOfString := by
  unfold SameReset at h
  exact congrArg (fun u => u.endOfString) h

theorem clear_slots_twice (n : Nat) (l : List (Option Nat)) :
    clear_slots n (clear_slots n l) = clear_slots n l := by
  unfold clear_slots
  simp only [List.length_append, List.length_replicate, List.length_drop]
  by_cases h : n ≤ l.length
  · have e1 : min n l.length = n := Nat.min_eq_left h
    rw [e1]
    have e2 : min n (n + (l.length - n)) = n := by omega
    rw [e2, List.drop_append_of_le_length (by rw [List.length_replicate])]
    simp
  · have e1 : min n l.length = l.length := Nat.min_eq_right (by omega)
    rw [e1]
    have e2 : min n (l.length + (l.length - n)) = l.length := by omega
    rw [e2]
    have e3 : l.drop n = [] := List.drop_eq_nil_of_le (by omega)
    rw [e3]
    simp
    omega

/-- The state of a try is the same, up to what `attempt` sets anew, as the state before. -/
theorem SameReset.of_attempt_state (regex : Regex) (p : Nat) (s : ExecState) :
    SameReset regex (attempt_state regex p s) s := by
  unfold SameReset attempt_state
  simp only [clear_slots_twice]

/-- The first node of a program is a BRANCH without an alternative: `match` goes on to its
operand. -/
theorem match_first_branch (program text : List Nat) (delimiters : List Bool) (F : Nat)
    (bip : Bool) (S : ExecState)
    (hb : getOpcode program (Ptr.prog REGEX_START_OFFSET) = BRANCH)
    (hn : getOpcode program (NEXT_PTR program (Ptr.prog REGEX_START_OFFSET)) ≠ BRANCH)
    (hrc : S.Recursion_Count < REGEX_RECURSION_LIMIT) :
    match_ program text delimiters (F + 3) (Ptr.prog REGEX_START_OFFSET) bip S
      = match_loop program text delimiters (F + 1) (OPERAND (Ptr.prog REGEX_START_OFFSET)) bip
          { S with Recursion_Count := S.Recursion_Count + 1 } := by
  rw [match_, if_neg (by omega), match_loop, if_neg (by decide), match_node]
  simp only []
  rw [if_pos hb, if_pos hn]

/-- A node that needs no recursion and does not match ends `match` with 0, the state as it
was at the entry of `match`. -/
theorem match_loop_plain_fail (program text : List Nat) (delimiters : List Bool) (F : Nat)
    (scan : Ptr) (bip : Bool) (S : ExecState) (hs : scan ≠ Ptr.null)
    (h1 : getOpcode program scan ≠ BRANCH)
    (h2 : ¬ (STAR ≤ getOpcode program scan ∧ getOpcode program scan ≤ LAZY_BRACE))
    (h3 : ¬ (getOpcode program scan = POS_AHEAD_OPEN ∨ getOpcode program scan = NEG_AHEAD_OPEN))
    (h4 : ¬ (getOpcode program scan = POS_BEHIND_OPEN
      ∨ getOpcode program scan = NEG_BEHIND_OPEN))
    (h5 : ¬ (OPEN < getOpcode program scan ∧ getOpcode program scan < OPEN + NSUBEXP))
    (h6 : ¬ (CLOSE < getOpcode program scan ∧ getOpcode program scan < CLOSE + NSUBEXP))
    (hf : match_plain program text delimiters scan (NEXT_PTR program scan) S
      = Step.done false S) :
    match_loop program text delimiters (F + 2) scan bip S
      = some (false, { S with Recursion_Count := S.Recursion_Count - 1 }) := by
  rw [match_loop, if_neg hs, match_node]
  simp only []
  rw [if_neg h1, if_neg h2, if_neg h3, if_neg h4, if_neg h5, if_neg h6, hf]
  rfl

theorem bol_node_fails (program text : List Nat) (delimiters : List Bool) (scan next : Ptr)
    (T : ExecState) (ho : getOpcode program scan = BOL)
    (hp : (if T.input = T.startOfString then T.prevIsBOL
           else decide (charAt text (T.input - 1) = 10)) = false) :
    match_plain program text delimiters scan next T = Step.done false T := by
  have hms : match_simple program text delimiters scan T = none := by
    unfold match_simple
    simp only [ho, BOL, if_true]
    rw [hp]
    rfl
  unfold match_plain
  simp only [ho, BOL, EXACTLY, SIMILAR, NOT_BOUNDARY]
  rw [if_neg (by decide), if_neg (by decide), if_pos (Or.inl ⟨by decide, by decide⟩)]
  have hms2 := hms
  simp only [BOL] at hms2
  rw [hms2]

/-- The function `attempt` on a regex that starts with the anchor `^`, at a position that is
not at the start of a line: `match` fails on the node BOL, and the state is the one that
`attempt` has set up. -/
theorem attempt_anchor_fails (regex : Regex) (text : List Nat) (delimiters : List Bool)
    (F p : Nat) (s : ExecState)
    (hb : getOpcode regex.program_ (Ptr.prog REGEX_START_OFFSET) = BRANCH)
    (hn : getOpcode regex.program_ (NEXT_PTR regex.program_ (Ptr.prog REGEX_START_OFFSET))
      ≠ BRANCH)
    (ho : getOpcode regex.program_ (OPERAND (Ptr.prog REGEX_START_OFFSET)) = BOL)
    (hp : (if p = s.startOfString then s.prevIsBOL else decide (charAt text (p - 1) = 10))
      = false) :
    attempt regex text delimiters (F + 4) p s = some (false, attempt_state regex p s) := by
  have hrc : (attempt_state regex p s).Recursion_Count < REGEX_RECURSION_LIMIT := by
    show 0 < REGEX_RECURSION_LIMIT
    decide
  have e1 := match_first_branch regex.program_ text delimiters (F + 1) true
    (attempt_state regex p s) hb hn hrc
  have e2 := match_loop_plain_fail regex.program_ text delimiters F
    (OPERAND (Ptr.prog REGEX_START_OFFSET)) true
    { attempt_state regex p s with
      Recursion_Count := (attempt_state regex p s).Recursion_Count + 1 } (by decide)
    (by rw [ho]; decide) (by rw [ho]; decide) (by rw [ho]; decide) (by rw [ho]; decide)
    (by rw [ho]; decide) (by rw [ho]; decide)
    (bol_node_fails regex.program_ text delimiters _ _ _ ho hp)
  rw [attempt_of_state, show F + 4 = (F + 1) + 3 from rfl, e1, show F + 1 + 1 = F + 2 from rfl,
    e2]
  rfl

theorem string_length_pos (program : List Nat) (p : Ptr) (h : peek program p 0 ≠ 0) :
    1 ≤ string_length program p := by
  cases p with
  | prog off =>
    unfold string_length
    simp only []
    unfold peek at h
    simp only [Nat.add_zero] at h
    cases hd : program.drop off with
    | nil =>
      exfalso
      apply h
      rw [List.getD_eq_getElem?_getD]
      have : off ≥ program.length := by
        have := congrArg List.length hd
        simp only [List.length_drop, List.length_nil] at this
        omega
      rw [List.getElem?_eq_none (by omega)]
      rfl
    | cons a l =>
      have ha : a = program.getD off 0 := by
        have h0 : (program.drop off).getD 0 0 = a := by rw [hd]; rfl
        rw [← h0, List.getD_eq_getElem?_getD, List.getD_eq_getElem?_getD, List.getElem?_drop]
        rfl
      rw [List.takeWhile_cons]
      have : decide (a ≠ 0) = true := by
        rw [ha]
        exact decide_eq_true h
      rw [this]
      simp only [if_true, List.length_cons]
      omega
  | null => exact absurd rfl h
  | one => exact absurd rfl h
  | Compute_Size => exact absurd rfl h

theorem exactly_node_fails (program text : List Nat) (delimiters : List Bool) (scan next : Ptr)
    (T : ExecState) (c : Nat) (ho : getOpcode program scan = EXACTLY)
    (hc : peek program (OPERAND scan) 0 = c) (hc0 : c ≠ 0)
    (hp : charAt text T.input ≠ c ∨ atEndOfString text T.endOfString T.input = true) :
    match_plain program text delimiters scan next T = Step.done false T := by
  have hex : match_exactly program text scan T = none := by
    unfold match_exactly
    simp only []
    by_cases h1 : (peek program (OPERAND scan) 0 : Int) ≠ schar (charAt text T.input)
    · rw [if_pos h1]
    · rw [if_neg h1]
      have h1' : charAt text T.input = c := by
        rw [← hc]
        exact ((schar_eq_iff _ _).mp (not_not.mp h1)).1.symm
      have hat : atEndOfString text T.endOfString T.input = true := by
        rcases hp with h | h
        · exact absurd h1' h
        · exact h
      have hre : reachedEnd T.endOfString T.input = true := by
        unfold atEndOfString at hat
        rw [Bool.or_eq_true] at hat
        rcases hat with h | h
        · rw [decide_eq_true_eq, h1'] at h
          exact absurd h hc0
        · exact h
      have hl := string_length_pos program (OPERAND scan) (by rw [hc]; exact hc0)
      have hpe : pastEnd T.endOfString (T.input + string_length program (OPERAND scan))
          = true := by
        unfold reachedEnd at hre
        unfold pastEnd
        cases he : T.endOfString with
        | none => rw [he] at hre; cases hre
        | some e =>
          rw [he] at hre
          simp only [decide_eq_true_eq] at hre ⊢
          omega
      rw [if_pos hpe]
  unfold match_plain
  simp only [ho, EXACTLY, if_true]
  have hex2 := hex
  simp only [EXACTLY] at hex2
  rw [hex2]

theorem greedy_none (program text : List Nat) (delimiters : List Bool) (p : Ptr) (max : Nat)
    (T : ExecState)
    (h : greedy_test program delimiters p (charAt text T.input) = false
      ∨ atEndOfString text T.endOfString T.input = true) :
    greedy program text delimiters p max T = (0, T) := by
  obtain ⟨c, e, _, _, hrun, _⟩ := greedy_spec program text delimiters p max _ T rfl
  have hc : c = 0 := by
    by_contra hne
    obtain ⟨h1, h2⟩ := hrun 0 (by omega)
    rw [Nat.add_zero] at h1 h2
    rcases h with h | h
    · rw [h] at h1; cases h1
    · rw [h] at h2; cases h2
  rw [e, hc]
  rfl

/-- A repetition node `x+` or `x+?` whose operand is an EXACTLY node ends `match` with 0 when
the character at the cursor is not the first character of the operand, or the cursor is at
the end of the string. -/
theorem match_loop_plus_fail (program text : List Nat) (delimiters : List Bool) (F : Nat)
    (scan : Ptr) (bip : Bool) (T : ExecState) (c : Nat) (hs : scan ≠ Ptr.null)
    (ho : getOpcode program scan = PLUS ∨ getOpcode program scan = LAZY_PLUS)
    (hx : getOpcode program (OPERAND scan) = EXACTLY)
    (hc : peek program (OPERAND (OPERAND scan)) 0 = c)
    (hp : charAt text T.input ≠ c ∨ atEndOfString text T.endOfString T.input = true) :
    match_loop program text delimiters (F + 3) scan bip T
      = some (false, { T with Recursion_Count := T.Recursion_Count - 1 }) := by
  have hgt : greedy_test program delimiters (OPERAND scan) (charAt text T.input) = false
      ∨ atEndOfString text T.endOfString T.input = true := by
    rcases hp with h | h
    · left
      unfold greedy_test
      simp only [hx, EXACTLY, ANY, EVERY]
      rw [if_pos trivial, hc]
      exact decide_eq_false (fun e => h ((schar_eq_iff _ _).mp e).1.symm)
    · exact Or.inr h
  rw [match_loop, if_neg hs, match_node]
  simp only []
  rcases ho with ho | ho
  · have hb : repeat_bounds program scan = (REG_ONE, ULONG_MAX, false, OPERAND scan) := by
      unfold repeat_bounds
      simp [ho]
    rw [if_neg (by rw [ho]; decide), if_pos (by rw [ho]; decide), hb]
    simp only [Bool.false_eq_true, if_false]
    rw [greedy_none program text delimiters (OPERAND scan) ULONG_MAX T hgt, match_repeat,
      if_pos (by simp [REG_ONE])]
    rfl
  · have hb : repeat_bounds program scan = (REG_ONE, ULONG_MAX, true, OPERAND scan) := by
      unfold repeat_bounds
      simp [ho]
    rw [if_neg (by rw [ho]; decide), if_pos (by rw [ho]; decide), hb]
    simp only [if_true]
    rw [if_pos (show REG_ONE > REG_ZERO by decide),
      greedy_none program text delimiters (OPERAND scan) REG_ONE T hgt,
      match_repeat, if_pos (by simp [REG_ONE])]
    rfl

/-- The function `attempt` on a regex whose matches start with the character `c`, at a
position that holds another character or is at the end of the string: `match` fails on the
first node, and the state is the one that `attempt` has set up. -/
theorem attempt_start_fails (regex : Regex) (text : List Nat) (delimiters : List Bool)
    (F p c : Nat) (s : ExecState) (hc0 : c ≠ 0)
    (hb : getOpcode regex.program_ (Ptr.prog REGEX_START_OFFSET) = BRANCH)
    (hn : getOpcode regex.program_ (NEXT_PTR regex.program_ (Ptr.prog REGEX_START_OFFSET))
      ≠ BRANCH)
    (ho : (getOpcode regex.program_ (OPERAND (Ptr.prog REGEX_START_OFFSET)) = EXACTLY
        ∧ peek regex.program_ (OPERAND (OPERAND (Ptr.prog REGEX_START_OFFSET))) 0 = c)
      ∨ ((getOpcode regex.program_ (OPERAND (Ptr.prog REGEX_START_OFFSET)) = PLUS
          ∨ getOpcode regex.program_ (OPERAND (Ptr.prog REGEX_START_OFFSET)) = LAZY_PLUS)
        ∧ getOpcode regex.program_ (OPERAND (OPERAND (Ptr.prog REGEX_START_OFFSET))) = EXACTLY
        ∧ peek regex.program_ (OPERAND (OPERAND (OPERAND (Ptr.prog REGEX_START_OFFSET)))) 0
            = c))
    (hp : charAt text p ≠ c ∨ atEndOfString text s.endOfString p = true) :
    attempt regex text delimiters (F + 5) p s = some (false, attempt_state regex p s) := by
  have hrc : (attempt_state regex p s).Recursion_Count < REGEX_RECURSION_LIMIT := by
    show 0 < REGEX_RECURSION_LIMIT
    decide
  have e1 := match_first_branch regex.program_ text delimiters (F + 2) true
    (attempt_state regex p s) hb hn hrc
  rw [attempt_of_state, show F + 5 = (F + 2) + 3 from rfl, e1]
  rcases ho with ⟨hop, hpk⟩ | ⟨hop, hx, hpk⟩
  · have e2 := match_loop_plain_fail regex.program_ text delimiters (F + 1)
      (OPERAND (Ptr.prog REGEX_START_OFFSET)) true
      { attempt_state regex p s with
        Recursion_Count := (attempt_state regex p s).Recursion_Count + 1 } (by decide)
      (by rw [hop]; decide) (by rw [hop]; decide) (by rw [hop]; decide) (by rw [hop]; decide)
      (by rw [hop]; decide) (by rw [hop]; decide)
      (exactly_node_fails regex.program_ text delimiters _ _ _ c hop hpk hc0 hp)
    rw [show F + 2 + 1 = (F + 1) + 2 from rfl, e2]
    rfl
  · have e2 := match_loop_plus_fail regex.program_ text delimiters F
      (OPERAND (Ptr.prog REGEX_START_OFFSET)) true
      { attempt_state regex p s with
        Recursion_Count := (attempt_state regex p s).Recursion_Count + 1 } c (by decide)
      hop hx hpk hp
    rw [show F + 2 + 1 = F + 3 from rfl, e2]
    rfl

theorem attempt_frame (regex : Regex) (text : List Nat) (delimiters : List Bool) (fuel p : Nat)
    (s : ExecState) (r : Bool × ExecState)
    (h : attempt regex text delimiters fuel p s = some r) : frame r.2 = frame s := by
  rw [attempt_of_state] at h
  cases hm : match_ regex.program_ text delimiters fuel (Ptr.prog REGEX_START_OFFSET) true
      (attempt_state regex p s) with
  | none => rw [hm] at h; cases h
  | some v =>
    rw [hm] at h
    have hv : frame v.2 = frame s :=
      (match_frame regex.program_ text delimiters fuel).1 _ _ (attempt_state regex p s) _ hm
    obtain ⟨x, st⟩ := v
    cases x <;> (cases h; exact hv)

theorem search_flag (regex : Regex) (text : List Nat) (delimiters : List Bool) (fuel : Nat)
    (ps : List Nat) (s : ExecState) (h : s.Recursion_Limit_Exceeded = true) :
    search_positions regex text delimiters fuel ps s = some (false, s) := by
  cases ps with
  | nil => rfl
  | cons p ps => rw [search_positions, if_pos h]

/-- The attempts of a search at the positions where `attempt` fails on the first node can be
left out: the outcome is the same. -/
theorem search_skip (regex : Regex) (text : List Nat) (delimiters : List Bool) (fuel : Nat)
    (eos : Option Nat) (fr : Nat × Nat × Bool × Bool × Bool × Bool) (cand : Nat → Bool) :
    ∀ (ps : List Nat) (s t : ExecState), SameReset regex s t →
      (s.Recursion_Limit_Exceeded = true ∨ (s.endOfString = eos ∧ frame s = fr)) →
      (∀ p ∈ ps, cand p = false → ∀ u : ExecState, u.Recursion_Limit_Exceeded = false →
        u.endOfString = eos → frame u = fr →
        attempt regex text delimiters fuel p u = some (false, attempt_state regex p u)) →
      SameOutcome regex (search_positions regex text delimiters fuel ps s)
        (search_positions regex text delimiters fuel (ps.filter cand) t) := by
  intro ps
  induction ps with
  | nil =>
    intro s t hst _ _
    exact hst
  | cons p ps ih =>
    intro s t hst hinv hfail
    have hfail2 : ∀ q ∈ ps, cand q = false → ∀ u : ExecState,
        u.Recursion_Limit_Exceeded = false → u.endOfString = eos → frame u = fr →
        attempt regex text delimiters fuel q u = some (false, attempt_state regex q u) :=
      fun q hq => hfail q (List.mem_cons_of_mem p hq)
    cases hf : s.Recursion_Limit_Exceeded with
    | true =>
      rw [search_flag regex text delimiters fuel _ s hf,
        search_flag regex text delimiters fuel _ t (hst.flag ▸ hf)]
      exact hst
    | false =>
      have hs2 : s.endOfString = eos ∧ frame s = fr := by
        rcases hinv with h | h
        · rw [hf] at h; cases h
        · exact h
      have hft : t.Recursion_Limit_Exceeded = false := hst.flag ▸ hf
      rw [search_positions, if_neg (by rw [hf]; decide)]
      cases hc : cand p with
      | true =>
        rw [List.filter_cons_of_pos hc, search_positions, if_neg (by rw [hft]; decide),
          ← hst.attempt_eq text delimiters fuel p]
        cases ha : attempt regex text delimiters fuel p s with
        | none => trivial
        | some r =>
          obtain ⟨x, s1⟩ := r
          cases x with
          | true => exact rfl
          | false =>
            simp only []
            refine ih s1 s1 (SameReset.reset_refl regex s1) ?_ hfail2
            have hst1 : Steady s s1 := attempt_steady regex text delimiters fuel p s _ ha
            have hfr1 : frame s1 = frame s := attempt_frame regex text delimiters fuel p s _ ha
            cases hf1 : s1.Recursion_Limit_Exceeded with
            | true => exact Or.inl rfl
            | false => exact Or.inr ⟨(hst1.2 hf1).trans hs2.1, hfr1.trans hs2.2⟩
      | false =>
        rw [List.filter_cons_of_neg (by rw [hc]; decide),
          hfail p (List.mem_cons_self p ps) hc s hf hs2.1 hs2.2]
        simp only []
        exact ih (attempt_state regex p s) t
          ((SameReset.of_attempt_state regex p s).reset_trans hst)
          (Or.inr ⟨hs2.1, hs2.2⟩) hfail2

/-- The forward loop of `ExecRE` for a regex with a known first character is the run of
attempts at the positions before the end of the string that hold this character. -/
theorem exec_forward_start (regex : Regex) (text : List Nat) (delimiters : List Bool)
    (fuel : Nat) (eos : Option Nat) (e : Nat)
    (he1 : atEndOfString text eos e = true) (k : Nat) :
    ∀ (str n : Nat) (st : ExecState), str + k = e → k < n →
      (∀ q, str ≤ q → q < e → atEndOfString text eos q = false) →
      (st.Recursion_Limit_Exceeded = true ∨ st.endOfString = eos) →
      (exec_forward regex text delimiters fuel 1 none n str st).map (fun r => (r.1, r.2.2))
        = search_positions regex text delimiters fuel
            ((List.range' str k).filter (fun p => decide (charAt text p = regex.match_start_)))
            st := by
  induction k with
  | zero =>
    intro str n st hk hn he2 hst
    have hstr : str = e := by omega
    subst hstr
    obtain ⟨m, rfl⟩ : ∃ m, n = m + 1 := ⟨n - 1, by omega⟩
    rw [exec_forward]
    cases hf : st.Recursion_Limit_Exceeded with
    | true =>
      rw [if_pos (Or.inr (Or.inr rfl))]
      rfl
    | false =>
      have heos : st.endOfString = eos := by
        rcases hst with h | h
        · rw [hf] at h; cases h
        · exact h
      rw [if_pos (Or.inl (by rw [heos]; exact he1))]
      rfl
  | succ k ih =>
    intro str n st hk hn he2 hst
    obtain ⟨m, rfl⟩ : ∃ m, n = m + 1 := ⟨n - 1, by omega⟩
    have hr : List.range' str (k + 1) = str :: List.range' (str + 1) k := rfl
    rw [exec_forward, hr]
    cases hf : st.Recursion_Limit_Exceeded with
    | true =>
      rw [if_pos (Or.inr (Or.inr rfl)), search_flag regex text delimiters fuel _ st hf]
      rfl
    | false =>
      have heos : st.endOfString = eos := by
        rcases hst with h | h
        · rw [hf] at h; cases h
        · exact h
      have hne : atEndOfString text st.endOfString str = false := by
        rw [heos]
        exact he2 str (Nat.le_refl _) (by omega)
      rw [if_neg (by simp [hne])]
      rw [if_neg (fun h => absurd h.1 (by decide))]
      by_cases hc : charAt text str = regex.match_start_
      · have hfc : (str :: List.range' (str + 1) k).filter
            (fun p => decide (charAt text p = regex.match_start_))
            = str :: (List.range' (str + 1) k).filter
                (fun p => decide (charAt text p = regex.match_start_)) :=
          List.filter_cons_of_pos (by simpa using hc)
        rw [if_neg (fun h => h.2 hc), hfc, search_positions,
          if_neg (show ¬ (st.Recursion_Limit_Exceeded = true) by rw [hf]; decide),
          if_neg (show ¬ ((1 : Nat) = 0) by decide)]
        cases ha : attempt regex text delimiters fuel str st with
        | none => rfl
        | some r =>
          obtain ⟨b, s1⟩ := r
          cases b with
          | true => rfl
          | false =>
            simp only []
            have hs1 : Steady st s1 := attempt_steady regex text delimiters fuel str st _ ha
            refine ih (str + 1) m s1 (by omega) (by omega)
              (fun q h1 h2 => he2 q (by omega) h2) ?_
            cases hf1 : s1.Recursion_Limit_Exceeded with
            | true => exact Or.inl rfl
            | false => exact Or.inr ((hs1.2 hf1).trans heos)
      · have hfc : (str :: List.range' (str + 1) k).filter
            (fun p => decide (charAt text p = regex.match_start_))
            = (List.range' (str + 1) k).filter
                (fun p => decide (charAt text p = regex.match_start_)) :=
          List.filter_cons_of_neg (by simpa using hc)
        rw [if_pos ⟨rfl, hc⟩, hfc]
        exact ih (str + 1) m st (by omega) (by omega) (fun q h1 h2 => he2 q (by omega) h2) hst

/-- The forward loop of `ExecRE` for a regex anchored at the start of a line is the run of
attempts at the positions after a newline that is before the end of the string. -/
theorem exec_forward_anchor (regex : Regex) (text : List Nat) (delimiters : List Bool)
    (fuel : Nat) (eos : Option Nat) (e : Nat)
    (he1 : atEndOfString text eos e = true) (k : Nat) :
    ∀ (str n : Nat) (st : ExecState), str + k = e → k < n →
      (∀ q, str ≤ q → q < e → atEndOfString text eos q = false) →
      (st.Recursion_Limit_Exceeded = true ∨ st.endOfString = eos) →
      (exec_forward regex text delimiters fuel 0 none n str st).map (fun r => (r.1, r.2.2))
        = search_positions regex text delimiters fuel
            (((List.range' str k).filter (fun p => decide (charAt text p = 10))).map
              (fun p => p + 1)) st := by
  induction k with
  | zero =>
    intro str n st hk hn he2 hst
    have hstr : str = e := by omega
    subst hstr
    obtain ⟨m, rfl⟩ : ∃ m, n = m + 1 := ⟨n - 1, by omega⟩
    rw [exec_forward]
    cases hf : st.Recursion_Limit_Exceeded with
    | true =>
      rw [if_pos (Or.inr (Or.inr rfl))]
      rfl
    | false =>
      have heos : st.endOfString = eos := by
        rcases hst with h | h
        · rw [hf] at h; cases h
        · exact h
      rw [if_pos (Or.inl (by rw [heos]; exact he1))]
      rfl
  | succ k ih =>
    intro str n st hk hn he2 hst
    obtain ⟨m, rfl⟩ : ∃ m, n = m + 1 := ⟨n - 1, by omega⟩
    have hr : List.range' str (k + 1) = str :: List.range' (str + 1) k := rfl
    rw [exec_forward, hr]
    cases hf : st.Recursion_Limit_Exceeded with
    | true =>
      rw [if_pos (Or.inr (Or.inr rfl)), search_flag regex text delimiters fuel _ st hf]
      rfl
    | false =>
      have heos : st.endOfString = eos := by
        rcases hst with h | h
        · rw [hf] at h; cases h
        · exact h
      have hne : atEndOfString text st.endOfString str = false := by
        rw [heos]
        exact he2 str (Nat.le_refl _) (by omega)
      rw [if_neg (by simp [hne])]
      by_cases hc : charAt text str = 10
      · have hfc : (str :: List.range' (str + 1) k).filter
            (fun p => decide (charAt text p = 10))
            = str :: (List.range' (str + 1) k).filter (fun p => decide (charAt text p = 10)) :=
          List.filter_cons_of_pos (by simpa using hc)
        rw [if_neg (fun h => h.2 hc), if_neg (fun h => absurd h.1 (by decide)),
          hfc, List.map_cons, search_positions,
          if_neg (show ¬ (st.Recursion_Limit_Exceeded = true) by rw [hf]; decide),
          if_pos (rfl : (0 : Nat) = 0)]
        cases ha : attempt regex text delimiters fuel (str + 1) st with
        | none => rfl
        | some r =>
          obtain ⟨b, s1⟩ := r
          cases b with
          | true => rfl
          | false =>
            simp only []
            have hs1 : Steady st s1 :=
              attempt_steady regex text delimiters fuel (str + 1) st _ ha
            refine ih (str + 1) m s1 (by omega) (by omega)
              (fun q h1 h2 => he2 q (by omega) h2) ?_
            cases hf1 : s1.Recursion_Limit_Exceeded with
            | true => exact Or.inl rfl
            | false => exact Or.inr ((hs1.2 hf1).trans heos)
      · have hfc : (str :: List.range' (str + 1) k).filter
            (fun p => decide (charAt text p = 10))
            = (List.range' (str + 1) k).filter (fun p => decide (charAt text p = 10)) :=
          List.filter_cons_of_neg (by simpa using hc)
        rw [if_pos ⟨rfl, hc⟩, hfc]
        exact ih (str + 1) m st (by omega) (by omega) (fun q h1 h2 => he2 q (by omega) h2) hst

theorem NEXT_PTR_start (program : List Nat) :
    NEXT_PTR program (Ptr.prog REGEX_START_OFFSET)
      = next_ptr program (Ptr.prog REGEX_START_OFFSET) := by
  unfold NEXT_PTR next_ptr
  rw [if_neg (show ¬ (Ptr.prog REGEX_START_OFFSET = Ptr.Compute_Size) by decide)]

/-- What the constructor has dug out of a program for an anchored search: the only top-level
branch starts with a node BOL. -/
theorem dig_out_anchor (program : List Nat) (h : (dig_out program).2 ≠ 0) :
    getOpcode program (NEXT_PTR program (Ptr.prog REGEX_START_OFFSET)) ≠ BRANCH
      ∧ getOpcode program (OPERAND (Ptr.prog REGEX_START_OFFSET)) = BOL := by
  unfold dig_out at h
  simp only [] at h
  rw [NEXT_PTR_start]
  by_cases h1 : getOpcode program (next_ptr program (Ptr.prog REGEX_START_OFFSET)) = END
  · rw [if_pos h1] at h
    refine ⟨by rw [h1]; decide, ?_⟩
    by_cases h2 : getOpcode program (OPERAND (Ptr.prog REGEX_START_OFFSET)) = EXACTLY
    · rw [if_pos h2] at h
      exact absurd rfl h
    · rw [if_neg h2] at h
      by_cases h3 : PLUS ≤ getOpcode program (OPERAND (Ptr.prog REGEX_START_OFFSET))
          ∧ getOpcode program (OPERAND (Ptr.prog REGEX_START_OFFSET)) ≤ LAZY_PLUS
      · rw [if_pos h3] at h
        split at h <;> exact absurd rfl h
      · rw [if_neg h3] at h
        by_cases h4 : getOpcode program (OPERAND (Ptr.prog REGEX_START_OFFSET)) = BOL
        · exact h4
        · rw [if_neg h4] at h
          exact absurd rfl h
  · rw [if_neg h1] at h
    exact absurd rfl h

/-- What the constructor has dug out of a program for a search with a known first character:
the only top-level branch starts with an EXACTLY node, or with `x+` or `x+?` on an EXACTLY
node, and the character is the first one of the operand of this node. -/
theorem dig_out_start (program : List Nat) (h : (dig_out program).1 ≠ 0) :
    getOpcode program (NEXT_PTR program (Ptr.prog REGEX_START_OFFSET)) ≠ BRANCH
      ∧ ((getOpcode program (OPERAND (Ptr.prog REGEX_START_OFFSET)) = EXACTLY
          ∧ peek program (OPERAND (OPERAND (Ptr.prog REGEX_START_OFFSET))) 0
              = (dig_out program).1)
        ∨ ((getOpcode program (OPERAND (Ptr.prog REGEX_START_OFFSET)) = PLUS
            ∨ getOpcode program (OPERAND (Ptr.prog REGEX_START_OFFSET)) = LAZY_PLUS)
          ∧ getOpcode program (OPERAND (OPERAND (Ptr.prog REGEX_START_OFFSET))) = EXACTLY
          ∧ peek program (OPERAND (OPERAND (OPERAND (Ptr.prog REGEX_START_OFFSET)))) 0
              = (dig_out program).1)) := by
  have hd : dig_out program = dig_out program := rfl
  revert h
  generalize hv : dig_out program = v
  intro h
  unfold dig_out at hv
  simp only [] at hv
  rw [NEXT_PTR_start]
  by_cases h1 : getOpcode program (next_ptr program (Ptr.prog REGEX_START_OFFSET)) = END
  · rw [if_pos h1] at hv
    refine ⟨by rw [h1]; decide, ?_⟩
    by_cases h2 : getOpcode program (OPERAND (Ptr.prog REGEX_START_OFFSET)) = EXACTLY
    · rw [if_pos h2] at hv
      left
      refine ⟨h2, ?_⟩
      rw [← hv]
    · rw [if_neg h2] at hv
      by_cases h3 : PLUS ≤ getOpcode program (OPERAND (Ptr.prog REGEX_START_OFFSET))
          ∧ getOpcode program (OPERAND (Ptr.prog REGEX_START_OFFSET)) ≤ LAZY_PLUS
      · rw [if_pos h3] at hv
        by_cases h4 : getOpcode program ((OPERAND (Ptr.prog REGEX_START_OFFSET)).add NodeSize)
            = EXACTLY
        · rw [if_pos h4] at hv
          right
          refine ⟨?_, h4, ?_⟩
          · simp only [PLUS, LAZY_PLUS] at h3 ⊢
            omega
          · rw [← hv]
            rfl
        · rw [if_neg h4] at hv
          rw [← hv] at h
          exact absurd rfl h
      · rw [if_neg h3] at hv
        rw [← hv] at h
        split at h <;> exact absurd rfl h
  · rw [if_neg h1] at hv
    rw [← hv] at h
    exact absurd rfl h

theorem range_filter_start (text : List Nat) (c string k : Nat) :
    (List.range' string (k + 1)).filter
        (fun p => decide (p < string + k) && decide (charAt text p = c))
      = (List.range' string k).filter (fun p => decide (charAt text p = c)) := by
  rw [List.range'_1_concat, List.filter_append]
  have h1 : [string + k].filter
      (fun p => decide (p < string + k) && decide (charAt text p = c)) = [] := by
    simp
  rw [h1, List.append_nil]
  apply List.filter_congr
  intro p hp
  have hlt : p < string + k := (List.mem_range'_1.1 hp).2
  simp [hlt]

theorem range_succ_map (k : Nat) : ∀ string : Nat,
    List.range' (string + 1) k = (List.range' string k).map (fun p => p + 1) := by
  induction k with
  | zero => intro string; rfl
  | succ k ih =>
    intro string
    show (string + 1) :: List.range' (string + 1 + 1) k
      = (string + 1) :: (List.range' (string + 1) k).map (fun p => p + 1)
    rw [ih (string + 1)]

theorem range_filter_anchor (text : List Nat) (string k : Nat) :
    (List.range' string (k + 1)).filter
        (fun p => decide (p = string) || decide (charAt text (p - 1) = 10))
      = string :: ((List.range' string k).filter
          (fun p => decide (charAt text p = 10))).map (fun p => p + 1) := by
  have h0 : List.range' string (k + 1) = string :: List.range' (string + 1) k := rfl
  have hfc : (string :: List.range' (string + 1) k).filter
        (fun p => decide (p = string) || decide (charAt text (p - 1) = 10))
      = string :: (List.range' (string + 1) k).filter
        (fun p => decide (p = string) || decide (charAt text (p - 1) = 10)) :=
    List.filter_cons_of_pos (by simp)
  rw [h0, hfc, range_succ_map, List.filter_map]
  congr 2
  apply List.filter_congr
  intro p hp
  have hge : string ≤ p := (List.mem_range'_1.1 hp).1
  have hne : ¬ (p + 1 = string) := by omega
  simp [Function.comp, hne]

theorem frame_startOfString {s t : ExecState} (h : frame s = frame t) :
    s.startOfString = t.startOfString :=
  congrArg (fun x : Nat × Nat × Bool × Bool × Bool × Bool => x.1) h

theorem frame_prevIsBOL {s t : ExecState} (h : frame s = frame t) :
    s.prevIsBOL = t.prevIsBOL :=
  congrArg (fun x : Nat × Nat × Bool × Bool × Bool × Bool => x.2.2.1) h

theorem SameOutcome.same_flag {regex : Regex} {a b : Option (Bool × ExecState)}
    (h : SameOutcome regex a b) : a.map Prod.fst = b.map Prod.fst := by
  cases a with
  | none =>
    cases b with
    | none => rfl
    | some y => obtain ⟨y1, y2⟩ := y; cases y1 <;> exact h.elim
  | some x =>
    obtain ⟨x1, x2⟩ := x
    cases b with
    | none => cases x1 <;> exact h.elim
    | some y =>
      obtain ⟨y1, y2⟩ := y
      cases x1 <;> cases y1 <;> first | rfl | exact h.elim

theorem SameOutcome.of_match {regex : Regex} {a b : Option (Bool × ExecState)}
    (h : SameOutcome regex a b) (st : ExecState) : a = some (true, st) ↔ b = some (true, st) := by
  cases a with
  | none =>
    cases b with
    | none => exact Iff.rfl
    | some y => obtain ⟨y1, y2⟩ := y; cases y1 <;> exact h.elim
  | some x =>
    obtain ⟨x1, x2⟩ := x
    cases b with
    | none => cases x1 <;> exact h.elim
    | some y =>
      obtain ⟨y1, y2⟩ := y
      cases x1 <;> cases y1
      · constructor <;> (intro h1; cases h1)
      · exact h.elim
      · exact h.elim
      · have h2 : x2 = y2 := h
        subst h2
        exact Iff.rfl

/-- The forward search of `ExecRE` for a regex with an anchor is the run of attempts at the
position `string` and at the positions after a newline. -/
theorem exec_search_anchor (regex : Regex) (text : List Nat) (delimiters : List Bool)
    (fuel string e : Nat) (st0 : ExecState) (ha : regex.anchor_ ≠ 0)
    (hse : string ≤ e) (hlen : e ≤ text.length)
    (he1 : atEndOfString text st0.endOfString e = true)
    (he2 : ∀ q, string ≤ q → q < e → atEndOfString text st0.endOfString q = false)
    (hfl : st0.Recursion_Limit_Exceeded = false) :
    exec_search regex text delimiters fuel string none Direction.Forward st0
      = search_positions regex text delimiters fuel
          (string :: ((List.range' string (e - string)).filter
            (fun p => decide (charAt text p = 10))).map (fun p => p + 1)) st0 := by
  unfold exec_search
  simp only []
  rw [if_pos ha, search_positions, if_neg (by rw [hfl]; decide)]
  cases hat : attempt regex text delimiters fuel string st0 with
  | none => rfl
  | some r =>
    obtain ⟨x, s1⟩ := r
    cases x with
    | true => rfl
    | false =>
      simp only []
      have hs1 : Steady st0 s1 := attempt_steady regex text delimiters fuel string st0 _ hat
      refine exec_forward_anchor regex text delimiters fuel st0.endOfString e he1 (e - string)
        string (text.length + 1 - string) s1 (by omega) (by omega) he2 ?_
      cases hf1 : s1.Recursion_Limit_Exceeded with
      | true => exact Or.inl rfl
      | false => exact Or.inr (hs1.2 hf1)

/-- The forward search of `ExecRE` for a regex with a known first character is the run of
attempts at the positions that hold this character. -/
theorem exec_search_start (regex : Regex) (text : List Nat) (delimiters : List Bool)
    (fuel string e : Nat) (st0 : ExecState) (ha : regex.anchor_ = 0)
    (hm : regex.match_start_ ≠ 0)
    (hse : string ≤ e) (hlen : e ≤ text.length)
    (he1 : atEndOfString text st0.endOfString e = true)
    (he2 : ∀ q, string ≤ q → q < e → atEndOfString text st0.endOfString q = false) :
    exec_search regex text delimiters fuel string none Direction.Forward st0
      = search_positions regex text delimiters fuel
          ((List.range' string (e - string)).filter
            (fun p => decide (charAt text p = regex.match_start_))) st0 := by
  unfold exec_search
  simp only []
  rw [if_neg (by rw [ha]; decide), if_pos hm]
  exact exec_forward_start regex text delimiters fuel st0.endOfString e he1 (e - string)
    string (text.length + 1 - string) st0 (by omega) (by omega) he2 (Or.inr rfl)

/-- The optimization info that `CompileRE` stores is what `dig_out` reads in the program. -/
theorem CompileRE_dig_out (exp : List Nat) (d : Nat) (re : Regex)
    (h : CompileRE exp d = .ok re) :
    re.match_start_ = (dig_out re.program_).1 ∧ re.anchor_ = (dig_out re.program_).2 := by
  unfold CompileRE at h
  split at h
  · cases h
  · split at h
    · cases h
    · split at h
      · cases h
      · split at h
        · cases h
        · simp only [Except.ok.injEq] at h
          subst h
          exact ⟨rfl, rfl⟩

/-- The filters of the forward search: the search of a regex with an anchor or a known first
character has the outcome of the search that tries every position. -/
theorem filtered_search (regex : Regex) (text : List Nat) (delimiters : List Bool)
    (F string e : Nat) (st0 : ExecState)
    (hb : getOpcode regex.program_ (Ptr.prog REGEX_START_OFFSET) = BRANCH)
    (hms : regex.match_start_ = (dig_out regex.program_).1)
    (han : regex.anchor_ = (dig_out regex.program_).2)
    (hfilter : regex.anchor_ ≠ 0 ∨ regex.match_start_ ≠ 0)
    (hse : string ≤ e) (hlen : e ≤ text.length)
    (he1 : atEndOfString text st0.endOfString e = true)
    (he2 : ∀ q, string ≤ q → q < e → atEndOfString text st0.endOfString q = false)
    (hfl : st0.Recursion_Limit_Exceeded = false)
    (hsos : st0.startOfString = string) :
    SameOutcome regex
      (search_positions regex text delimiters (F + 5) (List.range' string (e + 1 - string)) st0)
      (exec_search regex text delimiters (F + 5) string none Direction.Forward st0) := by
  have hk : e + 1 - string = (e - string) + 1 := by omega
  by_cases ha : regex.anchor_ = 0
  · have hm : regex.match_start_ ≠ 0 := by
      rcases hfilter with h | h
      · exact absurd ha h
      · exact h
    obtain ⟨hn, ho⟩ := dig_out_start regex.program_ (hms ▸ hm)
    rw [← hms] at ho
    rw [exec_search_start regex text delimiters (F + 5) string e st0 ha hm hse hlen he1 he2,
      hk, ← range_filter_start text regex.match_start_ string (e - string)]
    refine search_skip regex text delimiters (F + 5) st0.endOfString (frame st0) _ _ st0 st0
      (SameReset.reset_refl regex st0) (Or.inr ⟨rfl, rfl⟩) ?_
    intro p hp hc u hu hue hfr
    refine attempt_start_fails regex text delimiters F p regex.match_start_ u hm hb hn ho ?_
    have hpr := List.mem_range'_1.1 hp
    by_cases hpe : p < string + (e - string)
    · left
      simpa [hpe] using hc
    · right
      have hpe2 : p = e := by omega
      rw [hue, hpe2]
      exact he1
  · obtain ⟨hn, ho⟩ := dig_out_anchor regex.program_ (han ▸ ha)
    rw [exec_search_anchor regex text delimiters (F + 5) string e st0 ha hse hlen he1 he2 hfl,
      hk, ← range_filter_anchor text string (e - string)]
    refine search_skip regex text delimiters (F + 5) st0.endOfString (frame st0) _ _ st0 st0
      (SameReset.reset_refl regex st0) (Or.inr ⟨rfl, rfl⟩) ?_
    intro p hp hc u hu hue hfr
    refine attempt_anchor_fails regex text delimiters (F + 1) p u hb hn ho ?_
    have hus : u.startOfString = string := (frame_startOfString hfr).trans hsos
    simp only [Bool.or_eq_false_iff, decide_eq_false_iff_not] at hc
    rw [hus, if_neg hc.1]
    exact decide_eq_false hc.2

set_option maxRecDepth 100000 in
theorem filter_examples :
    (CompileRE (bytes "a") 0).map (fun r => r.program_ ++ [r.match_start_, r.anchor_])
        = .ok [156, 0, 0, 34, 0, 8, 7, 0, 5, 97, 0, 1, 0, 0, 0, 97, 0]
      ∧ (CompileRE (bytes "^a") 0).map (fun r => r.program_ ++ [r.match_start_, r.anchor_])
        = .ok [156, 0, 0, 34, 0, 11, 2, 0, 3, 7, 0, 5, 97, 0, 1, 0, 0, 0, 0, 1]
      ∧ (CompileRE (bytes "b+c") 0).map (fun r => r.program_ ++ [r.match_start_, r.anchor_])
        = .ok [156, 0, 0, 34, 0, 16, 29, 0, 8, 7, 0, 0, 98, 0, 7, 0, 5, 99, 0, 1, 0, 0, 0,
            98, 0]
      ∧ (compile_and_execute (bytes "a") 50 (bytes "xxab")).map
          (Option.map (fun x => (x.1, group x.2 0))) = .ok (some (true, [some 2, some 3]))
      ∧ (compile_and_execute (bytes "^a") 50 (bytes "ba\na")).map
          (Option.map (fun x => (x.1, group x.2 0))) = .ok (some (true, [some 3, some 4]))
      ∧ (compile_and_execute (bytes "b+c") 50 (bytes "abbbcb")).map
          (Option.map (fun x => (x.1, group x.2 0))) = .ok (some (true, [some 1, some 5]))
      ∧ (search_positions
            { program_ := [156, 0, 0, 34, 0, 11, 2, 0, 3, 7, 0, 5, 97, 0, 1, 0, 0, 0],
              match_start_ := 0, anchor_ := 1, Total_Paren := 1, Num_Braces := 0 }
            (bytes "ba\na") DefaultDelimiters 50 (List.range' 0 5) execute_state).map
          (fun x => (x.1, group x.2 0)) = some (true, [some 3, some 4]) := by
  decide!

set_option maxRecDepth 100000 in
theorem filter_skips_reset :
    (CompileRE (bytes "a") 0).map (fun r => r.program_ ++ [r.match_start_, r.anchor_])
        = .ok [156, 0, 0, 34, 0, 8, 7, 0, 5, 97, 0, 1, 0, 0, 0, 97, 0]
      ∧ (exec_search
            { program_ := [156, 0, 0, 34, 0, 8, 7, 0, 5, 97, 0, 1, 0, 0, 0], match_start_ := 97,
              anchor_ := 0, Total_Paren := 1, Num_Braces := 0 }
            (bytes "b") DefaultDelimiters 50 0 none Direction.Forward execute_state).map
          (fun x => (x.1, group x.2 0)) = some (false, [some 0, some 0])
      ∧ (search_positions
            { program_ := [156, 0, 0, 34, 0, 8, 7, 0, 5, 97, 0, 1, 0, 0, 0], match_start_ := 97,
              anchor_ := 0, Total_Paren := 1, Num_Braces := 0 }
            (bytes "b") DefaultDelimiters 50 (List.range' 0 (1 + 1 - 0)) execute_state).map
          (fun x => (x.1, group x.2 0)) = some (false, [none, none])
      ∧ (compile_and_execute (bytes "a") 50 (bytes "b")).map
          (Option.map (fun x => (x.1, group x.2 0))) = .ok (some (false, [some 0, some 0])) := by
  decide!

/-- C38, as the code has it: for a regex whose program starts with a BRANCH node and whose
first character and anchor are the ones that the constructor digs out of this program, one of
them being set, the forward search of `ExecRE` from `string` with no end pointer has the
outcome of the search that attempts every position from `string` up to and with the logical
end `e`: both return, the matched flag is the same, after a match the two states are the same
state, so all the capture offsets, and after a failure the two states agree once `attempt`
has reset them.  Every regex that `CompileRE` returns holds the first character and anchor
dug out of its program.  For `a` on `xxab`, `^a` on two lines and `b+c` the search finds the
match [2,3), [3,4) and [1,5). -/
theorem C38_start_filters (regex : Regex) (text : List Nat) (delimiters : List Bool)
    (F string e : Nat) (st0 : ExecState)
    (hb : getOpcode regex.program_ (Ptr.prog REGEX_START_OFFSET) = BRANCH)
    (hms : regex.match_start_ = (dig_out regex.program_).1)
    (han : regex.anchor_ = (dig_out regex.program_).2)
    (hfilter : regex.anchor_ ≠ 0 ∨ regex.match_start_ ≠ 0)
    (hse : string ≤ e) (hlen : e ≤ text.length)
    (he1 : atEndOfString text st0.endOfString e = true)
    (he2 : ∀ q, string ≤ q → q < e → atEndOfString text st0.endOfString q = false)
    (hfl : st0.Recursion_Limit_Exceeded = false)
    (hsos : st0.startOfString = string) :
    SameOutcome regex
        (search_positions regex text delimiters (F + 5) (List.range' string (e + 1 - string))
          st0)
        (exec_search regex text delimiters (F + 5) string none Direction.Forward st0)
      ∧ (search_positions regex text delimiters (F + 5) (List.range' string (e + 1 - string))
            st0).map Prod.fst
          = (exec_search regex text delimiters (F + 5) string none Direction.Forward st0).map
              Prod.fst
      ∧ (∀ st : ExecState,
          search_positions regex text delimiters (F + 5) (List.range' string (e + 1 - string))
              st0 = some (true, st)
            ↔ exec_search regex text delimiters (F + 5) string none Direction.Forward st0
              = some (true, st))
      ∧ (∀ (exp : List Nat) (d : Nat) (re : Regex), CompileRE exp d = .ok re →
          re.match_start_ = (dig_out re.program_).1 ∧ re.anchor_ = (dig_out re.program_).2)
      ∧ (compile_and_execute (bytes "a") 50 (bytes "xxab")).map
          (Option.map (fun x => (x.1, group x.2 0))) = .ok (some (true, [some 2, some 3]))
      ∧ (compile_and_execute (bytes "^a") 50 (bytes "ba\na")).map
          (Option.map (fun x => (x.1, group x.2 0))) = .ok (some (true, [some 3, some 4]))
      ∧ (compile_and_execute (bytes "b+c") 50 (bytes "abbbcb")).map
          (Option.map (fun x => (x.1, group x.2 0))) = .ok (some (true, [some 1, some 5])) := by
  have h := filtered_search regex text delimiters F string e st0 hb hms han hfilter hse hlen
    he1 he2 hfl hsos
  exact ⟨h, h.same_flag, fun st => h.of_match st, CompileRE_dig_out, filter_examples.2.2.2.1,
    filter_examples.2.2.2.2.1, filter_examples.2.2.2.2.2.1⟩

theorem C38_start_filters_witness :
    SameOutcome
      { program_ := [156, 0, 0, 34, 0, 11, 2, 0, 3, 7, 0, 5, 97, 0, 1, 0, 0, 0],
        match_start_ := 0, anchor_ := 1, Total_Paren := 1, Num_Braces := 0 }
      (search_positions
        { program_ := [156, 0, 0, 34, 0, 11, 2, 0, 3, 7, 0, 5, 97, 0, 1, 0, 0, 0],
          match_start_ := 0, anchor_ := 1, Total_Paren := 1, Num_Braces := 0 }
        (bytes "ba\na") DefaultDelimiters (45 + 5) (List.range' 0 (4 + 1 - 0)) execute_state)
      (exec_search
        { program_ := [156, 0, 0, 34, 0, 11, 2, 0, 3, 7, 0, 5, 97, 0, 1, 0, 0, 0],
          match_start_ := 0, anchor_ := 1, Total_Paren := 1, Num_Braces := 0 }
        (bytes "ba\na") DefaultDelimiters (45 + 5) 0 none Direction.Forward execute_state) :=
  (C38_start_filters _ (bytes "ba\na") DefaultDelimiters 45 0 4 execute_state (by decide)
    (by decide) (by decide) (Or.inl (by decide)) (by decide) (by decide) (by decide)
    (fun q _ h => by interval_cases q <;> decide) rfl rfl).1

/-- C38, the claim as it is written, on the regex `a` and the subject `b`: no position holds
the first character, so the filtered search makes no attempt and leaves the slots of group 0
as `ExecRE` has set them, at the start of the subject, while the search that attempts the
positions 0 and 1 has cleared them. -/
theorem C38_slots_after_failure :
    (exec_search
        { program_ := [156, 0, 0, 34, 0, 8, 7, 0, 5, 97, 0, 1, 0, 0, 0], match_start_ := 97,
          anchor_ := 0, Total_Paren := 1, Num_Braces := 0 }
        (bytes "b") DefaultDelimiters 50 0 none Direction.Forward execute_state).map
      (fun x => (x.1, group x.2 0))
      ≠ (search_positions
          { program_ := [156, 0, 0, 34, 0, 8, 7, 0, 5, 97, 0, 1, 0, 0, 0], match_start_ := 97,
            anchor_ := 0, Total_Paren := 1, Num_Braces := 0 }
          (bytes "b") DefaultDelimiters 50 (List.range' 0 (1 + 1 - 0)) execute_state).map
        (fun x => (x.1, group x.2 0))
      ∧ (CompileRE (bytes "a") 0).map (fun r => r.program_ ++ [r.match_start_, r.anchor_])
        = .ok [156, 0, 0, 34, 0, 8, 7, 0, 5, 97, 0, 1, 0, 0, 0, 97, 0]
      ∧ (compile_and_execute (bytes "a") 50 (bytes "b")).map
          (Option.map (fun x => (x.1, group x.2 0))) = .ok (some (false, [some 0, some 0]))
      ∧ (search_positions
          { program_ := [156, 0, 0, 34, 0, 8, 7, 0, 5, 97, 0, 1, 0, 0, 0], match_start_ := 97,
            anchor_ := 0, Total_Paren := 1, Num_Braces := 0 }
          (bytes "b") DefaultDelimiters 50 (List.range' 0 (1 + 1 - 0)) execute_state).map
        (fun x => (x.1, group x.2 0)) = some (false, [none, none]) := by
  refine ⟨?_, filter_skips_reset.1, filter_skips_reset.2.2.2, filter_skips_reset.2.2.1⟩
  rw [filter_skips_reset.2.1, filter_skips_reset.2.2.1]
  decide

/-! ### The test of the next character -/

theorem match_more_fuel (program text : List Nat) (delimiters : List Bool) (fuel k : Nat)
    (prog : Ptr) (bip : Bool) (s : ExecState) (r : Bool × ExecState)
    (h : match_ program text delimiters fuel prog bip s = some r) :
    match_ program text delimiters (fuel + k) prog bip s = some r := by
  induction k with
  | zero => exact h
  | succ k ih => exact (match_mono program text delimiters (fuel + k)).1 _ _ _ _ ih

/-- The continuation of a repetition is an EXACTLY node whose first character, an unsigned
byte, is not equal to the `char` at the cursor: `match` on it returns 0 and leaves the state
as it was, below the recursion limit. -/
theorem match_exactly_mismatch (program text : List Nat) (delimiters : List Bool) (F : Nat)
    (next : Ptr) (s : ExecState) (hop : getOpcode program next = EXACTLY)
    (hne : (peek program (OPERAND next) 0 : Int) ≠ schar (charAt text s.input))
    (hrc : s.Recursion_Count < REGEX_RECURSION_LIMIT) :
    match_ program text delimiters (F + 3) next false s = some (false, s) := by
  have hnn : next ≠ Ptr.null := by
    intro h
    rw [h] at hop
    have : getOpcode program Ptr.null = 0 := rfl
    rw [this] at hop
    cases hop
  have hex : match_exactly program text next { s with Recursion_Count := s.Recursion_Count + 1 }
      = none := by
    unfold match_exactly
    simp only []
    rw [if_pos hne]
  rw [match_, if_neg (by omega), match_loop, if_neg hnn, match_node]
  simp only [hop, EXACTLY, BRANCH, STAR, LAZY_BRACE, POS_AHEAD_OPEN, NEG_AHEAD_OPEN,
    POS_BEHIND_OPEN, NEG_BEHIND_OPEN, OPEN, CLOSE, NSUBEXP]
  rw [if_neg (by decide), if_neg (by decide), if_neg (by decide), if_neg (by decide),
    if_neg (by decide), if_neg (by decide)]
  unfold match_plain
  simp only [hop, EXACTLY, if_true]
  have hex2 := hex
  simp only [EXACTLY] at hex2
  rw [hex2]
  simp only [MATCH_RETURN, Nat.add_sub_cancel]

/-- With the test on the next character the loop of a repetition returns what it returns
without the test. -/
theorem repeat_of_plain (program text : List Nat) (delimiters : List Bool) (next next_op : Ptr)
    (nc min max : Nat) (lazy : Bool) (save : Nat)
    (hnc : nc ≠ 0 → getOpcode program next = EXACTLY ∧ peek program (OPERAND next) 0 = nc) :
    ∀ (F nm : Nat) (s : ExecState) (r : Step),
      s.Recursion_Count < REGEX_RECURSION_LIMIT → s.Recursion_Limit_Exceeded = false →
      match_repeat_plain program text delimiters F next next_op min max lazy save nm s = some r →
      match_repeat program text delimiters F next next_op nc min max lazy save nm s = some r := by
  intro F
  induction F with
  | zero =>
    intro nm s r _ _ h
    rw [match_repeat_plain] at h
    cases h
  | succ n ih =>
    intro nm s r hrc hfl h
    rw [match_repeat_plain] at h
    rw [match_repeat]
    by_cases h1 : ¬ (min ≤ nm ∧ nm ≤ max)
    · rw [if_pos h1] at h ⊢
      exact h
    rw [if_neg h1] at h ⊢
    simp only []
    cases hsub : match_ program text delimiters n next false s with
    | none => rw [hsub] at h; cases h
    | some v =>
      rw [hsub] at h
      have hcnt : v.2.Recursion_Count = s.Recursion_Count :=
        (match_count program text delimiters n).1 _ _ _ _ hsub
      by_cases hgo : (decide (nc = 0) || decide ((nc : Int) = schar (charAt text s.input))) = true
      · rw [if_pos hgo]
        obtain ⟨x, st⟩ := v
        cases x with
        | true => exact h
        | false =>
          simp only [] at h ⊢
          by_cases h2 : st.Recursion_Limit_Exceeded = true
          · rw [if_pos h2] at h
            rw [if_pos ⟨hgo, h2⟩]
            exact h
          · rw [if_neg h2] at h
            rw [if_neg (fun hh => h2 hh.2)]
            have hst : st.Recursion_Limit_Exceeded = false := by
              cases hb : st.Recursion_Limit_Exceeded
              · rfl
              · exact absurd hb h2
            have hrc2 : st.Recursion_Count < REGEX_RECURSION_LIMIT := by
              have : st.Recursion_Count = s.Recursion_Count := hcnt
              omega
            by_cases h3 : lazy = true
            · rw [if_pos h3] at h ⊢
              by_cases h4 : (greedy program text delimiters next_op 1 st).1 = 0
              · rw [if_pos h4] at h ⊢
                exact h
              · rw [if_neg h4] at h ⊢
                exact ih _ _ _ hrc2 hst h
            · rw [if_neg h3] at h ⊢
              by_cases h5 : nm > REG_ZERO
              · rw [if_pos h5] at h ⊢
                exact ih _ _ _ hrc2 hst h
              · rw [if_neg h5] at h ⊢
                by_cases h6 : min = REG_ZERO ∧ nm = REG_ZERO
                · rw [if_pos h6] at h ⊢
                  exact h
                · rw [if_neg h6] at h ⊢
                  exact ih _ _ _ hrc2 hst h
      · rw [if_neg hgo]
        have hnc0 : nc ≠ 0 := by
          intro h0
          rw [h0] at hgo
          exact hgo rfl
        have hne : (nc : Int) ≠ schar (charAt text s.input) := by
          intro he
          apply hgo
          rw [Bool.or_eq_true]
          exact Or.inr (decide_eq_true he)
        obtain ⟨hop, hpk⟩ := hnc hnc0
        have hv : v = (false, s) := by
          have e1 := match_more_fuel program text delimiters n 3 next false s v hsub
          have e2 := match_exactly_mismatch program text delimiters n next s hop
            (by rw [hpk]; exact hne) hrc
          rw [e1] at e2
          exact Option.some.inj e2
        subst hv
        simp only [] at h ⊢
        rw [if_neg (by rw [hfl]; decide)] at h
        rw [if_neg (fun hh => hgo hh.1)]
        by_cases h3 : lazy = true
        · rw [if_pos h3] at h ⊢
          by_cases h4 : (greedy program text delimiters next_op 1 s).1 = 0
          · rw [if_pos h4] at h ⊢
            exact h
          · rw [if_neg h4] at h ⊢
            exact ih _ _ _ hrc hfl h
        · rw [if_neg h3] at h ⊢
          by_cases h5 : nm > REG_ZERO
          · rw [if_pos h5] at h ⊢
            exact ih _ _ _ hrc hfl h
          · rw [if_neg h5] at h ⊢
            by_cases h6 : min = REG_ZERO ∧ nm = REG_ZERO
            · rw [if_pos h6] at h ⊢
              exact h
            · rw [if_neg h6] at h ⊢
              exact ih _ _ _ hrc hfl h

/-- Without the test on the next character the loop of a repetition returns what it returns
with the test, given the fuel for the calls that the test saves. -/
theorem plain_of_repeat (program text : List Nat) (delimiters : List Bool) (next next_op : Ptr)
    (nc min max : Nat) (lazy : Bool) (save : Nat)
    (hnc : nc ≠ 0 → getOpcode program next = EXACTLY ∧ peek program (OPERAND next) 0 = nc) :
    ∀ (F nm : Nat) (s : ExecState) (r : Step),
      s.Recursion_Count < REGEX_RECURSION_LIMIT → s.Recursion_Limit_Exceeded = false →
      match_repeat program text delimiters F next next_op nc min max lazy save nm s = some r →
      match_repeat_plain program text delimiters (F + 3) next next_op min max lazy save nm s
        = some r := by
  intro F
  induction F with
  | zero =>
    intro nm s r _ _ h
    rw [match_repeat] at h
    cases h
  | succ n ih =>
    intro nm s r hrc hfl h
    rw [match_repeat] at h
    rw [show n + 1 + 3 = (n + 3) + 1 from rfl, match_repeat_plain]
    by_cases h1 : ¬ (min ≤ nm ∧ nm ≤ max)
    · rw [if_pos h1] at h ⊢
      exact h
    rw [if_neg h1] at h ⊢
    simp only [] at h
    have rest : ∀ (st : ExecState), st.Recursion_Count < REGEX_RECURSION_LIMIT →
        st.Recursion_Limit_Exceeded = false →
        (if lazy = true then
          if (greedy program text delimiters next_op 1 st).1 = 0 then
            some (Step.done false (greedy program text delimiters next_op 1 st).2)
          else
            match_repeat program text delimiters n next next_op nc min max lazy save (nm + 1)
              { (greedy program text delimiters next_op 1 st).2 with input := save + (nm + 1) }
        else if nm > REG_ZERO then
          match_repeat program text delimiters n next next_op nc min max lazy save (nm - 1)
            { st with input := save + (nm - 1) }
        else if min = REG_ZERO ∧ nm = REG_ZERO then some (Step.done false st)
        else
          match_repeat program text delimiters n next next_op nc min max lazy save nm
            { st with input := save + nm }) = some r →
        (if lazy = true then
          if (greedy program text delimiters next_op 1 st).1 = 0 then
            some (Step.done false (greedy program text delimiters next_op 1 st).2)
          else
            match_repeat_plain program text delimiters (n + 3) next next_op min max lazy save
              (nm + 1)
              { (greedy program text delimiters next_op 1 st).2 with input := save + (nm + 1) }
        else if nm > REG_ZERO then
          match_repeat_plain program text delimiters (n + 3) next next_op min max lazy save
            (nm - 1) { st with input := save + (nm - 1) }
        else if min = REG_ZERO ∧ nm = REG_ZERO then some (Step.done false st)
        else
          match_repeat_plain program text delimiters (n + 3) next next_op min max lazy save nm
            { st with input := save + nm }) = some r := by
      intro st hrc2 hst hk
      by_cases h3 : lazy = true
      · rw [if_pos h3] at hk ⊢
        by_cases h4 : (greedy program text delimiters next_op 1 st).1 = 0
        · rw [if_pos h4] at hk ⊢
          exact hk
        · rw [if_neg h4] at hk ⊢
          exact ih _ _ _ hrc2 hst hk
      · rw [if_neg h3] at hk ⊢
        by_cases h5 : nm > REG_ZERO
        · rw [if_pos h5] at hk ⊢
          exact ih _ _ _ hrc2 hst hk
        · rw [if_neg h5] at hk ⊢
          by_cases h6 : min = REG_ZERO ∧ nm = REG_ZERO
          · rw [if_pos h6] at hk ⊢
            exact hk
          · rw [if_neg h6] at hk ⊢
            exact ih _ _ _ hrc2 hst hk
    by_cases hgo : (decide (nc = 0) || decide ((nc : Int) = schar (charAt text s.input))) = true
    · rw [if_pos hgo] at h
      cases hsub : match_ program text delimiters n next false s with
      | none => rw [hsub] at h; cases h
      | some v =>
        rw [hsub] at h
        rw [match_more_fuel program text delimiters n 3 next false s v hsub]
        have hcnt : v.2.Recursion_Count = s.Recursion_Count :=
          (match_count program text delimiters n).1 _ _ _ _ hsub
        obtain ⟨x, st⟩ := v
        cases x with
        | true => exact h
        | false =>
          simp only [] at h ⊢
          by_cases h2 : st.Recursion_Limit_Exceeded = true
          · rw [if_pos ⟨hgo, h2⟩] at h
            rw [if_pos h2]
            exact h
          · rw [if_neg (fun hh => h2 hh.2)] at h
            rw [if_neg h2]
            have hst : st.Recursion_Limit_Exceeded = false := by
              cases hb : st.Recursion_Limit_Exceeded
              · rfl
              · exact absurd hb h2
            have hrc2 : st.Recursion_Count < REGEX_RECURSION_LIMIT := by
              have : st.Recursion_Count = s.Recursion_Count := hcnt
              omega
            exact rest st hrc2 hst h
    · rw [if_neg hgo] at h
      have hnc0 : nc ≠ 0 := by
        intro h0
        rw [h0] at hgo
        exact hgo rfl
      have hne : (nc : Int) ≠ schar (charAt text s.input) := by
        intro he
        apply hgo
        rw [Bool.or_eq_true]
        exact Or.inr (decide_eq_true he)
      obtain ⟨hop, hpk⟩ := hnc hnc0
      rw [match_exactly_mismatch program text delimiters n next s hop (by rw [hpk]; exact hne)
        hrc]
      simp only [] at h ⊢
      rw [if_neg (fun hh => hgo hh.1)] at h
      rw [if_neg (by rw [hfl]; decide)]
      exact rest s hrc hfl h

/-- At the recursion limit the loop of a repetition returns 0 and leaves the capture slots and
the back-reference marks as they were, with the test on the next character and without. -/
theorem repeat_at_limit (program text : List Nat) (delimiters : List Bool) (next next_op : Ptr)
    (nc min max : Nat) (lazy : Bool) (save : Nat) :
    ∀ (F nm : Nat) (s : ExecState) (r : Step), REGEX_RECURSION_LIMIT ≤ s.Recursion_Count →
      (match_repeat program text delimiters F next next_op nc min max lazy save nm s = some r →
        (∃ t, r = Step.done false t ∧ t.startp_ = s.startp_ ∧ t.endp_ = s.endp_
          ∧ t.Back_Ref_Start = s.Back_Ref_Start ∧ t.Back_Ref_End = s.Back_Ref_End))
      ∧ (match_repeat_plain program text delimiters F next next_op min max lazy save nm s
          = some r →
        (∃ t, r = Step.done false t ∧ t.startp_ = s.startp_ ∧ t.endp_ = s.endp_
          ∧ t.Back_Ref_Start = s.Back_Ref_Start ∧ t.Back_Ref_End = s.Back_Ref_End)) := by
  intro F
  induction F with
  | zero =>
    intro nm s r _
    constructor
    · intro h
      rw [match_repeat] at h
      cases h
    · intro h
      rw [match_repeat_plain] at h
      cases h
  | succ n ih =>
    intro nm s r hlim
    constructor
    · intro h
      rw [match_repeat] at h
      by_cases h1 : ¬ (min ≤ nm ∧ nm ≤ max)
      · rw [if_pos h1] at h
        cases h
        exact ⟨s, rfl, rfl, rfl, rfl, rfl⟩
      rw [if_neg h1] at h
      simp only [] at h
      by_cases hgo : (decide (nc = 0) || decide ((nc : Int) = schar (charAt text s.input))) = true
      · rw [if_pos hgo] at h
        cases n with
        | zero =>
          rw [match_] at h
          cases h
        | succ m =>
          rw [match_, if_pos (by omega)] at h
          simp only [MATCH_RETURN] at h
          rw [if_pos ⟨hgo, trivial⟩] at h
          cases h
          exact ⟨_, rfl, rfl, rfl, rfl, rfl⟩
      · rw [if_neg hgo] at h
        simp only [] at h
        rw [if_neg (fun hh => hgo hh.1)] at h
        by_cases h3 : lazy = true
        · rw [if_pos h3] at h
          by_cases h4 : (greedy program text delimiters next_op 1 s).1 = 0
          · rw [if_pos h4] at h
            cases h
            exact ⟨_, rfl, rfl, rfl, rfl, rfl⟩
          · rw [if_neg h4] at h
            obtain ⟨t, e1, e2, e3, e4, e5⟩ := (ih _ _ r (show REGEX_RECURSION_LIMIT
              ≤ ({ (greedy program text delimiters next_op 1 s).2 with
                    input := save + (nm + 1) } : ExecState).Recursion_Count from hlim)).1 h
            exact ⟨t, e1, e2, e3, e4, e5⟩
        · rw [if_neg h3] at h
          by_cases h5 : nm > REG_ZERO
          · rw [if_pos h5] at h
            obtain ⟨t, e1, e2, e3, e4, e5⟩ := (ih _ _ r (show REGEX_RECURSION_LIMIT
              ≤ ({ s with input := save + (nm - 1) } : ExecState).Recursion_Count from hlim)).1 h
            exact ⟨t, e1, e2, e3, e4, e5⟩
          · rw [if_neg h5] at h
            by_cases h6 : min = REG_ZERO ∧ nm = REG_ZERO
            · rw [if_pos h6] at h
              cases h
              exact ⟨_, rfl, rfl, rfl, rfl, rfl⟩
            · rw [if_neg h6] at h
              obtain ⟨t, e1, e2, e3, e4, e5⟩ := (ih _ _ r (show REGEX_RECURSION_LIMIT
                ≤ ({ s with input := save + nm } : ExecState).Recursion_Count from hlim)).1 h
              exact ⟨t, e1, e2, e3, e4, e5⟩
    · intro h
      rw [match_repeat_plain] at h
      by_cases h1 : ¬ (min ≤ nm ∧ nm ≤ max)
      · rw [if_pos h1] at h
        cases h
        exact ⟨s, rfl, rfl, rfl, rfl, rfl⟩
      rw [if_neg h1] at h
      cases n with
      | zero =>
        rw [match_] at h
        cases h
      | succ m =>
        rw [match_, if_pos (by omega)] at h
        simp only [MATCH_RETURN] at h
        cases h
        exact ⟨_, rfl, rfl, rfl, rfl, rfl⟩

set_option maxRecDepth 100000 in
theorem pruning_examples :
    (CompileRE (bytes "a*b") 0).map (fun re => re.program_)
        = .ok [156, 0, 0, 34, 0, 16, 25, 0, 8, 7, 0, 0, 97, 0, 7, 0, 5, 98, 0, 1, 0, 0, 0]
      ∧ match_repeat [156, 0, 0, 34, 0, 16, 25, 0, 8, 7, 0, 0, 97, 0, 7, 0, 5, 98, 0, 1, 0, 0, 0]
          (bytes "aac") DefaultDelimiters 4 (Ptr.prog 14) (Ptr.prog 9) 98 0 ULONG_MAX false 0 2
          { execute_state with input := 2, Recursion_Count := 10000 }
        = some (Step.done false { execute_state with input := 0, Recursion_Count := 10000 })
      ∧ match_repeat_plain
          [156, 0, 0, 34, 0, 16, 25, 0, 8, 7, 0, 0, 97, 0, 7, 0, 5, 98, 0, 1, 0, 0, 0]
          (bytes "aac") DefaultDelimiters 7 (Ptr.prog 14) (Ptr.prog 9) 0 ULONG_MAX false 0 2
          { execute_state with input := 2, Recursion_Count := 10000 }
        = some (Step.done false { execute_state with input := 2, Recursion_Count := 10000,
                                                     Recursion_Limit_Exceeded := true }) := by
  refine ⟨by decide!, by decide!, by decide!⟩

set_option maxRecDepth 100000 in
theorem pruning_run :
    match_repeat [156, 0, 0, 34, 0, 16, 25, 0, 8, 7, 0, 0, 97, 0, 7, 0, 5, 98, 0, 1, 0, 0, 0]
        (bytes "aac") DefaultDelimiters 4 (Ptr.prog 14) (Ptr.prog 9)
        (if getOpcode [156, 0, 0, 34, 0, 16, 25, 0, 8, 7, 0, 0, 97, 0, 7, 0, 5, 98, 0, 1, 0, 0, 0]
            (Ptr.prog 14) = EXACTLY
         then peek [156, 0, 0, 34, 0, 16, 25, 0, 8, 7, 0, 0, 97, 0, 7, 0, 5, 98, 0, 1, 0, 0, 0]
            (OPERAND (Ptr.prog 14)) 0
         else 0) 0 ULONG_MAX false 0 2
        { execute_state with input := 2, Recursion_Count := 1 }
      = some (Step.done false { execute_state with input := 0, Recursion_Count := 1 }) := by
  decide!

/-- C39: the test on the next character in the loop of the repetition nodes of `match`, where
`next_char` is the first operand character of the EXACTLY node that follows, or 0.  Below the
recursion limit and with the recursion flag clear: when `next_char` is not 0 and differs from
the character at the cursor, `match` on what follows returns 0 and leaves the state as it
was; the loop with the test returns whatever the loop without the test returns, and the loop
without the test returns whatever the loop with the test returns, given three more units of
fuel for the calls that the test saves.  At the recursion limit both loops return 0 and leave
the capture slots and the back-reference marks as they were, but only the loop without the
test sets the recursion flag, as the run of `a*b` on `aac` shows. -/
theorem C39_next_char_pruning (program text : List Nat) (delimiters : List Bool)
    (next next_op : Ptr) (min max : Nat) (lazy : Bool) (save F nm : Nat) (s : ExecState)
    (r : Step) (hrc : s.Recursion_Count < REGEX_RECURSION_LIMIT)
    (hfl : s.Recursion_Limit_Exceeded = false) :
    ((if getOpcode program next = EXACTLY then peek program (OPERAND next) 0 else 0) ≠ 0 →
        (if getOpcode program next = EXACTLY then peek program (OPERAND next) 0 else 0)
          ≠ charAt text s.input →
        match_ program text delimiters (F + 3) next false s = some (false, s))
      ∧ (match_repeat_plain program text delimiters F next next_op min max lazy save nm s
            = some r →
          match_repeat program text delimiters F next next_op
            (if getOpcode program next = EXACTLY then peek program (OPERAND next) 0 else 0)
            min max lazy save nm s = some r)
      ∧ (match_repeat program text delimiters F next next_op
            (if getOpcode program next = EXACTLY then peek program (OPERAND next) 0 else 0)
            min max lazy save nm s = some r →
          match_repeat_plain program text delimiters (F + 3) next next_op min max lazy save nm s
            = some r)
      ∧ (∀ (t : ExecState) (q : Step), REGEX_RECURSION_LIMIT ≤ t.Recursion_Count →
          (match_repeat program text delimiters F next next_op
              (if getOpcode program next = EXACTLY then peek program (OPERAND next) 0 else 0)
              min max lazy save nm t = some q →
            (∃ u, q = Step.done false u ∧ u.startp_ = t.startp_ ∧ u.endp_ = t.endp_
              ∧ u.Back_Ref_Start = t.Back_Ref_Start ∧ u.Back_Ref_End = t.Back_Ref_End))
          ∧ (match_repeat_plain program text delimiters F next next_op min max lazy save nm t
              = some q →
            (∃ u, q = Step.done false u ∧ u.startp_ = t.startp_ ∧ u.endp_ = t.endp_
              ∧ u.Back_Ref_Start = t.Back_Ref_Start ∧ u.Back_Ref_End = t.Back_Ref_End)))
      ∧ (CompileRE (bytes "a*b") 0).map (fun re => re.program_)
        = .ok [156, 0, 0, 34, 0, 16, 25, 0, 8, 7, 0, 0, 97, 0, 7, 0, 5, 98, 0, 1, 0, 0, 0]
      ∧ match_repeat [156, 0, 0, 34, 0, 16, 25, 0, 8, 7, 0, 0, 97, 0, 7, 0, 5, 98, 0, 1, 0, 0, 0]
          (bytes "aac") DefaultDelimiters 4 (Ptr.prog 14) (Ptr.prog 9) 98 0 ULONG_MAX false 0 2
          { execute_state with input := 2, Recursion_Count := 10000 }
        = some (Step.done false { execute_state with input := 0, Recursion_Count := 10000 })
      ∧ match_repeat_plain
          [156, 0, 0, 34, 0, 16, 25, 0, 8, 7, 0, 0, 97, 0, 7, 0, 5, 98, 0, 1, 0, 0, 0]
          (bytes "aac") DefaultDelimiters 7 (Ptr.prog 14) (Ptr.prog 9) 0 ULONG_MAX false 0 2
          { execute_state with input := 2, Recursion_Count := 10000 }
        = some (Step.done false { execute_state with input := 2, Recursion_Count := 10000,
                                                     Recursion_Limit_Exceeded := true }) := by
  have hnc : (if getOpcode program next = EXACTLY then peek program (OPERAND next) 0 else 0) ≠ 0 →
      getOpcode program next = EXACTLY ∧ peek program (OPERAND next) 0
        = (if getOpcode program next = EXACTLY then peek program (OPERAND next) 0 else 0) := by
    intro h
    by_cases hop : getOpcode program next = EXACTLY
    · exact ⟨hop, by rw [if_pos hop]⟩
    · rw [if_neg hop] at h
      exact absurd rfl h
  refine ⟨?_, ?_, ?_, fun t q ht => repeat_at_limit program text delimiters next next_op _ min
    max lazy save F nm t q ht, pruning_examples⟩
  · intro h0 hne
    obtain ⟨hop, hpk⟩ := hnc h0
    exact match_exactly_mismatch program text delimiters F next s hop
      (by rw [hpk]; exact schar_ne_of_ne _ _ hne) hrc
  · exact repeat_of_plain program text delimiters next next_op _ min max lazy save hnc F nm s r
      hrc hfl
  · exact plain_of_repeat program text delimiters next next_op _ min max lazy save hnc F nm s r
      hrc hfl

theorem C39_next_char_pruning_witness :
    match_repeat_plain
        [156, 0, 0, 34, 0, 16, 25, 0, 8, 7, 0, 0, 97, 0, 7, 0, 5, 98, 0, 1, 0, 0, 0]
        (bytes "aac") DefaultDelimiters (4 + 3) (Ptr.prog 14) (Ptr.prog 9) 0 ULONG_MAX false 0 2
        { execute_state with input := 2, Recursion_Count := 1 }
      = some (Step.done false { execute_state with input := 0, Recursion_Count := 1 }) :=
  (C39_next_char_pruning [156, 0, 0, 34, 0, 16, 25, 0, 8, 7, 0, 0, 97, 0, 7, 0, 5, 98, 0, 1, 0,
      0, 0] (bytes "aac") DefaultDelimiters (Ptr.prog 14) (Ptr.prog 9) 0 ULONG_MAX false 0 4 2
      { execute_state with input := 2, Recursion_Count := 1 }
      (Step.done false { execute_state with input := 0, Recursion_Count := 1 })
      (by decide) (by decide)).2.2.1 pruning_run

/-! ### The span of group 0 -/

theorem SameSlots.slots_refl (s : ExecState) : SameSlots s s := ⟨rfl, rfl⟩

theorem SameSlots.slots_trans {s t u : ExecState} (h1 : SameSlots s t) (h2 : SameSlots t u) :
    SameSlots s u := ⟨h2.1.trans h1.1, h2.2.trans h1.2⟩

theorem SameSlots.of_lists {s t : ExecState} (h1 : t.startp_ = s.startp_)
    (h2 : t.endp_ = s.endp_) : SameSlots s t := ⟨by rw [h1], by rw [h2]⟩

theorem match_simple_ahead (program text : List Nat) (delimiters : List Bool) (scan : Ptr)
    (state : ExecState) (i : Nat)
    (h : match_simple program text delimiters scan state = some i) : state.input ≤ i := by
  unfold match_simple at h
  have ha : ∀ b : Bool, (if b = true then some (state.input + 1) else none) = some i →
      state.input ≤ i := by
    intro b hb
    cases b
    · cases hb
    · cases hb; exact Nat.le_succ _
  have hs : ∀ b : Bool, (if b = true then some state.input else none) = some i →
      state.input ≤ i := by
    intro b hb
    cases b
    · cases hb
    · cases hb; exact Nat.le_refl _
  by_cases hBOL : getOpcode program scan = BOL
  · rw [if_pos hBOL] at h; exact hs _ h
  rw [if_neg hBOL] at h
  by_cases hEOL : getOpcode program scan = EOL
  · rw [if_pos hEOL] at h; exact hs _ h
  rw [if_neg hEOL] at h
  by_cases hBOWORD : getOpcode program scan = BOWORD
  · rw [if_pos hBOWORD] at h; exact hs _ h
  rw [if_neg hBOWORD] at h
  by_cases hEOWORD : getOpcode program scan = EOWORD
  · rw [if_pos hEOWORD] at h; exact hs _ h
  rw [if_neg hEOWORD] at h
  by_cases hNOT_BOUNDARY : getOpcode program scan = NOT_BOUNDARY
  · rw [if_pos hNOT_BOUNDARY] at h; exact hs _ h
  rw [if_neg hNOT_BOUNDARY] at h
  by_cases hIS_DELIM : getOpcode program scan = IS_DELIM
  · rw [if_pos hIS_DELIM] at h; exact ha _ h
  rw [if_neg hIS_DELIM] at h
  by_cases hNOT_DELIM : getOpcode program scan = NOT_DELIM
  · rw [if_pos hNOT_DELIM] at h; exact ha _ h
  rw [if_neg hNOT_DELIM] at h
  by_cases hWORD_CHAR : getOpcode program scan = WORD_CHAR
  · rw [if_pos hWORD_CHAR] at h; exact ha _ h
  rw [if_neg hWORD_CHAR] at h
  by_cases hNOT_WORD_CHAR : getOpcode program scan = NOT_WORD_CHAR
  · rw [if_pos hNOT_WORD_CHAR] at h; exact ha _ h
  rw [if_neg hNOT_WORD_CHAR] at h
  by_cases hANY : getOpcode program scan = ANY
  · rw [if_pos hANY] at h; exact ha _ h
  rw [if_neg hANY] at h
  by_cases hEVERY : getOpcode program scan = EVERY
  · rw [if_pos hEVERY] at h; exact ha _ h
  rw [if_neg hEVERY] at h
  by_cases hDIGIT : getOpcode program scan = DIGIT
  · rw [if_pos hDIGIT] at h; exact ha _ h
  rw [if_neg hDIGIT] at h
  by_cases hNOT_DIGIT : getOpcode program scan = NOT_DIGIT
  · rw [if_pos hNOT_DIGIT] at h; exact ha _ h
  rw [if_neg hNOT_DIGIT] at h
  by_cases hLETTER : getOpcode program scan = LETTER
  · rw [if_pos hLETTER] at h; exact ha _ h
  rw [if_neg hLETTER] at h
  by_cases hNOT_LETTER : getOpcode program scan = NOT_LETTER
  · rw [if_pos hNOT_LETTER] at h; exact ha _ h
  rw [if_neg hNOT_LETTER] at h
  by_cases hSPACE : getOpcode program scan = SPACE
  · rw [if_pos hSPACE] at h; exact ha _ h
  rw [if_neg hSPACE] at h
  by_cases hSPACE_NL : getOpcode program scan = SPACE_NL
  · rw [if_pos hSPACE_NL] at h; exact ha _ h
  rw [if_neg hSPACE_NL] at h
  by_cases hNOT_SPACE : getOpcode program scan = NOT_SPACE
  · rw [if_pos hNOT_SPACE] at h; exact ha _ h
  rw [if_neg hNOT_SPACE] at h
  by_cases hNOT_SPACE_NL : getOpcode program scan = NOT_SPACE_NL
  · rw [if_pos hNOT_SPACE_NL] at h; exact ha _ h
  rw [if_neg hNOT_SPACE_NL] at h
  by_cases hANY_OF : getOpcode program scan = ANY_OF
  · rw [if_pos hANY_OF] at h; exact ha _ h
  rw [if_neg hANY_OF] at h
  by_cases hANY_BUT : getOpcode program scan = ANY_BUT
  · rw [if_pos hANY_BUT] at h; exact ha _ h
  rw [if_neg hANY_BUT] at h
  by_cases hlast : getOpcode program scan = NOTHING ∨ getOpcode program scan = BACK
  · rw [if_pos hlast] at h; exact hs true h
  rw [if_neg hlast] at h
  cases h

theorem match_exactly_ahead (program text : List Nat) (scan : Ptr) (state : ExecState) (i : Nat)
    (h : match_exactly program text scan state = some i) : state.input ≤ i := by
  unfold match_exactly at h
  simp only [] at h
  split_ifs at h
  first
    | (cases h; done)
    | (cases h; exact Nat.le_add_right _ _)

theorem match_similar_ahead (text : List Nat) (eos : Option Nat) :
    ∀ (opnd : List Nat) (input : Nat), input ≤ (match_similar text eos opnd input).2 := by
  intro opnd
  induction opnd with
  | nil => intro input; exact Nat.le_refl _
  | cons test opnd ih =>
    intro input
    rw [match_similar]
    split_ifs
    · exact Nat.le_refl _
    · exact Nat.le_refl _
    · exact Nat.le_succ _
    · exact Nat.le_trans (Nat.le_succ _) (ih (input + 1))

theorem match_back_ref_ahead (text : List Nat) (eos : Option Nat) (ci : Bool) :
    ∀ (n captured input : Nat), input ≤ (match_back_ref text eos ci n captured input).2 := by
  intro n
  induction n with
  | zero => intro captured input; exact Nat.le_refl _
  | succ n ih =>
    intro captured input
    rw [match_back_ref]
    split_ifs
    · exact Nat.le_refl _
    · exact Nat.le_succ _
    · exact Nat.le_succ _
    · exact Nat.le_trans (Nat.le_succ _) (ih (captured + 1) (input + 1))

theorem slots_same_update_extent_FW (s : ExecState) : SameSlots s (update_extent_FW s) := by
  unfold update_extent_FW
  split
  · exact ⟨rfl, rfl⟩
  · split <;> exact ⟨rfl, rfl⟩

theorem input_update_extent_FW (s : ExecState) : (update_extent_FW s).input = s.input := by
  unfold update_extent_FW
  split
  · rfl
  · split <;> rfl

theorem same_slots_match_plain (program text : List Nat) (delimiters : List Bool)
    (scan next : Ptr) (s : ExecState) :
    SameSlots s (match_plain program text delimiters scan next s).state :=
  SameSlots.of_lists
    (congrArg Prod.fst (slots_match_plain program text delimiters scan next s))
    (congrArg Prod.snd (slots_match_plain program text delimiters scan next s))

theorem ite_step {P : Step → Prop} {c : Prop} [Decidable c] {x y : Step}
    (hx : c → P x) (hy : ¬ c → P y) : P (if c then x else y) := by
  split
  · exact hx ‹_›
  · exact hy ‹_›

theorem ahead_match_plain (program text : List Nat) (delimiters : List Bool)
    (scan next : Ptr) (s : ExecState) :
    (match_plain program text delimiters scan next s).ahead s.input := by
  unfold match_plain
  simp only []
  apply ite_step (P := fun t => t.ahead s.input) <;> intro _
  · cases h : match_exactly program text scan s with
    | none => exact trivial
    | some i => exact match_exactly_ahead program text scan s i h
  apply ite_step (P := fun t => t.ahead s.input) <;> intro _
  · apply ite_step (P := fun t => t.ahead s.input) <;> intro _
    · exact match_similar_ahead text s.endOfString _ s.input
    · exact trivial
  apply ite_step (P := fun t => t.ahead s.input) <;> intro _
  · cases h : match_simple program text delimiters scan s with
    | none => exact trivial
    | some i => exact match_simple_ahead program text delimiters scan s i h
  apply ite_step (P := fun t => t.ahead s.input) <;> intro _
  · show s.input ≤ (update_extent_FW s).input
    rw [input_update_extent_FW]
  apply ite_step (P := fun t => t.ahead s.input) <;> intro _
  · exact Nat.le_refl _
  apply ite_step (P := fun t => t.ahead s.input) <;> intro _
  · exact Nat.le_refl _
  apply ite_step (P := fun t => t.ahead s.input) <;> intro _
  · apply ite_step (P := fun t => t.ahead s.input) <;> intro _ <;> exact Nat.le_refl _
  apply ite_step (P := fun t => t.ahead s.input) <;> intro _
  · split
    · apply ite_step (P := fun t => t.ahead s.input) <;> intro _
      · exact trivial
      · apply ite_step (P := fun t => t.ahead s.input) <;> intro _
        · exact match_back_ref_ahead text s.endOfString _ _ _ s.input
        · exact trivial
    · exact trivial
  apply ite_step (P := fun t => t.ahead s.input) <;> intro _
  · exact Nat.le_refl _
  · exact trivial

theorem greedy_state (program text : List Nat) (delimiters : List Bool) (p : Ptr) (max : Nat)
    (s : ExecState) :
    SameSlots s (greedy program text delimiters p max s).2
      ∧ s.input ≤ (greedy program text delimiters p max s).2.input := by
  obtain ⟨c, e, _⟩ := greedy_spec program text delimiters p max _ s rfl
  rw [e]
  exact ⟨⟨rfl, rfl⟩, Nat.le_add_right _ _⟩

/-- The cursor at a return of 1 from `match` is not before the cursor at the entry, and
`match` keeps the lengths of the arrays of capture slots. -/
theorem match_ahead (program text : List Nat) (delimiters : List Bool) (fuel : Nat) :
    (∀ (prog : Ptr) (bip : Bool) (s : ExecState) (r : Bool × ExecState),
      match_ program text delimiters fuel prog bip s = some r →
      SameSlots s r.2 ∧ (r.1 = true → s.input ≤ r.2.input))
    ∧ (∀ (scan : Ptr) (bip : Bool) (s : ExecState) (r : Bool × ExecState),
      match_loop program text delimiters fuel scan bip s = some r →
      SameSlots s r.2 ∧ (r.1 = true → s.input ≤ r.2.input))
    ∧ (∀ (scan : Ptr) (bip : Bool) (s : ExecState) (r : Step),
      match_node program text delimiters fuel scan bip s = some r →
      SameSlots s r.state ∧ r.ahead s.input)
    ∧ (∀ (scan : Ptr) (bil : Nat) (bip : Bool) (s : ExecState) (r : Step),
      match_branch program text delimiters fuel scan bil bip s = some r →
      SameSlots s r.state ∧ r.ahead s.input)
    ∧ (∀ (next next_op : Ptr) (nc min max : Nat) (lazy : Bool) (save nm : Nat) (s : ExecState)
        (r : Step), save ≤ s.input →
      match_repeat program text delimiters fuel next next_op nc min max lazy save nm s = some r →
      SameSlots s r.state ∧ r.ahead save)
    ∧ (∀ (next : Ptr) (save offset upper : Nat) (s : ExecState) (r : Option Bool × ExecState),
      match_behind program text delimiters fuel next save offset upper s = some r →
      SameSlots s r.2) := by
  induction fuel with
  | zero =>
    refine ⟨?_, ?_, ?_, ?_, ?_, ?_⟩
    · intro _ _ _ _ h; rw [match_] at h; cases h
    · intro _ _ _ _ h; rw [match_loop] at h; cases h
    · intro _ _ _ _ h; rw [match_node] at h; cases h
    · intro _ _ _ _ _ h; rw [match_branch] at h; cases h
    · intro _ _ _ _ _ _ _ _ _ _ _ h; rw [match_repeat] at h; cases h
    · intro _ _ _ _ _ _ h; rw [match_behind] at h; cases h
  | succ n ih =>
    obtain ⟨ihm, ihl, ihn, ihb, ihr, ihh⟩ := ih
    refine ⟨?_, ?_, ?_, ?_, ?_, ?_⟩
    · intro prog bip s r h
      rw [match_] at h
      by_cases hc : s.Recursion_Count + 1 > REGEX_RECURSION_LIMIT
      · rw [if_pos hc] at h
        cases h
        exact ⟨⟨rfl, rfl⟩, fun hx => by cases hx⟩
      · rw [if_neg hc] at h
        exact ihl _ _ { s with Recursion_Count := s.Recursion_Count + 1 } _ h
    · intro scan bip s r h
      rw [match_loop] at h
      by_cases hc : scan = Ptr.null
      · rw [if_pos hc] at h
        cases h
        exact ⟨⟨rfl, rfl⟩, fun hx => by cases hx⟩
      · rw [if_neg hc] at h
        cases hsub : match_node program text delimiters n scan bip s with
        | none => rw [hsub] at h; cases h
        | some v =>
          rw [hsub] at h
          have hv := ihn _ _ _ _ hsub
          cases v with
          | done x st =>
            cases h
            refine ⟨hv.1, ?_⟩
            intro hx
            have hx2 : x = true := hx
            subst hx2
            exact hv.2
          | next scan1 st =>
            have h2 := ihl _ _ _ _ h
            have hle : s.input ≤ st.input := hv.2
            exact ⟨hv.1.slots_trans h2.1, fun hx => Nat.le_trans hle (h2.2 hx)⟩
    · intro scan bip s r h
      rw [match_node] at h
      simp only [] at h
      by_cases h1 : getOpcode program scan = BRANCH
      · rw [if_pos h1] at h
        by_cases h2 : getOpcode program (NEXT_PTR program scan) ≠ BRANCH
        · rw [if_pos h2] at h
          cases h
          exact ⟨⟨rfl, rfl⟩, Nat.le_refl _⟩
        · rw [if_neg h2] at h
          exact ihb _ _ _ _ _ h
      rw [if_neg h1] at h
      by_cases h2 : STAR ≤ getOpcode program scan ∧ getOpcode program scan ≤ LAZY_BRACE
      · rw [if_pos h2] at h
        have hg : SameSlots s
            (if (repeat_bounds program scan).2.2.1 = true then
              (if (repeat_bounds program scan).1 > REG_ZERO then
                greedy program text delimiters (repeat_bounds program scan).2.2.2
                  (repeat_bounds program scan).1 s
               else (REG_ZERO, s))
             else greedy program text delimiters (repeat_bounds program scan).2.2.2
              (repeat_bounds program scan).2.1 s).2
            ∧ s.input ≤
              (if (repeat_bounds program scan).2.2.1 = true then
                (if (repeat_bounds program scan).1 > REG_ZERO then
                  greedy program text delimiters (repeat_bounds program scan).2.2.2
                    (repeat_bounds program scan).1 s
                 else (REG_ZERO, s))
               else greedy program text delimiters (repeat_bounds program scan).2.2.2
                (repeat_bounds program scan).2.1 s).2.input := by
          split
          · split
            · exact greedy_state _ _ _ _ _ _
            · exact ⟨⟨rfl, rfl⟩, Nat.le_refl _⟩
          · exact greedy_state _ _ _ _ _ _
        have hh := ihr _ _ _ _ _ _ _ _ _ _ hg.2 h
        exact ⟨hg.1.slots_trans hh.1, hh.2⟩
      rw [if_neg h2] at h
      by_cases h3 : getOpcode program scan = POS_AHEAD_OPEN
          ∨ getOpcode program scan = NEG_AHEAD_OPEN
      · rw [if_pos h3] at h
        cases hsub : match_ program text delimiters n (NEXT_PTR program scan) false
            { s with endOfString := none } with
        | none => rw [hsub] at h; cases h
        | some v =>
          rw [hsub] at h
          have hv : SameSlots s v.2 :=
            (ihm _ _ { s with endOfString := none } _ hsub).1
          obtain ⟨answer, st⟩ := v
          simp only [] at h
          by_cases h4 : st.Recursion_Limit_Exceeded = true
          · rw [if_pos h4] at h
            cases h
            exact ⟨hv, trivial⟩
          · rw [if_neg h4] at h
            have hu : SameSlots s (update_extent_FW st) :=
              hv.slots_trans (slots_same_update_extent_FW st)
            cases hsk : skip_branches program (program.length + 1)
                (next_ptr program (OPERAND scan)) with
            | none =>
              rw [hsk] at h
              simp only [] at h
              split_ifs at h <;> cases h <;> exact ⟨hv, trivial⟩
            | some c =>
              rw [hsk] at h
              simp only [] at h
              split_ifs at h <;> cases h <;>
                first
                | exact ⟨hv, trivial⟩
                | exact ⟨hu, Nat.le_refl _⟩
      rw [if_neg h3] at h
      by_cases h4 : getOpcode program scan = POS_BEHIND_OPEN
          ∨ getOpcode program scan = NEG_BEHIND_OPEN
      · rw [if_pos h4] at h
        cases hsub : match_behind program text delimiters n (NEXT_PTR program scan) s.input
            (getLower program scan) (getUpper program scan)
            { s with endOfString := some s.input } with
        | none => rw [hsub] at h; cases h
        | some v =>
          rw [hsub] at h
          have hv : SameSlots s v.2 :=
            ihh _ _ _ _ { s with endOfString := some s.input } _ hsub
          obtain ⟨found, st⟩ := v
          cases found with
          | none =>
            cases h
            exact ⟨hv, trivial⟩
          | some f =>
            simp only [] at h
            cases hsk : skip_branches program (program.length + 1)
                (next_ptr program ((OPERAND scan).add LengthSize)) with
            | none =>
              rw [hsk] at h
              simp only [] at h
              split_ifs at h <;> cases h <;> exact ⟨hv, trivial⟩
            | some c =>
              rw [hsk] at h
              simp only [] at h
              split_ifs at h <;> cases h <;>
                first
                | exact ⟨hv, trivial⟩
                | exact ⟨hv, Nat.le_refl _⟩
      rw [if_neg h4] at h
      by_cases h5 : OPEN < getOpcode program scan ∧ getOpcode program scan < OPEN + NSUBEXP
      · rw [if_pos h5] at h
        cases hsub : match_ program text delimiters n (NEXT_PTR program scan) false
            (if getOpcode program scan - OPEN < 10 then
              { s with Back_Ref_Start := s.Back_Ref_Start.set (getOpcode program scan - OPEN)
                         (some s.input),
                       Back_Ref_End := s.Back_Ref_End.set (getOpcode program scan - OPEN) none }
             else s) with
        | none => rw [hsub] at h; cases h
        | some v =>
          rw [hsub] at h
          have hv0 := ihm _ _ _ _ hsub
          have hv : SameSlots s v.2 ∧ (v.1 = true → s.input ≤ v.2.input) := by
            refine ⟨⟨hv0.1.1.trans ?_, hv0.1.2.trans ?_⟩, fun hx => Nat.le_trans ?_ (hv0.2 hx)⟩
            · split <;> rfl
            · split <;> rfl
            · split <;> exact Nat.le_refl _
          obtain ⟨x, st⟩ := v
          cases x with
          | true =>
            simp only [] at h
            split at h
            · cases h
              exact ⟨⟨by
                show (st.startp_.set _ _).length = s.startp_.length
                rw [List.length_set]
                exact hv.1.1, hv.1.2⟩, hv.2 rfl⟩
            · cases h
              exact ⟨hv.1, hv.2 rfl⟩
          | false =>
            cases h
            exact ⟨hv.1, trivial⟩
      rw [if_neg h5] at h
      by_cases h6 : CLOSE < getOpcode program scan ∧ getOpcode program scan < CLOSE + NSUBEXP
      · rw [if_pos h6] at h
        cases hsub : match_ program text delimiters n (NEXT_PTR program scan) false
            (if getOpcode program scan - CLOSE < 10 then
              { s with Back_Ref_End := s.Back_Ref_End.set (getOpcode program scan - CLOSE)
                         (some s.input) }
             else s) with
        | none => rw [hsub] at h; cases h
        | some v =>
          rw [hsub] at h
          have hv0 := ihm _ _ _ _ hsub
          have hv : SameSlots s v.2 ∧ (v.1 = true → s.input ≤ v.2.input) := by
            refine ⟨⟨hv0.1.1.trans ?_, hv0.1.2.trans ?_⟩, fun hx => Nat.le_trans ?_ (hv0.2 hx)⟩
            · split <;> rfl
            · split <;> rfl
            · split <;> exact Nat.le_refl _
          obtain ⟨x, st⟩ := v
          cases x with
          | true =>
            simp only [] at h
            split at h
            · cases h
              exact ⟨⟨hv.1.1, by
                show (st.endp_.set _ _).length = s.endp_.length
                rw [List.length_set]
                exact hv.1.2⟩, hv.2 rfl⟩
            · cases h
              exact ⟨hv.1, hv.2 rfl⟩
          | false =>
            cases h
            exact ⟨hv.1, trivial⟩
      rw [if_neg h6] at h
      cases h
      exact ⟨same_slots_match_plain _ _ _ _ _ _, ahead_match_plain _ _ _ _ _ _⟩
    · intro scan bil bip s r h
      rw [match_branch] at h
      cases hsub : match_ program text delimiters n (OPERAND scan) false s with
      | none => rw [hsub] at h; cases h
      | some v =>
        rw [hsub] at h
        have hv := ihm _ _ _ _ hsub
        obtain ⟨x, st⟩ := v
        cases x with
        | true =>
          cases h
          cases bip
          · exact ⟨hv.1, hv.2 rfl⟩
          · exact ⟨hv.1, hv.2 rfl⟩
        | false =>
          simp only [] at h
          by_cases hlim : st.Recursion_Limit_Exceeded = true
          · rw [if_pos hlim] at h
            cases h
            exact ⟨hv.1, trivial⟩
          · rw [if_neg hlim] at h
            by_cases hc : NEXT_PTR program scan ≠ Ptr.null
                ∧ getOpcode program (NEXT_PTR program scan) = BRANCH
            · rw [if_pos hc] at h
              have h2 := ihb _ _ _ { st with input := s.input } _ h
              exact ⟨hv.1.slots_trans h2.1, h2.2⟩
            · rw [if_neg hc] at h
              cases h
              exact ⟨hv.1, trivial⟩
    · intro next next_op nc min max lazy save nm s r hsave h
      rw [match_repeat] at h
      by_cases h1 : ¬ (min ≤ nm ∧ nm ≤ max)
      · rw [if_pos h1] at h
        cases h
        exact ⟨⟨rfl, rfl⟩, trivial⟩
      · rw [if_neg h1] at h
        simp only [] at h
        have key : ∀ (x : Bool) (st : ExecState) (go : Bool),
            SameSlots s st → (x = true → save ≤ st.input) →
            (match (some (x, st) : Option (Bool × ExecState)) with
              | none => none
              | some (true, st) => some (Step.done true st)
              | some (false, st) =>
                if go = true ∧ st.Recursion_Limit_Exceeded = true then some (Step.done false st)
                else if lazy = true then
                  if (greedy program text delimiters next_op 1 st).1 = 0 then
                    some (Step.done false (greedy program text delimiters next_op 1 st).2)
                  else
                    match_repeat program text delimiters n next next_op nc min max lazy save
                      (nm + 1)
                      { (greedy program text delimiters next_op 1 st).2 with
                        input := save + (nm + 1) }
                else if nm > REG_ZERO then
                  match_repeat program text delimiters n next next_op nc min max lazy save
                    (nm - 1) { st with input := save + (nm - 1) }
                else if min = REG_ZERO ∧ nm = REG_ZERO then some (Step.done false st)
                else
                  match_repeat program text delimiters n next next_op nc min max lazy save
                    nm { st with input := save + nm }) = some r →
            SameSlots s r.state ∧ r.ahead save := by
          intro x st go hst hin hk
          cases x with
          | true =>
            cases hk
            exact ⟨hst, hin rfl⟩
          | false =>
            simp only [] at hk
            by_cases h2 : go = true ∧ st.Recursion_Limit_Exceeded = true
            · rw [if_pos h2] at hk
              cases hk
              exact ⟨hst, trivial⟩
            · rw [if_neg h2] at hk
              have hgs := (greedy_state program text delimiters next_op 1 st).1
              by_cases h3 : lazy = true
              · rw [if_pos h3] at hk
                by_cases h4 : (greedy program text delimiters next_op 1 st).1 = 0
                · rw [if_pos h4] at hk
                  cases hk
                  exact ⟨hst.slots_trans hgs, trivial⟩
                · rw [if_neg h4] at hk
                  have h5 := ihr _ _ _ _ _ _ _ _
                    { (greedy program text delimiters next_op 1 st).2 with
                      input := save + (nm + 1) } _ (Nat.le_add_right _ _) hk
                  exact ⟨(hst.slots_trans hgs).slots_trans h5.1, h5.2⟩
              · rw [if_neg h3] at hk
                by_cases h5 : nm > REG_ZERO
                · rw [if_pos h5] at hk
                  have h6 := ihr _ _ _ _ _ _ _ _ { st with input := save + (nm - 1) } _
                    (Nat.le_add_right _ _) hk
                  exact ⟨hst.slots_trans h6.1, h6.2⟩
                · rw [if_neg h5] at hk
                  by_cases h6 : min = REG_ZERO ∧ nm = REG_ZERO
                  · rw [if_pos h6] at hk
                    cases hk
                    exact ⟨hst, trivial⟩
                  · rw [if_neg h6] at hk
                    have h7 := ihr _ _ _ _ _ _ _ _ { st with input := save + nm } _
                      (Nat.le_add_right _ _) hk
                    exact ⟨hst.slots_trans h7.1, h7.2⟩
        by_cases hgo : (decide (nc = 0) || decide ((nc : Int) = schar (charAt text s.input))) = true
        · rw [if_pos hgo] at h
          cases hsub : match_ program text delimiters n next false s with
          | none => rw [hsub] at h; cases h
          | some v =>
            rw [hsub] at h
            have hv := ihm _ _ _ _ hsub
            exact key v.1 v.2 _ hv.1 (fun hx => Nat.le_trans hsave (hv.2 hx)) h
        · rw [if_neg hgo] at h
          exact key false s _ ⟨rfl, rfl⟩ (fun hx => by cases hx) h
    · intro next save offset upper s r h
      rw [match_behind] at h
      by_cases h1 : offset > upper
      · rw [if_pos h1] at h
        cases h
        exact ⟨rfl, rfl⟩
      · rw [if_neg h1] at h
        by_cases h2 : save < s.lookBehindTo + offset
        · rw [if_pos h2] at h
          cases h
          exact ⟨rfl, rfl⟩
        · rw [if_neg h2] at h
          cases hsub : match_ program text delimiters n next false
              { s with input := save - offset } with
          | none => rw [hsub] at h; cases h
          | some v =>
            rw [hsub] at h
            have hv : SameSlots s v.2 :=
              (ihm _ _ { s with input := save - offset } _ hsub).1
            obtain ⟨answer, st⟩ := v
            simp only [] at h
            by_cases h3 : st.Recursion_Limit_Exceeded = true
            · rw [if_pos h3] at h
              cases h
              exact hv
            · rw [if_neg h3] at h
              by_cases h4 : answer = true ∧ st.input = save
              · rw [if_pos h4] at h
                cases h
                show SameSlots s (match st.Extent_Ptr_BW with
                  | none => { st with Extent_Ptr_BW := some (save - offset) }
                  | some e =>
                    if e > save - offset then { st with Extent_Ptr_BW := some (save - offset) }
                    else st)
                split
                · exact hv
                · split <;> exact hv
              · rw [if_neg h4] at h
                exact hv.slots_trans (ihh _ _ _ _ _ _ h)

theorem clear_slots_length (n : Nat) (l : List (Option Nat)) :
    (clear_slots n l).length = l.length := by
  unfold clear_slots
  simp only [List.length_append, List.length_replicate, List.length_drop]
  omega

theorem attempt_slots (regex : Regex) (text : List Nat) (delimiters : List Bool) (fuel p : Nat)
    (s : ExecState) (r : Bool × ExecState)
    (h : attempt regex text delimiters fuel p s = some r) : SameSlots s r.2 := by
  rw [attempt_of_state] at h
  cases hm : match_ regex.program_ text delimiters fuel (Ptr.prog REGEX_START_OFFSET) true
      (attempt_state regex p s) with
  | none => rw [hm] at h; cases h
  | some v =>
    rw [hm] at h
    have hv := ((match_ahead regex.program_ text delimiters fuel).1 _ _ _ _ hm).1
    have h0 : SameSlots s (attempt_state regex p s) :=
      ⟨clear_slots_length _ _, clear_slots_length _ _⟩
    obtain ⟨x, st⟩ := v
    cases x with
    | true =>
      cases h
      exact ⟨by
        show (st.startp_.set 0 (some p)).length = s.startp_.length
        rw [List.length_set]
        exact (h0.slots_trans hv).1, by
        show (st.endp_.set 0 (some st.input)).length = s.endp_.length
        rw [List.length_set]
        exact (h0.slots_trans hv).2⟩
    | false =>
      cases h
      exact h0.slots_trans hv

/-- After a successful attempt at `p` the slots of group 0 hold `p` and the cursor at the
return of `match`, which is not before `p`. -/
theorem attempt_span (regex : Regex) (text : List Nat) (delimiters : List Bool) (fuel p : Nat)
    (s st : ExecState) (hl : 0 < s.startp_.length) (hle : 0 < s.endp_.length)
    (h : attempt regex text delimiters fuel p s = some (true, st)) :
    ∃ q, p ≤ q ∧ group st 0 = [some p, some q] := by
  have h2 := h
  rw [attempt_of_state] at h2
  cases hm : match_ regex.program_ text delimiters fuel (Ptr.prog REGEX_START_OFFSET) true
      (attempt_state regex p s) with
  | none => rw [hm] at h2; cases h2
  | some v =>
    rw [hm] at h2
    have hv := (match_ahead regex.program_ text delimiters fuel).1 _ _ _ _ hm
    have h0 : SameSlots s (attempt_state regex p s) :=
      ⟨clear_slots_length _ _, clear_slots_length _ _⟩
    obtain ⟨x, st1⟩ := v
    cases x with
    | false => cases h2
    | true =>
      have hin : p ≤ st1.input := hv.2 rfl
      have hl1 : 0 < st1.startp_.length := by
        rw [(h0.slots_trans hv.1).1]; exact hl
      have hl2 : 0 < st1.endp_.length := by
        rw [(h0.slots_trans hv.1).2]; exact hle
      cases h2
      refine ⟨st1.input, hin, ?_⟩
      show [(st1.startp_.set 0 (some p)).getD 0 none,
        (st1.endp_.set 0 (some st1.input)).getD 0 none] = [some p, some st1.input]
      simp [List.getD_eq_getElem?_getD, List.getElem?_set, hl1, hl2]

theorem exec_forward_span (regex : Regex) (text : List Nat) (delimiters : List Bool)
    (fuel kind string : Nat) (end_ : Option Nat) :
    ∀ (n str : Nat) (st : ExecState) (r : Bool × Nat × ExecState), string ≤ str →
      0 < st.startp_.length → 0 < st.endp_.length →
      exec_forward regex text delimiters fuel kind end_ n str st = some r →
      (0 < r.2.2.startp_.length ∧ 0 < r.2.2.endp_.length ∧ string ≤ r.2.1)
        ∧ (r.1 = true → SpanOfAttempt regex text delimiters fuel string r.2.2) := by
  intro n
  induction n with
  | zero => intro str st r _ _ _ h; rw [exec_forward] at h; cases h
  | succ n ih =>
    intro str st r hs hl hle h
    rw [exec_forward] at h
    by_cases h1 : atEndOfString text st.endOfString str = true ∨ end_ = some str
        ∨ st.Recursion_Limit_Exceeded = true
    · rw [if_pos h1] at h
      cases h
      exact ⟨⟨hl, hle, hs⟩, fun hx => by cases hx⟩
    rw [if_neg h1] at h
    by_cases h2 : kind = 0 ∧ charAt text str ≠ 10
    · rw [if_pos h2] at h
      exact ih _ _ _ (Nat.le_succ_of_le hs) hl hle h
    rw [if_neg h2] at h
    by_cases h3 : kind = 1 ∧ charAt text str ≠ regex.match_start_
    · rw [if_pos h3] at h
      exact ih _ _ _ (Nat.le_succ_of_le hs) hl hle h
    rw [if_neg h3] at h
    cases ha : attempt regex text delimiters fuel (if kind = 0 then str + 1 else str) st with
    | none => rw [ha] at h; cases h
    | some v =>
      rw [ha] at h
      have hv := attempt_slots regex text delimiters fuel _ st _ ha
      obtain ⟨x, st1⟩ := v
      have hl1 : 0 < st1.startp_.length := by rw [hv.1]; exact hl
      have hl2 : 0 < st1.endp_.length := by rw [hv.2]; exact hle
      cases x with
      | true =>
        cases h
        refine ⟨⟨hl1, hl2, hs⟩, fun _ => ?_⟩
        obtain ⟨q, hq, hg⟩ := attempt_span regex text delimiters fuel _ st st1 hl hle ha
        refine ⟨_, q, st, ?_, hq, ha, hg⟩
        split
        · exact Nat.le_succ_of_le hs
        · exact hs
      | false =>
        exact ih _ _ _ (Nat.le_succ_of_le hs) hl1 hl2 h

theorem exec_backward_span (regex : Regex) (text : List Nat) (delimiters : List Bool)
    (fuel kind string : Nat) :
    ∀ (n : Nat) (st : ExecState) (r : Bool × ExecState),
      0 < st.startp_.length → 0 < st.endp_.length →
      exec_backward regex text delimiters fuel kind string n st = some r →
      (0 < r.2.startp_.length ∧ 0 < r.2.endp_.length)
        ∧ (r.1 = true → SpanOfAttempt regex text delimiters fuel string r.2) := by
  intro n
  induction n with
  | zero =>
    intro st r hl hle h
    rw [exec_backward] at h
    cases h
    exact ⟨⟨hl, hle⟩, fun hx => by cases hx⟩
  | succ n ih =>
    intro st r hl hle h
    rw [exec_backward] at h
    by_cases h1 : st.Recursion_Limit_Exceeded = true
    · rw [if_pos h1] at h
      cases h
      exact ⟨⟨hl, hle⟩, fun hx => by cases hx⟩
    rw [if_neg h1] at h
    by_cases h2 : kind = 0 ∧ charAt text (string + n) ≠ 10
    · rw [if_pos h2] at h
      exact ih _ _ hl hle h
    rw [if_neg h2] at h
    by_cases h3 : kind = 1 ∧ charAt text (string + n) ≠ regex.match_start_
    · rw [if_pos h3] at h
      exact ih _ _ hl hle h
    rw [if_neg h3] at h
    cases ha : attempt regex text delimiters fuel
        (if kind = 0 then string + n + 1 else string + n) st with
    | none => rw [ha] at h; cases h
    | some v =>
      rw [ha] at h
      have hv := attempt_slots regex text delimiters fuel _ st _ ha
      obtain ⟨x, st1⟩ := v
      have hl1 : 0 < st1.startp_.length := by rw [hv.1]; exact hl
      have hl2 : 0 < st1.endp_.length := by rw [hv.2]; exact hle
      cases x with
      | true =>
        cases h
        refine ⟨⟨hl1, hl2⟩, fun _ => ?_⟩
        obtain ⟨q, hq, hg⟩ := attempt_span regex text delimiters fuel _ st st1 hl hle ha
        refine ⟨_, q, st, ?_, hq, ha, hg⟩
        split
        · omega
        · omega
      | false =>
        exact ih _ _ hl1 hl2 h

theorem map_some_true {r : Option (Bool × Nat × ExecState)} {st : ExecState}
    (h : r.map (fun r => (r.1, r.2.2)) = some (true, st)) :
    ∃ str, r = some (true, str, st) := by
  cases r with
  | none => cases h
  | some v =>
    obtain ⟨x, str, s1⟩ := v
    cases h
    exact ⟨str, rfl⟩

/-- A successful search of `ExecRE` ends with a successful attempt at a position not before
`string`, which has set the slots of group 0. -/
theorem exec_search_span (regex : Regex) (text : List Nat) (delimiters : List Bool)
    (fuel string : Nat) (end_ : Option Nat) (direction : Direction) (st0 st : ExecState)
    (hl : 0 < st0.startp_.length) (hle : 0 < st0.endp_.length)
    (h : exec_search regex text delimiters fuel string end_ direction st0 = some (true, st)) :
    SpanOfAttempt regex text delimiters fuel string st := by
  unfold exec_search at h
  cases direction with
  | Forward =>
    simp only [] at h
    by_cases ha : regex.anchor_ ≠ 0
    · rw [if_pos ha] at h
      cases hat : attempt regex text delimiters fuel string st0 with
      | none => rw [hat] at h; cases h
      | some v =>
        rw [hat] at h
        have hv := attempt_slots regex text delimiters fuel _ st0 _ hat
        obtain ⟨x, s1⟩ := v
        cases x with
        | true =>
          cases h
          obtain ⟨q, hq, hg⟩ := attempt_span regex text delimiters fuel _ st0 st hl hle hat
          exact ⟨string, q, st0, Nat.le_refl _, hq, hat, hg⟩
        | false =>
          simp only [] at h
          obtain ⟨str, hs⟩ := map_some_true h
          exact (exec_forward_span regex text delimiters fuel 0 string end_ _ _ _ _
            (Nat.le_refl _) (by rw [hv.1]; exact hl) (by rw [hv.2]; exact hle) hs).2 rfl
    · rw [if_neg ha] at h
      by_cases hm : regex.match_start_ ≠ 0
      · rw [if_pos hm] at h
        obtain ⟨str, hs⟩ := map_some_true h
        exact (exec_forward_span regex text delimiters fuel 1 string end_ _ _ _ _
          (Nat.le_refl _) hl hle hs).2 rfl
      · rw [if_neg hm] at h
        cases hf : exec_forward regex text delimiters fuel 2 end_ (text.length + 1 - string)
            string st0 with
        | none => rw [hf] at h; cases h
        | some v =>
          rw [hf] at h
          have hv := exec_forward_span regex text delimiters fuel 2 string end_ _ _ _ _
            (Nat.le_refl _) hl hle hf
          obtain ⟨x, str, s1⟩ := v
          cases x with
          | true =>
            cases h
            exact hv.2 rfl
          | false =>
            simp only [] at h
            split at h
            · obtain ⟨q, hq, hg⟩ := attempt_span regex text delimiters fuel _ s1 st hv.1.1
                hv.1.2.1 h
              exact ⟨str, q, s1, hv.1.2.2, hq, h, hg⟩
            · cases h
  | Backward =>
    simp only [] at h
    by_cases ha : regex.anchor_ ≠ 0
    · rw [if_pos ha] at h
      split at h
      · cases h
      · rename_i s1 hb
        cases h
        exact (exec_backward_span regex text delimiters fuel 0 string _ _ _ hl hle hb).2 rfl
      · rename_i s1 hb
        have hv := exec_backward_span regex text delimiters fuel 0 string _ _ _ hl hle hb
        split at h
        · obtain ⟨q, hq, hg⟩ := attempt_span regex text delimiters fuel _ s1 st hv.1.1
            hv.1.2 h
          exact ⟨string, q, s1, Nat.le_refl _, hq, h, hg⟩
        · cases h
    · rw [if_neg ha] at h
      by_cases hm : regex.match_start_ ≠ 0
      · rw [if_pos hm] at h
        exact (exec_backward_span regex text delimiters fuel 1 string _ _ _ hl hle h).2 rfl
      · rw [if_neg hm] at h
        exact (exec_backward_span regex text delimiters fuel 2 string _ _ _ hl hle h).2 rfl

/-- After a successful call of `ExecRE` the slots of group 0 hold the position `p` of the
attempt that matched, which is not before `string`, and a position `q` not before `p`. -/
theorem group_zero_span (regex : Regex) (fuel : Nat) (text : List Nat) (string : Nat)
    (end_ : Option Nat) (direction : Direction) (prev_char succ_char : Nat)
    (delimiters : Option (List Nat)) (look_behind_to match_to : Option Nat)
    (table current : List Bool) (mem st : ExecState)
    (hcur : current = match delimiters with
      | none => table
      | some d => makeDelimiterTable d tempDelimitTable)
    (h : ExecRE regex fuel text string end_ direction prev_char succ_char delimiters
      look_behind_to match_to table mem = some (true, st)) :
    ∃ (p q : Nat) (u : ExecState), string ≤ p ∧ p ≤ q
      ∧ attempt regex text current fuel p u = some (true, st)
      ∧ group st 0 = [some p, some q] := by
  subst hcur
  unfold ExecRE at h
  split at h
  · cases h
  · simp only [] at h
    split at h
    · cases h
    · rename_i ret_val s1 hs
      split at h
      · cases h
      · cases h
        have hl : 0 < (List.replicate 9 (some string) ++ mem.startp_.drop 9).length := by
          rw [List.length_append, List.length_replicate]
          exact Nat.lt_of_lt_of_le (by decide) (Nat.le_add_right 9 _)
        have hle : 0 < (List.replicate 9 (some string) ++ mem.endp_.drop 9).length := by
          rw [List.length_append, List.length_replicate]
          exact Nat.lt_of_lt_of_le (by decide) (Nat.le_add_right 9 _)
        exact exec_search_span _ _ _ _ _ _ _ _ _ hl hle hs

set_option maxRecDepth 100000 in
/-- The slots of group 1 after a match: in the compiled regexes of the examples the start is
not after the end, also for a group inside a look-behind, which starts before group 0; in a
program that is not compiled, with the node CLOSE 1 before the literal and the node OPEN 1
after it, the start of group 1 is after its end. -/
theorem group_span_examples :
    outcome (compile_and_execute (bytes "(a)") 50 (bytes "a"))
        = .ok (some (true, [some 0, some 1, some 0, some 1]))
      ∧ outcome (compile_and_execute (bytes "x(?:(a)|b)*") 50 (bytes "xab"))
        = .ok (some (true, [some 0, some 3, some 1, some 2]))
      ∧ outcome (compile_and_execute (bytes "(?<=(a))b") 50 (bytes "ab"))
        = .ok (some (true, [some 1, some 2, some 0, some 1]))
      ∧ outcome (compile_and_execute (bytes "(?=(ab))a") 50 (bytes "ab"))
        = .ok (some (true, [some 0, some 1, some 0, some 2]))
      ∧ (Execute
          { program_ := [156, 1, 0, 34, 0, 14, 100, 0, 3, 7, 0, 5, 97, 0, 50, 0, 3, 1, 0, 0, 0],
            match_start_ := 0, anchor_ := 0, Total_Paren := 2, Num_Braces := 0 }
          50 (bytes "a")).map (fun x => (x.1, group x.2 0 ++ group x.2 1))
        = some (true, [some 0, some 1, some 1, some 0]) := by
  refine ⟨by decide!, by decide!, by decide!, by decide!, by decide!⟩

end Nirvana
